import Mathlib

/-!
# BQL front end of sensorbee: the PEG recogniser of `bql/parser/bql.peg.go`

The Go file is machine generated.  Every entry of its `_rules` array is the expansion of one
PEG expression (printed in the comment above the entry) by a fixed set of code templates:

* `'c'`      : `if buffer[position] != rune('c') { goto ko }; position++`
* `[a-z]`    : `if c := buffer[position]; c < rune('a') || c > rune('z') { goto ko }; position++`
* `.`        : `if !matchDot() { goto ko }`
* `R`        : `if !_rules[ruleR]() { goto ko }`
* `a b`      : the code of `a` followed by the code of `b`, same `ko`
* `a / b`    : save `(position, tokenIndex, depth)`; `a`; on failure restore and run `b`
* `a?`       : save; `a`; on failure restore and go on
* `a*`       : loop: save; `a`; on success loop again, on failure restore and go on
* `a+`       : `a` followed by `a*`
* `!a`       : save; `a`; on success `goto ko`, on failure restore and go on
* `<a>`      : `p := position; depth++; a; depth--; add(rulePegText, p)`
* a rule     : save; `p := position; depth++; body; depth--; add(ruleR, p); return true`;
               at the failure label restore and `return false`
* an action  : `add(ruleActionN, position); return true`

`Peg` is the type of these expressions, `grammar` the table of the 172 rule bodies and `exec`
runs the templates on the parser state `(position, tokenIndex, depth, tree)`.
-/

namespace Bql

/-- The sentinel appended to the rune buffer: `const end_symbol rune = 1114112`. -/
def end_symbol : Nat := 1114112

inductive pegRule where
  | ruleUnknown
  | ruleSingleStatement
  | ruleStatementWithRest
  | ruleStatementWithoutRest
  | ruleStatement
  | ruleSourceStmt
  | ruleSinkStmt
  | ruleStateStmt
  | ruleStreamStmt
  | ruleSelectStmt
  | ruleSelectUnionStmt
  | ruleCreateStreamAsSelectStmt
  | ruleCreateStreamAsSelectUnionStmt
  | ruleCreateSourceStmt
  | ruleCreateSinkStmt
  | ruleCreateStateStmt
  | ruleUpdateStateStmt
  | ruleUpdateSourceStmt
  | ruleUpdateSinkStmt
  | ruleInsertIntoSelectStmt
  | ruleInsertIntoFromStmt
  | rulePauseSourceStmt
  | ruleResumeSourceStmt
  | ruleRewindSourceStmt
  | ruleDropSourceStmt
  | ruleDropStreamStmt
  | ruleDropSinkStmt
  | ruleDropStateStmt
  | ruleLoadStateStmt
  | ruleLoadStateOrCreateStmt
  | ruleSaveStateStmt
  | ruleEvalStmt
  | ruleEmitter
  | ruleEmitterOptions
  | ruleEmitterOptionCombinations
  | ruleEmitterLimit
  | ruleEmitterSample
  | ruleCountBasedSampling
  | ruleRandomizedSampling
  | ruleTimeBasedSampling
  | ruleTimeBasedSamplingSeconds
  | ruleTimeBasedSamplingMilliseconds
  | ruleProjections
  | ruleProjection
  | ruleAliasExpression
  | ruleWindowedFrom
  | ruleInterval
  | ruleTimeInterval
  | ruleTuplesInterval
  | ruleRelations
  | ruleFilter
  | ruleGrouping
  | ruleGroupList
  | ruleHaving
  | ruleRelationLike
  | ruleAliasedStreamWindow
  | ruleStreamWindow
  | ruleStreamLike
  | ruleUDSFFuncApp
  | ruleSourceSinkSpecs
  | ruleUpdateSourceSinkSpecs
  | ruleSetOptSpecs
  | ruleSourceSinkParam
  | ruleSourceSinkParamVal
  | ruleParamLiteral
  | ruleParamArrayExpr
  | rulePausedOpt
  | ruleExpressionOrWildcard
  | ruleExpression
  | ruleorExpr
  | ruleandExpr
  | rulenotExpr
  | rulecomparisonExpr
  | ruleotherOpExpr
  | ruleisExpr
  | ruletermExpr
  | ruleproductExpr
  | ruleminusExpr
  | rulecastExpr
  | rulebaseExpr
  | ruleFuncTypeCast
  | ruleFuncApp
  | ruleFuncAppWithOrderBy
  | ruleFuncAppWithoutOrderBy
  | ruleFuncParams
  | ruleParamsOrder
  | ruleSortedExpression
  | ruleOrderDirectionOpt
  | ruleArrayExpr
  | ruleMapExpr
  | ruleKeyValuePair
  | ruleLiteral
  | ruleComparisonOp
  | ruleOtherOp
  | ruleIsOp
  | rulePlusMinusOp
  | ruleMultDivOp
  | ruleStream
  | ruleRowMeta
  | ruleRowTimestamp
  | ruleRowValue
  | ruleNumericLiteral
  | ruleFloatLiteral
  | ruleFunction
  | ruleNullLiteral
  | ruleBooleanLiteral
  | ruleTRUE
  | ruleFALSE
  | ruleWildcard
  | ruleStringLiteral
  | ruleISTREAM
  | ruleDSTREAM
  | ruleRSTREAM
  | ruleTUPLES
  | ruleSECONDS
  | ruleMILLISECONDS
  | ruleStreamIdentifier
  | ruleSourceSinkType
  | ruleSourceSinkParamKey
  | rulePaused
  | ruleUnpaused
  | ruleAscending
  | ruleDescending
  | ruleType
  | ruleBool
  | ruleInt
  | ruleFloat
  | ruleString
  | ruleBlob
  | ruleTimestamp
  | ruleArray
  | ruleMap
  | ruleOr
  | ruleAnd
  | ruleNot
  | ruleEqual
  | ruleLess
  | ruleLessOrEqual
  | ruleGreater
  | ruleGreaterOrEqual
  | ruleNotEqual
  | ruleConcat
  | ruleIs
  | ruleIsNot
  | rulePlus
  | ruleMinus
  | ruleMultiply
  | ruleDivide
  | ruleModulo
  | ruleUnaryMinus
  | ruleIdentifier
  | ruleTargetIdentifier
  | ruleident
  | rulejsonGetPath
  | rulejsonSetPath
  | rulejsonPathHead
  | rulejsonGetPathNonHead
  | rulejsonSetPathNonHead
  | rulejsonMapSingleLevel
  | rulejsonMapMultipleLevel
  | rulejsonMapAccessString
  | rulejsonMapAccessBracket
  | rulesingleQuotedString
  | rulejsonArrayAccess
  | rulejsonNonNegativeArrayAccess
  | rulejsonArraySlice
  | rulejsonArrayPartialSlice
  | rulejsonArrayFullSlice
  | rulespElem
  | rulesp
  | rulespOpt
  | rulecomment
  | rulefinalComment
  | rulePegText
  | ruleAction0
  | ruleAction1
  | ruleAction2
  | ruleAction3
  | ruleAction4
  | ruleAction5
  | ruleAction6
  | ruleAction7
  | ruleAction8
  | ruleAction9
  | ruleAction10
  | ruleAction11
  | ruleAction12
  | ruleAction13
  | ruleAction14
  | ruleAction15
  | ruleAction16
  | ruleAction17
  | ruleAction18
  | ruleAction19
  | ruleAction20
  | ruleAction21
  | ruleAction22
  | ruleAction23
  | ruleAction24
  | ruleAction25
  | ruleAction26
  | ruleAction27
  | ruleAction28
  | ruleAction29
  | ruleAction30
  | ruleAction31
  | ruleAction32
  | ruleAction33
  | ruleAction34
  | ruleAction35
  | ruleAction36
  | ruleAction37
  | ruleAction38
  | ruleAction39
  | ruleAction40
  | ruleAction41
  | ruleAction42
  | ruleAction43
  | ruleAction44
  | ruleAction45
  | ruleAction46
  | ruleAction47
  | ruleAction48
  | ruleAction49
  | ruleAction50
  | ruleAction51
  | ruleAction52
  | ruleAction53
  | ruleAction54
  | ruleAction55
  | ruleAction56
  | ruleAction57
  | ruleAction58
  | ruleAction59
  | ruleAction60
  | ruleAction61
  | ruleAction62
  | ruleAction63
  | ruleAction64
  | ruleAction65
  | ruleAction66
  | ruleAction67
  | ruleAction68
  | ruleAction69
  | ruleAction70
  | ruleAction71
  | ruleAction72
  | ruleAction73
  | ruleAction74
  | ruleAction75
  | ruleAction76
  | ruleAction77
  | ruleAction78
  | ruleAction79
  | ruleAction80
  | ruleAction81
  | ruleAction82
  | ruleAction83
  | ruleAction84
  | ruleAction85
  | ruleAction86
  | ruleAction87
  | ruleAction88
  | ruleAction89
  | ruleAction90
  | ruleAction91
  | ruleAction92
  | ruleAction93
  | ruleAction94
  | ruleAction95
  | ruleAction96
  | ruleAction97
  | ruleAction98
  | ruleAction99
  | ruleAction100
  | ruleAction101
  | ruleAction102
  | ruleAction103
  | ruleAction104
  | ruleAction105
  | ruleAction106
  | ruleAction107
  | ruleAction108
  | ruleAction109
  | ruleAction110
  | ruleAction111
  | ruleAction112
  | ruleAction113
  | ruleAction114
  | ruleAction115
  | ruleAction116
  | ruleAction117
  | ruleAction118
  | ruleAction119
  | ruleAction120
  | ruleAction121
  | rulePre_
  | rule_In_
  | rule_Suf
deriving DecidableEq, Repr

/-- One entry of the token tree: `type token32 struct { pegRule; begin, end, next uint32 }`.
The field `next` holds the nesting depth. -/
structure token32 where
  rule : pegRule
  begin_ : Nat
  end_ : Nat
  next : Nat
deriving DecidableEq, Repr

/-- PEG expressions, one constructor per code template of the generated parser. -/
inductive Peg where
  | chr (c : Char)
  | rng (lo hi : Char)
  | dot
  | call (r : pegRule)
  | seq (a b : Peg)
  | alt (a b : Peg)
  | opt (a : Peg)
  | star (a : Peg)
  | nt (a : Peg)
  | text (a : Peg)
deriving Repr

/-- The code of `a+` is the code of `a` followed by the loop of `a*`. -/
@[reducible] def Peg.plus (a : Peg) : Peg := .seq a (.star a)

/-- A case-insensitive letter `('s' / 'S')`. -/
@[reducible] def Peg.ci (lo up : Char) : Peg := .alt (.chr lo) (.chr up)

/-- A sequence `e1 e2 ... en`: the code of the elements one after the other. -/
@[reducible] def Peg.seqs : List Peg → Peg
  | [] => .opt (.nt .dot)
  | [e] => e
  | e :: es => .seq e (Peg.seqs es)

/-- An ordered choice `e1 / e2 / ... / en`: every alternative but the last restores the
state saved on entry when it fails. -/
@[reducible] def Peg.alts : List Peg → Peg
  | [] => .nt (.opt .dot)
  | [e] => e
  | e :: es => .alt e (Peg.alts es)

/-- What an index of the `_rules` array holds: `nil`, an action, or a rule with its body. -/
inductive RuleDef where
  | nil
  | action
  | expr (body : Peg)
deriving Repr

namespace Body

/-- Rule 0, `SingleStatement <- <(spOpt (StatementWithRest / StatementWithoutRest) !.)>`. -/
def ruleSingleStatement : Peg :=
  .seqs [.call .rulespOpt, .alts [.call .ruleStatementWithRest, .call .ruleStatementWithoutRest], .nt (.dot)]

/-- Rule 1, `StatementWithRest <- <(<(Statement spOpt ';' spOpt)> .* Action0)>`. -/
def ruleStatementWithRest : Peg :=
  .seqs [.text (.seqs [.call .ruleStatement, .call .rulespOpt, .chr ';', .call .rulespOpt]), .star (.dot), .call .ruleAction0]

/-- Rule 2, `StatementWithoutRest <- <(<(Statement spOpt)> Action1)>`. -/
def ruleStatementWithoutRest : Peg :=
  .seqs [.text (.seqs [.call .ruleStatement, .call .rulespOpt]), .call .ruleAction1]

/-- Rule 3, `Statement <- <(SelectUnionStmt / SelectStmt / SourceStmt / SinkStmt / StateStmt / StreamStmt / EvalStmt)>`. -/
def ruleStatement : Peg :=
  .alts [.call .ruleSelectUnionStmt, .call .ruleSelectStmt, .call .ruleSourceStmt, .call .ruleSinkStmt, .call .ruleStateStmt, .call .ruleStreamStmt, .call .ruleEvalStmt]

/-- Rule 4, `SourceStmt <- <(CreateSourceStmt / UpdateSourceStmt / DropSourceStmt / PauseSourceStmt / ResumeSourceStmt / RewindSourceStmt)>`. -/
def ruleSourceStmt : Peg :=
  .alts [.call .ruleCreateSourceStmt, .call .ruleUpdateSourceStmt, .call .ruleDropSourceStmt, .call .rulePauseSourceStmt, .call .ruleResumeSourceStmt, .call .ruleRewindSourceStmt]

/-- Rule 5, `SinkStmt <- <(CreateSinkStmt / UpdateSinkStmt / DropSinkStmt)>`. -/
def ruleSinkStmt : Peg :=
  .alts [.call .ruleCreateSinkStmt, .call .ruleUpdateSinkStmt, .call .ruleDropSinkStmt]

/-- Rule 6, `StateStmt <- <(CreateStateStmt / UpdateStateStmt / DropStateStmt / LoadStateOrCreateStmt / LoadStateStmt / SaveStateStmt)>`. -/
def ruleStateStmt : Peg :=
  .alts [.call .ruleCreateStateStmt, .call .ruleUpdateStateStmt, .call .ruleDropStateStmt, .call .ruleLoadStateOrCreateStmt, .call .ruleLoadStateStmt, .call .ruleSaveStateStmt]

/-- Rule 7, `StreamStmt <- <(CreateStreamAsSelectUnionStmt / CreateStreamAsSelectStmt / DropStreamStmt / InsertIntoSelectStmt / InsertIntoFromStmt)>`. -/
def ruleStreamStmt : Peg :=
  .alts [.call .ruleCreateStreamAsSelectUnionStmt, .call .ruleCreateStreamAsSelectStmt, .call .ruleDropStreamStmt, .call .ruleInsertIntoSelectStmt, .call .ruleInsertIntoFromStmt]

/-- Rule 8, `SelectStmt <- <(('s' / 'S') ('e' / 'E') ('l' / 'L') ('e' / 'E') ('c' / 'C') ('t' / 'T') Emitter Projections WindowedFrom Filter Grouping Having Action2)>`. -/
def ruleSelectStmt : Peg :=
  .seqs [.ci 's' 'S', .ci 'e' 'E', .ci 'l' 'L', .ci 'e' 'E', .ci 'c' 'C', .ci 't' 'T', .call .ruleEmitter, .call .ruleProjections, .call .ruleWindowedFrom, .call .ruleFilter, .call .ruleGrouping, .call .ruleHaving, .call .ruleAction2]

/-- Rule 9, `SelectUnionStmt <- <(<(SelectStmt (sp (('u' / 'U') ('n' / 'N') ('i' / 'I') ('o' / 'O') ('n' / 'N')) sp (('a' / 'A') ('l' / 'L') ('l' / 'L')) sp SelectStmt)+)> Action3)>`. -/
def ruleSelectUnionStmt : Peg :=
  .seqs [.text (.seqs [.call .ruleSelectStmt, .plus (.seqs [.call .rulesp, .seqs [.ci 'u' 'U', .ci 'n' 'N', .ci 'i' 'I', .ci 'o' 'O', .ci 'n' 'N'], .call .rulesp, .seqs [.ci 'a' 'A', .ci 'l' 'L', .ci 'l' 'L'], .call .rulesp, .call .ruleSelectStmt])]), .call .ruleAction3]

/-- Rule 10, `CreateStreamAsSelectStmt <- <(('c' / 'C') ('r' / 'R') ('e' / 'E') ('a' / 'A') ('t' / 'T') ('e' / 'E') sp (('s' / 'S') ('t' / 'T') ('r' / 'R') ('e' / 'E') ('a' / 'A') ('m' / 'M')) sp StreamIdentifier sp (('a' / 'A') ('s' / 'S')) sp SelectStmt Action4)>`. -/
def ruleCreateStreamAsSelectStmt : Peg :=
  .seqs [.ci 'c' 'C', .ci 'r' 'R', .ci 'e' 'E', .ci 'a' 'A', .ci 't' 'T', .ci 'e' 'E', .call .rulesp, .seqs [.ci 's' 'S', .ci 't' 'T', .ci 'r' 'R', .ci 'e' 'E', .ci 'a' 'A', .ci 'm' 'M'], .call .rulesp, .call .ruleStreamIdentifier, .call .rulesp, .seqs [.ci 'a' 'A', .ci 's' 'S'], .call .rulesp, .call .ruleSelectStmt, .call .ruleAction4]

/-- Rule 11, `CreateStreamAsSelectUnionStmt <- <(('c' / 'C') ('r' / 'R') ('e' / 'E') ('a' / 'A') ('t' / 'T') ('e' / 'E') sp (('s' / 'S') ('t' / 'T') ('r' / 'R') ('e' / 'E') ('a' / 'A') ('m' / 'M')) sp StreamIdentifier sp (('a' / 'A') ('s' / 'S')) sp SelectUnionStmt Action5)>`. -/
def ruleCreateStreamAsSelectUnionStmt : Peg :=
  .seqs [.ci 'c' 'C', .ci 'r' 'R', .ci 'e' 'E', .ci 'a' 'A', .ci 't' 'T', .ci 'e' 'E', .call .rulesp, .seqs [.ci 's' 'S', .ci 't' 'T', .ci 'r' 'R', .ci 'e' 'E', .ci 'a' 'A', .ci 'm' 'M'], .call .rulesp, .call .ruleStreamIdentifier, .call .rulesp, .seqs [.ci 'a' 'A', .ci 's' 'S'], .call .rulesp, .call .ruleSelectUnionStmt, .call .ruleAction5]

/-- Rule 12, `CreateSourceStmt <- <(('c' / 'C') ('r' / 'R') ('e' / 'E') ('a' / 'A') ('t' / 'T') ('e' / 'E') PausedOpt sp (('s' / 'S') ('o' / 'O') ('u' / 'U') ('r' / 'R') ('c' / 'C') ('e' / 'E')) sp StreamIdentifier sp (('t' / 'T') ('y' / 'Y') ('p' / 'P') ('e' / 'E')) sp SourceSinkType SourceSinkSpecs Action6)>`. -/
def ruleCreateSourceStmt : Peg :=
  .seqs [.ci 'c' 'C', .ci 'r' 'R', .ci 'e' 'E', .ci 'a' 'A', .ci 't' 'T', .ci 'e' 'E', .call .rulePausedOpt, .call .rulesp, .seqs [.ci 's' 'S', .ci 'o' 'O', .ci 'u' 'U', .ci 'r' 'R', .ci 'c' 'C', .ci 'e' 'E'], .call .rulesp, .call .ruleStreamIdentifier, .call .rulesp, .seqs [.ci 't' 'T', .ci 'y' 'Y', .ci 'p' 'P', .ci 'e' 'E'], .call .rulesp, .call .ruleSourceSinkType, .call .ruleSourceSinkSpecs, .call .ruleAction6]

/-- Rule 13, `CreateSinkStmt <- <(('c' / 'C') ('r' / 'R') ('e' / 'E') ('a' / 'A') ('t' / 'T') ('e' / 'E') sp (('s' / 'S') ('i' / 'I') ('n' / 'N') ('k' / 'K')) sp StreamIdentifier sp (('t' / 'T') ('y' / 'Y') ('p' / 'P') ('e' / 'E')) sp SourceSinkType SourceSinkSpecs Action7)>`. -/
def ruleCreateSinkStmt : Peg :=
  .seqs [.ci 'c' 'C', .ci 'r' 'R', .ci 'e' 'E', .ci 'a' 'A', .ci 't' 'T', .ci 'e' 'E', .call .rulesp, .seqs [.ci 's' 'S', .ci 'i' 'I', .ci 'n' 'N', .ci 'k' 'K'], .call .rulesp, .call .ruleStreamIdentifier, .call .rulesp, .seqs [.ci 't' 'T', .ci 'y' 'Y', .ci 'p' 'P', .ci 'e' 'E'], .call .rulesp, .call .ruleSourceSinkType, .call .ruleSourceSinkSpecs, .call .ruleAction7]

/-- Rule 14, `CreateStateStmt <- <(('c' / 'C') ('r' / 'R') ('e' / 'E') ('a' / 'A') ('t' / 'T') ('e' / 'E') sp (('s' / 'S') ('t' / 'T') ('a' / 'A') ('t' / 'T') ('e' / 'E')) sp StreamIdentifier sp (('t' / 'T') ('y' / 'Y') ('p' / 'P') ('e' / 'E')) sp SourceSinkType SourceSinkSpecs Action8)>`. -/
def ruleCreateStateStmt : Peg :=
  .seqs [.ci 'c' 'C', .ci 'r' 'R', .ci 'e' 'E', .ci 'a' 'A', .ci 't' 'T', .ci 'e' 'E', .call .rulesp, .seqs [.ci 's' 'S', .ci 't' 'T', .ci 'a' 'A', .ci 't' 'T', .ci 'e' 'E'], .call .rulesp, .call .ruleStreamIdentifier, .call .rulesp, .seqs [.ci 't' 'T', .ci 'y' 'Y', .ci 'p' 'P', .ci 'e' 'E'], .call .rulesp, .call .ruleSourceSinkType, .call .ruleSourceSinkSpecs, .call .ruleAction8]

/-- Rule 15, `UpdateStateStmt <- <(('u' / 'U') ('p' / 'P') ('d' / 'D') ('a' / 'A') ('t' / 'T') ('e' / 'E') sp (('s' / 'S') ('t' / 'T') ('a' / 'A') ('t' / 'T') ('e' / 'E')) sp StreamIdentifier UpdateSourceSinkSpecs Action9)>`. -/
def ruleUpdateStateStmt : Peg :=
  .seqs [.ci 'u' 'U', .ci 'p' 'P', .ci 'd' 'D', .ci 'a' 'A', .ci 't' 'T', .ci 'e' 'E', .call .rulesp, .seqs [.ci 's' 'S', .ci 't' 'T', .ci 'a' 'A', .ci 't' 'T', .ci 'e' 'E'], .call .rulesp, .call .ruleStreamIdentifier, .call .ruleUpdateSourceSinkSpecs, .call .ruleAction9]

/-- Rule 16, `UpdateSourceStmt <- <(('u' / 'U') ('p' / 'P') ('d' / 'D') ('a' / 'A') ('t' / 'T') ('e' / 'E') sp (('s' / 'S') ('o' / 'O') ('u' / 'U') ('r' / 'R') ('c' / 'C') ('e' / 'E')) sp StreamIdentifier UpdateSourceSinkSpecs Action10)>`. -/
def ruleUpdateSourceStmt : Peg :=
  .seqs [.ci 'u' 'U', .ci 'p' 'P', .ci 'd' 'D', .ci 'a' 'A', .ci 't' 'T', .ci 'e' 'E', .call .rulesp, .seqs [.ci 's' 'S', .ci 'o' 'O', .ci 'u' 'U', .ci 'r' 'R', .ci 'c' 'C', .ci 'e' 'E'], .call .rulesp, .call .ruleStreamIdentifier, .call .ruleUpdateSourceSinkSpecs, .call .ruleAction10]

/-- Rule 17, `UpdateSinkStmt <- <(('u' / 'U') ('p' / 'P') ('d' / 'D') ('a' / 'A') ('t' / 'T') ('e' / 'E') sp (('s' / 'S') ('i' / 'I') ('n' / 'N') ('k' / 'K')) sp StreamIdentifier UpdateSourceSinkSpecs Action11)>`. -/
def ruleUpdateSinkStmt : Peg :=
  .seqs [.ci 'u' 'U', .ci 'p' 'P', .ci 'd' 'D', .ci 'a' 'A', .ci 't' 'T', .ci 'e' 'E', .call .rulesp, .seqs [.ci 's' 'S', .ci 'i' 'I', .ci 'n' 'N', .ci 'k' 'K'], .call .rulesp, .call .ruleStreamIdentifier, .call .ruleUpdateSourceSinkSpecs, .call .ruleAction11]

/-- Rule 18, `InsertIntoSelectStmt <- <(('i' / 'I') ('n' / 'N') ('s' / 'S') ('e' / 'E') ('r' / 'R') ('t' / 'T') sp (('i' / 'I') ('n' / 'N') ('t' / 'T') ('o' / 'O')) sp StreamIdentifier sp SelectStmt Action12)>`. -/
def ruleInsertIntoSelectStmt : Peg :=
  .seqs [.ci 'i' 'I', .ci 'n' 'N', .ci 's' 'S', .ci 'e' 'E', .ci 'r' 'R', .ci 't' 'T', .call .rulesp, .seqs [.ci 'i' 'I', .ci 'n' 'N', .ci 't' 'T', .ci 'o' 'O'], .call .rulesp, .call .ruleStreamIdentifier, .call .rulesp, .call .ruleSelectStmt, .call .ruleAction12]

/-- Rule 19, `InsertIntoFromStmt <- <(('i' / 'I') ('n' / 'N') ('s' / 'S') ('e' / 'E') ('r' / 'R') ('t' / 'T') sp (('i' / 'I') ('n' / 'N') ('t' / 'T') ('o' / 'O')) sp StreamIdentifier sp (('f' / 'F') ('r' / 'R') ('o' / 'O') ('m' / 'M')) sp StreamIdentifier Action13)>`. -/
def ruleInsertIntoFromStmt : Peg :=
  .seqs [.ci 'i' 'I', .ci 'n' 'N', .ci 's' 'S', .ci 'e' 'E', .ci 'r' 'R', .ci 't' 'T', .call .rulesp, .seqs [.ci 'i' 'I', .ci 'n' 'N', .ci 't' 'T', .ci 'o' 'O'], .call .rulesp, .call .ruleStreamIdentifier, .call .rulesp, .seqs [.ci 'f' 'F', .ci 'r' 'R', .ci 'o' 'O', .ci 'm' 'M'], .call .rulesp, .call .ruleStreamIdentifier, .call .ruleAction13]

/-- Rule 20, `PauseSourceStmt <- <(('p' / 'P') ('a' / 'A') ('u' / 'U') ('s' / 'S') ('e' / 'E') sp (('s' / 'S') ('o' / 'O') ('u' / 'U') ('r' / 'R') ('c' / 'C') ('e' / 'E')) sp StreamIdentifier Action14)>`. -/
def rulePauseSourceStmt : Peg :=
  .seqs [.ci 'p' 'P', .ci 'a' 'A', .ci 'u' 'U', .ci 's' 'S', .ci 'e' 'E', .call .rulesp, .seqs [.ci 's' 'S', .ci 'o' 'O', .ci 'u' 'U', .ci 'r' 'R', .ci 'c' 'C', .ci 'e' 'E'], .call .rulesp, .call .ruleStreamIdentifier, .call .ruleAction14]

/-- Rule 21, `ResumeSourceStmt <- <(('r' / 'R') ('e' / 'E') ('s' / 'S') ('u' / 'U') ('m' / 'M') ('e' / 'E') sp (('s' / 'S') ('o' / 'O') ('u' / 'U') ('r' / 'R') ('c' / 'C') ('e' / 'E')) sp StreamIdentifier Action15)>`. -/
def ruleResumeSourceStmt : Peg :=
  .seqs [.ci 'r' 'R', .ci 'e' 'E', .ci 's' 'S', .ci 'u' 'U', .ci 'm' 'M', .ci 'e' 'E', .call .rulesp, .seqs [.ci 's' 'S', .ci 'o' 'O', .ci 'u' 'U', .ci 'r' 'R', .ci 'c' 'C', .ci 'e' 'E'], .call .rulesp, .call .ruleStreamIdentifier, .call .ruleAction15]

/-- Rule 22, `RewindSourceStmt <- <(('r' / 'R') ('e' / 'E') ('w' / 'W') ('i' / 'I') ('n' / 'N') ('d' / 'D') sp (('s' / 'S') ('o' / 'O') ('u' / 'U') ('r' / 'R') ('c' / 'C') ('e' / 'E')) sp StreamIdentifier Action16)>`. -/
def ruleRewindSourceStmt : Peg :=
  .seqs [.ci 'r' 'R', .ci 'e' 'E', .ci 'w' 'W', .ci 'i' 'I', .ci 'n' 'N', .ci 'd' 'D', .call .rulesp, .seqs [.ci 's' 'S', .ci 'o' 'O', .ci 'u' 'U', .ci 'r' 'R', .ci 'c' 'C', .ci 'e' 'E'], .call .rulesp, .call .ruleStreamIdentifier, .call .ruleAction16]

/-- Rule 23, `DropSourceStmt <- <(('d' / 'D') ('r' / 'R') ('o' / 'O') ('p' / 'P') sp (('s' / 'S') ('o' / 'O') ('u' / 'U') ('r' / 'R') ('c' / 'C') ('e' / 'E')) sp StreamIdentifier Action17)>`. -/
def ruleDropSourceStmt : Peg :=
  .seqs [.ci 'd' 'D', .ci 'r' 'R', .ci 'o' 'O', .ci 'p' 'P', .call .rulesp, .seqs [.ci 's' 'S', .ci 'o' 'O', .ci 'u' 'U', .ci 'r' 'R', .ci 'c' 'C', .ci 'e' 'E'], .call .rulesp, .call .ruleStreamIdentifier, .call .ruleAction17]

/-- Rule 24, `DropStreamStmt <- <(('d' / 'D') ('r' / 'R') ('o' / 'O') ('p' / 'P') sp (('s' / 'S') ('t' / 'T') ('r' / 'R') ('e' / 'E') ('a' / 'A') ('m' / 'M')) sp StreamIdentifier Action18)>`. -/
def ruleDropStreamStmt : Peg :=
  .seqs [.ci 'd' 'D', .ci 'r' 'R', .ci 'o' 'O', .ci 'p' 'P', .call .rulesp, .seqs [.ci 's' 'S', .ci 't' 'T', .ci 'r' 'R', .ci 'e' 'E', .ci 'a' 'A', .ci 'm' 'M'], .call .rulesp, .call .ruleStreamIdentifier, .call .ruleAction18]

/-- Rule 25, `DropSinkStmt <- <(('d' / 'D') ('r' / 'R') ('o' / 'O') ('p' / 'P') sp (('s' / 'S') ('i' / 'I') ('n' / 'N') ('k' / 'K')) sp StreamIdentifier Action19)>`. -/
def ruleDropSinkStmt : Peg :=
  .seqs [.ci 'd' 'D', .ci 'r' 'R', .ci 'o' 'O', .ci 'p' 'P', .call .rulesp, .seqs [.ci 's' 'S', .ci 'i' 'I', .ci 'n' 'N', .ci 'k' 'K'], .call .rulesp, .call .ruleStreamIdentifier, .call .ruleAction19]

/-- Rule 26, `DropStateStmt <- <(('d' / 'D') ('r' / 'R') ('o' / 'O') ('p' / 'P') sp (('s' / 'S') ('t' / 'T') ('a' / 'A') ('t' / 'T') ('e' / 'E')) sp StreamIdentifier Action20)>`. -/
def ruleDropStateStmt : Peg :=
  .seqs [.ci 'd' 'D', .ci 'r' 'R', .ci 'o' 'O', .ci 'p' 'P', .call .rulesp, .seqs [.ci 's' 'S', .ci 't' 'T', .ci 'a' 'A', .ci 't' 'T', .ci 'e' 'E'], .call .rulesp, .call .ruleStreamIdentifier, .call .ruleAction20]

/-- Rule 27, `LoadStateStmt <- <(('l' / 'L') ('o' / 'O') ('a' / 'A') ('d' / 'D') sp (('s' / 'S') ('t' / 'T') ('a' / 'A') ('t' / 'T') ('e' / 'E')) sp StreamIdentifier sp (('t' / 'T') ('y' / 'Y') ('p' / 'P') ('e' / 'E')) sp SourceSinkType SetOptSpecs Action21)>`. -/
def ruleLoadStateStmt : Peg :=
  .seqs [.ci 'l' 'L', .ci 'o' 'O', .ci 'a' 'A', .ci 'd' 'D', .call .rulesp, .seqs [.ci 's' 'S', .ci 't' 'T', .ci 'a' 'A', .ci 't' 'T', .ci 'e' 'E'], .call .rulesp, .call .ruleStreamIdentifier, .call .rulesp, .seqs [.ci 't' 'T', .ci 'y' 'Y', .ci 'p' 'P', .ci 'e' 'E'], .call .rulesp, .call .ruleSourceSinkType, .call .ruleSetOptSpecs, .call .ruleAction21]

/-- Rule 28, `LoadStateOrCreateStmt <- <(LoadStateStmt sp (('o' / 'O') ('r' / 'R')) sp (('c' / 'C') ('r' / 'R') ('e' / 'E') ('a' / 'A') ('t' / 'T') ('e' / 'E')) sp (('i' / 'I') ('f' / 'F')) sp (('n' / 'N') ('o' / 'O') ('t' / 'T')) sp (('e' / 'E') ('x' / 'X') ('i' / 'I') ('s' / 'S') ('t' / 'T') ('s' / 'S')) SourceSinkSpecs Action22)>`. -/
def ruleLoadStateOrCreateStmt : Peg :=
  .seqs [.call .ruleLoadStateStmt, .call .rulesp, .seqs [.ci 'o' 'O', .ci 'r' 'R'], .call .rulesp, .seqs [.ci 'c' 'C', .ci 'r' 'R', .ci 'e' 'E', .ci 'a' 'A', .ci 't' 'T', .ci 'e' 'E'], .call .rulesp, .seqs [.ci 'i' 'I', .ci 'f' 'F'], .call .rulesp, .seqs [.ci 'n' 'N', .ci 'o' 'O', .ci 't' 'T'], .call .rulesp, .seqs [.ci 'e' 'E', .ci 'x' 'X', .ci 'i' 'I', .ci 's' 'S', .ci 't' 'T', .ci 's' 'S'], .call .ruleSourceSinkSpecs, .call .ruleAction22]

/-- Rule 29, `SaveStateStmt <- <(('s' / 'S') ('a' / 'A') ('v' / 'V') ('e' / 'E') sp (('s' / 'S') ('t' / 'T') ('a' / 'A') ('t' / 'T') ('e' / 'E')) sp StreamIdentifier Action23)>`. -/
def ruleSaveStateStmt : Peg :=
  .seqs [.ci 's' 'S', .ci 'a' 'A', .ci 'v' 'V', .ci 'e' 'E', .call .rulesp, .seqs [.ci 's' 'S', .ci 't' 'T', .ci 'a' 'A', .ci 't' 'T', .ci 'e' 'E'], .call .rulesp, .call .ruleStreamIdentifier, .call .ruleAction23]

/-- Rule 30, `EvalStmt <- <(('e' / 'E') ('v' / 'V') ('a' / 'A') ('l' / 'L') sp Expression <(sp (('o' / 'O') ('n' / 'N')) sp MapExpr)?> Action24)>`. -/
def ruleEvalStmt : Peg :=
  .seqs [.ci 'e' 'E', .ci 'v' 'V', .ci 'a' 'A', .ci 'l' 'L', .call .rulesp, .call .ruleExpression, .text (.opt (.seqs [.call .rulesp, .seqs [.ci 'o' 'O', .ci 'n' 'N'], .call .rulesp, .call .ruleMapExpr])), .call .ruleAction24]

/-- Rule 31, `Emitter <- <(sp (ISTREAM / DSTREAM / RSTREAM) EmitterOptions Action25)>`. -/
def ruleEmitter : Peg :=
  .seqs [.call .rulesp, .alts [.call .ruleISTREAM, .call .ruleDSTREAM, .call .ruleRSTREAM], .call .ruleEmitterOptions, .call .ruleAction25]

/-- Rule 32, `EmitterOptions <- <(<(spOpt '[' spOpt EmitterOptionCombinations spOpt ']')?> Action26)>`. -/
def ruleEmitterOptions : Peg :=
  .seqs [.text (.opt (.seqs [.call .rulespOpt, .chr '[', .call .rulespOpt, .call .ruleEmitterOptionCombinations, .call .rulespOpt, .chr ']'])), .call .ruleAction26]

/-- Rule 33, `EmitterOptionCombinations <- <(EmitterLimit / (EmitterSample sp EmitterLimit) / EmitterSample)>`. -/
def ruleEmitterOptionCombinations : Peg :=
  .alts [.call .ruleEmitterLimit, .seqs [.call .ruleEmitterSample, .call .rulesp, .call .ruleEmitterLimit], .call .ruleEmitterSample]

/-- Rule 34, `EmitterLimit <- <(('l' / 'L') ('i' / 'I') ('m' / 'M') ('i' / 'I') ('t' / 'T') sp NumericLiteral Action27)>`. -/
def ruleEmitterLimit : Peg :=
  .seqs [.ci 'l' 'L', .ci 'i' 'I', .ci 'm' 'M', .ci 'i' 'I', .ci 't' 'T', .call .rulesp, .call .ruleNumericLiteral, .call .ruleAction27]

/-- Rule 35, `EmitterSample <- <(CountBasedSampling / RandomizedSampling / TimeBasedSampling)>`. -/
def ruleEmitterSample : Peg :=
  .alts [.call .ruleCountBasedSampling, .call .ruleRandomizedSampling, .call .ruleTimeBasedSampling]

/-- Rule 36, `CountBasedSampling <- <(('e' / 'E') ('v' / 'V') ('e' / 'E') ('r' / 'R') ('y' / 'Y') sp NumericLiteral spOpt '-'? spOpt ((('s' / 'S') ('t' / 'T')) / (('n' / 'N') ('d' / 'D')) / (('r' / 'R') ('d' / 'D')) / (('t' / 'T') ('h' / 'H'))) sp (('t' / 'T') ('u' / 'U') ('p' / 'P') ('l' / 'L') ('e' / 'E')) Action28)>`. -/
def ruleCountBasedSampling : Peg :=
  .seqs [.ci 'e' 'E', .ci 'v' 'V', .ci 'e' 'E', .ci 'r' 'R', .ci 'y' 'Y', .call .rulesp, .call .ruleNumericLiteral, .call .rulespOpt, .opt (.chr '-'), .call .rulespOpt, .alts [.seqs [.ci 's' 'S', .ci 't' 'T'], .seqs [.ci 'n' 'N', .ci 'd' 'D'], .seqs [.ci 'r' 'R', .ci 'd' 'D'], .seqs [.ci 't' 'T', .ci 'h' 'H']], .call .rulesp, .seqs [.ci 't' 'T', .ci 'u' 'U', .ci 'p' 'P', .ci 'l' 'L', .ci 'e' 'E'], .call .ruleAction28]

/-- Rule 37, `RandomizedSampling <- <(('s' / 'S') ('a' / 'A') ('m' / 'M') ('p' / 'P') ('l' / 'L') ('e' / 'E') sp (FloatLiteral / NumericLiteral) spOpt '%' Action29)>`. -/
def ruleRandomizedSampling : Peg :=
  .seqs [.ci 's' 'S', .ci 'a' 'A', .ci 'm' 'M', .ci 'p' 'P', .ci 'l' 'L', .ci 'e' 'E', .call .rulesp, .alts [.call .ruleFloatLiteral, .call .ruleNumericLiteral], .call .rulespOpt, .chr '%', .call .ruleAction29]

/-- Rule 38, `TimeBasedSampling <- <(TimeBasedSamplingSeconds / TimeBasedSamplingMilliseconds)>`. -/
def ruleTimeBasedSampling : Peg :=
  .alts [.call .ruleTimeBasedSamplingSeconds, .call .ruleTimeBasedSamplingMilliseconds]

/-- Rule 39, `TimeBasedSamplingSeconds <- <(('e' / 'E') ('v' / 'V') ('e' / 'E') ('r' / 'R') ('y' / 'Y') sp (FloatLiteral / NumericLiteral) sp (('s' / 'S') ('e' / 'E') ('c' / 'C') ('o' / 'O') ('n' / 'N') ('d' / 'D') ('s' / 'S')) Action30)>`. -/
def ruleTimeBasedSamplingSeconds : Peg :=
  .seqs [.ci 'e' 'E', .ci 'v' 'V', .ci 'e' 'E', .ci 'r' 'R', .ci 'y' 'Y', .call .rulesp, .alts [.call .ruleFloatLiteral, .call .ruleNumericLiteral], .call .rulesp, .seqs [.ci 's' 'S', .ci 'e' 'E', .ci 'c' 'C', .ci 'o' 'O', .ci 'n' 'N', .ci 'd' 'D', .ci 's' 'S'], .call .ruleAction30]

/-- Rule 40, `TimeBasedSamplingMilliseconds <- <(('e' / 'E') ('v' / 'V') ('e' / 'E') ('r' / 'R') ('y' / 'Y') sp (FloatLiteral / NumericLiteral) sp (('m' / 'M') ('i' / 'I') ('l' / 'L') ('l' / 'L') ('i' / 'I') ('s' / 'S') ('e' / 'E') ('c' / 'C') ('o' / 'O') ('n' / 'N') ('d' / 'D') ('s' / 'S')) Action31)>`. -/
def ruleTimeBasedSamplingMilliseconds : Peg :=
  .seqs [.ci 'e' 'E', .ci 'v' 'V', .ci 'e' 'E', .ci 'r' 'R', .ci 'y' 'Y', .call .rulesp, .alts [.call .ruleFloatLiteral, .call .ruleNumericLiteral], .call .rulesp, .seqs [.ci 'm' 'M', .ci 'i' 'I', .ci 'l' 'L', .ci 'l' 'L', .ci 'i' 'I', .ci 's' 'S', .ci 'e' 'E', .ci 'c' 'C', .ci 'o' 'O', .ci 'n' 'N', .ci 'd' 'D', .ci 's' 'S'], .call .ruleAction31]

/-- Rule 41, `Projections <- <(<(sp Projection (spOpt ',' spOpt Projection)*)> Action32)>`. -/
def ruleProjections : Peg :=
  .seqs [.text (.seqs [.call .rulesp, .call .ruleProjection, .star (.seqs [.call .rulespOpt, .chr ',', .call .rulespOpt, .call .ruleProjection])]), .call .ruleAction32]

/-- Rule 42, `Projection <- <(AliasExpression / ExpressionOrWildcard)>`. -/
def ruleProjection : Peg :=
  .alts [.call .ruleAliasExpression, .call .ruleExpressionOrWildcard]

/-- Rule 43, `AliasExpression <- <(ExpressionOrWildcard sp (('a' / 'A') ('s' / 'S')) sp TargetIdentifier Action33)>`. -/
def ruleAliasExpression : Peg :=
  .seqs [.call .ruleExpressionOrWildcard, .call .rulesp, .seqs [.ci 'a' 'A', .ci 's' 'S'], .call .rulesp, .call .ruleTargetIdentifier, .call .ruleAction33]

/-- Rule 44, `WindowedFrom <- <(<(sp (('f' / 'F') ('r' / 'R') ('o' / 'O') ('m' / 'M')) sp Relations)?> Action34)>`. -/
def ruleWindowedFrom : Peg :=
  .seqs [.text (.opt (.seqs [.call .rulesp, .seqs [.ci 'f' 'F', .ci 'r' 'R', .ci 'o' 'O', .ci 'm' 'M'], .call .rulesp, .call .ruleRelations])), .call .ruleAction34]

/-- Rule 45, `Interval <- <(TimeInterval / TuplesInterval)>`. -/
def ruleInterval : Peg :=
  .alts [.call .ruleTimeInterval, .call .ruleTuplesInterval]

/-- Rule 46, `TimeInterval <- <((FloatLiteral / NumericLiteral) sp (SECONDS / MILLISECONDS) Action35)>`. -/
def ruleTimeInterval : Peg :=
  .seqs [.alts [.call .ruleFloatLiteral, .call .ruleNumericLiteral], .call .rulesp, .alts [.call .ruleSECONDS, .call .ruleMILLISECONDS], .call .ruleAction35]

/-- Rule 47, `TuplesInterval <- <(NumericLiteral sp TUPLES Action36)>`. -/
def ruleTuplesInterval : Peg :=
  .seqs [.call .ruleNumericLiteral, .call .rulesp, .call .ruleTUPLES, .call .ruleAction36]

/-- Rule 48, `Relations <- <(RelationLike (spOpt ',' spOpt RelationLike)*)>`. -/
def ruleRelations : Peg :=
  .seqs [.call .ruleRelationLike, .star (.seqs [.call .rulespOpt, .chr ',', .call .rulespOpt, .call .ruleRelationLike])]

/-- Rule 49, `Filter <- <(<(sp (('w' / 'W') ('h' / 'H') ('e' / 'E') ('r' / 'R') ('e' / 'E')) sp Expression)?> Action37)>`. -/
def ruleFilter : Peg :=
  .seqs [.text (.opt (.seqs [.call .rulesp, .seqs [.ci 'w' 'W', .ci 'h' 'H', .ci 'e' 'E', .ci 'r' 'R', .ci 'e' 'E'], .call .rulesp, .call .ruleExpression])), .call .ruleAction37]

/-- Rule 50, `Grouping <- <(<(sp (('g' / 'G') ('r' / 'R') ('o' / 'O') ('u' / 'U') ('p' / 'P')) sp (('b' / 'B') ('y' / 'Y')) sp GroupList)?> Action38)>`. -/
def ruleGrouping : Peg :=
  .seqs [.text (.opt (.seqs [.call .rulesp, .seqs [.ci 'g' 'G', .ci 'r' 'R', .ci 'o' 'O', .ci 'u' 'U', .ci 'p' 'P'], .call .rulesp, .seqs [.ci 'b' 'B', .ci 'y' 'Y'], .call .rulesp, .call .ruleGroupList])), .call .ruleAction38]

/-- Rule 51, `GroupList <- <(Expression (spOpt ',' spOpt Expression)*)>`. -/
def ruleGroupList : Peg :=
  .seqs [.call .ruleExpression, .star (.seqs [.call .rulespOpt, .chr ',', .call .rulespOpt, .call .ruleExpression])]

/-- Rule 52, `Having <- <(<(sp (('h' / 'H') ('a' / 'A') ('v' / 'V') ('i' / 'I') ('n' / 'N') ('g' / 'G')) sp Expression)?> Action39)>`. -/
def ruleHaving : Peg :=
  .seqs [.text (.opt (.seqs [.call .rulesp, .seqs [.ci 'h' 'H', .ci 'a' 'A', .ci 'v' 'V', .ci 'i' 'I', .ci 'n' 'N', .ci 'g' 'G'], .call .rulesp, .call .ruleExpression])), .call .ruleAction39]

/-- Rule 53, `RelationLike <- <(AliasedStreamWindow / (StreamWindow Action40))>`. -/
def ruleRelationLike : Peg :=
  .alts [.call .ruleAliasedStreamWindow, .seqs [.call .ruleStreamWindow, .call .ruleAction40]]

/-- Rule 54, `AliasedStreamWindow <- <(StreamWindow sp (('a' / 'A') ('s' / 'S')) sp Identifier Action41)>`. -/
def ruleAliasedStreamWindow : Peg :=
  .seqs [.call .ruleStreamWindow, .call .rulesp, .seqs [.ci 'a' 'A', .ci 's' 'S'], .call .rulesp, .call .ruleIdentifier, .call .ruleAction41]

/-- Rule 55, `StreamWindow <- <(StreamLike spOpt '[' spOpt (('r' / 'R') ('a' / 'A') ('n' / 'N') ('g' / 'G') ('e' / 'E')) sp Interval spOpt ']' Action42)>`. -/
def ruleStreamWindow : Peg :=
  .seqs [.call .ruleStreamLike, .call .rulespOpt, .chr '[', .call .rulespOpt, .seqs [.ci 'r' 'R', .ci 'a' 'A', .ci 'n' 'N', .ci 'g' 'G', .ci 'e' 'E'], .call .rulesp, .call .ruleInterval, .call .rulespOpt, .chr ']', .call .ruleAction42]

/-- Rule 56, `StreamLike <- <(UDSFFuncApp / Stream)>`. -/
def ruleStreamLike : Peg :=
  .alts [.call .ruleUDSFFuncApp, .call .ruleStream]

/-- Rule 57, `UDSFFuncApp <- <(FuncAppWithoutOrderBy Action43)>`. -/
def ruleUDSFFuncApp : Peg :=
  .seqs [.call .ruleFuncAppWithoutOrderBy, .call .ruleAction43]

/-- Rule 58, `SourceSinkSpecs <- <(<(sp (('w' / 'W') ('i' / 'I') ('t' / 'T') ('h' / 'H')) sp SourceSinkParam (spOpt ',' spOpt SourceSinkParam)*)?> Action44)>`. -/
def ruleSourceSinkSpecs : Peg :=
  .seqs [.text (.opt (.seqs [.call .rulesp, .seqs [.ci 'w' 'W', .ci 'i' 'I', .ci 't' 'T', .ci 'h' 'H'], .call .rulesp, .call .ruleSourceSinkParam, .star (.seqs [.call .rulespOpt, .chr ',', .call .rulespOpt, .call .ruleSourceSinkParam])])), .call .ruleAction44]

/-- Rule 59, `UpdateSourceSinkSpecs <- <(<(sp (('s' / 'S') ('e' / 'E') ('t' / 'T')) sp SourceSinkParam (spOpt ',' spOpt SourceSinkParam)*)> Action45)>`. -/
def ruleUpdateSourceSinkSpecs : Peg :=
  .seqs [.text (.seqs [.call .rulesp, .seqs [.ci 's' 'S', .ci 'e' 'E', .ci 't' 'T'], .call .rulesp, .call .ruleSourceSinkParam, .star (.seqs [.call .rulespOpt, .chr ',', .call .rulespOpt, .call .ruleSourceSinkParam])]), .call .ruleAction45]

/-- Rule 60, `SetOptSpecs <- <(<(sp (('s' / 'S') ('e' / 'E') ('t' / 'T')) sp SourceSinkParam (spOpt ',' spOpt SourceSinkParam)*)?> Action46)>`. -/
def ruleSetOptSpecs : Peg :=
  .seqs [.text (.opt (.seqs [.call .rulesp, .seqs [.ci 's' 'S', .ci 'e' 'E', .ci 't' 'T'], .call .rulesp, .call .ruleSourceSinkParam, .star (.seqs [.call .rulespOpt, .chr ',', .call .rulespOpt, .call .ruleSourceSinkParam])])), .call .ruleAction46]

/-- Rule 61, `SourceSinkParam <- <(SourceSinkParamKey '=' SourceSinkParamVal Action47)>`. -/
def ruleSourceSinkParam : Peg :=
  .seqs [.call .ruleSourceSinkParamKey, .chr '=', .call .ruleSourceSinkParamVal, .call .ruleAction47]

/-- Rule 62, `SourceSinkParamVal <- <(ParamLiteral / ParamArrayExpr)>`. -/
def ruleSourceSinkParamVal : Peg :=
  .alts [.call .ruleParamLiteral, .call .ruleParamArrayExpr]

/-- Rule 63, `ParamLiteral <- <(BooleanLiteral / Literal)>`. -/
def ruleParamLiteral : Peg :=
  .alts [.call .ruleBooleanLiteral, .call .ruleLiteral]

/-- Rule 64, `ParamArrayExpr <- <(<('[' spOpt (ParamLiteral (',' spOpt ParamLiteral)*)? spOpt ','? spOpt ']')> Action48)>`. -/
def ruleParamArrayExpr : Peg :=
  .seqs [.text (.seqs [.chr '[', .call .rulespOpt, .opt (.seqs [.call .ruleParamLiteral, .star (.seqs [.chr ',', .call .rulespOpt, .call .ruleParamLiteral])]), .call .rulespOpt, .opt (.chr ','), .call .rulespOpt, .chr ']']), .call .ruleAction48]

/-- Rule 65, `PausedOpt <- <(<(sp (Paused / Unpaused))?> Action49)>`. -/
def rulePausedOpt : Peg :=
  .seqs [.text (.opt (.seqs [.call .rulesp, .alts [.call .rulePaused, .call .ruleUnpaused]])), .call .ruleAction49]

/-- Rule 66, `ExpressionOrWildcard <- <(Wildcard / Expression)>`. -/
def ruleExpressionOrWildcard : Peg :=
  .alts [.call .ruleWildcard, .call .ruleExpression]

/-- Rule 67, `Expression <- <orExpr>`. -/
def ruleExpression : Peg :=
  .call .ruleorExpr

/-- Rule 68, `orExpr <- <(<(andExpr (sp Or sp andExpr)*)> Action50)>`. -/
def ruleorExpr : Peg :=
  .seqs [.text (.seqs [.call .ruleandExpr, .star (.seqs [.call .rulesp, .call .ruleOr, .call .rulesp, .call .ruleandExpr])]), .call .ruleAction50]

/-- Rule 69, `andExpr <- <(<(notExpr (sp And sp notExpr)*)> Action51)>`. -/
def ruleandExpr : Peg :=
  .seqs [.text (.seqs [.call .rulenotExpr, .star (.seqs [.call .rulesp, .call .ruleAnd, .call .rulesp, .call .rulenotExpr])]), .call .ruleAction51]

/-- Rule 70, `notExpr <- <(<((Not sp)? comparisonExpr)> Action52)>`. -/
def rulenotExpr : Peg :=
  .seqs [.text (.seqs [.opt (.seqs [.call .ruleNot, .call .rulesp]), .call .rulecomparisonExpr]), .call .ruleAction52]

/-- Rule 71, `comparisonExpr <- <(<(otherOpExpr (spOpt ComparisonOp spOpt otherOpExpr)?)> Action53)>`. -/
def rulecomparisonExpr : Peg :=
  .seqs [.text (.seqs [.call .ruleotherOpExpr, .opt (.seqs [.call .rulespOpt, .call .ruleComparisonOp, .call .rulespOpt, .call .ruleotherOpExpr])]), .call .ruleAction53]

/-- Rule 72, `otherOpExpr <- <(<(isExpr (spOpt OtherOp spOpt isExpr)*)> Action54)>`. -/
def ruleotherOpExpr : Peg :=
  .seqs [.text (.seqs [.call .ruleisExpr, .star (.seqs [.call .rulespOpt, .call .ruleOtherOp, .call .rulespOpt, .call .ruleisExpr])]), .call .ruleAction54]

/-- Rule 73, `isExpr <- <(<(termExpr (sp IsOp sp NullLiteral)?)> Action55)>`. -/
def ruleisExpr : Peg :=
  .seqs [.text (.seqs [.call .ruletermExpr, .opt (.seqs [.call .rulesp, .call .ruleIsOp, .call .rulesp, .call .ruleNullLiteral])]), .call .ruleAction55]

/-- Rule 74, `termExpr <- <(<(productExpr (spOpt PlusMinusOp spOpt productExpr)*)> Action56)>`. -/
def ruletermExpr : Peg :=
  .seqs [.text (.seqs [.call .ruleproductExpr, .star (.seqs [.call .rulespOpt, .call .rulePlusMinusOp, .call .rulespOpt, .call .ruleproductExpr])]), .call .ruleAction56]

/-- Rule 75, `productExpr <- <(<(minusExpr (spOpt MultDivOp spOpt minusExpr)*)> Action57)>`. -/
def ruleproductExpr : Peg :=
  .seqs [.text (.seqs [.call .ruleminusExpr, .star (.seqs [.call .rulespOpt, .call .ruleMultDivOp, .call .rulespOpt, .call .ruleminusExpr])]), .call .ruleAction57]

/-- Rule 76, `minusExpr <- <(<((UnaryMinus spOpt)? castExpr)> Action58)>`. -/
def ruleminusExpr : Peg :=
  .seqs [.text (.seqs [.opt (.seqs [.call .ruleUnaryMinus, .call .rulespOpt]), .call .rulecastExpr]), .call .ruleAction58]

/-- Rule 77, `castExpr <- <(<(baseExpr (spOpt (':' ':') spOpt Type)?)> Action59)>`. -/
def rulecastExpr : Peg :=
  .seqs [.text (.seqs [.call .rulebaseExpr, .opt (.seqs [.call .rulespOpt, .seqs [.chr ':', .chr ':'], .call .rulespOpt, .call .ruleType])]), .call .ruleAction59]

/-- Rule 78, `baseExpr <- <(('(' spOpt Expression spOpt ')') / MapExpr / BooleanLiteral / NullLiteral / RowMeta / FuncTypeCast / FuncApp / RowValue / ArrayExpr / Literal)>`. -/
def rulebaseExpr : Peg :=
  .alts [.seqs [.chr '(', .call .rulespOpt, .call .ruleExpression, .call .rulespOpt, .chr ')'], .call .ruleMapExpr, .call .ruleBooleanLiteral, .call .ruleNullLiteral, .call .ruleRowMeta, .call .ruleFuncTypeCast, .call .ruleFuncApp, .call .ruleRowValue, .call .ruleArrayExpr, .call .ruleLiteral]

/-- Rule 79, `FuncTypeCast <- <(<(('c' / 'C') ('a' / 'A') ('s' / 'S') ('t' / 'T') spOpt '(' spOpt Expression sp (('a' / 'A') ('s' / 'S')) sp Type spOpt ')')> Action60)>`. -/
def ruleFuncTypeCast : Peg :=
  .seqs [.text (.seqs [.ci 'c' 'C', .ci 'a' 'A', .ci 's' 'S', .ci 't' 'T', .call .rulespOpt, .chr '(', .call .rulespOpt, .call .ruleExpression, .call .rulesp, .seqs [.ci 'a' 'A', .ci 's' 'S'], .call .rulesp, .call .ruleType, .call .rulespOpt, .chr ')']), .call .ruleAction60]

/-- Rule 80, `FuncApp <- <(FuncAppWithOrderBy / FuncAppWithoutOrderBy)>`. -/
def ruleFuncApp : Peg :=
  .alts [.call .ruleFuncAppWithOrderBy, .call .ruleFuncAppWithoutOrderBy]

/-- Rule 81, `FuncAppWithOrderBy <- <(Function spOpt '(' spOpt FuncParams sp ParamsOrder spOpt ')' Action61)>`. -/
def ruleFuncAppWithOrderBy : Peg :=
  .seqs [.call .ruleFunction, .call .rulespOpt, .chr '(', .call .rulespOpt, .call .ruleFuncParams, .call .rulesp, .call .ruleParamsOrder, .call .rulespOpt, .chr ')', .call .ruleAction61]

/-- Rule 82, `FuncAppWithoutOrderBy <- <(Function spOpt '(' spOpt FuncParams <spOpt> ')' Action62)>`. -/
def ruleFuncAppWithoutOrderBy : Peg :=
  .seqs [.call .ruleFunction, .call .rulespOpt, .chr '(', .call .rulespOpt, .call .ruleFuncParams, .text (.call .rulespOpt), .chr ')', .call .ruleAction62]

/-- Rule 83, `FuncParams <- <(<(ExpressionOrWildcard (spOpt ',' spOpt ExpressionOrWildcard)*)?> Action63)>`. -/
def ruleFuncParams : Peg :=
  .seqs [.text (.opt (.seqs [.call .ruleExpressionOrWildcard, .star (.seqs [.call .rulespOpt, .chr ',', .call .rulespOpt, .call .ruleExpressionOrWildcard])])), .call .ruleAction63]

/-- Rule 84, `ParamsOrder <- <(<(('o' / 'O') ('r' / 'R') ('d' / 'D') ('e' / 'E') ('r' / 'R') sp (('b' / 'B') ('y' / 'Y')) sp SortedExpression (spOpt ',' spOpt SortedExpression)*)> Action64)>`. -/
def ruleParamsOrder : Peg :=
  .seqs [.text (.seqs [.ci 'o' 'O', .ci 'r' 'R', .ci 'd' 'D', .ci 'e' 'E', .ci 'r' 'R', .call .rulesp, .seqs [.ci 'b' 'B', .ci 'y' 'Y'], .call .rulesp, .call .ruleSortedExpression, .star (.seqs [.call .rulespOpt, .chr ',', .call .rulespOpt, .call .ruleSortedExpression])]), .call .ruleAction64]

/-- Rule 85, `SortedExpression <- <(Expression OrderDirectionOpt Action65)>`. -/
def ruleSortedExpression : Peg :=
  .seqs [.call .ruleExpression, .call .ruleOrderDirectionOpt, .call .ruleAction65]

/-- Rule 86, `OrderDirectionOpt <- <(<(sp (Ascending / Descending))?> Action66)>`. -/
def ruleOrderDirectionOpt : Peg :=
  .seqs [.text (.opt (.seqs [.call .rulesp, .alts [.call .ruleAscending, .call .ruleDescending]])), .call .ruleAction66]

/-- Rule 87, `ArrayExpr <- <(<('[' spOpt (ExpressionOrWildcard (spOpt ',' spOpt ExpressionOrWildcard)*)? spOpt ','? spOpt ']')> Action67)>`. -/
def ruleArrayExpr : Peg :=
  .seqs [.text (.seqs [.chr '[', .call .rulespOpt, .opt (.seqs [.call .ruleExpressionOrWildcard, .star (.seqs [.call .rulespOpt, .chr ',', .call .rulespOpt, .call .ruleExpressionOrWildcard])]), .call .rulespOpt, .opt (.chr ','), .call .rulespOpt, .chr ']']), .call .ruleAction67]

/-- Rule 88, `MapExpr <- <(<('{' spOpt (KeyValuePair (spOpt ',' spOpt KeyValuePair)*)? spOpt '}')> Action68)>`. -/
def ruleMapExpr : Peg :=
  .seqs [.text (.seqs [.chr '{', .call .rulespOpt, .opt (.seqs [.call .ruleKeyValuePair, .star (.seqs [.call .rulespOpt, .chr ',', .call .rulespOpt, .call .ruleKeyValuePair])]), .call .rulespOpt, .chr '}']), .call .ruleAction68]

/-- Rule 89, `KeyValuePair <- <(<(StringLiteral spOpt ':' spOpt ExpressionOrWildcard)> Action69)>`. -/
def ruleKeyValuePair : Peg :=
  .seqs [.text (.seqs [.call .ruleStringLiteral, .call .rulespOpt, .chr ':', .call .rulespOpt, .call .ruleExpressionOrWildcard]), .call .ruleAction69]

/-- Rule 90, `Literal <- <(FloatLiteral / NumericLiteral / StringLiteral)>`. -/
def ruleLiteral : Peg :=
  .alts [.call .ruleFloatLiteral, .call .ruleNumericLiteral, .call .ruleStringLiteral]

/-- Rule 91, `ComparisonOp <- <(Equal / NotEqual / LessOrEqual / Less / GreaterOrEqual / Greater / NotEqual)>`. -/
def ruleComparisonOp : Peg :=
  .alts [.call .ruleEqual, .call .ruleNotEqual, .call .ruleLessOrEqual, .call .ruleLess, .call .ruleGreaterOrEqual, .call .ruleGreater, .call .ruleNotEqual]

/-- Rule 92, `OtherOp <- <Concat>`. -/
def ruleOtherOp : Peg :=
  .call .ruleConcat

/-- Rule 93, `IsOp <- <(IsNot / Is)>`. -/
def ruleIsOp : Peg :=
  .alts [.call .ruleIsNot, .call .ruleIs]

/-- Rule 94, `PlusMinusOp <- <(Plus / Minus)>`. -/
def rulePlusMinusOp : Peg :=
  .alts [.call .rulePlus, .call .ruleMinus]

/-- Rule 95, `MultDivOp <- <(Multiply / Divide / Modulo)>`. -/
def ruleMultDivOp : Peg :=
  .alts [.call .ruleMultiply, .call .ruleDivide, .call .ruleModulo]

/-- Rule 96, `Stream <- <(<ident> Action70)>`. -/
def ruleStream : Peg :=
  .seqs [.text (.call .ruleident), .call .ruleAction70]

/-- Rule 97, `RowMeta <- <RowTimestamp>`. -/
def ruleRowMeta : Peg :=
  .call .ruleRowTimestamp

/-- Rule 98, `RowTimestamp <- <(<((ident ':')? ('t' 's' '(' ')'))> Action71)>`. -/
def ruleRowTimestamp : Peg :=
  .seqs [.text (.seqs [.opt (.seqs [.call .ruleident, .chr ':']), .seqs [.chr 't', .chr 's', .chr '(', .chr ')']]), .call .ruleAction71]

/-- Rule 99, `RowValue <- <(<((ident ':' !':')? jsonGetPath)> Action72)>`. -/
def ruleRowValue : Peg :=
  .seqs [.text (.seqs [.opt (.seqs [.call .ruleident, .chr ':', .nt (.chr ':')]), .call .rulejsonGetPath]), .call .ruleAction72]

/-- Rule 100, `NumericLiteral <- <(<('-'? [0-9]+)> Action73)>`. -/
def ruleNumericLiteral : Peg :=
  .seqs [.text (.seqs [.opt (.chr '-'), .plus (.rng '0' '9')]), .call .ruleAction73]

/-- Rule 101, `FloatLiteral <- <(<('-'? [0-9]+ '.' [0-9]+)> Action74)>`. -/
def ruleFloatLiteral : Peg :=
  .seqs [.text (.seqs [.opt (.chr '-'), .plus (.rng '0' '9'), .chr '.', .plus (.rng '0' '9')]), .call .ruleAction74]

/-- Rule 102, `Function <- <(<ident> Action75)>`. -/
def ruleFunction : Peg :=
  .seqs [.text (.call .ruleident), .call .ruleAction75]

/-- Rule 103, `NullLiteral <- <(<(('n' / 'N') ('u' / 'U') ('l' / 'L') ('l' / 'L'))> Action76)>`. -/
def ruleNullLiteral : Peg :=
  .seqs [.text (.seqs [.ci 'n' 'N', .ci 'u' 'U', .ci 'l' 'L', .ci 'l' 'L']), .call .ruleAction76]

/-- Rule 104, `BooleanLiteral <- <(TRUE / FALSE)>`. -/
def ruleBooleanLiteral : Peg :=
  .alts [.call .ruleTRUE, .call .ruleFALSE]

/-- Rule 105, `TRUE <- <(<(('t' / 'T') ('r' / 'R') ('u' / 'U') ('e' / 'E'))> Action77)>`. -/
def ruleTRUE : Peg :=
  .seqs [.text (.seqs [.ci 't' 'T', .ci 'r' 'R', .ci 'u' 'U', .ci 'e' 'E']), .call .ruleAction77]

/-- Rule 106, `FALSE <- <(<(('f' / 'F') ('a' / 'A') ('l' / 'L') ('s' / 'S') ('e' / 'E'))> Action78)>`. -/
def ruleFALSE : Peg :=
  .seqs [.text (.seqs [.ci 'f' 'F', .ci 'a' 'A', .ci 'l' 'L', .ci 's' 'S', .ci 'e' 'E']), .call .ruleAction78]

/-- Rule 107, `Wildcard <- <(<((ident ':' !':')? '*')> Action79)>`. -/
def ruleWildcard : Peg :=
  .seqs [.text (.seqs [.opt (.seqs [.call .ruleident, .chr ':', .nt (.chr ':')]), .chr '*']), .call .ruleAction79]

/-- Rule 108, `StringLiteral <- <(<('\'' (('\'' '\'') / (!'\'' .))* '\'')> Action80)>`. -/
def ruleStringLiteral : Peg :=
  .seqs [.text (.seqs [.chr '\'', .star (.alts [.seqs [.chr '\'', .chr '\''], .seqs [.nt (.chr '\''), .dot]]), .chr '\'']), .call .ruleAction80]

/-- Rule 109, `ISTREAM <- <(<(('i' / 'I') ('s' / 'S') ('t' / 'T') ('r' / 'R') ('e' / 'E') ('a' / 'A') ('m' / 'M'))> Action81)>`. -/
def ruleISTREAM : Peg :=
  .seqs [.text (.seqs [.ci 'i' 'I', .ci 's' 'S', .ci 't' 'T', .ci 'r' 'R', .ci 'e' 'E', .ci 'a' 'A', .ci 'm' 'M']), .call .ruleAction81]

/-- Rule 110, `DSTREAM <- <(<(('d' / 'D') ('s' / 'S') ('t' / 'T') ('r' / 'R') ('e' / 'E') ('a' / 'A') ('m' / 'M'))> Action82)>`. -/
def ruleDSTREAM : Peg :=
  .seqs [.text (.seqs [.ci 'd' 'D', .ci 's' 'S', .ci 't' 'T', .ci 'r' 'R', .ci 'e' 'E', .ci 'a' 'A', .ci 'm' 'M']), .call .ruleAction82]

/-- Rule 111, `RSTREAM <- <(<(('r' / 'R') ('s' / 'S') ('t' / 'T') ('r' / 'R') ('e' / 'E') ('a' / 'A') ('m' / 'M'))> Action83)>`. -/
def ruleRSTREAM : Peg :=
  .seqs [.text (.seqs [.ci 'r' 'R', .ci 's' 'S', .ci 't' 'T', .ci 'r' 'R', .ci 'e' 'E', .ci 'a' 'A', .ci 'm' 'M']), .call .ruleAction83]

/-- Rule 112, `TUPLES <- <(<(('t' / 'T') ('u' / 'U') ('p' / 'P') ('l' / 'L') ('e' / 'E') ('s' / 'S'))> Action84)>`. -/
def ruleTUPLES : Peg :=
  .seqs [.text (.seqs [.ci 't' 'T', .ci 'u' 'U', .ci 'p' 'P', .ci 'l' 'L', .ci 'e' 'E', .ci 's' 'S']), .call .ruleAction84]

/-- Rule 113, `SECONDS <- <(<(('s' / 'S') ('e' / 'E') ('c' / 'C') ('o' / 'O') ('n' / 'N') ('d' / 'D') ('s' / 'S'))> Action85)>`. -/
def ruleSECONDS : Peg :=
  .seqs [.text (.seqs [.ci 's' 'S', .ci 'e' 'E', .ci 'c' 'C', .ci 'o' 'O', .ci 'n' 'N', .ci 'd' 'D', .ci 's' 'S']), .call .ruleAction85]

/-- Rule 114, `MILLISECONDS <- <(<(('m' / 'M') ('i' / 'I') ('l' / 'L') ('l' / 'L') ('i' / 'I') ('s' / 'S') ('e' / 'E') ('c' / 'C') ('o' / 'O') ('n' / 'N') ('d' / 'D') ('s' / 'S'))> Action86)>`. -/
def ruleMILLISECONDS : Peg :=
  .seqs [.text (.seqs [.ci 'm' 'M', .ci 'i' 'I', .ci 'l' 'L', .ci 'l' 'L', .ci 'i' 'I', .ci 's' 'S', .ci 'e' 'E', .ci 'c' 'C', .ci 'o' 'O', .ci 'n' 'N', .ci 'd' 'D', .ci 's' 'S']), .call .ruleAction86]

/-- Rule 115, `StreamIdentifier <- <(<ident> Action87)>`. -/
def ruleStreamIdentifier : Peg :=
  .seqs [.text (.call .ruleident), .call .ruleAction87]

/-- Rule 116, `SourceSinkType <- <(<ident> Action88)>`. -/
def ruleSourceSinkType : Peg :=
  .seqs [.text (.call .ruleident), .call .ruleAction88]

/-- Rule 117, `SourceSinkParamKey <- <(<ident> Action89)>`. -/
def ruleSourceSinkParamKey : Peg :=
  .seqs [.text (.call .ruleident), .call .ruleAction89]

/-- Rule 118, `Paused <- <(<(('p' / 'P') ('a' / 'A') ('u' / 'U') ('s' / 'S') ('e' / 'E') ('d' / 'D'))> Action90)>`. -/
def rulePaused : Peg :=
  .seqs [.text (.seqs [.ci 'p' 'P', .ci 'a' 'A', .ci 'u' 'U', .ci 's' 'S', .ci 'e' 'E', .ci 'd' 'D']), .call .ruleAction90]

/-- Rule 119, `Unpaused <- <(<(('u' / 'U') ('n' / 'N') ('p' / 'P') ('a' / 'A') ('u' / 'U') ('s' / 'S') ('e' / 'E') ('d' / 'D'))> Action91)>`. -/
def ruleUnpaused : Peg :=
  .seqs [.text (.seqs [.ci 'u' 'U', .ci 'n' 'N', .ci 'p' 'P', .ci 'a' 'A', .ci 'u' 'U', .ci 's' 'S', .ci 'e' 'E', .ci 'd' 'D']), .call .ruleAction91]

/-- Rule 120, `Ascending <- <(<(('a' / 'A') ('s' / 'S') ('c' / 'C'))> Action92)>`. -/
def ruleAscending : Peg :=
  .seqs [.text (.seqs [.ci 'a' 'A', .ci 's' 'S', .ci 'c' 'C']), .call .ruleAction92]

/-- Rule 121, `Descending <- <(<(('d' / 'D') ('e' / 'E') ('s' / 'S') ('c' / 'C'))> Action93)>`. -/
def ruleDescending : Peg :=
  .seqs [.text (.seqs [.ci 'd' 'D', .ci 'e' 'E', .ci 's' 'S', .ci 'c' 'C']), .call .ruleAction93]

/-- Rule 122, `Type <- <(Bool / Int / Float / String / Blob / Timestamp / Array / Map)>`. -/
def ruleType : Peg :=
  .alts [.call .ruleBool, .call .ruleInt, .call .ruleFloat, .call .ruleString, .call .ruleBlob, .call .ruleTimestamp, .call .ruleArray, .call .ruleMap]

/-- Rule 123, `Bool <- <(<(('b' / 'B') ('o' / 'O') ('o' / 'O') ('l' / 'L'))> Action94)>`. -/
def ruleBool : Peg :=
  .seqs [.text (.seqs [.ci 'b' 'B', .ci 'o' 'O', .ci 'o' 'O', .ci 'l' 'L']), .call .ruleAction94]

/-- Rule 124, `Int <- <(<(('i' / 'I') ('n' / 'N') ('t' / 'T'))> Action95)>`. -/
def ruleInt : Peg :=
  .seqs [.text (.seqs [.ci 'i' 'I', .ci 'n' 'N', .ci 't' 'T']), .call .ruleAction95]

/-- Rule 125, `Float <- <(<(('f' / 'F') ('l' / 'L') ('o' / 'O') ('a' / 'A') ('t' / 'T'))> Action96)>`. -/
def ruleFloat : Peg :=
  .seqs [.text (.seqs [.ci 'f' 'F', .ci 'l' 'L', .ci 'o' 'O', .ci 'a' 'A', .ci 't' 'T']), .call .ruleAction96]

/-- Rule 126, `String <- <(<(('s' / 'S') ('t' / 'T') ('r' / 'R') ('i' / 'I') ('n' / 'N') ('g' / 'G'))> Action97)>`. -/
def ruleString : Peg :=
  .seqs [.text (.seqs [.ci 's' 'S', .ci 't' 'T', .ci 'r' 'R', .ci 'i' 'I', .ci 'n' 'N', .ci 'g' 'G']), .call .ruleAction97]

/-- Rule 127, `Blob <- <(<(('b' / 'B') ('l' / 'L') ('o' / 'O') ('b' / 'B'))> Action98)>`. -/
def ruleBlob : Peg :=
  .seqs [.text (.seqs [.ci 'b' 'B', .ci 'l' 'L', .ci 'o' 'O', .ci 'b' 'B']), .call .ruleAction98]

/-- Rule 128, `Timestamp <- <(<(('t' / 'T') ('i' / 'I') ('m' / 'M') ('e' / 'E') ('s' / 'S') ('t' / 'T') ('a' / 'A') ('m' / 'M') ('p' / 'P'))> Action99)>`. -/
def ruleTimestamp : Peg :=
  .seqs [.text (.seqs [.ci 't' 'T', .ci 'i' 'I', .ci 'm' 'M', .ci 'e' 'E', .ci 's' 'S', .ci 't' 'T', .ci 'a' 'A', .ci 'm' 'M', .ci 'p' 'P']), .call .ruleAction99]

/-- Rule 129, `Array <- <(<(('a' / 'A') ('r' / 'R') ('r' / 'R') ('a' / 'A') ('y' / 'Y'))> Action100)>`. -/
def ruleArray : Peg :=
  .seqs [.text (.seqs [.ci 'a' 'A', .ci 'r' 'R', .ci 'r' 'R', .ci 'a' 'A', .ci 'y' 'Y']), .call .ruleAction100]

/-- Rule 130, `Map <- <(<(('m' / 'M') ('a' / 'A') ('p' / 'P'))> Action101)>`. -/
def ruleMap : Peg :=
  .seqs [.text (.seqs [.ci 'm' 'M', .ci 'a' 'A', .ci 'p' 'P']), .call .ruleAction101]

/-- Rule 131, `Or <- <(<(('o' / 'O') ('r' / 'R'))> Action102)>`. -/
def ruleOr : Peg :=
  .seqs [.text (.seqs [.ci 'o' 'O', .ci 'r' 'R']), .call .ruleAction102]

/-- Rule 132, `And <- <(<(('a' / 'A') ('n' / 'N') ('d' / 'D'))> Action103)>`. -/
def ruleAnd : Peg :=
  .seqs [.text (.seqs [.ci 'a' 'A', .ci 'n' 'N', .ci 'd' 'D']), .call .ruleAction103]

/-- Rule 133, `Not <- <(<(('n' / 'N') ('o' / 'O') ('t' / 'T'))> Action104)>`. -/
def ruleNot : Peg :=
  .seqs [.text (.seqs [.ci 'n' 'N', .ci 'o' 'O', .ci 't' 'T']), .call .ruleAction104]

/-- Rule 134, `Equal <- <(<'='> Action105)>`. -/
def ruleEqual : Peg :=
  .seqs [.text (.chr '='), .call .ruleAction105]

/-- Rule 135, `Less <- <(<'<'> Action106)>`. -/
def ruleLess : Peg :=
  .seqs [.text (.chr '<'), .call .ruleAction106]

/-- Rule 136, `LessOrEqual <- <(<('<' '=')> Action107)>`. -/
def ruleLessOrEqual : Peg :=
  .seqs [.text (.seqs [.chr '<', .chr '=']), .call .ruleAction107]

/-- Rule 137, `Greater <- <(<'>'> Action108)>`. -/
def ruleGreater : Peg :=
  .seqs [.text (.chr '>'), .call .ruleAction108]

/-- Rule 138, `GreaterOrEqual <- <(<('>' '=')> Action109)>`. -/
def ruleGreaterOrEqual : Peg :=
  .seqs [.text (.seqs [.chr '>', .chr '=']), .call .ruleAction109]

/-- Rule 139, `NotEqual <- <(<(('!' '=') / ('<' '>'))> Action110)>`. -/
def ruleNotEqual : Peg :=
  .seqs [.text (.alts [.seqs [.chr '!', .chr '='], .seqs [.chr '<', .chr '>']]), .call .ruleAction110]

/-- Rule 140, `Concat <- <(<('|' '|')> Action111)>`. -/
def ruleConcat : Peg :=
  .seqs [.text (.seqs [.chr '|', .chr '|']), .call .ruleAction111]

/-- Rule 141, `Is <- <(<(('i' / 'I') ('s' / 'S'))> Action112)>`. -/
def ruleIs : Peg :=
  .seqs [.text (.seqs [.ci 'i' 'I', .ci 's' 'S']), .call .ruleAction112]

/-- Rule 142, `IsNot <- <(<(('i' / 'I') ('s' / 'S') sp (('n' / 'N') ('o' / 'O') ('t' / 'T')))> Action113)>`. -/
def ruleIsNot : Peg :=
  .seqs [.text (.seqs [.ci 'i' 'I', .ci 's' 'S', .call .rulesp, .seqs [.ci 'n' 'N', .ci 'o' 'O', .ci 't' 'T']]), .call .ruleAction113]

/-- Rule 143, `Plus <- <(<'+'> Action114)>`. -/
def rulePlus : Peg :=
  .seqs [.text (.chr '+'), .call .ruleAction114]

/-- Rule 144, `Minus <- <(<'-'> Action115)>`. -/
def ruleMinus : Peg :=
  .seqs [.text (.chr '-'), .call .ruleAction115]

/-- Rule 145, `Multiply <- <(<'*'> Action116)>`. -/
def ruleMultiply : Peg :=
  .seqs [.text (.chr '*'), .call .ruleAction116]

/-- Rule 146, `Divide <- <(<'/'> Action117)>`. -/
def ruleDivide : Peg :=
  .seqs [.text (.chr '/'), .call .ruleAction117]

/-- Rule 147, `Modulo <- <(<'%'> Action118)>`. -/
def ruleModulo : Peg :=
  .seqs [.text (.chr '%'), .call .ruleAction118]

/-- Rule 148, `UnaryMinus <- <(<'-'> Action119)>`. -/
def ruleUnaryMinus : Peg :=
  .seqs [.text (.chr '-'), .call .ruleAction119]

/-- Rule 149, `Identifier <- <(<ident> Action120)>`. -/
def ruleIdentifier : Peg :=
  .seqs [.text (.call .ruleident), .call .ruleAction120]

/-- Rule 150, `TargetIdentifier <- <(<('*' / jsonSetPath)> Action121)>`. -/
def ruleTargetIdentifier : Peg :=
  .seqs [.text (.alts [.chr '*', .call .rulejsonSetPath]), .call .ruleAction121]

/-- Rule 151, `ident <- <(([a-z] / [A-Z]) ([a-z] / [A-Z] / [0-9] / '_')*)>`. -/
def ruleident : Peg :=
  .seqs [.alts [.rng 'a' 'z', .rng 'A' 'Z'], .star (.alts [.rng 'a' 'z', .rng 'A' 'Z', .rng '0' '9', .chr '_'])]

/-- Rule 152, `jsonGetPath <- <(jsonPathHead jsonGetPathNonHead*)>`. -/
def rulejsonGetPath : Peg :=
  .seqs [.call .rulejsonPathHead, .star (.call .rulejsonGetPathNonHead)]

/-- Rule 153, `jsonSetPath <- <(jsonPathHead jsonSetPathNonHead*)>`. -/
def rulejsonSetPath : Peg :=
  .seqs [.call .rulejsonPathHead, .star (.call .rulejsonSetPathNonHead)]

/-- Rule 154, `jsonPathHead <- <(jsonMapAccessString / jsonMapAccessBracket)>`. -/
def rulejsonPathHead : Peg :=
  .alts [.call .rulejsonMapAccessString, .call .rulejsonMapAccessBracket]

/-- Rule 155, `jsonGetPathNonHead <- <(jsonMapMultipleLevel / jsonMapSingleLevel / jsonArrayFullSlice / jsonArrayPartialSlice / jsonArraySlice / jsonArrayAccess)>`. -/
def rulejsonGetPathNonHead : Peg :=
  .alts [.call .rulejsonMapMultipleLevel, .call .rulejsonMapSingleLevel, .call .rulejsonArrayFullSlice, .call .rulejsonArrayPartialSlice, .call .rulejsonArraySlice, .call .rulejsonArrayAccess]

/-- Rule 156, `jsonSetPathNonHead <- <(jsonMapSingleLevel / jsonNonNegativeArrayAccess)>`. -/
def rulejsonSetPathNonHead : Peg :=
  .alts [.call .rulejsonMapSingleLevel, .call .rulejsonNonNegativeArrayAccess]

/-- Rule 157, `jsonMapSingleLevel <- <(('.' jsonMapAccessString) / jsonMapAccessBracket)>`. -/
def rulejsonMapSingleLevel : Peg :=
  .alts [.seqs [.chr '.', .call .rulejsonMapAccessString], .call .rulejsonMapAccessBracket]

/-- Rule 158, `jsonMapMultipleLevel <- <('.' '.' (jsonMapAccessString / jsonMapAccessBracket))>`. -/
def rulejsonMapMultipleLevel : Peg :=
  .seqs [.chr '.', .chr '.', .alts [.call .rulejsonMapAccessString, .call .rulejsonMapAccessBracket]]

/-- Rule 159, `jsonMapAccessString <- <<(([a-z] / [A-Z]) ([a-z] / [A-Z] / [0-9] / '_')*)>>`. -/
def rulejsonMapAccessString : Peg :=
  .text (.seqs [.alts [.rng 'a' 'z', .rng 'A' 'Z'], .star (.alts [.rng 'a' 'z', .rng 'A' 'Z', .rng '0' '9', .chr '_'])])

/-- Rule 160, `jsonMapAccessBracket <- <('[' singleQuotedString ']')>`. -/
def rulejsonMapAccessBracket : Peg :=
  .seqs [.chr '[', .call .rulesingleQuotedString, .chr ']']

/-- Rule 161, `singleQuotedString <- <('\'' <(('\'' '\'') / (!'\'' .))*> '\'')>`. -/
def rulesingleQuotedString : Peg :=
  .seqs [.chr '\'', .text (.star (.alts [.seqs [.chr '\'', .chr '\''], .seqs [.nt (.chr '\''), .dot]])), .chr '\'']

/-- Rule 162, `jsonArrayAccess <- <('[' <('-'? [0-9]+)> ']')>`. -/
def rulejsonArrayAccess : Peg :=
  .seqs [.chr '[', .text (.seqs [.opt (.chr '-'), .plus (.rng '0' '9')]), .chr ']']

/-- Rule 163, `jsonNonNegativeArrayAccess <- <('[' <[0-9]+> ']')>`. -/
def rulejsonNonNegativeArrayAccess : Peg :=
  .seqs [.chr '[', .text (.plus (.rng '0' '9')), .chr ']']

/-- Rule 164, `jsonArraySlice <- <('[' <('-'? [0-9]+ ':' '-'? [0-9]+ (':' '-'? [0-9]+)?)> ']')>`. -/
def rulejsonArraySlice : Peg :=
  .seqs [.chr '[', .text (.seqs [.opt (.chr '-'), .plus (.rng '0' '9'), .chr ':', .opt (.chr '-'), .plus (.rng '0' '9'), .opt (.seqs [.chr ':', .opt (.chr '-'), .plus (.rng '0' '9')])]), .chr ']']

/-- Rule 165, `jsonArrayPartialSlice <- <('[' <((':' '-'? [0-9]+) / ('-'? [0-9]+ ':'))> ']')>`. -/
def rulejsonArrayPartialSlice : Peg :=
  .seqs [.chr '[', .text (.alts [.seqs [.chr ':', .opt (.chr '-'), .plus (.rng '0' '9')], .seqs [.opt (.chr '-'), .plus (.rng '0' '9'), .chr ':']]), .chr ']']

/-- Rule 166, `jsonArrayFullSlice <- <('[' ':' ']')>`. -/
def rulejsonArrayFullSlice : Peg :=
  .seqs [.chr '[', .chr ':', .chr ']']

/-- Rule 167, `spElem <- <(' ' / '\t' / '\n' / '\r' / comment / finalComment)>`. -/
def rulespElem : Peg :=
  .alts [.chr ' ', .chr '\t', .chr '\n', .chr '\r', .call .rulecomment, .call .rulefinalComment]

/-- Rule 168, `sp <- <spElem+>`. -/
def rulesp : Peg :=
  .plus (.call .rulespElem)

/-- Rule 169, `spOpt <- <spElem*>`. -/
def rulespOpt : Peg :=
  .star (.call .rulespElem)

/-- Rule 170, `comment <- <('-' '-' (!('\r' / '\n') .)* ('\r' / '\n'))>`. -/
def rulecomment : Peg :=
  .seqs [.chr '-', .chr '-', .star (.seqs [.nt (.alts [.chr '\r', .chr '\n']), .dot]), .alts [.chr '\r', .chr '\n']]

/-- Rule 171, `finalComment <- <('-' '-' (!('\r' / '\n') .)* !.)>`. -/
def rulefinalComment : Peg :=
  .seqs [.chr '-', .chr '-', .star (.seqs [.nt (.alts [.chr '\r', .chr '\n']), .dot]), .nt (.dot)]

end Body

/-- The array `_rules`: what each rule id holds. -/
def grammar : pegRule → RuleDef
  | .ruleSingleStatement => .expr Body.ruleSingleStatement
  | .ruleStatementWithRest => .expr Body.ruleStatementWithRest
  | .ruleStatementWithoutRest => .expr Body.ruleStatementWithoutRest
  | .ruleStatement => .expr Body.ruleStatement
  | .ruleSourceStmt => .expr Body.ruleSourceStmt
  | .ruleSinkStmt => .expr Body.ruleSinkStmt
  | .ruleStateStmt => .expr Body.ruleStateStmt
  | .ruleStreamStmt => .expr Body.ruleStreamStmt
  | .ruleSelectStmt => .expr Body.ruleSelectStmt
  | .ruleSelectUnionStmt => .expr Body.ruleSelectUnionStmt
  | .ruleCreateStreamAsSelectStmt => .expr Body.ruleCreateStreamAsSelectStmt
  | .ruleCreateStreamAsSelectUnionStmt => .expr Body.ruleCreateStreamAsSelectUnionStmt
  | .ruleCreateSourceStmt => .expr Body.ruleCreateSourceStmt
  | .ruleCreateSinkStmt => .expr Body.ruleCreateSinkStmt
  | .ruleCreateStateStmt => .expr Body.ruleCreateStateStmt
  | .ruleUpdateStateStmt => .expr Body.ruleUpdateStateStmt
  | .ruleUpdateSourceStmt => .expr Body.ruleUpdateSourceStmt
  | .ruleUpdateSinkStmt => .expr Body.ruleUpdateSinkStmt
  | .ruleInsertIntoSelectStmt => .expr Body.ruleInsertIntoSelectStmt
  | .ruleInsertIntoFromStmt => .expr Body.ruleInsertIntoFromStmt
  | .rulePauseSourceStmt => .expr Body.rulePauseSourceStmt
  | .ruleResumeSourceStmt => .expr Body.ruleResumeSourceStmt
  | .ruleRewindSourceStmt => .expr Body.ruleRewindSourceStmt
  | .ruleDropSourceStmt => .expr Body.ruleDropSourceStmt
  | .ruleDropStreamStmt => .expr Body.ruleDropStreamStmt
  | .ruleDropSinkStmt => .expr Body.ruleDropSinkStmt
  | .ruleDropStateStmt => .expr Body.ruleDropStateStmt
  | .ruleLoadStateStmt => .expr Body.ruleLoadStateStmt
  | .ruleLoadStateOrCreateStmt => .expr Body.ruleLoadStateOrCreateStmt
  | .ruleSaveStateStmt => .expr Body.ruleSaveStateStmt
  | .ruleEvalStmt => .expr Body.ruleEvalStmt
  | .ruleEmitter => .expr Body.ruleEmitter
  | .ruleEmitterOptions => .expr Body.ruleEmitterOptions
  | .ruleEmitterOptionCombinations => .expr Body.ruleEmitterOptionCombinations
  | .ruleEmitterLimit => .expr Body.ruleEmitterLimit
  | .ruleEmitterSample => .expr Body.ruleEmitterSample
  | .ruleCountBasedSampling => .expr Body.ruleCountBasedSampling
  | .ruleRandomizedSampling => .expr Body.ruleRandomizedSampling
  | .ruleTimeBasedSampling => .expr Body.ruleTimeBasedSampling
  | .ruleTimeBasedSamplingSeconds => .expr Body.ruleTimeBasedSamplingSeconds
  | .ruleTimeBasedSamplingMilliseconds => .expr Body.ruleTimeBasedSamplingMilliseconds
  | .ruleProjections => .expr Body.ruleProjections
  | .ruleProjection => .expr Body.ruleProjection
  | .ruleAliasExpression => .expr Body.ruleAliasExpression
  | .ruleWindowedFrom => .expr Body.ruleWindowedFrom
  | .ruleInterval => .expr Body.ruleInterval
  | .ruleTimeInterval => .expr Body.ruleTimeInterval
  | .ruleTuplesInterval => .expr Body.ruleTuplesInterval
  | .ruleRelations => .expr Body.ruleRelations
  | .ruleFilter => .expr Body.ruleFilter
  | .ruleGrouping => .expr Body.ruleGrouping
  | .ruleGroupList => .expr Body.ruleGroupList
  | .ruleHaving => .expr Body.ruleHaving
  | .ruleRelationLike => .expr Body.ruleRelationLike
  | .ruleAliasedStreamWindow => .expr Body.ruleAliasedStreamWindow
  | .ruleStreamWindow => .expr Body.ruleStreamWindow
  | .ruleStreamLike => .expr Body.ruleStreamLike
  | .ruleUDSFFuncApp => .expr Body.ruleUDSFFuncApp
  | .ruleSourceSinkSpecs => .expr Body.ruleSourceSinkSpecs
  | .ruleUpdateSourceSinkSpecs => .expr Body.ruleUpdateSourceSinkSpecs
  | .ruleSetOptSpecs => .expr Body.ruleSetOptSpecs
  | .ruleSourceSinkParam => .expr Body.ruleSourceSinkParam
  | .ruleSourceSinkParamVal => .expr Body.ruleSourceSinkParamVal
  | .ruleParamLiteral => .expr Body.ruleParamLiteral
  | .ruleParamArrayExpr => .expr Body.ruleParamArrayExpr
  | .rulePausedOpt => .expr Body.rulePausedOpt
  | .ruleExpressionOrWildcard => .expr Body.ruleExpressionOrWildcard
  | .ruleExpression => .expr Body.ruleExpression
  | .ruleorExpr => .expr Body.ruleorExpr
  | .ruleandExpr => .expr Body.ruleandExpr
  | .rulenotExpr => .expr Body.rulenotExpr
  | .rulecomparisonExpr => .expr Body.rulecomparisonExpr
  | .ruleotherOpExpr => .expr Body.ruleotherOpExpr
  | .ruleisExpr => .expr Body.ruleisExpr
  | .ruletermExpr => .expr Body.ruletermExpr
  | .ruleproductExpr => .expr Body.ruleproductExpr
  | .ruleminusExpr => .expr Body.ruleminusExpr
  | .rulecastExpr => .expr Body.rulecastExpr
  | .rulebaseExpr => .expr Body.rulebaseExpr
  | .ruleFuncTypeCast => .expr Body.ruleFuncTypeCast
  | .ruleFuncApp => .expr Body.ruleFuncApp
  | .ruleFuncAppWithOrderBy => .expr Body.ruleFuncAppWithOrderBy
  | .ruleFuncAppWithoutOrderBy => .expr Body.ruleFuncAppWithoutOrderBy
  | .ruleFuncParams => .expr Body.ruleFuncParams
  | .ruleParamsOrder => .expr Body.ruleParamsOrder
  | .ruleSortedExpression => .expr Body.ruleSortedExpression
  | .ruleOrderDirectionOpt => .expr Body.ruleOrderDirectionOpt
  | .ruleArrayExpr => .expr Body.ruleArrayExpr
  | .ruleMapExpr => .expr Body.ruleMapExpr
  | .ruleKeyValuePair => .expr Body.ruleKeyValuePair
  | .ruleLiteral => .expr Body.ruleLiteral
  | .ruleComparisonOp => .expr Body.ruleComparisonOp
  | .ruleOtherOp => .expr Body.ruleOtherOp
  | .ruleIsOp => .expr Body.ruleIsOp
  | .rulePlusMinusOp => .expr Body.rulePlusMinusOp
  | .ruleMultDivOp => .expr Body.ruleMultDivOp
  | .ruleStream => .expr Body.ruleStream
  | .ruleRowMeta => .expr Body.ruleRowMeta
  | .ruleRowTimestamp => .expr Body.ruleRowTimestamp
  | .ruleRowValue => .expr Body.ruleRowValue
  | .ruleNumericLiteral => .expr Body.ruleNumericLiteral
  | .ruleFloatLiteral => .expr Body.ruleFloatLiteral
  | .ruleFunction => .expr Body.ruleFunction
  | .ruleNullLiteral => .expr Body.ruleNullLiteral
  | .ruleBooleanLiteral => .expr Body.ruleBooleanLiteral
  | .ruleTRUE => .expr Body.ruleTRUE
  | .ruleFALSE => .expr Body.ruleFALSE
  | .ruleWildcard => .expr Body.ruleWildcard
  | .ruleStringLiteral => .expr Body.ruleStringLiteral
  | .ruleISTREAM => .expr Body.ruleISTREAM
  | .ruleDSTREAM => .expr Body.ruleDSTREAM
  | .ruleRSTREAM => .expr Body.ruleRSTREAM
  | .ruleTUPLES => .expr Body.ruleTUPLES
  | .ruleSECONDS => .expr Body.ruleSECONDS
  | .ruleMILLISECONDS => .expr Body.ruleMILLISECONDS
  | .ruleStreamIdentifier => .expr Body.ruleStreamIdentifier
  | .ruleSourceSinkType => .expr Body.ruleSourceSinkType
  | .ruleSourceSinkParamKey => .expr Body.ruleSourceSinkParamKey
  | .rulePaused => .expr Body.rulePaused
  | .ruleUnpaused => .expr Body.ruleUnpaused
  | .ruleAscending => .expr Body.ruleAscending
  | .ruleDescending => .expr Body.ruleDescending
  | .ruleType => .expr Body.ruleType
  | .ruleBool => .expr Body.ruleBool
  | .ruleInt => .expr Body.ruleInt
  | .ruleFloat => .expr Body.ruleFloat
  | .ruleString => .expr Body.ruleString
  | .ruleBlob => .expr Body.ruleBlob
  | .ruleTimestamp => .expr Body.ruleTimestamp
  | .ruleArray => .expr Body.ruleArray
  | .ruleMap => .expr Body.ruleMap
  | .ruleOr => .expr Body.ruleOr
  | .ruleAnd => .expr Body.ruleAnd
  | .ruleNot => .expr Body.ruleNot
  | .ruleEqual => .expr Body.ruleEqual
  | .ruleLess => .expr Body.ruleLess
  | .ruleLessOrEqual => .expr Body.ruleLessOrEqual
  | .ruleGreater => .expr Body.ruleGreater
  | .ruleGreaterOrEqual => .expr Body.ruleGreaterOrEqual
  | .ruleNotEqual => .expr Body.ruleNotEqual
  | .ruleConcat => .expr Body.ruleConcat
  | .ruleIs => .expr Body.ruleIs
  | .ruleIsNot => .expr Body.ruleIsNot
  | .rulePlus => .expr Body.rulePlus
  | .ruleMinus => .expr Body.ruleMinus
  | .ruleMultiply => .expr Body.ruleMultiply
  | .ruleDivide => .expr Body.ruleDivide
  | .ruleModulo => .expr Body.ruleModulo
  | .ruleUnaryMinus => .expr Body.ruleUnaryMinus
  | .ruleIdentifier => .expr Body.ruleIdentifier
  | .ruleTargetIdentifier => .expr Body.ruleTargetIdentifier
  | .ruleident => .expr Body.ruleident
  | .rulejsonGetPath => .expr Body.rulejsonGetPath
  | .rulejsonSetPath => .expr Body.rulejsonSetPath
  | .rulejsonPathHead => .expr Body.rulejsonPathHead
  | .rulejsonGetPathNonHead => .expr Body.rulejsonGetPathNonHead
  | .rulejsonSetPathNonHead => .expr Body.rulejsonSetPathNonHead
  | .rulejsonMapSingleLevel => .expr Body.rulejsonMapSingleLevel
  | .rulejsonMapMultipleLevel => .expr Body.rulejsonMapMultipleLevel
  | .rulejsonMapAccessString => .expr Body.rulejsonMapAccessString
  | .rulejsonMapAccessBracket => .expr Body.rulejsonMapAccessBracket
  | .rulesingleQuotedString => .expr Body.rulesingleQuotedString
  | .rulejsonArrayAccess => .expr Body.rulejsonArrayAccess
  | .rulejsonNonNegativeArrayAccess => .expr Body.rulejsonNonNegativeArrayAccess
  | .rulejsonArraySlice => .expr Body.rulejsonArraySlice
  | .rulejsonArrayPartialSlice => .expr Body.rulejsonArrayPartialSlice
  | .rulejsonArrayFullSlice => .expr Body.rulejsonArrayFullSlice
  | .rulespElem => .expr Body.rulespElem
  | .rulesp => .expr Body.rulesp
  | .rulespOpt => .expr Body.rulespOpt
  | .rulecomment => .expr Body.rulecomment
  | .rulefinalComment => .expr Body.rulefinalComment
  -- 174 Action0 .. 295 Action121: func() bool { add(ruleActionN, position); return true }
  | .ruleAction0 | .ruleAction1 | .ruleAction2 | .ruleAction3 | .ruleAction4 | .ruleAction5
  | .ruleAction6 | .ruleAction7 | .ruleAction8 | .ruleAction9 | .ruleAction10 | .ruleAction11
  | .ruleAction12 | .ruleAction13 | .ruleAction14 | .ruleAction15 | .ruleAction16 | .ruleAction17
  | .ruleAction18 | .ruleAction19 | .ruleAction20 | .ruleAction21 | .ruleAction22 | .ruleAction23
  | .ruleAction24 | .ruleAction25 | .ruleAction26 | .ruleAction27 | .ruleAction28 | .ruleAction29
  | .ruleAction30 | .ruleAction31 | .ruleAction32 | .ruleAction33 | .ruleAction34 | .ruleAction35
  | .ruleAction36 | .ruleAction37 | .ruleAction38 | .ruleAction39 | .ruleAction40 | .ruleAction41
  | .ruleAction42 | .ruleAction43 | .ruleAction44 | .ruleAction45 | .ruleAction46 | .ruleAction47
  | .ruleAction48 | .ruleAction49 | .ruleAction50 | .ruleAction51 | .ruleAction52 | .ruleAction53
  | .ruleAction54 | .ruleAction55 | .ruleAction56 | .ruleAction57 | .ruleAction58 | .ruleAction59
  | .ruleAction60 | .ruleAction61 | .ruleAction62 | .ruleAction63 | .ruleAction64 | .ruleAction65
  | .ruleAction66 | .ruleAction67 | .ruleAction68 | .ruleAction69 | .ruleAction70 | .ruleAction71
  | .ruleAction72 | .ruleAction73 | .ruleAction74 | .ruleAction75 | .ruleAction76 | .ruleAction77
  | .ruleAction78 | .ruleAction79 | .ruleAction80 | .ruleAction81 | .ruleAction82 | .ruleAction83
  | .ruleAction84 | .ruleAction85 | .ruleAction86 | .ruleAction87 | .ruleAction88 | .ruleAction89
  | .ruleAction90 | .ruleAction91 | .ruleAction92 | .ruleAction93 | .ruleAction94 | .ruleAction95
  | .ruleAction96 | .ruleAction97 | .ruleAction98 | .ruleAction99 | .ruleAction100 | .ruleAction101
  | .ruleAction102 | .ruleAction103 | .ruleAction104 | .ruleAction105 | .ruleAction106 | .ruleAction107
  | .ruleAction108 | .ruleAction109 | .ruleAction110 | .ruleAction111 | .ruleAction112 | .ruleAction113
  | .ruleAction114 | .ruleAction115 | .ruleAction116 | .ruleAction117 | .ruleAction118 | .ruleAction119
  | .ruleAction120 | .ruleAction121 => .action
  -- nil entries of the array (index 0 and rulePegText) and ids beyond the array
  | .ruleUnknown | .rulePegText | .rulePre_ | .rule_In_ | .rule_Suf => .nil


/-- The mutable variables captured by the rule closures of `Init`:
`position`, `tokenIndex`, `depth` and the token array `tree`.  `tree` lists the slots written
so far; slots never written hold the zero token and are not listed. -/
structure State where
  position : Nat
  tokenIndex : Nat
  depth : Nat
  tree : List token32
deriving DecidableEq, Repr

/-- Result of running a piece of parser code: `ok` (fell through), `fail` (jumped to the
failure label), `panic` (index out of range or call of a nil function) and `oof`
(the evaluation budget of the model ran out). -/
inductive Res where
  | oof
  | panic
  | fail (s : State)
  | ok (s : State)
deriving DecidableEq, Repr

/-- The closure `add`: `tree.Add(rule, begin, position, depth, tokenIndex); tokenIndex++`. -/
def add (rule : pegRule) (begin_ : Nat) (s : State) : State :=
  { s with
    tree := s.tree.take s.tokenIndex ++
      ⟨rule, begin_, s.position, s.depth⟩ :: s.tree.drop (s.tokenIndex + 1)
    tokenIndex := s.tokenIndex + 1 }

/-- The assignment `position, tokenIndex, depth = positionN, tokenIndexN, depthN`. -/
def restore (saved s : State) : State :=
  { s with position := saved.position, tokenIndex := saved.tokenIndex, depth := saved.depth }

/-- The parser code of a PEG expression, run on the state `s`. -/
def exec (buffer : List Nat) : Nat → Peg → State → Res
  | 0, _, _ => .oof
  | fuel + 1, e, s =>
    match e with
    | .chr c =>
      match buffer[s.position]? with
      | none => .panic
      | some x => if x != c.toNat then .fail s else .ok { s with position := s.position + 1 }
    | .rng lo hi =>
      match buffer[s.position]? with
      | none => .panic
      | some x =>
        if x < lo.toNat || x > hi.toNat then .fail s
        else .ok { s with position := s.position + 1 }
    | .dot =>
      match buffer[s.position]? with
      | none => .panic
      | some x => if x != end_symbol then .ok { s with position := s.position + 1 } else .fail s
    | .call r =>
      match grammar r with
      | .nil => .panic
      | .action => .ok (add r s.position s)
      | .expr body =>
        match exec buffer fuel body { s with depth := s.depth + 1 } with
        | .ok s1 => .ok (add r s.position { s1 with depth := s1.depth - 1 })
        | .fail s1 => .fail (restore s s1)
        | r => r
    | .seq a b =>
      match exec buffer fuel a s with
      | .ok s1 => exec buffer fuel b s1
      | r => r
    | .alt a b =>
      match exec buffer fuel a s with
      | .ok s1 => .ok s1
      | .fail s1 => exec buffer fuel b (restore s s1)
      | r => r
    | .opt a =>
      match exec buffer fuel a s with
      | .ok s1 => .ok s1
      | .fail s1 => .ok (restore s s1)
      | r => r
    | .star a =>
      match exec buffer fuel a s with
      | .ok s1 => exec buffer fuel (.star a) s1
      | .fail s1 => .ok (restore s s1)
      | r => r
    | .nt a =>
      match exec buffer fuel a s with
      | .ok s1 => .fail s1
      | .fail s1 => .ok (restore s s1)
      | r => r
    | .text a =>
      match exec buffer fuel a { s with depth := s.depth + 1 } with
      | .ok s1 => .ok (add .rulePegText s.position { s1 with depth := s1.depth - 1 })
      | r => r

/-- The runes of a string, as `[]rune(p.Buffer)` gives them. -/
def runes (Buffer : String) : List Nat := Buffer.data.map Char.toNat

/-- The buffer `Init` builds: the runes, with `end_symbol` appended unless it already ends
the text. -/
def Init (Buffer : List Nat) : List Nat :=
  if Buffer.length == 0 || Buffer.getLast? != some end_symbol then Buffer ++ [end_symbol]
  else Buffer

/-- The state `Init` starts from. -/
def initState : State := ⟨0, 0, 0, []⟩

/-- What `Parse` leaves behind: `nil` with the tree trimmed to `tokenIndex`, or a parse error
with the tree as the failed run left it. -/
inductive ParseResult where
  | oof
  | panic
  | parseError (tree : List token32)
  | nil (tree : List token32)
deriving DecidableEq, Repr

/-- The closure `Parse(rule ...int)`: `matches := p.rules[r]()`, then trim on success. -/
def parseRule (fuel : Nat) (Buffer : List Nat) (r : pegRule) : ParseResult :=
  match exec (Init Buffer) fuel (.call r) initState with
  | .ok s => .nil (s.tree.take s.tokenIndex)
  | .fail s => .parseError s.tree
  | .panic => .panic
  | .oof => .oof


/-- The sampling kinds that `Execute` passes to `AssembleEmitterSampling`. -/
inductive EmitterSamplingType where
  | CountBasedSampling
  | RandomizedSampling
  | TimeBasedSampling
deriving DecidableEq, Repr

/-- The second argument of `NewRowMeta`. -/
inductive MetaInformation where
  | TimestampMeta
deriving DecidableEq, Repr

/-- The methods of the parse stack that `Execute` calls without arguments. -/
inductive Method0 where
  | AssembleSelect | AssembleCreateStreamAsSelect | AssembleCreateStreamAsSelectUnion | AssembleCreateSource
  | AssembleCreateSink | AssembleCreateState | AssembleUpdateState | AssembleUpdateSource
  | AssembleUpdateSink | AssembleInsertIntoSelect | AssembleInsertIntoFrom | AssemblePauseSource
  | AssembleResumeSource | AssembleRewindSource | AssembleDropSource | AssembleDropStream
  | AssembleDropSink | AssembleDropState | AssembleLoadState | AssembleLoadStateOrCreate
  | AssembleSaveState | AssembleEmitter | AssembleEmitterLimit | AssembleAlias
  | AssembleInterval | EnsureAliasedStreamWindow | AssembleAliasedStreamWindow | AssembleStreamWindow
  | AssembleUDSFFuncApp | AssembleSourceSinkParam | AssembleArray | AssembleFuncApp
  | AssembleSortedExpression | AssembleKeyValuePair
deriving DecidableEq, Repr

/-- The methods of the parse stack that `Execute` calls with `(begin, end)`. -/
inductive Method2 where
  | IncludeTrailingWhitespace | AssembleSelectUnion | AssembleEval | AssembleEmitterOptions
  | AssembleProjections | AssembleWindowedFrom | AssembleFilter | AssembleGrouping
  | AssembleHaving | AssembleSourceSinkSpecs | AssembleExpressions | EnsureKeywordPresent
  | AssembleBinaryOperation | AssembleUnaryPrefixOperation | AssembleTypeCast | AssembleMap
deriving DecidableEq, Repr

/-- The constructors that `Execute` applies to `substr` before `PushComponent`. -/
inductive TextKind where
  | NewStream | NewRowValue | NewNumericLiteral | NewFloatLiteral
  | FuncName | NewWildcard | NewStringLiteral | StreamIdentifier
  | SourceSinkType | SourceSinkParamKey | Identifier
deriving DecidableEq, Repr

/-- The constants that `Execute` passes to `PushComponent`. -/
inductive ConstKind where
  | Istream | Dstream | Rstream | Tuples
  | Seconds | Milliseconds | Yes | No
  | Bool | Int | Float | String
  | Blob | Timestamp | Array | Map
  | Or | And | Not | Equal
  | Less | LessOrEqual | Greater | GreaterOrEqual
  | NotEqual | Concat | Is | IsNot
  | Plus | Minus | Multiply | Divide
  | Modulo | UnaryMinus
deriving DecidableEq, Repr

/-- The third argument of the `PushComponent` calls of `Execute`; `substr` is the rune text
`[]rune(buffer)[begin:end]`. -/
inductive Component where
  | text (k : TextKind) (substr : List Nat)
  | NewRowMeta (substr : List Nat) (m : MetaInformation)
  | NewNullLiteral
  | NewBoolLiteral (b : Bool)
  | const (k : ConstKind)
deriving DecidableEq, Repr

/-- The assembler calls that `Execute` issues: `simple m` is `p.m()`, `span m begin end` is
`p.m(begin, end)`.  The factor of `AssembleEmitterSampling` is the fraction `num / den`
(`1` is `1 / 1`, `0.001` is `1 / 1000`). -/
inductive Call where
  | simple (m : Method0)
  | span (m : Method2) (begin_ end_ : Nat)
  | AssembleEmitterSampling (kind : EmitterSamplingType) (num den : Nat)
  | PushComponent (begin_ end_ : Nat) (c : Component)
deriving DecidableEq, Repr

/-- The slice expression `x[begin:end]`; `none` stands for the run-time panic of a slice
whose bounds are out of range. -/
def slice (x : List Nat) (begin_ end_ : Nat) : Option (List Nat) :=
  if begin_ ≤ end_ ∧ end_ ≤ x.length then some ((x.drop begin_).take (end_ - begin_)) else none

/-- The `case` of the `switch token.pegRule` in `Execute` for an action token: the calls
issued with the current `begin`, `end` (set by the last `rulePegText` token).  Rules
without a `case` issue nothing. -/
def executeAction (Buffer : List Nat) (begin_ end_ : Nat) : pegRule → Option (List Call)
  | .ruleAction0 => some [.span .IncludeTrailingWhitespace begin_ end_]
  | .ruleAction1 => some [.span .IncludeTrailingWhitespace begin_ end_]
  | .ruleAction2 => some [.simple .AssembleSelect]
  | .ruleAction3 => some [.span .AssembleSelectUnion begin_ end_]
  | .ruleAction4 => some [.simple .AssembleCreateStreamAsSelect]
  | .ruleAction5 => some [.simple .AssembleCreateStreamAsSelectUnion]
  | .ruleAction6 => some [.simple .AssembleCreateSource]
  | .ruleAction7 => some [.simple .AssembleCreateSink]
  | .ruleAction8 => some [.simple .AssembleCreateState]
  | .ruleAction9 => some [.simple .AssembleUpdateState]
  | .ruleAction10 => some [.simple .AssembleUpdateSource]
  | .ruleAction11 => some [.simple .AssembleUpdateSink]
  | .ruleAction12 => some [.simple .AssembleInsertIntoSelect]
  | .ruleAction13 => some [.simple .AssembleInsertIntoFrom]
  | .ruleAction14 => some [.simple .AssemblePauseSource]
  | .ruleAction15 => some [.simple .AssembleResumeSource]
  | .ruleAction16 => some [.simple .AssembleRewindSource]
  | .ruleAction17 => some [.simple .AssembleDropSource]
  | .ruleAction18 => some [.simple .AssembleDropStream]
  | .ruleAction19 => some [.simple .AssembleDropSink]
  | .ruleAction20 => some [.simple .AssembleDropState]
  | .ruleAction21 => some [.simple .AssembleLoadState]
  | .ruleAction22 => some [.simple .AssembleLoadStateOrCreate]
  | .ruleAction23 => some [.simple .AssembleSaveState]
  | .ruleAction24 => some [.span .AssembleEval begin_ end_]
  | .ruleAction25 => some [.simple .AssembleEmitter]
  | .ruleAction26 => some [.span .AssembleEmitterOptions begin_ end_]
  | .ruleAction27 => some [.simple .AssembleEmitterLimit]
  | .ruleAction28 => some [.AssembleEmitterSampling .CountBasedSampling 1 1]
  | .ruleAction29 => some [.AssembleEmitterSampling .RandomizedSampling 1 1]
  | .ruleAction30 => some [.AssembleEmitterSampling .TimeBasedSampling 1 1]
  | .ruleAction31 => some [.AssembleEmitterSampling .TimeBasedSampling 1 1000]
  | .ruleAction32 => some [.span .AssembleProjections begin_ end_]
  | .ruleAction33 => some [.simple .AssembleAlias]
  | .ruleAction34 => some [.span .AssembleWindowedFrom begin_ end_]
  | .ruleAction35 => some [.simple .AssembleInterval]
  | .ruleAction36 => some [.simple .AssembleInterval]
  | .ruleAction37 => some [.span .AssembleFilter begin_ end_]
  | .ruleAction38 => some [.span .AssembleGrouping begin_ end_]
  | .ruleAction39 => some [.span .AssembleHaving begin_ end_]
  | .ruleAction40 => some [.simple .EnsureAliasedStreamWindow]
  | .ruleAction41 => some [.simple .AssembleAliasedStreamWindow]
  | .ruleAction42 => some [.simple .AssembleStreamWindow]
  | .ruleAction43 => some [.simple .AssembleUDSFFuncApp]
  | .ruleAction44 => some [.span .AssembleSourceSinkSpecs begin_ end_]
  | .ruleAction45 => some [.span .AssembleSourceSinkSpecs begin_ end_]
  | .ruleAction46 => some [.span .AssembleSourceSinkSpecs begin_ end_]
  | .ruleAction47 => some [.simple .AssembleSourceSinkParam]
  | .ruleAction48 => some [.span .AssembleExpressions begin_ end_, .simple .AssembleArray]
  | .ruleAction49 => some [.span .EnsureKeywordPresent begin_ end_]
  | .ruleAction50 => some [.span .AssembleBinaryOperation begin_ end_]
  | .ruleAction51 => some [.span .AssembleBinaryOperation begin_ end_]
  | .ruleAction52 => some [.span .AssembleUnaryPrefixOperation begin_ end_]
  | .ruleAction53 => some [.span .AssembleBinaryOperation begin_ end_]
  | .ruleAction54 => some [.span .AssembleBinaryOperation begin_ end_]
  | .ruleAction55 => some [.span .AssembleBinaryOperation begin_ end_]
  | .ruleAction56 => some [.span .AssembleBinaryOperation begin_ end_]
  | .ruleAction57 => some [.span .AssembleBinaryOperation begin_ end_]
  | .ruleAction58 => some [.span .AssembleUnaryPrefixOperation begin_ end_]
  | .ruleAction59 => some [.span .AssembleTypeCast begin_ end_]
  | .ruleAction60 => some [.span .AssembleTypeCast begin_ end_]
  | .ruleAction61 => some [.simple .AssembleFuncApp]
  | .ruleAction62 => some [.span .AssembleExpressions begin_ end_, .simple .AssembleFuncApp]
  | .ruleAction63 => some [.span .AssembleExpressions begin_ end_]
  | .ruleAction64 => some [.span .AssembleExpressions begin_ end_]
  | .ruleAction65 => some [.simple .AssembleSortedExpression]
  | .ruleAction66 => some [.span .EnsureKeywordPresent begin_ end_]
  | .ruleAction67 => some [.span .AssembleExpressions begin_ end_, .simple .AssembleArray]
  | .ruleAction68 => some [.span .AssembleMap begin_ end_]
  | .ruleAction69 => some [.simple .AssembleKeyValuePair]
  | .ruleAction70 => (slice Buffer begin_ end_).map fun substr => [.PushComponent begin_ end_ (.text .NewStream substr)]
  | .ruleAction71 => (slice Buffer begin_ end_).map fun substr => [.PushComponent begin_ end_ (.NewRowMeta substr .TimestampMeta)]
  | .ruleAction72 => (slice Buffer begin_ end_).map fun substr => [.PushComponent begin_ end_ (.text .NewRowValue substr)]
  | .ruleAction73 => (slice Buffer begin_ end_).map fun substr => [.PushComponent begin_ end_ (.text .NewNumericLiteral substr)]
  | .ruleAction74 => (slice Buffer begin_ end_).map fun substr => [.PushComponent begin_ end_ (.text .NewFloatLiteral substr)]
  | .ruleAction75 => (slice Buffer begin_ end_).map fun substr => [.PushComponent begin_ end_ (.text .FuncName substr)]
  | .ruleAction76 => some [.PushComponent begin_ end_ .NewNullLiteral]
  | .ruleAction77 => some [.PushComponent begin_ end_ (.NewBoolLiteral true)]
  | .ruleAction78 => some [.PushComponent begin_ end_ (.NewBoolLiteral false)]
  | .ruleAction79 => (slice Buffer begin_ end_).map fun substr => [.PushComponent begin_ end_ (.text .NewWildcard substr)]
  | .ruleAction80 => (slice Buffer begin_ end_).map fun substr => [.PushComponent begin_ end_ (.text .NewStringLiteral substr)]
  | .ruleAction81 => some [.PushComponent begin_ end_ (.const .Istream)]
  | .ruleAction82 => some [.PushComponent begin_ end_ (.const .Dstream)]
  | .ruleAction83 => some [.PushComponent begin_ end_ (.const .Rstream)]
  | .ruleAction84 => some [.PushComponent begin_ end_ (.const .Tuples)]
  | .ruleAction85 => some [.PushComponent begin_ end_ (.const .Seconds)]
  | .ruleAction86 => some [.PushComponent begin_ end_ (.const .Milliseconds)]
  | .ruleAction87 => (slice Buffer begin_ end_).map fun substr => [.PushComponent begin_ end_ (.text .StreamIdentifier substr)]
  | .ruleAction88 => (slice Buffer begin_ end_).map fun substr => [.PushComponent begin_ end_ (.text .SourceSinkType substr)]
  | .ruleAction89 => (slice Buffer begin_ end_).map fun substr => [.PushComponent begin_ end_ (.text .SourceSinkParamKey substr)]
  | .ruleAction90 => some [.PushComponent begin_ end_ (.const .Yes)]
  | .ruleAction91 => some [.PushComponent begin_ end_ (.const .No)]
  | .ruleAction92 => some [.PushComponent begin_ end_ (.const .Yes)]
  | .ruleAction93 => some [.PushComponent begin_ end_ (.const .No)]
  | .ruleAction94 => some [.PushComponent begin_ end_ (.const .Bool)]
  | .ruleAction95 => some [.PushComponent begin_ end_ (.const .Int)]
  | .ruleAction96 => some [.PushComponent begin_ end_ (.const .Float)]
  | .ruleAction97 => some [.PushComponent begin_ end_ (.const .String)]
  | .ruleAction98 => some [.PushComponent begin_ end_ (.const .Blob)]
  | .ruleAction99 => some [.PushComponent begin_ end_ (.const .Timestamp)]
  | .ruleAction100 => some [.PushComponent begin_ end_ (.const .Array)]
  | .ruleAction101 => some [.PushComponent begin_ end_ (.const .Map)]
  | .ruleAction102 => some [.PushComponent begin_ end_ (.const .Or)]
  | .ruleAction103 => some [.PushComponent begin_ end_ (.const .And)]
  | .ruleAction104 => some [.PushComponent begin_ end_ (.const .Not)]
  | .ruleAction105 => some [.PushComponent begin_ end_ (.const .Equal)]
  | .ruleAction106 => some [.PushComponent begin_ end_ (.const .Less)]
  | .ruleAction107 => some [.PushComponent begin_ end_ (.const .LessOrEqual)]
  | .ruleAction108 => some [.PushComponent begin_ end_ (.const .Greater)]
  | .ruleAction109 => some [.PushComponent begin_ end_ (.const .GreaterOrEqual)]
  | .ruleAction110 => some [.PushComponent begin_ end_ (.const .NotEqual)]
  | .ruleAction111 => some [.PushComponent begin_ end_ (.const .Concat)]
  | .ruleAction112 => some [.PushComponent begin_ end_ (.const .Is)]
  | .ruleAction113 => some [.PushComponent begin_ end_ (.const .IsNot)]
  | .ruleAction114 => some [.PushComponent begin_ end_ (.const .Plus)]
  | .ruleAction115 => some [.PushComponent begin_ end_ (.const .Minus)]
  | .ruleAction116 => some [.PushComponent begin_ end_ (.const .Multiply)]
  | .ruleAction117 => some [.PushComponent begin_ end_ (.const .Divide)]
  | .ruleAction118 => some [.PushComponent begin_ end_ (.const .Modulo)]
  | .ruleAction119 => some [.PushComponent begin_ end_ (.const .UnaryMinus)]
  | .ruleAction120 => (slice Buffer begin_ end_).map fun substr => [.PushComponent begin_ end_ (.text .Identifier substr)]
  | .ruleAction121 => (slice Buffer begin_ end_).map fun substr => [.PushComponent begin_ end_ (.text .Identifier substr)]
  | _ => some []

/-- The loop of `Execute` over the tokens: a `rulePegText` token sets `begin`, `end` and
`text = string(_buffer[begin:end])`, every other token runs its `case`. -/
def executeLoop (Buffer _buffer : List Nat) : List token32 → Nat → Nat → Option (List Call)
  | [], _, _ => some []
  | token :: rest, begin_, end_ =>
    match token.rule with
    | .rulePegText =>
      match slice _buffer token.begin_ token.end_ with
      | none => none
      | some _ => executeLoop Buffer _buffer rest token.begin_ token.end_
    | r =>
      match executeAction Buffer begin_ end_ r with
      | none => none
      | some cs =>
        match executeLoop Buffer _buffer rest begin_ end_ with
        | none => none
        | some ds => some (cs ++ ds)

/-- The method `Execute`: `buffer` is `p.Buffer`, `_buffer` is the rune buffer of `Init`. -/
def Execute (Buffer : List Nat) (tokenTree : List token32) : Option (List Call) :=
  executeLoop Buffer (Init Buffer) tokenTree 0 0


/-- The fuel `Parse` runs the rule functions with: enough for every input of `n` runes
(`parseFuel_enough`). -/
def parseFuel (n : Nat) : Nat := (20 * n + 41) * (n + 26)

/-- The entry point: `Init` on the string, then `Parse()` from `ruleSingleStatement`. -/
def Parse (Buffer : String) : ParseResult :=
  parseRule (parseFuel (runes Buffer).length) (runes Buffer) .ruleSingleStatement

/-- What `Parse` followed by `Execute` does: a parse error, a run-time panic, or the list of
assembler calls issued. -/
inductive RunResult where
  | oof
  | panic
  | parseError
  | calls (cs : List Call)
deriving DecidableEq, Repr

/-- `Parse()` and, when it returns nil, `Execute()`. -/
def parseExecute (Buffer : String) : RunResult :=
  match Parse Buffer with
  | .nil tokenTree =>
    match Execute (runes Buffer) tokenTree with
    | some cs => .calls cs
    | none => .panic
  | .parseError _ => .parseError
  | .panic => .panic
  | .oof => .oof

/-! ## The recogniser without the array

`execF` runs the same templates as `exec`, with the state kept in functional form: the
rest of the buffer from `position` on, the tokens `tree[0:tokenIndex]` newest first, and
`depth` as an argument.  A failure returns nothing, because every failure label restores
the three variables from values saved before.  `exec_execF` relates the two. -/

/-- Result of `execF`. -/
inductive ResF where
  | oof
  | panic
  | fail
  | ok (pos : Nat) (rest : List Nat) (toks : List token32)
deriving DecidableEq, Repr

/-- The parser code of a PEG expression on the functional state. -/
def execF : Nat → Peg → Nat → Nat → List Nat → List token32 → ResF
  | 0, _, _, _, _, _ => .oof
  | fuel + 1, e, d, pos, rest, toks =>
    match e with
    | .chr c =>
      match rest with
      | [] => .panic
      | x :: xs => if x != c.toNat then .fail else .ok (pos + 1) xs toks
    | .rng lo hi =>
      match rest with
      | [] => .panic
      | x :: xs => if x < lo.toNat || x > hi.toNat then .fail else .ok (pos + 1) xs toks
    | .dot =>
      match rest with
      | [] => .panic
      | x :: xs => if x != end_symbol then .ok (pos + 1) xs toks else .fail
    | .call r =>
      match grammar r with
      | .nil => .panic
      | .action => .ok pos rest (⟨r, pos, pos, d⟩ :: toks)
      | .expr body =>
        match execF fuel body (d + 1) pos rest toks with
        | .ok pos1 rest1 toks1 => .ok pos1 rest1 (⟨r, pos, pos1, d⟩ :: toks1)
        | r => r
    | .seq a b =>
      match execF fuel a d pos rest toks with
      | .ok pos1 rest1 toks1 => execF fuel b d pos1 rest1 toks1
      | r => r
    | .alt a b =>
      match execF fuel a d pos rest toks with
      | .fail => execF fuel b d pos rest toks
      | r => r
    | .opt a =>
      match execF fuel a d pos rest toks with
      | .fail => .ok pos rest toks
      | r => r
    | .star a =>
      match execF fuel a d pos rest toks with
      | .ok pos1 rest1 toks1 => execF fuel (.star a) d pos1 rest1 toks1
      | .fail => .ok pos rest toks
      | r => r
    | .nt a =>
      match execF fuel a d pos rest toks with
      | .ok _ _ _ => .fail
      | .fail => .ok pos rest toks
      | r => r
    | .text a =>
      match execF fuel a (d + 1) pos rest toks with
      | .ok pos1 rest1 toks1 => .ok pos1 rest1 (⟨.rulePegText, pos, pos1, d⟩ :: toks1)
      | r => r

/-- `Parse(rule)` and `Execute` computed with `execF`. -/
def runF (fuel : Nat) (Buffer : List Nat) (r : pegRule) : RunResult :=
  match execF fuel (.call r) 0 0 (Init Buffer) [] with
  | .ok _ _ toks =>
    match Execute Buffer toks.reverse with
    | some cs => .calls cs
    | none => .panic
  | .fail => .parseError
  | .panic => .panic
  | .oof => .oof


/-- The functional state `(d, p, r, t)` describes the parser state `s` over `buffer`. -/
def Rel (buffer : List Nat) (s : State) (d p : Nat) (r : List Nat) (t : List token32) : Prop :=
  s.position = p ∧ s.depth = d ∧ r = buffer.drop p ∧ s.tokenIndex = t.length ∧
    s.tree.take t.length = t.reverse

/-- What `exec` returns, read off the result of `execF` on the functional state. -/
def Refines (buffer : List Nat) (out : Res) (d : Nat) (t : List token32) : ResF → Prop
  | .oof => out = .oof
  | .panic => out = .panic
  | .fail => ∃ s', out = .fail s' ∧ s'.tree.take t.length = t.reverse
  | .ok p' r' t' => ∃ s', out = .ok s' ∧ Rel buffer s' d p' r' t' ∧ ∃ new, t' = new ++ t

/-! ## Well-formedness of the grammar

The data below certify that the rule functions terminate: `rank` orders the rules so that a
rule only calls rules of smaller rank before it has consumed a rune (no left recursion), and
every loop body consumes at least one rune per round. -/

/-- The rules that can return true without consuming a rune: the optional clauses, `spOpt`
and the actions. -/
def nullable (q : pegRule) : Bool :=
  match grammar q with
  | .nil => true
  | .action => true
  | .expr _ =>
    match q with
    | .ruleEmitterOptions | .ruleWindowedFrom | .ruleFilter | .ruleGrouping
    | .ruleHaving | .ruleSourceSinkSpecs | .ruleSetOptSpecs | .rulePausedOpt
    | .ruleFuncParams | .ruleOrderDirectionOpt | .rulespOpt => true
    | _ => false

/-- A rank for every rule: the length of the longest chain of calls made at the position
the rule was entered at. -/
def rank : pegRule → Nat
  | .ruleProjection => 18
  | .ruleAliasExpression | .ruleFuncParams => 17
  | .ruleGroupList | .ruleExpressionOrWildcard | .ruleSortedExpression => 16
  | .ruleExpression => 15
  | .ruleorExpr => 14
  | .ruleandExpr => 13
  | .rulenotExpr => 12
  | .rulecomparisonExpr => 11
  | .ruleotherOpExpr => 10
  | .ruleisExpr => 9
  | .ruleRelations | .ruletermExpr => 8
  | .ruleRelationLike | .ruleproductExpr => 7
  | .ruleAliasedStreamWindow | .ruleminusExpr => 6
  | .ruleSingleStatement | .ruleStreamWindow | .rulecastExpr => 5
  | .ruleStatementWithRest | .ruleStatementWithoutRest | .ruleStreamLike | .rulebaseExpr => 4
  | .ruleStatement | .ruleEmitter | .ruleEmitterOptions | .ruleEmitterOptionCombinations
  | .ruleProjections | .ruleWindowedFrom | .ruleFilter | .ruleGrouping
  | .ruleHaving | .ruleUDSFFuncApp | .ruleSourceSinkSpecs | .ruleUpdateSourceSinkSpecs
  | .ruleSetOptSpecs | .ruleSourceSinkParamVal | .rulePausedOpt | .ruleFuncApp
  | .ruleOrderDirectionOpt | .ruleRowValue | .ruleTargetIdentifier => 3
  | .ruleStateStmt | .ruleEmitterSample | .ruleInterval | .ruleSourceSinkParam
  | .ruleParamLiteral | .ruleFuncAppWithOrderBy | .ruleFuncAppWithoutOrderBy | .ruleRowMeta
  | .rulejsonGetPath | .rulejsonSetPath | .rulejsonGetPathNonHead | .rulejsonSetPathNonHead
  | .rulesp | .rulespOpt => 2
  | .ruleSourceStmt | .ruleSinkStmt | .ruleStreamStmt | .ruleSelectUnionStmt
  | .ruleLoadStateOrCreateStmt | .ruleTimeBasedSampling | .ruleTimeInterval | .ruleTuplesInterval
  | .ruleKeyValuePair | .ruleLiteral | .ruleComparisonOp | .ruleOtherOp
  | .ruleIsOp | .rulePlusMinusOp | .ruleMultDivOp | .ruleStream
  | .ruleRowTimestamp | .ruleFunction | .ruleBooleanLiteral | .ruleWildcard
  | .ruleStreamIdentifier | .ruleSourceSinkType | .ruleSourceSinkParamKey | .ruleType
  | .ruleIdentifier | .rulejsonPathHead | .rulejsonMapSingleLevel | .rulespElem => 1
  | _ => 0

/-- Whether the code of `e` can fall through without having advanced `position`
(an upper bound). -/
def mayEmpty : Peg → Bool
  | .chr _ => false
  | .rng _ _ => false
  | .dot => false
  | .call q => nullable q
  | .seq a b => mayEmpty a && mayEmpty b
  | .alt a b => mayEmpty a || mayEmpty b
  | .opt _ => true
  | .star _ => true
  | .nt _ => true
  | .text a => mayEmpty a

/-- Every rule that `e` can call before a rune is consumed has rank below `k`. -/
def headOK (k : Nat) : Peg → Bool
  | .chr _ => true
  | .rng _ _ => true
  | .dot => true
  | .call q => decide (rank q < k)
  | .seq a b => headOK k a && (!mayEmpty a || headOK k b)
  | .alt a b => headOK k a && headOK k b
  | .opt a => headOK k a
  | .star a => headOK k a
  | .nt a => headOK k a
  | .text a => headOK k a

/-- Every loop body in `e` consumes a rune when it succeeds. -/
def starOK : Peg → Bool
  | .chr _ => true
  | .rng _ _ => true
  | .dot => true
  | .call _ => true
  | .seq a b => starOK a && starOK b
  | .alt a b => starOK a && starOK b
  | .opt a => starOK a
  | .star a => !mayEmpty a && starOK a
  | .nt a => starOK a
  | .text a => starOK a

/-- Every rule called in `e` is a function, not a nil entry of `_rules`. -/
def callsOK : Peg → Bool
  | .chr _ => true
  | .rng _ _ => true
  | .dot => true
  | .call q =>
    match grammar q with
    | .nil => false
    | _ => true
  | .seq a b => callsOK a && callsOK b
  | .alt a b => callsOK a && callsOK b
  | .opt a => callsOK a
  | .star a => callsOK a
  | .nt a => callsOK a
  | .text a => callsOK a

/-- Nesting depth of the code of `e`, the loops left out. -/
def needA : Peg → Nat
  | .chr _ => 1
  | .rng _ _ => 1
  | .dot => 1
  | .call _ => 0
  | .seq a b => 1 + max (needA a) (needA b)
  | .alt a b => 1 + max (needA a) (needA b)
  | .opt a => 1 + needA a
  | .star a => 1 + needA a
  | .nt a => 1 + needA a
  | .text a => 1 + needA a

/-- Nesting depth of loops in `e`. -/
def needB : Peg → Nat
  | .chr _ => 0
  | .rng _ _ => 0
  | .dot => 0
  | .call _ => 0
  | .seq a b => max (needB a) (needB b)
  | .alt a b => max (needB a) (needB b)
  | .opt a => needB a
  | .star a => 1 + needB a
  | .nt a => needB a
  | .text a => needB a

/-- The check on one rule that the termination proof rests on. -/
def ruleOK (q : pegRule) : Bool :=
  match grammar q with
  | .nil => decide (rank q < 20)
  | .action => decide (rank q < 20)
  | .expr body =>
    headOK (rank q) body && starOK body && callsOK body && decide (needA body ≤ 24) &&
      decide (needB body ≤ 1) && (nullable q || !mayEmpty body) && decide (rank q < 20)

/-- The buffers of `Init`: they end with the sentinel. -/
def Good (r : List Nat) : Prop := r.getLast? = some end_symbol

/-- What a successful run consumed and recorded. -/
def Consumed (e : Peg) (p : Nat) (r : List Nat) (t : List token32) (p1 : Nat)
    (r1 : List Nat) (t1 : List token32) : Prop :=
  ∃ w, r = w ++ r1 ∧ p1 = p + w.length ∧ (∀ x ∈ w, x ≠ end_symbol) ∧
    (mayEmpty e = false → w ≠ []) ∧ ∃ new, t1 = new ++ t

/-- Big-step reading of `execF`: the code of `e` run on the functional state returns `res`. -/
def Eval (e : Peg) (d p : Nat) (r : List Nat) (t : List token32) (res : ResF) : Prop :=
  ∃ f, execF f e d p r t = res ∧ res ≠ .oof

/-- The tokens of a run at depth 0, moved to depth `d`. -/
def addDepth (d : Nat) (tok : token32) : token32 := { tok with next := tok.next + d }

/-- The result of a run at depth 0 on an empty token list, placed at depth `d` on top of the
tokens `t`. -/
def ResF.lift (d : Nat) (t : List token32) : ResF → ResF
  | .ok p r new => .ok p r (new.map (addDepth d) ++ t)
  | x => x

/-- What a rule function did, seen from outside: returned true with `position = endPos`,
or returned false (`panic` and `oof` as in `Res`). -/
inductive Outcome where
  | oof
  | panic
  | failed
  | matched (endPos : Nat)
deriving DecidableEq, Repr

/-- The outcome of a run of `exec`. -/
def Res.outcome : Res → Outcome
  | .oof => .oof
  | .panic => .panic
  | .fail _ => .failed
  | .ok s => .matched s.position

/-- The outcome of a run of `execF`. -/
def ResF.outcome : ResF → Outcome
  | .oof => .oof
  | .panic => .panic
  | .fail => .failed
  | .ok p _ _ => .matched p

/-- The rule function `_rules[q]` called with `position = p` on the buffer of `Buffer`
(`tokenIndex = 0`, `depth = 0`, empty tree): what it returns and where it stops. -/
def ruleAt (Buffer : String) (q : pegRule) (p : Nat) : Outcome :=
  (exec (Init (runes Buffer)) (parseFuel (runes Buffer).length) (.call q) ⟨p, 0, 0, []⟩).outcome

/-! ## Whitespace, in the words of the spec -/

/-- In the words of the spec: the length of the whitespace element at the head of `text`
(the input from some position to its end): a single space, tab, LF or CR; or `--` and the
runes after it other than CR and LF, up to and including the first CR or LF, or up to the end
of the input when no CR or LF follows.  `none`: no whitespace element starts here. -/
def spElemSpec (text : List Nat) : Option Nat :=
  match text with
  | [] => none
  | c :: rest =>
    if c = ' '.toNat ∨ c = '\t'.toNat ∨ c = '\n'.toNat ∨ c = '\r'.toNat then some 1
    else if c = '-'.toNat then
      match rest with
      | [] => none
      | c2 :: rest2 =>
        if c2 = '-'.toNat then
          let body := rest2.takeWhile (fun x => x != '\r'.toNat && x != '\n'.toNat)
          match rest2.drop body.length with
          | [] => some (2 + body.length)
          | _ :: _ => some (2 + body.length + 1)
        else none
    else none

/-- In the words of the spec: the length of the longest run of whitespace elements at the
head of `text`, at most `fuel` of them. -/
def spRunSpec : Nat → List Nat → Nat
  | 0, _ => 0
  | fuel + 1, text =>
    match spElemSpec text with
    | none => 0
    | some k => k + spRunSpec fuel (text.drop k)

/-- In the words of the spec: the length of the whitespace (zero or more elements) at the head
of `text`. -/
def spLen (text : List Nat) : Nat := spRunSpec text.length text

/-! ## The statement terminator, in the words of the spec -/

/-- In the words of the spec: after optional leading whitespace rule `Statement` matches a
prefix of the input, and what follows that prefix is optional whitespace and then either a
`;` (whatever comes after it) or the end of the input. -/
def singleStatementSpec (Buffer : String) : Bool :=
  match ruleAt Buffer .ruleStatement (spLen (runes Buffer)) with
  | .matched q =>
    let rest := (runes Buffer).drop (q + spLen ((runes Buffer).drop q))
    rest.head? == some ';'.toNat || rest.isEmpty
  | _ => false

/-! ## The clauses of a SELECT -/

/-- Every rule called in `e` belongs to `S`. -/
def callsIn (S : pegRule → Bool) : Peg → Bool
  | .chr _ => true
  | .rng _ _ => true
  | .dot => true
  | .call q => S q
  | .seq a b => callsIn S a && callsIn S b
  | .alt a b => callsIn S a && callsIn S b
  | .opt a => callsIn S a
  | .star a => callsIn S a
  | .nt a => callsIn S a
  | .text a => callsIn S a

/-- The rules that can run inside the emitter, the projections and the optional clauses of a
SELECT: the rules that rules `Emitter`, `Projections`, `Relations`, `Expression`, `GroupList`
and `sp` reach through the calls in the grammar (`clauseRule_closed`). -/
def clauseRule : pegRule → Bool
  | .ruleEmitter | .ruleEmitterOptions | .ruleEmitterOptionCombinations | .ruleEmitterLimit
  | .ruleEmitterSample | .ruleCountBasedSampling | .ruleRandomizedSampling
  | .ruleTimeBasedSampling | .ruleTimeBasedSamplingSeconds | .ruleTimeBasedSamplingMilliseconds
  | .ruleProjections | .ruleProjection | .ruleAliasExpression | .ruleInterval
  | .ruleTimeInterval | .ruleTuplesInterval | .ruleRelations | .ruleGroupList
  | .ruleRelationLike | .ruleAliasedStreamWindow | .ruleStreamWindow | .ruleStreamLike
  | .ruleUDSFFuncApp | .ruleExpressionOrWildcard | .ruleExpression | .ruleorExpr | .ruleandExpr
  | .rulenotExpr | .rulecomparisonExpr | .ruleotherOpExpr | .ruleisExpr | .ruletermExpr
  | .ruleproductExpr | .ruleminusExpr | .rulecastExpr | .rulebaseExpr | .ruleFuncTypeCast
  | .ruleFuncApp | .ruleFuncAppWithOrderBy | .ruleFuncAppWithoutOrderBy | .ruleFuncParams
  | .ruleParamsOrder | .ruleSortedExpression | .ruleOrderDirectionOpt | .ruleArrayExpr
  | .ruleMapExpr | .ruleKeyValuePair | .ruleLiteral | .ruleComparisonOp | .ruleOtherOp
  | .ruleIsOp | .rulePlusMinusOp | .ruleMultDivOp | .ruleStream | .ruleRowMeta
  | .ruleRowTimestamp | .ruleRowValue | .ruleNumericLiteral | .ruleFloatLiteral | .ruleFunction
  | .ruleNullLiteral | .ruleBooleanLiteral | .ruleTRUE | .ruleFALSE | .ruleWildcard
  | .ruleStringLiteral | .ruleISTREAM | .ruleDSTREAM | .ruleRSTREAM | .ruleTUPLES | .ruleSECONDS
  | .ruleMILLISECONDS | .ruleAscending | .ruleDescending | .ruleType | .ruleBool | .ruleInt
  | .ruleFloat | .ruleString | .ruleBlob | .ruleTimestamp | .ruleArray | .ruleMap | .ruleOr
  | .ruleAnd | .ruleNot | .ruleEqual | .ruleLess | .ruleLessOrEqual | .ruleGreater
  | .ruleGreaterOrEqual | .ruleNotEqual | .ruleConcat | .ruleIs | .ruleIsNot | .rulePlus
  | .ruleMinus | .ruleMultiply | .ruleDivide | .ruleModulo | .ruleUnaryMinus | .ruleIdentifier
  | .ruleTargetIdentifier | .ruleident | .rulejsonGetPath | .rulejsonSetPath | .rulejsonPathHead
  | .rulejsonGetPathNonHead | .rulejsonSetPathNonHead | .rulejsonMapSingleLevel
  | .rulejsonMapMultipleLevel | .rulejsonMapAccessString | .rulejsonMapAccessBracket
  | .rulesingleQuotedString | .rulejsonArrayAccess | .rulejsonNonNegativeArrayAccess
  | .rulejsonArraySlice | .rulejsonArrayPartialSlice | .rulejsonArrayFullSlice | .rulespElem
  | .rulesp | .rulespOpt | .rulecomment | .rulefinalComment | .ruleAction25 | .ruleAction26
  | .ruleAction27 | .ruleAction28 | .ruleAction29 | .ruleAction30 | .ruleAction31
  | .ruleAction32 | .ruleAction33 | .ruleAction35 | .ruleAction36 | .ruleAction40
  | .ruleAction41 | .ruleAction42 | .ruleAction43 | .ruleAction50 | .ruleAction51
  | .ruleAction52 | .ruleAction53 | .ruleAction54 | .ruleAction55 | .ruleAction56
  | .ruleAction57 | .ruleAction58 | .ruleAction59 | .ruleAction60 | .ruleAction61
  | .ruleAction62 | .ruleAction63 | .ruleAction64 | .ruleAction65 | .ruleAction66
  | .ruleAction67 | .ruleAction68 | .ruleAction69 | .ruleAction70 | .ruleAction71
  | .ruleAction72 | .ruleAction73 | .ruleAction74 | .ruleAction75 | .ruleAction76
  | .ruleAction77 | .ruleAction78 | .ruleAction79 | .ruleAction80 | .ruleAction81
  | .ruleAction82 | .ruleAction83 | .ruleAction84 | .ruleAction85 | .ruleAction86
  | .ruleAction92 | .ruleAction93 | .ruleAction94 | .ruleAction95 | .ruleAction96
  | .ruleAction97 | .ruleAction98 | .ruleAction99 | .ruleAction100 | .ruleAction101
  | .ruleAction102 | .ruleAction103 | .ruleAction104 | .ruleAction105 | .ruleAction106
  | .ruleAction107 | .ruleAction108 | .ruleAction109 | .ruleAction110 | .ruleAction111
  | .ruleAction112 | .ruleAction113 | .ruleAction114 | .ruleAction115 | .ruleAction116
  | .ruleAction117 | .ruleAction118 | .ruleAction119 | .ruleAction120 | .ruleAction121 => true
  | _ => false

/-- The optional group `(...)?` of an optional-clause rule `<((...)?)> ActionN`. -/
def clauseGroup (q : pegRule) : Peg :=
  match grammar q with
  | .expr (.seq (.text (.opt g)) _) => g
  | _ => .dot

/-- The action tokens of the clause slots of a SELECT and of the SELECT itself. -/
def selectAction : pegRule → Bool
  | .ruleAction34 | .ruleAction37 | .ruleAction38 | .ruleAction39 | .ruleAction2 => true
  | _ => false

/-- The assembler calls of the clause slots of a SELECT and of the SELECT itself. -/
def selectAssembly : Call → Bool
  | .span .AssembleWindowedFrom _ _ => true
  | .span .AssembleFilter _ _ => true
  | .span .AssembleGrouping _ _ => true
  | .span .AssembleHaving _ _ => true
  | .simple .AssembleSelect => true
  | _ => false

/-! # Keyword case: definitions -/

/-! ## Letter case -/

/-- An upper-case ASCII letter. -/
def isUpperN (x : Nat) : Bool := decide (65 ≤ x) && decide (x ≤ 90)

/-- The rune with an upper-case ASCII letter replaced by its lower-case form. -/
def toLowerN (x : Nat) : Nat := if isUpperN x then x + 32 else x

/-- The two runes are equal or the two cases of one ASCII letter. -/
def caseEq (x y : Nat) : Bool := toLowerN x == toLowerN y

/-- The expression is a character class: literals and ranges joined by `/`. -/
def isTerm : Peg → Bool
  | .chr _ => true
  | .rng _ _ => true
  | .alt a b => isTerm a && isTerm b
  | _ => false

/-- The runes that a character class matches. -/
def classOf : Peg → Nat → Bool
  | .chr c, x => x == c.toNat
  | .rng lo hi, x => decide (lo.toNat ≤ x) && decide (x ≤ hi.toNat)
  | .alt a b, x => classOf a x || classOf b x
  | _, _ => false

/-- The character class matches a letter in both of its cases or in neither. -/
def caseClosed (e : Peg) : Bool :=
  (List.range 26).all fun i => classOf e (65 + i) == classOf e (97 + i)

/-- The literal `'t' 's' '(' ')'` of rule `RowTimestamp`, the one place of the grammar where a
letter is matched in one case only. -/
def isTsLit : Peg → Bool
  | .seq (.chr a) (.seq (.chr b) (.seq (.chr c) (.chr d))) =>
    a == 't' && b == 's' && c == '(' && d == ')'
  | _ => false

/-- The code of `e` does not tell the two cases of a letter apart, the literal `ts()` left
aside. -/
def caseOK : Peg → Bool
  | .chr c => caseClosed (.chr c)
  | .rng lo hi => caseClosed (.rng lo hi)
  | .dot => true
  | .call _ => true
  | .seq a b => isTsLit (.seq a b) || (caseOK a && caseOK b)
  | .alt a b => (isTerm (.alt a b) && caseClosed (.alt a b)) || (caseOK a && caseOK b)
  | .opt a => caseOK a
  | .star a => caseOK a
  | .nt a => caseOK a
  | .text a => caseOK a

/-- The body of the rule passes `caseOK`. -/
def ruleCaseOK (q : pegRule) : Bool :=
  match grammar q with
  | .expr body => caseOK body
  | _ => true

/-- The text starts with `ts()`. -/
def startsTs : List Nat → Bool
  | a :: b :: c :: d :: _ => a == 116 && b == 115 && c == 40 && d == 41
  | _ => false

/-- The two texts have the same length, agree rune by rune up to the case of ASCII letters, and
`ts()` starts at the same places in both. -/
def simL : List Nat → List Nat → Bool
  | [], [] => true
  | x :: xs, y :: ys => caseEq x y && (startsTs (x :: xs) == startsTs (y :: ys)) && simL xs ys
  | _, _ => false

/-- Two results of `execF` that differ at most in the case of the letters left to read. -/
def ResF.sim : ResF → ResF → Prop
  | .oof, .oof => True
  | .panic, .panic => True
  | .fail, .fail => True
  | .ok p r t, .ok p1 r1 t1 => p = p1 ∧ t = t1 ∧ simL r r1 = true
  | _, _ => False

/-! ## Keyword positions

`execK` is `execF` with one more output: for every rune consumed, whether a case-insensitive
letter `('x' / 'X')` of the grammar consumed it.  These are the runes "matched as part of a
keyword". -/

/-- The alternation `a / b` is a case-insensitive letter `('x' / 'X')`. -/
def kwPair : Peg → Peg → Bool
  | .chr lo, .chr up => isUpperN up.toNat && up.toNat + 32 == lo.toNat
  | _, _ => false

/-- What a run of `execK` returns: as `ResF`, with the tags of the runes consumed so far,
newest first. -/
inductive ResK where
  | oof
  | panic
  | fail
  | ok (pos : Nat) (rest : List Nat) (toks : List token32) (tags : List Bool)
deriving DecidableEq, Repr

/-- The result of `execF` in a result of `execK`. -/
def ResK.erase : ResK → ResF
  | .oof => .oof
  | .panic => .panic
  | .fail => .fail
  | .ok p r t _ => .ok p r t

/-- The parser code of `execF`, recording for every rune consumed whether a case-insensitive
letter consumed it (`kw` is set inside such a letter). -/
def execK : Nat → Bool → Peg → Nat → Nat → List Nat → List token32 → List Bool → ResK
  | 0, _, _, _, _, _, _, _ => .oof
  | fuel + 1, kw, e, d, pos, rest, toks, tags =>
    match e with
    | .chr c =>
      match rest with
      | [] => .panic
      | x :: xs => if x != c.toNat then .fail else .ok (pos + 1) xs toks (kw :: tags)
    | .rng lo hi =>
      match rest with
      | [] => .panic
      | x :: xs =>
        if x < lo.toNat || x > hi.toNat then .fail else .ok (pos + 1) xs toks (kw :: tags)
    | .dot =>
      match rest with
      | [] => .panic
      | x :: xs => if x != end_symbol then .ok (pos + 1) xs toks (false :: tags) else .fail
    | .call r =>
      match grammar r with
      | .nil => .panic
      | .action => .ok pos rest (⟨r, pos, pos, d⟩ :: toks) tags
      | .expr body =>
        match execK fuel false body (d + 1) pos rest toks tags with
        | .ok pos1 rest1 toks1 tags1 => .ok pos1 rest1 (⟨r, pos, pos1, d⟩ :: toks1) tags1
        | r => r
    | .seq a b =>
      match execK fuel false a d pos rest toks tags with
      | .ok pos1 rest1 toks1 tags1 => execK fuel false b d pos1 rest1 toks1 tags1
      | r => r
    | .alt a b =>
      match execK fuel (kwPair a b) a d pos rest toks tags with
      | .fail => execK fuel (kwPair a b) b d pos rest toks tags
      | r => r
    | .opt a =>
      match execK fuel false a d pos rest toks tags with
      | .fail => .ok pos rest toks tags
      | r => r
    | .star a =>
      match execK fuel false a d pos rest toks tags with
      | .ok pos1 rest1 toks1 tags1 => execK fuel false (.star a) d pos1 rest1 toks1 tags1
      | .fail => .ok pos rest toks tags
      | r => r
    | .nt a =>
      match execK fuel false a d pos rest toks tags with
      | .ok _ _ _ _ => .fail
      | .fail => .ok pos rest toks tags
      | r => r
    | .text a =>
      match execK fuel false a (d + 1) pos rest toks tags with
      | .ok pos1 rest1 toks1 tags1 =>
        .ok pos1 rest1 (⟨.rulePegText, pos, pos1, d⟩ :: toks1) tags1
      | r => r

/-- The keyword tags of an accepted input, one per rune, in the order of the input; `none`
when `Parse` does not return nil. -/
def keywordTags (Buffer : String) : Option (List Bool) :=
  match execK (parseFuel (runes Buffer).length) false (.call .ruleSingleStatement) 0 0
      (Init (runes Buffer)) [] [] with
  | .ok _ _ _ tags => some tags.reverse
  | _ => none

/-! ## No keyword letter inside `ts()`

An automaton reads the runes consumed by a successful run, each with its keyword tag, and
reaches state 5 exactly when `t`, `s`, `(`, `)` have been read in a row with the `t` or the
`s` in either case and at least one of the two tagged as a keyword letter.  A summary table
bounds the states in which each rule can leave the automaton. -/

/-- One step of the automaton: 0 nothing, 1 a tagged `t`, 2 an untagged `t`, 3 `ts` with a tag,
4 `ts(` with a tag, 5 `ts()` with a tag. -/
def tsStep (s x : Nat) (kw : Bool) : Nat :=
  if 5 ≤ s then 5
  else if s = 4 ∧ x = 41 then 5
  else if s = 3 ∧ x = 40 then 4
  else if toLowerN x = 115 ∧ (s = 1 ∨ (s = 2 ∧ kw = true)) then 3
  else if toLowerN x = 116 then (if kw then 1 else 2)
  else 0

/-- The automaton run over runes with their tags. -/
def tsRun (s : Nat) : List Nat → List Bool → Nat
  | x :: xs, k :: ks => tsRun (tsStep s x k) xs ks
  | _, _ => s

/-- The set (a bit mask) of the images under `f` of the states in the set `S`. -/
def stImage (f : Nat → Nat) (S : Nat) : Nat :=
  (if S.testBit 0 then 1 <<< f 0 else 0) ||| (if S.testBit 1 then 1 <<< f 1 else 0) |||
  (if S.testBit 2 then 1 <<< f 2 else 0) ||| (if S.testBit 3 then 1 <<< f 3 else 0) |||
  (if S.testBit 4 then 1 <<< f 4 else 0) ||| (if S.testBit 5 then 1 <<< f 5 else 0)

/-- The union of the sets `g s` over the states `s` in the set `S`. -/
def stBind (g : Nat → Nat) (S : Nat) : Nat :=
  (if S.testBit 0 then g 0 else 0) ||| (if S.testBit 1 then g 1 else 0) |||
  (if S.testBit 2 then g 2 else 0) ||| (if S.testBit 3 then g 3 else 0) |||
  (if S.testBit 4 then g 4 else 0) ||| (if S.testBit 5 then g 5 else 0)

/-- The states after any one untagged rune. -/
def stAny (kw : Bool) (S : Nat) : Nat :=
  stImage (fun s => tsStep s 116 kw) S ||| stImage (fun s => tsStep s 115 kw) S |||
  stImage (fun s => tsStep s 40 kw) S ||| stImage (fun s => tsStep s 41 kw) S |||
  stImage (fun s => tsStep s 0 kw) S

/-- One more step `h` from the states of `X`. -/
def stRound (h : Nat → Nat) (X : Nat) : Nat := X ||| h X

/-- Six rounds from `S`. -/
def stSix (h : Nat → Nat) (S : Nat) : Nat :=
  stRound h (stRound h (stRound h (stRound h (stRound h (stRound h S)))))

/-- The states reached from `S` by any number of steps `h`, or all states when six rounds do
not close the set. -/
def stStar (h : Nat → Nat) (S : Nat) : Nat :=
  if (stSix h S ||| h (stSix h S)) == stSix h S then stSix h S else 63

/-- The summary table: bits `6 * s .. 6 * s + 5` of the entry of a rule are the states in
which a successful run of the rule, entered in state `s`, can leave the automaton
(`ruleTsOK_all` checks the table against the grammar). -/
def tsTable : pegRule → Nat
  | .ruleSingleStatement => 34615391183
  | .ruleStatementWithRest => 34444955973
  | .ruleStatementWithoutRest => 34615391183
  | .ruleStatement => 34615391183
  | .ruleSourceStmt => 34444955973
  | .ruleSinkStmt => 34444955973
  | .ruleStateStmt => 34581304141
  | .ruleStreamStmt => 34479043015
  | .ruleSelectStmt => 34479043015
  | .ruleSelectUnionStmt => 34479043015
  | .ruleCreateStreamAsSelectStmt => 34479043015
  | .ruleCreateStreamAsSelectUnionStmt => 34479043015
  | .ruleCreateSourceStmt => 34444955973
  | .ruleCreateSinkStmt => 34444955973
  | .ruleCreateStateStmt => 34444955973
  | .ruleUpdateStateStmt => 34444955973
  | .ruleUpdateSourceStmt => 34444955973
  | .ruleUpdateSinkStmt => 34444955973
  | .ruleInsertIntoSelectStmt => 34479043015
  | .ruleInsertIntoFromStmt => 34444955973
  | .rulePauseSourceStmt => 34444955973
  | .ruleResumeSourceStmt => 34444955973
  | .ruleRewindSourceStmt => 34444955973
  | .ruleDropSourceStmt => 34444955973
  | .ruleDropStreamStmt => 34444955973
  | .ruleDropSinkStmt => 34444955973
  | .ruleDropStateStmt => 34444955973
  | .ruleLoadStateStmt => 34444955973
  | .ruleLoadStateOrCreateStmt => 34581304141
  | .ruleSaveStateStmt => 34444955973
  | .ruleEvalStmt => 34479043015
  | .ruleEmitter => 34376781889
  | .ruleEmitterOptions => 34647331009
  | .ruleEmitterOptionCombinations => 34444955973
  | .ruleEmitterLimit => 34444955973
  | .ruleEmitterSample => 34376781889
  | .ruleCountBasedSampling => 34376781889
  | .ruleRandomizedSampling => 34376781889
  | .ruleTimeBasedSampling => 34376781889
  | .ruleTimeBasedSamplingSeconds => 34376781889
  | .ruleTimeBasedSamplingMilliseconds => 34376781889
  | .ruleProjections => 34479043015
  | .ruleProjection => 35028500423
  | .ruleAliasExpression => 34990217541
  | .ruleWindowedFrom => 34715488709
  | .ruleInterval => 34922043457
  | .ruleTimeInterval => 34922043457
  | .ruleTuplesInterval => 34922043457
  | .ruleRelations => 34990217541
  | .ruleFilter => 34749575623
  | .ruleGrouping => 34749575623
  | .ruleGroupList => 35028500423
  | .ruleHaving => 34749575623
  | .ruleRelationLike => 34990217541
  | .ruleAliasedStreamWindow => 34990217541
  | .ruleStreamWindow => 34922043457
  | .ruleStreamLike => 34994413381
  | .ruleUDSFFuncApp => 34922043457
  | .ruleSourceSinkSpecs => 34715488709
  | .ruleUpdateSourceSinkSpecs => 34444955973
  | .ruleSetOptSpecs => 34715488709
  | .ruleSourceSinkParam => 34990217541
  | .ruleSourceSinkParamVal => 34994413381
  | .ruleParamLiteral => 34994413381
  | .ruleParamArrayExpr => 34376781889
  | .rulePausedOpt => 34647331009
  | .ruleExpressionOrWildcard => 35028500423
  | .ruleExpression => 35028500423
  | .ruleorExpr => 35028500423
  | .ruleandExpr => 35028500423
  | .rulenotExpr => 35028500423
  | .rulecomparisonExpr => 35028500423
  | .ruleotherOpExpr => 35028500423
  | .ruleisExpr => 35028500423
  | .ruletermExpr => 35028500423
  | .ruleproductExpr => 35028500423
  | .ruleminusExpr => 35028500423
  | .rulecastExpr => 35028500423
  | .rulebaseExpr => 34994413381
  | .ruleFuncTypeCast => 34376781889
  | .ruleFuncApp => 34922043457
  | .ruleFuncAppWithOrderBy => 34922043457
  | .ruleFuncAppWithoutOrderBy => 34922043457
  | .ruleFuncParams => 35299033031
  | .ruleParamsOrder => 34479043015
  | .ruleSortedExpression => 35028500423
  | .ruleOrderDirectionOpt => 34647331009
  | .ruleArrayExpr => 34376781889
  | .ruleMapExpr => 34376781889
  | .ruleKeyValuePair => 34479043015
  | .ruleLiteral => 34994413381
  | .ruleComparisonOp => 34376781889
  | .ruleOtherOp => 34376781889
  | .ruleIsOp => 34410868931
  | .rulePlusMinusOp => 34376781889
  | .ruleMultDivOp => 34376781889
  | .ruleStream => 34994413381
  | .ruleRowMeta => 34922043457
  | .ruleRowTimestamp => 34922043457
  | .ruleRowValue => 34994413381
  | .ruleNumericLiteral => 34994413381
  | .ruleFloatLiteral => 34990217541
  | .ruleFunction => 34994413381
  | .ruleNullLiteral => 34376781889
  | .ruleBooleanLiteral => 34376781889
  | .ruleTRUE => 34376781889
  | .ruleFALSE => 34376781889
  | .ruleWildcard => 34922043457
  | .ruleStringLiteral => 34376781889
  | .ruleISTREAM => 34376781889
  | .ruleDSTREAM => 34376781889
  | .ruleRSTREAM => 34376781889
  | .ruleTUPLES => 34376781889
  | .ruleSECONDS => 34376781889
  | .ruleMILLISECONDS => 34376781889
  | .ruleStreamIdentifier => 34994413381
  | .ruleSourceSinkType => 34994413381
  | .ruleSourceSinkParamKey => 34994413381
  | .rulePaused => 34376781889
  | .ruleUnpaused => 34376781889
  | .ruleAscending => 34376781889
  | .ruleDescending => 34376781889
  | .ruleType => 34410868931
  | .ruleBool => 34376781889
  | .ruleInt => 34393825410
  | .ruleFloat => 34393825410
  | .ruleString => 34376781889
  | .ruleBlob => 34376781889
  | .ruleTimestamp => 34376781889
  | .ruleArray => 34376781889
  | .ruleMap => 34376781889
  | .ruleOr => 34376781889
  | .ruleAnd => 34376781889
  | .ruleNot => 34393825410
  | .ruleEqual => 34376781889
  | .ruleLess => 34376781889
  | .ruleLessOrEqual => 34376781889
  | .ruleGreater => 34376781889
  | .ruleGreaterOrEqual => 34376781889
  | .ruleNotEqual => 34376781889
  | .ruleConcat => 34376781889
  | .ruleIs => 34376781889
  | .ruleIsNot => 34393825410
  | .rulePlus => 34376781889
  | .ruleMinus => 34376781889
  | .ruleMultiply => 34376781889
  | .ruleDivide => 34376781889
  | .ruleModulo => 34376781889
  | .ruleUnaryMinus => 34376781889
  | .ruleIdentifier => 34994413381
  | .ruleTargetIdentifier => 34994413381
  | .ruleident => 34994413381
  | .rulejsonGetPath => 34994413381
  | .rulejsonSetPath => 34994413381
  | .rulejsonPathHead => 34994413381
  | .rulejsonGetPathNonHead => 34444955973
  | .rulejsonSetPathNonHead => 34444955973
  | .rulejsonMapSingleLevel => 34444955973
  | .rulejsonMapMultipleLevel => 34444955973
  | .rulejsonMapAccessString => 34994413381
  | .rulejsonMapAccessBracket => 34376781889
  | .rulesingleQuotedString => 34376781889
  | .rulejsonArrayAccess => 34376781889
  | .rulejsonNonNegativeArrayAccess => 34376781889
  | .rulejsonArraySlice => 34376781889
  | .rulejsonArrayPartialSlice => 34376781889
  | .rulejsonArrayFullSlice => 34376781889
  | .rulespElem => 34444955973
  | .rulesp => 34444955973
  | .rulespOpt => 34715488709
  | .rulecomment => 34376781889
  | .rulefinalComment => 34444955973
  | _ => 0

/-- The states in which rule `q`, entered in state `s`, can leave the automaton. -/
def tsSumm (q : pegRule) (s : Nat) : Nat := (tsTable q >>> (6 * s)) % 64

/-- The states in which a successful run of the code of `e`, entered in a state of `S`, can
leave the automaton. -/
def absRun : Bool → Peg → Nat → Nat
  | kw, .chr c, S => stImage (fun s => tsStep s c.toNat kw) S
  | kw, .rng _ _, S => stAny kw S
  | _, .dot, S => stAny false S
  | _, .call q, S =>
    match grammar q with
    | .expr _ => stBind (tsSumm q) S
    | _ => S
  | _, .seq a b, S => absRun false b (absRun false a S)
  | _, .alt a b, S => absRun (kwPair a b) a S ||| absRun (kwPair a b) b S
  | _, .opt a, S => S ||| absRun false a S
  | _, .star a, S => stStar (fun X => absRun false a X) S
  | _, .nt _, S => S
  | _, .text a, S => absRun false a S

/-- The entry of rule `q` in the summary table covers the body of the rule. -/
def ruleTsOK (q : pegRule) : Bool :=
  match grammar q with
  | .expr body =>
    (List.range 6).all fun s =>
      (tsSumm q s ||| absRun false body (1 <<< s)) == tsSumm q s
  | _ => true

/-- At the head of the text `t`, `s`, `(`, `)` follow each other, the `t` or the `s` in either
case and at least one of the two tagged as a keyword letter. -/
def winHead : List Nat → List Bool → Bool
  | x1 :: x2 :: x3 :: x4 :: _, k1 :: k2 :: _ :: _ :: _ =>
    toLowerN x1 == 116 && toLowerN x2 == 115 && x3 == 40 && x4 == 41 && (k1 || k2)
  | _, _ => false

/-- No place of the text has `winHead`. -/
def noWin : List Nat → List Bool → Bool
  | x :: xs, k :: ks => !winHead (x :: xs) (k :: ks) && noWin xs ks
  | _, _ => true

/-- The second text is the first with the case of some tagged letters changed. -/
def variantL : List Nat → List Nat → List Bool → Bool
  | [], [], [] => true
  | x :: xs, y :: ys, k :: ks => (x == y || (k && caseEq x y)) && variantL xs ys ks
  | _, _, _ => false

/-- In the words of the spec: `Buffer` is accepted and `Buffer'` is `Buffer` with the letter
case of some runes that were matched as part of a keyword changed. -/
def keywordCaseVariant (Buffer Buffer' : String) : Bool :=
  match keywordTags Buffer with
  | none => false
  | some tags => variantL (runes Buffer) (runes Buffer') tags

/-! ## The texts that `Execute` reads -/

/-- The actions whose `case` in `Execute` reads the text `buffer[begin:end]`. -/
def textAction : pegRule → Bool
  | .ruleAction70 | .ruleAction71 | .ruleAction72 | .ruleAction73 | .ruleAction74
  | .ruleAction75 | .ruleAction79 | .ruleAction80 | .ruleAction87 | .ruleAction88
  | .ruleAction89 | .ruleAction120 | .ruleAction121 => true
  | _ => false

/-- The rules that run inside the text spans of these actions: the rules that `ident`,
`jsonGetPath` and `jsonSetPath` reach through the calls in the grammar. -/
def plainRule : pegRule → Bool
  | .ruleident | .rulejsonArrayAccess | .rulejsonArrayFullSlice | .rulejsonArrayPartialSlice
  | .rulejsonArraySlice | .rulejsonGetPath | .rulejsonGetPathNonHead | .rulejsonMapAccessBracket
  | .rulejsonMapAccessString | .rulejsonMapMultipleLevel | .rulejsonMapSingleLevel
  | .rulejsonNonNegativeArrayAccess | .rulejsonPathHead | .rulejsonSetPath
  | .rulejsonSetPathNonHead | .rulesingleQuotedString => true
  | _ => false

/-- The code of `e` has no case-insensitive letter and calls plain rules only. -/
def plainOK : Peg → Bool
  | .chr _ => true
  | .rng _ _ => true
  | .dot => true
  | .call q => plainRule q
  | .seq a b => plainOK a && plainOK b
  | .alt a b => !kwPair a b && plainOK a && plainOK b
  | .opt a => plainOK a
  | .star a => plainOK a
  | .nt a => plainOK a
  | .text a => plainOK a

/-- A plain rule is a rule with a plain body. -/
def rulePlainOK (q : pegRule) : Bool :=
  !plainRule q ||
    match grammar q with
    | .expr body => plainOK body
    | _ => false

/-- The sequence `a b` is `<X> ActionN` with a text action and a plain `X`. -/
def textPattern : Peg → Peg → Bool
  | .text X, .call A => textAction A && plainOK X
  | _, _ => false

/-- Every call of a text action in `e` stands in a sequence `<X> ActionN` with a plain `X`. -/
def textOK : Peg → Bool
  | .chr _ => true
  | .rng _ _ => true
  | .dot => true
  | .call q => !textAction q
  | .seq a b => textPattern a b || (textOK a && textOK b)
  | .alt a b => textOK a && textOK b
  | .opt a => textOK a
  | .star a => textOK a
  | .nt a => textOK a
  | .text a => textOK a

/-- The body of the rule passes `textOK`, and a text action is an action. -/
def ruleTextOK (q : pegRule) : Bool :=
  match grammar q with
  | .expr body => textOK body && !textAction q
  | _ => true

/-- The runes `begin .. end - 1` exist and none of them is tagged. -/
def spanClean (tags : List Bool) (begin_ end_ : Nat) : Bool :=
  decide (end_ ≤ tags.length) && ((tags.drop begin_).take (end_ - begin_)).all fun k => !k

/-- In the token list (newest first) every token of a text action comes right after a
`rulePegText` token whose span has no tagged rune. -/
def textClean (tags : List Bool) : List token32 → Bool
  | a :: p :: rest =>
    (!textAction a.rule || (p.rule == .rulePegText && spanClean tags p.begin_ p.end_)) &&
      textClean tags (p :: rest)
  | [a] => !textAction a.rule
  | [] => true

/-- The span `(begin, end)` that the loop of `Execute` holds after the tokens: the span of
the last `rulePegText` token. -/
def loopSpan : List token32 → Nat × Nat → Nat × Nat
  | [], s => s
  | tok :: rest, s =>
    match tok.rule with
    | .rulePegText => loopSpan rest (tok.begin_, tok.end_)
    | _ => loopSpan rest s


/-! ## Reading a token tree and a call list -/

/-- The spans `(begin, end)` of the tokens of rule `q` in a token tree, in tree order. -/
def spansOf (q : pegRule) (tree : List token32) : List (Nat × Nat) :=
  (tree.filter (fun tok => tok.rule == q)).map (fun tok => (tok.begin_, tok.end_))

/-- The `PushComponent` calls of a call list, in order. -/
def pushes (cs : List Call) : List Call :=
  cs.filter (fun c => match c with
    | .PushComponent _ _ _ => true
    | _ => false)



/-! ## The comparison operators, in the words of the spec -/

/-- In the words of the spec: the comparison operator spelled at the head of `text`, as its
length in runes and the component it stands for: `=` is Equal, `!=` and `<>` are NotEqual,
`<=` is LessOrEqual, `>=` is GreaterOrEqual, and a `<` or `>` that starts none of these is Less
or Greater. -/
def comparisonOpSpec (text : List Nat) : Option (Nat × ConstKind) :=
  match text with
  | [] => none
  | c1 :: rest =>
    if c1 = '='.toNat then some (1, .Equal)
    else if c1 = '!'.toNat then
      (if rest.head? = some '='.toNat then some (2, .NotEqual) else none)
    else if c1 = '<'.toNat then
      (if rest.head? = some '>'.toNat then some (2, .NotEqual)
       else if rest.head? = some '='.toNat then some (2, .LessOrEqual)
       else some (1, .Less))
    else if c1 = '>'.toNat then
      (if rest.head? = some '='.toNat then some (2, .GreaterOrEqual) else some (1, .Greater))
    else none

/-- The rule of the grammar and the action of `Execute` behind a comparison component:
`Equal <- <(<'='> Action105)>` with `case ruleAction105: p.PushComponent(begin, end, Equal)`,
and so on for the other five. -/
def comparisonRule : ConstKind → pegRule × pegRule
  | .Equal => (.ruleEqual, .ruleAction105)
  | .Less => (.ruleLess, .ruleAction106)
  | .LessOrEqual => (.ruleLessOrEqual, .ruleAction107)
  | .Greater => (.ruleGreater, .ruleAction108)
  | .GreaterOrEqual => (.ruleGreaterOrEqual, .ruleAction109)
  | .NotEqual => (.ruleNotEqual, .ruleAction110)
  | _ => (.ruleUnknown, .ruleUnknown)



/-! ## Rule functions in any parser state -/

/-- The rule function `_rules[q]` called in the parser state `s` on the buffer of `Buffer`:
`ruleAt` is its outcome from the state `(p, 0, 0)` with an empty tree. -/
def ruleCall (Buffer : String) (q : pegRule) (s : State) : Res :=
  exec (Init (runes Buffer)) (parseFuel (runes Buffer).length) (.call q) s

/-! ## String literals, in the words of the spec -/

/-- In the words of the spec: an item of a string literal is the pair `''` or one rune other
than `'`. -/
def isStringItem (item : List Nat) : Bool :=
  match item with
  | [c] => c != '\''.toNat
  | [c1, c2] => c1 == '\''.toNat && c2 == '\''.toNat
  | _ => false

/-- In the words of the spec: the length of the run of items at the head of `text`, where a
quote directly followed by a quote is always the pair `''` and a quote followed by anything
else ends the run. -/
def stringItemsLen : List Nat → Nat
  | [] => 0
  | c :: rest =>
    if c = '\''.toNat then
      match rest with
      | [] => 0
      | c2 :: rest2 => if c2 = '\''.toNat then 2 + stringItemsLen rest2 else 0
    else 1 + stringItemsLen rest

/-- In the words of the spec: the length of the string literal at the head of `text`: a `'`,
the run of items, and a closing `'`; `none` when the text does not start with a `'` or the
run of items is not followed by a `'`. -/
def stringLiteralSpec (text : List Nat) : Option Nat :=
  match text with
  | [] => none
  | c :: rest =>
    if c = '\''.toNat then
      (if (rest.drop (stringItemsLen rest)).head? = some '\''.toNat
       then some (stringItemsLen rest + 2) else none)
    else none



/-! ## Numbers, in the words of the spec -/

/-- In the words of the spec: a digit, one of the runes `0` to `9`. -/
def isDigit (x : Nat) : Bool := decide ('0'.toNat ≤ x) && decide (x ≤ '9'.toNat)

/-- In the words of the spec: a non-empty digit string. -/
def isDigits (ds : List Nat) : Bool := !ds.isEmpty && ds.all isDigit

/-- In the words of the spec: the optional sign of a number, `-` or nothing. -/
def signText (neg : Bool) : List Nat := if neg then ['-'.toNat] else []

/-- In the words of the spec: whether `rest` starts with a `.` and a digit, the fraction that
makes the number before it a float. -/
def startsFraction (rest : List Nat) : Bool :=
  match rest with
  | c :: c2 :: _ => c == '.'.toNat && isDigit c2
  | _ => false

/-- Whether `rest` starts with a digit. -/
def startsDigit (rest : List Nat) : Bool :=
  match rest with
  | c :: _ => isDigit c
  | [] => false



/-! ## Lists of literals and of key/value pairs, in the words of the spec -/

/-- In the words of the spec: a literal, given by the pieces it is written from: an integer
(optional sign and digits), a float (optional sign, digits, `.`, digits) or a string (the items
between the two quotes). -/
inductive LiteralForm where
  | int (neg : Bool) (ds : List Nat)
  | float (neg : Bool) (d1 d2 : List Nat)
  | str (items : List (List Nat))
deriving DecidableEq, Repr

/-- The pieces are well formed: the digit strings are non-empty strings of digits, the items
of a string are pairs `''` or single runes other than `'` and the sentinel. -/
def LiteralForm.wf : LiteralForm → Bool
  | .int _ ds => isDigits ds
  | .float _ d1 d2 => isDigits d1 && isDigits d2
  | .str items => items.all (fun i => isStringItem i && i.all (fun x => x != end_symbol))

/-- The text of a literal. -/
def LiteralForm.text : LiteralForm → List Nat
  | .int neg ds => signText neg ++ ds
  | .float neg d1 d2 => signText neg ++ d1 ++ '.'.toNat :: d2
  | .str items => '\''.toNat :: (items.flatten ++ ['\''.toNat])

/-- The text `, e1, e2, ..., en`: every element after a comma and a blank. -/
def sepText (es : List (List Nat)) : List Nat :=
  (es.map (fun e => ','.toNat :: ' '.toNat :: e)).flatten

/-- The text `e1, e2, ..., en` of a list of elements. -/
def commaList : List (List Nat) → List Nat
  | [] => []
  | e :: es => e ++ sepText es

/-- The text `'k':v` of a key/value pair, from the items of the key and the text of the
value. -/
def pairText (kv : List (List Nat) × List Nat) : List Nat :=
  '\''.toNat :: (kv.1.flatten ++ ['\''.toNat]) ++ ':'.toNat :: kv.2

/-- The text does not start with whitespace: its first rune is no blank, tab, LF or CR, and
it does not start with `--`. -/
def noSpHead (e : List Nat) : Bool :=
  match e with
  | [] => false
  | [x] => x != 32 && x != 9 && x != 10 && x != 13 && x != 45
  | x :: y :: _ => x != 32 && x != 9 && x != 10 && x != 13 && !(x == 45 && y == 45)

/-- The expression `e`, run where `text` stands before a `,` or the rune `close`, matches
exactly `text` and records the same new tokens whatever follows. -/
def DelimAt (e : Peg) (close : Nat) (text : List Nat) (d p : Nat) (t : List token32) : Prop :=
  ∃ new : List token32, ∀ (c : Nat) (r : List Nat), c = ','.toNat ∨ c = close →
    Eval e d p (text ++ c :: r) t (.ok (p + text.length) (c :: r) (new ++ t))

/-- The text is an element of rule `q` in a list closed by `close`: wherever it stands before
a `,` or the closing rune, the rule function matches exactly this text. -/
def Delimited (q : pegRule) (close : Nat) (text : List Nat) : Prop :=
  ∀ (d p : Nat) (t : List token32), DelimAt (.call q) close text d p t



/-! ## The two LOAD STATE statements -/

/-- The rules that can run inside the name, the type and the parameters of a LOAD STATE
statement: the rules that rules `sp`, `StreamIdentifier`, `SourceSinkType` and
`SourceSinkParam` reach through the calls in the grammar (`paramRule_closed`). -/
def paramRule : pegRule → Bool
  | .ruleSourceSinkParam | .ruleSourceSinkParamVal | .ruleParamLiteral | .ruleParamArrayExpr
  | .ruleLiteral | .ruleNumericLiteral | .ruleFloatLiteral | .ruleBooleanLiteral | .ruleTRUE
  | .ruleFALSE | .ruleStringLiteral | .ruleStreamIdentifier | .ruleSourceSinkType
  | .ruleSourceSinkParamKey | .ruleident | .rulespElem | .rulesp | .rulespOpt | .rulecomment
  | .rulefinalComment | .ruleAction47 | .ruleAction48 | .ruleAction73 | .ruleAction74
  | .ruleAction77 | .ruleAction78 | .ruleAction80 | .ruleAction87 | .ruleAction88
  | .ruleAction89 => true
  | _ => false

/-- The action tokens that stand for the calls `AssembleLoadState`,
`AssembleLoadStateOrCreate` and `AssembleSourceSinkSpecs` in `Execute`. -/
def loadAction : pegRule → Bool
  | .ruleAction21 | .ruleAction22 | .ruleAction44 | .ruleAction45 | .ruleAction46 => true
  | _ => false

/-- The assembler calls `AssembleLoadState`, `AssembleLoadStateOrCreate` and
`AssembleSourceSinkSpecs`. -/
def loadAssembly : Call → Bool
  | .simple .AssembleLoadState => true
  | .simple .AssembleLoadStateOrCreate => true
  | .span .AssembleSourceSinkSpecs _ _ => true
  | _ => false



/-! ## Line comments inserted into whitespace -/

/-- A whitespace rune: space, tab, LF or CR. -/
def isBlank (x : Nat) : Bool :=
  x == ' '.toNat || x == '\t'.toNat || x == '\n'.toNat || x == '\r'.toNat

/-- The rules that record a token for a whitespace element. -/
def keepRule : pegRule → Bool
  | .rulespElem | .rulecomment | .rulefinalComment => false
  | _ => true

/-- The rules of the tokens, the tokens of whitespace elements left out. -/
def ruleTrace (t : List token32) : List pegRule := (t.map (fun tok => tok.rule)).filter keepRule

/-- The rule is an action `ActionN`. -/
def isAction (q : pegRule) : Bool :=
  match grammar q with
  | .action => true
  | _ => false

/-- The action tokens of a tree: the rule ids `ActionN`, in the order of the tree. -/
def actionsOf (tree : List token32) : List pegRule :=
  (tree.map (fun tok => tok.rule)).filter isAction

/-- The action tokens of the tree that `Parse` leaves when it returns nil. -/
def actionTokens (Buffer : String) : Option (List pegRule) :=
  match Parse Buffer with
  | .nil tree => some (actionsOf tree)
  | _ => none

/-- Two results of `execF` on related inputs: the same outcome, related rests, the same rules
recorded. -/
def ResF.rel (R : List Nat → List Nat → Prop) : ResF → ResF → Prop
  | .panic, .panic => True
  | .fail, .fail => True
  | .ok _ r t, .ok _ r1 t1 => R r r1 ∧ ruleTrace t1 = ruleTrace t
  | _, _ => False

/-- The code of `e` is made of expressions that pass `atom` and of calls of rules that pass
`callOK`. -/
def simOK (atom : Peg → Bool) (callOK : pegRule → Bool) : Peg → Bool
  | .chr c => atom (.chr c)
  | .rng lo hi => atom (.rng lo hi)
  | .dot => atom .dot
  | .call q => atom (.call q) || callOK q
  | .seq a b => atom (.seq a b) || (simOK atom callOK a && simOK atom callOK b)
  | .alt a b => atom (.alt a b) || (simOK atom callOK a && simOK atom callOK b)
  | .opt a => atom (.opt a) || simOK atom callOK a
  | .star a => atom (.star a) || simOK atom callOK a
  | .nt a => atom (.nt a) || simOK atom callOK a
  | .text a => atom (.text a) || simOK atom callOK a

/-- A terminal: a literal, a range or the dot. -/
def isTerminal : Peg → Bool
  | .chr _ => true
  | .rng _ _ => true
  | .dot => true
  | _ => false

/-- The rule called last in a sequence `e1 e2 ... en`, when `en` is a call. -/
def lastCall : Peg → Option pegRule
  | .seq _ b => lastCall b
  | .call q => some q
  | _ => none

/-- The calls `AssembleEmitterSampling` among the calls. -/
def samplingCalls (cs : List Call) : List Call :=
  cs.filter fun c =>
    match c with
    | .AssembleEmitterSampling _ _ _ => true
    | _ => false

/-- The emitter sampling rules with the action that ends each of them and the kind and the
factor `num / den` that `Execute` passes for the action. -/
def samplingTable : List (pegRule × pegRule × EmitterSamplingType × Nat × Nat) :=
  [(.ruleCountBasedSampling, .ruleAction28, .CountBasedSampling, 1, 1),
   (.ruleRandomizedSampling, .ruleAction29, .RandomizedSampling, 1, 1),
   (.ruleTimeBasedSamplingSeconds, .ruleAction30, .TimeBasedSampling, 1, 1),
   (.ruleTimeBasedSamplingMilliseconds, .ruleAction31, .TimeBasedSampling, 1, 1000)]

/-- The calls of a window among the calls: the pushed count literal, the pushed unit and
`AssembleInterval`. -/
def intervalCalls (cs : List Call) : List Call :=
  cs.filter fun c =>
    match c with
    | .PushComponent _ _ (.text .NewNumericLiteral _) => true
    | .PushComponent _ _ (.text .NewFloatLiteral _) => true
    | .PushComponent _ _ (.const .Tuples) => true
    | .PushComponent _ _ (.const .Seconds) => true
    | .PushComponent _ _ (.const .Milliseconds) => true
    | .simple .AssembleInterval => true
    | _ => false

/-! ## The frame of the parser code -/

/-- What code that falls through leaves of the state triple: the depth as it was, and
`position` and `tokenIndex` not below their entry values. -/
def Frame (s s1 : State) : Prop :=
  s1.depth = s.depth ∧ s.position ≤ s1.position ∧ s.tokenIndex ≤ s1.tokenIndex



/-! ## Splitting a JSON path: `data/mapscan.go`

A Go string is given by its runes `[]rune(s)`, as numbers; `string(r)` of a rune of a string
is that rune again.  `unicode.IsNumber` is a function of the Go library and is taken as
the parameter `isNumber`.  The loops run on a budget, `none` standing for a budget that ran
out or an index out of range. -/

/-- The number of bytes of `string(r)`, the UTF-8 encoding of the rune `r`. -/
def runeLen (r : Nat) : Nat :=
  if r < 0x80 then 1 else if r < 0x800 then 2 else if r < 0x10000 then 3 else 4

/-- The built-in `len(s)` of a string: its number of bytes. -/
def stringLen (s : List Nat) : Nat := (s.map runeLen).sum

/-- The end of `getArrayIndex`, after the loop: `"[" + result + "]"` when `result` is not
empty, `""` otherwise. -/
def getArrayIndexEnd (result : List Nat) : List Nat :=
  if result != [] then '['.toNat :: (result ++ [']'.toNat]) else []

/-- The loop `for i < length` of `getArrayIndex`, from the index `i` with the `result`
built so far. -/
def getArrayIndexLoop (isNumber : Nat → Bool) (runes : List Nat) :
    Nat → Nat → List Nat → Option (List Nat)
  | 0, _, _ => none
  | fuel + 1, i, result =>
    if i < runes.length then
      match runes[i]? with
      | none => none
      | some r =>
        if r == ']'.toNat then some (getArrayIndexEnd result)
        else if isNumber r then getArrayIndexLoop isNumber runes fuel (i + 1) (result ++ [r])
        else some []
    else some (getArrayIndexEnd result)

/-- The function `getArrayIndex(runes, i)`. -/
def getArrayIndex (isNumber : Nat → Bool) (runes : List Nat) (i : Nat) : Option (List Nat) :=
  getArrayIndexLoop isNumber runes (runes.length - i + 1) i []

/-- The loop `for i < length` of `splitBracket`, from the index `i` with the `result` built
so far.  The comparisons `i < length-1` and `i < length-4` of the signed `int`s are written
`i + 1 < length` and `i + 4 < length`. -/
def splitBracketLoop (isNumber : Nat → Bool) (runes : List Nat) (quote : Nat) :
    Nat → Nat → List Nat → Option (List Nat)
  | 0, _, _ => none
  | fuel + 1, i, result =>
    if i < runes.length then
      match runes[i]? with
      | none => none
      | some r =>
        if r == quote && (i + 1 < runes.length && runes[i + 1]? == some ']'.toNat) then
          if i + 4 < runes.length && runes[i + 2]? == some '['.toNat then
            match getArrayIndex isNumber runes (i + 3) with
            | none => none
            | some index => some (result ++ index)
          else some result
        else splitBracketLoop isNumber runes quote fuel (i + 1) (result ++ [r])
    else some []

/-- The function `splitBracket(runes, i, quote)`. -/
def splitBracket (isNumber : Nat → Bool) (runes : List Nat) (i : Nat) (quote : Nat) :
    Option (List Nat) :=
  splitBracketLoop isNumber runes quote (runes.length - i + 1) i []

/-- The statement `if part != "" { result = append(result, part) }`. -/
def appendPart (result : List (List Nat)) (part : List Nat) : List (List Nat) :=
  if part != [] then result ++ [part] else result

/-- The loop `for i < length` of `split`, from the index `i` with the `result` and the
`part` built so far.  Every `case` of the `switch` ends in the `i++` of the loop body, the
`break` of the bracket case too, as it leaves the `switch` only. -/
def splitLoop (isNumber : Nat → Bool) (runes : List Nat) :
    Nat → Nat → List (List Nat) → List Nat → Option (List (List Nat))
  | 0, _, _, _ => none
  | fuel + 1, i, result, part =>
    if i < runes.length then
      match runes[i]? with
      | none => none
      | some r =>
        if r == '\\'.toNat then
          if i + 1 < runes.length then
            match runes[i + 1]? with
            | none => none
            | some x => splitLoop isNumber runes fuel (i + 1 + 1) result (part ++ [x])
          else splitLoop isNumber runes fuel (i + 1 + 1) result part
        else if r == '.'.toNat then
          if part != [] then splitLoop isNumber runes fuel (i + 1) (result ++ [part]) []
          else splitLoop isNumber runes fuel (i + 1) result part
        else if r == '['.toNat then
          if i + 1 < runes.length then
            match runes[i + 1]? with
            | none => none
            | some nr =>
              if nr == '"'.toNat || nr == '\''.toNat then
                match splitBracket isNumber runes (i + 2) nr with
                | none => none
                | some inbracket =>
                  if inbracket != [] then
                    splitLoop isNumber runes fuel (i + (1 + stringLen inbracket + 2) + 1)
                      (appendPart result part ++ [inbracket]) []
                  else splitLoop isNumber runes fuel (i + 1) result (part ++ [r])
              else splitLoop isNumber runes fuel (i + 1) result (part ++ [r])
          else splitLoop isNumber runes fuel (i + 1) result (part ++ [r])
        else splitLoop isNumber runes fuel (i + 1) result (part ++ [r])
    else some (appendPart result part)

/-- The function `split(s)`, on the runes of `s`: the components of the path. -/
def split (isNumber : Nat → Bool) (runes : List Nat) : Option (List (List Nat)) :=
  splitLoop isNumber runes (runes.length + 1) 0 [] []

/-- The digits `0`..`9`: the runes below 128 that `unicode.IsNumber` holds of. -/
def asciiNumber (r : Nat) : Bool := decide (48 ≤ r ∧ r ≤ 57)

/-! ## Paths made of segments -/

/-- An ASCII letter or digit. -/
def isAlnum (x : Nat) : Bool :=
  decide (48 ≤ x ∧ x ≤ 57) || decide (65 ≤ x ∧ x ≤ 90) || decide (97 ≤ x ∧ x ≤ 122)

/-- An ASCII letter. -/
def isLetter (x : Nat) : Bool := decide (65 ≤ x ∧ x ≤ 90) || decide (97 ≤ x ∧ x ≤ 122)

/-- A segment of a path: a key, and the digits of an array index when it has one. -/
abbrev Segment := List Nat × Option (List Nat)

/-- The array index of a segment as it is written, `[digits]`, or nothing. -/
def indexText : Option (List Nat) → List Nat
  | none => []
  | some ds => '['.toNat :: (ds ++ [']'.toNat])

/-- A segment as `split` returns it: the key with its index. -/
def segmentText (seg : Segment) : List Nat := seg.1 ++ indexText seg.2

/-- A well-formed segment: a non-empty key of ASCII letters and digits, and an index of one
digit or more. -/
def segmentOK (seg : Segment) : Bool :=
  !seg.1.isEmpty && seg.1.all isAlnum &&
    match seg.2 with
    | none => true
    | some ds => !ds.isEmpty && ds.all asciiNumber

/-- The dotted form `k1.k2...kn` of a path. -/
def dottedPath : List Segment → List Nat
  | [] => []
  | [seg] => segmentText seg
  | seg :: segs => segmentText seg ++ '.'.toNat :: dottedPath segs

/-- The bracket-quoted form `["k1"]["k2"]...["kn"]` of a path, with the given quote, each
index right after the closing bracket of its key. -/
def bracketPath (quote : Nat) : List Segment → List Nat
  | [] => []
  | seg :: segs =>
    '['.toNat :: quote :: (seg.1 ++ quote :: ']'.toNat :: (indexText seg.2 ++
      bracketPath quote segs))



/-! ## The function `distance_us`: `bql/udf/builtin`

The test `TestBinaryDateFuncs` of `time_test.go` is at hand; the function it tests,
`diffUsFunc`, and the package `data` of the values are not. -/

/-- Modelled from the spec: the values of the package `data`, which is not among the
sources; the nine variants `Null`, `Bool`, `Int`, `Float`, `String`, `Blob`, `Timestamp`,
`Array` and `Map` of the data model.  A float is given by the bits of its `float64`, a
string and a blob by their runes and bytes, and a timestamp, an instant with nanosecond
resolution, by its nanoseconds since 1970-01-01T00:00:00Z. -/
inductive Value where
  | null
  | bool (b : Bool)
  | int (n : Int)
  | float (bits : Nat)
  | string (s : List Nat)
  | blob (b : List Nat)
  | timestamp (nanos : Int)
  | array (elems : List Value)
  | map (entries : List (List Nat × Value))

/-- Whether a value is the variant `Null`. -/
def Value.isNull : Value → Bool
  | .null => true
  | _ => false

/-- Whether a value is the variant `Timestamp`. -/
def Value.isTimestamp : Value → Bool
  | .timestamp _ => true
  | _ => false

/-- What a call of a function returns: a value, or an error. -/
inductive CallResult where
  | value (v : Value)
  | error

/-- Modelled from the spec: the function `diffUsFunc`, registered as `distance_us`, whose
code is not among the sources; what its test `TestBinaryDateFuncs` says of it.  A NULL
input gives a NULL output; two timestamps give the `Int` of the microseconds from the
first to the second, the nanoseconds between them divided by 1000 as Go divides, towards
zero; every other input cannot be processed.  The range of the `int64` is not modelled. -/
def diffUsFunc (arg1 arg2 : Value) : CallResult :=
  match arg1, arg2 with
  | .null, _ => .value .null
  | _, .null => .value .null
  | .timestamp t1, .timestamp t2 => .value (.int ((t2 - t1).tdiv 1000))
  | _, _ => .error

/-- The days from 1970-01-01 to the day `d` of the month `m` of the year `y` of the
Gregorian calendar. -/
def daysFromCivil (y m d : Int) : Int :=
  let y1 := if m ≤ 2 then y - 1 else y
  let era := y1 / 400
  let yoe := y1 - era * 400
  let mp := (m + 9) % 12
  let doy := (153 * mp + 2) / 5 + d - 1
  let doe := yoe * 365 + yoe / 4 - yoe / 100 + doy
  era * 146097 + doe - 719468

/-- The instant `time.Date(year, month, day, hour, min, sec, nsec, time.UTC)` of the Go
library, for fields in their ranges, in nanoseconds since 1970-01-01T00:00:00Z. -/
def dateUTC (year month day hour min sec nsec : Int) : Int :=
  (((daysFromCivil year month day * 24 + hour) * 60 + min) * 60 + sec) * 1000000000 + nsec



/-! ## Reading and writing a map by a path: `scanMap` and `setInMap` of `data/mapscan.go`

`CompilePath`, `Path.Evaluate` and `Path.Set` are functions of the package that are not
among the sources; they are taken as parameters.  A call that returns `(x, err)` is given by
an `Except`: the error when `err != nil`, the value otherwise. -/

/-- The function `scanMap(m, p, v)`: the error it returns (`none` for `nil`) and the value
that `*v` holds after the call, `v` being the value it held before. -/
def scanMap {Path Map Val Err : Type} (CompilePath : List Nat → Except Err Path)
    (Evaluate : Path → Map → Except Err Val) (m : Map) (p : List Nat) (v : Val) :
    Option Err × Val :=
  match CompilePath p with
  | .error err => (some err, v)
  | .ok path =>
    match Evaluate path m with
    | .error err => (some err, v)
    | .ok val => (none, val)

/-- The function `setInMap(m, p, v)`: the error it returns (`none` for `nil`) and the map
after the call.  `Set` gives the error of `path.Set(m, v)` and the map as it leaves it. -/
def setInMap {Path Map Val Err : Type} (CompilePath : List Nat → Except Err Path)
    (Set : Path → Map → Val → Option Err × Map) (m : Map) (p : List Nat) (v : Val) :
    Option Err × Map :=
  match CompilePath p with
  | .error err => (some err, m)
  | .ok path => Set path m v



/-! ## The levels of an expression -/

/-- The tails of the eight expression levels from `orExpr` to `castExpr` match nothing at
the text `r`: no operator follows. -/
def levelTails (r : List Nat) : Prop :=
  ∀ (d p : Nat) (t : List token32),
    Eval (.star (.seqs [.call .rulesp, .call .ruleOr, .call .rulesp, .call .ruleandExpr]))
      d p r t (.ok p r t) ∧
    Eval (.star (.seqs [.call .rulesp, .call .ruleAnd, .call .rulesp, .call .rulenotExpr]))
      d p r t (.ok p r t) ∧
    Eval (.opt (.seqs [.call .rulespOpt, .call .ruleComparisonOp, .call .rulespOpt,
      .call .ruleotherOpExpr])) d p r t (.ok p r t) ∧
    Eval (.star (.seqs [.call .rulespOpt, .call .ruleOtherOp, .call .rulespOpt,
      .call .ruleisExpr])) d p r t (.ok p r t) ∧
    Eval (.opt (.seqs [.call .rulesp, .call .ruleIsOp, .call .rulesp, .call .ruleNullLiteral]))
      d p r t (.ok p r t) ∧
    Eval (.star (.seqs [.call .rulespOpt, .call .rulePlusMinusOp, .call .rulespOpt,
      .call .ruleproductExpr])) d p r t (.ok p r t) ∧
    Eval (.star (.seqs [.call .rulespOpt, .call .ruleMultDivOp, .call .rulespOpt,
      .call .ruleminusExpr])) d p r t (.ok p r t) ∧
    Eval (.opt (.seqs [.call .rulespOpt, .seqs [.chr ':', .chr ':'], .call .rulespOpt,
      .call .ruleType])) d p r t (.ok p r t)

/-- The tokens that rule `Expression` and the levels from `orExpr` to `productExpr` record,
newest first, for a match from `p` to `p1` entered at depth `d` in which no level reads an
operator: every level its rule, its action and its text span. -/
def levelTokens (d p p1 : Nat) : List token32 :=
  [⟨.ruleExpression, p, p1, d⟩,
   ⟨.ruleorExpr, p, p1, d + 1⟩, ⟨.ruleAction50, p1, p1, d + 2⟩, ⟨.rulePegText, p, p1, d + 2⟩,
   ⟨.ruleandExpr, p, p1, d + 3⟩, ⟨.ruleAction51, p1, p1, d + 4⟩, ⟨.rulePegText, p, p1, d + 4⟩,
   ⟨.rulenotExpr, p, p1, d + 5⟩, ⟨.ruleAction52, p1, p1, d + 6⟩, ⟨.rulePegText, p, p1, d + 6⟩,
   ⟨.rulecomparisonExpr, p, p1, d + 7⟩, ⟨.ruleAction53, p1, p1, d + 8⟩,
   ⟨.rulePegText, p, p1, d + 8⟩,
   ⟨.ruleotherOpExpr, p, p1, d + 9⟩, ⟨.ruleAction54, p1, p1, d + 10⟩,
   ⟨.rulePegText, p, p1, d + 10⟩,
   ⟨.ruleisExpr, p, p1, d + 11⟩, ⟨.ruleAction55, p1, p1, d + 12⟩,
   ⟨.rulePegText, p, p1, d + 12⟩,
   ⟨.ruletermExpr, p, p1, d + 13⟩, ⟨.ruleAction56, p1, p1, d + 14⟩,
   ⟨.rulePegText, p, p1, d + 14⟩,
   ⟨.ruleproductExpr, p, p1, d + 15⟩, ⟨.ruleAction57, p1, p1, d + 16⟩,
   ⟨.rulePegText, p, p1, d + 16⟩]

/-- The rune starts no whitespace and no operator: it is no blank, tab, LF or CR, no `-`,
and none of `=`, `<`, `>`, `!`, `|`, `+`, `*`, `/`, `%` and `:`. -/
def plainHead (c : Nat) : Bool :=
  c != 32 && c != 9 && c != 10 && c != 13 && c != 45 && c != 61 && c != 60 && c != 62 &&
    c != 33 && c != 124 && c != 43 && c != 42 && c != 47 && c != 37 && c != 58

/-- A rune of an identifier after its first: an ASCII letter, a digit or `_`. -/
def isIdentRune (x : Nat) : Bool := isAlnum x || x == '_'.toNat



/-! ## The shape of the token tree -/

/-- The tokens `l`, newest first, are the post-order record of matches at depth `d` that lie
one after the other between the positions `lo` and `hi`: the newest token has depth `d` and
spans `b..e` with `e ≤ hi`; directly before it stand the tokens `kids` of its children,
which are such a record at depth `d + 1` between `b` and `e`; before these stand the tokens
`older` of the matches before it, such a record at depth `d` between `lo` and `b`.  The
token of an action spans the empty text and has no children. -/
inductive Forest : Nat → Nat → Nat → List token32 → Prop where
  | nil {d lo hi : Nat} : lo ≤ hi → Forest d lo hi []
  | node {d lo hi : Nat} {q : pegRule} {b e : Nat} {kids older : List token32} :
      Forest d lo b older → Forest (d + 1) b e kids → e ≤ hi →
      (grammar q = .action → b = e ∧ kids = []) →
      Forest d lo hi (⟨q, b, e, d⟩ :: (kids ++ older))



/-! ## Positions as line and symbol (`translatePositions`) -/

/-- The struct `textPosition`. -/
structure textPosition where
  line : Nat
  symbol : Nat
deriving DecidableEq, Repr

/-- The type `textPositionMap`, a `map[int]textPosition`: its entries, the newest first.
`List.lookup` reads the entry of a key. -/
abbrev textPositionMap := List (Int × textPosition)

/-- The inner loop `for j++; j < length; j++ { if i != positions[j] { continue search } }`
after its `j++`: `rest` is `positions[j:]`; it returns the `j` it stops at, the index of the
first position from `j` on that differs from `i`, or `length`. -/
def skipEqual (i : Int) : List Int → Nat → Nat
  | [], j => j
  | pj :: rest, j => if i ≠ pj then j else skipEqual i rest (j + 1)

/-- The loop `search` of `translatePositions` over the runes from index `i` on, with the
sorted `positions`; `none` stands for the run-time panic of `positions[j]` out of range. -/
def translateLoop (positions : List Int) :
    List Nat → Nat → Nat → Nat → Nat → textPositionMap → Option textPositionMap
  | [], _, _, _, _, translations => some translations
  | c :: rest, i, j, line, symbol, translations =>
    let line1 := if c = '\n'.toNat then line + 1 else line
    let symbol1 := if c = '\n'.toNat then 0 else symbol + 1
    match positions[j]? with
    | none => none
    | some pj =>
      if (i : Int) = pj then
        let j1 := skipEqual i (positions.drop (j + 1)) (j + 1)
        if j1 < positions.length then
          translateLoop positions rest (i + 1) j1 line1 symbol1
            ((pj, ⟨line1, symbol1⟩) :: translations)
        else some ((pj, ⟨line1, symbol1⟩) :: translations)
      else translateLoop positions rest (i + 1) j line1 symbol1 translations

/-- The function `translatePositions(buffer, positions)` on the runes of `buffer`:
`sort.Ints(positions)` puts the positions in increasing order (the order is unique, so the
sort is modelled by insertion sort), then the loop runs with `j, line, symbol := 0, 1, 0`
and an empty map. -/
def translatePositions (buffer : List Nat) (positions : List Int) : Option textPositionMap :=
  translateLoop (positions.insertionSort (fun a b => a ≤ b)) buffer 0 0 1 0 []

/-- In the words of the spec: the line of position `p`, 1 plus the number of LF runes among
the runes `0..p` inclusive. -/
def lineSpec (buffer : List Nat) (p : Nat) : Nat :=
  1 + ((buffer.take (p + 1)).filter (fun c => c == '\n'.toNat)).length

/-- In the words of the spec: the symbol of position `p`, the number of runes after the last
LF among the runes `0..p` up to and including `p`. -/
def symbolSpec (buffer : List Nat) (p : Nat) : Nat :=
  ((buffer.take (p + 1)).reverse.takeWhile (fun c => c != '\n'.toNat)).length



/-! ## Unfolding lemmas and fuel monotonicity -/

theorem execF_zero (e : Peg) (d p : Nat) (r : List Nat) (t : List token32) :
    execF 0 e d p r t = .oof := rfl

theorem execF_chr (f : Nat) (c : Char) (d p : Nat) (r : List Nat) (t : List token32) :
    execF (f + 1) (.chr c) d p r t =
      match r with
      | [] => .panic
      | x :: xs => if x != c.toNat then .fail else .ok (p + 1) xs t := rfl

theorem execF_rng (f : Nat) (lo hi : Char) (d p : Nat) (r : List Nat) (t : List token32) :
    execF (f + 1) (.rng lo hi) d p r t =
      match r with
      | [] => .panic
      | x :: xs => if x < lo.toNat || x > hi.toNat then .fail else .ok (p + 1) xs t := rfl

theorem execF_dot (f : Nat) (d p : Nat) (r : List Nat) (t : List token32) :
    execF (f + 1) .dot d p r t =
      match r with
      | [] => .panic
      | x :: xs => if x != end_symbol then .ok (p + 1) xs t else .fail := rfl

theorem execF_call (f : Nat) (q : pegRule) (d p : Nat) (r : List Nat) (t : List token32) :
    execF (f + 1) (.call q) d p r t =
      match grammar q with
      | .nil => .panic
      | .action => .ok p r (⟨q, p, p, d⟩ :: t)
      | .expr body =>
        match execF f body (d + 1) p r t with
        | .ok p1 r1 t1 => .ok p1 r1 (⟨q, p, p1, d⟩ :: t1)
        | x => x := rfl

theorem execF_seq (f : Nat) (a b : Peg) (d p : Nat) (r : List Nat) (t : List token32) :
    execF (f + 1) (.seq a b) d p r t =
      match execF f a d p r t with
      | .ok p1 r1 t1 => execF f b d p1 r1 t1
      | x => x := rfl

theorem execF_alt (f : Nat) (a b : Peg) (d p : Nat) (r : List Nat) (t : List token32) :
    execF (f + 1) (.alt a b) d p r t =
      match execF f a d p r t with
      | .fail => execF f b d p r t
      | x => x := rfl

theorem execF_opt (f : Nat) (a : Peg) (d p : Nat) (r : List Nat) (t : List token32) :
    execF (f + 1) (.opt a) d p r t =
      match execF f a d p r t with
      | .fail => .ok p r t
      | x => x := rfl

theorem execF_star (f : Nat) (a : Peg) (d p : Nat) (r : List Nat) (t : List token32) :
    execF (f + 1) (.star a) d p r t =
      match execF f a d p r t with
      | .ok p1 r1 t1 => execF f (.star a) d p1 r1 t1
      | .fail => .ok p r t
      | x => x := rfl

theorem execF_nt (f : Nat) (a : Peg) (d p : Nat) (r : List Nat) (t : List token32) :
    execF (f + 1) (.nt a) d p r t =
      match execF f a d p r t with
      | .ok _ _ _ => .fail
      | .fail => .ok p r t
      | x => x := rfl

theorem execF_text (f : Nat) (a : Peg) (d p : Nat) (r : List Nat) (t : List token32) :
    execF (f + 1) (.text a) d p r t =
      match execF f a (d + 1) p r t with
      | .ok p1 r1 t1 => .ok p1 r1 (⟨.rulePegText, p, p1, d⟩ :: t1)
      | x => x := rfl

theorem execF_succ (f : Nat) : ∀ (e : Peg) (d p : Nat) (r : List Nat) (t : List token32),
    execF f e d p r t ≠ .oof → execF (f + 1) e d p r t = execF f e d p r t := by
  induction f with
  | zero => intro e d p r t h; exact absurd rfl h
  | succ n ih =>
    intro e d p r t h
    cases e with
    | chr c => rfl
    | rng lo hi => rfl
    | dot => rfl
    | call q =>
      simp only [execF_call] at h ⊢
      cases hg : grammar q with
      | nil => rfl
      | action => rfl
      | expr body =>
        simp only [hg] at h ⊢
        cases hb : execF n body (d + 1) p r t <;> simp only [hb] at h <;>
          first
          | exact absurd rfl h
          | rw [ih _ _ _ _ _ (by rw [hb]; simp), hb]
    | seq a b =>
      simp only [execF_seq] at h ⊢
      cases ha : execF n a d p r t <;> simp only [ha] at h <;>
        first
        | exact absurd rfl h
        | (rw [ih _ _ _ _ _ (by rw [ha]; simp), ha]; try exact ih _ _ _ _ _ h)
    | alt a b =>
      simp only [execF_alt] at h ⊢
      cases ha : execF n a d p r t <;> simp only [ha] at h <;>
        first
        | exact absurd rfl h
        | (rw [ih _ _ _ _ _ (by rw [ha]; simp), ha]; try exact ih _ _ _ _ _ h)
    | opt a =>
      simp only [execF_opt] at h ⊢
      cases ha : execF n a d p r t <;> simp only [ha] at h <;>
        first
        | exact absurd rfl h
        | (rw [ih _ _ _ _ _ (by rw [ha]; simp), ha])
    | star a =>
      simp only [execF_star] at h ⊢
      cases ha : execF n a d p r t <;> simp only [ha] at h <;>
        first
        | exact absurd rfl h
        | (rw [ih _ _ _ _ _ (by rw [ha]; simp), ha]; try exact ih _ _ _ _ _ h)
    | nt a =>
      simp only [execF_nt] at h ⊢
      cases ha : execF n a d p r t <;> simp only [ha] at h <;>
        first
        | exact absurd rfl h
        | (rw [ih _ _ _ _ _ (by rw [ha]; simp), ha])
    | text a =>
      simp only [execF_text] at h ⊢
      cases ha : execF n a (d + 1) p r t <;> simp only [ha] at h <;>
        first
        | exact absurd rfl h
        | (rw [ih _ _ _ _ _ (by rw [ha]; simp), ha])

theorem execF_mono {f f' : Nat} (hle : f ≤ f') {e : Peg} {d p : Nat} {r : List Nat}
    {t : List token32} (h : execF f e d p r t ≠ .oof) :
    execF f' e d p r t = execF f e d p r t := by
  induction hle with
  | refl => rfl
  | step _ ih => rw [execF_succ _ _ _ _ _ _ (by rw [ih]; exact h), ih]

/-! ## `exec` and `execF` agree -/

theorem exec_chr (buffer : List Nat) (f : Nat) (c : Char) (s : State) :
    exec buffer (f + 1) (.chr c) s =
      match buffer[s.position]? with
      | none => .panic
      | some x => if x != c.toNat then .fail s else .ok { s with position := s.position + 1 } :=
  rfl

theorem exec_rng (buffer : List Nat) (f : Nat) (lo hi : Char) (s : State) :
    exec buffer (f + 1) (.rng lo hi) s =
      match buffer[s.position]? with
      | none => .panic
      | some x =>
        if x < lo.toNat || x > hi.toNat then .fail s
        else .ok { s with position := s.position + 1 } := rfl

theorem exec_dot (buffer : List Nat) (f : Nat) (s : State) :
    exec buffer (f + 1) .dot s =
      match buffer[s.position]? with
      | none => .panic
      | some x => if x != end_symbol then .ok { s with position := s.position + 1 } else .fail s :=
  rfl

theorem exec_call (buffer : List Nat) (f : Nat) (q : pegRule) (s : State) :
    exec buffer (f + 1) (.call q) s =
      match grammar q with
      | .nil => .panic
      | .action => .ok (add q s.position s)
      | .expr body =>
        match exec buffer f body { s with depth := s.depth + 1 } with
        | .ok s1 => .ok (add q s.position { s1 with depth := s1.depth - 1 })
        | .fail s1 => .fail (restore s s1)
        | x => x := rfl

theorem exec_seq (buffer : List Nat) (f : Nat) (a b : Peg) (s : State) :
    exec buffer (f + 1) (.seq a b) s =
      match exec buffer f a s with
      | .ok s1 => exec buffer f b s1
      | x => x := rfl

theorem exec_alt (buffer : List Nat) (f : Nat) (a b : Peg) (s : State) :
    exec buffer (f + 1) (.alt a b) s =
      match exec buffer f a s with
      | .ok s1 => .ok s1
      | .fail s1 => exec buffer f b (restore s s1)
      | x => x := rfl

theorem exec_opt (buffer : List Nat) (f : Nat) (a : Peg) (s : State) :
    exec buffer (f + 1) (.opt a) s =
      match exec buffer f a s with
      | .ok s1 => .ok s1
      | .fail s1 => .ok (restore s s1)
      | x => x := rfl

theorem exec_star (buffer : List Nat) (f : Nat) (a : Peg) (s : State) :
    exec buffer (f + 1) (.star a) s =
      match exec buffer f a s with
      | .ok s1 => exec buffer f (.star a) s1
      | .fail s1 => .ok (restore s s1)
      | x => x := rfl

theorem exec_nt (buffer : List Nat) (f : Nat) (a : Peg) (s : State) :
    exec buffer (f + 1) (.nt a) s =
      match exec buffer f a s with
      | .ok s1 => .fail s1
      | .fail s1 => .ok (restore s s1)
      | x => x := rfl

theorem exec_text (buffer : List Nat) (f : Nat) (a : Peg) (s : State) :
    exec buffer (f + 1) (.text a) s =
      match exec buffer f a { s with depth := s.depth + 1 } with
      | .ok s1 => .ok (add .rulePegText s.position { s1 with depth := s1.depth - 1 })
      | x => x := rfl

theorem take_of_take_append {tree : List token32} {new t : List token32}
    (h : tree.take (new ++ t).length = (new ++ t).reverse) : tree.take t.length = t.reverse := by
  have h1 : (tree.take (new ++ t).length).take t.length = tree.take t.length := by
    rw [List.take_take]; congr 1; simp
  rw [← h1, h, List.reverse_append, List.take_left']
  simp

theorem Rel.restore {buffer : List Nat} {s s' : State} {d p : Nat} {r : List Nat}
    {t : List token32} (h : Rel buffer s d p r t) (h' : s'.tree.take t.length = t.reverse) :
    Rel buffer (Bql.restore s s') d p r t := by
  obtain ⟨h1, h2, h3, h4, _⟩ := h
  exact ⟨h1, h2, h3, h4, h'⟩

theorem Rel.add {buffer : List Nat} {s : State} {d p : Nat} {r : List Nat}
    {t : List token32} (h : Rel buffer s d p r t) (q : pegRule) (b : Nat) :
    Rel buffer (Bql.add q b s) d p r (⟨q, b, p, d⟩ :: t) := by
  obtain ⟨h1, h2, h3, h4, h5⟩ := h
  refine ⟨h1, h2, h3, by simp [Bql.add, h4], ?_⟩
  have hl : (s.tree.take t.length).length = t.length := by rw [h5]; simp
  simp only [Bql.add, h4, h1, h2, List.length_cons, List.reverse_cons]
  rw [List.take_append_eq_append_take, hl, h5]
  simp

theorem Rel.read {buffer : List Nat} {s : State} {d p : Nat} {r : List Nat}
    {t : List token32} (h : Rel buffer s d p r t) :
    (r = [] ∧ buffer[s.position]? = none) ∨
    ∃ x xs, r = x :: xs ∧ buffer[s.position]? = some x ∧ xs = buffer.drop (p + 1) := by
  obtain ⟨h1, _, h3, _, _⟩ := h
  subst h1 h3
  by_cases hp : s.position < buffer.length
  · right
    refine ⟨buffer[s.position], buffer.drop (s.position + 1), ?_, ?_, rfl⟩
    · exact List.drop_eq_getElem_cons hp
    · exact List.getElem?_eq_getElem hp
  · left
    have : buffer.length ≤ s.position := Nat.le_of_not_lt hp
    exact ⟨List.drop_eq_nil_of_le this, List.getElem?_eq_none this⟩

theorem Rel.advance {buffer : List Nat} {s : State} {d p : Nat} {r : List Nat}
    {t : List token32} (h : Rel buffer s d p r t) :
    Rel buffer { s with position := s.position + 1 } d (p + 1) (buffer.drop (p + 1)) t := by
  obtain ⟨h1, h2, _, h4, h5⟩ := h
  exact ⟨by simp [h1], h2, rfl, h4, h5⟩

theorem exec_execF (buffer : List Nat) (f : Nat) :
    ∀ (e : Peg) (s : State) (d p : Nat) (r : List Nat) (t : List token32),
      Rel buffer s d p r t → Refines buffer (exec buffer f e s) d t (execF f e d p r t) := by
  induction f with
  | zero => intro e s d p r t _; rfl
  | succ n ih =>
    intro e s d p r t h
    cases e with
    | chr c =>
      rw [exec_chr, execF_chr]
      rcases h.read with ⟨hr, hb⟩ | ⟨x, xs, hr, hb, hxs⟩
      · subst hr; rw [hb]; rfl
      · subst hr; rw [hb]
        by_cases hx : (x != c.toNat) = true
        · simp only [hx, if_true]; exact ⟨s, rfl, h.2.2.2.2⟩
        · simp only [hx, if_false]
          subst hxs
          exact ⟨_, rfl, h.advance, [], rfl⟩
    | rng lo hi =>
      rw [exec_rng, execF_rng]
      rcases h.read with ⟨hr, hb⟩ | ⟨x, xs, hr, hb, hxs⟩
      · subst hr; rw [hb]; rfl
      · subst hr; rw [hb]
        by_cases hx : (decide (x < lo.toNat) || decide (x > hi.toNat)) = true
        · simp only [hx, if_true]; exact ⟨s, rfl, h.2.2.2.2⟩
        · simp only [hx, if_false]
          subst hxs
          exact ⟨_, rfl, h.advance, [], rfl⟩
    | dot =>
      rw [exec_dot, execF_dot]
      rcases h.read with ⟨hr, hb⟩ | ⟨x, xs, hr, hb, hxs⟩
      · subst hr; rw [hb]; rfl
      · subst hr; rw [hb]
        by_cases hx : (x != end_symbol) = true
        · simp only [hx, if_true]
          subst hxs
          exact ⟨_, rfl, h.advance, [], rfl⟩
        · simp only [hx, if_false]; exact ⟨s, rfl, h.2.2.2.2⟩
    | call q =>
      rw [exec_call, execF_call]
      cases hg : grammar q with
      | nil => rfl
      | action =>
        refine ⟨_, rfl, ?_, [_], rfl⟩
        have := h.add q s.position
        rw [h.1] at this ⊢
        exact this
      | expr body =>
        have h1 : Rel buffer { s with depth := s.depth + 1 } (d + 1) p r t := by
          obtain ⟨a1, a2, a3, a4, a5⟩ := h
          exact ⟨a1, by simp [a2], a3, a4, a5⟩
        have hi := ih body _ _ _ _ _ h1
        cases hb : execF n body (d + 1) p r t with
        | oof => rw [hb] at hi; simp only [Refines] at hi; simp only [hi, hb]; rfl
        | panic => rw [hb] at hi; simp only [Refines] at hi; simp only [hi, hb]; rfl
        | fail =>
          rw [hb] at hi
          obtain ⟨s', hs', hpre⟩ := hi
          simp only [hs', hb]
          exact ⟨_, rfl, hpre⟩
        | ok p1 r1 t1 =>
          rw [hb] at hi
          simp only [hb]
          obtain ⟨s', hs', hrel, new, hnew⟩ := hi
          simp only [hs']
          refine ⟨_, rfl, ?_, ⟨_ :: new, by rw [hnew]; rfl⟩⟩
          have h2 : Rel buffer { s' with depth := s'.depth - 1 } d p1 r1 t1 := by
            obtain ⟨a1, a2, a3, a4, a5⟩ := hrel
            exact ⟨a1, by simp [a2], a3, a4, a5⟩
          have := h2.add q s.position
          rw [h.1] at this ⊢
          exact this
    | seq a b =>
      rw [exec_seq, execF_seq]
      have hi := ih a _ _ _ _ _ h
      cases ha : execF n a d p r t with
      | oof => rw [ha] at hi; simp only [Refines] at hi; simp only [hi]; rfl
      | panic => rw [ha] at hi; simp only [Refines] at hi; simp only [hi]; rfl
      | fail =>
        rw [ha] at hi
        obtain ⟨s', hs', hpre⟩ := hi
        simp only [hs']
        exact ⟨_, rfl, hpre⟩
      | ok p1 r1 t1 =>
        rw [ha] at hi
        obtain ⟨s', hs', hrel, new, hnew⟩ := hi
        simp only [hs']
        have hj := ih b _ _ _ _ _ hrel
        subst hnew
        cases hb : execF n b d p1 r1 (new ++ t) with
        | oof => rw [hb] at hj; exact hj
        | panic => rw [hb] at hj; exact hj
        | fail =>
          rw [hb] at hj
          obtain ⟨s2, hs2, hpre⟩ := hj
          exact ⟨s2, hs2, take_of_take_append hpre⟩
        | ok p2 r2 t2 =>
          rw [hb] at hj
          obtain ⟨s2, hs2, hrel2, new2, hnew2⟩ := hj
          exact ⟨s2, hs2, hrel2, new2 ++ new, by rw [hnew2, List.append_assoc]⟩
    | alt a b =>
      rw [exec_alt, execF_alt]
      have hi := ih a _ _ _ _ _ h
      cases ha : execF n a d p r t with
      | oof => rw [ha] at hi; simp only [Refines] at hi; simp only [hi]; rfl
      | panic => rw [ha] at hi; simp only [Refines] at hi; simp only [hi]; rfl
      | fail =>
        rw [ha] at hi
        obtain ⟨s', hs', hpre⟩ := hi
        simp only [hs']
        exact ih b _ _ _ _ _ (h.restore hpre)
      | ok p1 r1 t1 =>
        rw [ha] at hi
        obtain ⟨s', hs', hrel, hnew⟩ := hi
        simp only [hs']
        exact ⟨_, rfl, hrel, hnew⟩
    | opt a =>
      rw [exec_opt, execF_opt]
      have hi := ih a _ _ _ _ _ h
      cases ha : execF n a d p r t with
      | oof => rw [ha] at hi; simp only [Refines] at hi; simp only [hi]; rfl
      | panic => rw [ha] at hi; simp only [Refines] at hi; simp only [hi]; rfl
      | fail =>
        rw [ha] at hi
        obtain ⟨s', hs', hpre⟩ := hi
        simp only [hs']
        exact ⟨_, rfl, h.restore hpre, [], rfl⟩
      | ok p1 r1 t1 =>
        rw [ha] at hi
        obtain ⟨s', hs', hrel, hnew⟩ := hi
        simp only [hs']
        exact ⟨_, rfl, hrel, hnew⟩
    | star a =>
      rw [exec_star, execF_star]
      have hi := ih a _ _ _ _ _ h
      cases ha : execF n a d p r t with
      | oof => rw [ha] at hi; simp only [Refines] at hi; simp only [hi]; rfl
      | panic => rw [ha] at hi; simp only [Refines] at hi; simp only [hi]; rfl
      | fail =>
        rw [ha] at hi
        obtain ⟨s', hs', hpre⟩ := hi
        simp only [hs']
        exact ⟨_, rfl, h.restore hpre, [], rfl⟩
      | ok p1 r1 t1 =>
        rw [ha] at hi
        obtain ⟨s', hs', hrel, new, hnew⟩ := hi
        simp only [hs']
        have hj := ih (.star a) _ _ _ _ _ hrel
        subst hnew
        cases hb : execF n (.star a) d p1 r1 (new ++ t) with
        | oof => rw [hb] at hj; exact hj
        | panic => rw [hb] at hj; exact hj
        | fail =>
          rw [hb] at hj
          obtain ⟨s2, hs2, hpre⟩ := hj
          exact ⟨s2, hs2, take_of_take_append hpre⟩
        | ok p2 r2 t2 =>
          rw [hb] at hj
          obtain ⟨s2, hs2, hrel2, new2, hnew2⟩ := hj
          exact ⟨s2, hs2, hrel2, new2 ++ new, by rw [hnew2, List.append_assoc]⟩
    | nt a =>
      rw [exec_nt, execF_nt]
      have hi := ih a _ _ _ _ _ h
      cases ha : execF n a d p r t with
      | oof => rw [ha] at hi; simp only [Refines] at hi; simp only [hi]; rfl
      | panic => rw [ha] at hi; simp only [Refines] at hi; simp only [hi]; rfl
      | fail =>
        rw [ha] at hi
        obtain ⟨s', hs', hpre⟩ := hi
        simp only [hs']
        exact ⟨_, rfl, h.restore hpre, [], rfl⟩
      | ok p1 r1 t1 =>
        rw [ha] at hi
        obtain ⟨s', hs', hrel, new, hnew⟩ := hi
        simp only [hs']
        subst hnew
        exact ⟨_, rfl, take_of_take_append hrel.2.2.2.2⟩
    | text a =>
      rw [exec_text, execF_text]
      have h1 : Rel buffer { s with depth := s.depth + 1 } (d + 1) p r t := by
        obtain ⟨a1, a2, a3, a4, a5⟩ := h
        exact ⟨a1, by simp [a2], a3, a4, a5⟩
      have hi := ih a _ _ _ _ _ h1
      cases hb : execF n a (d + 1) p r t with
      | oof => rw [hb] at hi; simp only [Refines] at hi; simp only [hi, hb]; rfl
      | panic => rw [hb] at hi; simp only [Refines] at hi; simp only [hi, hb]; rfl
      | fail =>
        rw [hb] at hi
        obtain ⟨s', hs', hpre⟩ := hi
        simp only [hs', hb]
        exact ⟨_, rfl, hpre⟩
      | ok p1 r1 t1 =>
        rw [hb] at hi
        simp only [hb]
        obtain ⟨s', hs', hrel, new, hnew⟩ := hi
        simp only [hs']
        refine ⟨_, rfl, ?_, ⟨_ :: new, by rw [hnew]; rfl⟩⟩
        have h2 : Rel buffer { s' with depth := s'.depth - 1 } d p1 r1 t1 := by
          obtain ⟨a1, a2, a3, a4, a5⟩ := hrel
          exact ⟨a1, by simp [a2], a3, a4, a5⟩
        have := h2.add .rulePegText s.position
        rw [h.1] at this ⊢
        exact this

/-! ## From `execF` to `Parse` and `Execute` -/

theorem Rel_init (buffer : List Nat) : Rel buffer initState 0 0 buffer [] :=
  ⟨rfl, rfl, rfl, rfl, rfl⟩

theorem parseRule_of_execF (f : Nat) (Buffer : List Nat) (q : pegRule) :
    match execF f (.call q) 0 0 (Init Buffer) [] with
    | .oof => parseRule f Buffer q = .oof
    | .panic => parseRule f Buffer q = .panic
    | .fail => ∃ tree, parseRule f Buffer q = .parseError tree
    | .ok _ _ toks => parseRule f Buffer q = .nil toks.reverse := by
  have h := exec_execF (Init Buffer) f (.call q) initState 0 0 (Init Buffer) [] (Rel_init _)
  unfold parseRule
  cases hx : execF f (.call q) 0 0 (Init Buffer) [] with
  | oof => rw [hx] at h; simp only [Refines] at h; simp only [h]
  | panic => rw [hx] at h; simp only [Refines] at h; simp only [h]
  | fail =>
    rw [hx] at h
    obtain ⟨s', hs', _⟩ := h
    simp only [hs']
    exact ⟨_, rfl⟩
  | ok p r t =>
    rw [hx] at h
    obtain ⟨s', hs', hrel, _⟩ := h
    simp only [hs']
    obtain ⟨_, _, _, h4, h5⟩ := hrel
    rw [h4, h5]

/-- Evaluating with `execF` at any fuel below `parseFuel` that is enough gives what
`Parse` and `Execute` give. -/
theorem parseExecute_eq_runF (f : Nat) {Buffer : String}
    (hf : f ≤ parseFuel (runes Buffer).length)
    (h : runF f (runes Buffer) .ruleSingleStatement ≠ .oof) :
    parseExecute Buffer = runF f (runes Buffer) .ruleSingleStatement := by
  have hne : execF f (.call .ruleSingleStatement) 0 0 (Init (runes Buffer)) [] ≠ .oof := by
    intro hc; apply h; simp only [runF, hc]
  have hm := execF_mono hf hne
  have hp := parseRule_of_execF (parseFuel (runes Buffer).length) (runes Buffer)
    .ruleSingleStatement
  rw [hm] at hp
  unfold parseExecute Parse runF
  cases hx : execF f (.call .ruleSingleStatement) 0 0 (Init (runes Buffer)) [] with
  | oof => exact absurd hx hne
  | panic => rw [hx] at hp; simp only [hp]
  | fail =>
    rw [hx] at hp
    obtain ⟨tree, ht⟩ := hp
    simp only [ht]
  | ok p r t => rw [hx] at hp; simp only [hp]

theorem parseExecute_calls (f : Nat) {Buffer : String} {cs : List Call}
    (hf : f ≤ parseFuel (runes Buffer).length)
    (h : runF f (runes Buffer) .ruleSingleStatement = .calls cs) :
    parseExecute Buffer = .calls cs := by
  rw [parseExecute_eq_runF f hf (by rw [h]; simp), h]

theorem parseExecute_parseError (f : Nat) {Buffer : String}
    (hf : f ≤ parseFuel (runes Buffer).length)
    (h : runF f (runes Buffer) .ruleSingleStatement = .parseError) :
    parseExecute Buffer = .parseError := by
  rw [parseExecute_eq_runF f hf (by rw [h]; simp), h]

/-! ## Progress: what a successful run consumes -/

set_option maxRecDepth 10000 in
theorem ruleOK_all (q : pegRule) : ruleOK q = true := by
  cases q <;> rfl

theorem toNat_lt_end (c : Char) : c.toNat < end_symbol := by
  have h := c.valid
  simp only [UInt32.isValidChar, Nat.isValidChar] at h
  simp only [Char.toNat, end_symbol]
  omega

theorem toNat_ne_end (c : Char) : c.toNat ≠ end_symbol := Nat.ne_of_lt (toNat_lt_end c)

theorem ruleOK_expr {q : pegRule} {body : Peg} (hg : grammar q = .expr body) :
    headOK (rank q) body = true ∧ starOK body = true ∧ callsOK body = true ∧
      needA body ≤ 24 ∧ needB body ≤ 1 ∧ (nullable q = false → mayEmpty body = false) ∧
      rank q < 20 := by
  have h := ruleOK_all q
  simp only [ruleOK, hg, Bool.and_eq_true, decide_eq_true_eq, Bool.or_eq_true,
    Bool.not_eq_true'] at h
  obtain ⟨⟨⟨⟨⟨⟨h1, h2⟩, h3⟩, h4⟩, h5⟩, h6⟩, h7⟩ := h
  refine ⟨h1, h2, h3, h4, h5, ?_, h7⟩
  intro hn
  rcases h6 with h6 | h6
  · rw [hn] at h6; exact absurd h6 (by simp)
  · exact h6

theorem Consumed.one {e : Peg} {p x : Nat} {xs : List Nat} {t : List token32}
    (hx : x ≠ end_symbol) : Consumed e p (x :: xs) t (p + 1) xs t :=
  ⟨[x], rfl, rfl, by simpa using hx, fun _ => by simp, [], rfl⟩

theorem Consumed.none {e : Peg} {p : Nat} {r : List Nat} {t : List token32}
    (he : mayEmpty e = true) : Consumed e p r t p r t :=
  ⟨[], rfl, rfl, by simp, fun h => by rw [he] at h; exact absurd h (by simp), [], rfl⟩

theorem Consumed.trans {a b e : Peg} {p p1 p2 : Nat} {r r1 r2 : List Nat}
    {t t1 t2 : List token32} (h1 : Consumed a p r t p1 r1 t1) (h2 : Consumed b p1 r1 t1 p2 r2 t2)
    (he : mayEmpty e = false → mayEmpty a = false ∨ mayEmpty b = false) :
    Consumed e p r t p2 r2 t2 := by
  obtain ⟨w1, hr1, hp1, hw1, hn1, new1, ht1⟩ := h1
  obtain ⟨w2, hr2, hp2, hw2, hn2, new2, ht2⟩ := h2
  refine ⟨w1 ++ w2, by rw [hr1, hr2, List.append_assoc], by rw [hp2, hp1]; simp; omega, ?_, ?_,
    new2 ++ new1, by rw [ht2, ht1, List.append_assoc]⟩
  · intro x hx
    rcases List.mem_append.mp hx with h | h
    · exact hw1 x h
    · exact hw2 x h
  · intro hm
    rcases he hm with h | h
    · have := hn1 h
      intro hc; apply this; exact (List.append_eq_nil.mp hc).1
    · have := hn2 h
      intro hc; apply this; exact (List.append_eq_nil.mp hc).2

theorem Consumed.weaken {a e : Peg} {p p1 : Nat} {r r1 : List Nat} {t t1 : List token32}
    (h : Consumed a p r t p1 r1 t1) (he : mayEmpty e = false → mayEmpty a = false)
    (tok : List token32) : Consumed e p r t p1 r1 (tok ++ t1) := by
  obtain ⟨w, hr, hp, hw, hn, new, ht⟩ := h
  exact ⟨w, hr, hp, hw, fun hm => hn (he hm), tok ++ new, by rw [ht, List.append_assoc]⟩

theorem execF_consumed (f : Nat) : ∀ (e : Peg) (d p : Nat) (r : List Nat) (t : List token32)
    (p1 : Nat) (r1 : List Nat) (t1 : List token32),
    execF f e d p r t = .ok p1 r1 t1 → Consumed e p r t p1 r1 t1 := by
  induction f with
  | zero => intro e d p r t p1 r1 t1 h; simp [execF] at h
  | succ n ih =>
    intro e d p r t p1 r1 t1 h
    cases e with
    | chr c =>
      rw [execF_chr] at h
      cases r with
      | nil => simp at h
      | cons x xs =>
        simp only [] at h
        split at h
        · simp at h
        · rename_i hx
          simp only [ResF.ok.injEq] at h
          obtain ⟨rfl, rfl, rfl⟩ := h
          have : x = c.toNat := by simpa using hx
          exact Consumed.one (by rw [this]; exact toNat_ne_end c)
    | rng lo hi =>
      rw [execF_rng] at h
      cases r with
      | nil => simp at h
      | cons x xs =>
        simp only [] at h
        split at h
        · simp at h
        · rename_i hx
          simp only [ResF.ok.injEq] at h
          obtain ⟨rfl, rfl, rfl⟩ := h
          have hx' : x ≤ hi.toNat := by
            simp only [Bool.or_eq_true, decide_eq_true_eq, not_or, not_lt] at hx
            exact hx.2
          exact Consumed.one (Nat.ne_of_lt (Nat.lt_of_le_of_lt hx' (toNat_lt_end hi)))
    | dot =>
      rw [execF_dot] at h
      cases r with
      | nil => simp at h
      | cons x xs =>
        simp only [] at h
        split at h
        · rename_i hx
          simp only [ResF.ok.injEq] at h
          obtain ⟨rfl, rfl, rfl⟩ := h
          exact Consumed.one (by simpa using hx)
        · simp at h
    | call q =>
      rw [execF_call] at h
      cases hg : grammar q with
      | nil => simp [hg] at h
      | action =>
        simp only [hg, ResF.ok.injEq] at h
        obtain ⟨rfl, rfl, rfl⟩ := h
        have hn : mayEmpty (.call q) = true := by simp [mayEmpty, nullable, hg]
        exact (Consumed.none hn).weaken (fun hm => by rw [hn] at hm; exact absurd hm (by simp)) [_]
      | expr body =>
        simp only [hg] at h
        cases hb : execF n body (d + 1) p r t with
        | oof => rw [hb] at h; simp at h
        | panic => rw [hb] at h; simp at h
        | fail => rw [hb] at h; simp at h
        | ok p2 r2 t2 =>
          rw [hb] at h
          simp only [ResF.ok.injEq] at h
          obtain ⟨rfl, rfl, rfl⟩ := h
          exact (ih _ _ _ _ _ _ _ _ hb).weaken
            (fun hm => (ruleOK_expr hg).2.2.2.2.2.1 (by simpa [mayEmpty] using hm)) [_]
    | seq a b =>
      rw [execF_seq] at h
      cases ha : execF n a d p r t with
      | oof => rw [ha] at h; simp at h
      | panic => rw [ha] at h; simp at h
      | fail => rw [ha] at h; simp at h
      | ok p2 r2 t2 =>
        rw [ha] at h
        exact (ih _ _ _ _ _ _ _ _ ha).trans (ih _ _ _ _ _ _ _ _ h)
          (fun hm => by
            simp only [mayEmpty, Bool.and_eq_false_iff] at hm
            exact hm)
    | alt a b =>
      rw [execF_alt] at h
      cases ha : execF n a d p r t with
      | oof => rw [ha] at h; simp at h
      | panic => rw [ha] at h; simp at h
      | fail =>
        rw [ha] at h
        exact (ih _ _ _ _ _ _ _ _ h).weaken (fun hm => by simp [mayEmpty] at hm; exact hm.2) []
      | ok p2 r2 t2 =>
        rw [ha] at h
        simp only [ResF.ok.injEq] at h
        obtain ⟨rfl, rfl, rfl⟩ := h
        exact (ih _ _ _ _ _ _ _ _ ha).weaken (fun hm => by simp [mayEmpty] at hm; exact hm.1) []
    | opt a =>
      rw [execF_opt] at h
      cases ha : execF n a d p r t with
      | oof => rw [ha] at h; simp at h
      | panic => rw [ha] at h; simp at h
      | fail =>
        rw [ha] at h
        simp only [ResF.ok.injEq] at h
        obtain ⟨rfl, rfl, rfl⟩ := h
        exact Consumed.none rfl
      | ok p2 r2 t2 =>
        rw [ha] at h
        simp only [ResF.ok.injEq] at h
        obtain ⟨rfl, rfl, rfl⟩ := h
        exact (ih _ _ _ _ _ _ _ _ ha).weaken (fun hm => by simp [mayEmpty] at hm) []
    | star a =>
      rw [execF_star] at h
      cases ha : execF n a d p r t with
      | oof => rw [ha] at h; simp at h
      | panic => rw [ha] at h; simp at h
      | fail =>
        rw [ha] at h
        simp only [ResF.ok.injEq] at h
        obtain ⟨rfl, rfl, rfl⟩ := h
        exact Consumed.none rfl
      | ok p2 r2 t2 =>
        rw [ha] at h
        exact (ih _ _ _ _ _ _ _ _ ha).trans (ih _ _ _ _ _ _ _ _ h)
          (fun hm => by simp [mayEmpty] at hm)
    | nt a =>
      rw [execF_nt] at h
      cases ha : execF n a d p r t with
      | oof => rw [ha] at h; simp at h
      | panic => rw [ha] at h; simp at h
      | fail =>
        rw [ha] at h
        simp only [ResF.ok.injEq] at h
        obtain ⟨rfl, rfl, rfl⟩ := h
        exact Consumed.none rfl
      | ok p2 r2 t2 => rw [ha] at h; simp at h
    | text a =>
      rw [execF_text] at h
      cases ha : execF n a (d + 1) p r t with
      | oof => rw [ha] at h; simp at h
      | panic => rw [ha] at h; simp at h
      | fail => rw [ha] at h; simp at h
      | ok p2 r2 t2 =>
        rw [ha] at h
        simp only [ResF.ok.injEq] at h
        obtain ⟨rfl, rfl, rfl⟩ := h
        exact (ih _ _ _ _ _ _ _ _ ha).weaken (fun hm => by simpa [mayEmpty] using hm) [_]

/-! ## No read past the sentinel -/

theorem rank_lt (q : pegRule) : rank q < 20 := by
  have h := ruleOK_all q
  unfold ruleOK at h
  cases hg : grammar q <;> simp only [hg, Bool.and_eq_true, decide_eq_true_eq] at h
  · exact h
  · exact h
  · exact h.2

theorem Good.ne_nil {r : List Nat} (h : Good r) : r ≠ [] := by
  intro hc; rw [hc] at h; simp [Good] at h

theorem Good.of_append {w r1 : List Nat} (h : Good (w ++ r1)) (hw : ∀ x ∈ w, x ≠ end_symbol) :
    Good r1 := by
  unfold Good at h ⊢
  cases r1 with
  | nil =>
    rw [List.append_nil] at h
    have := List.mem_of_getLast?_eq_some h
    exact absurd rfl (hw _ this)
  | cons y ys =>
    rw [List.getLast?_append_cons] at h
    exact h

theorem Consumed.good {e : Peg} {p p1 : Nat} {r r1 : List Nat} {t t1 : List token32}
    (h : Consumed e p r t p1 r1 t1) (hg : Good r) : Good r1 := by
  obtain ⟨w, hr, _, hw, _, _⟩ := h
  rw [hr] at hg
  exact hg.of_append hw

theorem Consumed.length_le {e : Peg} {p p1 : Nat} {r r1 : List Nat} {t t1 : List token32}
    (h : Consumed e p r t p1 r1 t1) : r1.length ≤ r.length := by
  obtain ⟨w, hr, _, _, _, _⟩ := h
  rw [hr]; simp

theorem Consumed.length_lt {e : Peg} {p p1 : Nat} {r r1 : List Nat} {t t1 : List token32}
    (h : Consumed e p r t p1 r1 t1) (he : mayEmpty e = false) : r1.length < r.length := by
  obtain ⟨w, hr, _, _, hn, _⟩ := h
  have := List.length_pos.mpr (hn he)
  rw [hr]; simp; omega

theorem execF_no_panic (f : Nat) : ∀ (e : Peg) (d p : Nat) (r : List Nat) (t : List token32),
    Good r → callsOK e = true → execF f e d p r t ≠ .panic := by
  induction f with
  | zero => intro e d p r t _ _; simp [execF]
  | succ n ih =>
    intro e d p r t hg hc
    cases e with
    | chr c =>
      rw [execF_chr]
      cases r with
      | nil => exact absurd rfl hg.ne_nil
      | cons x xs => simp only []; split <;> simp
    | rng lo hi =>
      rw [execF_rng]
      cases r with
      | nil => exact absurd rfl hg.ne_nil
      | cons x xs => simp only []; split <;> simp
    | dot =>
      rw [execF_dot]
      cases r with
      | nil => exact absurd rfl hg.ne_nil
      | cons x xs => simp only []; split <;> simp
    | call q =>
      rw [execF_call]
      cases hq : grammar q with
      | nil => simp [callsOK, hq] at hc
      | action => simp
      | expr body =>
        simp only []
        have := ih body (d + 1) p r t hg (ruleOK_expr hq).2.2.1
        cases hb : execF n body (d + 1) p r t <;> simp_all
    | seq a b =>
      rw [execF_seq]
      simp only [callsOK, Bool.and_eq_true] at hc
      have ha := ih a d p r t hg hc.1
      cases hx : execF n a d p r t with
      | oof => simp
      | panic => exact absurd hx ha
      | fail => simp
      | ok p1 r1 t1 =>
        simp only []
        exact ih b d p1 r1 t1 ((execF_consumed _ _ _ _ _ _ _ _ _ hx).good hg) hc.2
    | alt a b =>
      rw [execF_alt]
      simp only [callsOK, Bool.and_eq_true] at hc
      have ha := ih a d p r t hg hc.1
      cases hx : execF n a d p r t with
      | oof => simp
      | panic => exact absurd hx ha
      | fail => simp only []; exact ih b d p r t hg hc.2
      | ok p1 r1 t1 => simp
    | opt a =>
      rw [execF_opt]
      simp only [callsOK] at hc
      have ha := ih a d p r t hg hc
      cases hx : execF n a d p r t <;> simp_all
    | star a =>
      rw [execF_star]
      have hc' : callsOK a = true := by simpa [callsOK] using hc
      have ha := ih a d p r t hg hc'
      cases hx : execF n a d p r t with
      | oof => simp
      | panic => exact absurd hx ha
      | fail => simp
      | ok p1 r1 t1 =>
        simp only []
        exact ih (.star a) d p1 r1 t1 ((execF_consumed _ _ _ _ _ _ _ _ _ hx).good hg) hc
    | nt a =>
      rw [execF_nt]
      simp only [callsOK] at hc
      have ha := ih a d p r t hg hc
      cases hx : execF n a d p r t <;> simp_all
    | text a =>
      rw [execF_text]
      simp only [callsOK] at hc
      have ha := ih a (d + 1) p r t hg hc
      cases hx : execF n a (d + 1) p r t <;> simp_all

/-! ## Termination -/

/-- Termination of the code of `e` inside a rule of rank `k` entered with `n` runes left,
given termination of every call lower in the order `(runes left, rank)`. -/
theorem execF_terminates_expr (N t n k : Nat) (ht : t = n * 20 + k)
    (IH : ∀ (q : pegRule) (d p : Nat) (r : List Nat) (toks : List token32),
      r.length ≤ N → r.length * 20 + rank q < t →
      execF (t * (N + 25)) (.call q) d p r toks ≠ .oof) :
    ∀ (e : Peg), starOK e = true → ∀ (d p : Nat) (r : List Nat) (toks : List token32),
      r.length ≤ N → r.length ≤ n → (r.length < n ∨ headOK k e = true) →
      execF (needB e * N + needA e + t * (N + 25)) e d p r toks ≠ .oof := by
  intro e
  induction e with
  | chr c =>
    intro _ d p r toks _ _ _
    simp only [needA, needB, Nat.zero_mul, Nat.zero_add, Nat.add_comm 1]
    rw [execF_chr]
    cases r with
    | nil => simp
    | cons x xs => simp only []; split <;> simp
  | rng lo hi =>
    intro _ d p r toks _ _ _
    simp only [needA, needB, Nat.zero_mul, Nat.zero_add, Nat.add_comm 1]
    rw [execF_rng]
    cases r with
    | nil => simp
    | cons x xs => simp only []; split <;> simp
  | dot =>
    intro _ d p r toks _ _ _
    simp only [needA, needB, Nat.zero_mul, Nat.zero_add, Nat.add_comm 1]
    rw [execF_dot]
    cases r with
    | nil => simp
    | cons x xs => simp only []; split <;> simp
  | call q =>
    intro _ d p r toks hN hn hh
    simp only [needA, needB, Nat.zero_mul, Nat.zero_add]
    apply IH q d p r toks hN
    have hq := rank_lt q
    rcases hh with hh | hh
    · omega
    · simp only [headOK, decide_eq_true_eq] at hh
      omega
  | seq a b iha ihb =>
    intro hs d p r toks hN hn hh
    simp only [starOK, Bool.and_eq_true] at hs
    have hfa : needB a * N + needA a + t * (N + 25) ≤
        needB (.seq a b) * N + needA (.seq a b) + t * (N + 25) - 1 := by
      simp only [needA, needB]
      have : needB a * N ≤ max (needB a) (needB b) * N :=
        Nat.mul_le_mul_right _ (Nat.le_max_left _ _)
      have : needA a ≤ max (needA a) (needA b) := Nat.le_max_left _ _
      omega
    have hfb : needB b * N + needA b + t * (N + 25) ≤
        needB (.seq a b) * N + needA (.seq a b) + t * (N + 25) - 1 := by
      simp only [needA, needB]
      have : needB b * N ≤ max (needB a) (needB b) * N :=
        Nat.mul_le_mul_right _ (Nat.le_max_right _ _)
      have : needA b ≤ max (needA a) (needA b) := Nat.le_max_right _ _
      omega
    have hpos : needB (.seq a b) * N + needA (.seq a b) + t * (N + 25) =
        (needB (.seq a b) * N + needA (.seq a b) + t * (N + 25) - 1) + 1 := by
      simp only [needA]; omega
    rw [hpos, execF_seq]
    have ha := iha hs.1 d p r toks hN hn (by
      rcases hh with hh | hh
      · exact Or.inl hh
      · simp only [headOK, Bool.and_eq_true] at hh; exact Or.inr hh.1)
    rw [execF_mono hfa ha]
    cases hx : execF (needB a * N + needA a + t * (N + 25)) a d p r toks with
    | oof => exact absurd hx ha
    | panic => simp
    | fail => simp
    | ok p1 r1 t1 =>
      simp only []
      have hc := execF_consumed _ _ _ _ _ _ _ _ _ hx
      have hle := hc.length_le
      have hb := ihb hs.2 d p1 r1 t1 (by omega) (by omega) (by
        rcases hh with hh | hh
        · exact Or.inl (by omega)
        · simp only [headOK, Bool.and_eq_true, Bool.or_eq_true, Bool.not_eq_true'] at hh
          rcases hh.2 with h2 | h2
          · exact Or.inl (by have := hc.length_lt h2; omega)
          · exact Or.inr h2)
      rw [execF_mono hfb hb]
      exact hb
  | alt a b iha ihb =>
    intro hs d p r toks hN hn hh
    simp only [starOK, Bool.and_eq_true] at hs
    have hfa : needB a * N + needA a + t * (N + 25) ≤
        needB (.alt a b) * N + needA (.alt a b) + t * (N + 25) - 1 := by
      simp only [needA, needB]
      have : needB a * N ≤ max (needB a) (needB b) * N :=
        Nat.mul_le_mul_right _ (Nat.le_max_left _ _)
      have : needA a ≤ max (needA a) (needA b) := Nat.le_max_left _ _
      omega
    have hfb : needB b * N + needA b + t * (N + 25) ≤
        needB (.alt a b) * N + needA (.alt a b) + t * (N + 25) - 1 := by
      simp only [needA, needB]
      have : needB b * N ≤ max (needB a) (needB b) * N :=
        Nat.mul_le_mul_right _ (Nat.le_max_right _ _)
      have : needA b ≤ max (needA a) (needA b) := Nat.le_max_right _ _
      omega
    have hpos : needB (.alt a b) * N + needA (.alt a b) + t * (N + 25) =
        (needB (.alt a b) * N + needA (.alt a b) + t * (N + 25) - 1) + 1 := by
      simp only [needA]; omega
    rw [hpos, execF_alt]
    have hh' : (r.length < n ∨ headOK k a = true) ∧ (r.length < n ∨ headOK k b = true) := by
      rcases hh with hh | hh
      · exact ⟨Or.inl hh, Or.inl hh⟩
      · simp only [headOK, Bool.and_eq_true] at hh; exact ⟨Or.inr hh.1, Or.inr hh.2⟩
    have ha := iha hs.1 d p r toks hN hn hh'.1
    rw [execF_mono hfa ha]
    cases hx : execF (needB a * N + needA a + t * (N + 25)) a d p r toks with
    | oof => exact absurd hx ha
    | panic => simp
    | ok p1 r1 t1 => simp
    | fail =>
      simp only []
      have hb := ihb hs.2 d p r toks hN hn hh'.2
      rw [execF_mono hfb hb]
      exact hb
  | opt a iha =>
    intro hs d p r toks hN hn hh
    simp only [starOK] at hs
    have hpos : needB (.opt a) * N + needA (.opt a) + t * (N + 25) =
        (needB a * N + needA a + t * (N + 25)) + 1 := by
      simp only [needA, needB]; omega
    rw [hpos, execF_opt]
    have ha := iha hs d p r toks hN hn (by simpa [headOK] using hh)
    cases hx : execF (needB a * N + needA a + t * (N + 25)) a d p r toks <;> simp_all
  | nt a iha =>
    intro hs d p r toks hN hn hh
    simp only [starOK] at hs
    have hpos : needB (.nt a) * N + needA (.nt a) + t * (N + 25) =
        (needB a * N + needA a + t * (N + 25)) + 1 := by
      simp only [needA, needB]; omega
    rw [hpos, execF_nt]
    have ha := iha hs d p r toks hN hn (by simpa [headOK] using hh)
    cases hx : execF (needB a * N + needA a + t * (N + 25)) a d p r toks <;> simp_all
  | text a iha =>
    intro hs d p r toks hN hn hh
    simp only [starOK] at hs
    have hpos : needB (.text a) * N + needA (.text a) + t * (N + 25) =
        (needB a * N + needA a + t * (N + 25)) + 1 := by
      simp only [needA, needB]; omega
    rw [hpos, execF_text]
    have ha := iha hs (d + 1) p r toks hN hn (by simpa [headOK] using hh)
    cases hx : execF (needB a * N + needA a + t * (N + 25)) a (d + 1) p r toks <;> simp_all
  | star a iha =>
    intro hs d p r toks hN hn hh
    simp only [starOK, Bool.and_eq_true, Bool.not_eq_true'] at hs
    -- the loop, by induction on the runes left
    have loop : ∀ (m : Nat) (d p : Nat) (r : List Nat) (toks : List token32),
        r.length ≤ m → r.length ≤ N → r.length ≤ n → (r.length < n ∨ headOK k a = true) →
        execF (m + 1 + (needB a * N + needA a + t * (N + 25))) (.star a) d p r toks ≠ .oof := by
      intro m
      induction m with
      | zero =>
        intro d p r toks hm hN hn hh
        rw [Nat.zero_add, Nat.add_comm 1, execF_star]
        have ha := iha hs.2 d p r toks hN hn hh
        cases hx : execF (needB a * N + needA a + t * (N + 25)) a d p r toks with
        | oof => exact absurd hx ha
        | panic => simp
        | fail => simp
        | ok p1 r1 t1 =>
          have := (execF_consumed _ _ _ _ _ _ _ _ _ hx).length_lt hs.1
          omega
      | succ m ihm =>
        intro d p r toks hm hN hn hh
        have e1 : m + 1 + 1 + (needB a * N + needA a + t * (N + 25)) =
            (m + 1 + (needB a * N + needA a + t * (N + 25))) + 1 := by omega
        rw [e1, execF_star]
        have ha := iha hs.2 d p r toks hN hn hh
        have hfa : needB a * N + needA a + t * (N + 25) ≤
            m + 1 + (needB a * N + needA a + t * (N + 25)) := by omega
        rw [execF_mono hfa ha]
        cases hx : execF (needB a * N + needA a + t * (N + 25)) a d p r toks with
        | oof => exact absurd hx ha
        | panic => simp
        | fail => simp
        | ok p1 r1 t1 =>
          simp only []
          have := (execF_consumed _ _ _ _ _ _ _ _ _ hx).length_lt hs.1
          exact ihm d p1 r1 t1 (by omega) (by omega) (by omega) (Or.inl (by omega))
    have hl := loop r.length d p r toks (Nat.le_refl _) hN hn (by simpa [headOK] using hh)
    have hf : r.length + 1 + (needB a * N + needA a + t * (N + 25)) ≤
        needB (.star a) * N + needA (.star a) + t * (N + 25) := by
      simp only [needA, needB, Nat.add_mul, Nat.one_mul]; omega
    rw [execF_mono hf hl]
    exact hl

/-- Every rule function returns: with `r.length ≤ N` runes left, fuel
`(r.length * 20 + rank q + 1) * (N + 25)` is enough. -/
theorem execF_terminates_rule (N : Nat) : ∀ (t : Nat) (q : pegRule) (d p : Nat) (r : List Nat)
    (toks : List token32), r.length ≤ N → r.length * 20 + rank q ≤ t →
    execF ((t + 1) * (N + 25)) (.call q) d p r toks ≠ .oof := by
  intro t
  induction t using Nat.strong_induction_on with
  | _ t IH =>
    intro q d p r toks hN ht
    have e1 : (t + 1) * (N + 25) = (t * (N + 25) + N + 24) + 1 := by
      rw [Nat.add_mul]; omega
    rw [e1, execF_call]
    cases hq : grammar q with
    | nil => simp
    | action => simp
    | expr body =>
      simp only []
      have hok := ruleOK_expr hq
      -- calls lower in the order terminate within `t * (N + 25)`
      have IH' : ∀ (q' : pegRule) (d p : Nat) (r' : List Nat) (toks : List token32),
          r'.length ≤ N → r'.length * 20 + rank q' < r.length * 20 + rank q →
          execF ((r.length * 20 + rank q) * (N + 25)) (.call q') d p r' toks ≠ .oof := by
        intro q' d p r' toks hN' hlt
        have h1 := IH (r'.length * 20 + rank q') (by omega) q' d p r' toks hN' (Nat.le_refl _)
        have hle : (r'.length * 20 + rank q' + 1) * (N + 25) ≤
            (r.length * 20 + rank q) * (N + 25) := Nat.mul_le_mul_right _ (by omega)
        rw [execF_mono hle h1]
        exact h1
      have hb := execF_terminates_expr N (r.length * 20 + rank q) r.length (rank q) rfl IH'
        body hok.2.1 (d + 1) p r toks hN (Nat.le_refl _) (Or.inr hok.1)
      have hle : needB body * N + needA body + (r.length * 20 + rank q) * (N + 25) ≤
          t * (N + 25) + N + 24 := by
        have h1 : needB body * N ≤ 1 * N := Nat.mul_le_mul_right _ hok.2.2.2.2.1
        have h2 : (r.length * 20 + rank q) * (N + 25) ≤ t * (N + 25) :=
          Nat.mul_le_mul_right _ ht
        have h3 := hok.2.2.2.1
        omega
      rw [execF_mono hle hb]
      cases hx : execF (needB body * N + needA body + (r.length * 20 + rank q) * (N + 25)) body
        (d + 1) p r toks <;> simp_all

/-! ## Enough fuel, and independence of the context -/

theorem Init_length_le (Buffer : List Nat) : (Init Buffer).length ≤ Buffer.length + 1 := by
  unfold Init; split <;> simp

theorem Init_good (Buffer : List Nat) : Good (Init Buffer) := by
  unfold Init Good
  split
  · simp
  · rename_i h
    simp only [Bool.or_eq_true, beq_iff_eq, bne_iff_ne, ne_eq, not_or, not_not] at h
    exact h.2

/-- `parseFuel` is enough for any rule function called anywhere in the buffer. -/
theorem parseFuel_enough (n : Nat) (q : pegRule) (d p : Nat) (r : List Nat)
    (toks : List token32) (hr : r.length ≤ n + 1) :
    execF (parseFuel n) (.call q) d p r toks ≠ .oof := by
  have h := execF_terminates_rule (n + 1) (20 * n + 40) q d p r toks hr
    (by have := rank_lt q; omega)
  have e : parseFuel n = (20 * n + 40 + 1) * (n + 1 + 25) := by unfold parseFuel; ring
  rw [e]; exact h

theorem addDepth_zero (tok : token32) : addDepth 0 tok = tok := rfl

theorem addDepth_add (a b : Nat) (tok : token32) :
    addDepth a (addDepth b tok) = addDepth (b + a) tok := by
  simp [addDepth, Nat.add_assoc]

theorem map_addDepth_zero (l : List token32) : l.map (addDepth 0) = l := by
  induction l with
  | nil => rfl
  | cons x xs ih => simp [addDepth_zero, ih]

theorem ResF.lift_lift (d : Nat) (t new : List token32) (x : ResF) :
    (x.lift 0 new).lift d t = x.lift d (new.map (addDepth d) ++ t) := by
  cases x <;> simp [ResF.lift, addDepth_add, addDepth_zero]

/-- The outcome of a run does not depend on the depth and tokens it starts with. -/
theorem execF_lift (f : Nat) : ∀ (e : Peg) (d p : Nat) (r : List Nat) (t : List token32),
    execF f e d p r t = (execF f e 0 p r []).lift d t := by
  induction f with
  | zero => intro e d p r t; rfl
  | succ n ih =>
    intro e d p r t
    cases e with
    | chr c =>
      simp only [execF_chr]
      cases r with
      | nil => rfl
      | cons x xs => simp only []; split <;> simp [ResF.lift]
    | rng lo hi =>
      simp only [execF_rng]
      cases r with
      | nil => rfl
      | cons x xs => simp only []; split <;> simp [ResF.lift]
    | dot =>
      simp only [execF_dot]
      cases r with
      | nil => rfl
      | cons x xs => simp only []; split <;> simp [ResF.lift]
    | call q =>
      simp only [execF_call]
      cases hq : grammar q with
      | nil => rfl
      | action => simp [ResF.lift, addDepth]
      | expr body =>
        simp only []
        rw [ih body (d + 1) p r t, ih body (0 + 1) p r []]
        cases hx : execF n body 0 p r [] <;>
          simp [ResF.lift, addDepth, Nat.add_comm, Nat.add_left_comm]
    | seq a b =>
      simp only [execF_seq]
      rw [ih a d p r t]
      cases hx : execF n a 0 p r [] with
      | oof => rfl
      | panic => rfl
      | fail => rfl
      | ok p1 r1 t1 =>
        simp only [ResF.lift]
        rw [ih b d p1 r1 _, ih b 0 p1 r1 t1]
        exact (ResF.lift_lift d t t1 _).symm
    | alt a b =>
      simp only [execF_alt]
      rw [ih a d p r t]
      cases hx : execF n a 0 p r [] with
      | oof => rfl
      | panic => rfl
      | fail => simp only [ResF.lift]; exact ih b d p r t
      | ok p1 r1 t1 => rfl
    | opt a =>
      simp only [execF_opt]
      rw [ih a d p r t]
      cases hx : execF n a 0 p r [] <;> simp [ResF.lift]
    | star a =>
      simp only [execF_star]
      rw [ih a d p r t]
      cases hx : execF n a 0 p r [] with
      | oof => rfl
      | panic => rfl
      | fail => simp [ResF.lift]
      | ok p1 r1 t1 =>
        simp only [ResF.lift]
        rw [ih (.star a) d p1 r1 _, ih (.star a) 0 p1 r1 t1]
        exact (ResF.lift_lift d t t1 _).symm
    | nt a =>
      simp only [execF_nt]
      rw [ih a d p r t]
      cases hx : execF n a 0 p r [] <;> simp [ResF.lift]
    | text a =>
      simp only [execF_text]
      rw [ih a (d + 1) p r t, ih a (0 + 1) p r []]
      cases hx : execF n a 0 p r [] <;>
        simp [ResF.lift, addDepth, Nat.add_comm, Nat.add_left_comm]

/-! ## Big-step rules -/

theorem Eval.det {e : Peg} {d p : Nat} {r : List Nat} {t : List token32} {x y : ResF}
    (hx : Eval e d p r t x) (hy : Eval e d p r t y) : x = y := by
  obtain ⟨f, hf, hfx⟩ := hx
  obtain ⟨g, hg, hgy⟩ := hy
  have h1 := execF_mono (Nat.le_max_left f g) (e := e) (d := d) (p := p) (r := r) (t := t)
    (by rw [hf]; exact hfx)
  have h2 := execF_mono (Nat.le_max_right f g) (e := e) (d := d) (p := p) (r := r) (t := t)
    (by rw [hg]; exact hgy)
  rw [← hf, ← hg, ← h1, ← h2]

theorem Eval.at_fuel {e : Peg} {d p : Nat} {r : List Nat} {t : List token32} {x : ResF}
    (hx : Eval e d p r t x) {g : Nat} (hg : execF g e d p r t ≠ .oof) :
    execF g e d p r t = x :=
  Eval.det ⟨g, rfl, hg⟩ hx

theorem Eval.chr (c : Char) (d p : Nat) (r : List Nat) (t : List token32) :
    Eval (.chr c) d p r t
      (match r with
       | [] => .panic
       | x :: xs => if x != c.toNat then .fail else .ok (p + 1) xs t) := by
  refine ⟨1, rfl, ?_⟩
  cases r with
  | nil => simp
  | cons x xs => simp only []; split <;> simp

theorem Eval.rng (lo hi : Char) (d p : Nat) (r : List Nat) (t : List token32) :
    Eval (.rng lo hi) d p r t
      (match r with
       | [] => .panic
       | x :: xs => if x < lo.toNat || x > hi.toNat then .fail else .ok (p + 1) xs t) := by
  refine ⟨1, rfl, ?_⟩
  cases r with
  | nil => simp
  | cons x xs => simp only []; split <;> simp

theorem Eval.dot (d p : Nat) (r : List Nat) (t : List token32) :
    Eval .dot d p r t
      (match r with
       | [] => .panic
       | x :: xs => if x != end_symbol then .ok (p + 1) xs t else .fail) := by
  refine ⟨1, rfl, ?_⟩
  cases r with
  | nil => simp
  | cons x xs => simp only []; split <;> simp

theorem Eval.call_action {q : pegRule} (hq : grammar q = .action) (d p : Nat) (r : List Nat)
    (t : List token32) : Eval (.call q) d p r t (.ok p r (⟨q, p, p, d⟩ :: t)) :=
  ⟨1, by rw [execF_call, hq], by simp⟩

theorem Eval.call_ok {q : pegRule} {body : Peg} (hq : grammar q = .expr body) {d p : Nat}
    {r : List Nat} {t : List token32} {p1 : Nat} {r1 : List Nat} {t1 : List token32}
    (h : Eval body (d + 1) p r t (.ok p1 r1 t1)) :
    Eval (.call q) d p r t (.ok p1 r1 (⟨q, p, p1, d⟩ :: t1)) := by
  obtain ⟨f, hf, _⟩ := h
  exact ⟨f + 1, by rw [execF_call, hq]; simp only [hf], by simp⟩

theorem Eval.call_fail {q : pegRule} {body : Peg} (hq : grammar q = .expr body) {d p : Nat}
    {r : List Nat} {t : List token32} (h : Eval body (d + 1) p r t .fail) :
    Eval (.call q) d p r t .fail := by
  obtain ⟨f, hf, _⟩ := h
  exact ⟨f + 1, by rw [execF_call, hq]; simp only [hf], by simp⟩

theorem Eval.seq_ok {a b : Peg} {d p : Nat} {r : List Nat} {t : List token32} {p1 : Nat}
    {r1 : List Nat} {t1 : List token32} {res : ResF} (ha : Eval a d p r t (.ok p1 r1 t1))
    (hb : Eval b d p1 r1 t1 res) : Eval (.seq a b) d p r t res := by
  obtain ⟨f, hf, hfx⟩ := ha
  obtain ⟨g, hg, hgx⟩ := hb
  refine ⟨max f g + 1, ?_, hgx⟩
  rw [execF_seq, execF_mono (Nat.le_max_left f g) (by rw [hf]; exact hfx), hf]
  simp only []
  rw [execF_mono (Nat.le_max_right f g) (by rw [hg]; exact hgx), hg]

theorem Eval.seq_fail {a b : Peg} {d p : Nat} {r : List Nat} {t : List token32}
    (ha : Eval a d p r t .fail) : Eval (.seq a b) d p r t .fail := by
  obtain ⟨f, hf, _⟩ := ha
  exact ⟨f + 1, by rw [execF_seq, hf], by simp⟩

theorem Eval.alt_ok {a b : Peg} {d p : Nat} {r : List Nat} {t : List token32} {p1 : Nat}
    {r1 : List Nat} {t1 : List token32} (ha : Eval a d p r t (.ok p1 r1 t1)) :
    Eval (.alt a b) d p r t (.ok p1 r1 t1) := by
  obtain ⟨f, hf, _⟩ := ha
  exact ⟨f + 1, by rw [execF_alt, hf], by simp⟩

theorem Eval.alt_fail {a b : Peg} {d p : Nat} {r : List Nat} {t : List token32} {res : ResF}
    (ha : Eval a d p r t .fail) (hb : Eval b d p r t res) : Eval (.alt a b) d p r t res := by
  obtain ⟨f, hf, hfx⟩ := ha
  obtain ⟨g, hg, hgx⟩ := hb
  refine ⟨max f g + 1, ?_, hgx⟩
  rw [execF_alt, execF_mono (Nat.le_max_left f g) (by rw [hf]; exact hfx), hf]
  simp only []
  rw [execF_mono (Nat.le_max_right f g) (by rw [hg]; exact hgx), hg]

theorem Eval.opt_ok {a : Peg} {d p : Nat} {r : List Nat} {t : List token32} {p1 : Nat}
    {r1 : List Nat} {t1 : List token32} (ha : Eval a d p r t (.ok p1 r1 t1)) :
    Eval (.opt a) d p r t (.ok p1 r1 t1) := by
  obtain ⟨f, hf, _⟩ := ha
  exact ⟨f + 1, by rw [execF_opt, hf], by simp⟩

theorem Eval.opt_fail {a : Peg} {d p : Nat} {r : List Nat} {t : List token32}
    (ha : Eval a d p r t .fail) : Eval (.opt a) d p r t (.ok p r t) := by
  obtain ⟨f, hf, _⟩ := ha
  exact ⟨f + 1, by rw [execF_opt, hf], by simp⟩

theorem Eval.star_ok {a : Peg} {d p : Nat} {r : List Nat} {t : List token32} {p1 : Nat}
    {r1 : List Nat} {t1 : List token32} {res : ResF} (ha : Eval a d p r t (.ok p1 r1 t1))
    (hb : Eval (.star a) d p1 r1 t1 res) : Eval (.star a) d p r t res := by
  obtain ⟨f, hf, hfx⟩ := ha
  obtain ⟨g, hg, hgx⟩ := hb
  refine ⟨max f g + 1, ?_, hgx⟩
  rw [execF_star, execF_mono (Nat.le_max_left f g) (by rw [hf]; exact hfx), hf]
  simp only []
  rw [execF_mono (Nat.le_max_right f g) (by rw [hg]; exact hgx), hg]

theorem Eval.star_fail {a : Peg} {d p : Nat} {r : List Nat} {t : List token32}
    (ha : Eval a d p r t .fail) : Eval (.star a) d p r t (.ok p r t) := by
  obtain ⟨f, hf, _⟩ := ha
  exact ⟨f + 1, by rw [execF_star, hf], by simp⟩

theorem Eval.nt_ok {a : Peg} {d p : Nat} {r : List Nat} {t : List token32} {p1 : Nat}
    {r1 : List Nat} {t1 : List token32} (ha : Eval a d p r t (.ok p1 r1 t1)) :
    Eval (.nt a) d p r t .fail := by
  obtain ⟨f, hf, _⟩ := ha
  exact ⟨f + 1, by rw [execF_nt, hf], by simp⟩

theorem Eval.nt_fail {a : Peg} {d p : Nat} {r : List Nat} {t : List token32}
    (ha : Eval a d p r t .fail) : Eval (.nt a) d p r t (.ok p r t) := by
  obtain ⟨f, hf, _⟩ := ha
  exact ⟨f + 1, by rw [execF_nt, hf], by simp⟩

theorem Eval.text_ok {a : Peg} {d p : Nat} {r : List Nat} {t : List token32} {p1 : Nat}
    {r1 : List Nat} {t1 : List token32} (ha : Eval a (d + 1) p r t (.ok p1 r1 t1)) :
    Eval (.text a) d p r t (.ok p1 r1 (⟨.rulePegText, p, p1, d⟩ :: t1)) := by
  obtain ⟨f, hf, _⟩ := ha
  exact ⟨f + 1, by rw [execF_text, hf], by simp⟩

theorem Eval.text_fail {a : Peg} {d p : Nat} {r : List Nat} {t : List token32}
    (ha : Eval a (d + 1) p r t .fail) : Eval (.text a) d p r t .fail := by
  obtain ⟨f, hf, _⟩ := ha
  exact ⟨f + 1, by rw [execF_text, hf], by simp⟩

/-- A rule function returns true or false on every buffer that ends with the sentinel. -/
theorem Eval.total (q : pegRule) (d p : Nat) (r : List Nat) (t : List token32) (hg : Good r)
    (hq : callsOK (.call q) = true) :
    Eval (.call q) d p r t .fail ∨
      ∃ p1 r1 t1, Eval (.call q) d p r t (.ok p1 r1 t1) ∧
        Consumed (.call q) p r t p1 r1 t1 ∧ Good r1 := by
  have h := execF_terminates_rule r.length (r.length * 20 + rank q) q d p r t (Nat.le_refl _)
    (Nat.le_refl _)
  have hp := execF_no_panic ((r.length * 20 + rank q + 1) * (r.length + 25)) (.call q) d p r t
    hg hq
  cases hx : execF ((r.length * 20 + rank q + 1) * (r.length + 25)) (.call q) d p r t with
  | oof => exact absurd hx h
  | panic => exact absurd hx hp
  | fail => exact Or.inl ⟨_, hx, by simp⟩
  | ok p1 r1 t1 =>
    have hc := execF_consumed _ _ _ _ _ _ _ _ _ hx
    exact Or.inr ⟨p1, r1, t1, ⟨_, hx, by simp⟩, hc, hc.good hg⟩

theorem Eval.lift {e : Peg} {p : Nat} {r : List Nat} {x : ResF} (h : Eval e 0 p r [] x)
    (d : Nat) (t : List token32) : Eval e d p r t (x.lift d t) := by
  obtain ⟨f, hf, hx⟩ := h
  refine ⟨f, by rw [execF_lift, hf], ?_⟩
  cases x <;> simp_all [ResF.lift]

theorem Eval.unlift {e : Peg} {d p : Nat} {r : List Nat} {t : List token32} {x : ResF}
    (h : Eval e d p r t x) : ∃ x0, Eval e 0 p r [] x0 ∧ x = x0.lift d t := by
  obtain ⟨f, hf, hx⟩ := h
  refine ⟨execF f e 0 p r [], ⟨f, rfl, ?_⟩, by rw [← hf, execF_lift]⟩
  intro hc
  rw [execF_lift, hc] at hf
  exact hx hf.symm

theorem Eval.ne_oof {e : Peg} {d p : Nat} {r : List Nat} {t : List token32} {x : ResF}
    (h : Eval e d p r t x) : x ≠ .oof := by
  obtain ⟨_, _, hx⟩ := h
  exact hx

theorem Eval.iff_eq {e : Peg} {d p : Nat} {r : List Nat} {t : List token32} {x : ResF}
    (h : Eval e d p r t x) (res : ResF) : Eval e d p r t res ↔ res = x :=
  ⟨fun h' => Eval.det h' h, fun h' => h' ▸ h⟩

theorem Eval_chr {c : Char} {d p : Nat} {r : List Nat} {t : List token32} {res : ResF} :
    Eval (.chr c) d p r t res ↔
      res = (match r with
       | [] => .panic
       | x :: xs => if x != c.toNat then .fail else .ok (p + 1) xs t) :=
  (Eval.chr c d p r t).iff_eq res

theorem Eval_rng {lo hi : Char} {d p : Nat} {r : List Nat} {t : List token32} {res : ResF} :
    Eval (.rng lo hi) d p r t res ↔
      res = (match r with
       | [] => .panic
       | x :: xs => if x < lo.toNat || x > hi.toNat then .fail else .ok (p + 1) xs t) :=
  (Eval.rng lo hi d p r t).iff_eq res

theorem Eval_dot {d p : Nat} {r : List Nat} {t : List token32} {res : ResF} :
    Eval .dot d p r t res ↔
      res = (match r with
       | [] => .panic
       | x :: xs => if x != end_symbol then .ok (p + 1) xs t else .fail) :=
  (Eval.dot d p r t).iff_eq res

/-- Inversion: a run with fuel left went through the first sub-expression. -/
theorem Eval.inv {e : Peg} {d p : Nat} {r : List Nat} {t : List token32} {res : ResF}
    (h : Eval e d p r t res) : ∃ f, execF (f + 1) e d p r t = res ∧ res ≠ .oof := by
  obtain ⟨f, hf, hx⟩ := h
  cases f with
  | zero => exact absurd hf.symm hx
  | succ n => exact ⟨n, hf, hx⟩

theorem Eval_seq {a b : Peg} {d p : Nat} {r : List Nat} {t : List token32} {res : ResF} :
    Eval (.seq a b) d p r t res ↔
      ∃ ra, Eval a d p r t ra ∧
        match ra with
        | .ok p1 r1 t1 => Eval b d p1 r1 t1 res
        | x => res = x := by
  constructor
  · intro h
    obtain ⟨f, hf, hx⟩ := h.inv
    rw [execF_seq] at hf
    refine ⟨execF f a d p r t, ⟨f, rfl, ?_⟩, ?_⟩
    · intro hc; rw [hc] at hf; exact hx hf.symm
    · cases ha : execF f a d p r t with
      | ok p1 r1 t1 => rw [ha] at hf; exact ⟨f, hf, hx⟩
      | oof => rw [ha] at hf; exact hf.symm
      | panic => rw [ha] at hf; exact hf.symm
      | fail => rw [ha] at hf; exact hf.symm
  · rintro ⟨ra, ha, hb⟩
    cases ra with
    | ok p1 r1 t1 => exact Eval.seq_ok ha hb
    | oof => exact absurd rfl ha.ne_oof
    | fail => simp only [] at hb; rw [hb]; exact Eval.seq_fail ha
    | panic =>
      simp only [] at hb; rw [hb]
      obtain ⟨f, hf, _⟩ := ha
      exact ⟨f + 1, by rw [execF_seq, hf], by simp⟩

theorem Eval_alt {a b : Peg} {d p : Nat} {r : List Nat} {t : List token32} {res : ResF} :
    Eval (.alt a b) d p r t res ↔
      ∃ ra, Eval a d p r t ra ∧
        match ra with
        | .fail => Eval b d p r t res
        | x => res = x := by
  constructor
  · intro h
    obtain ⟨f, hf, hx⟩ := h.inv
    rw [execF_alt] at hf
    refine ⟨execF f a d p r t, ⟨f, rfl, ?_⟩, ?_⟩
    · intro hc; rw [hc] at hf; exact hx hf.symm
    · cases ha : execF f a d p r t with
      | fail => rw [ha] at hf; exact ⟨f, hf, hx⟩
      | oof => rw [ha] at hf; exact hf.symm
      | panic => rw [ha] at hf; exact hf.symm
      | ok p1 r1 t1 => rw [ha] at hf; exact hf.symm
  · rintro ⟨ra, ha, hb⟩
    cases ra with
    | ok p1 r1 t1 => simp only [] at hb; rw [hb]; exact Eval.alt_ok ha
    | oof => exact absurd rfl ha.ne_oof
    | fail => exact Eval.alt_fail ha hb
    | panic =>
      simp only [] at hb; rw [hb]
      obtain ⟨f, hf, _⟩ := ha
      exact ⟨f + 1, by rw [execF_alt, hf], by simp⟩

theorem Eval_opt {a : Peg} {d p : Nat} {r : List Nat} {t : List token32} {res : ResF} :
    Eval (.opt a) d p r t res ↔
      ∃ ra, Eval a d p r t ra ∧
        res = match ra with
        | .fail => .ok p r t
        | x => x := by
  constructor
  · intro h
    obtain ⟨f, hf, hx⟩ := h.inv
    rw [execF_opt] at hf
    refine ⟨execF f a d p r t, ⟨f, rfl, ?_⟩, hf.symm⟩
    intro hc; rw [hc] at hf; exact hx hf.symm
  · rintro ⟨ra, ha, rfl⟩
    obtain ⟨f, hf, hne⟩ := ha
    refine ⟨f + 1, by rw [execF_opt, hf], ?_⟩
    cases ra <;> simp_all

theorem Eval_star {a : Peg} {d p : Nat} {r : List Nat} {t : List token32} {res : ResF} :
    Eval (.star a) d p r t res ↔
      ∃ ra, Eval a d p r t ra ∧
        match ra with
        | .ok p1 r1 t1 => Eval (.star a) d p1 r1 t1 res
        | .fail => res = .ok p r t
        | x => res = x := by
  constructor
  · intro h
    obtain ⟨f, hf, hx⟩ := h.inv
    rw [execF_star] at hf
    refine ⟨execF f a d p r t, ⟨f, rfl, ?_⟩, ?_⟩
    · intro hc; rw [hc] at hf; exact hx hf.symm
    · cases ha : execF f a d p r t with
      | ok p1 r1 t1 => rw [ha] at hf; exact ⟨f, hf, hx⟩
      | oof => rw [ha] at hf; exact hf.symm
      | panic => rw [ha] at hf; exact hf.symm
      | fail => rw [ha] at hf; exact hf.symm
  · rintro ⟨ra, ha, hb⟩
    cases ra with
    | ok p1 r1 t1 => exact Eval.star_ok ha hb
    | oof => exact absurd rfl ha.ne_oof
    | fail => simp only [] at hb; rw [hb]; exact Eval.star_fail ha
    | panic =>
      simp only [] at hb; rw [hb]
      obtain ⟨f, hf, _⟩ := ha
      exact ⟨f + 1, by rw [execF_star, hf], by simp⟩

theorem Eval_nt {a : Peg} {d p : Nat} {r : List Nat} {t : List token32} {res : ResF} :
    Eval (.nt a) d p r t res ↔
      ∃ ra, Eval a d p r t ra ∧
        res = match ra with
        | .ok _ _ _ => .fail
        | .fail => .ok p r t
        | x => x := by
  constructor
  · intro h
    obtain ⟨f, hf, hx⟩ := h.inv
    rw [execF_nt] at hf
    refine ⟨execF f a d p r t, ⟨f, rfl, ?_⟩, hf.symm⟩
    intro hc; rw [hc] at hf; exact hx hf.symm
  · rintro ⟨ra, ha, rfl⟩
    obtain ⟨f, hf, hne⟩ := ha
    refine ⟨f + 1, by rw [execF_nt, hf], ?_⟩
    cases ra <;> simp_all

theorem Eval_text {a : Peg} {d p : Nat} {r : List Nat} {t : List token32} {res : ResF} :
    Eval (.text a) d p r t res ↔
      ∃ ra, Eval a (d + 1) p r t ra ∧
        res = match ra with
        | .ok p1 r1 t1 => .ok p1 r1 (⟨.rulePegText, p, p1, d⟩ :: t1)
        | x => x := by
  constructor
  · intro h
    obtain ⟨f, hf, hx⟩ := h.inv
    rw [execF_text] at hf
    refine ⟨execF f a (d + 1) p r t, ⟨f, rfl, ?_⟩, hf.symm⟩
    intro hc; rw [hc] at hf; exact hx hf.symm
  · rintro ⟨ra, ha, rfl⟩
    obtain ⟨f, hf, hne⟩ := ha
    refine ⟨f + 1, by rw [execF_text, hf], ?_⟩
    cases ra <;> simp_all

theorem Eval_call_expr {q : pegRule} {body : Peg} (hq : grammar q = .expr body) {d p : Nat}
    {r : List Nat} {t : List token32} {res : ResF} :
    Eval (.call q) d p r t res ↔
      ∃ ra, Eval body (d + 1) p r t ra ∧
        res = match ra with
        | .ok p1 r1 t1 => .ok p1 r1 (⟨q, p, p1, d⟩ :: t1)
        | x => x := by
  constructor
  · intro h
    obtain ⟨f, hf, hx⟩ := h.inv
    rw [execF_call, hq] at hf
    simp only [] at hf
    refine ⟨execF f body (d + 1) p r t, ⟨f, rfl, ?_⟩, hf.symm⟩
    intro hc; rw [hc] at hf; exact hx hf.symm
  · rintro ⟨ra, ha, rfl⟩
    obtain ⟨f, hf, hne⟩ := ha
    refine ⟨f + 1, by rw [execF_call, hq]; simp only [hf], ?_⟩
    cases ra <;> simp_all

theorem Eval_call_action {q : pegRule} (hq : grammar q = .action) {d p : Nat}
    {r : List Nat} {t : List token32} {res : ResF} :
    Eval (.call q) d p r t res ↔ res = .ok p r (⟨q, p, p, d⟩ :: t) :=
  (Eval.call_action hq d p r t).iff_eq res

/-! ## Rule outcomes on the buffer of `Init` -/

theorem runes_lt_end (Buffer : String) : ∀ x ∈ runes Buffer, x < end_symbol := by
  intro x hx
  simp only [runes, List.mem_map] at hx
  obtain ⟨c, _, rfl⟩ := hx
  exact toNat_lt_end c

theorem Init_runes (Buffer : String) : Init (runes Buffer) = runes Buffer ++ [end_symbol] := by
  unfold Init
  split
  · rfl
  · rename_i h
    simp only [Bool.or_eq_true, beq_iff_eq, bne_iff_ne, ne_eq, not_or, not_not] at h
    have := List.mem_of_getLast?_eq_some h.2
    exact absurd rfl (Nat.ne_of_lt (runes_lt_end Buffer _ this))

theorem Init_runes_drop (Buffer : String) {p : Nat} (hp : p ≤ (runes Buffer).length) :
    (Init (runes Buffer)).drop p = (runes Buffer).drop p ++ [end_symbol] := by
  rw [Init_runes, List.drop_append_of_le_length hp]

theorem Refines.outcome {buffer : List Nat} {out : Res} {d : Nat} {t : List token32}
    {x : ResF} (h : Refines buffer out d t x) : out.outcome = x.outcome := by
  cases x with
  | oof => simp only [Refines] at h; rw [h]; rfl
  | panic => simp only [Refines] at h; rw [h]; rfl
  | fail => obtain ⟨s', hs', _⟩ := h; rw [hs']; rfl
  | ok p1 r1 t1 =>
    obtain ⟨s', hs', hrel, _⟩ := h
    rw [hs']; simp only [Res.outcome, ResF.outcome]; rw [hrel.1]

theorem ResF.outcome_lift (x : ResF) (d : Nat) (t : List token32) :
    (x.lift d t).outcome = x.outcome := by
  cases x <;> rfl

/-- The outcome of the rule function on the buffer of `Init`, read off any run of `execF`
from the same position. -/
theorem ruleAt_of_eval {Buffer : String} {q : pegRule} {p d : Nat} {t : List token32}
    {res : ResF} (h : Eval (.call q) d p ((Init (runes Buffer)).drop p) t res) :
    ruleAt Buffer q p = res.outcome := by
  obtain ⟨x0, h0, rfl⟩ := h.unlift
  rw [ResF.outcome_lift]
  have hlen : ((Init (runes Buffer)).drop p).length ≤ (runes Buffer).length + 1 := by
    rw [List.length_drop]
    have := Init_length_le (runes Buffer)
    omega
  have hne := parseFuel_enough (runes Buffer).length q 0 p _ [] hlen
  have hx := h0.at_fuel hne
  have hr := exec_execF (Init (runes Buffer)) (parseFuel (runes Buffer).length) (.call q)
    ⟨p, 0, 0, []⟩ 0 p _ [] ⟨rfl, rfl, rfl, rfl, rfl⟩
  rw [hx] at hr
  unfold ruleAt
  exact hr.outcome
/-! ## The whitespace rules -/

theorem grammar_spElem : grammar .rulespElem = .expr Body.rulespElem := rfl
theorem grammar_sp : grammar .rulesp = .expr Body.rulesp := rfl
theorem grammar_spOpt : grammar .rulespOpt = .expr Body.rulespOpt := rfl
theorem grammar_comment : grammar .rulecomment = .expr Body.rulecomment := rfl
theorem grammar_finalComment : grammar .rulefinalComment = .expr Body.rulefinalComment := rfl

/-- The loop `(!('\r' / '\n') .)*` of the two comment rules runs over the runes that are
neither CR nor LF and stops before the first CR, LF or sentinel. -/
theorem Eval_commentLoop (d : Nat) (t : List token32) (y : Nat) (ys : List Nat)
    (hy : y = 13 ∨ y = 10 ∨ y = end_symbol) :
    ∀ (body : List Nat) (p : Nat),
      (∀ x ∈ body, x ≠ 13 ∧ x ≠ 10 ∧ x ≠ end_symbol) →
      Eval (.star (.seqs [.nt (.alts [.chr '\r', .chr '\n']), .dot])) d p (body ++ y :: ys) t
        (.ok (p + body.length) (y :: ys) t) := by
  intro body
  induction body with
  | nil =>
    intro p _
    apply Eval.star_fail
    simp only [Peg.seqs, Peg.alts, Eval_seq, Eval_nt, Eval_alt, Eval_chr, Eval_dot,
      List.nil_append]
    rcases hy with rfl | rfl | rfl <;> simp [end_symbol]
  | cons x xs ih =>
    intro p hb
    have hx := hb x (List.mem_cons_self _ _)
    have := ih (p + 1) (fun z hz => hb z (List.mem_cons_of_mem _ hz))
    rw [show p + (x :: xs).length = p + 1 + xs.length by simp; omega]
    refine @Eval.star_ok _ _ _ _ _ (p + 1) (xs ++ y :: ys) t _ ?_ this
    simp only [Peg.seqs, Peg.alts, Eval_seq, Eval_nt, Eval_alt, Eval_chr, Eval_dot,
      List.cons_append]
    simp [hx.1, hx.2.1, hx.2.2]

/-- Rule `comment` on `--`, a body without CR and LF, and the rune `y` after the body. -/
theorem Eval_comment (d p : Nat) (t : List token32) (body : List Nat) (y : Nat)
    (ys : List Nat) (hy : y = 13 ∨ y = 10 ∨ y = end_symbol)
    (hb : ∀ x ∈ body, x ≠ 13 ∧ x ≠ 10 ∧ x ≠ end_symbol) :
    Eval (.call .rulecomment) d p (45 :: 45 :: (body ++ y :: ys)) t
      (if y = end_symbol then .fail
       else .ok (p + 2 + body.length + 1) ys
        (⟨.rulecomment, p, p + 2 + body.length + 1, d⟩ :: t)) := by
  rw [Eval_call_expr grammar_comment]
  simp only [Body.rulecomment, Peg.seqs, Peg.alts]
  have hl := Eval_commentLoop (d + 1) t y ys hy body (p + 1 + 1) hb
  simp only [Peg.seqs, Peg.alts] at hl
  simp only [Eval_seq, Eval_chr, Eval_alt]
  simp only [show ((45 : Nat) != '-'.toNat) = false from rfl, Bool.false_eq_true, if_false,
    exists_eq_left, hl.iff_eq]
  rcases hy with rfl | rfl | rfl <;> simp [end_symbol]

/-- Rule `finalComment` on `--`, a body without CR and LF, and the rune `y` after the body. -/
theorem Eval_finalComment (d p : Nat) (t : List token32) (body : List Nat) (y : Nat)
    (ys : List Nat) (hy : y = 13 ∨ y = 10 ∨ y = end_symbol)
    (hb : ∀ x ∈ body, x ≠ 13 ∧ x ≠ 10 ∧ x ≠ end_symbol) :
    Eval (.call .rulefinalComment) d p (45 :: 45 :: (body ++ y :: ys)) t
      (if y = end_symbol then .ok (p + 2 + body.length) (y :: ys)
        (⟨.rulefinalComment, p, p + 2 + body.length, d⟩ :: t)
       else .fail) := by
  rw [Eval_call_expr grammar_finalComment]
  simp only [Body.rulefinalComment, Peg.seqs, Peg.alts]
  have hl := Eval_commentLoop (d + 1) t y ys hy body (p + 1 + 1) hb
  simp only [Peg.seqs, Peg.alts] at hl
  simp only [Eval_seq, Eval_chr, Eval_nt, Eval_dot]
  simp only [show ((45 : Nat) != '-'.toNat) = false from rfl, Bool.false_eq_true, if_false,
    exists_eq_left, hl.iff_eq]
  rcases hy with rfl | rfl | rfl <;> simp [end_symbol]

/-- The two comment rules fail on what does not start with `--`. -/
theorem Eval_comment_no (d p : Nat) (t : List token32) (x : Nat) (xs : List Nat)
    (h : x ≠ 45 ∨ ∃ x2 xs2, xs = x2 :: xs2 ∧ x2 ≠ 45) :
    Eval (.call .rulecomment) d p (x :: xs) t .fail ∧
      Eval (.call .rulefinalComment) d p (x :: xs) t .fail := by
  rw [Eval_call_expr grammar_comment, Eval_call_expr grammar_finalComment]
  simp only [Body.rulecomment, Body.rulefinalComment, Peg.seqs, Peg.alts, Eval_seq, Eval_chr]
  by_cases hx : x = 45
  · subst hx
    rcases h with h | ⟨x2, xs2, rfl, h2⟩
    · exact absurd rfl h
    · simp [h2]
  · simp [hx]

/-- A list splits at the first element that fails `P`. -/
theorem takeWhile_split (P : Nat → Bool) (l : List Nat) :
    l = l.takeWhile P ++ l.drop (l.takeWhile P).length ∧ (∀ x ∈ l.takeWhile P, P x = true) ∧
      ∀ y ys, l.drop (l.takeWhile P).length = y :: ys → P y = false := by
  induction l with
  | nil => simp
  | cons a as ih =>
    by_cases ha : P a = true
    · simp only [List.takeWhile_cons, ha, if_true, List.length_cons, List.drop_succ_cons,
        List.cons_append, List.mem_cons, forall_eq_or_imp, true_and]
      exact ⟨by rw [← ih.1], ih.2.1, ih.2.2⟩
    · simp only [List.takeWhile_cons, ha, Bool.false_eq_true, if_false, List.length_nil,
        List.drop_zero, List.nil_append, List.not_mem_nil, false_implies, implies_true,
        true_and, List.cons.injEq, and_imp]
      intro y ys h1 _
      rw [← h1]; simpa using ha

theorem drop_length_succ_append (body : List Nat) (y : Nat) (ys : List Nat) :
    List.drop (body.length + 1) (body ++ y :: ys) = ys := by
  induction body with
  | nil => rfl
  | cons a as ih => simp [ih]

/-- The four cases of the spec of a whitespace element. -/
theorem spElemSpec_cases (text : List Nat) :
    (∃ c rest, text = c :: rest ∧ (c = 32 ∨ c = 9 ∨ c = 10 ∨ c = 13) ∧
        spElemSpec text = some 1) ∨
    (∃ body, text = 45 :: 45 :: body ∧ (∀ x ∈ body, x ≠ 13 ∧ x ≠ 10) ∧
        spElemSpec text = some (2 + body.length)) ∨
    (∃ body y ys, text = 45 :: 45 :: (body ++ y :: ys) ∧ (∀ x ∈ body, x ≠ 13 ∧ x ≠ 10) ∧
        (y = 13 ∨ y = 10) ∧ spElemSpec text = some (2 + body.length + 1)) ∨
    (spElemSpec text = none ∧
      (text = [] ∨ ∃ c rest, text = c :: rest ∧ c ≠ 32 ∧ c ≠ 9 ∧ c ≠ 10 ∧ c ≠ 13 ∧
        (c ≠ 45 ∨ rest = [] ∨ ∃ c2 rest2, rest = c2 :: rest2 ∧ c2 ≠ 45))) := by
  cases text with
  | nil => exact Or.inr (Or.inr (Or.inr ⟨rfl, Or.inl rfl⟩))
  | cons c rest =>
    by_cases hws : c = 32 ∨ c = 9 ∨ c = 10 ∨ c = 13
    · refine Or.inl ⟨c, rest, rfl, hws, ?_⟩
      simp only [spElemSpec]
      rw [if_pos (by simpa using hws)]
    · have hws' : ¬(c = ' '.toNat ∨ c = '\t'.toNat ∨ c = '\n'.toNat ∨ c = '\r'.toNat) := by
        simpa using hws
      simp only [not_or] at hws
      by_cases h45 : c = 45
      · subst h45
        cases rest with
        | nil =>
          refine Or.inr (Or.inr (Or.inr ⟨?_, Or.inr ⟨45, [], rfl, hws.1, hws.2.1, hws.2.2.1,
            hws.2.2.2, Or.inr (Or.inl rfl)⟩⟩))
          simp [spElemSpec]
        | cons c2 rest2 =>
          by_cases h45' : c2 = 45
          · subst h45'
            have hs := takeWhile_split (fun x => x != '\r'.toNat && x != '\n'.toNat) rest2
            have hbody : ∀ x ∈ rest2.takeWhile (fun x => x != '\r'.toNat && x != '\n'.toNat),
                x ≠ 13 ∧ x ≠ 10 := by
              intro x hx
              have h1 := hs.2.1 x hx
              simp only [Bool.and_eq_true, bne_iff_ne, ne_eq] at h1
              exact h1
            have hspec : ∀ o, (match rest2.drop
                  (rest2.takeWhile (fun x => x != '\r'.toNat && x != '\n'.toNat)).length with
                | [] => some (2 +
                    (rest2.takeWhile (fun x => x != '\r'.toNat && x != '\n'.toNat)).length)
                | _ :: _ => some (2 +
                    (rest2.takeWhile (fun x => x != '\r'.toNat && x != '\n'.toNat)).length + 1))
                = o → spElemSpec (45 :: 45 :: rest2) = o := by
              intro o ho
              simp only [spElemSpec]
              rw [if_neg hws', if_pos (show (45 : Nat) = '-'.toNat from rfl),
                if_pos (show (45 : Nat) = '-'.toNat from rfl)]
              exact ho
            generalize hB : rest2.takeWhile (fun x => x != '\r'.toNat && x != '\n'.toNat) = body
              at hs hbody hspec
            cases hd : rest2.drop body.length with
            | nil =>
              have hr : rest2 = body := by
                have := hs.1; rw [hd, List.append_nil] at this; exact this
              exact Or.inr (Or.inl ⟨body, by rw [hr], hbody, hspec _ (by rw [hd])⟩)
            | cons y ys =>
              have hy := hs.2.2 y ys hd
              have hy' : y = 13 ∨ y = 10 := by
                simp only [Bool.and_eq_false_iff, bne_eq_false_iff_eq] at hy
                exact hy
              have hr : rest2 = body ++ y :: ys := by
                have := hs.1; rw [hd] at this; exact this
              exact Or.inr (Or.inr (Or.inl ⟨body, y, ys, by rw [hr], hbody, hy',
                hspec _ (by rw [hd])⟩))
          · refine Or.inr (Or.inr (Or.inr ⟨?_, Or.inr ⟨45, c2 :: rest2, rfl, hws.1, hws.2.1,
              hws.2.2.1, hws.2.2.2, Or.inr (Or.inr ⟨c2, rest2, rfl, h45'⟩)⟩⟩))
            simp [spElemSpec, h45']
      · refine Or.inr (Or.inr (Or.inr ⟨?_, Or.inr ⟨c, rest, rfl, hws.1, hws.2.1, hws.2.2.1,
          hws.2.2.2, Or.inl h45⟩⟩))
        simp only [spElemSpec]
        rw [if_neg hws', if_neg (by simpa using h45)]

theorem spElemSpec_bounds {text : List Nat} {k : Nat} (h : spElemSpec text = some k) :
    1 ≤ k ∧ k ≤ text.length := by
  rcases spElemSpec_cases text with ⟨c, rest, rfl, _, hs⟩ | ⟨body, rfl, _, hs⟩ |
    ⟨body, y, ys, rfl, _, _, hs⟩ | ⟨hs, _⟩ <;> rw [hs] at h
  · simp only [Option.some.injEq] at h; subst h; simp
  · simp only [Option.some.injEq] at h; subst h; simp; omega
  · simp only [Option.some.injEq] at h; subst h; simp; omega
  · simp at h

/-- Rule `spElem` does what the spec says, on a text followed by the sentinel. -/
theorem Eval_spElem (text : List Nat) (htext : ∀ x ∈ text, x < end_symbol) (d p : Nat)
    (t : List token32) :
    (∀ k, spElemSpec text = some k → ∃ t1, Eval (.call .rulespElem) d p (text ++ [end_symbol]) t
        (.ok (p + k) (text.drop k ++ [end_symbol]) t1)) ∧
    (spElemSpec text = none → Eval (.call .rulespElem) d p (text ++ [end_symbol]) t .fail) := by
  rcases spElemSpec_cases text with ⟨c, rest, rfl, hws, hs⟩ | ⟨body, rfl, hb, hs⟩ |
    ⟨body, y, ys, rfl, hb, hy, hs⟩ | ⟨hs, hcase⟩ <;> rw [hs]
  · refine ⟨?_, fun h => by simp at h⟩
    intro k hk
    simp only [Option.some.injEq] at hk
    subst hk
    refine ⟨⟨.rulespElem, p, p + 1, d⟩ :: t, ?_⟩
    rw [Eval_call_expr grammar_spElem]
    simp only [Body.rulespElem, Peg.alts, Eval_alt, Eval_chr]
    rcases hws with rfl | rfl | rfl | rfl <;> simp
  · refine ⟨?_, fun h => by simp at h⟩
    intro k hk
    simp only [Option.some.injEq] at hk
    subst hk
    have hbody : ∀ x ∈ body, x ≠ 13 ∧ x ≠ 10 ∧ x ≠ end_symbol := fun x hx =>
      ⟨(hb x hx).1, (hb x hx).2, Nat.ne_of_lt (htext x (by simp [hx]))⟩
    have hc1 := Eval_comment (d + 1) p t body end_symbol [] (Or.inr (Or.inr rfl)) hbody
    have hc2 := Eval_finalComment (d + 1) p t body end_symbol [] (Or.inr (Or.inr rfl)) hbody
    simp only [if_true] at hc1 hc2
    refine ⟨⟨.rulespElem, p, p + 2 + body.length, d⟩ ::
      ⟨.rulefinalComment, p, p + 2 + body.length, d + 1⟩ :: t, ?_⟩
    have hdrop : List.drop (2 + body.length) (45 :: 45 :: body) = [] := by
      rw [show 2 + body.length = body.length + 1 + 1 by omega]
      simp
    rw [hdrop, Eval_call_expr grammar_spElem]
    simp only [Body.rulespElem, Peg.alts, Eval_alt, Eval_chr, List.cons_append, hc1.iff_eq,
      hc2.iff_eq]
    simp [Nat.add_assoc]
  · refine ⟨?_, fun h => by simp at h⟩
    intro k hk
    simp only [Option.some.injEq] at hk
    subst hk
    have hbody : ∀ x ∈ body, x ≠ 13 ∧ x ≠ 10 ∧ x ≠ end_symbol := fun x hx =>
      ⟨(hb x hx).1, (hb x hx).2, Nat.ne_of_lt (htext x (by simp [hx]))⟩
    have hyne : y ≠ end_symbol := by
      rcases hy with rfl | rfl <;> simp [end_symbol]
    have hc1 := Eval_comment (d + 1) p t body y (ys ++ [end_symbol])
      (by rcases hy with h | h; exact Or.inl h; exact Or.inr (Or.inl h)) hbody
    simp only [hyne, if_false] at hc1
    refine ⟨⟨.rulespElem, p, p + 2 + body.length + 1, d⟩ ::
      ⟨.rulecomment, p, p + 2 + body.length + 1, d + 1⟩ :: t, ?_⟩
    have hdrop : List.drop (2 + body.length + 1) (45 :: 45 :: (body ++ y :: ys)) = ys := by
      rw [show 2 + body.length + 1 = body.length + 1 + 1 + 1 by omega]
      exact drop_length_succ_append body y ys
    rw [hdrop, Eval_call_expr grammar_spElem]
    simp only [Body.rulespElem, Peg.alts, Eval_alt, Eval_chr, List.cons_append,
      List.append_assoc, hc1.iff_eq]
    simp [Nat.add_assoc]
  · refine ⟨fun k h => by simp at h, fun _ => ?_⟩
    rcases hcase with rfl | ⟨c, rest, rfl, h1, h2, h3, h4, h5⟩
    · have hno := Eval_comment_no (d + 1) p t end_symbol [] (Or.inl (by simp [end_symbol]))
      rw [Eval_call_expr grammar_spElem]
      simp only [Body.rulespElem, Peg.alts, Eval_alt, Eval_chr, List.nil_append, hno.1.iff_eq,
        hno.2.iff_eq]
      simp [end_symbol]
    · have hno := Eval_comment_no (d + 1) p t c (rest ++ [end_symbol]) (by
        rcases h5 with h5 | rfl | ⟨c2, rest2, rfl, h5⟩
        · exact Or.inl h5
        · exact Or.inr ⟨end_symbol, [], rfl, by simp [end_symbol]⟩
        · exact Or.inr ⟨c2, rest2 ++ [end_symbol], rfl, h5⟩)
      rw [Eval_call_expr grammar_spElem]
      simp only [Body.rulespElem, Peg.alts, Eval_alt, Eval_chr, List.cons_append, hno.1.iff_eq,
        hno.2.iff_eq]
      simp [h1, h2, h3, h4]


/-- The loop `spElem*` runs over the whole whitespace at the head of `text`. -/
theorem Eval_spStar : ∀ (n : Nat) (text : List Nat), text.length ≤ n →
    (∀ x ∈ text, x < end_symbol) → ∀ (d p : Nat) (t : List token32),
    ∃ t1, Eval (.star (.call .rulespElem)) d p (text ++ [end_symbol]) t
      (.ok (p + spRunSpec n text) (text.drop (spRunSpec n text) ++ [end_symbol]) t1) := by
  intro n
  induction n with
  | zero =>
    intro text hlen htext d p t
    have : text = [] := List.eq_nil_of_length_eq_zero (by omega)
    subst this
    refine ⟨t, ?_⟩
    have h := (Eval_spElem [] htext d p t).2 rfl
    exact Eval.star_fail h
  | succ n ih =>
    intro text hlen htext d p t
    cases hs : spElemSpec text with
    | none =>
      refine ⟨t, ?_⟩
      have h := (Eval_spElem text htext d p t).2 hs
      simp only [spRunSpec, hs]
      exact Eval.star_fail h
    | some k =>
      obtain ⟨t1, h1⟩ := (Eval_spElem text htext d p t).1 k hs
      have hk := spElemSpec_bounds hs
      have hlen2 : (text.drop k).length ≤ n := by
        rw [List.length_drop]; omega
      obtain ⟨t2, h2⟩ := ih (text.drop k) hlen2
        (fun x hx => htext x (List.mem_of_mem_drop hx)) d (p + k) t1
      refine ⟨t2, ?_⟩
      simp only [spRunSpec, hs]
      rw [List.drop_drop, Nat.add_assoc] at h2
      exact Eval.star_ok h1 h2

theorem spRunSpec_succ_of_some {text : List Nat} {k : Nat} (h : spElemSpec text = some k)
    (n : Nat) : spRunSpec (n + 1) text = k + spRunSpec n (text.drop k) := by
  simp only [spRunSpec, h]

/-- Rule `spOpt` matches the whole whitespace at the head of `text` and never fails. -/
theorem Eval_spOpt (text : List Nat) (htext : ∀ x ∈ text, x < end_symbol) (d p : Nat)
    (t : List token32) :
    ∃ t1, Eval (.call .rulespOpt) d p (text ++ [end_symbol]) t
      (.ok (p + spLen text) (text.drop (spLen text) ++ [end_symbol]) t1) := by
  obtain ⟨t1, h1⟩ := Eval_spStar text.length text (Nat.le_refl _) htext (d + 1) p t
  refine ⟨⟨.rulespOpt, p, p + spLen text, d⟩ :: t1, ?_⟩
  rw [Eval_call_expr grammar_spOpt]
  simp only [Body.rulespOpt, h1.iff_eq, spLen]
  simp

/-- Rule `sp` matches the whole whitespace at the head of `text` when there is some, and
fails when there is none. -/
theorem Eval_sp (text : List Nat) (htext : ∀ x ∈ text, x < end_symbol) (d p : Nat)
    (t : List token32) :
    (∀ k, spElemSpec text = some k → ∃ t1, Eval (.call .rulesp) d p (text ++ [end_symbol]) t
        (.ok (p + spLen text) (text.drop (spLen text) ++ [end_symbol]) t1)) ∧
    (spElemSpec text = none → Eval (.call .rulesp) d p (text ++ [end_symbol]) t .fail) := by
  constructor
  · intro k hs
    obtain ⟨t1, h1⟩ := (Eval_spElem text htext (d + 1) p t).1 k hs
    have hk := spElemSpec_bounds hs
    have hlen2 : (text.drop k).length ≤ text.length - 1 := by
      rw [List.length_drop]; omega
    obtain ⟨t2, h2⟩ := Eval_spStar (text.length - 1) (text.drop k) hlen2
      (fun x hx => htext x (List.mem_of_mem_drop hx)) (d + 1) (p + k) t1
    have hlen : spLen text = k + spRunSpec (text.length - 1) (text.drop k) := by
      unfold spLen
      rw [show text.length = (text.length - 1) + 1 by omega]
      exact spRunSpec_succ_of_some hs _
    rw [List.drop_drop] at h2
    refine ⟨⟨.rulesp, p, p + spLen text, d⟩ :: t2, ?_⟩
    rw [Eval_call_expr grammar_sp]
    refine ⟨_, Eval.seq_ok h1 h2, ?_⟩
    simp [hlen, Nat.add_assoc]
  · intro hs
    have h1 := (Eval_spElem text htext (d + 1) p t).2 hs
    rw [Eval_call_expr grammar_sp]
    simp only [Body.rulesp, Peg.plus, Eval_seq, h1.iff_eq]
    simp

/-! ## Rule `SingleStatement` -/

theorem Good_text (text : List Nat) : Good (text ++ [end_symbol]) := by
  simp [Good]

/-- A successful run on a text followed by the sentinel stops inside the text. -/
theorem Eval.ok_text {e : Peg} {d p : Nat} {text : List Nat} {t : List token32} {p1 : Nat}
    {r1 : List Nat} {t1 : List token32}
    (h : Eval e d p (text ++ [end_symbol]) t (.ok p1 r1 t1)) :
    ∃ k, k ≤ text.length ∧ p1 = p + k ∧ r1 = text.drop k ++ [end_symbol] := by
  obtain ⟨f, hf, _⟩ := h
  have hc := execF_consumed f e d p _ t p1 r1 t1 hf
  have hg := hc.good (Good_text text)
  obtain ⟨w, hr, hp, hw, _, _⟩ := hc
  have hne := hg.ne_nil
  obtain ⟨ini, lst, rfl⟩ : ∃ ini lst, r1 = ini ++ [lst] :=
    ⟨r1.dropLast, r1.getLast hne, (List.dropLast_append_getLast hne).symm⟩
  have hl : lst = end_symbol := by
    simpa [Good] using hg
  subst hl
  rw [← List.append_assoc] at hr
  have ht : text = w ++ ini := List.append_cancel_right hr
  refine ⟨w.length, by rw [ht]; simp, hp, ?_⟩
  rw [ht, List.drop_left]

theorem spLen_le (text : List Nat) (htext : ∀ x ∈ text, x < end_symbol) :
    spLen text ≤ text.length := by
  obtain ⟨t1, h1⟩ := Eval_spOpt text htext 0 0 []
  obtain ⟨k, hk, hp, _⟩ := h1.ok_text
  omega

/-- The loop `.*` runs to the end of the text. -/
theorem Eval_dotStar (d : Nat) (t : List token32) : ∀ (text : List Nat) (p : Nat),
    (∀ x ∈ text, x < end_symbol) →
    Eval (.star .dot) d p (text ++ [end_symbol]) t (.ok (p + text.length) [end_symbol] t) := by
  intro text
  induction text with
  | nil =>
    intro p _
    apply Eval.star_fail
    rw [Eval_dot]; simp
  | cons x xs ih =>
    intro p hx
    have h1 : Eval .dot d p (x :: xs ++ [end_symbol]) t (.ok (p + 1) (xs ++ [end_symbol]) t) := by
      rw [Eval_dot]
      have := Nat.ne_of_lt (hx x (List.mem_cons_self _ _))
      simp [this]
    have h2 := ih (p + 1) (fun z hz => hx z (List.mem_cons_of_mem _ hz))
    rw [show p + (x :: xs).length = p + 1 + xs.length by simp; omega]
    exact Eval.star_ok h1 h2


theorem grammar_SingleStatement :
    grammar .ruleSingleStatement = .expr Body.ruleSingleStatement := rfl
theorem grammar_StatementWithRest :
    grammar .ruleStatementWithRest = .expr Body.ruleStatementWithRest := rfl
theorem grammar_StatementWithoutRest :
    grammar .ruleStatementWithoutRest = .expr Body.ruleStatementWithoutRest := rfl
theorem grammar_Action0 : grammar .ruleAction0 = .action := rfl
theorem grammar_Action1 : grammar .ruleAction1 = .action := rfl

theorem Eval_dot_end (d p : Nat) (t : List token32) :
    Eval (.nt .dot) d p [end_symbol] t (.ok p [end_symbol] t) := by
  apply Eval.nt_fail
  rw [Eval_dot]; simp

/-- The top of a successful run of `SingleStatement`: it ends at the end of the text. -/
theorem Eval_SingleStatement_ok {text : List Nat} {p1 : Nat} {r1 : List Nat}
    {t1 : List token32}
    (h : Eval Body.ruleSingleStatement 1 0 (text ++ [end_symbol]) [] (.ok p1 r1 t1))
    (hr : r1 = [end_symbol]) :
    Eval (.call .ruleSingleStatement) 0 0 (text ++ [end_symbol]) []
      (.ok text.length [end_symbol] (⟨.ruleSingleStatement, 0, text.length, 0⟩ :: t1)) := by
  subst hr
  obtain ⟨k, hk, hp, hd⟩ := h.ok_text
  have hk2 : text.length ≤ k := by
    have : (text.drop k).length = 0 := by
      have := congrArg List.length hd
      simp at this
      simp; omega
    simp at this
    omega
  have : p1 = text.length := by omega
  subst this
  exact Eval.call_ok grammar_SingleStatement h

/-- Rule `SingleStatement` on a text, from what rule `Statement` does after the leading
whitespace: the statement must be followed by whitespace and then a semicolon or the end of
the text. -/
theorem Eval_SingleStatement (text : List Nat) (htext : ∀ x ∈ text, x < end_symbol)
    (res0 : ResF) :
    Eval (.call .ruleStatement) 0 (spLen text) (text.drop (spLen text) ++ [end_symbol]) []
      res0 →
    match res0 with
    | .ok q _ _ =>
      spLen text ≤ q ∧ q ≤ text.length ∧
      match (text.drop q).drop (spLen (text.drop q)) with
      | [] => ∃ toks, Eval (.call .ruleSingleStatement) 0 0 (text ++ [end_symbol]) []
          (.ok text.length [end_symbol] (⟨.ruleSingleStatement, 0, text.length, 0⟩ :: toks))
      | c :: _ =>
        if c = ';'.toNat then
          ∃ toks, Eval (.call .ruleSingleStatement) 0 0 (text ++ [end_symbol]) []
            (.ok text.length [end_symbol] (⟨.ruleSingleStatement, 0, text.length, 0⟩ :: toks))
        else Eval (.call .ruleSingleStatement) 0 0 (text ++ [end_symbol]) [] .fail
    | .fail => Eval (.call .ruleSingleStatement) 0 0 (text ++ [end_symbol]) [] .fail
    | _ => False := by
  intro h0
  obtain ⟨tA, hA⟩ := Eval_spOpt text htext 1 0 []
  rw [Nat.zero_add] at hA
  have hw0 := spLen_le text htext
  cases res0 with
  | oof => exact h0.ne_oof rfl
  | panic =>
    obtain ⟨f, hf, _⟩ := h0
    exact execF_no_panic f (.call .ruleStatement) 0 _ _ [] (Good_text _) rfl hf
  | fail =>
    have hS := h0.lift 3 tA
    have h1 : Eval (.call .ruleStatementWithRest) 1 (spLen text)
        (text.drop (spLen text) ++ [end_symbol]) tA .fail :=
      Eval.call_fail grammar_StatementWithRest (Eval.seq_fail (Eval.text_fail (Eval.seq_fail hS)))
    have h2 : Eval (.call .ruleStatementWithoutRest) 1 (spLen text)
        (text.drop (spLen text) ++ [end_symbol]) tA .fail :=
      Eval.call_fail grammar_StatementWithoutRest
        (Eval.seq_fail (Eval.text_fail (Eval.seq_fail hS)))
    exact Eval.call_fail grammar_SingleStatement
      (Eval.seq_ok hA (Eval.seq_fail (Eval.alt_fail h1 h2)))
  | ok q r1 toks0 =>
    obtain ⟨k, hk, hq, hr1⟩ := h0.ok_text
    rw [List.length_drop] at hk
    rw [List.drop_drop] at hr1
    rw [← hq] at hr1
    subst hr1
    have htext2 : ∀ x ∈ text.drop q, x < end_symbol :=
      fun x hx => htext x (List.mem_of_mem_drop hx)
    have hS := h0.lift 3 tA
    simp only [ResF.lift] at hS
    obtain ⟨tB, hB⟩ := Eval_spOpt (text.drop q) htext2 3 q (toks0.map (addDepth 3) ++ tA)
    refine ⟨by omega, by omega, ?_⟩
    cases h3 : (text.drop q).drop (spLen (text.drop q)) with
    | nil =>
      rw [h3] at hB
      have hC : Eval (.chr ';') 3 (q + spLen (text.drop q)) ([] ++ [end_symbol]) tB .fail := by
        rw [Eval_chr]; simp [end_symbol]
      have h1 : Eval (.call .ruleStatementWithRest) 1 (spLen text)
          (text.drop (spLen text) ++ [end_symbol]) tA .fail :=
        Eval.call_fail grammar_StatementWithRest (Eval.seq_fail (Eval.text_fail
          (Eval.seq_ok hS (Eval.seq_ok hB (Eval.seq_fail hC)))))
      have h2 := Eval.call_ok grammar_StatementWithoutRest (d := 1)
        (Eval.seq_ok (Eval.text_ok (Eval.seq_ok hS hB))
          (Eval.call_action grammar_Action1 2 _ _ _))
      exact ⟨_, Eval_SingleStatement_ok
        (Eval.seq_ok hA (Eval.seq_ok (Eval.alt_fail h1 h2) (Eval_dot_end _ _ _))) rfl⟩
    | cons c text4 =>
      rw [h3] at hB
      have htext4 : ∀ x ∈ c :: text4, x < end_symbol := by
        intro x hx
        rw [← h3] at hx
        exact htext2 x (List.mem_of_mem_drop hx)
      by_cases hc : c = ';'.toNat
      · simp only [hc, if_true]
        subst hc
        have hC : Eval (.chr ';') 3 (q + spLen (text.drop q))
            (';'.toNat :: text4 ++ [end_symbol]) tB
            (.ok (q + spLen (text.drop q) + 1) (text4 ++ [end_symbol]) tB) := by
          rw [Eval_chr]; simp
        obtain ⟨tC, hD⟩ := Eval_spOpt text4
          (fun x hx => htext4 x (List.mem_cons_of_mem _ hx)) 3
          (q + spLen (text.drop q) + 1) tB
        have hE := Eval_dotStar 2
          (⟨.rulePegText, spLen text, q + spLen (text.drop q) + 1 + spLen text4, 2⟩ :: tC)
          (text4.drop (spLen text4)) (q + spLen (text.drop q) + 1 + spLen text4)
          (fun x hx => htext4 x (List.mem_cons_of_mem _ (List.mem_of_mem_drop hx)))
        have h1 := Eval.call_ok grammar_StatementWithRest (d := 1)
          (Eval.seq_ok (Eval.text_ok (Eval.seq_ok hS (Eval.seq_ok hB (Eval.seq_ok hC hD))))
            (Eval.seq_ok hE (Eval.call_action grammar_Action0 2 _ _ _)))
        exact ⟨_, Eval_SingleStatement_ok
          (Eval.seq_ok hA (Eval.seq_ok (Eval.alt_ok h1) (Eval_dot_end _ _ _))) rfl⟩
      · simp only [hc, if_false]
        have hC : Eval (.chr ';') 3 (q + spLen (text.drop q))
            (c :: text4 ++ [end_symbol]) tB .fail := by
          rw [Eval_chr]; simp [show ¬ c = 59 from hc]
        have h1 : Eval (.call .ruleStatementWithRest) 1 (spLen text)
            (text.drop (spLen text) ++ [end_symbol]) tA .fail :=
          Eval.call_fail grammar_StatementWithRest (Eval.seq_fail (Eval.text_fail
            (Eval.seq_ok hS (Eval.seq_ok hB (Eval.seq_fail hC)))))
        have h2 := Eval.call_ok grammar_StatementWithoutRest (d := 1)
          (Eval.seq_ok (Eval.text_ok (Eval.seq_ok hS hB))
            (Eval.call_action grammar_Action1 2 _ _ _))
        have hN : Eval (.nt .dot) 1 (q + spLen (text.drop q)) (c :: text4 ++ [end_symbol])
            (⟨.ruleStatementWithoutRest, spLen text, q + spLen (text.drop q), 1⟩ ::
              ⟨.ruleAction1, q + spLen (text.drop q), q + spLen (text.drop q), 2⟩ ::
              ⟨.rulePegText, spLen text, q + spLen (text.drop q), 2⟩ :: tB) .fail := by
          rw [Eval_nt]
          refine ⟨_, Eval.dot _ _ _ _, ?_⟩
          have := Nat.ne_of_lt (htext4 c (List.mem_cons_self _ _))
          simp [this]
        exact Eval.call_fail grammar_SingleStatement
          (Eval.seq_ok hA (Eval.seq_ok (Eval.alt_fail h1 h2) hN))

/-- The outcome of the rule function on the buffer of `Init`, from a run of `execF` with any
fuel that is enough. -/
theorem ruleAt_of_execF (f : Nat) {Buffer : String} {q : pegRule} {p : Nat} {o : Outcome}
    (h : (execF f (.call q) 0 p ((Init (runes Buffer)).drop p) []).outcome = o)
    (ho : o ≠ .oof) : ruleAt Buffer q p = o := by
  have hE : Eval (.call q) 0 p ((Init (runes Buffer)).drop p) []
      (execF f (.call q) 0 p ((Init (runes Buffer)).drop p) []) := by
    refine ⟨f, rfl, ?_⟩
    intro hc
    rw [hc] at h
    exact ho h.symm
  rw [ruleAt_of_eval hE, h]

/-- Rule `SingleStatement` called at the start of a text returns false, or returns true at
the end of the text with its own token recorded last. -/
theorem Eval_SingleStatement_cases (text : List Nat) (htext : ∀ x ∈ text, x < end_symbol) :
    Eval (.call .ruleSingleStatement) 0 0 (text ++ [end_symbol]) [] .fail ∨
    ∃ toks, Eval (.call .ruleSingleStatement) 0 0 (text ++ [end_symbol]) []
      (.ok text.length [end_symbol] (⟨.ruleSingleStatement, 0, text.length, 0⟩ :: toks)) := by
  rcases Eval.total .ruleStatement 0 (spLen text) (text.drop (spLen text) ++ [end_symbol]) []
    (Good_text _) rfl with h | ⟨p1, r1, t1, h, _⟩
  · exact Or.inl (Eval_SingleStatement text htext _ h)
  · obtain ⟨_, _, hS⟩ := Eval_SingleStatement text htext _ h
    revert hS
    cases (text.drop p1).drop (spLen (text.drop p1)) with
    | nil => exact fun hS => Or.inr hS
    | cons c rest =>
      intro hS
      by_cases hc : c = ';'.toNat
      · simp only [hc, if_true] at hS
        exact Or.inr hS
      · simp only [hc, if_false] at hS
        exact Or.inl hS

/-! ## The tokens of the clauses of a SELECT -/

theorem clauseRule_closed (q : pegRule) (h : clauseRule q = true) :
    match grammar q with
    | .expr body => callsIn clauseRule body = true
    | _ => True := by
  cases q <;> first | exact True.intro | rfl | exact absurd h (by decide)

/-- The tokens that a successful run adds are `rulePegText` tokens and tokens of the rules
called, directly or through other rules. -/
theorem execF_tokens (S : pegRule → Bool)
    (hS : ∀ q body, S q = true → grammar q = .expr body → callsIn S body = true) (f : Nat) :
    ∀ (e : Peg) (d p : Nat) (r : List Nat) (t : List token32) (p1 : Nat) (r1 : List Nat)
      (t1 : List token32), callsIn S e = true → execF f e d p r t = .ok p1 r1 t1 →
      ∃ new, t1 = new ++ t ∧ ∀ tok ∈ new, tok.rule = .rulePegText ∨ S tok.rule = true := by
  induction f with
  | zero => intro e d p r t p1 r1 t1 _ h; simp [execF] at h
  | succ n ih =>
    intro e d p r t p1 r1 t1 hc h
    cases e with
    | chr c =>
      rw [execF_chr] at h
      cases r with
      | nil => simp at h
      | cons x xs =>
        simp only [] at h
        split at h
        · simp at h
        · simp only [ResF.ok.injEq] at h
          exact ⟨[], by simp [h.2.2], by simp⟩
    | rng lo hi =>
      rw [execF_rng] at h
      cases r with
      | nil => simp at h
      | cons x xs =>
        simp only [] at h
        split at h
        · simp at h
        · simp only [ResF.ok.injEq] at h
          exact ⟨[], by simp [h.2.2], by simp⟩
    | dot =>
      rw [execF_dot] at h
      cases r with
      | nil => simp at h
      | cons x xs =>
        simp only [] at h
        split at h
        · simp only [ResF.ok.injEq] at h
          exact ⟨[], by simp [h.2.2], by simp⟩
        · simp at h
    | call q =>
      rw [execF_call] at h
      simp only [callsIn] at hc
      cases hg : grammar q with
      | nil => simp [hg] at h
      | action =>
        simp only [hg, ResF.ok.injEq] at h
        obtain ⟨rfl, rfl, rfl⟩ := h
        exact ⟨[_], rfl, by simp [hc]⟩
      | expr body =>
        simp only [hg] at h
        cases hb : execF n body (d + 1) p r t with
        | oof => rw [hb] at h; simp at h
        | panic => rw [hb] at h; simp at h
        | fail => rw [hb] at h; simp at h
        | ok p2 r2 t2 =>
          rw [hb] at h
          simp only [ResF.ok.injEq] at h
          obtain ⟨rfl, rfl, rfl⟩ := h
          obtain ⟨new, rfl, hn⟩ := ih _ _ _ _ _ _ _ _ (hS q body hc hg) hb
          refine ⟨_ :: new, rfl, ?_⟩
          intro tok htok
          rcases List.mem_cons.mp htok with rfl | htok
          · exact Or.inr hc
          · exact hn tok htok
    | seq a b =>
      rw [execF_seq] at h
      simp only [callsIn, Bool.and_eq_true] at hc
      cases ha : execF n a d p r t with
      | oof => rw [ha] at h; simp at h
      | panic => rw [ha] at h; simp at h
      | fail => rw [ha] at h; simp at h
      | ok p2 r2 t2 =>
        rw [ha] at h
        obtain ⟨new1, rfl, hn1⟩ := ih _ _ _ _ _ _ _ _ hc.1 ha
        obtain ⟨new2, rfl, hn2⟩ := ih _ _ _ _ _ _ _ _ hc.2 h
        refine ⟨new2 ++ new1, by simp, ?_⟩
        intro tok htok
        rcases List.mem_append.mp htok with htok | htok
        · exact hn2 tok htok
        · exact hn1 tok htok
    | alt a b =>
      rw [execF_alt] at h
      simp only [callsIn, Bool.and_eq_true] at hc
      cases ha : execF n a d p r t with
      | oof => rw [ha] at h; simp at h
      | panic => rw [ha] at h; simp at h
      | fail =>
        rw [ha] at h
        exact ih _ _ _ _ _ _ _ _ hc.2 h
      | ok p2 r2 t2 =>
        rw [ha] at h
        simp only [ResF.ok.injEq] at h
        obtain ⟨rfl, rfl, rfl⟩ := h
        exact ih _ _ _ _ _ _ _ _ hc.1 ha
    | opt a =>
      rw [execF_opt] at h
      simp only [callsIn] at hc
      cases ha : execF n a d p r t with
      | oof => rw [ha] at h; simp at h
      | panic => rw [ha] at h; simp at h
      | fail =>
        rw [ha] at h
        simp only [ResF.ok.injEq] at h
        exact ⟨[], by simp [h.2.2], by simp⟩
      | ok p2 r2 t2 =>
        rw [ha] at h
        simp only [ResF.ok.injEq] at h
        obtain ⟨rfl, rfl, rfl⟩ := h
        exact ih _ _ _ _ _ _ _ _ hc ha
    | star a =>
      rw [execF_star] at h
      have hc2 := hc
      simp only [callsIn] at hc
      cases ha : execF n a d p r t with
      | oof => rw [ha] at h; simp at h
      | panic => rw [ha] at h; simp at h
      | fail =>
        rw [ha] at h
        simp only [ResF.ok.injEq] at h
        exact ⟨[], by simp [h.2.2], by simp⟩
      | ok p2 r2 t2 =>
        rw [ha] at h
        obtain ⟨new1, rfl, hn1⟩ := ih _ _ _ _ _ _ _ _ hc ha
        obtain ⟨new2, rfl, hn2⟩ := ih _ _ _ _ _ _ _ _ hc2 h
        refine ⟨new2 ++ new1, by simp, ?_⟩
        intro tok htok
        rcases List.mem_append.mp htok with htok | htok
        · exact hn2 tok htok
        · exact hn1 tok htok
    | nt a =>
      rw [execF_nt] at h
      cases ha : execF n a d p r t with
      | oof => rw [ha] at h; simp at h
      | panic => rw [ha] at h; simp at h
      | fail =>
        rw [ha] at h
        simp only [ResF.ok.injEq] at h
        exact ⟨[], by simp [h.2.2], by simp⟩
      | ok p2 r2 t2 => rw [ha] at h; simp at h
    | text a =>
      rw [execF_text] at h
      simp only [callsIn] at hc
      cases ha : execF n a (d + 1) p r t with
      | oof => rw [ha] at h; simp at h
      | panic => rw [ha] at h; simp at h
      | fail => rw [ha] at h; simp at h
      | ok p2 r2 t2 =>
        rw [ha] at h
        simp only [ResF.ok.injEq] at h
        obtain ⟨rfl, rfl, rfl⟩ := h
        obtain ⟨new, rfl, hn⟩ := ih _ _ _ _ _ _ _ _ hc ha
        refine ⟨_ :: new, rfl, ?_⟩
        intro tok htok
        rcases List.mem_cons.mp htok with rfl | htok
        · exact Or.inl rfl
        · exact hn tok htok

theorem clauseRule_not_selectAction (q : pegRule) :
    clauseRule q = true → selectAction q = false := by
  cases q <;> first | (intro _; rfl) | (intro h; exact absurd h (by decide))

theorem Eval.tokens {e : Peg} {d p : Nat} {r : List Nat} {t : List token32} {p1 : Nat}
    {r1 : List Nat} {t1 : List token32} (h : Eval e d p r t (.ok p1 r1 t1))
    (hc : callsIn clauseRule e = true) :
    ∃ new, t1 = new ++ t ∧ ∀ tok ∈ new, selectAction tok.rule = false := by
  obtain ⟨f, hf, _⟩ := h
  obtain ⟨new, h1, h2⟩ := execF_tokens clauseRule
    (fun q body hq hg => by have := clauseRule_closed q hq; rw [hg] at this; exact this)
    f e d p r t p1 r1 t1 hc hf
  refine ⟨new, h1, fun tok htok => ?_⟩
  rcases h2 tok htok with h | h
  · rw [h]; rfl
  · exact clauseRule_not_selectAction _ h

theorem Eval.seq_inv {a b : Peg} {d p : Nat} {r : List Nat} {t : List token32} {p2 : Nat}
    {r2 : List Nat} {t2 : List token32} (h : Eval (.seq a b) d p r t (.ok p2 r2 t2)) :
    ∃ p1 r1 t1, Eval a d p r t (.ok p1 r1 t1) ∧ Eval b d p1 r1 t1 (.ok p2 r2 t2) := by
  rw [Eval_seq] at h
  obtain ⟨ra, ha, hb⟩ := h
  cases ra with
  | ok p1 r1 t1 => exact ⟨p1, r1, t1, ha, hb⟩
  | oof => simp at hb
  | panic => simp at hb
  | fail => simp at hb

/-- A run of the code of `e` on a buffer that ends with the sentinel returns true or false. -/
theorem Eval.total_expr (e : Peg) (hs : starOK e = true) (hc : callsOK e = true) (d p : Nat)
    (r : List Nat) (t : List token32) (hg : Good r) :
    Eval e d p r t .fail ∨ ∃ p1 r1 t1, Eval e d p r t (.ok p1 r1 t1) := by
  have IH : ∀ (q : pegRule) (d p : Nat) (r' : List Nat) (toks : List token32),
      r'.length ≤ r.length → r'.length * 20 + rank q < (r.length + 1) * 20 + 0 →
      execF (((r.length + 1) * 20 + 0) * (r.length + 25)) (.call q) d p r' toks ≠ .oof := by
    intro q d p r' toks h1 h2
    have h := execF_terminates_rule r.length (r'.length * 20 + rank q) q d p r' toks h1
      (Nat.le_refl _)
    intro hx
    apply h
    cases hy : execF ((r'.length * 20 + rank q + 1) * (r.length + 25)) (.call q) d p r' toks with
    | oof => rfl
    | _ =>
      have hle : (r'.length * 20 + rank q + 1) * (r.length + 25) ≤
          ((r.length + 1) * 20 + 0) * (r.length + 25) := Nat.mul_le_mul_right _ (by omega)
      have := execF_mono hle (e := .call q) (d := d) (p := p) (r := r') (t := toks)
        (by rw [hy]; simp)
      rw [hx, hy] at this
      simp at this
  have hne := execF_terminates_expr r.length ((r.length + 1) * 20 + 0) (r.length + 1) 0 rfl IH
    e hs d p r t (Nat.le_refl _) (Nat.le_succ _) (Or.inl (Nat.lt_succ_self _))
  have hp := fun f => execF_no_panic f e d p r t hg hc
  cases hx : execF (needB e * r.length + needA e + ((r.length + 1) * 20 + 0) * (r.length + 25))
      e d p r t with
  | oof => exact absurd hx hne
  | panic => exact absurd hx (hp _)
  | fail => exact Or.inl ⟨_, hx, by simp⟩
  | ok p1 r1 t1 => exact Or.inr ⟨p1, r1, t1, _, hx, by simp⟩


theorem Eval.good_rest {e : Peg} {d p : Nat} {r : List Nat} {t : List token32} {p1 : Nat}
    {r1 : List Nat} {t1 : List token32} (h : Eval e d p r t (.ok p1 r1 t1)) (hg : Good r) :
    Good r1 := by
  obtain ⟨f, hf, _⟩ := h
  exact (execF_consumed f e d p r t p1 r1 t1 hf).good hg

theorem Eval.call_inv {q : pegRule} {body : Peg} (hq : grammar q = .expr body) {d p : Nat}
    {r : List Nat} {t : List token32} {p1 : Nat} {r1 : List Nat} {t1 : List token32}
    (h : Eval (.call q) d p r t (.ok p1 r1 t1)) :
    ∃ t2, t1 = ⟨q, p, p1, d⟩ :: t2 ∧ Eval body (d + 1) p r t (.ok p1 r1 t2) := by
  rw [Eval_call_expr hq] at h
  obtain ⟨ra, ha, hb⟩ := h
  cases ra with
  | ok p2 r2 t2 =>
    simp only [ResF.ok.injEq] at hb
    obtain ⟨rfl, rfl, rfl⟩ := hb
    exact ⟨t2, rfl, ha⟩
  | oof => simp at hb
  | panic => simp at hb
  | fail => simp at hb

/-- An optional-clause rule `R <- <(<(g)?> A)>` returns true at every position; it records
the tokens of the group, when the group matches, and then `rulePegText`, the action `A` and
its own token; the group consumes input when it matches. -/
theorem Eval_optClause {R A : pegRule} {g : Peg}
    (hR : grammar R = .expr (.seq (.text (.opt g)) (.call A))) (hA : grammar A = .action)
    (hs : starOK g = true) (hc : callsOK g = true) (hin : callsIn clauseRule g = true)
    (hne : mayEmpty g = false) (d p : Nat) (r : List Nat) (t : List token32) (hg : Good r) :
    (Eval g (d + 2) p r t .fail ∧
      Eval (.call R) d p r t (.ok p r
        (⟨R, p, p, d⟩ :: ⟨A, p, p, d + 1⟩ :: ⟨.rulePegText, p, p, d + 1⟩ :: t))) ∨
    (∃ p1 r1 inner, p < p1 ∧ Good r1 ∧ (∀ tok ∈ inner, selectAction tok.rule = false) ∧
      Eval g (d + 2) p r t (.ok p1 r1 (inner ++ t)) ∧
      Eval (.call R) d p r t (.ok p1 r1
        (⟨R, p, p1, d⟩ :: ⟨A, p1, p1, d + 1⟩ :: ⟨.rulePegText, p, p1, d + 1⟩ :: (inner ++ t)))) := by
  rcases Eval.total_expr g hs hc (d + 2) p r t hg with hf | ⟨p1, r1, t1, hok⟩
  · exact Or.inl ⟨hf, Eval.call_ok hR
      (Eval.seq_ok (Eval.text_ok (Eval.opt_fail hf)) (Eval.call_action hA (d + 1) _ _ _))⟩
  · obtain ⟨inner, rfl, hi⟩ := hok.tokens hin
    have hlt : p < p1 := by
      obtain ⟨f, hf, _⟩ := hok
      obtain ⟨w, _, hp, _, hn, _⟩ := execF_consumed f g (d + 2) p r t p1 r1 _ hf
      have := List.length_pos.mpr (hn hne)
      omega
    exact Or.inr ⟨p1, r1, inner, hlt, hok.good_rest hg, hi, hok, Eval.call_ok hR
      (Eval.seq_ok (Eval.text_ok (Eval.opt_ok hok)) (Eval.call_action hA (d + 1) _ _ _))⟩

theorem grammar_SelectStmt : grammar .ruleSelectStmt = .expr Body.ruleSelectStmt := rfl

theorem filter_inner {l : List token32} (h : ∀ tok ∈ l, selectAction tok.rule = false) :
    List.filter selectAction (List.map (fun tok => tok.rule) l) = [] := by
  rw [List.filter_eq_nil_iff]
  intro q hq
  obtain ⟨tok, htok, rfl⟩ := List.mem_map.mp hq
  rw [h tok htok]
  simp

theorem Eval.seq_step {a b : Peg} {d p : Nat} {r : List Nat} {t : List token32} {p2 : Nat}
    {r2 : List Nat} {t2 : List token32} (h : Eval (.seq a b) d p r t (.ok p2 r2 t2))
    (hg : Good r) (hc : callsIn clauseRule a = true) :
    ∃ p1 r1 new, Good r1 ∧ (∀ tok ∈ new, selectAction tok.rule = false) ∧
      Eval b d p1 r1 (new ++ t) (.ok p2 r2 t2) := by
  obtain ⟨p1, r1, t1, ha, hb⟩ := h.seq_inv
  obtain ⟨new, rfl, hn⟩ := ha.tokens hc
  exact ⟨p1, r1, new, ha.good_rest hg, hn, hb⟩

theorem Eval.clause_step {R A : pegRule} {g b : Peg}
    (hR : grammar R = .expr (.seq (.text (.opt g)) (.call A))) (hA : grammar A = .action)
    (hs : starOK g = true) (hc : callsOK g = true) (hin : callsIn clauseRule g = true)
    (hne : mayEmpty g = false) {d p : Nat} {r : List Nat} {t : List token32} {p2 : Nat}
    {r2 : List Nat} {t2 : List token32} (h : Eval (.seq (.call R) b) d p r t (.ok p2 r2 t2))
    (hg : Good r) :
    ∃ p1 r1 inner, Good r1 ∧ (∀ tok ∈ inner, selectAction tok.rule = false) ∧
      Eval b d p1 r1
        (⟨R, p, p1, d⟩ :: ⟨A, p1, p1, d + 1⟩ :: ⟨.rulePegText, p, p1, d + 1⟩ :: (inner ++ t))
        (.ok p2 r2 t2) := by
  obtain ⟨p1, r1, t1, ha, hb⟩ := h.seq_inv
  rcases Eval_optClause hR hA hs hc hin hne d p r t hg with ⟨_, h1⟩ | ⟨q1, s1, inner, _, hg1, hi, _, h1⟩
  · have := ha.det h1
    simp only [ResF.ok.injEq] at this
    obtain ⟨rfl, rfl, rfl⟩ := this
    exact ⟨p1, r1, [], hg, by simp, hb⟩
  · have := ha.det h1
    simp only [ResF.ok.injEq] at this
    obtain ⟨rfl, rfl, rfl⟩ := this
    exact ⟨p1, r1, inner, hg1, hi, hb⟩

/-- The tokens of a successful match of `SelectStmt`: among the action tokens of the clause
slots and of the SELECT itself there are exactly `Action34`, `Action37`, `Action38`,
`Action39` and `Action2`, recorded in this order. -/
theorem Eval_SelectStmt_tokens {d p : Nat} {r : List Nat} {t : List token32} {p1 : Nat}
    {r1 : List Nat} {t1 : List token32} (hg : Good r)
    (h : Eval (.call .ruleSelectStmt) d p r t (.ok p1 r1 t1)) :
    ∃ new, t1 = new ++ t ∧
      (new.reverse.map (fun tok => tok.rule)).filter selectAction =
        [.ruleAction34, .ruleAction37, .ruleAction38, .ruleAction39, .ruleAction2] := by
  obtain ⟨t2, rfl, hb⟩ := h.call_inv grammar_SelectStmt
  obtain ⟨_, _, n1, g1, f1, h⟩ := hb.seq_step hg rfl
  obtain ⟨_, _, n2, g2, f2, h⟩ := h.seq_step g1 rfl
  obtain ⟨_, _, n3, g3, f3, h⟩ := h.seq_step g2 rfl
  obtain ⟨_, _, n4, g4, f4, h⟩ := h.seq_step g3 rfl
  obtain ⟨_, _, n5, g5, f5, h⟩ := h.seq_step g4 rfl
  obtain ⟨_, _, n6, g6, f6, h⟩ := h.seq_step g5 rfl
  obtain ⟨_, _, n7, g7, f7, h⟩ := h.seq_step g6 rfl
  obtain ⟨pa, _, n8, g8, f8, h⟩ := h.seq_step g7 rfl
  obtain ⟨pb, _, i1, k1, j1, h⟩ := h.clause_step (R := .ruleWindowedFrom) rfl rfl rfl rfl rfl rfl g8
  obtain ⟨pc, _, i2, k2, j2, h⟩ := h.clause_step (R := .ruleFilter) rfl rfl rfl rfl rfl rfl k1
  obtain ⟨pd, _, i3, k3, j3, h⟩ := h.clause_step (R := .ruleGrouping) rfl rfl rfl rfl rfl rfl k2
  obtain ⟨pe, _, i4, k4, j4, h⟩ := h.clause_step (R := .ruleHaving) rfl rfl rfl rfl rfl rfl k3
  rw [Eval_call_action (q := .ruleAction2) rfl] at h
  simp only [ResF.ok.injEq] at h
  obtain ⟨rfl, rfl, rfl⟩ := h
  refine ⟨⟨.ruleSelectStmt, p, p1, d⟩ :: ⟨.ruleAction2, p1, p1, d + 1⟩ ::
    ⟨.ruleHaving, pd, p1, d + 1⟩ :: ⟨.ruleAction39, p1, p1, d + 2⟩ ::
    ⟨.rulePegText, pd, p1, d + 2⟩ :: (i4 ++
    ⟨.ruleGrouping, pc, pd, d + 1⟩ :: ⟨.ruleAction38, pd, pd, d + 2⟩ ::
    ⟨.rulePegText, pc, pd, d + 2⟩ :: (i3 ++
    ⟨.ruleFilter, pb, pc, d + 1⟩ :: ⟨.ruleAction37, pc, pc, d + 2⟩ ::
    ⟨.rulePegText, pb, pc, d + 2⟩ :: (i2 ++
    ⟨.ruleWindowedFrom, pa, pb, d + 1⟩ :: ⟨.ruleAction34, pb, pb, d + 2⟩ ::
    ⟨.rulePegText, pa, pb, d + 2⟩ ::
    (i1 ++ (n8 ++ (n7 ++ (n6 ++ (n5 ++ (n4 ++ (n3 ++ (n2 ++ n1))))))))))), ?_, ?_⟩
  · simp
  · simp [List.filter_append, List.filter_cons, selectAction, filter_inner f1, filter_inner f2,
      filter_inner f3, filter_inner f4, filter_inner f5, filter_inner f6, filter_inner f7,
      filter_inner f8, filter_inner j1, filter_inner j2, filter_inner j3, filter_inner j4]

theorem filter_of_map_some {α : Type} {o : Option α} {f : α → List Call} {cs : List Call}
    (h : o.map f = some cs) (hf : ∀ a, (f a).filter selectAssembly = []) :
    cs.filter selectAssembly = [] := by
  cases o with
  | none => simp at h
  | some a =>
    simp only [Option.map_some', Option.some.injEq] at h
    rw [← h]; exact hf a

set_option maxHeartbeats 4000000 in
theorem executeAction_other (X : List Nat) (b e : Nat) (q : pegRule) (cs : List Call) :
    selectAction q = false → executeAction X b e q = some cs →
      cs.filter selectAssembly = [] := by
  cases q <;> intro hs he <;>
    first
    | (cases he; rfl)
    | exact filter_of_map_some he (fun _ => rfl)
    | exact absurd hs (by decide)


theorem executeAction_select (X : List Nat) (b e : Nat) (q : pegRule) (cs : List Call) :
    selectAction q = true → executeAction X b e q = some cs →
      ∃ c, cs = [c] ∧ selectAssembly c = true := by
  cases q <;> intro hs he <;>
    first
    | exact absurd hs (by decide)
    | (cases he; exact ⟨_, rfl, rfl⟩)

/-- The calls of the clause slots that `Execute` issues on a list of tokens are those of the
action tokens of the clause slots in the list, in the same order. -/
theorem executeLoop_selectAssembly (X _buffer : List Nat) :
    ∀ (toks : List token32) (b e : Nat) (cs : List Call),
      executeLoop X _buffer toks b e = some cs →
      List.Forall₂ (fun c q => ∃ b e, executeAction X b e q = some [c])
        (cs.filter selectAssembly) ((toks.map (fun tok => tok.rule)).filter selectAction) := by
  intro toks
  induction toks with
  | nil =>
    intro b e cs h
    simp only [executeLoop, Option.some.injEq] at h
    subst h
    exact List.Forall₂.nil
  | cons tok rest ih =>
    intro b e cs h
    by_cases hp : tok.rule = .rulePegText
    · simp only [executeLoop, hp] at h
      cases hsl : slice _buffer tok.begin_ tok.end_ with
      | none => rw [hsl] at h; simp at h
      | some x =>
        rw [hsl] at h
        simp only [] at h
        have := ih _ _ _ h
        simpa [List.filter_cons, hp, selectAction] using this
    · have h2 : ∃ cs1 ds, executeAction X b e tok.rule = some cs1 ∧
          executeLoop X _buffer rest b e = some ds ∧ cs = cs1 ++ ds := by
        unfold executeLoop at h
        split at h
        · rename_i heq; exact absurd heq hp
        · cases h1 : executeAction X b e tok.rule with
          | none => rw [h1] at h; simp at h
          | some cs1 =>
            rw [h1] at h
            simp only [] at h
            cases h3 : executeLoop X _buffer rest b e with
            | none => rw [h3] at h; simp at h
            | some ds =>
              rw [h3] at h
              simp only [Option.some.injEq] at h
              exact ⟨cs1, ds, rfl, rfl, h.symm⟩
      obtain ⟨cs1, ds, h1, h3, rfl⟩ := h2
      have hr := ih _ _ _ h3
      cases hs : selectAction tok.rule with
      | false =>
        have := executeAction_other X b e tok.rule cs1 hs h1
        simp only [List.filter_append, this, List.nil_append, List.map_cons, List.filter_cons, hs]
        exact hr
      | true =>
        obtain ⟨c, rfl, hc⟩ := executeAction_select X b e tok.rule cs1 hs h1
        simp only [List.filter_append, List.map_cons, List.filter_cons, hs, hc, if_true,
          List.filter_nil, List.cons_append, List.nil_append]
        exact List.Forall₂.cons ⟨b, e, h1⟩ hr


theorem Eval_optClause_slot {R A : pegRule} {g : Peg}
    (hR : grammar R = .expr (.seq (.text (.opt g)) (.call A))) (hA : grammar A = .action)
    (hs : starOK g = true) (hc : callsOK g = true) (hin : callsIn clauseRule g = true)
    (hne : mayEmpty g = false) (d p : Nat) (r : List Nat) (t : List token32) (hg : Good r) :
    ∃ p1 r1 inner,
      Eval (.call R) d p r t (.ok p1 r1
        (⟨R, p, p1, d⟩ :: ⟨A, p1, p1, d + 1⟩ :: ⟨.rulePegText, p, p1, d + 1⟩ :: (inner ++ t))) ∧
      (∀ tok ∈ inner, selectAction tok.rule = false) ∧
      (p1 = p ↔ Eval g (d + 2) p r t .fail) := by
  rcases Eval_optClause hR hA hs hc hin hne d p r t hg with
    ⟨hf, h1⟩ | ⟨p1, r1, inner, hlt, _, hi, hok, h1⟩
  · exact ⟨p, r, [], h1, by simp, ⟨fun _ => hf, fun _ => rfl⟩⟩
  · refine ⟨p1, r1, inner, h1, hi, ⟨fun h => by omega, fun h => ?_⟩⟩
    have := hok.det h
    simp at this

theorem selectAssembly_order (X : List Nat) (l : List Call)
    (h : List.Forall₂ (fun c q => ∃ b e, executeAction X b e q = some [c]) l
      [.ruleAction34, .ruleAction37, .ruleAction38, .ruleAction39, .ruleAction2]) :
    ∃ b1 e1 b2 e2 b3 e3 b4 e4, l =
      [.span .AssembleWindowedFrom b1 e1, .span .AssembleFilter b2 e2,
        .span .AssembleGrouping b3 e3, .span .AssembleHaving b4 e4, .simple .AssembleSelect] := by
  cases h with
  | cons h1 h =>
  cases h with
  | cons h2 h =>
  cases h with
  | cons h3 h =>
  cases h with
  | cons h4 h =>
  cases h with
  | cons h5 h =>
  cases h
  obtain ⟨b1, e1, h1⟩ := h1
  obtain ⟨b2, e2, h2⟩ := h2
  obtain ⟨b3, e3, h3⟩ := h3
  obtain ⟨b4, e4, h4⟩ := h4
  obtain ⟨b5, e5, h5⟩ := h5
  cases h1
  cases h2
  cases h3
  cases h4
  cases h5
  exact ⟨b1, e1, b2, e2, b3, e3, b4, e4, rfl⟩

/-! ## Keyword case: the parser does not tell the cases of a keyword letter apart -/

set_option maxRecDepth 10000 in
theorem ruleCaseOK_all (q : pegRule) : ruleCaseOK q = true := by
  cases q <;> rfl

theorem caseEq_cases {x y : Nat} (h : caseEq x y = true) :
    x = y ∨ (∃ i, i < 26 ∧ x = 65 + i ∧ y = 97 + i) ∨ (∃ i, i < 26 ∧ x = 97 + i ∧ y = 65 + i) := by
  simp only [caseEq, toLowerN, isUpperN, beq_iff_eq, Bool.and_eq_true, decide_eq_true_eq] at h
  split at h <;> split at h
  · left; omega
  · rename_i h1 h2
    right; left
    exact ⟨x - 65, by omega, by omega, by omega⟩
  · rename_i h1 h2
    right; right
    exact ⟨y - 65, by omega, by omega, by omega⟩
  · left; exact h

theorem caseEq_refl (x : Nat) : caseEq x x = true := by simp [caseEq]

theorem caseEq_end {x y : Nat} (h : caseEq x y = true) : x = end_symbol ↔ y = end_symbol := by
  rcases caseEq_cases h with rfl | ⟨i, hi, rfl, rfl⟩ | ⟨i, hi, rfl, rfl⟩
  · rfl
  · simp only [end_symbol]; omega
  · simp only [end_symbol]; omega

theorem classOf_caseEq {e : Peg} (hc : caseClosed e = true) {x y : Nat}
    (h : caseEq x y = true) : classOf e x = classOf e y := by
  simp only [caseClosed, List.all_eq_true, List.mem_range, beq_iff_eq] at hc
  rcases caseEq_cases h with rfl | ⟨i, hi, rfl, rfl⟩ | ⟨i, hi, rfl, rfl⟩
  · rfl
  · exact hc i hi
  · exact (hc i hi).symm

/-- A character class consumes one rune of the class and fails on every other rune. -/
theorem Eval_term : ∀ (e : Peg), isTerm e = true → ∀ (d p x : Nat) (xs : List Nat)
    (t : List token32),
    Eval e d p (x :: xs) t (if classOf e x = true then .ok (p + 1) xs t else .fail) := by
  intro e
  induction e with
  | chr c =>
    intro _ d p x xs t
    have h := Eval.chr c d p (x :: xs) t
    simp only [classOf]
    by_cases hx : x = c.toNat
    · simpa [hx] using h
    · simpa [hx] using h
  | rng lo hi =>
    intro _ d p x xs t
    have h := Eval.rng lo hi d p (x :: xs) t
    simp only [classOf, Bool.and_eq_true, decide_eq_true_eq]
    by_cases hx : lo.toNat ≤ x ∧ x ≤ hi.toNat
    · simp only [hx, and_self, if_true]
      have : (decide (x < lo.toNat) || decide (x > hi.toNat)) = false := by
        simp; omega
      simpa [this] using h
    · simp only [hx, if_false]
      have : (decide (x < lo.toNat) || decide (x > hi.toNat)) = true := by
        simp; omega
      simpa [this] using h
  | alt a b iha ihb =>
    intro ht d p x xs t
    simp only [isTerm, Bool.and_eq_true] at ht
    have ha := iha ht.1 d p x xs t
    have hb := ihb ht.2 d p x xs t
    simp only [classOf, Bool.or_eq_true]
    by_cases h1 : classOf a x = true
    · simp only [h1, if_true, true_or] at ha ⊢
      exact Eval.alt_ok ha
    · simp only [h1, if_false] at ha
      simp only [h1, Bool.false_eq_true, false_or]
      exact Eval.alt_fail ha hb
  | dot => intro h; simp [isTerm] at h
  | call q => intro h; simp [isTerm] at h
  | seq a b => intro h; simp [isTerm] at h
  | opt a => intro h; simp [isTerm] at h
  | star a => intro h; simp [isTerm] at h
  | nt a => intro h; simp [isTerm] at h
  | text a => intro h; simp [isTerm] at h

theorem Good.cons_ne_nil {x : Nat} {xs : List Nat} (h : Good (x :: xs)) (hx : x ≠ end_symbol) :
    xs ≠ [] := by
  intro hc
  subst hc
  simp [Good] at h
  exact hx h

theorem Good.tail {x : Nat} {xs : List Nat} (h : Good (x :: xs)) (hx : x ≠ end_symbol) :
    Good xs := by
  have := h.cons_ne_nil hx
  cases xs with
  | nil => exact absurd rfl this
  | cons y ys => simpa [Good] using h

theorem startsTs_iff (r : List Nat) :
    startsTs r = true ↔ ∃ rest, r = 116 :: 115 :: 40 :: 41 :: rest := by
  constructor
  · intro h
    match r, h with
    | a :: b :: c :: d :: rest, h =>
      simp only [startsTs, Bool.and_eq_true, beq_iff_eq] at h
      obtain ⟨⟨⟨rfl, rfl⟩, rfl⟩, rfl⟩ := h
      exact ⟨rest, rfl⟩
  · rintro ⟨rest, rfl⟩
    rfl

theorem isTsLit_eq {e : Peg} (h : isTsLit e = true) :
    e = .seq (.chr 't') (.seq (.chr 's') (.seq (.chr '(') (.chr ')'))) := by
  match e, h with
  | .seq (.chr a) (.seq (.chr b) (.seq (.chr c) (.chr d))), h =>
    simp only [isTsLit, Bool.and_eq_true, beq_iff_eq] at h
    obtain ⟨⟨⟨rfl, rfl⟩, rfl⟩, rfl⟩ := h
    rfl

/-- The literal `ts()` on a buffer that ends with the sentinel. -/
theorem Eval_tsLit (d p : Nat) (r : List Nat) (t : List token32) (hg : Good r) :
    Eval (.seq (.chr 't') (.seq (.chr 's') (.seq (.chr '(') (.chr ')')))) d p r t
      (if startsTs r = true then .ok (p + 4) (r.drop 4) t else .fail) := by
  by_cases hs : startsTs r = true
  · obtain ⟨rest, rfl⟩ := (startsTs_iff r).mp hs
    simp only [hs, if_true, Eval_seq, Eval_chr]
    simp
  · have hs2 : ∀ rest, r ≠ 116 :: 115 :: 40 :: 41 :: rest :=
      fun rest hr => hs ((startsTs_iff r).mpr ⟨rest, hr⟩)
    simp only [hs, if_false]
    cases r with
    | nil => exact absurd rfl hg.ne_nil
    | cons x1 r1 =>
      by_cases h1 : x1 = 116
      · subst h1
        have g1 := hg.tail (by simp [end_symbol])
        cases r1 with
        | nil => exact absurd rfl g1.ne_nil
        | cons x2 r2 =>
          by_cases h2 : x2 = 115
          · subst h2
            have g2 := g1.tail (by simp [end_symbol])
            cases r2 with
            | nil => exact absurd rfl g2.ne_nil
            | cons x3 r3 =>
              by_cases h3 : x3 = 40
              · subst h3
                have g3 := g2.tail (by simp [end_symbol])
                cases r3 with
                | nil => exact absurd rfl g3.ne_nil
                | cons x4 r4 =>
                  have h4 : x4 ≠ 41 := fun h => hs2 r4 (by rw [h])
                  simp only [Eval_seq, Eval_chr]
                  simp [h4]
              · simp only [Eval_seq, Eval_chr]
                simp [h3]
          · simp only [Eval_seq, Eval_chr]
            simp [h2]
      · simp only [Eval_seq, Eval_chr]
        simp [h1]

theorem simL_cons {x : Nat} {xs r' : List Nat} (h : simL (x :: xs) r' = true) :
    ∃ y ys, r' = y :: ys ∧ caseEq x y = true ∧ startsTs (x :: xs) = startsTs (y :: ys) ∧
      simL xs ys = true := by
  cases r' with
  | nil => simp [simL] at h
  | cons y ys =>
    simp only [simL, Bool.and_eq_true, beq_iff_eq] at h
    exact ⟨y, ys, rfl, h.1.1, h.1.2, h.2⟩

theorem simL_nil {r' : List Nat} (h : simL [] r' = true) : r' = [] := by
  cases r' with
  | nil => rfl
  | cons y ys => simp [simL] at h

theorem simL_startsTs {r r' : List Nat} (h : simL r r' = true) : startsTs r = startsTs r' := by
  cases r with
  | nil => rw [simL_nil h]
  | cons x xs =>
    obtain ⟨y, ys, rfl, _, hs, _⟩ := simL_cons h
    exact hs

theorem simL_drop : ∀ (k : Nat) {r r' : List Nat}, simL r r' = true →
    simL (r.drop k) (r'.drop k) = true := by
  intro k
  induction k with
  | zero => intro r r' h; simpa using h
  | succ n ih =>
    intro r r' h
    cases r with
    | nil => rw [simL_nil h]; rfl
    | cons x xs =>
      obtain ⟨y, ys, rfl, _, _, hs⟩ := simL_cons h
      simpa using ih hs

theorem simL_good : ∀ {r r' : List Nat}, simL r r' = true → Good r → Good r' := by
  intro r
  induction r with
  | nil => intro r' _ hg; exact absurd rfl hg.ne_nil
  | cons x xs ih =>
    intro r' h hg
    obtain ⟨y, ys, rfl, hxy, _, hs⟩ := simL_cons h
    cases xs with
    | nil =>
      rw [simL_nil hs]
      have hx : x = end_symbol := by simpa [Good] using hg
      have := (caseEq_end hxy).mp hx
      simp [Good, this]
    | cons x2 xs2 =>
      obtain ⟨y2, ys2, rfl, _, _, _⟩ := simL_cons hs
      have hg2 : Good (x2 :: xs2) := by simpa [Good] using hg
      have := ih hs hg2
      simpa [Good] using this

theorem ResF.sim_fail : ResF.sim .fail .fail := True.intro

theorem ResF.sim_ok {p : Nat} {r r' : List Nat} {t : List token32} (h : simL r r' = true) :
    ResF.sim (.ok p r t) (.ok p r' t) := ⟨rfl, rfl, h⟩

/-- A character class that does not tell the cases of a letter apart does the same on two
texts that agree up to case. -/
theorem sim_term {e : Peg} (ht : isTerm e = true) (hc : caseClosed e = true) (f d p : Nat)
    {r r' : List Nat} (t : List token32) (hg : Good r) (hs : simL r r' = true)
    (hne : execF f e d p r t ≠ .oof) :
    ∃ res', Eval e d p r' t res' ∧ (execF f e d p r t).sim res' := by
  cases r with
  | nil => exact absurd rfl hg.ne_nil
  | cons x xs =>
    obtain ⟨y, ys, rfl, hxy, _, hs2⟩ := simL_cons hs
    have h1 := (Eval_term e ht d p x xs t).at_fuel hne
    refine ⟨_, Eval_term e ht d p y ys t, ?_⟩
    rw [h1, classOf_caseEq hc hxy]
    split
    · exact ResF.sim_ok hs2
    · exact ResF.sim_fail

/-- Two texts that agree up to the case of letters, with `ts()` at the same places, are parsed
alike: the rule functions return the same, stop at the same position and record the same
tokens. -/
theorem execF_sim (f : Nat) : ∀ (e : Peg) (d p : Nat) (r r' : List Nat) (t : List token32),
    caseOK e = true → Good r → simL r r' = true → execF f e d p r t ≠ .oof →
    ∃ res', Eval e d p r' t res' ∧ (execF f e d p r t).sim res' := by
  induction f with
  | zero => intro e d p r r' t _ _ _ h; exact absurd rfl h
  | succ n ih =>
    intro e d p r r' t hc hg hs hne
    cases e with
    | chr c => exact sim_term (e := .chr c) rfl hc _ d p t hg hs hne
    | rng lo hi => exact sim_term (e := .rng lo hi) rfl hc _ d p t hg hs hne
    | dot =>
      cases r with
      | nil => exact absurd rfl hg.ne_nil
      | cons x xs =>
        obtain ⟨y, ys, rfl, hxy, _, hs2⟩ := simL_cons hs
        refine ⟨_, Eval.dot d p (y :: ys) t, ?_⟩
        rw [execF_dot]
        have := caseEq_end hxy
        by_cases hx : x = end_symbol
        · have hy := this.mp hx
          simp [hx, hy, ResF.sim]
        · have hy : y ≠ end_symbol := fun h => hx (this.mpr h)
          simp [hx, hy, ResF.sim, hs2]
    | call q =>
      rw [execF_call] at hne ⊢
      cases hq : grammar q with
      | nil =>
        refine ⟨.panic, ⟨1, by rw [execF_call, hq], by simp⟩, ?_⟩
        simp [ResF.sim]
      | action =>
        refine ⟨_, Eval.call_action hq d p r' t, ?_⟩
        exact ResF.sim_ok hs
      | expr body =>
        simp only [hq] at hne ⊢
        have hb : caseOK body = true := by
          have := ruleCaseOK_all q
          simp only [ruleCaseOK, hq] at this
          exact this
        have hne2 : execF n body (d + 1) p r t ≠ .oof := by
          intro h; rw [h] at hne; exact hne rfl
        obtain ⟨res', he, hsim⟩ := ih body (d + 1) p r r' t hb hg hs hne2
        cases hx : execF n body (d + 1) p r t with
        | oof => exact absurd hx hne2
        | panic =>
          rw [hx] at hsim
          cases res' <;> simp only [ResF.sim] at hsim
          exact ⟨.panic, (Eval_call_expr hq).mpr ⟨_, he, rfl⟩, True.intro⟩
        | fail =>
          rw [hx] at hsim
          cases res' <;> simp only [ResF.sim] at hsim
          exact ⟨.fail, Eval.call_fail hq he, True.intro⟩
        | ok p1 r1 t1 =>
          rw [hx] at hsim
          cases res' <;> simp only [ResF.sim] at hsim
          obtain ⟨rfl, rfl, hs1⟩ := hsim
          exact ⟨_, Eval.call_ok hq he, ResF.sim_ok hs1⟩
    | seq a b =>
      by_cases hts : isTsLit (.seq a b) = true
      · have heq := isTsLit_eq hts
        rw [heq] at hne ⊢
        have h1 := (Eval_tsLit d p r t hg).at_fuel hne
        refine ⟨_, Eval_tsLit d p r' t (simL_good hs hg), ?_⟩
        rw [h1, simL_startsTs hs]
        split
        · exact ResF.sim_ok (simL_drop 4 hs)
        · exact ResF.sim_fail
      · simp only [caseOK, hts, Bool.false_or, Bool.and_eq_true] at hc
        rw [execF_seq] at hne ⊢
        have hne2 : execF n a d p r t ≠ .oof := by
          intro h; rw [h] at hne; exact hne rfl
        obtain ⟨res', he, hsim⟩ := ih a d p r r' t hc.1 hg hs hne2
        cases hx : execF n a d p r t with
        | oof => exact absurd hx hne2
        | panic =>
          rw [hx] at hsim
          cases res' <;> simp only [ResF.sim] at hsim
          exact ⟨.panic, Eval_seq.mpr ⟨_, he, rfl⟩, True.intro⟩
        | fail =>
          rw [hx] at hsim
          cases res' <;> simp only [ResF.sim] at hsim
          exact ⟨.fail, Eval.seq_fail he, True.intro⟩
        | ok p1 r1 t1 =>
          rw [hx] at hsim hne
          cases res' <;> simp only [ResF.sim] at hsim
          obtain ⟨rfl, rfl, hs1⟩ := hsim
          simp only [] at hne ⊢
          have hg1 := (execF_consumed n a d p r t _ _ _ hx).good hg
          obtain ⟨res2, he2, hsim2⟩ := ih b d p1 r1 _ t1 hc.2 hg1 hs1 hne
          exact ⟨res2, Eval.seq_ok he he2, hsim2⟩
    | alt a b =>
      by_cases hterm : (isTerm (.alt a b) && caseClosed (.alt a b)) = true
      · simp only [Bool.and_eq_true] at hterm
        exact sim_term hterm.1 hterm.2 _ d p t hg hs hne
      · simp only [caseOK, hterm, Bool.false_or, Bool.and_eq_true] at hc
        rw [execF_alt] at hne ⊢
        have hne2 : execF n a d p r t ≠ .oof := by
          intro h; rw [h] at hne; exact hne rfl
        obtain ⟨res', he, hsim⟩ := ih a d p r r' t hc.1 hg hs hne2
        cases hx : execF n a d p r t with
        | oof => exact absurd hx hne2
        | panic =>
          rw [hx] at hsim
          cases res' <;> simp only [ResF.sim] at hsim
          exact ⟨.panic, Eval_alt.mpr ⟨_, he, rfl⟩, True.intro⟩
        | fail =>
          rw [hx] at hsim hne
          cases res' <;> simp only [ResF.sim] at hsim
          simp only [] at hne ⊢
          obtain ⟨res2, he2, hsim2⟩ := ih b d p r r' t hc.2 hg hs hne
          exact ⟨res2, Eval.alt_fail he he2, hsim2⟩
        | ok p1 r1 t1 =>
          rw [hx] at hsim
          cases res' <;> simp only [ResF.sim] at hsim
          obtain ⟨rfl, rfl, hs1⟩ := hsim
          exact ⟨_, Eval.alt_ok he, ResF.sim_ok hs1⟩
    | opt a =>
      simp only [caseOK] at hc
      rw [execF_opt] at hne ⊢
      have hne2 : execF n a d p r t ≠ .oof := by
        intro h; rw [h] at hne; exact hne rfl
      obtain ⟨res', he, hsim⟩ := ih a d p r r' t hc hg hs hne2
      cases hx : execF n a d p r t with
      | oof => exact absurd hx hne2
      | panic =>
        rw [hx] at hsim
        cases res' <;> simp only [ResF.sim] at hsim
        exact ⟨.panic, Eval_opt.mpr ⟨_, he, rfl⟩, True.intro⟩
      | fail =>
        rw [hx] at hsim
        cases res' <;> simp only [ResF.sim] at hsim
        exact ⟨_, Eval.opt_fail he, ResF.sim_ok hs⟩
      | ok p1 r1 t1 =>
        rw [hx] at hsim
        cases res' <;> simp only [ResF.sim] at hsim
        obtain ⟨rfl, rfl, hs1⟩ := hsim
        exact ⟨_, Eval.opt_ok he, ResF.sim_ok hs1⟩
    | star a =>
      have hc2 := hc
      simp only [caseOK] at hc
      rw [execF_star] at hne ⊢
      have hne2 : execF n a d p r t ≠ .oof := by
        intro h; rw [h] at hne; exact hne rfl
      obtain ⟨res', he, hsim⟩ := ih a d p r r' t hc hg hs hne2
      cases hx : execF n a d p r t with
      | oof => exact absurd hx hne2
      | panic =>
        rw [hx] at hsim
        cases res' <;> simp only [ResF.sim] at hsim
        exact ⟨.panic, Eval_star.mpr ⟨_, he, rfl⟩, True.intro⟩
      | fail =>
        rw [hx] at hsim
        cases res' <;> simp only [ResF.sim] at hsim
        exact ⟨_, Eval.star_fail he, ResF.sim_ok hs⟩
      | ok p1 r1 t1 =>
        rw [hx] at hsim hne
        cases res' <;> simp only [ResF.sim] at hsim
        obtain ⟨rfl, rfl, hs1⟩ := hsim
        simp only [] at hne ⊢
        have hg1 := (execF_consumed n a d p r t _ _ _ hx).good hg
        obtain ⟨res2, he2, hsim2⟩ := ih (.star a) d p1 r1 _ t1 hc2 hg1 hs1 hne
        exact ⟨res2, Eval.star_ok he he2, hsim2⟩
    | nt a =>
      simp only [caseOK] at hc
      rw [execF_nt] at hne ⊢
      have hne2 : execF n a d p r t ≠ .oof := by
        intro h; rw [h] at hne; exact hne rfl
      obtain ⟨res', he, hsim⟩ := ih a d p r r' t hc hg hs hne2
      cases hx : execF n a d p r t with
      | oof => exact absurd hx hne2
      | panic =>
        rw [hx] at hsim
        cases res' <;> simp only [ResF.sim] at hsim
        exact ⟨.panic, Eval_nt.mpr ⟨_, he, rfl⟩, True.intro⟩
      | fail =>
        rw [hx] at hsim
        cases res' <;> simp only [ResF.sim] at hsim
        exact ⟨_, Eval.nt_fail he, ResF.sim_ok hs⟩
      | ok p1 r1 t1 =>
        rw [hx] at hsim
        cases res' <;> simp only [ResF.sim] at hsim
        exact ⟨_, Eval.nt_ok he, ResF.sim_fail⟩
    | text a =>
      simp only [caseOK] at hc
      rw [execF_text] at hne ⊢
      have hne2 : execF n a (d + 1) p r t ≠ .oof := by
        intro h; rw [h] at hne; exact hne rfl
      obtain ⟨res', he, hsim⟩ := ih a (d + 1) p r r' t hc hg hs hne2
      cases hx : execF n a (d + 1) p r t with
      | oof => exact absurd hx hne2
      | panic =>
        rw [hx] at hsim
        cases res' <;> simp only [ResF.sim] at hsim
        exact ⟨.panic, Eval_text.mpr ⟨_, he, rfl⟩, True.intro⟩
      | fail =>
        rw [hx] at hsim
        cases res' <;> simp only [ResF.sim] at hsim
        exact ⟨.fail, Eval.text_fail he, True.intro⟩
      | ok p1 r1 t1 =>
        rw [hx] at hsim
        cases res' <;> simp only [ResF.sim] at hsim
        obtain ⟨rfl, rfl, hs1⟩ := hsim
        exact ⟨_, Eval.text_ok he, ResF.sim_ok hs1⟩

theorem execK_erase (f : Nat) : ∀ (kw : Bool) (e : Peg) (d p : Nat) (r : List Nat)
    (t : List token32) (g : List Bool),
    (execK f kw e d p r t g).erase = execF f e d p r t := by
  induction f with
  | zero => intro kw e d p r t g; rfl
  | succ n ih =>
    intro kw e d p r t g
    cases e with
    | chr c =>
      cases r with
      | nil => rfl
      | cons x xs =>
        simp only [execK, execF_chr]
        split <;> rfl
    | rng lo hi =>
      cases r with
      | nil => rfl
      | cons x xs =>
        simp only [execK, execF_rng]
        split <;> rfl
    | dot =>
      cases r with
      | nil => rfl
      | cons x xs =>
        simp only [execK, execF_dot]
        split <;> rfl
    | call q =>
      rw [execF_call]
      simp only [execK]
      cases hq : grammar q with
      | nil => rfl
      | action => rfl
      | expr body =>
        simp only []
        rw [← ih false body (d + 1) p r t g]
        cases execK n false body (d + 1) p r t g <;> rfl
    | seq a b =>
      rw [execF_seq]
      simp only [execK]
      rw [← ih false a d p r t g]
      cases execK n false a d p r t g with
      | ok p1 r1 t1 g1 => exact ih false b d p1 r1 t1 g1
      | _ => rfl
    | alt a b =>
      rw [execF_alt]
      simp only [execK]
      rw [← ih (kwPair a b) a d p r t g]
      cases execK n (kwPair a b) a d p r t g with
      | fail => exact ih (kwPair a b) b d p r t g
      | _ => rfl
    | opt a =>
      rw [execF_opt]
      simp only [execK]
      rw [← ih false a d p r t g]
      cases execK n false a d p r t g <;> rfl
    | star a =>
      rw [execF_star]
      simp only [execK]
      rw [← ih false a d p r t g]
      cases execK n false a d p r t g with
      | ok p1 r1 t1 g1 => exact ih false (.star a) d p1 r1 t1 g1
      | _ => rfl
    | nt a =>
      rw [execF_nt]
      simp only [execK]
      rw [← ih false a d p r t g]
      cases execK n false a d p r t g <;> rfl
    | text a =>
      rw [execF_text]
      simp only [execK]
      rw [← ih false a (d + 1) p r t g]
      cases execK n false a (d + 1) p r t g <;> rfl

set_option maxRecDepth 100000 in
theorem ruleTsOK_all (q : pegRule) : ruleTsOK q = true := by
  cases q <;> rfl

theorem tsSumm_SingleStatement : tsSumm .ruleSingleStatement 0 = 15 := by rfl

theorem testBit_63 {x : Nat} (h : x < 6) : (63 : Nat).testBit x = true := by
  have : x = 0 ∨ x = 1 ∨ x = 2 ∨ x = 3 ∨ x = 4 ∨ x = 5 := by omega
  rcases this with rfl | rfl | rfl | rfl | rfl | rfl <;> rfl

theorem testBit_one_shiftLeft (s : Nat) : (1 <<< s).testBit s = true := by
  rw [Nat.one_shiftLeft]; exact Nat.testBit_two_pow_self

theorem testBit_of_or_eq {A B : Nat} (h : (A ||| B) = A) {x : Nat} (hb : B.testBit x = true) :
    A.testBit x = true := by
  rw [← h, Nat.testBit_or, hb]; simp

theorem tsStep_lt (s x : Nat) (kw : Bool) : tsStep s x kw < 6 := by
  unfold tsStep
  split_ifs <;> omega

theorem tsRun_lt : ∀ (w : List Nat) (ks : List Bool) (s : Nat), s < 6 → tsRun s w ks < 6 := by
  intro w
  induction w with
  | nil => intro ks s h; cases ks <;> exact h
  | cons x xs ih =>
    intro ks s h
    cases ks with
    | nil => exact h
    | cons k ks => exact ih ks _ (tsStep_lt s x k)

theorem tsRun_append : ∀ (w1 : List Nat) (k1 : List Bool) (w2 : List Nat) (k2 : List Bool)
    (s : Nat), w1.length = k1.length →
    tsRun s (w1 ++ w2) (k1 ++ k2) = tsRun (tsRun s w1 k1) w2 k2 := by
  intro w1
  induction w1 with
  | nil =>
    intro k1 w2 k2 s h
    cases k1 with
    | nil => rfl
    | cons k ks => simp at h
  | cons x xs ih =>
    intro k1 w2 k2 s h
    cases k1 with
    | nil => simp at h
    | cons k ks =>
      simp only [List.length_cons, Nat.add_right_cancel_iff] at h
      exact ih ks w2 k2 _ h

theorem stImage_mem (f : Nat → Nat) {S s : Nat} (hs : s < 6) (h : S.testBit s = true) :
    (stImage f S).testBit (f s) = true := by
  have : s = 0 ∨ s = 1 ∨ s = 2 ∨ s = 3 ∨ s = 4 ∨ s = 5 := by omega
  unfold stImage
  rcases this with rfl | rfl | rfl | rfl | rfl | rfl <;>
    simp [Nat.testBit_or, h, testBit_one_shiftLeft]

theorem stBind_mem (g : Nat → Nat) {S s x : Nat} (hs : s < 6) (h : S.testBit s = true)
    (hx : (g s).testBit x = true) : (stBind g S).testBit x = true := by
  have : s = 0 ∨ s = 1 ∨ s = 2 ∨ s = 3 ∨ s = 4 ∨ s = 5 := by omega
  unfold stBind
  rcases this with rfl | rfl | rfl | rfl | rfl | rfl <;>
    simp [Nat.testBit_or, h, hx]

theorem toLowerN_ne {x : Nat} (h : toLowerN x = 116 ∨ toLowerN x = 115) : x ≠ 41 ∧ x ≠ 40 := by
  simp only [toLowerN, isUpperN, Bool.and_eq_true, decide_eq_true_eq] at h
  split at h <;> omega

theorem tsStep_rep (s x : Nat) (kw : Bool) :
    tsStep s x kw = tsStep s 116 kw ∨ tsStep s x kw = tsStep s 115 kw ∨
    tsStep s x kw = tsStep s 40 kw ∨ tsStep s x kw = tsStep s 41 kw ∨
    tsStep s x kw = tsStep s 0 kw := by
  have e116 : toLowerN 116 = 116 := rfl
  have e115 : toLowerN 115 = 115 := rfl
  have e0 : toLowerN 0 = 0 := rfl
  by_cases h1 : toLowerN x = 116
  · left
    have hx := toLowerN_ne (Or.inl h1)
    simp only [tsStep, h1, hx.1, hx.2, e116, and_false]
    simp
  · by_cases h2 : toLowerN x = 115
    · right; left
      have hx := toLowerN_ne (Or.inr h2)
      simp only [tsStep, h2, hx.1, hx.2, e115, and_false]
      simp
    · by_cases h3 : x = 40
      · right; right; left; rw [h3]
      · by_cases h4 : x = 41
        · right; right; right; left; rw [h4]
        · right; right; right; right
          simp only [tsStep, h1, h2, h3, h4, e0, and_false, false_and]
          simp

theorem stAny_mem (kw : Bool) {S s : Nat} (hs : s < 6) (h : S.testBit s = true) (x : Nat) :
    (stAny kw S).testBit (tsStep s x kw) = true := by
  unfold stAny
  simp only [Nat.testBit_or, Bool.or_eq_true]
  rcases tsStep_rep s x kw with e | e | e | e | e <;> rw [e]
  · exact Or.inl (Or.inl (Or.inl (Or.inl (stImage_mem _ hs h))))
  · exact Or.inl (Or.inl (Or.inl (Or.inr (stImage_mem _ hs h))))
  · exact Or.inl (Or.inl (Or.inr (stImage_mem _ hs h)))
  · exact Or.inl (Or.inr (stImage_mem _ hs h))
  · exact Or.inr (stImage_mem _ hs h)

theorem stRound_mem (h : Nat → Nat) {X s : Nat} (hm : X.testBit s = true) :
    (stRound h X).testBit s = true := by
  simp [stRound, Nat.testBit_or, hm]

theorem stStar_mem (h : Nat → Nat) {S s : Nat} (hs : s < 6) (hm : S.testBit s = true) :
    (stStar h S).testBit s = true := by
  unfold stStar
  split
  · exact stRound_mem h (stRound_mem h (stRound_mem h (stRound_mem h (stRound_mem h
      (stRound_mem h hm)))))
  · exact testBit_63 hs

theorem stStar_step (h : Nat → Nat) (S : Nat) {x : Nat} (hx : x < 6)
    (hm : (h (stStar h S)).testBit x = true) : (stStar h S).testBit x = true := by
  unfold stStar at hm ⊢
  split
  · rename_i hc
    rw [if_pos hc] at hm
    exact testBit_of_or_eq (by simpa using hc) hm
  · exact testBit_63 hx

theorem stStar_idem (h : Nat → Nat) (S : Nat) {x : Nat} (hx : x < 6)
    (hm : (stStar h (stStar h S)).testBit x = true) : (stStar h S).testBit x = true := by
  by_cases hc : (stSix h S ||| h (stSix h S)) = stSix h S
  · have e : stStar h S = stSix h S := by
      unfold stStar
      rw [if_pos (by simpa using hc)]
    have hR : stRound h (stSix h S) = stSix h S := hc
    have h6 : stSix h (stSix h S) = stSix h S := by
      have e6 : ∀ X, stSix h X =
          stRound h (stRound h (stRound h (stRound h (stRound h (stRound h X))))) :=
        fun X => rfl
      rw [e6 (stSix h S), hR, hR, hR, hR, hR, hR]
    have e2 : stStar h (stSix h S) = stSix h S := by
      unfold stStar
      rw [h6, if_pos (by simpa using hc)]
    rw [e, e2] at hm
    rw [e]
    exact hm
  · have e : stStar h S = 63 := by
      unfold stStar
      rw [if_neg (by simpa using hc)]
    rw [e]
    exact testBit_63 hx

theorem tsSumm_covers {q : pegRule} {body : Peg} (hq : grammar q = .expr body) {s x : Nat}
    (hs : s < 6) (hx : (absRun false body (1 <<< s)).testBit x = true) :
    (tsSumm q s).testBit x = true := by
  have h := ruleTsOK_all q
  simp only [ruleTsOK, hq, List.all_eq_true, List.mem_range, beq_iff_eq] at h
  exact testBit_of_or_eq (h s hs) hx

/-- The automaton, run over the runes that a successful run consumed and their tags, ends in
a state that the abstract run allows. -/
theorem execK_abs (f : Nat) : ∀ (kw : Bool) (e : Peg) (d p : Nat) (r : List Nat)
    (t : List token32) (g : List Bool) (p1 : Nat) (r1 : List Nat) (t1 : List token32)
    (g1 : List Bool), execK f kw e d p r t g = .ok p1 r1 t1 g1 →
    ∃ w new, r = w ++ r1 ∧ g1 = new ++ g ∧ new.length = w.length ∧
      ∀ S s, s < 6 → S.testBit s = true →
        (absRun kw e S).testBit (tsRun s w new.reverse) = true := by
  induction f with
  | zero => intro kw e d p r t g p1 r1 t1 g1 h; simp [execK] at h
  | succ n ih =>
    intro kw e d p r t g p1 r1 t1 g1 h
    cases e with
    | chr c =>
      cases r with
      | nil => simp [execK] at h
      | cons x xs =>
        simp only [execK] at h
        split at h
        · simp at h
        · rename_i hx
          simp only [ResK.ok.injEq] at h
          obtain ⟨_, rfl, _, rfl⟩ := h
          have hx2 : x = c.toNat := by simpa using hx
          refine ⟨[x], [kw], rfl, rfl, rfl, ?_⟩
          intro S s hs hm
          simp only [List.reverse_singleton, tsRun, absRun, hx2]
          exact stImage_mem _ hs hm
    | rng lo hi =>
      cases r with
      | nil => simp [execK] at h
      | cons x xs =>
        simp only [execK] at h
        split at h
        · simp at h
        · simp only [ResK.ok.injEq] at h
          obtain ⟨_, rfl, _, rfl⟩ := h
          refine ⟨[x], [kw], rfl, rfl, rfl, ?_⟩
          intro S s hs hm
          simp only [List.reverse_singleton, tsRun, absRun]
          exact stAny_mem kw hs hm x
    | dot =>
      cases r with
      | nil => simp [execK] at h
      | cons x xs =>
        simp only [execK] at h
        split at h
        · simp only [ResK.ok.injEq] at h
          obtain ⟨_, rfl, _, rfl⟩ := h
          refine ⟨[x], [false], rfl, rfl, rfl, ?_⟩
          intro S s hs hm
          simp only [List.reverse_singleton, tsRun, absRun]
          exact stAny_mem false hs hm x
        · simp at h
    | call q =>
      simp only [execK] at h
      cases hq : grammar q with
      | nil => simp [hq] at h
      | action =>
        simp only [hq, ResK.ok.injEq] at h
        obtain ⟨_, rfl, _, rfl⟩ := h
        refine ⟨[], [], rfl, rfl, rfl, ?_⟩
        intro S s hs hm
        simp only [List.reverse_nil, tsRun, absRun, hq]
        exact hm
      | expr body =>
        simp only [hq] at h
        cases hb : execK n false body (d + 1) p r t g with
        | oof => rw [hb] at h; simp at h
        | panic => rw [hb] at h; simp at h
        | fail => rw [hb] at h; simp at h
        | ok p2 r2 t2 g2 =>
          rw [hb] at h
          simp only [ResK.ok.injEq] at h
          obtain ⟨_, rfl, _, rfl⟩ := h
          obtain ⟨w, new, hr, hg, hl, hab⟩ := ih _ _ _ _ _ _ _ _ _ _ _ hb
          refine ⟨w, new, hr, hg, hl, ?_⟩
          intro S s hs hm
          simp only [absRun, hq]
          exact stBind_mem _ hs hm (tsSumm_covers hq hs (hab _ s hs (testBit_one_shiftLeft s)))
    | seq a b =>
      simp only [execK] at h
      cases ha : execK n false a d p r t g with
      | oof => rw [ha] at h; simp at h
      | panic => rw [ha] at h; simp at h
      | fail => rw [ha] at h; simp at h
      | ok p2 r2 t2 g2 =>
        rw [ha] at h
        simp only [] at h
        obtain ⟨w1, new1, hr1, hg1, hl1, hab1⟩ := ih _ _ _ _ _ _ _ _ _ _ _ ha
        obtain ⟨w2, new2, hr2, hg2, hl2, hab2⟩ := ih _ _ _ _ _ _ _ _ _ _ _ h
        refine ⟨w1 ++ w2, new2 ++ new1, by rw [hr1, hr2, List.append_assoc],
          by rw [hg2, hg1, List.append_assoc], by simp [hl1, hl2, Nat.add_comm], ?_⟩
        intro S s hs hm
        rw [List.reverse_append, tsRun_append _ _ _ _ _ (by simp [hl1])]
        simp only [absRun]
        exact hab2 _ _ (tsRun_lt _ _ _ hs) (hab1 S s hs hm)
    | alt a b =>
      simp only [execK] at h
      cases ha : execK n (kwPair a b) a d p r t g with
      | oof => rw [ha] at h; simp at h
      | panic => rw [ha] at h; simp at h
      | fail =>
        rw [ha] at h
        simp only [] at h
        obtain ⟨w, new, hr, hg, hl, hab⟩ := ih _ _ _ _ _ _ _ _ _ _ _ h
        refine ⟨w, new, hr, hg, hl, ?_⟩
        intro S s hs hm
        simp only [absRun, Nat.testBit_or, hab S s hs hm, Bool.or_true]
      | ok p2 r2 t2 g2 =>
        rw [ha] at h
        simp only [ResK.ok.injEq] at h
        obtain ⟨rfl, rfl, rfl, rfl⟩ := h
        obtain ⟨w, new, hr, hg, hl, hab⟩ := ih _ _ _ _ _ _ _ _ _ _ _ ha
        refine ⟨w, new, hr, hg, hl, ?_⟩
        intro S s hs hm
        simp only [absRun, Nat.testBit_or, hab S s hs hm, Bool.true_or]
    | opt a =>
      simp only [execK] at h
      cases ha : execK n false a d p r t g with
      | oof => rw [ha] at h; simp at h
      | panic => rw [ha] at h; simp at h
      | fail =>
        rw [ha] at h
        simp only [ResK.ok.injEq] at h
        obtain ⟨_, rfl, _, rfl⟩ := h
        refine ⟨[], [], rfl, rfl, rfl, ?_⟩
        intro S s hs hm
        simp only [List.reverse_nil, tsRun, absRun, Nat.testBit_or, hm, Bool.true_or]
      | ok p2 r2 t2 g2 =>
        rw [ha] at h
        simp only [ResK.ok.injEq] at h
        obtain ⟨rfl, rfl, rfl, rfl⟩ := h
        obtain ⟨w, new, hr, hg, hl, hab⟩ := ih _ _ _ _ _ _ _ _ _ _ _ ha
        refine ⟨w, new, hr, hg, hl, ?_⟩
        intro S s hs hm
        simp only [absRun, Nat.testBit_or, hab S s hs hm, Bool.or_true]
    | star a =>
      simp only [execK] at h
      cases ha : execK n false a d p r t g with
      | oof => rw [ha] at h; simp at h
      | panic => rw [ha] at h; simp at h
      | fail =>
        rw [ha] at h
        simp only [ResK.ok.injEq] at h
        obtain ⟨_, rfl, _, rfl⟩ := h
        refine ⟨[], [], rfl, rfl, rfl, ?_⟩
        intro S s hs hm
        simp only [List.reverse_nil, tsRun, absRun]
        exact stStar_mem _ hs hm
      | ok p2 r2 t2 g2 =>
        rw [ha] at h
        simp only [] at h
        obtain ⟨w1, new1, hr1, hg1, hl1, hab1⟩ := ih _ _ _ _ _ _ _ _ _ _ _ ha
        obtain ⟨w2, new2, hr2, hg2, hl2, hab2⟩ := ih _ _ _ _ _ _ _ _ _ _ _ h
        refine ⟨w1 ++ w2, new2 ++ new1, by rw [hr1, hr2, List.append_assoc],
          by rw [hg2, hg1, List.append_assoc], by simp [hl1, hl2, Nat.add_comm], ?_⟩
        intro S s hs hm
        rw [List.reverse_append, tsRun_append _ _ _ _ _ (by simp [hl1])]
        have hmid : tsRun s w1 new1.reverse < 6 := tsRun_lt _ _ _ hs
        have h1 := hab1 _ s hs (stStar_mem (fun X => absRun false a X) hs hm)
        have h2 := stStar_step (fun X => absRun false a X) S hmid h1
        have h3 := hab2 _ _ hmid h2
        simp only [absRun] at h3 ⊢
        exact stStar_idem _ S (tsRun_lt _ _ _ hmid) h3
    | nt a =>
      simp only [execK] at h
      cases ha : execK n false a d p r t g with
      | oof => rw [ha] at h; simp at h
      | panic => rw [ha] at h; simp at h
      | fail =>
        rw [ha] at h
        simp only [ResK.ok.injEq] at h
        obtain ⟨_, rfl, _, rfl⟩ := h
        refine ⟨[], [], rfl, rfl, rfl, ?_⟩
        intro S s hs hm
        simp only [List.reverse_nil, tsRun, absRun]
        exact hm
      | ok p2 r2 t2 g2 => rw [ha] at h; simp at h
    | text a =>
      simp only [execK] at h
      cases ha : execK n false a (d + 1) p r t g with
      | oof => rw [ha] at h; simp at h
      | panic => rw [ha] at h; simp at h
      | fail => rw [ha] at h; simp at h
      | ok p2 r2 t2 g2 =>
        rw [ha] at h
        simp only [ResK.ok.injEq] at h
        obtain ⟨_, rfl, _, rfl⟩ := h
        obtain ⟨w, new, hr, hg, hl, hab⟩ := ih _ _ _ _ _ _ _ _ _ _ _ ha
        refine ⟨w, new, hr, hg, hl, ?_⟩
        intro S s hs hm
        simp only [absRun]
        exact hab S s hs hm

theorem tsRun_five : ∀ (w : List Nat) (ks : List Bool), tsRun 5 w ks = 5 := by
  intro w
  induction w with
  | nil => intro ks; cases ks <;> rfl
  | cons x xs ih =>
    intro ks
    cases ks with
    | nil => rfl
    | cons k ks => simp only [tsRun]; rw [show tsStep 5 x k = 5 from by simp [tsStep]]; exact ih ks

theorem tsRun_winHead {w : List Nat} {ks : List Bool} (h : winHead w ks = true) (s : Nat) :
    tsRun s w ks = 5 := by
  match w, ks, h with
  | x1 :: x2 :: x3 :: x4 :: rest, k1 :: k2 :: k3 :: k4 :: krest, h =>
    simp only [winHead, Bool.and_eq_true, beq_iff_eq, Bool.or_eq_true] at h
    obtain ⟨⟨⟨⟨h1, h2⟩, rfl⟩, rfl⟩, hk⟩ := h
    have n1 := toLowerN_ne (Or.inl h1)
    have n2 := toLowerN_ne (Or.inr h2)
    simp only [tsRun]
    by_cases hs : 5 ≤ s
    · have e1 : tsStep s x1 k1 = 5 := by simp [tsStep, hs]
      rw [e1, show tsStep 5 x2 k2 = 5 from by simp [tsStep],
        show tsStep 5 40 k3 = 5 from by simp [tsStep], show tsStep 5 41 k4 = 5 from by simp [tsStep]]
      exact tsRun_five _ _
    · have e1 : tsStep s x1 k1 = if k1 = true then 1 else 2 := by
        have : toLowerN x1 ≠ 115 := by omega
        simp [tsStep, hs, h1, n1.1, n1.2]
      have e2 : tsStep (tsStep s x1 k1) x2 k2 = 3 := by
        rw [e1]
        rcases hk with hk | hk
        · simp [tsStep, hk, h2, n2.1, n2.2]
        · cases k1 <;> simp [tsStep, hk, h2, n2.1, n2.2]
      rw [e2, show tsStep 3 40 k3 = 4 from by simp [tsStep],
        show tsStep 4 41 k4 = 5 from by simp [tsStep]]
      exact tsRun_five _ _

theorem noWin_of_tsRun : ∀ (w : List Nat) (ks : List Bool) (s : Nat), tsRun s w ks ≠ 5 →
    noWin w ks = true := by
  intro w
  induction w with
  | nil => intro ks s _; cases ks <;> rfl
  | cons x xs ih =>
    intro ks s h
    cases ks with
    | nil => rfl
    | cons k ks =>
      simp only [noWin, Bool.and_eq_true, Bool.not_eq_true']
      constructor
      · cases hw : winHead (x :: xs) (k :: ks) with
        | false => rfl
        | true => exact absurd (tsRun_winHead hw s) h
      · exact ih ks (tsStep s x k) h

theorem variantL_cons {x : Nat} {xs r' : List Nat} {ks : List Bool}
    (h : variantL (x :: xs) r' ks = true) :
    ∃ y ys k ks', r' = y :: ys ∧ ks = k :: ks' ∧ (x = y ∨ (k = true ∧ caseEq x y = true)) ∧
      variantL xs ys ks' = true := by
  cases r' with
  | nil => simp [variantL] at h
  | cons y ys =>
    cases ks with
    | nil => simp [variantL] at h
    | cons k ks' =>
      simp only [variantL, Bool.and_eq_true, Bool.or_eq_true, beq_iff_eq] at h
      exact ⟨y, ys, k, ks', rfl, rfl, h.1, h.2⟩

theorem variantL_nil {r' : List Nat} {ks : List Bool} (h : variantL [] r' ks = true) :
    r' = [] ∧ ks = [] := by
  cases r' with
  | nil =>
    cases ks with
    | nil => exact ⟨rfl, rfl⟩
    | cons k ks => simp [variantL] at h
  | cons y ys => cases ks <;> simp [variantL] at h

theorem toLowerN_eq_of_small {x c : Nat} (hc : c < 65) (h : toLowerN x = c) : x = c := by
  simp only [toLowerN, isUpperN, Bool.and_eq_true, decide_eq_true_eq] at h
  split at h <;> omega

theorem startsTs_variant {x : Nat} {xs : List Nat} {y : Nat} {ys : List Nat} {k : Bool}
    {ks : List Bool} (hv : variantL (x :: xs) (y :: ys) (k :: ks) = true)
    (hw : winHead (x :: xs) (k :: ks) = false) :
    startsTs (x :: (xs ++ [end_symbol])) = startsTs (y :: (ys ++ [end_symbol])) := by
  obtain ⟨_, _, _, _, e1, e2, h1, hv1⟩ := variantL_cons hv
  cases e1; cases e2
  cases xs with
  | nil => obtain ⟨rfl, rfl⟩ := variantL_nil hv1; rfl
  | cons x2 xs =>
    obtain ⟨y2, ys, k2, ks, rfl, rfl, h2, hv2⟩ := variantL_cons hv1
    cases xs with
    | nil => obtain ⟨rfl, rfl⟩ := variantL_nil hv2; rfl
    | cons x3 xs =>
      obtain ⟨y3, ys, k3, ks, rfl, rfl, h3, hv3⟩ := variantL_cons hv2
      cases xs with
      | nil =>
        obtain ⟨rfl, rfl⟩ := variantL_nil hv3
        simp [startsTs, end_symbol]
      | cons x4 xs =>
        obtain ⟨y4, ys, k4, ks, rfl, rfl, h4, hv4⟩ := variantL_cons hv3
        simp only [winHead, Bool.and_eq_false_iff, Bool.or_eq_false_iff, beq_eq_false_iff_ne,
          ne_eq] at hw
        have e116 : toLowerN 116 = 116 := rfl
        have e115 : toLowerN 115 = 115 := rfl
        have l1 : toLowerN x = toLowerN y := by
          rcases h1 with rfl | ⟨_, h⟩
          · rfl
          · simpa [caseEq] using h
        have l2 : toLowerN x2 = toLowerN y2 := by
          rcases h2 with rfl | ⟨_, h⟩
          · rfl
          · simpa [caseEq] using h
        have l3 : toLowerN x3 = toLowerN y3 := by
          rcases h3 with rfl | ⟨_, h⟩
          · rfl
          · simpa [caseEq] using h
        have l4 : toLowerN x4 = toLowerN y4 := by
          rcases h4 with rfl | ⟨_, h⟩
          · rfl
          · simpa [caseEq] using h
        have e40 : toLowerN 40 = 40 := rfl
        have e41 : toLowerN 41 = 41 := rfl
        simp only [List.cons_append, startsTs]
        rw [Bool.eq_iff_iff]
        simp only [Bool.and_eq_true, beq_iff_eq]
        constructor
        · rintro ⟨⟨⟨rfl, rfl⟩, rfl⟩, rfl⟩
          have y3e : y3 = 40 := toLowerN_eq_of_small (by omega) (l3.symm.trans e40)
          have y4e : y4 = 41 := toLowerN_eq_of_small (by omega) (l4.symm.trans e41)
          have hk : k = false ∧ k2 = false := by
            rcases hw with (((hw | hw) | hw) | hw) | hw
            · exact absurd e116 hw
            · exact absurd e115 hw
            · exact absurd rfl hw
            · exact absurd rfl hw
            · exact hw
          have y1e : 116 = y := by
            rcases h1 with h | ⟨h, _⟩
            · exact h
            · rw [hk.1] at h; exact absurd h (by simp)
          have y2e : 115 = y2 := by
            rcases h2 with h | ⟨h, _⟩
            · exact h
            · rw [hk.2] at h; exact absurd h (by simp)
          exact ⟨⟨⟨y1e.symm, y2e.symm⟩, y3e⟩, y4e⟩
        · rintro ⟨⟨⟨rfl, rfl⟩, rfl⟩, rfl⟩
          have x3e : x3 = 40 := toLowerN_eq_of_small (by omega) (l3.trans e40)
          have x4e : x4 = 41 := toLowerN_eq_of_small (by omega) (l4.trans e41)
          have hk : k = false ∧ k2 = false := by
            rcases hw with (((hw | hw) | hw) | hw) | hw
            · exact absurd (l1.trans e116) hw
            · exact absurd (l2.trans e115) hw
            · exact absurd x3e hw
            · exact absurd x4e hw
            · exact hw
          have x1e : x = 116 := by
            rcases h1 with h | ⟨h, _⟩
            · exact h
            · rw [hk.1] at h; exact absurd h (by simp)
          have x2e : x2 = 115 := by
            rcases h2 with h | ⟨h, _⟩
            · exact h
            · rw [hk.2] at h; exact absurd h (by simp)
          exact ⟨⟨⟨x1e, x2e⟩, x3e⟩, x4e⟩

/-- A text and a variant of it in the case of tagged letters, no tagged letter inside a
`ts()`, are alike for the parser. -/
theorem simL_of_variant : ∀ (w w' : List Nat) (ks : List Bool), variantL w w' ks = true →
    noWin w ks = true → simL (w ++ [end_symbol]) (w' ++ [end_symbol]) = true := by
  intro w
  induction w with
  | nil =>
    intro w' ks hv _
    obtain ⟨rfl, rfl⟩ := variantL_nil hv
    rfl
  | cons x xs ih =>
    intro w' ks hv hn
    obtain ⟨y, ys, k, ks', rfl, rfl, h1, hv1⟩ := variantL_cons hv
    simp only [noWin, Bool.and_eq_true, Bool.not_eq_true'] at hn
    have hc : caseEq x y = true := by
      rcases h1 with rfl | ⟨_, h⟩
      · exact caseEq_refl x
      · exact h
    simp only [List.cons_append, simL, Bool.and_eq_true, beq_iff_eq]
    exact ⟨⟨hc, startsTs_variant hv hn.1⟩, ih ys ks' hv1 hn.2⟩

theorem Parse_of_eval {Buffer : String} {p1 : Nat} {r1 : List Nat} {t1 : List token32}
    (h : Eval (.call .ruleSingleStatement) 0 0 (Init (runes Buffer)) [] (.ok p1 r1 t1)) :
    Parse Buffer = .nil t1.reverse := by
  have hne := parseFuel_enough (runes Buffer).length .ruleSingleStatement 0 0
    (Init (runes Buffer)) [] (Init_length_le _)
  have hx := h.at_fuel hne
  have hP := parseRule_of_execF (parseFuel (runes Buffer).length) (runes Buffer)
    .ruleSingleStatement
  rw [hx] at hP
  exact hP

set_option maxRecDepth 10000 in
theorem rulePlainOK_all (q : pegRule) : rulePlainOK q = true := by
  cases q <;> rfl

set_option maxRecDepth 10000 in
theorem ruleTextOK_all (q : pegRule) : ruleTextOK q = true := by
  cases q <;> rfl

theorem plainRule_not_textAction (q : pegRule) : plainRule q = true → textAction q = false := by
  cases q <;> first | (intro _; rfl) | (intro h; exact absurd h (by decide))

/-- A successful run of plain code tags no rune and records no token of a text action. -/
theorem execK_plain (f : Nat) : ∀ (e : Peg) (d p : Nat) (r : List Nat) (t : List token32)
    (g : List Bool) (p1 : Nat) (r1 : List Nat) (t1 : List token32) (g1 : List Bool),
    plainOK e = true → execK f false e d p r t g = .ok p1 r1 t1 g1 →
    ∃ newT newG, t1 = newT ++ t ∧ g1 = newG ++ g ∧ (∀ k ∈ newG, k = false) ∧
      ∀ tok ∈ newT, textAction tok.rule = false := by
  induction f with
  | zero => intro e d p r t g p1 r1 t1 g1 _ h; simp [execK] at h
  | succ n ih =>
    intro e d p r t g p1 r1 t1 g1 hc h
    cases e with
    | chr c =>
      cases r with
      | nil => simp [execK] at h
      | cons x xs =>
        simp only [execK] at h
        split at h
        · simp at h
        · simp only [ResK.ok.injEq] at h
          obtain ⟨_, _, rfl, rfl⟩ := h
          exact ⟨[], [false], rfl, rfl, by simp, by simp⟩
    | rng lo hi =>
      cases r with
      | nil => simp [execK] at h
      | cons x xs =>
        simp only [execK] at h
        split at h
        · simp at h
        · simp only [ResK.ok.injEq] at h
          obtain ⟨_, _, rfl, rfl⟩ := h
          exact ⟨[], [false], rfl, rfl, by simp, by simp⟩
    | dot =>
      cases r with
      | nil => simp [execK] at h
      | cons x xs =>
        simp only [execK] at h
        split at h
        · simp only [ResK.ok.injEq] at h
          obtain ⟨_, _, rfl, rfl⟩ := h
          exact ⟨[], [false], rfl, rfl, by simp, by simp⟩
        · simp at h
    | call q =>
      simp only [plainOK] at hc
      have hq2 := rulePlainOK_all q
      simp only [rulePlainOK, hc, Bool.not_true, Bool.false_or] at hq2
      simp only [execK] at h
      cases hq : grammar q with
      | nil => simp [hq] at hq2
      | action => simp [hq] at hq2
      | expr body =>
        simp only [hq] at h hq2
        cases hb : execK n false body (d + 1) p r t g with
        | oof => rw [hb] at h; simp at h
        | panic => rw [hb] at h; simp at h
        | fail => rw [hb] at h; simp at h
        | ok p2 r2 t2 g2 =>
          rw [hb] at h
          simp only [ResK.ok.injEq] at h
          obtain ⟨_, _, rfl, rfl⟩ := h
          obtain ⟨newT, newG, rfl, hg, hk, ht⟩ := ih _ _ _ _ _ _ _ _ _ _ hq2 hb
          refine ⟨_ :: newT, newG, rfl, hg, hk, ?_⟩
          intro tok htok
          rcases List.mem_cons.mp htok with rfl | htok
          · exact plainRule_not_textAction q hc
          · exact ht tok htok
    | seq a b =>
      simp only [plainOK, Bool.and_eq_true] at hc
      simp only [execK] at h
      cases ha : execK n false a d p r t g with
      | oof => rw [ha] at h; simp at h
      | panic => rw [ha] at h; simp at h
      | fail => rw [ha] at h; simp at h
      | ok p2 r2 t2 g2 =>
        rw [ha] at h
        simp only [] at h
        obtain ⟨newT1, newG1, rfl, rfl, hk1, ht1⟩ := ih _ _ _ _ _ _ _ _ _ _ hc.1 ha
        obtain ⟨newT2, newG2, rfl, rfl, hk2, ht2⟩ := ih _ _ _ _ _ _ _ _ _ _ hc.2 h
        refine ⟨newT2 ++ newT1, newG2 ++ newG1, by simp, by simp, ?_, ?_⟩
        · intro k hk
          rcases List.mem_append.mp hk with hk | hk
          · exact hk2 k hk
          · exact hk1 k hk
        · intro tok htok
          rcases List.mem_append.mp htok with htok | htok
          · exact ht2 tok htok
          · exact ht1 tok htok
    | alt a b =>
      simp only [plainOK, Bool.and_eq_true, Bool.not_eq_true'] at hc
      simp only [execK, hc.1.1] at h
      cases ha : execK n false a d p r t g with
      | oof => rw [ha] at h; simp at h
      | panic => rw [ha] at h; simp at h
      | fail =>
        rw [ha] at h
        simp only [] at h
        exact ih _ _ _ _ _ _ _ _ _ _ hc.2 h
      | ok p2 r2 t2 g2 =>
        rw [ha] at h
        simp only [ResK.ok.injEq] at h
        obtain ⟨rfl, rfl, rfl, rfl⟩ := h
        exact ih _ _ _ _ _ _ _ _ _ _ hc.1.2 ha
    | opt a =>
      simp only [plainOK] at hc
      simp only [execK] at h
      cases ha : execK n false a d p r t g with
      | oof => rw [ha] at h; simp at h
      | panic => rw [ha] at h; simp at h
      | fail =>
        rw [ha] at h
        simp only [ResK.ok.injEq] at h
        obtain ⟨_, _, rfl, rfl⟩ := h
        exact ⟨[], [], rfl, rfl, by simp, by simp⟩
      | ok p2 r2 t2 g2 =>
        rw [ha] at h
        simp only [ResK.ok.injEq] at h
        obtain ⟨rfl, rfl, rfl, rfl⟩ := h
        exact ih _ _ _ _ _ _ _ _ _ _ hc ha
    | star a =>
      have hc2 := hc
      simp only [plainOK] at hc
      simp only [execK] at h
      cases ha : execK n false a d p r t g with
      | oof => rw [ha] at h; simp at h
      | panic => rw [ha] at h; simp at h
      | fail =>
        rw [ha] at h
        simp only [ResK.ok.injEq] at h
        obtain ⟨_, _, rfl, rfl⟩ := h
        exact ⟨[], [], rfl, rfl, by simp, by simp⟩
      | ok p2 r2 t2 g2 =>
        rw [ha] at h
        simp only [] at h
        obtain ⟨newT1, newG1, rfl, rfl, hk1, ht1⟩ := ih _ _ _ _ _ _ _ _ _ _ hc ha
        obtain ⟨newT2, newG2, rfl, rfl, hk2, ht2⟩ := ih _ _ _ _ _ _ _ _ _ _ hc2 h
        refine ⟨newT2 ++ newT1, newG2 ++ newG1, by simp, by simp, ?_, ?_⟩
        · intro k hk
          rcases List.mem_append.mp hk with hk | hk
          · exact hk2 k hk
          · exact hk1 k hk
        · intro tok htok
          rcases List.mem_append.mp htok with htok | htok
          · exact ht2 tok htok
          · exact ht1 tok htok
    | nt a =>
      simp only [execK] at h
      cases ha : execK n false a d p r t g with
      | oof => rw [ha] at h; simp at h
      | panic => rw [ha] at h; simp at h
      | fail =>
        rw [ha] at h
        simp only [ResK.ok.injEq] at h
        obtain ⟨_, _, rfl, rfl⟩ := h
        exact ⟨[], [], rfl, rfl, by simp, by simp⟩
      | ok p2 r2 t2 g2 => rw [ha] at h; simp at h
    | text a =>
      simp only [plainOK] at hc
      simp only [execK] at h
      cases ha : execK n false a (d + 1) p r t g with
      | oof => rw [ha] at h; simp at h
      | panic => rw [ha] at h; simp at h
      | fail => rw [ha] at h; simp at h
      | ok p2 r2 t2 g2 =>
        rw [ha] at h
        simp only [ResK.ok.injEq] at h
        obtain ⟨_, _, rfl, rfl⟩ := h
        obtain ⟨newT, newG, rfl, hg, hk, ht⟩ := ih _ _ _ _ _ _ _ _ _ _ hc ha
        refine ⟨_ :: newT, newG, rfl, hg, hk, ?_⟩
        intro tok htok
        rcases List.mem_cons.mp htok with rfl | htok
        · rfl
        · exact ht tok htok

/-- A successful run adds one tag per rune consumed. -/
theorem execK_len {f : Nat} {kw : Bool} {e : Peg} {d p : Nat} {r : List Nat}
    {t : List token32} {g : List Bool} {p1 : Nat} {r1 : List Nat} {t1 : List token32}
    {g1 : List Bool} (h : execK f kw e d p r t g = .ok p1 r1 t1 g1) :
    ∃ new, g1 = new ++ g ∧ p1 = p + new.length := by
  obtain ⟨w, new, hr, hg, hl, _⟩ := execK_abs f kw e d p r t g p1 r1 t1 g1 h
  have he := execK_erase f kw e d p r t g
  rw [h] at he
  simp only [ResK.erase] at he
  obtain ⟨w2, hr2, hp, _⟩ := execF_consumed f e d p r t p1 r1 t1 he.symm
  have : w = w2 := List.append_cancel_right (hr.symm.trans hr2)
  subst this
  exact ⟨new, hg, by rw [hp, hl]⟩

theorem spanClean_append {tags : List Bool} {b e : Nat} (h : spanClean tags b e = true)
    (more : List Bool) : spanClean (tags ++ more) b e = true := by
  simp only [spanClean, Bool.and_eq_true, decide_eq_true_eq] at h ⊢
  obtain ⟨hl, ha⟩ := h
  refine ⟨by rw [List.length_append]; omega, ?_⟩
  by_cases hb : b ≤ tags.length
  · rw [List.drop_append_of_le_length hb, List.take_append_of_le_length
      (by rw [List.length_drop]; omega)]
    exact ha
  · have : e - b = 0 := by omega
    rw [this]; simp

theorem spanClean_new {g newG : List Bool} {p : Nat} (hg : g.length = p)
    (hk : ∀ k ∈ newG, k = false) :
    spanClean (newG ++ g).reverse p (p + newG.length) = true := by
  simp only [spanClean, Bool.and_eq_true, decide_eq_true_eq, List.length_reverse,
    List.length_append, List.reverse_append]
  refine ⟨by omega, ?_⟩
  rw [List.drop_append_of_le_length (by simp [hg]), ← hg]
  have : List.drop g.length g.reverse = [] := by
    apply List.drop_eq_nil_of_le; simp
  rw [this, List.nil_append, List.all_eq_true]
  intro k hk2
  have := hk k (List.mem_reverse.mp (List.mem_of_mem_take hk2))
  simp [this]

theorem textClean_append : ∀ {t : List token32} {tags : List Bool},
    textClean tags t = true → ∀ (more : List Bool), textClean (tags ++ more) t = true := by
  intro t
  induction t with
  | nil => intro tags _ more; rfl
  | cons a t ih =>
    intro tags h more
    cases t with
    | nil => exact h
    | cons p rest =>
      simp only [textClean, Bool.and_eq_true, Bool.or_eq_true, Bool.not_eq_true',
        beq_iff_eq] at h ⊢
      refine ⟨?_, ih h.2 more⟩
      rcases h.1 with h1 | ⟨h1, h2⟩
      · exact Or.inl h1
      · exact Or.inr ⟨h1, spanClean_append h2 more⟩

theorem textClean_cons {tags : List Bool} {a : token32} {t : List token32}
    (ha : textAction a.rule = false) (h : textClean tags t = true) :
    textClean tags (a :: t) = true := by
  cases t with
  | nil => simp [textClean, ha]
  | cons p rest => simp [textClean, ha, h]

theorem textClean_pushes {tags : List Bool} : ∀ {new t : List token32},
    (∀ tok ∈ new, textAction tok.rule = false) → textClean tags t = true →
    textClean tags (new ++ t) = true := by
  intro new
  induction new with
  | nil => intro t _ h; exact h
  | cons a new ih =>
    intro t hn h
    exact textClean_cons (hn a (List.mem_cons_self _ _))
      (ih (fun tok htok => hn tok (List.mem_cons_of_mem _ htok)) h)

theorem textPattern_eq {a b : Peg} (h : textPattern a b = true) :
    ∃ X A, a = .text X ∧ b = .call A ∧ textAction A = true ∧ plainOK X = true := by
  match a, b, h with
  | .text X, .call A, h =>
    simp only [textPattern, Bool.and_eq_true] at h
    exact ⟨X, A, rfl, rfl, h.1, h.2⟩

theorem textAction_action {A : pegRule} (h : textAction A = true) : grammar A = .action := by
  revert h
  cases A <;> first | (intro _; rfl) | (intro h; exact absurd h (by decide))

/-- In the tokens of a successful run every token of a text action comes right after a
`rulePegText` token whose span has no tagged rune. -/
theorem execK_textClean (f : Nat) : ∀ (kw : Bool) (e : Peg) (d p : Nat) (r : List Nat)
    (t : List token32) (g : List Bool) (p1 : Nat) (r1 : List Nat) (t1 : List token32)
    (g1 : List Bool), textOK e = true → execK f kw e d p r t g = .ok p1 r1 t1 g1 →
    g.length = p → textClean g.reverse t = true → textClean g1.reverse t1 = true := by
  induction f with
  | zero => intro kw e d p r t g p1 r1 t1 g1 _ h; simp [execK] at h
  | succ n ih =>
    intro kw e d p r t g p1 r1 t1 g1 hc h hl hq
    have hmono : ∀ {x : List Bool}, textClean (x ++ g).reverse t = true := by
      intro x
      rw [List.reverse_append]
      exact textClean_append hq _
    cases e with
    | chr c =>
      cases r with
      | nil => simp [execK] at h
      | cons x xs =>
        simp only [execK] at h
        split at h
        · simp at h
        · simp only [ResK.ok.injEq] at h
          obtain ⟨_, _, rfl, rfl⟩ := h
          exact hmono (x := [kw])
    | rng lo hi =>
      cases r with
      | nil => simp [execK] at h
      | cons x xs =>
        simp only [execK] at h
        split at h
        · simp at h
        · simp only [ResK.ok.injEq] at h
          obtain ⟨_, _, rfl, rfl⟩ := h
          exact hmono (x := [kw])
    | dot =>
      cases r with
      | nil => simp [execK] at h
      | cons x xs =>
        simp only [execK] at h
        split at h
        · simp only [ResK.ok.injEq] at h
          obtain ⟨_, _, rfl, rfl⟩ := h
          exact hmono (x := [false])
        · simp at h
    | call q =>
      simp only [textOK, Bool.not_eq_true'] at hc
      simp only [execK] at h
      cases hg : grammar q with
      | nil => simp [hg] at h
      | action =>
        simp only [hg, ResK.ok.injEq] at h
        obtain ⟨_, _, rfl, rfl⟩ := h
        exact textClean_cons hc hq
      | expr body =>
        simp only [hg] at h
        have hb2 := ruleTextOK_all q
        simp only [ruleTextOK, hg, Bool.and_eq_true] at hb2
        cases hb : execK n false body (d + 1) p r t g with
        | oof => rw [hb] at h; simp at h
        | panic => rw [hb] at h; simp at h
        | fail => rw [hb] at h; simp at h
        | ok p2 r2 t2 g2 =>
          rw [hb] at h
          simp only [ResK.ok.injEq] at h
          obtain ⟨_, _, rfl, rfl⟩ := h
          exact textClean_cons hc (ih _ _ _ _ _ _ _ _ _ _ _ hb2.1 hb hl hq)
    | seq a b =>
      by_cases hp : textPattern a b = true
      · obtain ⟨X, A, rfl, rfl, hA, hX⟩ := textPattern_eq hp
        simp only [execK] at h
        cases ha : execK n false (.text X) d p r t g with
        | oof => rw [ha] at h; simp at h
        | panic => rw [ha] at h; simp at h
        | fail => rw [ha] at h; simp at h
        | ok p2 r2 t2 g2 =>
          rw [ha] at h
          simp only [] at h
          cases n with
          | zero => simp [execK] at ha
          | succ m =>
            simp only [execK, textAction_action hA, ResK.ok.injEq] at h
            obtain ⟨_, _, rfl, rfl⟩ := h
            simp only [execK] at ha
            cases hx : execK m false X (d + 1) p r t g with
            | oof => rw [hx] at ha; simp at ha
            | panic => rw [hx] at ha; simp at ha
            | fail => rw [hx] at ha; simp at ha
            | ok p3 r3 t3 g3 =>
              rw [hx] at ha
              simp only [ResK.ok.injEq] at ha
              obtain ⟨rfl, rfl, rfl, rfl⟩ := ha
              obtain ⟨newT, newG, rfl, rfl, hk, ht⟩ := execK_plain _ _ _ _ _ _ _ _ _ _ _ hX hx
              obtain ⟨new2, hg2, hp2⟩ := execK_len hx
              have : newG = new2 := List.append_cancel_right hg2
              subst this
              subst hp2
              have hsp := spanClean_new hl hk
              have h1 : textClean (newG ++ g).reverse
                  (⟨.rulePegText, p, p + newG.length, d⟩ :: (newT ++ t)) = true :=
                textClean_cons rfl (textClean_pushes ht hmono)
              simp only [textClean, Bool.and_eq_true, Bool.or_eq_true, Bool.not_eq_true',
                beq_iff_eq]
              simp only [textClean] at h1
              exact ⟨Or.inr ⟨True.intro, hsp⟩, h1⟩
      · simp only [textOK, hp, Bool.false_or, Bool.and_eq_true] at hc
        simp only [execK] at h
        cases ha : execK n false a d p r t g with
        | oof => rw [ha] at h; simp at h
        | panic => rw [ha] at h; simp at h
        | fail => rw [ha] at h; simp at h
        | ok p2 r2 t2 g2 =>
          rw [ha] at h
          simp only [] at h
          have q2 := ih _ _ _ _ _ _ _ _ _ _ _ hc.1 ha hl hq
          obtain ⟨new, hg, hp2⟩ := execK_len ha
          have hl2 : g2.length = p2 := by rw [hg, hp2, List.length_append, hl]; omega
          exact ih _ _ _ _ _ _ _ _ _ _ _ hc.2 h hl2 q2
    | alt a b =>
      simp only [textOK, Bool.and_eq_true] at hc
      simp only [execK] at h
      cases ha : execK n (kwPair a b) a d p r t g with
      | oof => rw [ha] at h; simp at h
      | panic => rw [ha] at h; simp at h
      | fail =>
        rw [ha] at h
        simp only [] at h
        exact ih _ _ _ _ _ _ _ _ _ _ _ hc.2 h hl hq
      | ok p2 r2 t2 g2 =>
        rw [ha] at h
        simp only [ResK.ok.injEq] at h
        obtain ⟨rfl, rfl, rfl, rfl⟩ := h
        exact ih _ _ _ _ _ _ _ _ _ _ _ hc.1 ha hl hq
    | opt a =>
      simp only [textOK] at hc
      simp only [execK] at h
      cases ha : execK n false a d p r t g with
      | oof => rw [ha] at h; simp at h
      | panic => rw [ha] at h; simp at h
      | fail =>
        rw [ha] at h
        simp only [ResK.ok.injEq] at h
        obtain ⟨_, _, rfl, rfl⟩ := h
        exact hq
      | ok p2 r2 t2 g2 =>
        rw [ha] at h
        simp only [ResK.ok.injEq] at h
        obtain ⟨rfl, rfl, rfl, rfl⟩ := h
        exact ih _ _ _ _ _ _ _ _ _ _ _ hc ha hl hq
    | star a =>
      have hc2 := hc
      simp only [textOK] at hc
      simp only [execK] at h
      cases ha : execK n false a d p r t g with
      | oof => rw [ha] at h; simp at h
      | panic => rw [ha] at h; simp at h
      | fail =>
        rw [ha] at h
        simp only [ResK.ok.injEq] at h
        obtain ⟨_, _, rfl, rfl⟩ := h
        exact hq
      | ok p2 r2 t2 g2 =>
        rw [ha] at h
        simp only [] at h
        have q2 := ih _ _ _ _ _ _ _ _ _ _ _ hc ha hl hq
        obtain ⟨new, hg, hp2⟩ := execK_len ha
        have hl2 : g2.length = p2 := by rw [hg, hp2, List.length_append, hl]; omega
        exact ih _ _ _ _ _ _ _ _ _ _ _ hc2 h hl2 q2
    | nt a =>
      simp only [execK] at h
      cases ha : execK n false a d p r t g with
      | oof => rw [ha] at h; simp at h
      | panic => rw [ha] at h; simp at h
      | fail =>
        rw [ha] at h
        simp only [ResK.ok.injEq] at h
        obtain ⟨_, _, rfl, rfl⟩ := h
        exact hq
      | ok p2 r2 t2 g2 => rw [ha] at h; simp at h
    | text a =>
      simp only [textOK] at hc
      simp only [execK] at h
      cases ha : execK n false a (d + 1) p r t g with
      | oof => rw [ha] at h; simp at h
      | panic => rw [ha] at h; simp at h
      | fail => rw [ha] at h; simp at h
      | ok p2 r2 t2 g2 =>
        rw [ha] at h
        simp only [ResK.ok.injEq] at h
        obtain ⟨_, _, rfl, rfl⟩ := h
        exact textClean_cons rfl (ih _ _ _ _ _ _ _ _ _ _ _ hc ha hl hq)

theorem variantL_length : ∀ {w w' : List Nat} {ks : List Bool}, variantL w w' ks = true →
    w.length = w'.length := by
  intro w
  induction w with
  | nil => intro w' ks h; rw [(variantL_nil h).1]
  | cons x xs ih =>
    intro w' ks h
    obtain ⟨y, ys, k, ks', rfl, rfl, _, h2⟩ := variantL_cons h
    simp [ih h2]

theorem variantL_take_drop : ∀ (w w' : List Nat) (ks : List Bool) (b n : Nat),
    variantL w w' ks = true → ((ks.drop b).take n).all (fun k => !k) = true →
    (w.drop b).take n = (w'.drop b).take n := by
  intro w
  induction w with
  | nil => intro w' ks b n h _; rw [(variantL_nil h).1]
  | cons x xs ih =>
    intro w' ks b n h hc
    obtain ⟨y, ys, k, ks', rfl, rfl, h1, h2⟩ := variantL_cons h
    cases b with
    | zero =>
      cases n with
      | zero => rfl
      | succ m =>
        simp only [List.drop_zero, List.take_succ_cons, List.all_cons, Bool.and_eq_true,
          Bool.not_eq_true'] at hc ⊢
        have hxy : x = y := by
          rcases h1 with h1 | ⟨h1, _⟩
          · exact h1
          · rw [hc.1] at h1; exact absurd h1 (by simp)
        have := ih ys ks' 0 m h2 (by simpa using hc.2)
        simp only [List.drop_zero] at this
        rw [hxy, this]
    | succ b =>
      simp only [List.drop_succ_cons] at hc ⊢
      exact ih ys ks' b n h2 hc

theorem slice_variant {w w' : List Nat} {ks : List Bool} (h : variantL w w' ks = true)
    {b e : Nat} (hc : spanClean ks b e = true) : slice w b e = slice w' b e := by
  simp only [spanClean, Bool.and_eq_true, decide_eq_true_eq] at hc
  simp only [slice, ← variantL_length h, variantL_take_drop w w' ks b (e - b) h hc.2]

theorem executeAction_plain (X X' : List Nat) (b e : Nat) (q : pegRule) :
    textAction q = false → executeAction X b e q = executeAction X' b e q := by
  cases q <;> first | (intro _; rfl) | (intro h; exact absurd h (by decide))

theorem executeAction_text (X X' : List Nat) (b e : Nat) (q : pegRule)
    (hs : slice X b e = slice X' b e) : executeAction X b e q = executeAction X' b e q := by
  cases q <;> first | rfl | exact congrArg (Option.map _) hs

theorem executeLoop_append (X B : List Nat) : ∀ (l1 l2 : List token32) (b e : Nat),
    executeLoop X B (l1 ++ l2) b e =
      match executeLoop X B l1 b e with
      | none => none
      | some cs =>
        match executeLoop X B l2 (loopSpan l1 (b, e)).1 (loopSpan l1 (b, e)).2 with
        | none => none
        | some ds => some (cs ++ ds) := by
  intro l1
  induction l1 with
  | nil =>
    intro l2 b e
    simp only [List.nil_append, executeLoop, loopSpan, List.nil_append]
    cases executeLoop X B l2 b e <;> rfl
  | cons tok rest ih =>
    intro l2 b e
    by_cases hp : tok.rule = .rulePegText
    · simp only [List.cons_append, executeLoop, loopSpan, hp]
      cases slice B tok.begin_ tok.end_ with
      | none => rfl
      | some x => exact ih l2 _ _
    · have e1 : ∀ l, executeLoop X B (tok :: l) b e =
          match executeAction X b e tok.rule with
          | none => none
          | some cs =>
            match executeLoop X B l b e with
            | none => none
            | some ds => some (cs ++ ds) := by
        intro l
        conv_lhs => unfold executeLoop
        split
        · rename_i heq; exact absurd heq hp
        · rfl
      have e2 : loopSpan (tok :: rest) (b, e) = loopSpan rest (b, e) := by
        conv_lhs => unfold loopSpan
        split
        · rename_i heq; exact absurd heq hp
        · rfl
      rw [List.cons_append, e1, e1, e2, ih]
      cases executeAction X b e tok.rule with
      | none => rfl
      | some cs =>
        simp only []
        cases executeLoop X B rest b e with
        | none => rfl
        | some ds =>
          simp only []
          cases executeLoop X B l2 (loopSpan rest (b, e)).1 (loopSpan rest (b, e)).2 with
          | none => rfl
          | some es => simp

theorem loopSpan_append : ∀ (l1 l2 : List token32) (s : Nat × Nat),
    loopSpan (l1 ++ l2) s = loopSpan l2 (loopSpan l1 s) := by
  intro l1
  induction l1 with
  | nil => intro l2 s; rfl
  | cons tok rest ih =>
    intro l2 s
    by_cases hp : tok.rule = .rulePegText
    · simp only [List.cons_append, loopSpan, hp]
      exact ih l2 _
    · have e2 : ∀ l, loopSpan (tok :: l) s = loopSpan l s := by
        intro l
        conv_lhs => unfold loopSpan
        split
        · rename_i heq; exact absurd heq hp
        · rfl
      rw [List.cons_append, e2, e2, ih]

/-- `Execute` issues the same calls on an input and on a variant of it in the case of tagged
letters, when no text that it reads has a tagged letter. -/
theorem executeLoop_variant {w w' : List Nat} {tags : List Bool}
    (hv : variantL w w' tags = true) {B B' : List Nat} (hB : B.length = B'.length) :
    ∀ (t : List token32), textClean tags t = true →
      executeLoop w B t.reverse 0 0 = executeLoop w' B' t.reverse 0 0 := by
  intro t
  induction t with
  | nil => intro _; rfl
  | cons a t ih =>
    intro hc
    have hc2 : textClean tags t = true := by
      cases t with
      | nil => rfl
      | cons p rest =>
        simp only [textClean, Bool.and_eq_true] at hc
        exact hc.2
    rw [List.reverse_cons, executeLoop_append, executeLoop_append, ih hc2]
    have key : ∀ b e, (b, e) = loopSpan t.reverse (0, 0) →
        executeLoop w B [a] b e = executeLoop w' B' [a] b e := by
      intro b e hbe
      by_cases hp : a.rule = .rulePegText
      · simp only [executeLoop, hp, slice, hB]
        by_cases hcnd : a.begin_ ≤ a.end_ ∧ a.end_ ≤ B'.length <;> simp [hcnd]
      · have e1 : ∀ (X C : List Nat), executeLoop X C [a] b e =
            match executeAction X b e a.rule with
            | none => none
            | some cs =>
              match executeLoop X C [] b e with
              | none => none
              | some ds => some (cs ++ ds) := by
          intro X C
          conv_lhs => unfold executeLoop
          split
          · rename_i heq; exact absurd heq hp
          · rfl
        rw [e1, e1]
        have hact : executeAction w b e a.rule = executeAction w' b e a.rule := by
          cases hta : textAction a.rule with
          | false => exact executeAction_plain w w' b e a.rule hta
          | true =>
            cases t with
            | nil => simp [textClean, hta] at hc
            | cons p rest =>
              simp only [textClean, hta, Bool.not_true, Bool.false_or, Bool.and_eq_true,
                beq_iff_eq] at hc
              have hs : loopSpan (p :: rest).reverse (0, 0) = (p.begin_, p.end_) := by
                rw [List.reverse_cons, loopSpan_append]
                simp only [loopSpan, hc.1.1]
              rw [hs] at hbe
              simp only [Prod.mk.injEq] at hbe
              obtain ⟨rfl, rfl⟩ := hbe
              exact executeAction_text w w' _ _ a.rule (slice_variant hv hc.1.2)
        rw [hact]
        simp only [executeLoop]
    rw [key _ _ rfl]

/-- What the keyword tags of an accepted input are: the tags of the run of `execK` that
mirrors `Parse`, one per rune, none of them inside a `ts()` and none of them inside a text
that `Execute` reads. -/
theorem keywordTags_some {Buffer : String} {tags : List Bool}
    (h : keywordTags Buffer = some tags) :
    ∃ toks, Eval (.call .ruleSingleStatement) 0 0 (Init (runes Buffer)) []
        (.ok (runes Buffer).length [end_symbol] toks) ∧
      noWin (runes Buffer) tags = true ∧ textClean tags toks = true := by
  unfold keywordTags at h
  cases hk : execK (parseFuel (runes Buffer).length) false (.call .ruleSingleStatement) 0 0
      (Init (runes Buffer)) [] [] with
  | oof => rw [hk] at h; simp at h
  | panic => rw [hk] at h; simp at h
  | fail => rw [hk] at h; simp at h
  | ok p1 r1 t1 g1 =>
    rw [hk] at h
    simp only [Option.some.injEq] at h
    subst h
    have he := execK_erase (parseFuel (runes Buffer).length) false (.call .ruleSingleStatement)
      0 0 (Init (runes Buffer)) [] []
    rw [hk] at he
    simp only [ResK.erase] at he
    have hE : Eval (.call .ruleSingleStatement) 0 0 (Init (runes Buffer)) []
        (.ok p1 r1 t1) := ⟨_, he.symm, by simp⟩
    have hclean := execK_textClean _ _ (.call .ruleSingleStatement) _ _ _ _ _ _ _ _ _ rfl hk rfl rfl
    obtain ⟨w, new, hr, hg, hl, hab⟩ := execK_abs _ _ _ _ _ _ _ _ _ _ _ _ hk
    rw [List.append_nil] at hg
    subst hg
    have hcase := Eval_SingleStatement_cases (runes Buffer) (runes_lt_end Buffer)
    rw [← Init_runes] at hcase
    rcases hcase with hf | ⟨toks, hok⟩
    · exact absurd (hE.det hf) (by simp)
    · have := hE.det hok
      simp only [ResF.ok.injEq] at this
      obtain ⟨rfl, rfl, rfl⟩ := this
      rw [Init_runes] at hr
      have hw : w = runes Buffer := (List.append_cancel_right hr).symm
      subst hw
      refine ⟨_, hok, ?_, hclean⟩
      apply noWin_of_tsRun _ _ 0
      have h5 := hab (1 <<< 0) 0 (by omega) (testBit_one_shiftLeft 0)
      intro hc
      rw [hc] at h5
      have e : absRun false (.call .ruleSingleStatement) (1 <<< 0) = 15 := by rfl
      rw [e] at h5
      exact absurd h5 (by decide)


/-- The tree of `Parse`, from a run of `execF` with any fuel that is enough. -/
theorem Parse_of_execF (f : Nat) {Buffer : String} {p1 : Nat} {r1 : List Nat}
    {t1 : List token32}
    (h : execF f (.call .ruleSingleStatement) 0 0 (Init (runes Buffer)) [] = .ok p1 r1 t1) :
    Parse Buffer = .nil t1.reverse :=
  Parse_of_eval ⟨f, h, fun hc => ResF.noConfusion hc⟩

/-- A decidable property of the tree of `Parse`, checked on a run of `execF`. -/
theorem Parse_tree_check (f : Nat) (Buffer : String) (P : List token32 → Bool)
    (h : (match execF f (.call .ruleSingleStatement) 0 0 (Init (runes Buffer)) [] with
      | .ok _ _ toks => P toks.reverse
      | _ => false) = true) :
    ∃ tree, Parse Buffer = .nil tree ∧ P tree = true := by
  cases hx : execF f (.call .ruleSingleStatement) 0 0 (Init (runes Buffer)) [] with
  | ok p1 r1 t1 =>
    rw [hx] at h
    exact ⟨_, Parse_of_execF f hx, h⟩
  | oof => rw [hx] at h; exact absurd h (by simp)
  | panic => rw [hx] at h; exact absurd h (by simp)
  | fail => rw [hx] at h; exact absurd h (by simp)

/-- A decidable property of the calls of `Execute`, checked on a run of `execF`. -/
theorem parseExecute_check (f : Nat) (Buffer : String) (P : List Call → Bool)
    (hf : f ≤ parseFuel (runes Buffer).length)
    (h : (match runF f (runes Buffer) .ruleSingleStatement with
      | .calls cs => P cs
      | _ => false) = true) :
    ∃ cs, parseExecute Buffer = .calls cs ∧ P cs = true := by
  cases hx : runF f (runes Buffer) .ruleSingleStatement with
  | calls cs =>
    rw [hx] at h
    exact ⟨cs, parseExecute_calls f hf hx, h⟩
  | oof => rw [hx] at h; exact absurd h (by simp)
  | panic => rw [hx] at h; exact absurd h (by simp)
  | parseError => rw [hx] at h; exact absurd h (by simp)



/-- A rule of the form `R <- <(<lit> ActionN)>` that matches. -/
theorem Eval.token_ok {R A : pegRule} {lit : Peg}
    (hR : grammar R = .expr (.seq (.text lit) (.call A))) (hA : grammar A = .action)
    {d p : Nat} {r : List Nat} {t : List token32} {p1 : Nat} {r1 : List Nat}
    {t1 : List token32} (h : Eval lit (d + 1 + 1) p r t (.ok p1 r1 t1)) :
    Eval (.call R) d p r t (.ok p1 r1
      (⟨R, p, p1, d⟩ :: ⟨A, p1, p1, d + 1⟩ :: ⟨.rulePegText, p, p1, d + 1⟩ :: t1)) :=
  Eval.call_ok hR (Eval.seq_ok (Eval.text_ok h) (Eval.call_action hA _ _ _ _))

/-- A rule of the form `R <- <(<lit> ActionN)>` that does not match. -/
theorem Eval.token_fail {R A : pegRule} {lit : Peg}
    (hR : grammar R = .expr (.seq (.text lit) (.call A)))
    {d p : Nat} {r : List Nat} {t : List token32}
    (h : Eval lit (d + 1 + 1) p r t .fail) : Eval (.call R) d p r t .fail :=
  Eval.call_fail hR (Eval.seq_fail (Eval.text_fail h))

/-! ## The comparison operators -/

theorem grammar_ComparisonOp : grammar .ruleComparisonOp = .expr Body.ruleComparisonOp := rfl
theorem grammar_Equal : grammar .ruleEqual = .expr Body.ruleEqual := rfl
theorem grammar_NotEqual : grammar .ruleNotEqual = .expr Body.ruleNotEqual := rfl
theorem grammar_LessOrEqual : grammar .ruleLessOrEqual = .expr Body.ruleLessOrEqual := rfl
theorem grammar_Less : grammar .ruleLess = .expr Body.ruleLess := rfl
theorem grammar_GreaterOrEqual :
    grammar .ruleGreaterOrEqual = .expr Body.ruleGreaterOrEqual := rfl
theorem grammar_Greater : grammar .ruleGreater = .expr Body.ruleGreater := rfl
theorem grammar_Action105 : grammar .ruleAction105 = .action := rfl
theorem grammar_Action106 : grammar .ruleAction106 = .action := rfl
theorem grammar_Action107 : grammar .ruleAction107 = .action := rfl
theorem grammar_Action108 : grammar .ruleAction108 = .action := rfl
theorem grammar_Action109 : grammar .ruleAction109 = .action := rfl
theorem grammar_Action110 : grammar .ruleAction110 = .action := rfl

/-- A run of `execF` that did not run out of fuel, as a big-step judgement. -/
theorem Eval.of_execF (f : Nat) {e : Peg} {d p : Nat} {r : List Nat} {t : List token32}
    {x : ResF} (h : execF f e d p r t = x) (hx : x ≠ .oof) : Eval e d p r t x :=
  ⟨f, h, hx⟩

/-- Rule `ComparisonOp` on a buffer of two runes or more, run with fuel 13. -/
theorem execF_ComparisonOp (d p c1 c2 : Nat) (r2 : List Nat) (t : List token32) :
    execF 13 (.call .ruleComparisonOp) d p (c1 :: c2 :: r2) t =
      (match comparisonOpSpec (c1 :: c2 :: r2) with
       | some (k, c) => .ok (p + k) ((c1 :: c2 :: r2).drop k)
          (⟨.ruleComparisonOp, p, p + k, d⟩ :: ⟨(comparisonRule c).1, p, p + k, d + 1⟩ ::
           ⟨(comparisonRule c).2, p + k, p + k, d + 2⟩ :: ⟨.rulePegText, p, p + k, d + 2⟩ :: t)
       | none => .fail) := by
  by_cases h1 : c1 = 61
  · subst h1; rfl
  by_cases h2 : c1 = 33
  · subst h2
    by_cases h3 : c2 = 61
    · subst h3; rfl
    · simp [execF_call, grammar_ComparisonOp, grammar_Equal, grammar_NotEqual,
        grammar_LessOrEqual, grammar_Less, grammar_GreaterOrEqual, grammar_Greater,
        Body.ruleComparisonOp, Peg.alts, execF_alt, execF_seq, execF_text, execF_chr,
        Body.ruleEqual, Body.ruleNotEqual, Body.ruleLessOrEqual, Body.ruleLess,
        Body.ruleGreaterOrEqual, Body.ruleGreater, Peg.seqs, comparisonOpSpec, h3]
  by_cases h3 : c1 = 60
  · subst h3
    by_cases h4 : c2 = 62
    · subst h4; rfl
    by_cases h5 : c2 = 61
    · subst h5; rfl
    · simp [execF_call, grammar_ComparisonOp, grammar_Equal, grammar_NotEqual,
        grammar_LessOrEqual, grammar_Less, grammar_GreaterOrEqual, grammar_Greater,
        grammar_Action106,
        Body.ruleComparisonOp, Peg.alts, execF_alt, execF_seq, execF_text, execF_chr,
        Body.ruleEqual, Body.ruleNotEqual, Body.ruleLessOrEqual, Body.ruleLess,
        Body.ruleGreaterOrEqual, Body.ruleGreater, Peg.seqs, comparisonOpSpec, h4, h5,
        comparisonRule]
  by_cases h4 : c1 = 62
  · subst h4
    by_cases h5 : c2 = 61
    · subst h5; rfl
    · simp [execF_call, grammar_ComparisonOp, grammar_Equal, grammar_NotEqual,
        grammar_LessOrEqual, grammar_Less, grammar_GreaterOrEqual, grammar_Greater,
        grammar_Action108,
        Body.ruleComparisonOp, Peg.alts, execF_alt, execF_seq, execF_text, execF_chr,
        Body.ruleEqual, Body.ruleNotEqual, Body.ruleLessOrEqual, Body.ruleLess,
        Body.ruleGreaterOrEqual, Body.ruleGreater, Peg.seqs, comparisonOpSpec, h5,
        comparisonRule]
  · simp [execF_call, grammar_ComparisonOp, grammar_Equal, grammar_NotEqual,
        grammar_LessOrEqual, grammar_Less, grammar_GreaterOrEqual, grammar_Greater,
        Body.ruleComparisonOp, Peg.alts, execF_alt, execF_seq, execF_text, execF_chr,
        Body.ruleEqual, Body.ruleNotEqual, Body.ruleLessOrEqual, Body.ruleLess,
        Body.ruleGreaterOrEqual, Body.ruleGreater, Peg.seqs, comparisonOpSpec, h1, h2, h3, h4]

/-- The spec of the comparison operators does not read the sentinel as an operator rune. -/
theorem comparisonOpSpec_end (text : List Nat) :
    comparisonOpSpec (text ++ [end_symbol]) = comparisonOpSpec text := by
  rcases text with _ | ⟨c1, _ | ⟨c2, tl⟩⟩ <;> simp [comparisonOpSpec, end_symbol]

/-- The spec of the comparison operators gives one or two runes of the text. -/
theorem comparisonOpSpec_le {text : List Nat} {k : Nat} {c : ConstKind}
    (h : comparisonOpSpec text = some (k, c)) : k ≤ text.length ∧ 0 < k := by
  rcases text with _ | ⟨c1, _ | ⟨c2, tl⟩⟩
  · simp [comparisonOpSpec] at h
  · simp only [comparisonOpSpec, List.head?] at h
    split_ifs at h <;> simp_all
    all_goals omega
  · simp only [comparisonOpSpec, List.head?] at h
    split_ifs at h <;> simp_all
    all_goals omega

/-- Rule `ComparisonOp` on a text followed by the sentinel. -/
theorem Eval_ComparisonOp (text : List Nat) (d p : Nat) (t : List token32) :
    Eval (.call .ruleComparisonOp) d p (text ++ [end_symbol]) t
      (match comparisonOpSpec text with
       | some (k, c) => .ok (p + k) (text.drop k ++ [end_symbol])
          (⟨.ruleComparisonOp, p, p + k, d⟩ :: ⟨(comparisonRule c).1, p, p + k, d + 1⟩ ::
           ⟨(comparisonRule c).2, p + k, p + k, d + 2⟩ :: ⟨.rulePegText, p, p + k, d + 2⟩ :: t)
       | none => .fail) := by
  rcases text with _ | ⟨c1, tl⟩
  · exact Eval.of_execF 13 rfl (fun hc => ResF.noConfusion hc)
  · have h := execF_ComparisonOp d p c1 (tl ++ [end_symbol]).head! (tl ++ [end_symbol]).tail t
    have hcons : (c1 :: (tl ++ [end_symbol]).head! :: (tl ++ [end_symbol]).tail) =
        (c1 :: tl) ++ [end_symbol] := by
      cases tl <;> rfl
    rw [hcons, comparisonOpSpec_end] at h
    refine Eval.of_execF 13 (h.trans ?_) ?_
    · cases hs : comparisonOpSpec (c1 :: tl) with
      | none => rfl
      | some kc =>
        obtain ⟨k, c⟩ := kc
        have hk := (comparisonOpSpec_le hs).1
        simp only [List.drop_append_of_le_length hk]
    · cases hs : comparisonOpSpec (c1 :: tl) with
      | none => simp
      | some kc => simp



/-! ## Failure restores the parser state -/

theorem parseFuel_pos (n : Nat) : ∃ m, parseFuel n = m + 1 := by
  refine ⟨parseFuel n - 1, ?_⟩
  have : 0 < parseFuel n := Nat.mul_pos (by omega) (by omega)
  omega

/-- The failure label of a rule function restores `position`, `tokenIndex` and `depth`. -/
theorem ruleCall_fail_restores {Buffer : String} {q : pegRule} {s s' : State}
    (h : ruleCall Buffer q s = .fail s') :
    s'.position = s.position ∧ s'.tokenIndex = s.tokenIndex ∧ s'.depth = s.depth := by
  obtain ⟨m, hm⟩ := parseFuel_pos (runes Buffer).length
  unfold ruleCall at h
  rw [hm, exec_call] at h
  cases hg : grammar q with
  | nil => rw [hg] at h; cases h
  | action => rw [hg] at h; cases h
  | expr body =>
    rw [hg] at h
    simp only [] at h
    cases hx : exec (Init (runes Buffer)) m body { s with depth := s.depth + 1 } with
    | oof => rw [hx] at h; cases h
    | panic => rw [hx] at h; cases h
    | ok s1 => rw [hx] at h; cases h
    | fail s1 =>
      rw [hx] at h
      cases h
      exact ⟨rfl, rfl, rfl⟩

/-- The rule function called in a state whose tree holds `tokenIndex` tokens or more, from
a run of `execF` on the tokens recorded so far. -/
theorem ruleCall_of_eval {Buffer : String} {q : pegRule} {s : State} {res : ResF}
    (hs : s.tokenIndex ≤ s.tree.length)
    (h : Eval (.call q) s.depth s.position ((Init (runes Buffer)).drop s.position)
      (s.tree.take s.tokenIndex).reverse res) :
    Refines (Init (runes Buffer)) (ruleCall Buffer q s) s.depth
      (s.tree.take s.tokenIndex).reverse res := by
  have hlen : ((Init (runes Buffer)).drop s.position).length ≤ (runes Buffer).length + 1 := by
    rw [List.length_drop]
    have := Init_length_le (runes Buffer)
    omega
  have hne := parseFuel_enough (runes Buffer).length q s.depth s.position _
    (s.tree.take s.tokenIndex).reverse hlen
  have hx := h.at_fuel hne
  have hr := exec_execF (Init (runes Buffer)) (parseFuel (runes Buffer).length) (.call q)
    s s.depth s.position _ (s.tree.take s.tokenIndex).reverse
    ⟨rfl, rfl, rfl, by simp [hs], by simp [hs]⟩
  rw [hx] at hr
  exact hr

/-- A rule function that fails returns false with `position`, `tokenIndex` and `depth` as
they were at the call. -/
theorem ruleCall_fail_of_eval {Buffer : String} {q : pegRule} {s : State}
    (hs : s.tokenIndex ≤ s.tree.length)
    (h : Eval (.call q) s.depth s.position ((Init (runes Buffer)).drop s.position)
      (s.tree.take s.tokenIndex).reverse .fail) :
    ∃ s', ruleCall Buffer q s = .fail s' ∧
      s'.position = s.position ∧ s'.tokenIndex = s.tokenIndex ∧ s'.depth = s.depth := by
  obtain ⟨s', h', _⟩ := ruleCall_of_eval hs h
  exact ⟨s', h', ruleCall_fail_restores h'⟩

/-- A rule function that matches returns true with `position` at the end of the match, the
depth unchanged and the new tokens in the tree. -/
theorem ruleCall_ok_of_eval {Buffer : String} {q : pegRule} {s : State} {p1 : Nat}
    {r1 : List Nat} {t1 : List token32}
    (hs : s.tokenIndex ≤ s.tree.length)
    (h : Eval (.call q) s.depth s.position ((Init (runes Buffer)).drop s.position)
      (s.tree.take s.tokenIndex).reverse (.ok p1 r1 t1)) :
    ∃ s', ruleCall Buffer q s = .ok s' ∧ s'.position = p1 ∧ s'.depth = s.depth ∧
      s'.tokenIndex = t1.length ∧ s'.tree.take s'.tokenIndex = t1.reverse := by
  obtain ⟨s', h', hrel, _⟩ := ruleCall_of_eval hs h
  obtain ⟨h1, h2, _, h4, h5⟩ := hrel
  exact ⟨s', h', h1, h2, h4, by rw [h4]; exact h5⟩

/-! ## String literals -/

theorem grammar_StringLiteral : grammar .ruleStringLiteral = .expr Body.ruleStringLiteral := rfl
theorem grammar_Action80 : grammar .ruleAction80 = .action := rfl

/-- The loop `(('\'' '\'') / (!'\'' .))*` of a string literal runs over the items and stops
before a quote that no quote follows, or before the sentinel. -/
theorem Eval_stringLoop (d : Nat) (t : List token32) :
    ∀ (n : Nat) (text : List Nat) (p : Nat), text.length ≤ n →
      (∀ x ∈ text, x ≠ end_symbol) →
      Eval (.star (.alts [.seqs [.chr '\'', .chr '\''], .seqs [.nt (.chr '\''), .dot]])) d p
        (text ++ [end_symbol]) t
        (.ok (p + stringItemsLen text) (text.drop (stringItemsLen text) ++ [end_symbol]) t) := by
  intro n
  induction n with
  | zero =>
    intro text p hl _
    have : text = [] := List.length_eq_zero.mp (Nat.le_zero.mp hl)
    subst this
    exact Eval.of_execF 6 rfl (fun hc => ResF.noConfusion hc)
  | succ n ih =>
    intro text p hl ht
    rcases text with _ | ⟨c, rest⟩
    · exact Eval.of_execF 6 rfl (fun hc => ResF.noConfusion hc)
    · have hce : c ≠ end_symbol := ht c (List.mem_cons_self _ _)
      by_cases hc : c = 39
      · subst hc
        rcases rest with _ | ⟨c2, rest2⟩
        · exact Eval.of_execF 6 rfl (fun hc => ResF.noConfusion hc)
        · by_cases hc2 : c2 = 39
          · subst hc2
            have hrec := ih rest2 (p + 1 + 1) (by simp at hl; omega)
              (fun x hx => ht x (List.mem_cons_of_mem _ (List.mem_cons_of_mem _ hx)))
            have e : stringItemsLen (39 :: 39 :: rest2) = 2 + stringItemsLen rest2 := rfl
            rw [e, show p + (2 + stringItemsLen rest2) = p + 1 + 1 + stringItemsLen rest2 by omega,
              show 2 + stringItemsLen rest2 = stringItemsLen rest2 + 2 by omega,
              show List.drop (stringItemsLen rest2 + 2) (39 :: 39 :: rest2) =
                List.drop (stringItemsLen rest2) rest2 from rfl]
            refine Eval.star_ok ?_ hrec
            exact Eval.of_execF 4 rfl (fun hc => ResF.noConfusion hc)
          · have e : stringItemsLen (39 :: c2 :: rest2) = 0 := by
              have e0 : stringItemsLen (39 :: c2 :: rest2) =
                  if c2 = 39 then 2 + stringItemsLen rest2 else 0 := rfl
              rw [e0, if_neg hc2]
            rw [e]
            apply Eval.star_fail
            refine Eval.of_execF 4 ?_ (fun hc => ResF.noConfusion hc)
            simp [execF_alt, execF_seq, execF_chr, execF_nt, Peg.alts, Peg.seqs, hc2]
      · have hrec := ih rest (p + 1) (by simp at hl; omega)
          (fun x hx => ht x (List.mem_cons_of_mem _ hx))
        have e : stringItemsLen (c :: rest) = 1 + stringItemsLen rest := by
          have e0 : stringItemsLen (c :: rest) =
              if c = 39 then
                (match rest with
                | [] => 0
                | c2 :: rest2 => if c2 = 39 then 2 + stringItemsLen rest2 else 0)
              else 1 + stringItemsLen rest := by
            cases rest <;> rfl
          rw [e0, if_neg hc]
        rw [e, show p + (1 + stringItemsLen rest) = p + 1 + stringItemsLen rest by omega,
          show 1 + stringItemsLen rest = stringItemsLen rest + 1 by omega,
          show List.drop (stringItemsLen rest + 1) (c :: rest) =
            List.drop (stringItemsLen rest) rest from rfl]
        refine Eval.star_ok ?_ hrec
        refine Eval.of_execF 4 ?_ (fun hc => ResF.noConfusion hc)
        simp [execF_alt, execF_seq, execF_chr, execF_nt, execF_dot, Peg.alts, Peg.seqs, hc, hce]



theorem stringItemsLen_le : ∀ (n : Nat) (text : List Nat), text.length ≤ n →
    stringItemsLen text ≤ text.length := by
  intro n
  induction n with
  | zero =>
    intro text hl
    have : text = [] := List.length_eq_zero.mp (Nat.le_zero.mp hl)
    subst this
    exact Nat.le_refl _
  | succ n ih =>
    intro text hl
    rcases text with _ | ⟨c, _ | ⟨c2, rest2⟩⟩
    · exact Nat.le_refl _
    · by_cases hc : c = 39
      · subst hc; exact Nat.zero_le _
      · have e : stringItemsLen [c] = if c = 39 then 0 else 1 := rfl
        rw [e, if_neg hc]; exact Nat.le_refl _
    · have e : stringItemsLen (c :: c2 :: rest2) =
          if c = 39 then (if c2 = 39 then 2 + stringItemsLen rest2 else 0)
          else 1 + stringItemsLen (c2 :: rest2) := rfl
      rw [e]
      have h1 := ih rest2 (by simp at hl; omega)
      have h2 := ih (c2 :: rest2) (by simp at hl ⊢; omega)
      simp only [List.length_cons] at h2 ⊢
      split_ifs <;> omega

/-- Rule `StringLiteral` on a text followed by the sentinel. -/
theorem Eval_StringLiteral (text : List Nat) (htext : ∀ x ∈ text, x ≠ end_symbol)
    (d p : Nat) (t : List token32) :
    Eval (.call .ruleStringLiteral) d p (text ++ [end_symbol]) t
      (match stringLiteralSpec text with
       | some k => .ok (p + k) (text.drop k ++ [end_symbol])
          (⟨.ruleStringLiteral, p, p + k, d⟩ :: ⟨.ruleAction80, p + k, p + k, d + 1⟩ ::
           ⟨.rulePegText, p, p + k, d + 1⟩ :: t)
       | none => .fail) := by
  rcases text with _ | ⟨c, rest⟩
  · exact Eval.of_execF 6 rfl (fun hc => ResF.noConfusion hc)
  · by_cases hc : c = 39
    · subst hc
      have hrest : ∀ x ∈ rest, x ≠ end_symbol := fun x hx => htext x (List.mem_cons_of_mem _ hx)
      have hloop := Eval_stringLoop (d + 1 + 1) t rest.length rest (p + 1) (Nat.le_refl _) hrest
      have h1 : Eval (.chr '\'') (d + 1 + 1) p ((39 :: rest) ++ [end_symbol]) t
          (.ok (p + 1) (rest ++ [end_symbol]) t) :=
        Eval.of_execF 1 rfl (fun hc => ResF.noConfusion hc)
      have hk := stringItemsLen_le rest.length rest (Nat.le_refl _)
      have e : stringLiteralSpec (39 :: rest) =
          if (rest.drop (stringItemsLen rest)).head? = some 39
          then some (stringItemsLen rest + 2) else none := rfl
      rw [e]
      rcases hd : rest.drop (stringItemsLen rest) with _ | ⟨y, ys⟩
      · rw [hd] at hloop
        simp only [List.head?, reduceCtorEq, if_false]
        refine Eval.token_fail grammar_StringLiteral ?_
        refine Eval.seq_ok h1 (Eval.seq_ok hloop ?_)
        exact Eval.of_execF 1 rfl (fun hc => ResF.noConfusion hc)
      · rw [hd] at hloop
        by_cases hy : y = 39
        · subst hy
          simp only [List.head?, if_true]
          have hdrop : List.drop (stringItemsLen rest + 2) (39 :: rest) = ys := by
            rw [show stringItemsLen rest + 2 = (stringItemsLen rest + 1) + 1 by omega,
              List.drop_succ_cons, ← List.drop_drop, hd]
            rfl
          rw [hdrop, show p + (stringItemsLen rest + 2) = p + 1 + stringItemsLen rest + 1 by omega]
          refine Eval.token_ok grammar_StringLiteral grammar_Action80 ?_
          refine Eval.seq_ok h1 (Eval.seq_ok hloop ?_)
          exact Eval.of_execF 1 rfl (fun hc => ResF.noConfusion hc)
        · simp only [List.head?, Option.some.injEq, hy, if_false]
          refine Eval.token_fail grammar_StringLiteral ?_
          refine Eval.seq_ok h1 (Eval.seq_ok hloop ?_)
          refine Eval.of_execF 1 ?_ (fun hc => ResF.noConfusion hc)
          simp [execF_chr, hy]
    · have e : stringLiteralSpec (c :: rest) = none := by
        have e0 : stringLiteralSpec (c :: rest) =
          if c = 39 then (if (rest.drop (stringItemsLen rest)).head? = some 39
          then some (stringItemsLen rest + 2) else none) else none := rfl
        rw [e0, if_neg hc]
      rw [e]
      refine Eval.token_fail grammar_StringLiteral (Eval.seq_fail ?_)
      refine Eval.of_execF 1 ?_ (fun hc => ResF.noConfusion hc)
      simp [execF_chr, hc]



theorem stringItemsLen_cons_cons (c c2 : Nat) (rest2 : List Nat) :
    stringItemsLen (c :: c2 :: rest2) =
      if c = 39 then (if c2 = 39 then 2 + stringItemsLen rest2 else 0)
      else 1 + stringItemsLen (c2 :: rest2) := rfl

theorem stringItemsLen_single (c : Nat) :
    stringItemsLen [c] = if c = 39 then 0 else 1 := rfl

theorem stringItemsLen_cons_ne (c : Nat) (rest : List Nat) (hc : c ≠ 39) :
    stringItemsLen (c :: rest) = 1 + stringItemsLen rest := by
  cases rest with
  | nil => rw [stringItemsLen_single, if_neg hc]; rfl
  | cons c2 rest2 => rw [stringItemsLen_cons_cons, if_neg hc]

theorem stringLiteralSpec_cons (c : Nat) (rest : List Nat) :
    stringLiteralSpec (c :: rest) =
      if c = 39 then (if (rest.drop (stringItemsLen rest)).head? = some 39
        then some (stringItemsLen rest + 2) else none) else none := rfl

/-- The run of items that `stringItemsLen` measures is a sequence of items, and no item
starts where it ends. -/
theorem stringItems_of_len : ∀ (n : Nat) (text : List Nat), text.length ≤ n →
    ∃ items : List (List Nat), (∀ i ∈ items, isStringItem i = true) ∧
      items.flatten = text.take (stringItemsLen text) ∧
      stringItemsLen (text.drop (stringItemsLen text)) = 0 := by
  intro n
  induction n with
  | zero =>
    intro text hl
    have : text = [] := List.length_eq_zero.mp (Nat.le_zero.mp hl)
    subst this
    exact ⟨[], by simp, rfl, rfl⟩
  | succ n ih =>
    intro text hl
    rcases text with _ | ⟨c, _ | ⟨c2, rest2⟩⟩
    · exact ⟨[], by simp, rfl, rfl⟩
    · by_cases hc : c = 39
      · subst hc
        exact ⟨[], by simp, rfl, rfl⟩
      · refine ⟨[[c]], ?_, ?_, ?_⟩
        · intro i hi
          simp only [List.mem_singleton] at hi
          subst hi
          simp [isStringItem, hc]
        · rw [stringItemsLen_single, if_neg hc]; rfl
        · rw [stringItemsLen_single, if_neg hc]; rfl
    · rw [stringItemsLen_cons_cons]
      by_cases hc : c = 39
      · subst hc
        by_cases hc2 : c2 = 39
        · subst hc2
          obtain ⟨items, h1, h2, h3⟩ := ih rest2 (by simp at hl; omega)
          refine ⟨[39, 39] :: items, ?_, ?_, ?_⟩
          · intro i hi
            rcases List.mem_cons.mp hi with rfl | hi
            · rfl
            · exact h1 i hi
          · simp only [if_true, List.flatten_cons, h2]
            rw [show 2 + stringItemsLen rest2 = stringItemsLen rest2 + 1 + 1 by omega]
            rfl
          · simp only [if_true]
            rw [show 2 + stringItemsLen rest2 = stringItemsLen rest2 + 1 + 1 by omega]
            exact h3
        · simp only [if_true, if_neg hc2]
          refine ⟨[], by simp, rfl, ?_⟩
          simp only [List.drop_zero]
          rw [stringItemsLen_cons_cons]
          simp [hc2]
      · obtain ⟨items, h1, h2, h3⟩ := ih (c2 :: rest2) (by simp at hl ⊢; omega)
        refine ⟨[c] :: items, ?_, ?_, ?_⟩
        · intro i hi
          rcases List.mem_cons.mp hi with rfl | hi
          · simp [isStringItem, hc]
          · exact h1 i hi
        · simp only [if_neg hc, List.flatten_cons, h2]
          rw [show 1 + stringItemsLen (c2 :: rest2) = stringItemsLen (c2 :: rest2) + 1 by omega]
          rfl
        · simp only [if_neg hc]
          rw [show 1 + stringItemsLen (c2 :: rest2) = stringItemsLen (c2 :: rest2) + 1 by omega]
          exact h3

/-- A sequence of items followed by a quote that no quote follows is the run of items that
`stringItemsLen` measures. -/
theorem stringItemsLen_join : ∀ (items : List (List Nat)) (tail : List Nat),
    (∀ i ∈ items, isStringItem i = true) → tail.head? ≠ some 39 →
    stringItemsLen (items.flatten ++ 39 :: tail) = items.flatten.length := by
  intro items
  induction items with
  | nil =>
    intro tail _ ht
    rcases tail with _ | ⟨c2, tl⟩
    · rfl
    · simp only [List.flatten_nil, List.nil_append, List.length_nil]
      rw [stringItemsLen_cons_cons]
      have : c2 ≠ 39 := fun h => ht (by rw [h]; rfl)
      simp [this]
  | cons i items ih =>
    intro tail hi ht
    have h0 := hi i (List.mem_cons_self _ _)
    have hrec := ih tail (fun j hj => hi j (List.mem_cons_of_mem _ hj)) ht
    rcases i with _ | ⟨c, _ | ⟨c2, _ | ⟨c3, more⟩⟩⟩
    · simp [isStringItem] at h0
    · have hc : c ≠ 39 := by simpa [isStringItem] using h0
      rw [List.flatten_cons, List.singleton_append, List.cons_append,
        stringItemsLen_cons_ne _ _ hc, hrec, List.length_cons]
      omega
    · have hc : c = 39 ∧ c2 = 39 := by simpa [isStringItem] using h0
      obtain ⟨rfl, rfl⟩ := hc
      have e : ([39, 39] :: items).flatten ++ 39 :: tail =
          39 :: 39 :: (items.flatten ++ 39 :: tail) := rfl
      have e2 : ([39, 39] :: items).flatten.length = items.flatten.length + 2 := by
        simp [List.flatten_cons]
      rw [e, e2, stringItemsLen_cons_cons]
      simp only [if_true, hrec]
      omega
    · simp [isStringItem] at h0

/-- The string literal read by `stringLiteralSpec`, in the words of the spec: the text is a
quote, a sequence of items, and a closing quote that no quote follows. -/
theorem stringLiteralSpec_iff (text : List Nat) (k : Nat) :
    stringLiteralSpec text = some k ↔
      ∃ (items : List (List Nat)) (tail : List Nat),
        (∀ i ∈ items, isStringItem i = true) ∧
        text = 39 :: (items.flatten ++ 39 :: tail) ∧ tail.head? ≠ some 39 ∧
        k = items.flatten.length + 2 := by
  constructor
  · intro h
    rcases text with _ | ⟨c, rest⟩
    · simp [stringLiteralSpec] at h
    · rw [stringLiteralSpec_cons] at h
      by_cases hc : c = 39
      · subst hc
        simp only [if_true] at h
        obtain ⟨items, h1, h2, h3⟩ := stringItems_of_len rest.length rest (Nat.le_refl _)
        rcases hd : rest.drop (stringItemsLen rest) with _ | ⟨y, tail⟩
        · rw [hd] at h; simp at h
        · rw [hd] at h h3
          by_cases hy : y = 39
          · subst hy
            simp only [List.head?, if_true, Option.some.injEq] at h
            refine ⟨items, tail, h1, ?_, ?_, ?_⟩
            · rw [h2, ← hd, List.take_append_drop]
            · intro ht
              rcases tail with _ | ⟨c2, tl⟩
              · simp at ht
              · simp only [List.head?, Option.some.injEq] at ht
                subst ht
                rw [stringItemsLen_cons_cons] at h3
                simp at h3
            · rw [h2, List.length_take, ← h]
              have := stringItemsLen_le rest.length rest (Nat.le_refl _)
              omega
          · simp [hy] at h
      · simp [hc] at h
  · rintro ⟨items, tail, h1, rfl, ht, rfl⟩
    rw [stringLiteralSpec_cons]
    have hl := stringItemsLen_join items tail h1 ht
    simp only [if_true, hl, List.drop_left, List.head?]



/-! ## Numeric and float literals -/

theorem grammar_Literal : grammar .ruleLiteral = .expr Body.ruleLiteral := rfl
theorem grammar_NumericLiteral :
    grammar .ruleNumericLiteral = .expr Body.ruleNumericLiteral := rfl
theorem grammar_FloatLiteral : grammar .ruleFloatLiteral = .expr Body.ruleFloatLiteral := rfl
theorem grammar_Action73 : grammar .ruleAction73 = .action := rfl
theorem grammar_Action74 : grammar .ruleAction74 = .action := rfl

theorem isDigit_iff (x : Nat) : isDigit x = true ↔ 48 ≤ x ∧ x ≤ 57 := by
  simp [isDigit]

theorem isDigit_false_iff (x : Nat) : isDigit x = false ↔ (x < 48 ∨ 57 < x) := by
  rw [← Bool.not_eq_true, isDigit_iff]
  omega

/-- The range test `[0-9]` on the rune at the head of the buffer. -/
theorem Eval_digit (d p x : Nat) (r : List Nat) (t : List token32) :
    Eval (.rng '0' '9') d p (x :: r) t (if isDigit x then .ok (p + 1) r t else .fail) := by
  refine Eval.of_execF 1 ?_ ?_
  · rw [execF_rng]
    by_cases h : isDigit x = true
    · have := (isDigit_iff x).mp h
      simp [h, show ¬ (x < 48) by omega, show ¬ (57 < x) by omega]
    · have h' : isDigit x = false := by simpa using h
      have := (isDigit_false_iff x).mp h'
      simp [h', this]
  · split <;> simp

/-- The loop `[0-9]*` runs over the digits at the head of the buffer. -/
theorem Eval_digitStar (d : Nat) (t : List token32) (c : Nat) (r : List Nat)
    (hc : isDigit c = false) :
    ∀ (ds : List Nat) (p : Nat), ds.all isDigit = true →
      Eval (.star (.rng '0' '9')) d p (ds ++ c :: r) t (.ok (p + ds.length) (c :: r) t) := by
  intro ds
  induction ds with
  | nil =>
    intro p _
    apply Eval.star_fail
    have := Eval_digit d p c r t
    rwa [hc] at this
  | cons x xs ih =>
    intro p h
    simp only [List.all_cons, Bool.and_eq_true] at h
    have h1 := Eval_digit d p x (xs ++ c :: r) t
    rw [h.1] at h1
    have h2 := ih (p + 1) h.2
    rw [show p + (x :: xs).length = p + 1 + xs.length by simp; omega]
    exact Eval.star_ok h1 h2

/-- The digits `[0-9]+` of a number: a non-empty digit string before a rune that is no
digit. -/
theorem Eval_digitPlus (d : Nat) (t : List token32) (c : Nat) (r : List Nat)
    (hc : isDigit c = false) (ds : List Nat) (p : Nat) (h : isDigits ds = true) :
    Eval (.plus (.rng '0' '9')) d p (ds ++ c :: r) t (.ok (p + ds.length) (c :: r) t) := by
  rcases ds with _ | ⟨x, xs⟩
  · simp [isDigits] at h
  · simp only [isDigits, List.isEmpty_cons, Bool.not_false, Bool.true_and, List.all_cons,
      Bool.and_eq_true] at h
    have h1 := Eval_digit d p x (xs ++ c :: r) t
    rw [h.1] at h1
    have h2 := Eval_digitStar d t c r hc xs (p + 1) h.2
    rw [show p + (x :: xs).length = p + 1 + xs.length by simp; omega]
    exact Eval.seq_ok h1 h2

/-- The digits `[0-9]+` fail where no digit stands. -/
theorem Eval_digitPlus_fail (d p : Nat) (t : List token32) (c : Nat) (r : List Nat)
    (hc : isDigit c = false) :
    Eval (.plus (.rng '0' '9')) d p (c :: r) t .fail := by
  apply Eval.seq_fail
  have := Eval_digit d p c r t
  rwa [hc] at this

/-- The optional sign `'-'?` before a rune that is no `-`. -/
theorem Eval_sign (d p : Nat) (t : List token32) (neg : Bool) (x : Nat) (r : List Nat)
    (hx : x ≠ 45) :
    Eval (.opt (.chr '-')) d p (signText neg ++ x :: r) t
      (.ok (p + (signText neg).length) (x :: r) t) := by
  cases neg with
  | true => exact Eval.of_execF 2 rfl (fun hc => ResF.noConfusion hc)
  | false =>
    refine Eval.of_execF 2 ?_ (fun hc => ResF.noConfusion hc)
    simp [signText, execF_opt, execF_chr, hx]

theorem isDigits_head {ds : List Nat} (h : isDigits ds = true) :
    ∃ x xs, ds = x :: xs ∧ isDigit x = true ∧ x ≠ 45 := by
  rcases ds with _ | ⟨x, xs⟩
  · simp [isDigits] at h
  · simp only [isDigits, List.isEmpty_cons, Bool.not_false, Bool.true_and, List.all_cons,
      Bool.and_eq_true] at h
    have := (isDigit_iff x).mp h.1
    exact ⟨x, xs, rfl, h.1, by omega⟩

/-- The text `'-'? [0-9]+` of a number, before a rune that is no digit. -/
theorem Eval_signedDigits (d p : Nat) (t : List token32) (neg : Bool) (ds : List Nat)
    (c : Nat) (r : List Nat) (hds : isDigits ds = true) (hc : isDigit c = false) :
    Eval (.seq (.opt (.chr '-')) (.plus (.rng '0' '9'))) d p
      (signText neg ++ ds ++ c :: r) t
      (.ok (p + (signText neg).length + ds.length) (c :: r) t) := by
  obtain ⟨x, xs, rfl, _, hx⟩ := isDigits_head hds
  have h1 := Eval_sign d p t neg x (xs ++ c :: r) hx
  have h2 := Eval_digitPlus d t c r hc (x :: xs) (p + (signText neg).length) hds
  rw [List.append_assoc]
  exact Eval.seq_ok h1 h2

/-- Rule `NumericLiteral` on a signed digit string before a rune that is no digit. -/
theorem Eval_NumericLiteral (d p : Nat) (t : List token32) (neg : Bool) (ds : List Nat)
    (c : Nat) (r : List Nat) (hds : isDigits ds = true) (hc : isDigit c = false) :
    Eval (.call .ruleNumericLiteral) d p (signText neg ++ ds ++ c :: r) t
      (.ok (p + (signText neg).length + ds.length) (c :: r)
        (⟨.ruleNumericLiteral, p, p + (signText neg).length + ds.length, d⟩ ::
         ⟨.ruleAction73, p + (signText neg).length + ds.length,
           p + (signText neg).length + ds.length, d + 1⟩ ::
         ⟨.rulePegText, p, p + (signText neg).length + ds.length, d + 1⟩ :: t)) :=
  Eval.token_ok grammar_NumericLiteral grammar_Action73
    (Eval_signedDigits (d + 1 + 1) p t neg ds c r hds hc)

/-- Rule `FloatLiteral` on a signed digit string, a `.` and a digit string, before a rune
that is no digit. -/
theorem Eval_FloatLiteral (d p : Nat) (t : List token32) (neg : Bool) (d1 d2 : List Nat)
    (c : Nat) (r : List Nat) (h1 : isDigits d1 = true) (h2 : isDigits d2 = true)
    (hc : isDigit c = false) :
    Eval (.call .ruleFloatLiteral) d p (signText neg ++ d1 ++ 46 :: (d2 ++ c :: r)) t
      (.ok (p + (signText neg).length + d1.length + 1 + d2.length) (c :: r)
        (⟨.ruleFloatLiteral, p, p + (signText neg).length + d1.length + 1 + d2.length, d⟩ ::
         ⟨.ruleAction74, p + (signText neg).length + d1.length + 1 + d2.length,
           p + (signText neg).length + d1.length + 1 + d2.length, d + 1⟩ ::
         ⟨.rulePegText, p, p + (signText neg).length + d1.length + 1 + d2.length, d + 1⟩ ::
         t)) := by
  refine Eval.token_ok grammar_FloatLiteral grammar_Action74 ?_
  obtain ⟨x, xs, rfl, _, hx⟩ := isDigits_head h1
  have e1 := Eval_sign (d + 1 + 1) p t neg x (xs ++ 46 :: (d2 ++ c :: r)) hx
  have e2 := Eval_digitPlus (d + 1 + 1) t 46 (d2 ++ c :: r) (by decide) (x :: xs)
    (p + (signText neg).length) h1
  have e3 : Eval (.chr '.') (d + 1 + 1) (p + (signText neg).length + (x :: xs).length)
      (46 :: (d2 ++ c :: r)) t
      (.ok (p + (signText neg).length + (x :: xs).length + 1) (d2 ++ c :: r) t) :=
    Eval.of_execF 1 rfl (fun hc => ResF.noConfusion hc)
  have e4 := Eval_digitPlus (d + 1 + 1) t c r hc d2
    (p + (signText neg).length + (x :: xs).length + 1) h2
  rw [List.append_assoc]
  exact Eval.seq_ok e1 (Eval.seq_ok e2 (Eval.seq_ok e3 e4))

/-- Rule `FloatLiteral` fails on a signed digit string that no `.` and digit follow. -/
theorem Eval_FloatLiteral_fail (d p : Nat) (t : List token32) (neg : Bool) (ds : List Nat)
    (c : Nat) (r : List Nat) (hds : isDigits ds = true) (hc : isDigit c = false)
    (hf : c ≠ 46 ∨ ∃ c2 r2, r = c2 :: r2 ∧ isDigit c2 = false) :
    Eval (.call .ruleFloatLiteral) d p (signText neg ++ ds ++ c :: r) t .fail := by
  refine Eval.token_fail grammar_FloatLiteral ?_
  obtain ⟨x, xs, rfl, _, hx⟩ := isDigits_head hds
  have e1 := Eval_sign (d + 1 + 1) p t neg x (xs ++ c :: r) hx
  have e2 := Eval_digitPlus (d + 1 + 1) t c r hc (x :: xs)
    (p + (signText neg).length) hds
  rw [List.append_assoc]
  refine Eval.seq_ok e1 (Eval.seq_ok e2 ?_)
  by_cases h46 : c = 46
  · subst h46
    rcases hf with hf | ⟨c2, r2, rfl, hc2⟩
    · exact absurd rfl hf
    · have e3 : Eval (.chr '.') (d + 1 + 1) (p + (signText neg).length + (x :: xs).length)
          (46 :: c2 :: r2) t
          (.ok (p + (signText neg).length + (x :: xs).length + 1) (c2 :: r2) t) :=
        Eval.of_execF 1 rfl (fun hc => ResF.noConfusion hc)
      exact Eval.seq_ok e3 (Eval_digitPlus_fail _ _ _ _ _ hc2)
  · apply Eval.seq_fail
    refine Eval.of_execF 1 ?_ (fun hc => ResF.noConfusion hc)
    simp [execF_chr, h46]

/-- Rule `Literal` on a float: the first alternative matches. -/
theorem Eval_Literal_float (d p : Nat) (t : List token32) (neg : Bool) (d1 d2 : List Nat)
    (c : Nat) (r : List Nat) (h1 : isDigits d1 = true) (h2 : isDigits d2 = true)
    (hc : isDigit c = false) :
    Eval (.call .ruleLiteral) d p (signText neg ++ d1 ++ 46 :: (d2 ++ c :: r)) t
      (.ok (p + (signText neg).length + d1.length + 1 + d2.length) (c :: r)
        (⟨.ruleLiteral, p, p + (signText neg).length + d1.length + 1 + d2.length, d⟩ ::
         ⟨.ruleFloatLiteral, p, p + (signText neg).length + d1.length + 1 + d2.length,
           d + 1⟩ ::
         ⟨.ruleAction74, p + (signText neg).length + d1.length + 1 + d2.length,
           p + (signText neg).length + d1.length + 1 + d2.length, d + 1 + 1⟩ ::
         ⟨.rulePegText, p, p + (signText neg).length + d1.length + 1 + d2.length,
           d + 1 + 1⟩ :: t)) :=
  Eval.call_ok grammar_Literal
    (Eval.alt_ok (Eval_FloatLiteral (d + 1) p t neg d1 d2 c r h1 h2 hc))

/-- Rule `Literal` on an integer: the float alternative fails and the second matches. -/
theorem Eval_Literal_int (d p : Nat) (t : List token32) (neg : Bool) (ds : List Nat)
    (c : Nat) (r : List Nat) (hds : isDigits ds = true) (hc : isDigit c = false)
    (hf : c ≠ 46 ∨ ∃ c2 r2, r = c2 :: r2 ∧ isDigit c2 = false) :
    Eval (.call .ruleLiteral) d p (signText neg ++ ds ++ c :: r) t
      (.ok (p + (signText neg).length + ds.length) (c :: r)
        (⟨.ruleLiteral, p, p + (signText neg).length + ds.length, d⟩ ::
         ⟨.ruleNumericLiteral, p, p + (signText neg).length + ds.length, d + 1⟩ ::
         ⟨.ruleAction73, p + (signText neg).length + ds.length,
           p + (signText neg).length + ds.length, d + 1 + 1⟩ ::
         ⟨.rulePegText, p, p + (signText neg).length + ds.length, d + 1 + 1⟩ :: t)) :=
  Eval.call_ok grammar_Literal
    (Eval.alt_fail (Eval_FloatLiteral_fail (d + 1) p t neg ds c r hds hc hf)
      (Eval.alt_ok (Eval_NumericLiteral (d + 1) p t neg ds c r hds hc)))

/-- What follows a number in a text that ends with the sentinel: a rune that is no digit,
and no `.` with a digit after it. -/
theorem number_follow (rest : List Nat) (hd : startsDigit rest = false)
    (hf : startsFraction rest = false) :
    ∃ c r, rest ++ [end_symbol] = c :: r ∧ isDigit c = false ∧
      (c ≠ 46 ∨ ∃ c2 r2, r = c2 :: r2 ∧ isDigit c2 = false) := by
  rcases rest with _ | ⟨c, _ | ⟨c2, r⟩⟩
  · exact ⟨end_symbol, [], rfl, by decide, Or.inl (by decide)⟩
  · exact ⟨c, [end_symbol], rfl, by simpa [startsDigit] using hd,
      Or.inr ⟨end_symbol, [], rfl, by decide⟩⟩
  · refine ⟨c, c2 :: (r ++ [end_symbol]), rfl, by simpa [startsDigit] using hd, ?_⟩
    by_cases h46 : c = 46
    · subst h46
      exact Or.inr ⟨c2, _, rfl, by simpa [startsFraction] using hf⟩
    · exact Or.inl h46



/-! ## Elements of a list before a delimiter -/

/-- Rule `spOpt` where no whitespace stands: it matches the empty text. -/
theorem execF_spOpt_zero (d p x y : Nat) (r : List Nat) (t : List token32)
    (h : noSpHead (x :: y :: r) = true) :
    execF 12 (.call .rulespOpt) d p (x :: y :: r) t =
      .ok p (x :: y :: r) (⟨.rulespOpt, p, p, d⟩ :: t) := by
  simp only [noSpHead, Bool.and_eq_true, bne_iff_ne, ne_eq, Bool.not_eq_true',
    Bool.and_eq_false_imp, beq_iff_eq, beq_eq_false_iff_ne] at h
  obtain ⟨⟨⟨⟨h1, h2⟩, h3⟩, h4⟩, h5⟩ := h
  by_cases hx : x = 45
  · subst hx
    have hy := h5 rfl
    simp [execF_call, execF_star, execF_alt, execF_seq, execF_chr, grammar_spOpt,
      grammar_spElem, grammar_comment, grammar_finalComment, Body.rulespOpt, Body.rulespElem,
      Body.rulecomment, Body.rulefinalComment, Peg.alts, Peg.seqs, hy]
  · simp [execF_call, execF_star, execF_alt, execF_seq, execF_chr, grammar_spOpt,
      grammar_spElem, grammar_comment, grammar_finalComment, Body.rulespOpt, Body.rulespElem,
      Body.rulecomment, Body.rulefinalComment, Peg.alts, Peg.seqs, h1, h2, h3, h4, hx]

theorem noSpHead_append {e : List Nat} (h : noSpHead e = true) (c : Nat) (r : List Nat)
    (hc : c ≠ 45) :
    ∃ x y r', e ++ c :: r = x :: y :: r' ∧ noSpHead (x :: y :: r') = true := by
  rcases e with _ | ⟨x, _ | ⟨y, e'⟩⟩
  · simp [noSpHead] at h
  · refine ⟨x, c, r, rfl, ?_⟩
    simp only [noSpHead, Bool.and_eq_true, bne_iff_ne, ne_eq] at h ⊢
    simp [h.1, hc]
  · exact ⟨x, y, e' ++ c :: r, rfl, h⟩

/-- Rule `spOpt` before an element that does not start with whitespace. -/
theorem Eval_spOpt_zero (d p : Nat) (t : List token32) {e : List Nat}
    (h : noSpHead e = true) (c : Nat) (r : List Nat) (hc : c ≠ 45) :
    Eval (.call .rulespOpt) d p (e ++ c :: r) t
      (.ok p (e ++ c :: r) (⟨.rulespOpt, p, p, d⟩ :: t)) := by
  obtain ⟨x, y, r', he, hn⟩ := noSpHead_append h c r hc
  rw [he]
  exact Eval.of_execF 12 (execF_spOpt_zero d p x y r' t hn) (fun hc => ResF.noConfusion hc)

/-- Rule `spOpt` on one blank before an element that does not start with whitespace. -/
theorem Eval_spOpt_blank (d p : Nat) (t : List token32) {e : List Nat}
    (h : noSpHead e = true) (c : Nat) (r : List Nat) (hc : c ≠ 45) :
    Eval (.call .rulespOpt) d p (32 :: (e ++ c :: r)) t
      (.ok (p + 1) (e ++ c :: r)
        (⟨.rulespOpt, p, p + 1, d⟩ :: ⟨.rulespElem, p, p + 1, d + 1⟩ :: t)) := by
  obtain ⟨x, y, r', he, hn⟩ := noSpHead_append h c r hc
  rw [he]
  simp only [noSpHead, Bool.and_eq_true, bne_iff_ne, ne_eq, Bool.not_eq_true',
    Bool.and_eq_false_imp, beq_iff_eq, beq_eq_false_iff_ne] at hn
  obtain ⟨⟨⟨⟨h1, h2⟩, h3⟩, h4⟩, h5⟩ := hn
  refine Eval.of_execF 14 ?_ (fun hc => ResF.noConfusion hc)
  by_cases hx : x = 45
  · subst hx
    have hy := h5 rfl
    simp [execF_call, execF_star, execF_alt, execF_seq, execF_chr, grammar_spOpt,
      grammar_spElem, grammar_comment, grammar_finalComment, Body.rulespOpt, Body.rulespElem,
      Body.rulecomment, Body.rulefinalComment, Peg.alts, Peg.seqs, hy]
  · simp [execF_call, execF_star, execF_alt, execF_seq, execF_chr, grammar_spOpt,
      grammar_spElem, grammar_comment, grammar_finalComment, Body.rulespOpt, Body.rulespElem,
      Body.rulecomment, Body.rulefinalComment, Peg.alts, Peg.seqs, h1, h2, h3, h4, hx]

/-- Rule `spOpt` before a `,`, a `]` or a `}`. -/
theorem Eval_spOpt_delim (d p : Nat) (t : List token32) (c : Nat) (r : List Nat)
    (hc : c = 44 ∨ c = 93 ∨ c = 125) :
    Eval (.call .rulespOpt) d p (c :: r) t (.ok p (c :: r) (⟨.rulespOpt, p, p, d⟩ :: t)) := by
  rcases hc with rfl | rfl | rfl <;>
    exact Eval.of_execF 12 rfl (fun hc => ResF.noConfusion hc)

/-- A level of the form `X <- <(<(inner tail)> ActionN)>` whose tail matches nothing before
a delimiter. -/
theorem DelimAt.wrap {X A : pegRule} {inner tail : Peg} {close : Nat} {text : List Nat}
    {d p : Nat} {t : List token32}
    (hX : grammar X = .expr (.seq (.text (.seq inner tail)) (.call A)))
    (hA : grammar A = .action)
    (htail : ∀ (c : Nat) (r : List Nat) (d p : Nat) (t : List token32), c = 44 ∨ c = close →
      Eval tail d p (c :: r) t (.ok p (c :: r) t))
    (h : DelimAt inner close text (d + 1 + 1) p t) :
    DelimAt (.call X) close text d p t := by
  obtain ⟨new, hn⟩ := h
  refine ⟨⟨X, p, p + text.length, d⟩ :: ⟨A, p + text.length, p + text.length, d + 1⟩ ::
    ⟨.rulePegText, p, p + text.length, d + 1⟩ :: new, ?_⟩
  intro c r hc
  exact Eval.token_ok hX hA (Eval.seq_ok (hn c r hc) (htail c r _ _ _ hc))

/-- A level of the form `X <- <(<(pre inner)> ActionN)>` whose optional prefix is absent. -/
theorem DelimAt.wrap_pre {X A : pegRule} {pre inner : Peg} {close : Nat} {text : List Nat}
    {d p : Nat} {t : List token32}
    (hX : grammar X = .expr (.seq (.text (.seq pre inner)) (.call A)))
    (hA : grammar A = .action)
    (hpre : ∀ (c : Nat) (r : List Nat), c = 44 ∨ c = close →
      Eval pre (d + 1 + 1) p (text ++ c :: r) t (.ok p (text ++ c :: r) t))
    (h : DelimAt inner close text (d + 1 + 1) p t) :
    DelimAt (.call X) close text d p t := by
  obtain ⟨new, hn⟩ := h
  refine ⟨⟨X, p, p + text.length, d⟩ :: ⟨A, p + text.length, p + text.length, d + 1⟩ ::
    ⟨.rulePegText, p, p + text.length, d + 1⟩ :: new, ?_⟩
  intro c r hc
  exact Eval.token_ok hX hA (Eval.seq_ok (hpre c r hc) (hn c r hc))

/-- A rule whose body is one expression: `X <- <inner>`. -/
theorem DelimAt.call {X : pegRule} {inner : Peg} {close : Nat} {text : List Nat}
    {d p : Nat} {t : List token32} (hX : grammar X = .expr inner)
    (h : DelimAt inner close text (d + 1) p t) : DelimAt (.call X) close text d p t := by
  obtain ⟨new, hn⟩ := h
  refine ⟨⟨X, p, p + text.length, d⟩ :: new, ?_⟩
  intro c r hc
  exact Eval.call_ok hX (hn c r hc)

/-- The second branch of a choice whose first branch fails on the text. -/
theorem DelimAt.alt_right {a b : Peg} {close : Nat} {text : List Nat}
    {d p : Nat} {t : List token32}
    (ha : ∀ (c : Nat) (r : List Nat), c = 44 ∨ c = close →
      Eval a d p (text ++ c :: r) t .fail)
    (h : DelimAt b close text d p t) : DelimAt (.alt a b) close text d p t := by
  obtain ⟨new, hn⟩ := h
  exact ⟨new, fun c r hc => Eval.alt_fail (ha c r hc) (hn c r hc)⟩

/-- The first branch of a choice. -/
theorem DelimAt.alt_left {a b : Peg} {close : Nat} {text : List Nat}
    {d p : Nat} {t : List token32}
    (h : DelimAt a close text d p t) : DelimAt (.alt a b) close text d p t := by
  obtain ⟨new, hn⟩ := h
  exact ⟨new, fun c r hc => Eval.alt_ok (hn c r hc)⟩



/-! ## Literals as elements of a list -/

theorem grammar_Expression : grammar .ruleExpression = .expr Body.ruleExpression := rfl
theorem grammar_ExpressionOrWildcard :
    grammar .ruleExpressionOrWildcard = .expr Body.ruleExpressionOrWildcard := rfl
theorem grammar_orExpr : grammar .ruleorExpr = .expr Body.ruleorExpr := rfl
theorem grammar_andExpr : grammar .ruleandExpr = .expr Body.ruleandExpr := rfl
theorem grammar_notExpr : grammar .rulenotExpr = .expr Body.rulenotExpr := rfl
theorem grammar_comparisonExpr :
    grammar .rulecomparisonExpr = .expr Body.rulecomparisonExpr := rfl
theorem grammar_otherOpExpr : grammar .ruleotherOpExpr = .expr Body.ruleotherOpExpr := rfl
theorem grammar_isExpr : grammar .ruleisExpr = .expr Body.ruleisExpr := rfl
theorem grammar_termExpr : grammar .ruletermExpr = .expr Body.ruletermExpr := rfl
theorem grammar_productExpr : grammar .ruleproductExpr = .expr Body.ruleproductExpr := rfl
theorem grammar_minusExpr : grammar .ruleminusExpr = .expr Body.ruleminusExpr := rfl
theorem grammar_castExpr : grammar .rulecastExpr = .expr Body.rulecastExpr := rfl
theorem grammar_baseExpr : grammar .rulebaseExpr = .expr Body.rulebaseExpr := rfl
theorem grammar_ParamLiteral : grammar .ruleParamLiteral = .expr Body.ruleParamLiteral := rfl
theorem grammar_UnaryMinus : grammar .ruleUnaryMinus = .expr Body.ruleUnaryMinus := rfl
theorem grammar_Action50 : grammar .ruleAction50 = .action := rfl
theorem grammar_Action51 : grammar .ruleAction51 = .action := rfl
theorem grammar_Action52 : grammar .ruleAction52 = .action := rfl
theorem grammar_Action53 : grammar .ruleAction53 = .action := rfl
theorem grammar_Action54 : grammar .ruleAction54 = .action := rfl
theorem grammar_Action55 : grammar .ruleAction55 = .action := rfl
theorem grammar_Action56 : grammar .ruleAction56 = .action := rfl
theorem grammar_Action57 : grammar .ruleAction57 = .action := rfl
theorem grammar_Action58 : grammar .ruleAction58 = .action := rfl
theorem grammar_Action59 : grammar .ruleAction59 = .action := rfl
theorem grammar_Action119 : grammar .ruleAction119 = .action := rfl

theorem digit_cases {x : Nat} (h : isDigit x = true) :
    x = 48 ∨ x = 49 ∨ x = 50 ∨ x = 51 ∨ x = 52 ∨ x = 53 ∨ x = 54 ∨ x = 55 ∨ x = 56 ∨
      x = 57 := by
  have := (isDigit_iff x).mp h
  omega

/-- What the rules tried before a literal do on its first rune (a digit, a quote or a `-`):
`Wildcard` and `BooleanLiteral` fail, and the optional `Not sp` is absent. -/
theorem literal_first (x : Nat) (h : isDigit x = true ∨ x = 39 ∨ x = 45) (d p : Nat)
    (r : List Nat) (t : List token32) :
    Eval (.call .ruleWildcard) d p (x :: r) t .fail ∧
    Eval (.call .ruleBooleanLiteral) d p (x :: r) t .fail ∧
    Eval (.opt (.seqs [.call .ruleNot, .call .rulesp])) d p (x :: r) t (.ok p (x :: r) t) := by
  have hx : x = 48 ∨ x = 49 ∨ x = 50 ∨ x = 51 ∨ x = 52 ∨ x = 53 ∨ x = 54 ∨ x = 55 ∨
      x = 56 ∨ x = 57 ∨ x = 39 ∨ x = 45 := by
    rcases h with h | h | h
    · have := digit_cases h; omega
    · omega
    · omega
  rcases hx with rfl | rfl | rfl | rfl | rfl | rfl | rfl | rfl | rfl | rfl | rfl | rfl <;>
    exact ⟨Eval.of_execF 20 rfl (fun hc => ResF.noConfusion hc),
      Eval.of_execF 20 rfl (fun hc => ResF.noConfusion hc),
      Eval.of_execF 20 rfl (fun hc => ResF.noConfusion hc)⟩

/-- What `minusExpr` and `baseExpr` try before a literal fails on its first rune, when this
is a digit or a quote: the optional `UnaryMinus spOpt` is absent and the nine alternatives
before `Literal` fail. -/
theorem unsigned_first (x : Nat) (h : isDigit x = true ∨ x = 39) (d p : Nat)
    (r : List Nat) (t : List token32) :
    Eval (.opt (.seqs [.call .ruleUnaryMinus, .call .rulespOpt])) d p (x :: r) t
      (.ok p (x :: r) t) ∧
    Eval (.seqs [.chr '(', .call .rulespOpt, .call .ruleExpression, .call .rulespOpt,
      .chr ')']) d p (x :: r) t .fail ∧
    Eval (.call .ruleMapExpr) d p (x :: r) t .fail ∧
    Eval (.call .ruleBooleanLiteral) d p (x :: r) t .fail ∧
    Eval (.call .ruleNullLiteral) d p (x :: r) t .fail ∧
    Eval (.call .ruleRowMeta) d p (x :: r) t .fail ∧
    Eval (.call .ruleFuncTypeCast) d p (x :: r) t .fail ∧
    Eval (.call .ruleFuncApp) d p (x :: r) t .fail ∧
    Eval (.call .ruleRowValue) d p (x :: r) t .fail ∧
    Eval (.call .ruleArrayExpr) d p (x :: r) t .fail := by
  have hx : x = 48 ∨ x = 49 ∨ x = 50 ∨ x = 51 ∨ x = 52 ∨ x = 53 ∨ x = 54 ∨ x = 55 ∨
      x = 56 ∨ x = 57 ∨ x = 39 := by
    rcases h with h | h
    · have := digit_cases h; omega
    · omega
  rcases hx with rfl | rfl | rfl | rfl | rfl | rfl | rfl | rfl | rfl | rfl | rfl <;>
    exact ⟨Eval.of_execF 20 rfl (fun hc => ResF.noConfusion hc),
      Eval.of_execF 20 rfl (fun hc => ResF.noConfusion hc),
      Eval.of_execF 20 rfl (fun hc => ResF.noConfusion hc),
      Eval.of_execF 20 rfl (fun hc => ResF.noConfusion hc),
      Eval.of_execF 20 rfl (fun hc => ResF.noConfusion hc),
      Eval.of_execF 20 rfl (fun hc => ResF.noConfusion hc),
      Eval.of_execF 20 rfl (fun hc => ResF.noConfusion hc),
      Eval.of_execF 20 rfl (fun hc => ResF.noConfusion hc),
      Eval.of_execF 20 rfl (fun hc => ResF.noConfusion hc),
      Eval.of_execF 20 rfl (fun hc => ResF.noConfusion hc)⟩

/-- The tails of the expression levels match nothing before a `,`, a `]` or a `}`. -/
theorem level_tails (c : Nat) (hc : c = 44 ∨ c = 93 ∨ c = 125) (d p : Nat) (r : List Nat)
    (t : List token32) :
    Eval (.star (.seqs [.call .rulesp, .call .ruleOr, .call .rulesp, .call .ruleandExpr]))
      d p (c :: r) t (.ok p (c :: r) t) ∧
    Eval (.star (.seqs [.call .rulesp, .call .ruleAnd, .call .rulesp, .call .rulenotExpr]))
      d p (c :: r) t (.ok p (c :: r) t) ∧
    Eval (.opt (.seqs [.call .rulespOpt, .call .ruleComparisonOp, .call .rulespOpt,
      .call .ruleotherOpExpr])) d p (c :: r) t (.ok p (c :: r) t) ∧
    Eval (.star (.seqs [.call .rulespOpt, .call .ruleOtherOp, .call .rulespOpt,
      .call .ruleisExpr])) d p (c :: r) t (.ok p (c :: r) t) ∧
    Eval (.opt (.seqs [.call .rulesp, .call .ruleIsOp, .call .rulesp, .call .ruleNullLiteral]))
      d p (c :: r) t (.ok p (c :: r) t) ∧
    Eval (.star (.seqs [.call .rulespOpt, .call .rulePlusMinusOp, .call .rulespOpt,
      .call .ruleproductExpr])) d p (c :: r) t (.ok p (c :: r) t) ∧
    Eval (.star (.seqs [.call .rulespOpt, .call .ruleMultDivOp, .call .rulespOpt,
      .call .ruleminusExpr])) d p (c :: r) t (.ok p (c :: r) t) ∧
    Eval (.opt (.seqs [.call .rulespOpt, .seqs [.chr ':', .chr ':'], .call .rulespOpt,
      .call .ruleType])) d p (c :: r) t (.ok p (c :: r) t) := by
  rcases hc with rfl | rfl | rfl <;>
    exact ⟨Eval.of_execF 24 rfl (fun hc => ResF.noConfusion hc),
      Eval.of_execF 24 rfl (fun hc => ResF.noConfusion hc),
      Eval.of_execF 24 rfl (fun hc => ResF.noConfusion hc),
      Eval.of_execF 24 rfl (fun hc => ResF.noConfusion hc),
      Eval.of_execF 24 rfl (fun hc => ResF.noConfusion hc),
      Eval.of_execF 24 rfl (fun hc => ResF.noConfusion hc),
      Eval.of_execF 24 rfl (fun hc => ResF.noConfusion hc),
      Eval.of_execF 24 rfl (fun hc => ResF.noConfusion hc)⟩



/-- The loop of a string literal over a sequence of items, before the closing quote. -/
theorem Eval_stringLoop_items (d : Nat) (t : List token32) (c : Nat) (r : List Nat)
    (hc : c ≠ 39) :
    ∀ (items : List (List Nat)) (p : Nat),
      items.all (fun i => isStringItem i && i.all (fun x => x != end_symbol)) = true →
      Eval (.star (.alts [.seqs [.chr '\'', .chr '\''], .seqs [.nt (.chr '\''), .dot]])) d p
        (items.flatten ++ 39 :: c :: r) t
        (.ok (p + items.flatten.length) (39 :: c :: r) t) := by
  intro items
  induction items with
  | nil =>
    intro p _
    apply Eval.star_fail
    refine Eval.of_execF 4 ?_ (fun hc => ResF.noConfusion hc)
    simp [execF_alt, execF_seq, execF_chr, execF_nt, Peg.alts, Peg.seqs, hc]
  | cons i items ih =>
    intro p h
    simp only [List.all_cons, Bool.and_eq_true] at h
    obtain ⟨⟨h0, he⟩, hrest⟩ := h
    rcases i with _ | ⟨x, _ | ⟨x2, _ | ⟨x3, more⟩⟩⟩
    · simp [isStringItem] at h0
    · have hx : x ≠ 39 := by simpa [isStringItem] using h0
      have hxe : x ≠ end_symbol := by simpa using he
      have hrec := ih (p + 1) hrest
      rw [show ([x] :: items).flatten ++ 39 :: c :: r = x :: (items.flatten ++ 39 :: c :: r)
        from rfl, show p + ([x] :: items).flatten.length = p + 1 + items.flatten.length by
          simp [List.flatten_cons]; omega]
      refine Eval.star_ok ?_ hrec
      refine Eval.of_execF 4 ?_ (fun hc => ResF.noConfusion hc)
      simp [execF_alt, execF_seq, execF_chr, execF_nt, execF_dot, Peg.alts, Peg.seqs, hx, hxe]
    · have hx : x = 39 ∧ x2 = 39 := by simpa [isStringItem] using h0
      obtain ⟨rfl, rfl⟩ := hx
      have hrec := ih (p + 1 + 1) hrest
      rw [show ([39, 39] :: items).flatten ++ 39 :: c :: r =
          39 :: 39 :: (items.flatten ++ 39 :: c :: r) from rfl,
        show p + ([39, 39] :: items).flatten.length = p + 1 + 1 + items.flatten.length by
          simp [List.flatten_cons]; omega]
      refine Eval.star_ok ?_ hrec
      exact Eval.of_execF 4 rfl (fun hc => ResF.noConfusion hc)
    · simp [isStringItem] at h0

/-- Rule `Literal` on a string literal before a rune that is no quote. -/
theorem Eval_Literal_str (d p : Nat) (t : List token32) (items : List (List Nat)) (c : Nat)
    (r : List Nat) (hc : c ≠ 39)
    (h : items.all (fun i => isStringItem i && i.all (fun x => x != end_symbol)) = true) :
    Eval (.call .ruleLiteral) d p (39 :: (items.flatten ++ [39]) ++ c :: r) t
      (.ok (p + (39 :: (items.flatten ++ [39])).length) (c :: r)
        (⟨.ruleLiteral, p, p + (39 :: (items.flatten ++ [39])).length, d⟩ ::
         ⟨.ruleStringLiteral, p, p + (39 :: (items.flatten ++ [39])).length, d + 1⟩ ::
         ⟨.ruleAction80, p + (39 :: (items.flatten ++ [39])).length,
           p + (39 :: (items.flatten ++ [39])).length, d + 1 + 1⟩ ::
         ⟨.rulePegText, p, p + (39 :: (items.flatten ++ [39])).length, d + 1 + 1⟩ :: t)) := by
  have e : 39 :: (items.flatten ++ [39]) ++ c :: r = 39 :: (items.flatten ++ 39 :: c :: r) := by
    simp
  have el : (39 :: (items.flatten ++ [39])).length = items.flatten.length + 2 := by simp
  rw [e, el]
  refine Eval.call_ok grammar_Literal (Eval.alt_fail ?_ (Eval.alt_fail ?_ ?_))
  · exact Eval.of_execF 10 rfl (fun hc => ResF.noConfusion hc)
  · exact Eval.of_execF 10 rfl (fun hc => ResF.noConfusion hc)
  · have hloop := Eval_stringLoop_items (d + 1 + 1 + 1) t c r hc items (p + 1) h
    have h1 : Eval (.chr '\'') (d + 1 + 1 + 1) p (39 :: (items.flatten ++ 39 :: c :: r)) t
        (.ok (p + 1) (items.flatten ++ 39 :: c :: r) t) :=
      Eval.of_execF 1 rfl (fun hc => ResF.noConfusion hc)
    have h3 : Eval (.chr '\'') (d + 1 + 1 + 1) (p + 1 + items.flatten.length) (39 :: c :: r) t
        (.ok (p + 1 + items.flatten.length + 1) (c :: r) t) :=
      Eval.of_execF 1 rfl (fun hc => ResF.noConfusion hc)
    have := Eval.token_ok grammar_StringLiteral grammar_Action80
      (Eval.seq_ok h1 (Eval.seq_ok hloop h3)) (d := d + 1)
    rw [show p + (items.flatten.length + 2) = p + 1 + items.flatten.length + 1 by omega]
    exact this

/-- A literal is an element of rule `Literal`. -/
theorem DelimAt_Literal (e : LiteralForm) (hwf : e.wf = true) (close : Nat)
    (hclose : close = 93 ∨ close = 125) (d p : Nat) (t : List token32) :
    DelimAt (.call .ruleLiteral) close e.text d p t := by
  have hdel : ∀ c, c = 44 ∨ c = close → isDigit c = false ∧ c ≠ 46 ∧ c ≠ 39 := by
    intro c hc
    rcases hc with rfl | rfl
    · decide
    · rcases hclose with rfl | rfl <;> decide
  cases e with
  | int neg ds =>
    refine ⟨[⟨.ruleLiteral, p, p + (signText neg ++ ds).length, d⟩,
      ⟨.ruleNumericLiteral, p, p + (signText neg ++ ds).length, d + 1⟩,
      ⟨.ruleAction73, p + (signText neg ++ ds).length, p + (signText neg ++ ds).length,
        d + 1 + 1⟩,
      ⟨.rulePegText, p, p + (signText neg ++ ds).length, d + 1 + 1⟩], fun c r hc => ?_⟩
    have hd := hdel c hc
    have := Eval_Literal_int d p t neg ds c r hwf hd.1 (Or.inl hd.2.1)
    simpa [LiteralForm.text, Nat.add_assoc] using this
  | float neg d1 d2 =>
    simp only [LiteralForm.wf, Bool.and_eq_true] at hwf
    refine ⟨[⟨.ruleLiteral, p, p + (signText neg ++ d1 ++ 46 :: d2).length, d⟩,
      ⟨.ruleFloatLiteral, p, p + (signText neg ++ d1 ++ 46 :: d2).length, d + 1⟩,
      ⟨.ruleAction74, p + (signText neg ++ d1 ++ 46 :: d2).length,
        p + (signText neg ++ d1 ++ 46 :: d2).length, d + 1 + 1⟩,
      ⟨.rulePegText, p, p + (signText neg ++ d1 ++ 46 :: d2).length, d + 1 + 1⟩],
      fun c r hc => ?_⟩
    have hd := hdel c hc
    have := Eval_Literal_float d p t neg d1 d2 c r hwf.1 hwf.2 hd.1
    simpa [LiteralForm.text, Nat.add_assoc, Nat.add_comm 1] using this
  | str items =>
    refine ⟨[⟨.ruleLiteral, p, p + (39 :: (items.flatten ++ [39])).length, d⟩,
      ⟨.ruleStringLiteral, p, p + (39 :: (items.flatten ++ [39])).length, d + 1⟩,
      ⟨.ruleAction80, p + (39 :: (items.flatten ++ [39])).length,
        p + (39 :: (items.flatten ++ [39])).length, d + 1 + 1⟩,
      ⟨.rulePegText, p, p + (39 :: (items.flatten ++ [39])).length, d + 1 + 1⟩],
      fun c r hc => ?_⟩
    have hd := hdel c hc
    exact Eval_Literal_str d p t items c r hd.2.2 hwf

/-- The first rune of the text of a literal without a sign is a digit or a quote. -/
theorem LiteralForm.unsigned_head (e : LiteralForm) (hwf : e.wf = true)
    (hs : ∀ neg ds, e ≠ .int neg ds ∨ neg = false)
    (hf : ∀ neg d1 d2, e ≠ .float neg d1 d2 ∨ neg = false) :
    ∃ x tl, e.text = x :: tl ∧ (isDigit x = true ∨ x = 39) := by
  cases e with
  | int neg ds =>
    have : neg = false := by
      rcases hs neg ds with h | h
      · exact absurd rfl h
      · exact h
    subst this
    obtain ⟨x, xs, rfl, hx, _⟩ := isDigits_head hwf
    exact ⟨x, xs, rfl, Or.inl hx⟩
  | float neg d1 d2 =>
    have : neg = false := by
      rcases hf neg d1 d2 with h | h
      · exact absurd rfl h
      · exact h
    subst this
    simp only [LiteralForm.wf, Bool.and_eq_true] at hwf
    obtain ⟨x, xs, rfl, hx, _⟩ := isDigits_head hwf.1
    exact ⟨x, xs ++ 46 :: d2, rfl, Or.inl hx⟩
  | str items => exact ⟨39, items.flatten ++ [39], rfl, Or.inr rfl⟩



theorem delim_cases {c close : Nat} (hclose : close = 93 ∨ close = 125)
    (hc : c = 44 ∨ c = close) : c = 44 ∨ c = 93 ∨ c = 125 := by
  rcases hc with rfl | rfl
  · exact Or.inl rfl
  · rcases hclose with rfl | rfl
    · exact Or.inr (Or.inl rfl)
    · exact Or.inr (Or.inr rfl)

/-- A literal without a sign is an element of rule `castExpr`. -/
theorem DelimAt_castExpr {close : Nat} (hclose : close = 93 ∨ close = 125) {text : List Nat}
    {x : Nat} {tl : List Nat} (htext : text = x :: tl) (hx : isDigit x = true ∨ x = 39)
    (hL : ∀ d p t, DelimAt (.call .ruleLiteral) close text d p t) (d p : Nat)
    (t : List token32) : DelimAt (.call .rulecastExpr) close text d p t := by
  refine DelimAt.wrap grammar_castExpr grammar_Action59
    (fun c r d p t hc => (level_tails c (delim_cases hclose hc) d p r t).2.2.2.2.2.2.2) ?_
  refine DelimAt.call grammar_baseExpr ?_
  have hf := fun c r => unsigned_first x hx (d + 1 + 1 + 1) p (tl ++ c :: r) t
  subst htext
  refine DelimAt.alt_right (fun c r _ => (hf c r).2.1) ?_
  refine DelimAt.alt_right (fun c r _ => (hf c r).2.2.1) ?_
  refine DelimAt.alt_right (fun c r _ => (hf c r).2.2.2.1) ?_
  refine DelimAt.alt_right (fun c r _ => (hf c r).2.2.2.2.1) ?_
  refine DelimAt.alt_right (fun c r _ => (hf c r).2.2.2.2.2.1) ?_
  refine DelimAt.alt_right (fun c r _ => (hf c r).2.2.2.2.2.2.1) ?_
  refine DelimAt.alt_right (fun c r _ => (hf c r).2.2.2.2.2.2.2.1) ?_
  refine DelimAt.alt_right (fun c r _ => (hf c r).2.2.2.2.2.2.2.2.1) ?_
  refine DelimAt.alt_right (fun c r _ => (hf c r).2.2.2.2.2.2.2.2.2) ?_
  exact hL _ _ _

/-- A literal without a sign is an element of rule `minusExpr`: no `UnaryMinus` before it. -/
theorem DelimAt_minusExpr {close : Nat} (hclose : close = 93 ∨ close = 125) {text : List Nat}
    {x : Nat} {tl : List Nat} (htext : text = x :: tl) (hx : isDigit x = true ∨ x = 39)
    (hL : ∀ d p t, DelimAt (.call .ruleLiteral) close text d p t) (d p : Nat)
    (t : List token32) : DelimAt (.call .ruleminusExpr) close text d p t := by
  refine DelimAt.wrap_pre grammar_minusExpr grammar_Action58 ?_
    (DelimAt_castExpr hclose htext hx hL _ _ _)
  intro c r _
  subst htext
  exact (unsigned_first x hx (d + 1 + 1) p (tl ++ c :: r) t).1

/-- A literal with a sign is an element of rule `minusExpr`: the `-` is read by `UnaryMinus`
and the digits after it are the literal. -/
theorem DelimAt_minusExpr_signed {close : Nat} (hclose : close = 93 ∨ close = 125)
    {text : List Nat} {x : Nat} {tl : List Nat} (htext : text = x :: tl)
    (hx : isDigit x = true)
    (hL : ∀ d p t, DelimAt (.call .ruleLiteral) close text d p t) (d p : Nat)
    (t : List token32) : DelimAt (.call .ruleminusExpr) close (45 :: text) d p t := by
  obtain ⟨new, hn⟩ := DelimAt_castExpr hclose htext (Or.inl hx) hL (d + 1 + 1) (p + 1)
    (⟨.rulespOpt, p + 1, p + 1, d + 1 + 1⟩ :: ⟨.ruleUnaryMinus, p, p + 1, d + 1 + 1⟩ ::
      ⟨.ruleAction119, p + 1, p + 1, d + 1 + 1 + 1⟩ ::
      ⟨.rulePegText, p, p + 1, d + 1 + 1 + 1⟩ :: t)
  refine ⟨⟨.ruleminusExpr, p, p + (45 :: text).length, d⟩ ::
    ⟨.ruleAction58, p + (45 :: text).length, p + (45 :: text).length, d + 1⟩ ::
    ⟨.rulePegText, p, p + (45 :: text).length, d + 1⟩ :: (new ++
    [⟨.rulespOpt, p + 1, p + 1, d + 1 + 1⟩, ⟨.ruleUnaryMinus, p, p + 1, d + 1 + 1⟩,
      ⟨.ruleAction119, p + 1, p + 1, d + 1 + 1 + 1⟩,
      ⟨.rulePegText, p, p + 1, d + 1 + 1 + 1⟩]), ?_⟩
  intro c r hc
  have h1 : Eval (.call .ruleUnaryMinus) (d + 1 + 1) p (45 :: text ++ c :: r) t
      (.ok (p + 1) (text ++ c :: r) (⟨.ruleUnaryMinus, p, p + 1, d + 1 + 1⟩ ::
        ⟨.ruleAction119, p + 1, p + 1, d + 1 + 1 + 1⟩ ::
        ⟨.rulePegText, p, p + 1, d + 1 + 1 + 1⟩ :: t)) :=
    Eval.of_execF 5 rfl (fun hc => ResF.noConfusion hc)
  have hns : noSpHead text = true := by
    subst htext
    have := (isDigit_iff x).mp hx
    rcases tl with _ | ⟨y, tl'⟩ <;>
      simp [noSpHead] <;> omega
  have hc45 : c ≠ 45 := by
    rcases delim_cases hclose hc with rfl | rfl | rfl <;> decide
  have h2 := Eval_spOpt_zero (d + 1 + 1) (p + 1) (⟨.ruleUnaryMinus, p, p + 1, d + 1 + 1⟩ ::
        ⟨.ruleAction119, p + 1, p + 1, d + 1 + 1 + 1⟩ ::
        ⟨.rulePegText, p, p + 1, d + 1 + 1 + 1⟩ :: t) hns c r hc45
  have h3 := hn c r hc
  have hpre : Eval (.opt (.seqs [.call .ruleUnaryMinus, .call .rulespOpt])) (d + 1 + 1) p
      (45 :: text ++ c :: r) t (.ok (p + 1) (text ++ c :: r)
        (⟨.rulespOpt, p + 1, p + 1, d + 1 + 1⟩ :: ⟨.ruleUnaryMinus, p, p + 1, d + 1 + 1⟩ ::
          ⟨.ruleAction119, p + 1, p + 1, d + 1 + 1 + 1⟩ ::
          ⟨.rulePegText, p, p + 1, d + 1 + 1 + 1⟩ :: t)) :=
    Eval.opt_ok (Eval.seq_ok h1 h2)
  have := Eval.token_ok grammar_minusExpr grammar_Action58 (Eval.seq_ok hpre h3) (d := d)
  simpa [Nat.add_assoc, Nat.add_comm 1] using this

/-- An element of rule `minusExpr` that starts like a literal is an element of rule
`ExpressionOrWildcard`: every level above adds its own three tokens. -/
theorem DelimAt_ExpressionOrWildcard {close : Nat} (hclose : close = 93 ∨ close = 125)
    {text : List Nat} {x : Nat} {tl : List Nat} (htext : text = x :: tl)
    (hx : isDigit x = true ∨ x = 39 ∨ x = 45)
    (hM : ∀ d p t, DelimAt (.call .ruleminusExpr) close text d p t) (d p : Nat)
    (t : List token32) : DelimAt (.call .ruleExpressionOrWildcard) close text d p t := by
  have ht := fun c r d p t (hc : c = 44 ∨ c = close) =>
    level_tails c (delim_cases hclose hc) d p r t
  refine DelimAt.call grammar_ExpressionOrWildcard ?_
  refine DelimAt.alt_right ?_ ?_
  · intro c r _
    subst htext
    exact (literal_first x hx (d + 1) p (tl ++ c :: r) t).1
  refine DelimAt.call grammar_Expression ?_
  refine DelimAt.wrap grammar_orExpr grammar_Action50
    (fun c r d p t hc => (ht c r d p t hc).1) ?_
  refine DelimAt.wrap grammar_andExpr grammar_Action51
    (fun c r d p t hc => (ht c r d p t hc).2.1) ?_
  refine DelimAt.wrap_pre grammar_notExpr grammar_Action52 ?_ ?_
  · intro c r _
    subst htext
    exact (literal_first x hx _ p (tl ++ c :: r) t).2.2
  refine DelimAt.wrap grammar_comparisonExpr grammar_Action53
    (fun c r d p t hc => (ht c r d p t hc).2.2.1) ?_
  refine DelimAt.wrap grammar_otherOpExpr grammar_Action54
    (fun c r d p t hc => (ht c r d p t hc).2.2.2.1) ?_
  refine DelimAt.wrap grammar_isExpr grammar_Action55
    (fun c r d p t hc => (ht c r d p t hc).2.2.2.2.1) ?_
  refine DelimAt.wrap grammar_termExpr grammar_Action56
    (fun c r d p t hc => (ht c r d p t hc).2.2.2.2.2.1) ?_
  refine DelimAt.wrap grammar_productExpr grammar_Action57
    (fun c r d p t hc => (ht c r d p t hc).2.2.2.2.2.2.1) ?_
  exact hM _ _ _



theorem signText_false : signText false = [] := rfl
theorem signText_true : signText true = [45] := rfl

/-- The text of a literal starts with a digit, a quote or a `-`, and not with whitespace. -/
theorem LiteralForm.head (e : LiteralForm) (hwf : e.wf = true) :
    (∃ x tl, e.text = x :: tl ∧ (isDigit x = true ∨ x = 39 ∨ x = 45)) ∧
      noSpHead e.text = true := by
  have key : ∀ (neg : Bool) (ds : List Nat) (more : List Nat), isDigits ds = true →
      (∃ x tl, signText neg ++ ds ++ more = x :: tl ∧ (isDigit x = true ∨ x = 39 ∨ x = 45)) ∧
      noSpHead (signText neg ++ ds ++ more) = true := by
    intro neg ds more hds
    obtain ⟨x, xs, rfl, hx, _⟩ := isDigits_head hds
    have hx' := (isDigit_iff x).mp hx
    cases neg with
    | false =>
      refine ⟨⟨x, xs ++ more, rfl, Or.inl hx⟩, ?_⟩
      rw [signText_false]
      rcases hxs : xs ++ more with _ | ⟨y, tl'⟩ <;>
        simp [noSpHead, hxs] <;> omega
    | true =>
      refine ⟨⟨45, x :: xs ++ more, rfl, Or.inr (Or.inr rfl)⟩, ?_⟩
      rw [signText_true]
      simp [noSpHead]
      omega
  cases e with
  | int neg ds =>
    have := key neg ds [] hwf
    simpa [LiteralForm.text] using this
  | float neg d1 d2 =>
    simp only [LiteralForm.wf, Bool.and_eq_true] at hwf
    exact key neg d1 (46 :: d2) hwf.1
  | str items =>
    refine ⟨⟨39, items.flatten ++ [39], rfl, Or.inr (Or.inl rfl)⟩, ?_⟩
    simp only [LiteralForm.text]
    rcases hxs : items.flatten ++ ['\''.toNat] with _ | ⟨y, tl'⟩
    · simp at hxs
    · simp [noSpHead]

/-- A literal is an element of rule `ParamLiteral`. -/
theorem Delimited_ParamLiteral (e : LiteralForm) (hwf : e.wf = true) :
    Delimited .ruleParamLiteral 93 e.text := by
  intro d p t
  obtain ⟨⟨x, tl, htext, hx⟩, _⟩ := e.head hwf
  refine DelimAt.call grammar_ParamLiteral (DelimAt.alt_right ?_
    (DelimAt_Literal e hwf 93 (Or.inl rfl) _ _ _))
  intro c r _
  rw [htext]
  exact (literal_first x hx (d + 1) p (tl ++ c :: r) t).2.1

/-- A literal is an element of rule `ExpressionOrWildcard`. -/
theorem Delimited_ExpressionOrWildcard (e : LiteralForm) (hwf : e.wf = true) {close : Nat}
    (hclose : close = 93 ∨ close = 125) :
    Delimited .ruleExpressionOrWildcard close e.text := by
  intro d p t
  obtain ⟨⟨x, tl, htext, hx⟩, _⟩ := e.head hwf
  refine DelimAt_ExpressionOrWildcard hclose htext hx ?_ d p t
  have key : ∀ (neg : Bool) (u : LiteralForm), u.wf = true →
      (∃ y ys, u.text = y :: ys ∧ isDigit y = true) →
      ∀ d p t, DelimAt (.call .ruleminusExpr) close (signText neg ++ u.text) d p t := by
    intro neg u hu hy d p t
    obtain ⟨y, ys, hys, hy⟩ := hy
    cases neg with
    | false =>
      rw [signText_false, List.nil_append]
      exact DelimAt_minusExpr hclose hys (Or.inl hy)
        (fun d p t => DelimAt_Literal u hu close hclose d p t) d p t
    | true =>
      exact DelimAt_minusExpr_signed hclose hys hy
        (fun d p t => DelimAt_Literal u hu close hclose d p t) d p t
  cases e with
  | int neg ds =>
    obtain ⟨y, ys, hys, hy, _⟩ := isDigits_head hwf
    have := key neg (.int false ds) hwf ⟨y, ys, by simp [LiteralForm.text, signText, hys], hy⟩
    simpa [LiteralForm.text, signText_false] using this
  | float neg d1 d2 =>
    have hwf' := hwf
    simp only [LiteralForm.wf, Bool.and_eq_true] at hwf'
    obtain ⟨y, ys, hys, hy, _⟩ := isDigits_head hwf'.1
    have := key neg (.float false d1 d2) hwf
      ⟨y, ys ++ 46 :: d2, by simp [LiteralForm.text, signText, hys], hy⟩
    simpa [LiteralForm.text, signText_false] using this
  | str items =>
    exact @DelimAt_minusExpr close hclose _ 39 (items.flatten ++ [39]) rfl (Or.inr rfl)
      (fun d p t => DelimAt_Literal (.str items) hwf close hclose d p t)



/-! ## The element lists of array and map literals -/

theorem grammar_ArrayExpr : grammar .ruleArrayExpr = .expr Body.ruleArrayExpr := rfl
theorem grammar_ParamArrayExpr :
    grammar .ruleParamArrayExpr = .expr Body.ruleParamArrayExpr := rfl
theorem grammar_MapExpr : grammar .ruleMapExpr = .expr Body.ruleMapExpr := rfl
theorem grammar_KeyValuePair : grammar .ruleKeyValuePair = .expr Body.ruleKeyValuePair := rfl
theorem grammar_Action48 : grammar .ruleAction48 = .action := rfl
theorem grammar_Action67 : grammar .ruleAction67 = .action := rfl
theorem grammar_Action68 : grammar .ruleAction68 = .action := rfl
theorem grammar_Action69 : grammar .ruleAction69 = .action := rfl

theorem sepText_nil : sepText [] = [] := rfl

theorem sepText_cons (e : List Nat) (es : List (List Nat)) :
    sepText (e :: es) = 44 :: 32 :: (e ++ sepText es) := by
  simp [sepText]

/-- What follows an element of a list: a `,` or the closing rune. -/
theorem sepText_next (es : List (List Nat)) (close : Nat) (E : List Nat)
    (hE : ∃ r, E = close :: r ∨ E = 44 :: close :: r) :
    ∃ c r', sepText es ++ E = c :: r' ∧ (c = 44 ∨ c = close) := by
  rcases es with _ | ⟨e, es⟩
  · obtain ⟨r, rfl | rfl⟩ := hE
    · exact ⟨close, r, rfl, Or.inr rfl⟩
    · exact ⟨44, close :: r, rfl, Or.inl rfl⟩
  · exact ⟨44, 32 :: (e ++ sepText es) ++ E, by rw [sepText_cons]; rfl, Or.inl rfl⟩

theorem chr_fail {c : Char} {x : Nat} (h : x ≠ c.toNat) (d p : Nat) (r : List Nat)
    (t : List token32) : Eval (.chr c) d p (x :: r) t .fail := by
  refine Eval.of_execF 1 ?_ (fun hc => ResF.noConfusion hc)
  simp [execF_chr, h]

theorem chr_ok (c : Char) (d p : Nat) (r : List Nat) (t : List token32) :
    Eval (.chr c) d p (c.toNat :: r) t (.ok (p + 1) r t) := by
  refine Eval.of_execF 1 ?_ (fun hc => ResF.noConfusion hc)
  simp [execF_chr]

/-- The loop `(spOpt ',' spOpt q)*` of an array or map literal runs over the elements
`, e1, ..., en` and stops before the closing rune, or before a trailing comma. -/
theorem Eval_sepStar (q : pegRule) (close : Nat) (hclose : close = 93 ∨ close = 125)
    (hq : ∀ d p r t, Eval (.call q) d p (close :: r) t .fail) :
    ∀ (es : List (List Nat)), (∀ e ∈ es, Delimited q close e ∧ noSpHead e = true) →
    ∀ (d p : Nat) (t : List token32), ∃ new : List token32, ∀ E : List Nat,
      (∃ r, E = close :: r ∨ E = 44 :: close :: r) →
      Eval (.star (.seqs [.call .rulespOpt, .chr ',', .call .rulespOpt, .call q])) d p
        (sepText es ++ E) t (.ok (p + (sepText es).length) E (new ++ t)) := by
  have hc44 : close ≠ 44 := by rcases hclose with rfl | rfl <;> decide
  have hc45 : close ≠ 45 := by rcases hclose with rfl | rfl <;> decide
  have hcl : close = 44 ∨ close = 93 ∨ close = 125 := Or.inr hclose
  intro es
  induction es with
  | nil =>
    intro _ d p t
    refine ⟨[], ?_⟩
    rintro E ⟨r, rfl | rfl⟩
    · apply Eval.star_fail
      exact Eval.seq_ok (Eval_spOpt_delim d p t close r hcl)
        (Eval.seq_fail (chr_fail hc44 _ _ _ _))
    · apply Eval.star_fail
      exact Eval.seq_ok (Eval_spOpt_delim d p t 44 (close :: r) (Or.inl rfl))
        (Eval.seq_ok (chr_ok ',' _ _ _ _)
          (Eval.seq_ok (Eval_spOpt_delim d (p + 1) _ close r hcl) (hq _ _ _ _)))
  | cons e es ih =>
    intro h d p t
    obtain ⟨hde, hne⟩ := h e (List.mem_cons_self _ _)
    obtain ⟨newe, he⟩ := hde d (p + 1 + 1)
      (⟨.rulespOpt, p + 1, p + 1 + 1, d⟩ :: ⟨.rulespElem, p + 1, p + 1 + 1, d + 1⟩ ::
        ⟨.rulespOpt, p, p, d⟩ :: t)
    obtain ⟨newr, hr⟩ := ih (fun x hx => h x (List.mem_cons_of_mem _ hx)) d
      (p + 1 + 1 + e.length)
      (newe ++ ⟨.rulespOpt, p + 1, p + 1 + 1, d⟩ :: ⟨.rulespElem, p + 1, p + 1 + 1, d + 1⟩ ::
        ⟨.rulespOpt, p, p, d⟩ :: t)
    refine ⟨newr ++ newe ++ [⟨.rulespOpt, p + 1, p + 1 + 1, d⟩,
      ⟨.rulespElem, p + 1, p + 1 + 1, d + 1⟩, ⟨.rulespOpt, p, p, d⟩], ?_⟩
    intro E hE
    obtain ⟨c, r', hcr, hc⟩ := sepText_next es close E hE
    have hcne : c ≠ 45 := by rcases hc with rfl | rfl <;> [decide; exact hc45]
    have e1 : sepText (e :: es) ++ E = 44 :: 32 :: (e ++ c :: r') := by
      rw [sepText_cons, ← hcr]; simp
    have e2 : p + (sepText (e :: es)).length = p + 1 + 1 + e.length + (sepText es).length := by
      rw [sepText_cons]; simp; omega
    rw [e1, e2]
    have h1 := Eval_spOpt_delim d p t 44 (32 :: (e ++ c :: r')) (Or.inl rfl)
    have h2 := chr_ok ',' d p (32 :: (e ++ c :: r')) (⟨.rulespOpt, p, p, d⟩ :: t)
    have h3 := Eval_spOpt_blank d (p + 1) (⟨.rulespOpt, p, p, d⟩ :: t) hne c r' hcne
    have h4 := he c r' hc
    have h5 := hr E hE
    rw [hcr] at h5
    have := Eval.star_ok (Eval.seq_ok h1 (Eval.seq_ok h2 (Eval.seq_ok h3 h4))) h5
    simpa using this

/-- The loop `(',' spOpt q)*` of a parameter array runs over the elements `, e1, ..., en` and
stops before the closing `]`, or before a trailing comma. -/
theorem Eval_sepStarParam (q : pegRule)
    (hq : ∀ d p r t, Eval (.call q) d p (93 :: r) t .fail) :
    ∀ (es : List (List Nat)), (∀ e ∈ es, Delimited q 93 e ∧ noSpHead e = true) →
    ∀ (d p : Nat) (t : List token32), ∃ new : List token32, ∀ E : List Nat,
      (∃ r, E = 93 :: r ∨ E = 44 :: 93 :: r) →
      Eval (.star (.seqs [.chr ',', .call .rulespOpt, .call q])) d p
        (sepText es ++ E) t (.ok (p + (sepText es).length) E (new ++ t)) := by
  intro es
  induction es with
  | nil =>
    intro _ d p t
    refine ⟨[], ?_⟩
    rintro E ⟨r, rfl | rfl⟩
    · apply Eval.star_fail
      exact Eval.seq_fail (chr_fail (by decide) _ _ _ _)
    · apply Eval.star_fail
      exact Eval.seq_ok (chr_ok ',' _ _ _ _)
          (Eval.seq_ok (Eval_spOpt_delim d (p + 1) _ 93 r (Or.inr (Or.inl rfl))) (hq _ _ _ _))
  | cons e es ih =>
    intro h d p t
    obtain ⟨hde, hne⟩ := h e (List.mem_cons_self _ _)
    obtain ⟨newe, he⟩ := hde d (p + 1 + 1)
      (⟨.rulespOpt, p + 1, p + 1 + 1, d⟩ :: ⟨.rulespElem, p + 1, p + 1 + 1, d + 1⟩ :: t)
    obtain ⟨newr, hr⟩ := ih (fun x hx => h x (List.mem_cons_of_mem _ hx)) d
      (p + 1 + 1 + e.length)
      (newe ++ ⟨.rulespOpt, p + 1, p + 1 + 1, d⟩ :: ⟨.rulespElem, p + 1, p + 1 + 1, d + 1⟩ ::
        t)
    refine ⟨newr ++ newe ++ [⟨.rulespOpt, p + 1, p + 1 + 1, d⟩,
      ⟨.rulespElem, p + 1, p + 1 + 1, d + 1⟩], ?_⟩
    intro E hE
    obtain ⟨c, r', hcr, hc⟩ := sepText_next es 93 E hE
    have hcne : c ≠ 45 := by rcases hc with rfl | rfl <;> decide
    have e1 : sepText (e :: es) ++ E = 44 :: 32 :: (e ++ c :: r') := by
      rw [sepText_cons, ← hcr]; simp
    have e2 : p + (sepText (e :: es)).length = p + 1 + 1 + e.length + (sepText es).length := by
      rw [sepText_cons]; simp; omega
    rw [e1, e2]
    have h2 := chr_ok ',' d p (32 :: (e ++ c :: r')) t
    have h3 := Eval_spOpt_blank d (p + 1) t hne c r' hcne
    have h4 := he c r' hc
    have h5 := hr E hE
    rw [hcr] at h5
    have := Eval.star_ok (Eval.seq_ok h2 (Eval.seq_ok h3 h4)) h5
    simpa using this



theorem commaList_cons (e : List Nat) (es : List (List Nat)) :
    commaList (e :: es) = e ++ sepText es := rfl

/-- Rule `ArrayExpr` on `[e1, ..., en,]` and on `[e1, ..., en]`: both texts are matched
whole, and the tokens recorded for the elements are the same. -/
theorem Eval_ArrayExpr_list (e : List Nat) (es : List (List Nat))
    (h : ∀ x ∈ e :: es, Delimited .ruleExpressionOrWildcard 93 x ∧ noSpHead x = true)
    (d p : Nat) (t : List token32) :
    ∃ elems : List token32, ∀ r : List Nat,
      Eval (.call .ruleArrayExpr) d p (91 :: (commaList (e :: es) ++ 44 :: 93 :: r)) t
        (.ok (p + 1 + (commaList (e :: es)).length + 1 + 1) r
          (⟨.ruleArrayExpr, p, p + 1 + (commaList (e :: es)).length + 1 + 1, d⟩ ::
           ⟨.ruleAction67, p + 1 + (commaList (e :: es)).length + 1 + 1,
             p + 1 + (commaList (e :: es)).length + 1 + 1, d + 1⟩ ::
           ⟨.rulePegText, p, p + 1 + (commaList (e :: es)).length + 1 + 1, d + 1⟩ ::
           ⟨.rulespOpt, p + 1 + (commaList (e :: es)).length + 1,
             p + 1 + (commaList (e :: es)).length + 1, d + 1 + 1⟩ ::
           ⟨.rulespOpt, p + 1 + (commaList (e :: es)).length,
             p + 1 + (commaList (e :: es)).length, d + 1 + 1⟩ :: (elems ++ t))) ∧
      Eval (.call .ruleArrayExpr) d p (91 :: (commaList (e :: es) ++ 93 :: r)) t
        (.ok (p + 1 + (commaList (e :: es)).length + 1) r
          (⟨.ruleArrayExpr, p, p + 1 + (commaList (e :: es)).length + 1, d⟩ ::
           ⟨.ruleAction67, p + 1 + (commaList (e :: es)).length + 1,
             p + 1 + (commaList (e :: es)).length + 1, d + 1⟩ ::
           ⟨.rulePegText, p, p + 1 + (commaList (e :: es)).length + 1, d + 1⟩ ::
           ⟨.rulespOpt, p + 1 + (commaList (e :: es)).length,
             p + 1 + (commaList (e :: es)).length, d + 1 + 1⟩ ::
           ⟨.rulespOpt, p + 1 + (commaList (e :: es)).length,
             p + 1 + (commaList (e :: es)).length, d + 1 + 1⟩ :: (elems ++ t))) := by
  obtain ⟨hde, hne⟩ := h e (List.mem_cons_self _ _)
  obtain ⟨newe, he⟩ := hde (d + 1 + 1) (p + 1) (⟨.rulespOpt, p + 1, p + 1, d + 1 + 1⟩ :: t)
  have hq : ∀ d p r t, Eval (.call .ruleExpressionOrWildcard) d p (93 :: r) t .fail :=
    fun d p r t => Eval.of_execF 100 rfl (fun hc => ResF.noConfusion hc)
  obtain ⟨news, hs⟩ := Eval_sepStar .ruleExpressionOrWildcard 93 (Or.inl rfl) hq es
    (fun x hx => h x (List.mem_cons_of_mem _ hx)) (d + 1 + 1) (p + 1 + e.length)
    (newe ++ ⟨.rulespOpt, p + 1, p + 1, d + 1 + 1⟩ :: t)
  refine ⟨news ++ newe ++ [⟨.rulespOpt, p + 1, p + 1, d + 1 + 1⟩], ?_⟩
  have hlen : (commaList (e :: es)).length = e.length + (sepText es).length := by
    rw [commaList_cons, List.length_append]
  -- the part up to the end of the elements, for both endings
  have front : ∀ E : List Nat, (∃ r, E = 93 :: r ∨ E = 44 :: 93 :: r) →
      ∀ (res : ResF),
      Eval (.seqs [.call .rulespOpt, .opt (.chr ','), .call .rulespOpt, .chr ']'])
        (d + 1 + 1) (p + 1 + e.length + (sepText es).length) E
        (news ++ (newe ++ ⟨.rulespOpt, p + 1, p + 1, d + 1 + 1⟩ :: t)) res →
      Eval (.seqs [.chr '[', .call .rulespOpt,
          .opt (.seqs [.call .ruleExpressionOrWildcard,
            .star (.seqs [.call .rulespOpt, .chr ',', .call .rulespOpt,
              .call .ruleExpressionOrWildcard])]),
          .call .rulespOpt, .opt (.chr ','), .call .rulespOpt, .chr ']'])
        (d + 1 + 1) p (91 :: (commaList (e :: es) ++ E)) t res := by
    intro E hE res hres
    obtain ⟨c, r', hcr, hc⟩ := sepText_next es 93 E hE
    have hcne : c ≠ 45 := by rcases hc with rfl | rfl <;> decide
    have e1 : commaList (e :: es) ++ E = e ++ c :: r' := by
      rw [commaList_cons, List.append_assoc, hcr]
    rw [e1]
    have h1 := chr_ok '[' (d + 1 + 1) p (e ++ c :: r') t
    have h2 := Eval_spOpt_zero (d + 1 + 1) (p + 1) t hne c r' hcne
    have h3 := he c r' hc
    have h4 := hs E hE
    rw [hcr] at h4
    refine Eval.seq_ok h1 (Eval.seq_ok h2 (Eval.seq_ok (Eval.opt_ok (Eval.seq_ok h3 h4)) ?_))
    exact hres
  intro r
  constructor
  · have hb := front (44 :: 93 :: r) ⟨r, Or.inr rfl⟩ _
      (Eval.seq_ok (Eval_spOpt_delim _ _ _ 44 (93 :: r) (Or.inl rfl))
        (Eval.seq_ok (Eval.opt_ok (chr_ok ',' _ _ _ _))
          (Eval.seq_ok (Eval_spOpt_delim _ _ _ 93 r (Or.inr (Or.inl rfl)))
            (chr_ok ']' _ _ _ _))))
    have := Eval.token_ok grammar_ArrayExpr grammar_Action67 hb
    simpa [hlen, Nat.add_assoc] using this
  · have hb := front (93 :: r) ⟨r, Or.inl rfl⟩ _
      (Eval.seq_ok (Eval_spOpt_delim _ _ _ 93 r (Or.inr (Or.inl rfl)))
        (Eval.seq_ok (Eval.opt_fail (chr_fail (by decide) _ _ _ _))
          (Eval.seq_ok (Eval_spOpt_delim _ _ _ 93 r (Or.inr (Or.inl rfl)))
            (chr_ok ']' _ _ _ _))))
    have := Eval.token_ok grammar_ArrayExpr grammar_Action67 hb
    simpa [hlen, Nat.add_assoc] using this

/-- Rule `ParamArrayExpr` on `[e1, ..., en,]` and on `[e1, ..., en]`: both texts are matched
whole, and the tokens recorded for the elements are the same. -/
theorem Eval_ParamArrayExpr_list (e : List Nat) (es : List (List Nat))
    (h : ∀ x ∈ e :: es, Delimited .ruleParamLiteral 93 x ∧ noSpHead x = true)
    (d p : Nat) (t : List token32) :
    ∃ elems : List token32, ∀ r : List Nat,
      Eval (.call .ruleParamArrayExpr) d p (91 :: (commaList (e :: es) ++ 44 :: 93 :: r)) t
        (.ok (p + 1 + (commaList (e :: es)).length + 1 + 1) r
          (⟨.ruleParamArrayExpr, p, p + 1 + (commaList (e :: es)).length + 1 + 1, d⟩ ::
           ⟨.ruleAction48, p + 1 + (commaList (e :: es)).length + 1 + 1,
             p + 1 + (commaList (e :: es)).length + 1 + 1, d + 1⟩ ::
           ⟨.rulePegText, p, p + 1 + (commaList (e :: es)).length + 1 + 1, d + 1⟩ ::
           ⟨.rulespOpt, p + 1 + (commaList (e :: es)).length + 1,
             p + 1 + (commaList (e :: es)).length + 1, d + 1 + 1⟩ ::
           ⟨.rulespOpt, p + 1 + (commaList (e :: es)).length,
             p + 1 + (commaList (e :: es)).length, d + 1 + 1⟩ :: (elems ++ t))) ∧
      Eval (.call .ruleParamArrayExpr) d p (91 :: (commaList (e :: es) ++ 93 :: r)) t
        (.ok (p + 1 + (commaList (e :: es)).length + 1) r
          (⟨.ruleParamArrayExpr, p, p + 1 + (commaList (e :: es)).length + 1, d⟩ ::
           ⟨.ruleAction48, p + 1 + (commaList (e :: es)).length + 1,
             p + 1 + (commaList (e :: es)).length + 1, d + 1⟩ ::
           ⟨.rulePegText, p, p + 1 + (commaList (e :: es)).length + 1, d + 1⟩ ::
           ⟨.rulespOpt, p + 1 + (commaList (e :: es)).length,
             p + 1 + (commaList (e :: es)).length, d + 1 + 1⟩ ::
           ⟨.rulespOpt, p + 1 + (commaList (e :: es)).length,
             p + 1 + (commaList (e :: es)).length, d + 1 + 1⟩ :: (elems ++ t))) := by
  obtain ⟨hde, hne⟩ := h e (List.mem_cons_self _ _)
  obtain ⟨newe, he⟩ := hde (d + 1 + 1) (p + 1) (⟨.rulespOpt, p + 1, p + 1, d + 1 + 1⟩ :: t)
  have hq : ∀ d p r t, Eval (.call .ruleParamLiteral) d p (93 :: r) t .fail :=
    fun d p r t => Eval.of_execF 20 rfl (fun hc => ResF.noConfusion hc)
  obtain ⟨news, hs⟩ := Eval_sepStarParam .ruleParamLiteral hq es
    (fun x hx => h x (List.mem_cons_of_mem _ hx)) (d + 1 + 1) (p + 1 + e.length)
    (newe ++ ⟨.rulespOpt, p + 1, p + 1, d + 1 + 1⟩ :: t)
  refine ⟨news ++ newe ++ [⟨.rulespOpt, p + 1, p + 1, d + 1 + 1⟩], ?_⟩
  have hlen : (commaList (e :: es)).length = e.length + (sepText es).length := by
    rw [commaList_cons, List.length_append]
  -- the part up to the end of the elements, for both endings
  have front : ∀ E : List Nat, (∃ r, E = 93 :: r ∨ E = 44 :: 93 :: r) →
      ∀ (res : ResF),
      Eval (.seqs [.call .rulespOpt, .opt (.chr ','), .call .rulespOpt, .chr ']'])
        (d + 1 + 1) (p + 1 + e.length + (sepText es).length) E
        (news ++ (newe ++ ⟨.rulespOpt, p + 1, p + 1, d + 1 + 1⟩ :: t)) res →
      Eval (.seqs [.chr '[', .call .rulespOpt,
          .opt (.seqs [.call .ruleParamLiteral,
            .star (.seqs [.chr ',', .call .rulespOpt, .call .ruleParamLiteral])]),
          .call .rulespOpt, .opt (.chr ','), .call .rulespOpt, .chr ']'])
        (d + 1 + 1) p (91 :: (commaList (e :: es) ++ E)) t res := by
    intro E hE res hres
    obtain ⟨c, r', hcr, hc⟩ := sepText_next es 93 E hE
    have hcne : c ≠ 45 := by rcases hc with rfl | rfl <;> decide
    have e1 : commaList (e :: es) ++ E = e ++ c :: r' := by
      rw [commaList_cons, List.append_assoc, hcr]
    rw [e1]
    have h1 := chr_ok '[' (d + 1 + 1) p (e ++ c :: r') t
    have h2 := Eval_spOpt_zero (d + 1 + 1) (p + 1) t hne c r' hcne
    have h3 := he c r' hc
    have h4 := hs E hE
    rw [hcr] at h4
    refine Eval.seq_ok h1 (Eval.seq_ok h2 (Eval.seq_ok (Eval.opt_ok (Eval.seq_ok h3 h4)) ?_))
    exact hres
  intro r
  constructor
  · have hb := front (44 :: 93 :: r) ⟨r, Or.inr rfl⟩ _
      (Eval.seq_ok (Eval_spOpt_delim _ _ _ 44 (93 :: r) (Or.inl rfl))
        (Eval.seq_ok (Eval.opt_ok (chr_ok ',' _ _ _ _))
          (Eval.seq_ok (Eval_spOpt_delim _ _ _ 93 r (Or.inr (Or.inl rfl)))
            (chr_ok ']' _ _ _ _))))
    have := Eval.token_ok grammar_ParamArrayExpr grammar_Action48 hb
    simpa [hlen, Nat.add_assoc] using this
  · have hb := front (93 :: r) ⟨r, Or.inl rfl⟩ _
      (Eval.seq_ok (Eval_spOpt_delim _ _ _ 93 r (Or.inr (Or.inl rfl)))
        (Eval.seq_ok (Eval.opt_fail (chr_fail (by decide) _ _ _ _))
          (Eval.seq_ok (Eval_spOpt_delim _ _ _ 93 r (Or.inr (Or.inl rfl)))
            (chr_ok ']' _ _ _ _))))
    have := Eval.token_ok grammar_ParamArrayExpr grammar_Action48 hb
    simpa [hlen, Nat.add_assoc] using this

/-- Rule `StringLiteral` on a string literal before a rune that is no quote. -/
theorem Eval_StringLiteral_items (d p : Nat) (t : List token32) (items : List (List Nat))
    (c : Nat) (r : List Nat) (hc : c ≠ 39)
    (h : items.all (fun i => isStringItem i && i.all (fun x => x != end_symbol)) = true) :
    Eval (.call .ruleStringLiteral) d p (39 :: (items.flatten ++ [39]) ++ c :: r) t
      (.ok (p + (39 :: (items.flatten ++ [39])).length) (c :: r)
        (⟨.ruleStringLiteral, p, p + (39 :: (items.flatten ++ [39])).length, d⟩ ::
         ⟨.ruleAction80, p + (39 :: (items.flatten ++ [39])).length,
           p + (39 :: (items.flatten ++ [39])).length, d + 1⟩ ::
         ⟨.rulePegText, p, p + (39 :: (items.flatten ++ [39])).length, d + 1⟩ :: t)) := by
  have e : 39 :: (items.flatten ++ [39]) ++ c :: r = 39 :: (items.flatten ++ 39 :: c :: r) := by
    simp
  have el : (39 :: (items.flatten ++ [39])).length = items.flatten.length + 2 := by simp
  rw [e, el]
  have hloop := Eval_stringLoop_items (d + 1 + 1) t c r hc items (p + 1) h
  have h1 : Eval (.chr '\'') (d + 1 + 1) p (39 :: (items.flatten ++ 39 :: c :: r)) t
      (.ok (p + 1) (items.flatten ++ 39 :: c :: r) t) :=
    Eval.of_execF 1 rfl (fun hc => ResF.noConfusion hc)
  have h3 : Eval (.chr '\'') (d + 1 + 1) (p + 1 + items.flatten.length) (39 :: c :: r) t
      (.ok (p + 1 + items.flatten.length + 1) (c :: r) t) :=
    Eval.of_execF 1 rfl (fun hc => ResF.noConfusion hc)
  have := Eval.token_ok grammar_StringLiteral grammar_Action80
    (Eval.seq_ok h1 (Eval.seq_ok hloop h3)) (d := d)
  rw [show p + (items.flatten.length + 2) = p + 1 + items.flatten.length + 1 by omega]
  exact this

/-- The text `k:v` of a key `k` and a value `v` is an element of rule `KeyValuePair`, when
rule `StringLiteral` matches `k` before a `:`. -/
theorem DelimAt_KeyValuePair (k v : List Nat) (d p : Nat) (t : List token32)
    (hk : ∀ r, Eval (.call .ruleStringLiteral) (d + 1 + 1) p (k ++ 58 :: r) t
      (.ok (p + k.length) (58 :: r)
        (⟨.ruleStringLiteral, p, p + k.length, d + 1 + 1⟩ ::
         ⟨.ruleAction80, p + k.length, p + k.length, d + 1 + 1 + 1⟩ ::
         ⟨.rulePegText, p, p + k.length, d + 1 + 1 + 1⟩ :: t)))
    (hv : Delimited .ruleExpressionOrWildcard 125 v) (hns : noSpHead v = true) :
    DelimAt (.call .ruleKeyValuePair) 125 (k ++ 58 :: v) d p t := by
  obtain ⟨newv, hnv⟩ := hv (d + 1 + 1) (p + k.length + 1)
    (⟨.rulespOpt, p + k.length + 1, p + k.length + 1, d + 1 + 1⟩ ::
      ⟨.rulespOpt, p + k.length, p + k.length, d + 1 + 1⟩ ::
      ⟨.ruleStringLiteral, p, p + k.length, d + 1 + 1⟩ ::
      ⟨.ruleAction80, p + k.length, p + k.length, d + 1 + 1 + 1⟩ ::
      ⟨.rulePegText, p, p + k.length, d + 1 + 1 + 1⟩ :: t)
  have e2 : p + (k ++ 58 :: v).length = p + k.length + 1 + v.length := by
    simp only [List.length_append, List.length_cons]; omega
  rw [DelimAt, e2]
  refine ⟨⟨.ruleKeyValuePair, p, p + k.length + 1 + v.length, d⟩ ::
    ⟨.ruleAction69, p + k.length + 1 + v.length, p + k.length + 1 + v.length, d + 1⟩ ::
    ⟨.rulePegText, p, p + k.length + 1 + v.length, d + 1⟩ ::
    (newv ++ [⟨.rulespOpt, p + k.length + 1, p + k.length + 1, d + 1 + 1⟩,
      ⟨.rulespOpt, p + k.length, p + k.length, d + 1 + 1⟩,
      ⟨.ruleStringLiteral, p, p + k.length, d + 1 + 1⟩,
      ⟨.ruleAction80, p + k.length, p + k.length, d + 1 + 1 + 1⟩,
      ⟨.rulePegText, p, p + k.length, d + 1 + 1 + 1⟩]), ?_⟩
  intro c r hc
  have hcne : c ≠ 45 := by rcases hc with rfl | rfl <;> decide
  have h1 := hk (v ++ c :: r)
  obtain ⟨x, y, r', hxy, hxyn⟩ := noSpHead_append hns c r hcne
  have h2 : Eval (.call .rulespOpt) (d + 1 + 1) (p + k.length) (58 :: (v ++ c :: r))
      (⟨.ruleStringLiteral, p, p + k.length, d + 1 + 1⟩ ::
        ⟨.ruleAction80, p + k.length, p + k.length, d + 1 + 1 + 1⟩ ::
        ⟨.rulePegText, p, p + k.length, d + 1 + 1 + 1⟩ :: t)
      (.ok (p + k.length) (58 :: (v ++ c :: r))
        (⟨.rulespOpt, p + k.length, p + k.length, d + 1 + 1⟩ ::
          ⟨.ruleStringLiteral, p, p + k.length, d + 1 + 1⟩ ::
          ⟨.ruleAction80, p + k.length, p + k.length, d + 1 + 1 + 1⟩ ::
          ⟨.rulePegText, p, p + k.length, d + 1 + 1 + 1⟩ :: t)) := by
    rw [hxy]
    exact Eval.of_execF 12 (execF_spOpt_zero _ _ 58 x (y :: r') _ (by simp [noSpHead]))
      (fun hc => ResF.noConfusion hc)
  have h3 := chr_ok ':' (d + 1 + 1) (p + k.length) (v ++ c :: r)
    (⟨.rulespOpt, p + k.length, p + k.length, d + 1 + 1⟩ ::
      ⟨.ruleStringLiteral, p, p + k.length, d + 1 + 1⟩ ::
      ⟨.ruleAction80, p + k.length, p + k.length, d + 1 + 1 + 1⟩ ::
      ⟨.rulePegText, p, p + k.length, d + 1 + 1 + 1⟩ :: t)
  have h4 := Eval_spOpt_zero (d + 1 + 1) (p + k.length + 1)
    (⟨.rulespOpt, p + k.length, p + k.length, d + 1 + 1⟩ ::
      ⟨.ruleStringLiteral, p, p + k.length, d + 1 + 1⟩ ::
      ⟨.ruleAction80, p + k.length, p + k.length, d + 1 + 1 + 1⟩ ::
      ⟨.rulePegText, p, p + k.length, d + 1 + 1 + 1⟩ :: t) hns c r hcne
  have h5 := hnv c r hc
  have := Eval.token_ok grammar_KeyValuePair grammar_Action69
    (Eval.seq_ok h1 (Eval.seq_ok h2 (Eval.seq_ok h3 (Eval.seq_ok h4 h5)))) (d := d)
  simpa only [List.append_assoc, List.cons_append, List.nil_append] using this

/-- The text `k:v` of a string literal `k` and a value `v` is an element of rule
`KeyValuePair`, and does not start with whitespace. -/
theorem Delimited_KeyValuePair (items : List (List Nat)) (v : List Nat)
    (hk : items.all (fun i => isStringItem i && i.all (fun x => x != end_symbol)) = true)
    (hv : Delimited .ruleExpressionOrWildcard 125 v) (hns : noSpHead v = true) :
    Delimited .ruleKeyValuePair 125 (39 :: (items.flatten ++ [39]) ++ 58 :: v) ∧
      noSpHead (39 :: (items.flatten ++ [39]) ++ 58 :: v) = true := by
  constructor
  · intro d p t
    exact DelimAt_KeyValuePair _ v d p t
      (fun r => Eval_StringLiteral_items (d + 1 + 1) p t items 58 r (by decide) hk) hv hns
  · rcases hxs : items.flatten ++ [39] with _ | ⟨y, tl'⟩
    · simp at hxs
    · simp [noSpHead]



/-- Rule `MapExpr` on `{e1, ..., en,}` and on `{e1, ..., en}`: the first text is rejected at
the trailing comma, the second is matched whole. -/
theorem Eval_MapExpr_list (e : List Nat) (es : List (List Nat))
    (h : ∀ x ∈ e :: es, Delimited .ruleKeyValuePair 125 x ∧ noSpHead x = true)
    (d p : Nat) (t : List token32) :
    (∀ r : List Nat,
      Eval (.call .ruleMapExpr) d p (123 :: (commaList (e :: es) ++ 44 :: 125 :: r)) t .fail) ∧
    ∃ elems : List token32, ∀ r : List Nat,
      Eval (.call .ruleMapExpr) d p (123 :: (commaList (e :: es) ++ 125 :: r)) t
        (.ok (p + 1 + (commaList (e :: es)).length + 1) r
          (⟨.ruleMapExpr, p, p + 1 + (commaList (e :: es)).length + 1, d⟩ ::
           ⟨.ruleAction68, p + 1 + (commaList (e :: es)).length + 1,
             p + 1 + (commaList (e :: es)).length + 1, d + 1⟩ ::
           ⟨.rulePegText, p, p + 1 + (commaList (e :: es)).length + 1, d + 1⟩ ::
           ⟨.rulespOpt, p + 1 + (commaList (e :: es)).length,
             p + 1 + (commaList (e :: es)).length, d + 1 + 1⟩ :: (elems ++ t))) := by
  obtain ⟨hde, hne⟩ := h e (List.mem_cons_self _ _)
  obtain ⟨newe, he⟩ := hde (d + 1 + 1) (p + 1) (⟨.rulespOpt, p + 1, p + 1, d + 1 + 1⟩ :: t)
  have hq : ∀ d p r t, Eval (.call .ruleKeyValuePair) d p (125 :: r) t .fail :=
    fun d p r t => Eval.of_execF 20 rfl (fun hc => ResF.noConfusion hc)
  obtain ⟨news, hs⟩ := Eval_sepStar .ruleKeyValuePair 125 (Or.inr rfl) hq es
    (fun x hx => h x (List.mem_cons_of_mem _ hx)) (d + 1 + 1) (p + 1 + e.length)
    (newe ++ ⟨.rulespOpt, p + 1, p + 1, d + 1 + 1⟩ :: t)
  have hlen : (commaList (e :: es)).length = e.length + (sepText es).length := by
    rw [commaList_cons, List.length_append]
  have front : ∀ E : List Nat, (∃ r, E = 125 :: r ∨ E = 44 :: 125 :: r) →
      ∀ (res : ResF),
      Eval (.seqs [.call .rulespOpt, .chr '}'])
        (d + 1 + 1) (p + 1 + e.length + (sepText es).length) E
        (news ++ (newe ++ ⟨.rulespOpt, p + 1, p + 1, d + 1 + 1⟩ :: t)) res →
      Eval (.seqs [.chr '{', .call .rulespOpt,
          .opt (.seqs [.call .ruleKeyValuePair,
            .star (.seqs [.call .rulespOpt, .chr ',', .call .rulespOpt,
              .call .ruleKeyValuePair])]),
          .call .rulespOpt, .chr '}'])
        (d + 1 + 1) p (123 :: (commaList (e :: es) ++ E)) t res := by
    intro E hE res hres
    obtain ⟨c, r', hcr, hc⟩ := sepText_next es 125 E hE
    have hcne : c ≠ 45 := by rcases hc with rfl | rfl <;> decide
    have e1 : commaList (e :: es) ++ E = e ++ c :: r' := by
      rw [commaList_cons, List.append_assoc, hcr]
    rw [e1]
    have h1 := chr_ok '{' (d + 1 + 1) p (e ++ c :: r') t
    have h2 := Eval_spOpt_zero (d + 1 + 1) (p + 1) t hne c r' hcne
    have h3 := he c r' hc
    have h4 := hs E hE
    rw [hcr] at h4
    exact Eval.seq_ok h1 (Eval.seq_ok h2 (Eval.seq_ok (Eval.opt_ok (Eval.seq_ok h3 h4)) hres))
  constructor
  · intro r
    have hb := front (44 :: 125 :: r) ⟨r, Or.inr rfl⟩ _
      (Eval.seq_ok (Eval_spOpt_delim _ _ _ 44 (125 :: r) (Or.inl rfl))
        (chr_fail (by decide) _ _ _ _))
    exact Eval.token_fail grammar_MapExpr hb
  · refine ⟨news ++ newe ++ [⟨.rulespOpt, p + 1, p + 1, d + 1 + 1⟩], ?_⟩
    intro r
    have hb := front (125 :: r) ⟨r, Or.inl rfl⟩ _
      (Eval.seq_ok (Eval_spOpt_delim _ _ _ 125 r (Or.inr (Or.inr rfl)))
        (chr_ok '}' _ _ _ _))
    have := Eval.token_ok grammar_MapExpr grammar_Action68 hb
    simpa [hlen, Nat.add_assoc] using this



/-! ## The tokens of the two LOAD STATE statements -/

theorem grammar_LoadStateStmt : grammar .ruleLoadStateStmt = .expr Body.ruleLoadStateStmt := rfl
theorem grammar_LoadStateOrCreateStmt :
    grammar .ruleLoadStateOrCreateStmt = .expr Body.ruleLoadStateOrCreateStmt := rfl
theorem grammar_SetOptSpecs : grammar .ruleSetOptSpecs = .expr Body.ruleSetOptSpecs := rfl
theorem grammar_SourceSinkSpecs :
    grammar .ruleSourceSinkSpecs = .expr Body.ruleSourceSinkSpecs := rfl
theorem grammar_Action21 : grammar .ruleAction21 = .action := rfl
theorem grammar_Action22 : grammar .ruleAction22 = .action := rfl
theorem grammar_Action44 : grammar .ruleAction44 = .action := rfl
theorem grammar_Action46 : grammar .ruleAction46 = .action := rfl

theorem paramRule_closed (q : pegRule) (h : paramRule q = true) :
    match grammar q with
    | .expr body => callsIn paramRule body = true
    | _ => True := by
  cases q <;> first | exact True.intro | rfl | exact absurd h (by decide)

theorem paramRule_not_loadAction (q : pegRule) :
    paramRule q = true → loadAction q = false := by
  cases q <;> first | (intro _; rfl) | (intro h; exact absurd h (by decide))

/-- The tokens of a run inside the name, the type or the parameters stand for none of the
three calls. -/
theorem Eval.param_tokens {e : Peg} {d p : Nat} {r : List Nat} {t : List token32} {p1 : Nat}
    {r1 : List Nat} {t1 : List token32} (h : Eval e d p r t (.ok p1 r1 t1))
    (hc : callsIn paramRule e = true) :
    ∃ new, t1 = new ++ t ∧ ∀ tok ∈ new, loadAction tok.rule = false := by
  obtain ⟨f, hf, _⟩ := h
  obtain ⟨new, h1, h2⟩ := execF_tokens paramRule
    (fun q body hq hg => by have := paramRule_closed q hq; rw [hg] at this; exact this)
    f e d p r t p1 r1 t1 hc hf
  refine ⟨new, h1, fun tok htok => ?_⟩
  rcases h2 tok htok with h | h
  · rw [h]; rfl
  · exact paramRule_not_loadAction _ h

theorem Eval.param_step {a b : Peg} {d p : Nat} {r : List Nat} {t : List token32} {p2 : Nat}
    {r2 : List Nat} {t2 : List token32} (h : Eval (.seq a b) d p r t (.ok p2 r2 t2))
    (hc : callsIn paramRule a = true) :
    ∃ p1 r1 new, (∀ tok ∈ new, loadAction tok.rule = false) ∧
      Eval b d p1 r1 (new ++ t) (.ok p2 r2 t2) := by
  obtain ⟨p1, r1, t1, ha, hb⟩ := h.seq_inv
  obtain ⟨new, rfl, hn⟩ := ha.param_tokens hc
  exact ⟨p1, r1, new, hn, hb⟩

theorem Eval.text_inv {a : Peg} {d p : Nat} {r : List Nat} {t : List token32} {p1 : Nat}
    {r1 : List Nat} {t1 : List token32} (h : Eval (.text a) d p r t (.ok p1 r1 t1)) :
    ∃ t2, t1 = ⟨.rulePegText, p, p1, d⟩ :: t2 ∧ Eval a (d + 1) p r t (.ok p1 r1 t2) := by
  rw [Eval_text] at h
  obtain ⟨ra, ha, hb⟩ := h
  cases ra with
  | ok p2 r2 t2 =>
    simp only [ResF.ok.injEq] at hb
    obtain ⟨rfl, rfl, rfl⟩ := hb
    exact ⟨t2, rfl, ha⟩
  | oof => simp at hb
  | panic => simp at hb
  | fail => simp at hb

theorem Eval.action_inv {A : pegRule} (hA : grammar A = .action) {d p : Nat} {r : List Nat}
    {t : List token32} {p1 : Nat} {r1 : List Nat} {t1 : List token32}
    (h : Eval (.call A) d p r t (.ok p1 r1 t1)) :
    p1 = p ∧ r1 = r ∧ t1 = ⟨A, p, p, d⟩ :: t := by
  rw [Eval_call_action hA] at h
  simp only [ResF.ok.injEq] at h
  exact h

/-- A run that matched an expression that cannot match the empty text advanced. -/
theorem Eval.advanced {e : Peg} {d p : Nat} {r : List Nat} {t : List token32} {p1 : Nat}
    {r1 : List Nat} {t1 : List token32} (h : Eval e d p r t (.ok p1 r1 t1))
    (hne : mayEmpty e = false) : p < p1 := by
  obtain ⟨f, hf, _⟩ := h
  obtain ⟨w, _, hp, _, hw, _⟩ := execF_consumed f e d p r t p1 r1 t1 hf
  have := List.length_pos.mpr (hw hne)
  omega

/-- A rule of the form `R <- <(<(g)?> ActionN)>` with `g` a block of parameters: the tokens of
a run, and its text span, which is empty exactly when the block is absent. -/
theorem Eval.specs_inv {R A : pegRule} {g : Peg}
    (hR : grammar R = .expr (.seq (.text (.opt g)) (.call A))) (hA : grammar A = .action)
    (hin : callsIn paramRule g = true) (hne : mayEmpty g = false) {d p : Nat}
    {r : List Nat} {t : List token32} {p1 : Nat} {r1 : List Nat} {t1 : List token32}
    (h : Eval (.call R) d p r t (.ok p1 r1 t1)) :
    ∃ inner, t1 = ⟨R, p, p1, d⟩ :: ⟨A, p1, p1, d + 1⟩ :: ⟨.rulePegText, p, p1, d + 1⟩ ::
        (inner ++ t) ∧
      (∀ tok ∈ inner, loadAction tok.rule = false) ∧
      (p1 = p ↔ Eval g (d + 1 + 1) p r t .fail) := by
  obtain ⟨t2, rfl, hb⟩ := h.call_inv hR
  obtain ⟨pa, ra, ta, h1, h2⟩ := hb.seq_inv
  obtain ⟨rfl, rfl, rfl⟩ := h2.action_inv hA
  obtain ⟨t3, rfl, h3⟩ := h1.text_inv
  rw [Eval_opt] at h3
  obtain ⟨rg, hg, hres⟩ := h3
  cases rg with
  | fail =>
    simp only [ResF.ok.injEq] at hres
    obtain ⟨rfl, rfl, rfl⟩ := hres
    exact ⟨[], rfl, by simp, ⟨fun _ => hg, fun _ => rfl⟩⟩
  | ok p2 r2 t4 =>
    simp only [ResF.ok.injEq] at hres
    obtain ⟨rfl, rfl, rfl⟩ := hres
    obtain ⟨inner, rfl, hi⟩ := hg.param_tokens hin
    have hlt := hg.advanced hne
    refine ⟨inner, rfl, hi, ⟨fun h => by omega, fun h => ?_⟩⟩
    have := hg.det h
    simp at this
  | oof => simp at hres
  | panic => simp at hres

/-- The tokens of a run of rule `LoadStateStmt`: the name, the type and the SET block stand
for none of the three calls but for `Action46` of the block, and `Action21` comes last. -/
theorem Eval_LoadStateStmt_tokens {d p : Nat} {r : List Nat} {t : List token32} {p1 : Nat}
    {r1 : List Nat} {t1 : List token32}
    (h : Eval (.call .ruleLoadStateStmt) d p r t (.ok p1 r1 t1)) :
    ∃ q inner, t1 = ⟨.ruleLoadStateStmt, p, p1, d⟩ :: ⟨.ruleAction21, p1, p1, d + 1⟩ ::
        ⟨.ruleSetOptSpecs, q, p1, d + 1⟩ :: ⟨.ruleAction46, p1, p1, d + 1 + 1⟩ ::
        ⟨.rulePegText, q, p1, d + 1 + 1⟩ :: (inner ++ t) ∧
      ∀ tok ∈ inner, loadAction tok.rule = false := by
  obtain ⟨t2, rfl, hb⟩ := h.call_inv grammar_LoadStateStmt
  obtain ⟨_, _, n1, f1, h⟩ := hb.param_step rfl
  obtain ⟨_, _, n2, f2, h⟩ := h.param_step rfl
  obtain ⟨_, _, n3, f3, h⟩ := h.param_step rfl
  obtain ⟨_, _, n4, f4, h⟩ := h.param_step rfl
  obtain ⟨_, _, n5, f5, h⟩ := h.param_step rfl
  obtain ⟨_, _, n6, f6, h⟩ := h.param_step rfl
  obtain ⟨_, _, n7, f7, h⟩ := h.param_step rfl
  obtain ⟨_, _, n8, f8, h⟩ := h.param_step rfl
  obtain ⟨_, _, n9, f9, h⟩ := h.param_step rfl
  obtain ⟨_, _, n10, f10, h⟩ := h.param_step rfl
  obtain ⟨_, _, n11, f11, h⟩ := h.param_step rfl
  obtain ⟨q, _, n12, f12, h⟩ := h.param_step rfl
  obtain ⟨pa, ra, ta, h1, h2⟩ := h.seq_inv
  obtain ⟨rfl, rfl, rfl⟩ := h2.action_inv grammar_Action21
  obtain ⟨inner, rfl, hi, _⟩ := h1.specs_inv grammar_SetOptSpecs grammar_Action46 rfl rfl
  refine ⟨q, inner ++ (n12 ++ (n11 ++ (n10 ++ (n9 ++ (n8 ++ (n7 ++ (n6 ++ (n5 ++ (n4 ++
    (n3 ++ (n2 ++ n1))))))))))), ?_, ?_⟩
  · simp only [List.append_assoc]
  · intro tok htok
    simp only [List.mem_append] at htok
    rcases htok with h | h | h | h | h | h | h | h | h | h | h | h | h
    · exact hi tok h
    · exact f12 tok h
    · exact f11 tok h
    · exact f10 tok h
    · exact f9 tok h
    · exact f8 tok h
    · exact f7 tok h
    · exact f6 tok h
    · exact f5 tok h
    · exact f4 tok h
    · exact f3 tok h
    · exact f2 tok h
    · exact f1 tok h



/-! ## What `Execute` issues on the tokens of the two LOAD STATE statements -/

theorem filter_load_of_map_some {α : Type} {o : Option α} {f : α → List Call} {cs : List Call}
    (h : o.map f = some cs) (hf : ∀ a, (f a).filter loadAssembly = []) :
    cs.filter loadAssembly = [] := by
  cases o with
  | none => simp at h
  | some a =>
    simp only [Option.map_some', Option.some.injEq] at h
    rw [← h]; exact hf a

set_option maxHeartbeats 4000000 in
theorem executeAction_load_other (X : List Nat) (b e : Nat) (q : pegRule) (cs : List Call) :
    loadAction q = false → executeAction X b e q = some cs →
      cs.filter loadAssembly = [] := by
  cases q <;> intro hs he <;>
    first
    | (cases he; rfl)
    | exact filter_load_of_map_some he (fun _ => rfl)
    | exact absurd hs (by decide)

theorem executeLoop_cons_other (X B : List Nat) (tok : token32) (l : List token32) (b e : Nat)
    (hp : tok.rule ≠ .rulePegText) :
    executeLoop X B (tok :: l) b e =
      match executeAction X b e tok.rule with
      | none => none
      | some cs =>
        match executeLoop X B l b e with
        | none => none
        | some ds => some (cs ++ ds) := by
  conv_lhs => unfold executeLoop
  split
  · rename_i heq; exact absurd heq hp
  · rfl

theorem executeLoop_cons_text (X B : List Nat) (b0 e0 d0 : Nat) (l : List token32) (b e : Nat) :
    executeLoop X B (⟨.rulePegText, b0, e0, d0⟩ :: l) b e =
      match slice B b0 e0 with
      | none => none
      | some _ => executeLoop X B l b0 e0 := rfl

/-- On tokens that stand for none of the three calls `Execute` issues none of them. -/
theorem executeLoop_load_inner (X B : List Nat) :
    ∀ (l : List token32) (b e : Nat) (cs : List Call),
      (∀ tok ∈ l, loadAction tok.rule = false) → executeLoop X B l b e = some cs →
      cs.filter loadAssembly = [] := by
  intro l
  induction l with
  | nil =>
    intro b e cs _ h
    simp only [executeLoop, Option.some.injEq] at h
    subst h; rfl
  | cons tok rest ih =>
    intro b e cs hl h
    have hrest : ∀ tok ∈ rest, loadAction tok.rule = false :=
      fun x hx => hl x (List.mem_cons_of_mem _ hx)
    by_cases hp : tok.rule = .rulePegText
    · simp only [executeLoop, hp] at h
      cases hsl : slice B tok.begin_ tok.end_ with
      | none => rw [hsl] at h; simp at h
      | some x =>
        rw [hsl] at h
        exact ih _ _ _ hrest h
    · rw [executeLoop_cons_other X B tok rest b e hp] at h
      cases h1 : executeAction X b e tok.rule with
      | none => rw [h1] at h; simp at h
      | some cs1 =>
        rw [h1] at h
        simp only [] at h
        cases h3 : executeLoop X B rest b e with
        | none => rw [h3] at h; simp at h
        | some ds =>
          rw [h3] at h
          simp only [Option.some.injEq] at h
          subst h
          rw [List.filter_append,
            executeAction_load_other X b e tok.rule cs1 (hl tok (List.mem_cons_self _ _)) h1,
            ih _ _ _ hrest h3]
          rfl

theorem executeLoop_load_skip (X B : List Nat) (l rest : List token32) (b e : Nat)
    (cs : List Call) (hl : ∀ tok ∈ l, loadAction tok.rule = false)
    (h : executeLoop X B (l ++ rest) b e = some cs) :
    ∃ cs0 ds b1 e1, cs = cs0 ++ ds ∧ cs0.filter loadAssembly = [] ∧
      executeLoop X B rest b1 e1 = some ds := by
  rw [executeLoop_append] at h
  cases h1 : executeLoop X B l b e with
  | none => rw [h1] at h; simp at h
  | some cs0 =>
    rw [h1] at h
    simp only [] at h
    cases h2 : executeLoop X B rest (loopSpan l (b, e)).1 (loopSpan l (b, e)).2 with
    | none => rw [h2] at h; simp at h
    | some ds =>
      rw [h2] at h
      simp only [Option.some.injEq] at h
      exact ⟨cs0, ds, _, _, h.symm, executeLoop_load_inner X B l b e cs0 hl h1, h2⟩

/-- The end of a statement with a block of parameters: the text token of the block, the action
token and the token of the block rule, the action token and the token of the statement. -/
theorem executeLoop_load_close (X B : List Nat) (A R A2 R2 : pegRule) (c2 : Call)
    (hA : ∀ b e, executeAction X b e A = some [.span .AssembleSourceSinkSpecs b e])
    (hR : ∀ b e, executeAction X b e R = some [])
    (hA2 : ∀ b e, executeAction X b e A2 = some [c2])
    (hR2 : ∀ b e, executeAction X b e R2 = some [])
    (hAt : A ≠ .rulePegText) (hRt : R ≠ .rulePegText) (hA2t : A2 ≠ .rulePegText)
    (hR2t : R2 ≠ .rulePegText)
    (q p1 d0 : Nat) (tA tR tA2 tR2 : token32) (hrA : tA.rule = A) (hrR : tR.rule = R)
    (hrA2 : tA2.rule = A2) (hrR2 : tR2.rule = R2) (rest : List token32) (b e : Nat)
    (cs : List Call)
    (h : executeLoop X B (⟨.rulePegText, q, p1, d0⟩ :: tA :: tR :: tA2 :: tR2 :: rest) b e =
      some cs) :
    ∃ ds, cs = .span .AssembleSourceSinkSpecs q p1 :: c2 :: ds ∧
      executeLoop X B rest q p1 = some ds := by
  rw [executeLoop_cons_text] at h
  cases hsl : slice B q p1 with
  | none => rw [hsl] at h; simp at h
  | some x =>
    rw [hsl] at h
    simp only [] at h
    rw [executeLoop_cons_other X B tA _ q p1 (by rw [hrA]; exact hAt), hrA, hA,
      executeLoop_cons_other X B tR _ q p1 (by rw [hrR]; exact hRt), hrR, hR,
      executeLoop_cons_other X B tA2 _ q p1 (by rw [hrA2]; exact hA2t), hrA2, hA2,
      executeLoop_cons_other X B tR2 _ q p1 (by rw [hrR2]; exact hR2t), hrR2, hR2] at h
    cases h2 : executeLoop X B rest q p1 with
    | none => rw [h2] at h; simp at h
    | some ds =>
      rw [h2] at h
      simp only [Option.some.injEq] at h
      exact ⟨ds, by rw [← h]; rfl, rfl⟩



theorem grammar_StateStmt : grammar .ruleStateStmt = .expr Body.ruleStateStmt := rfl
theorem grammar_CreateStateStmt :
    grammar .ruleCreateStateStmt = .expr Body.ruleCreateStateStmt := rfl
theorem grammar_UpdateStateStmt :
    grammar .ruleUpdateStateStmt = .expr Body.ruleUpdateStateStmt := rfl
theorem grammar_DropStateStmt : grammar .ruleDropStateStmt = .expr Body.ruleDropStateStmt := rfl

/-- A block rule `R <- <(<(g)?> A)>` of parameters returns true at every position; the text
span is empty exactly when the group does not match. -/
theorem Eval_specs_slot {R A : pegRule} {g : Peg}
    (hR : grammar R = .expr (.seq (.text (.opt g)) (.call A))) (hA : grammar A = .action)
    (hs : starOK g = true) (hc : callsOK g = true) (hin : callsIn paramRule g = true)
    (hne : mayEmpty g = false) (d p : Nat) (r : List Nat) (t : List token32) (hg : Good r) :
    ∃ p1 r1 inner,
      Eval (.call R) d p r t (.ok p1 r1
        (⟨R, p, p1, d⟩ :: ⟨A, p1, p1, d + 1⟩ :: ⟨.rulePegText, p, p1, d + 1⟩ :: (inner ++ t))) ∧
      (∀ tok ∈ inner, loadAction tok.rule = false) ∧
      (p1 = p ↔ Eval g (d + 2) p r t .fail) := by
  rcases Eval.total_expr g hs hc (d + 2) p r t hg with hf | ⟨p1, r1, t1, hok⟩
  · exact ⟨p, r, [], Eval.call_ok hR
      (Eval.seq_ok (Eval.text_ok (Eval.opt_fail hf)) (Eval.call_action hA (d + 1) _ _ _)),
      by simp, ⟨fun _ => hf, fun _ => rfl⟩⟩
  · obtain ⟨inner, rfl, hi⟩ := hok.param_tokens hin
    have hlt := hok.advanced hne
    refine ⟨p1, r1, inner, Eval.call_ok hR
      (Eval.seq_ok (Eval.text_ok (Eval.opt_ok hok)) (Eval.call_action hA (d + 1) _ _ _)),
      hi, ⟨fun h => by omega, fun h => ?_⟩⟩
    have := hok.det h
    simp at this

/-- The tokens of a run of rule `LoadStateOrCreateStmt`: those of the run of rule
`LoadStateStmt` it starts with, the tokens of the keywords, and the block of rule
`SourceSinkSpecs` with `Action44`, then `Action22`. -/
theorem Eval_LoadStateOrCreateStmt_tokens {d p : Nat} {r : List Nat} {t : List token32}
    {p2 : Nat} {r2 : List Nat} {t2 : List token32}
    (h : Eval (.call .ruleLoadStateOrCreateStmt) d p r t (.ok p2 r2 t2)) :
    ∃ pl rl q1 q2 inner1 mid inner2,
      Eval (.call .ruleLoadStateStmt) (d + 1) p r t (.ok pl rl
        (⟨.ruleLoadStateStmt, p, pl, d + 1⟩ :: ⟨.ruleAction21, pl, pl, d + 1 + 1⟩ ::
        ⟨.ruleSetOptSpecs, q1, pl, d + 1 + 1⟩ :: ⟨.ruleAction46, pl, pl, d + 1 + 1 + 1⟩ ::
        ⟨.rulePegText, q1, pl, d + 1 + 1 + 1⟩ :: (inner1 ++ t))) ∧
      t2 = ⟨.ruleLoadStateOrCreateStmt, p, p2, d⟩ :: ⟨.ruleAction22, p2, p2, d + 1⟩ ::
        ⟨.ruleSourceSinkSpecs, q2, p2, d + 1⟩ :: ⟨.ruleAction44, p2, p2, d + 1 + 1⟩ ::
        ⟨.rulePegText, q2, p2, d + 1 + 1⟩ :: (inner2 ++ (mid ++
        (⟨.ruleLoadStateStmt, p, pl, d + 1⟩ :: ⟨.ruleAction21, pl, pl, d + 1 + 1⟩ ::
        ⟨.ruleSetOptSpecs, q1, pl, d + 1 + 1⟩ :: ⟨.ruleAction46, pl, pl, d + 1 + 1 + 1⟩ ::
        ⟨.rulePegText, q1, pl, d + 1 + 1 + 1⟩ :: (inner1 ++ t)))) ∧
      (∀ tok ∈ inner1, loadAction tok.rule = false) ∧
      (∀ tok ∈ mid, loadAction tok.rule = false) ∧
      (∀ tok ∈ inner2, loadAction tok.rule = false) ∧ pl ≤ q2 := by
  obtain ⟨t3, rfl, hb⟩ := h.call_inv grammar_LoadStateOrCreateStmt
  obtain ⟨pl, rl, tl, hl, h⟩ := hb.seq_inv
  obtain ⟨q1, inner1, rfl, hi1⟩ := Eval_LoadStateStmt_tokens hl
  have hmono : ∀ {e : Peg} {d p : Nat} {r : List Nat} {t : List token32} {p1 : Nat}
      {r1 : List Nat} {t1 : List token32}, Eval e d p r t (.ok p1 r1 t1) → p ≤ p1 := by
    intro e d p r t p1 r1 t1 he
    obtain ⟨f, hf, _⟩ := he
    obtain ⟨w, _, hp, _, _, _⟩ := execF_consumed f e d p r t p1 r1 t1 hf
    omega
  obtain ⟨a1, b1, c1, h1⟩ := h.seq_inv
  have m1 := hmono h1.1
  obtain ⟨n1, rfl, f1⟩ := h1.1.param_tokens rfl
  obtain ⟨a2, b2, c2, h2⟩ := h1.2.seq_inv
  have m2 := hmono h2.1
  obtain ⟨n2, rfl, f2⟩ := h2.1.param_tokens rfl
  obtain ⟨a3, b3, c3, h3⟩ := h2.2.seq_inv
  have m3 := hmono h3.1
  obtain ⟨n3, rfl, f3⟩ := h3.1.param_tokens rfl
  obtain ⟨a4, b4, c4, h4⟩ := h3.2.seq_inv
  have m4 := hmono h4.1
  obtain ⟨n4, rfl, f4⟩ := h4.1.param_tokens rfl
  obtain ⟨a5, b5, c5, h5⟩ := h4.2.seq_inv
  have m5 := hmono h5.1
  obtain ⟨n5, rfl, f5⟩ := h5.1.param_tokens rfl
  obtain ⟨a6, b6, c6, h6⟩ := h5.2.seq_inv
  have m6 := hmono h6.1
  obtain ⟨n6, rfl, f6⟩ := h6.1.param_tokens rfl
  obtain ⟨a7, b7, c7, h7⟩ := h6.2.seq_inv
  have m7 := hmono h7.1
  obtain ⟨n7, rfl, f7⟩ := h7.1.param_tokens rfl
  obtain ⟨a8, b8, c8, h8⟩ := h7.2.seq_inv
  have m8 := hmono h8.1
  obtain ⟨n8, rfl, f8⟩ := h8.1.param_tokens rfl
  obtain ⟨a9, b9, c9, h9⟩ := h8.2.seq_inv
  have m9 := hmono h9.1
  obtain ⟨n9, rfl, f9⟩ := h9.1.param_tokens rfl
  obtain ⟨q2, b10, c10, h10⟩ := h9.2.seq_inv
  have m10 := hmono h10.1
  obtain ⟨n10, rfl, f10⟩ := h10.1.param_tokens rfl
  obtain ⟨pa, ra, ta, hs1, hs2⟩ := h10.2.seq_inv
  obtain ⟨rfl, rfl, rfl⟩ := hs2.action_inv grammar_Action22
  obtain ⟨inner2, rfl, hi2, _⟩ := hs1.specs_inv grammar_SourceSinkSpecs grammar_Action44 rfl rfl
  refine ⟨pl, rl, q1, q2, inner1,
    n10 ++ (n9 ++ (n8 ++ (n7 ++ (n6 ++ (n5 ++ (n4 ++ (n3 ++ (n2 ++ n1)))))))), inner2,
    hl, ?_, hi1, ?_, hi2, by omega⟩
  · simp only [List.append_assoc]
  · intro tok htok
    simp only [List.mem_append] at htok
    rcases htok with h | h | h | h | h | h | h | h | h | h
    · exact f10 tok h
    · exact f9 tok h
    · exact f8 tok h
    · exact f7 tok h
    · exact f6 tok h
    · exact f5 tok h
    · exact f4 tok h
    · exact f3 tok h
    · exact f2 tok h
    · exact f1 tok h

/-- What `Execute` issues on the tokens of a run of rule `LoadStateStmt`. -/
theorem executeLoop_LoadStateStmt (X B : List Nat) (p p1 q d : Nat) (inner : List token32)
    (hi : ∀ tok ∈ inner, loadAction tok.rule = false) (rest : List token32) (b e : Nat)
    (cs : List Call)
    (h : executeLoop X B ((⟨.ruleLoadStateStmt, p, p1, d⟩ :: ⟨.ruleAction21, p1, p1, d + 1⟩ ::
        ⟨.ruleSetOptSpecs, q, p1, d + 1⟩ :: ⟨.ruleAction46, p1, p1, d + 1 + 1⟩ ::
        ⟨.rulePegText, q, p1, d + 1 + 1⟩ :: inner).reverse ++ rest) b e = some cs) :
    ∃ cs0 ds, cs = cs0 ++ ds ∧ cs0.filter loadAssembly =
        [.span .AssembleSourceSinkSpecs q p1, .simple .AssembleLoadState] ∧
      executeLoop X B rest q p1 = some ds := by
  have e1 : (⟨.ruleLoadStateStmt, p, p1, d⟩ :: ⟨.ruleAction21, p1, p1, d + 1⟩ ::
        ⟨.ruleSetOptSpecs, q, p1, d + 1⟩ :: ⟨.ruleAction46, p1, p1, d + 1 + 1⟩ ::
        ⟨.rulePegText, q, p1, d + 1 + 1⟩ :: inner : List token32).reverse ++ rest =
      inner.reverse ++ (⟨.rulePegText, q, p1, d + 1 + 1⟩ :: ⟨.ruleAction46, p1, p1, d + 1 + 1⟩ ::
        ⟨.ruleSetOptSpecs, q, p1, d + 1⟩ :: ⟨.ruleAction21, p1, p1, d + 1⟩ ::
        ⟨.ruleLoadStateStmt, p, p1, d⟩ :: rest) := by
    simp
  rw [e1] at h
  obtain ⟨cs0, ds, b1, e1, rfl, hcs0, h2⟩ := executeLoop_load_skip X B _ _ b e cs
    (fun tok htok => hi tok (List.mem_reverse.mp htok)) h
  obtain ⟨ds2, rfl, h3⟩ := executeLoop_load_close X B .ruleAction46 .ruleSetOptSpecs
    .ruleAction21 .ruleLoadStateStmt (.simple .AssembleLoadState) (fun _ _ => rfl)
    (fun _ _ => rfl) (fun _ _ => rfl) (fun _ _ => rfl) (by decide) (by decide) (by decide)
    (by decide) q p1 _ _ _ _ _ rfl rfl rfl rfl rest b1 e1 _ h2
  refine ⟨cs0 ++ [.span .AssembleSourceSinkSpecs q p1, .simple .AssembleLoadState], ds2,
    by simp, ?_, h3⟩
  rw [List.filter_append, hcs0]
  rfl

/-- What `Execute` issues on the tokens of a run of rule `LoadStateOrCreateStmt`. -/
theorem executeLoop_LoadStateOrCreateStmt (X B : List Nat) (p pl p2 q1 q2 d : Nat)
    (inner1 mid inner2 : List token32)
    (hi1 : ∀ tok ∈ inner1, loadAction tok.rule = false)
    (hm : ∀ tok ∈ mid, loadAction tok.rule = false)
    (hi2 : ∀ tok ∈ inner2, loadAction tok.rule = false) (b e : Nat) (cs : List Call)
    (h : executeLoop X B (⟨.ruleLoadStateOrCreateStmt, p, p2, d⟩ ::
        ⟨.ruleAction22, p2, p2, d + 1⟩ ::
        ⟨.ruleSourceSinkSpecs, q2, p2, d + 1⟩ :: ⟨.ruleAction44, p2, p2, d + 1 + 1⟩ ::
        ⟨.rulePegText, q2, p2, d + 1 + 1⟩ :: (inner2 ++ (mid ++
        (⟨.ruleLoadStateStmt, p, pl, d + 1⟩ :: ⟨.ruleAction21, pl, pl, d + 1 + 1⟩ ::
        ⟨.ruleSetOptSpecs, q1, pl, d + 1 + 1⟩ :: ⟨.ruleAction46, pl, pl, d + 1 + 1 + 1⟩ ::
        ⟨.rulePegText, q1, pl, d + 1 + 1 + 1⟩ :: inner1)))).reverse b e = some cs) :
    cs.filter loadAssembly =
      [.span .AssembleSourceSinkSpecs q1 pl, .simple .AssembleLoadState,
        .span .AssembleSourceSinkSpecs q2 p2, .simple .AssembleLoadStateOrCreate] := by
  have e1 : (⟨.ruleLoadStateOrCreateStmt, p, p2, d⟩ ::
        ⟨.ruleAction22, p2, p2, d + 1⟩ ::
        ⟨.ruleSourceSinkSpecs, q2, p2, d + 1⟩ :: ⟨.ruleAction44, p2, p2, d + 1 + 1⟩ ::
        ⟨.rulePegText, q2, p2, d + 1 + 1⟩ :: (inner2 ++ (mid ++
        (⟨.ruleLoadStateStmt, p, pl, d + 1⟩ :: ⟨.ruleAction21, pl, pl, d + 1 + 1⟩ ::
        ⟨.ruleSetOptSpecs, q1, pl, d + 1 + 1⟩ :: ⟨.ruleAction46, pl, pl, d + 1 + 1 + 1⟩ ::
        ⟨.rulePegText, q1, pl, d + 1 + 1 + 1⟩ :: inner1))) : List token32).reverse =
      (⟨.ruleLoadStateStmt, p, pl, d + 1⟩ :: ⟨.ruleAction21, pl, pl, d + 1 + 1⟩ ::
        ⟨.ruleSetOptSpecs, q1, pl, d + 1 + 1⟩ :: ⟨.ruleAction46, pl, pl, d + 1 + 1 + 1⟩ ::
        ⟨.rulePegText, q1, pl, d + 1 + 1 + 1⟩ :: inner1 : List token32).reverse ++
      ((inner2 ++ mid).reverse ++ (⟨.rulePegText, q2, p2, d + 1 + 1⟩ ::
        ⟨.ruleAction44, p2, p2, d + 1 + 1⟩ :: ⟨.ruleSourceSinkSpecs, q2, p2, d + 1⟩ ::
        ⟨.ruleAction22, p2, p2, d + 1⟩ :: ⟨.ruleLoadStateOrCreateStmt, p, p2, d⟩ :: [])) := by
    simp
  rw [e1] at h
  obtain ⟨cs0, ds, rfl, hcs0, h2⟩ := executeLoop_LoadStateStmt X B p pl q1 (d + 1) inner1 hi1
    _ b e cs h
  obtain ⟨cs1, ds1, b1, e1, rfl, hcs1, h3⟩ := executeLoop_load_skip X B _ _ _ _ ds
    (fun tok htok => by
      rcases List.mem_append.mp (List.mem_reverse.mp htok) with h | h
      · exact hi2 tok h
      · exact hm tok h) h2
  obtain ⟨ds2, rfl, h4⟩ := executeLoop_load_close X B .ruleAction44 .ruleSourceSinkSpecs
    .ruleAction22 .ruleLoadStateOrCreateStmt (.simple .AssembleLoadStateOrCreate)
    (fun _ _ => rfl) (fun _ _ => rfl) (fun _ _ => rfl) (fun _ _ => rfl) (by decide)
    (by decide) (by decide) (by decide) q2 p2 _ _ _ _ _ rfl rfl rfl rfl [] b1 e1 _ h3
  simp only [executeLoop, Option.some.injEq] at h4
  subst h4
  rw [List.filter_append, hcs0, List.filter_append, hcs1]
  rfl



/-! ## Runs on related inputs -/

theorem ruleTrace_cons (q : pegRule) (b e d b1 e1 d1 : Nat) {t t1 : List token32}
    (h : ruleTrace t1 = ruleTrace t) :
    ruleTrace (⟨q, b1, e1, d1⟩ :: t1) = ruleTrace (⟨q, b, e, d⟩ :: t) := by
  simp only [ruleTrace, List.map_cons, List.filter_cons] at h ⊢
  rw [h]

theorem ResF.rel_ok {R : List Nat → List Nat → Prop} {p p1 : Nat} {r r1 : List Nat}
    {t t1 : List token32} (hr : R r r1) (ht : ruleTrace t1 = ruleTrace t) :
    ResF.rel R (.ok p r t) (.ok p1 r1 t1) := ⟨hr, ht⟩

/-- Two runs of the code of `e` on related inputs return alike, when the expressions that pass
`atom` do and every other expression of the code is made of them. -/
theorem execF_simulate (R : List Nat → List Nat → Prop) (atom : Peg → Bool)
    (callOK : pegRule → Bool)
    (hatom : ∀ e, atom e = true → ∀ (f d p p1 : Nat) (r r1 : List Nat) (t t1 : List token32),
      R r r1 → ruleTrace t1 = ruleTrace t → execF f e d p r t ≠ .oof →
      ∃ res1, Eval e d p1 r1 t1 res1 ∧ ResF.rel R (execF f e d p r t) res1)
    (hrule : ∀ q body, callOK q = true → grammar q = .expr body →
      simOK atom callOK body = true)
    (f : Nat) : ∀ (e : Peg) (d p p1 : Nat) (r r1 : List Nat) (t t1 : List token32),
      simOK atom callOK e = true → R r r1 → ruleTrace t1 = ruleTrace t →
      execF f e d p r t ≠ .oof →
      ∃ res1, Eval e d p1 r1 t1 res1 ∧ ResF.rel R (execF f e d p r t) res1 := by
  induction f with
  | zero => intro e d p p1 r r1 t t1 _ _ _ h; exact absurd rfl h
  | succ n ih =>
    intro e d p p1 r r1 t t1 hc hs ht hne
    by_cases hat : atom e = true
    · exact hatom e hat _ d p p1 r r1 t t1 hs ht hne
    · cases e with
      | chr c => exact absurd hc hat
      | rng lo hi => exact absurd hc hat
      | dot => exact absurd hc hat
      | call q =>
        simp only [simOK, hat, Bool.false_or] at hc
        rw [execF_call] at hne ⊢
        cases hq : grammar q with
        | nil =>
          refine ⟨.panic, ⟨1, by rw [execF_call, hq], by simp⟩, ?_⟩
          simp [ResF.rel]
        | action =>
          refine ⟨_, Eval.call_action hq d p1 r1 t1, ?_⟩
          exact ResF.rel_ok hs (ruleTrace_cons q _ _ _ _ _ _ ht)
        | expr body =>
          simp only [hq] at hne ⊢
          have hb := hrule q body hc hq
          have hne2 : execF n body (d + 1) p r t ≠ .oof := by
            intro h; rw [h] at hne; exact hne rfl
          obtain ⟨res', he, hsim⟩ := ih body (d + 1) p p1 r r1 t t1 hb hs ht hne2
          cases hx : execF n body (d + 1) p r t with
          | oof => exact absurd hx hne2
          | panic =>
            rw [hx] at hsim
            cases res' <;> simp only [ResF.rel] at hsim
            exact ⟨.panic, (Eval_call_expr hq).mpr ⟨_, he, rfl⟩, True.intro⟩
          | fail =>
            rw [hx] at hsim
            cases res' <;> simp only [ResF.rel] at hsim
            exact ⟨.fail, Eval.call_fail hq he, True.intro⟩
          | ok p2 r2 t2 =>
            rw [hx] at hsim
            cases res' <;> simp only [ResF.rel] at hsim
            exact ⟨_, Eval.call_ok hq he, ResF.rel_ok hsim.1 (ruleTrace_cons q _ _ _ _ _ _ hsim.2)⟩
      | seq a b =>
        simp only [simOK, hat, Bool.false_or, Bool.and_eq_true] at hc
        rw [execF_seq] at hne ⊢
        have hne2 : execF n a d p r t ≠ .oof := by
          intro h; rw [h] at hne; exact hne rfl
        obtain ⟨res', he, hsim⟩ := ih a d p p1 r r1 t t1 hc.1 hs ht hne2
        cases hx : execF n a d p r t with
        | oof => exact absurd hx hne2
        | panic =>
          rw [hx] at hsim
          cases res' <;> simp only [ResF.rel] at hsim
          exact ⟨.panic, Eval_seq.mpr ⟨_, he, rfl⟩, True.intro⟩
        | fail =>
          rw [hx] at hsim
          cases res' <;> simp only [ResF.rel] at hsim
          exact ⟨.fail, Eval.seq_fail he, True.intro⟩
        | ok p2 r2 t2 =>
          rw [hx] at hsim hne
          cases res' <;> simp only [ResF.rel] at hsim
          simp only [] at hne ⊢
          obtain ⟨res2, he2, hsim2⟩ := ih b d p2 _ r2 _ t2 _ hc.2 hsim.1 hsim.2 hne
          exact ⟨res2, Eval.seq_ok he he2, hsim2⟩
      | alt a b =>
        simp only [simOK, hat, Bool.false_or, Bool.and_eq_true] at hc
        rw [execF_alt] at hne ⊢
        have hne2 : execF n a d p r t ≠ .oof := by
          intro h; rw [h] at hne; exact hne rfl
        obtain ⟨res', he, hsim⟩ := ih a d p p1 r r1 t t1 hc.1 hs ht hne2
        cases hx : execF n a d p r t with
        | oof => exact absurd hx hne2
        | panic =>
          rw [hx] at hsim
          cases res' <;> simp only [ResF.rel] at hsim
          exact ⟨.panic, Eval_alt.mpr ⟨_, he, rfl⟩, True.intro⟩
        | fail =>
          rw [hx] at hsim hne
          cases res' <;> simp only [ResF.rel] at hsim
          simp only [] at hne ⊢
          obtain ⟨res2, he2, hsim2⟩ := ih b d p p1 r r1 t t1 hc.2 hs ht hne
          exact ⟨res2, Eval.alt_fail he he2, hsim2⟩
        | ok p2 r2 t2 =>
          rw [hx] at hsim
          cases res' <;> simp only [ResF.rel] at hsim
          exact ⟨_, Eval.alt_ok he, ResF.rel_ok hsim.1 hsim.2⟩
      | opt a =>
        simp only [simOK, hat, Bool.false_or] at hc
        rw [execF_opt] at hne ⊢
        have hne2 : execF n a d p r t ≠ .oof := by
          intro h; rw [h] at hne; exact hne rfl
        obtain ⟨res', he, hsim⟩ := ih a d p p1 r r1 t t1 hc hs ht hne2
        cases hx : execF n a d p r t with
        | oof => exact absurd hx hne2
        | panic =>
          rw [hx] at hsim
          cases res' <;> simp only [ResF.rel] at hsim
          exact ⟨.panic, Eval_opt.mpr ⟨_, he, rfl⟩, True.intro⟩
        | fail =>
          rw [hx] at hsim
          cases res' <;> simp only [ResF.rel] at hsim
          exact ⟨_, Eval.opt_fail he, ResF.rel_ok hs ht⟩
        | ok p2 r2 t2 =>
          rw [hx] at hsim
          cases res' <;> simp only [ResF.rel] at hsim
          exact ⟨_, Eval.opt_ok he, ResF.rel_ok hsim.1 hsim.2⟩
      | star a =>
        have hc2 := hc
        simp only [simOK, hat, Bool.false_or] at hc
        rw [execF_star] at hne ⊢
        have hne2 : execF n a d p r t ≠ .oof := by
          intro h; rw [h] at hne; exact hne rfl
        obtain ⟨res', he, hsim⟩ := ih a d p p1 r r1 t t1 hc hs ht hne2
        cases hx : execF n a d p r t with
        | oof => exact absurd hx hne2
        | panic =>
          rw [hx] at hsim
          cases res' <;> simp only [ResF.rel] at hsim
          exact ⟨.panic, Eval_star.mpr ⟨_, he, rfl⟩, True.intro⟩
        | fail =>
          rw [hx] at hsim
          cases res' <;> simp only [ResF.rel] at hsim
          exact ⟨_, Eval.star_fail he, ResF.rel_ok hs ht⟩
        | ok p2 r2 t2 =>
          rw [hx] at hsim hne
          cases res' <;> simp only [ResF.rel] at hsim
          simp only [] at hne ⊢
          obtain ⟨res2, he2, hsim2⟩ := ih (.star a) d p2 _ r2 _ t2 _ hc2 hsim.1 hsim.2 hne
          exact ⟨res2, Eval.star_ok he he2, hsim2⟩
      | nt a =>
        simp only [simOK, hat, Bool.false_or] at hc
        rw [execF_nt] at hne ⊢
        have hne2 : execF n a d p r t ≠ .oof := by
          intro h; rw [h] at hne; exact hne rfl
        obtain ⟨res', he, hsim⟩ := ih a d p p1 r r1 t t1 hc hs ht hne2
        cases hx : execF n a d p r t with
        | oof => exact absurd hx hne2
        | panic =>
          rw [hx] at hsim
          cases res' <;> simp only [ResF.rel] at hsim
          exact ⟨.panic, Eval_nt.mpr ⟨_, he, rfl⟩, True.intro⟩
        | fail =>
          rw [hx] at hsim
          cases res' <;> simp only [ResF.rel] at hsim
          exact ⟨_, Eval.nt_fail he, ResF.rel_ok hs ht⟩
        | ok p2 r2 t2 =>
          rw [hx] at hsim
          cases res' <;> simp only [ResF.rel] at hsim
          exact ⟨_, Eval.nt_ok he, True.intro⟩
      | text a =>
        simp only [simOK, hat, Bool.false_or] at hc
        rw [execF_text] at hne ⊢
        have hne2 : execF n a (d + 1) p r t ≠ .oof := by
          intro h; rw [h] at hne; exact hne rfl
        obtain ⟨res', he, hsim⟩ := ih a (d + 1) p p1 r r1 t t1 hc hs ht hne2
        cases hx : execF n a (d + 1) p r t with
        | oof => exact absurd hx hne2
        | panic =>
          rw [hx] at hsim
          cases res' <;> simp only [ResF.rel] at hsim
          exact ⟨.panic, Eval_text.mpr ⟨_, he, rfl⟩, True.intro⟩
        | fail =>
          rw [hx] at hsim
          cases res' <;> simp only [ResF.rel] at hsim
          exact ⟨.fail, Eval.text_fail he, True.intro⟩
        | ok p2 r2 t2 =>
          rw [hx] at hsim
          cases res' <;> simp only [ResF.rel] at hsim
          exact ⟨_, Eval.text_ok he,
            ResF.rel_ok hsim.1 (ruleTrace_cons .rulePegText _ _ _ _ _ _ hsim.2)⟩



/-! ## The same input at another position -/

theorem simOK_terminal (e : Peg) : simOK isTerminal (fun _ => true) e = true := by
  induction e with
  | chr c => rfl
  | rng lo hi => rfl
  | dot => rfl
  | call q => simp [simOK]
  | seq a b iha ihb => simp [simOK, iha, ihb]
  | alt a b iha ihb => simp [simOK, iha, ihb]
  | opt a ih => simp [simOK, ih]
  | star a ih => simp [simOK, ih]
  | nt a ih => simp [simOK, ih]
  | text a ih => simp [simOK, ih]

theorem terminal_shift (e : Peg) (he : isTerminal e = true) (f d p p1 : Nat) (r r1 : List Nat)
    (t t1 : List token32) (hr : r1 = r) (ht : ruleTrace t1 = ruleTrace t)
    (hne : execF f e d p r t ≠ .oof) :
    ∃ res1, Eval e d p1 r1 t1 res1 ∧ ResF.rel (fun r r1 => r1 = r) (execF f e d p r t) res1 := by
  subst hr
  cases f with
  | zero => exact absurd rfl hne
  | succ n =>
    cases e with
    | chr c =>
      refine ⟨_, Eval_chr.mpr rfl, ?_⟩
      rw [execF_chr]
      cases r1 with
      | nil => exact True.intro
      | cons x xs =>
        simp only []
        split
        · exact True.intro
        · exact ⟨rfl, ht⟩
    | rng lo hi =>
      refine ⟨_, Eval_rng.mpr rfl, ?_⟩
      rw [execF_rng]
      cases r1 with
      | nil => exact True.intro
      | cons x xs =>
        simp only []
        split
        · exact True.intro
        · exact ⟨rfl, ht⟩
    | dot =>
      refine ⟨_, Eval_dot.mpr rfl, ?_⟩
      rw [execF_dot]
      cases r1 with
      | nil => exact True.intro
      | cons x xs =>
        simp only []
        split
        · exact ⟨rfl, ht⟩
        · exact True.intro
    | call q => exact absurd he (by simp [isTerminal])
    | seq a b => exact absurd he (by simp [isTerminal])
    | alt a b => exact absurd he (by simp [isTerminal])
    | opt a => exact absurd he (by simp [isTerminal])
    | star a => exact absurd he (by simp [isTerminal])
    | nt a => exact absurd he (by simp [isTerminal])
    | text a => exact absurd he (by simp [isTerminal])

/-- A run on the same rest of the input from another position, after other tokens of the
same rules, returns alike. -/
theorem Eval.shift {e : Peg} {d p : Nat} {r : List Nat} {t : List token32} {res : ResF}
    (h : Eval e d p r t res) (p1 : Nat) (t1 : List token32)
    (ht : ruleTrace t1 = ruleTrace t) :
    ∃ res1, Eval e d p1 r t1 res1 ∧ ResF.rel (fun r r1 => r1 = r) res res1 := by
  obtain ⟨f, hf, hne⟩ := h
  have := execF_simulate (fun r r1 => r1 = r) isTerminal (fun _ => true) terminal_shift
    (fun q body _ _ => simOK_terminal body) f e d p p1 r r t t1 (simOK_terminal e) rfl ht
    (by rw [hf]; exact hne)
  rw [hf] at this
  exact this

theorem Eval.shift_ok {e : Peg} {d p : Nat} {r : List Nat} {t : List token32} {p2 : Nat}
    {r2 : List Nat} {t2 : List token32}
    (h : Eval e d p r t (.ok p2 r2 t2)) (p1 : Nat) (t1 : List token32)
    (ht : ruleTrace t1 = ruleTrace t) :
    ∃ p3 t3, Eval e d p1 r t1 (.ok p3 r2 t3) ∧ ruleTrace t3 = ruleTrace t2 := by
  obtain ⟨res1, he, hr⟩ := h.shift p1 t1 ht
  cases res1 with
  | ok p3 r3 t3 =>
    obtain ⟨h1, h2⟩ := hr
    have h3 : r3 = r2 := h1
    subst h3
    exact ⟨p3, t3, he, h2⟩
  | oof => exact absurd hr (by simp [ResF.rel])
  | panic => exact absurd hr (by simp [ResF.rel])
  | fail => exact absurd hr (by simp [ResF.rel])

theorem Eval.shift_fail {e : Peg} {d p : Nat} {r : List Nat} {t : List token32}
    (h : Eval e d p r t .fail) (p1 : Nat) (t1 : List token32)
    (ht : ruleTrace t1 = ruleTrace t) : Eval e d p1 r t1 .fail := by
  obtain ⟨res1, he, hr⟩ := h.shift p1 t1 ht
  cases res1 with
  | fail => exact he
  | oof => exact absurd hr (by simp [ResF.rel])
  | panic => exact absurd hr (by simp [ResF.rel])
  | ok p3 r3 t3 => exact absurd hr (by simp [ResF.rel])



/-! ## Texts that end in a whitespace gap -/

theorem isBlank_iff (x : Nat) : isBlank x = true ↔ x = 32 ∨ x = 9 ∨ x = 10 ∨ x = 13 := by
  simp [isBlank, or_assoc]

theorem ruleTrace_spElem (b e d : Nat) (t : List token32) :
    ruleTrace (⟨.rulespElem, b, e, d⟩ :: t) = ruleTrace t := rfl

theorem ruleTrace_comment (b e d : Nat) (t : List token32) :
    ruleTrace (⟨.rulecomment, b, e, d⟩ :: t) = ruleTrace t := rfl

theorem blank_of_isBlank_false {x : Nat} (h : isBlank x = false) :
    x ≠ 32 ∧ x ≠ 9 ∧ x ≠ 10 ∧ x ≠ 13 := by
  have := (isBlank_iff x).not.mp (by simp [h])
  simpa [not_or] using this

theorem Parse_nil_eval {Buffer : String} {tree : List token32} (h : Parse Buffer = .nil tree) :
    ∃ p1 r1 toks, Eval (.call .ruleSingleStatement) 0 0 (runes Buffer ++ [end_symbol]) []
      (.ok p1 r1 toks) ∧ tree = toks.reverse := by
  have hP := parseRule_of_execF (parseFuel (runes Buffer).length) (runes Buffer)
    .ruleSingleStatement
  have hne := parseFuel_enough (runes Buffer).length .ruleSingleStatement 0 0
    (Init (runes Buffer)) [] (Init_length_le _)
  have hE : Eval (.call .ruleSingleStatement) 0 0 (Init (runes Buffer)) []
      (execF (parseFuel (runes Buffer).length) (.call .ruleSingleStatement) 0 0
        (Init (runes Buffer)) []) := ⟨_, rfl, hne⟩
  unfold Parse at h
  rw [Init_runes] at hE hP
  cases hx : execF (parseFuel (runes Buffer).length) (.call .ruleSingleStatement) 0 0
      (runes Buffer ++ [end_symbol]) [] with
  | oof => rw [hx] at hP; rw [hP] at h; cases h
  | panic => rw [hx] at hP; rw [hP] at h; cases h
  | fail =>
    rw [hx] at hP
    obtain ⟨tr, hP⟩ := hP
    rw [hP] at h; cases h
  | ok p1 r1 toks =>
    rw [hx] at hP hE
    simp only [] at hP
    rw [hP] at h
    cases h
    exact ⟨p1, r1, toks, hE, rfl⟩

/-- A sequence that ends with the call of an action records the token of the action last. -/
theorem Eval.last_action {A : pegRule} (hA : grammar A = .action) :
    ∀ (e : Peg) {d p : Nat} {r : List Nat} {t : List token32} {p1 : Nat} {r1 : List Nat}
      {t1 : List token32}, lastCall e = some A → Eval e d p r t (.ok p1 r1 t1) →
      ∃ t0, t1 = ⟨A, p1, p1, d⟩ :: t0 := by
  intro e
  induction e with
  | seq a b _ ihb =>
    intro d p r t p1 r1 t1 hl h
    obtain ⟨p2, r2, t2, _, hb⟩ := h.seq_inv
    exact ihb hl hb
  | call q =>
    intro d p r t p1 r1 t1 hl h
    simp only [lastCall, Option.some.injEq] at hl
    subst hl
    obtain ⟨rfl, rfl, rfl⟩ := h.action_inv hA
    exact ⟨t, rfl⟩
  | chr c => intro d p r t p1 r1 t1 hl; simp [lastCall] at hl
  | rng lo hi => intro d p r t p1 r1 t1 hl; simp [lastCall] at hl
  | dot => intro d p r t p1 r1 t1 hl; simp [lastCall] at hl
  | alt a b => intro d p r t p1 r1 t1 hl; simp [lastCall] at hl
  | opt a => intro d p r t p1 r1 t1 hl; simp [lastCall] at hl
  | star a => intro d p r t p1 r1 t1 hl; simp [lastCall] at hl
  | nt a => intro d p r t p1 r1 t1 hl; simp [lastCall] at hl
  | text a => intro d p r t p1 r1 t1 hl; simp [lastCall] at hl

/-- A rule whose body ends with the call of an action records, when it returns true, the
token of the action and then its own token. -/
theorem Eval.rule_last_action {R A : pegRule} {body : Peg} (hR : grammar R = .expr body)
    (hl : lastCall body = some A) (hA : grammar A = .action) {d p : Nat} {r : List Nat}
    {t : List token32} {p1 : Nat} {r1 : List Nat} {t1 : List token32}
    (h : Eval (.call R) d p r t (.ok p1 r1 t1)) :
    ∃ t0, t1 = ⟨R, p, p1, d⟩ :: ⟨A, p1, p1, d + 1⟩ :: t0 := by
  obtain ⟨t2, rfl, hb⟩ := h.call_inv hR
  obtain ⟨t0, rfl⟩ := Eval.last_action hA body hl hb
  exact ⟨t0, rfl⟩



theorem Eval.alt_inv {a b : Peg} {d p : Nat} {r : List Nat} {t : List token32} {p1 : Nat}
    {r1 : List Nat} {t1 : List token32} (h : Eval (.alt a b) d p r t (.ok p1 r1 t1)) :
    Eval a d p r t (.ok p1 r1 t1) ∨ (Eval a d p r t .fail ∧ Eval b d p r t (.ok p1 r1 t1)) := by
  rw [Eval_alt] at h
  obtain ⟨ra, ha, hb⟩ := h
  cases ra with
  | ok p2 r2 t2 =>
    simp only [ResF.ok.injEq] at hb
    obtain ⟨rfl, rfl, rfl⟩ := hb
    exact Or.inl ha
  | fail => exact Or.inr ⟨ha, hb⟩
  | oof => simp at hb
  | panic => simp at hb

/-- A decidable property of the tree of `Parse` and of the calls of `Execute`, checked on one
run of `execF`. -/
theorem run_check (f : Nat) (Buffer : String) (P : List token32 → List Call → Bool)
    (h : (match execF f (.call .ruleSingleStatement) 0 0 (Init (runes Buffer)) [] with
      | .ok _ _ toks =>
        match Execute (runes Buffer) toks.reverse with
        | some cs => P toks.reverse cs
        | none => false
      | _ => false) = true) :
    ∃ tree cs, Parse Buffer = .nil tree ∧ parseExecute Buffer = .calls cs ∧
      P tree cs = true := by
  cases hx : execF f (.call .ruleSingleStatement) 0 0 (Init (runes Buffer)) [] with
  | ok p1 r1 t1 =>
    rw [hx] at h
    simp only [] at h
    have hP := Parse_of_execF f hx
    cases he : Execute (runes Buffer) t1.reverse with
    | none => rw [he] at h; exact absurd h (by simp)
    | some cs =>
      rw [he] at h
      refine ⟨t1.reverse, cs, hP, ?_, h⟩
      unfold parseExecute
      rw [hP]
      simp only []
      rw [he]
  | oof => rw [hx] at h; exact absurd h (by simp)
  | panic => rw [hx] at h; exact absurd h (by simp)
  | fail => rw [hx] at h; exact absurd h (by simp)

/-- A decidable proposition about the tree of `Parse` and the calls of `Execute`, checked on
one run of `execF`. -/
theorem run_prop (f : Nat) (Buffer : String) (Q : List token32 → List Call → Prop)
    [∀ tree cs, Decidable (Q tree cs)]
    (h : (match execF f (.call .ruleSingleStatement) 0 0 (Init (runes Buffer)) [] with
      | .ok _ _ toks =>
        match Execute (runes Buffer) toks.reverse with
        | some cs => decide (Q toks.reverse cs)
        | none => false
      | _ => false) = true) :
    ∃ tree cs, Parse Buffer = .nil tree ∧ parseExecute Buffer = .calls cs ∧ Q tree cs := by
  obtain ⟨tree, cs, h1, h2, hP⟩ := run_check f Buffer (fun tree cs => decide (Q tree cs)) h
  exact ⟨tree, cs, h1, h2, of_decide_eq_true hP⟩



/-! ## The frame of the parser code -/

theorem Frame.same (s : State) : Frame s s := ⟨rfl, Nat.le_refl _, Nat.le_refl _⟩

theorem Frame.chain {s s1 s2 : State} (h1 : Frame s s1) (h2 : Frame s1 s2) : Frame s s2 :=
  ⟨h2.1.trans h1.1, Nat.le_trans h1.2.1 h2.2.1, Nat.le_trans h1.2.2 h2.2.2⟩

theorem Frame.restored (s s1 : State) : Frame s (restore s s1) :=
  ⟨rfl, Nat.le_refl _, Nat.le_refl _⟩

theorem Frame.of_restored {s s1 s2 : State} (h : Frame (restore s s1) s2) : Frame s s2 := h

/-- The code of every expression, when it falls through, keeps the frame. -/
theorem exec_frame (buffer : List Nat) : ∀ (f : Nat) (e : Peg) (s s1 : State),
    exec buffer f e s = .ok s1 → Frame s s1 := by
  intro f
  induction f with
  | zero => intro e s s1 h; cases h
  | succ n ih =>
    intro e s s1 h
    cases e with
    | chr c =>
      rw [exec_chr] at h
      cases hb : buffer[s.position]? with
      | none => rw [hb] at h; cases h
      | some x =>
        rw [hb] at h
        simp only [] at h
        split at h
        · cases h
        · cases h; exact ⟨rfl, Nat.le_succ _, Nat.le_refl _⟩
    | rng lo hi =>
      rw [exec_rng] at h
      cases hb : buffer[s.position]? with
      | none => rw [hb] at h; cases h
      | some x =>
        rw [hb] at h
        simp only [] at h
        split at h
        · cases h
        · cases h; exact ⟨rfl, Nat.le_succ _, Nat.le_refl _⟩
    | dot =>
      rw [exec_dot] at h
      cases hb : buffer[s.position]? with
      | none => rw [hb] at h; cases h
      | some x =>
        rw [hb] at h
        simp only [] at h
        split at h
        · cases h; exact ⟨rfl, Nat.le_succ _, Nat.le_refl _⟩
        · cases h
    | call q =>
      rw [exec_call] at h
      cases hg : grammar q with
      | nil => rw [hg] at h; cases h
      | action =>
        rw [hg] at h
        cases h
        exact ⟨rfl, Nat.le_refl _, Nat.le_succ _⟩
      | expr body =>
        rw [hg] at h
        simp only [] at h
        cases hx : exec buffer n body { s with depth := s.depth + 1 } with
        | oof => rw [hx] at h; cases h
        | panic => rw [hx] at h; cases h
        | fail s2 => rw [hx] at h; cases h
        | ok s2 =>
          rw [hx] at h
          cases h
          obtain ⟨h1, h2, h3⟩ := ih _ _ _ hx
          refine ⟨?_, h2, Nat.le_succ_of_le h3⟩
          show s2.depth - 1 = s.depth
          rw [h1]; rfl
    | seq a b =>
      rw [exec_seq] at h
      cases hx : exec buffer n a s with
      | oof => rw [hx] at h; cases h
      | panic => rw [hx] at h; cases h
      | fail s2 => rw [hx] at h; cases h
      | ok s2 =>
        rw [hx] at h
        exact (ih _ _ _ hx).chain (ih _ _ _ h)
    | alt a b =>
      rw [exec_alt] at h
      cases hx : exec buffer n a s with
      | oof => rw [hx] at h; cases h
      | panic => rw [hx] at h; cases h
      | fail s2 => rw [hx] at h; exact Frame.of_restored (ih _ _ _ h)
      | ok s2 => rw [hx] at h; cases h; exact ih _ _ _ hx
    | opt a =>
      rw [exec_opt] at h
      cases hx : exec buffer n a s with
      | oof => rw [hx] at h; cases h
      | panic => rw [hx] at h; cases h
      | fail s2 => rw [hx] at h; cases h; exact Frame.restored s s2
      | ok s2 => rw [hx] at h; cases h; exact ih _ _ _ hx
    | star a =>
      rw [exec_star] at h
      cases hx : exec buffer n a s with
      | oof => rw [hx] at h; cases h
      | panic => rw [hx] at h; cases h
      | fail s2 => rw [hx] at h; cases h; exact Frame.restored s s2
      | ok s2 => rw [hx] at h; exact (ih _ _ _ hx).chain (ih _ _ _ h)
    | nt a =>
      rw [exec_nt] at h
      cases hx : exec buffer n a s with
      | oof => rw [hx] at h; cases h
      | panic => rw [hx] at h; cases h
      | fail s2 => rw [hx] at h; cases h; exact Frame.restored s s2
      | ok s2 => rw [hx] at h; cases h
    | text a =>
      rw [exec_text] at h
      cases hx : exec buffer n a { s with depth := s.depth + 1 } with
      | oof => rw [hx] at h; cases h
      | panic => rw [hx] at h; cases h
      | fail s2 => rw [hx] at h; cases h
      | ok s2 =>
        rw [hx] at h
        cases h
        obtain ⟨h1, h2, h3⟩ := ih _ _ _ hx
        refine ⟨?_, h2, Nat.le_succ_of_le h3⟩
        show s2.depth - 1 = s.depth
        rw [h1]; rfl

/-- A rule function that returns true has added a token: `tokenIndex` is above its entry
value, the depth is as on entry and `position` is not below its entry value. -/
theorem exec_call_ok_frame (buffer : List Nat) (f : Nat) (q : pegRule) (s s1 : State)
    (h : exec buffer f (.call q) s = .ok s1) :
    s1.depth = s.depth ∧ s.position ≤ s1.position ∧ s.tokenIndex < s1.tokenIndex := by
  obtain ⟨hd, hp, _⟩ := exec_frame buffer f _ _ _ h
  refine ⟨hd, hp, ?_⟩
  cases f with
  | zero => cases h
  | succ n =>
    rw [exec_call] at h
    cases hg : grammar q with
    | nil => rw [hg] at h; cases h
    | action => rw [hg] at h; cases h; exact Nat.lt_succ_self _
    | expr body =>
      rw [hg] at h
      simp only [] at h
      cases hx : exec buffer n body { s with depth := s.depth + 1 } with
      | oof => rw [hx] at h; cases h
      | panic => rw [hx] at h; cases h
      | fail s2 => rw [hx] at h; cases h
      | ok s2 =>
        rw [hx] at h
        cases h
        have h3 := (exec_frame buffer n _ _ _ hx).2.2
        exact Nat.lt_succ_of_le h3

/-- A rule function that returns false has restored the state triple. -/
theorem exec_call_fail_frame (buffer : List Nat) (f : Nat) (q : pegRule) (s s1 : State)
    (h : exec buffer f (.call q) s = .fail s1) :
    s1.position = s.position ∧ s1.tokenIndex = s.tokenIndex ∧ s1.depth = s.depth := by
  cases f with
  | zero => cases h
  | succ n =>
    rw [exec_call] at h
    cases hg : grammar q with
    | nil => rw [hg] at h; cases h
    | action => rw [hg] at h; cases h
    | expr body =>
      rw [hg] at h
      simp only [] at h
      cases hx : exec buffer n body { s with depth := s.depth + 1 } with
      | oof => rw [hx] at h; cases h
      | panic => rw [hx] at h; cases h
      | ok s2 => rw [hx] at h; cases h
      | fail s2 => rw [hx] at h; cases h; exact ⟨rfl, rfl, rfl⟩



/-! ## Reading a slice of runes from an index -/

/-- The rune at an index where the rest of the runes starts with `x`. -/
theorem drop_cons {l : List Nat} {i x : Nat} {tl : List Nat} (h : l.drop i = x :: tl) :
    i < l.length ∧ l[i]? = some x ∧ l.drop (i + 1) = tl := by
  have hlt : i < l.length := by
    by_contra hc
    rw [List.drop_eq_nil_of_le (by omega)] at h
    cases h
  refine ⟨hlt, ?_, ?_⟩
  · have := List.getElem?_drop (L := l) (i := i) (j := 0)
    rw [h] at this
    simpa using this.symm
  · have : l.drop (i + 1) = (l.drop i).drop 1 := by
      rw [List.drop_drop]
    rw [this, h]; rfl

theorem drop_nil_iff {l : List Nat} {i : Nat} (h : l.drop i = []) : ¬ i < l.length := by
  intro hc
  have := List.length_drop i l
  rw [h] at this
  simp at this
  omega

theorem drop_length_eq {l : List Nat} {i : Nat} {w : List Nat} (h : l.drop i = w) :
    l.length - i = w.length := by
  rw [← h, List.length_drop]

/-! ## The function `getArrayIndex` -/

theorem getArrayIndexLoop_succ (isNumber : Nat → Bool) (l : List Nat) (f i : Nat)
    (acc : List Nat) :
    getArrayIndexLoop isNumber l (f + 1) i acc =
      if i < l.length then
        match l[i]? with
        | none => none
        | some r =>
          if r == ']'.toNat then some (getArrayIndexEnd acc)
          else if isNumber r then getArrayIndexLoop isNumber l f (i + 1) (acc ++ [r])
          else some []
      else some (getArrayIndexEnd acc) := rfl

/-- The loop of `getArrayIndex` at a closing bracket. -/
theorem getArrayIndexLoop_close (isNumber : Nat → Bool) {l : List Nat} {i : Nat}
    {tl : List Nat} (h : l.drop i = 93 :: tl) (f : Nat) (acc : List Nat) :
    getArrayIndexLoop isNumber l (f + 1) i acc = some (getArrayIndexEnd acc) := by
  obtain ⟨h1, h2, _⟩ := drop_cons h
  rw [getArrayIndexLoop_succ, if_pos h1, h2]
  rfl

/-- The loop of `getArrayIndex` at the end of the runes. -/
theorem getArrayIndexLoop_end (isNumber : Nat → Bool) {l : List Nat} {i : Nat}
    (h : l.drop i = []) (f : Nat) (acc : List Nat) :
    getArrayIndexLoop isNumber l (f + 1) i acc = some (getArrayIndexEnd acc) := by
  rw [getArrayIndexLoop_succ, if_neg (drop_nil_iff h)]

/-- The loop of `getArrayIndex` at a rune that is no number and no closing bracket. -/
theorem getArrayIndexLoop_other (isNumber : Nat → Bool) {l : List Nat} {i x : Nat}
    {tl : List Nat} (h : l.drop i = x :: tl) (hx : x ≠ 93) (hn : isNumber x = false)
    (f : Nat) (acc : List Nat) :
    getArrayIndexLoop isNumber l (f + 1) i acc = some [] := by
  obtain ⟨h1, h2, _⟩ := drop_cons h
  rw [getArrayIndexLoop_succ, if_pos h1, h2]
  have : (x == ']'.toNat) = false := by simpa using hx
  simp only [this, hn]
  rfl

/-- The loop of `getArrayIndex` over a run of numbers. -/
theorem getArrayIndexLoop_run (isNumber : Nat → Bool) (l : List Nat) :
    ∀ (ds : List Nat) (i : Nat) (tl acc : List Nat) (f : Nat),
      (∀ x ∈ ds, isNumber x = true ∧ x ≠ 93) → l.drop i = ds ++ tl →
      getArrayIndexLoop isNumber l (f + ds.length) i acc =
        getArrayIndexLoop isNumber l f (i + ds.length) (acc ++ ds) := by
  intro ds
  induction ds with
  | nil => intro i tl acc f _ _; simp
  | cons x xs ih =>
    intro i tl acc f hds h
    obtain ⟨h1, h2, h3⟩ := drop_cons (by simpa using h : l.drop i = x :: (xs ++ tl))
    obtain ⟨hn, hx⟩ := hds x (List.mem_cons_self _ _)
    have e : f + (x :: xs).length = (f + xs.length) + 1 := by simp; omega
    rw [e, getArrayIndexLoop_succ, if_pos h1, h2]
    have : (x == ']'.toNat) = false := by simpa using hx
    simp only [this, hn, Bool.false_eq_true, if_false, if_true]
    rw [ih (i + 1) tl (acc ++ [x]) f (fun y hy => hds y (List.mem_cons_of_mem _ hy)) h3]
    congr 1
    · simp; omega
    · simp

/-- What `getArrayIndex` returns where a run of numbers stands before a closing bracket. -/
theorem getArrayIndex_closed (isNumber : Nat → Bool) {l : List Nat} {i : Nat}
    {ds tl : List Nat} (hds : ∀ x ∈ ds, isNumber x = true ∧ x ≠ 93)
    (h : l.drop i = ds ++ 93 :: tl) :
    getArrayIndex isNumber l i = some (getArrayIndexEnd ds) := by
  unfold getArrayIndex
  have hl := drop_length_eq h
  have e : l.length - i + 1 = (tl.length + 1 + 1) + ds.length := by
    rw [hl]; simp; omega
  rw [e, getArrayIndexLoop_run isNumber l ds i _ [] _ hds h]
  have h2 : l.drop (i + ds.length) = 93 :: tl := by
    rw [← List.drop_drop, h]; simp
  rw [getArrayIndexLoop_close isNumber h2]
  rfl

/-- What `getArrayIndex` returns where a run of numbers reaches the end of the runes. -/
theorem getArrayIndex_open (isNumber : Nat → Bool) {l : List Nat} {i : Nat}
    {ds : List Nat} (hds : ∀ x ∈ ds, isNumber x = true ∧ x ≠ 93)
    (h : l.drop i = ds) :
    getArrayIndex isNumber l i = some (getArrayIndexEnd ds) := by
  unfold getArrayIndex
  have hl := drop_length_eq h
  have e : l.length - i + 1 = 1 + ds.length := by rw [hl]; omega
  rw [e, getArrayIndexLoop_run isNumber l ds i [] [] _ hds (by simpa using h)]
  have h2 : l.drop (i + ds.length) = [] := by
    rw [← List.drop_drop, h]; simp
  rw [show (1 : Nat) = 0 + 1 from rfl, getArrayIndexLoop_end isNumber h2]
  rfl

/-- What `getArrayIndex` returns where a rune that is no number stands before the closing
bracket. -/
theorem getArrayIndex_other (isNumber : Nat → Bool) {l : List Nat} {i x : Nat}
    {ds tl : List Nat} (hds : ∀ y ∈ ds, isNumber y = true ∧ y ≠ 93)
    (hx : x ≠ 93) (hn : isNumber x = false) (h : l.drop i = ds ++ x :: tl) :
    getArrayIndex isNumber l i = some [] := by
  unfold getArrayIndex
  have hl := drop_length_eq h
  have e : l.length - i + 1 = (tl.length + 1 + 1) + ds.length := by
    rw [hl]; simp; omega
  rw [e, getArrayIndexLoop_run isNumber l ds i _ [] _ hds h]
  have h2 : l.drop (i + ds.length) = x :: tl := by
    rw [← List.drop_drop, h]; simp
  rw [getArrayIndexLoop_other isNumber h2 hx hn]



/-! ## The function `splitBracket` -/

theorem splitBracketLoop_succ (isNumber : Nat → Bool) (l : List Nat) (quote f i : Nat)
    (acc : List Nat) :
    splitBracketLoop isNumber l quote (f + 1) i acc =
      if i < l.length then
        match l[i]? with
        | none => none
        | some r =>
          if r == quote && (i + 1 < l.length && l[i + 1]? == some ']'.toNat) then
            if i + 4 < l.length && l[i + 2]? == some '['.toNat then
              match getArrayIndex isNumber l (i + 3) with
              | none => none
              | some index => some (acc ++ index)
            else some acc
          else splitBracketLoop isNumber l quote f (i + 1) (acc ++ [r])
      else some [] := rfl

/-- The loop of `splitBracket` over runes that are not the quote. -/
theorem splitBracketLoop_run (isNumber : Nat → Bool) (l : List Nat) (quote : Nat) :
    ∀ (key : List Nat) (i : Nat) (tl acc : List Nat) (f : Nat),
      (∀ x ∈ key, x ≠ quote) → l.drop i = key ++ tl →
      splitBracketLoop isNumber l quote (f + key.length) i acc =
        splitBracketLoop isNumber l quote f (i + key.length) (acc ++ key) := by
  intro key
  induction key with
  | nil => intro i tl acc f _ _; simp
  | cons x xs ih =>
    intro i tl acc f hk h
    obtain ⟨h1, h2, h3⟩ := drop_cons (by simpa using h : l.drop i = x :: (xs ++ tl))
    have hx := hk x (List.mem_cons_self _ _)
    have e : f + (x :: xs).length = (f + xs.length) + 1 := by simp; omega
    rw [e, splitBracketLoop_succ, if_pos h1, h2]
    have : (x == quote) = false := by simpa using hx
    simp only [this, Bool.false_and, Bool.false_eq_true, if_false]
    rw [ih (i + 1) tl (acc ++ [x]) f (fun y hy => hk y (List.mem_cons_of_mem _ hy)) h3]
    congr 1
    · simp; omega
    · simp

/-- The loop of `splitBracket` at the quote and the closing bracket, when an opening
bracket and two more runes follow: the array index is looked for. -/
theorem splitBracketLoop_close_index (isNumber : Nat → Bool) {l : List Nat} {quote i : Nat}
    {tl : List Nat} (h : l.drop i = quote :: 93 :: 91 :: tl) (htl : 2 ≤ tl.length) (f : Nat)
    (acc : List Nat) :
    splitBracketLoop isNumber l quote (f + 1) i acc =
      (getArrayIndex isNumber l (i + 3)).map (fun index => acc ++ index) := by
  obtain ⟨h1, h2, h3⟩ := drop_cons h
  obtain ⟨h4, h5, h6⟩ := drop_cons h3
  obtain ⟨h7, h8, h9⟩ := drop_cons h6
  have hl := drop_length_eq h
  simp only [List.length_cons] at hl
  rw [splitBracketLoop_succ, if_pos h1, h2]
  have c1 : (quote == quote && (decide (i + 1 < l.length) && l[i + 1]? == some ']'.toNat)) =
      true := by
    simp [h4, h5]
  have c2 : (decide (i + 4 < l.length) && l[i + 2]? == some '['.toNat) = true := by
    have : i + 4 < l.length := by omega
    simp [this, h8]
  simp only [c1, c2, if_true]
  cases getArrayIndex isNumber l (i + 3) <;> rfl

/-- The loop of `splitBracket` at the quote and the closing bracket, when no opening bracket
with two more runes follows: the result is returned as it is. -/
theorem splitBracketLoop_close_plain (isNumber : Nat → Bool) {l : List Nat} {quote i : Nat}
    {tl : List Nat} (h : l.drop i = quote :: 93 :: tl)
    (htl : tl.length ≤ 2 ∨ tl.head? ≠ some 91) (f : Nat) (acc : List Nat) :
    splitBracketLoop isNumber l quote (f + 1) i acc = some acc := by
  obtain ⟨h1, h2, h3⟩ := drop_cons h
  obtain ⟨h4, h5, h6⟩ := drop_cons h3
  have hl := drop_length_eq h
  simp only [List.length_cons] at hl
  rw [splitBracketLoop_succ, if_pos h1, h2]
  have c1 : (quote == quote && (decide (i + 1 < l.length) && l[i + 1]? == some ']'.toNat)) =
      true := by
    simp [h4, h5]
  have c2 : (decide (i + 4 < l.length) && l[i + 2]? == some '['.toNat) = false := by
    rcases htl with htl | htl
    · have : ¬ i + 4 < l.length := by omega
      simp [this]
    · have e2 : l[i + 2]? = tl.head? := by
        cases tl with
        | nil =>
          have : ¬ i + 2 < l.length := by simp at hl; omega
          simp [List.getElem?_eq_none (Nat.le_of_not_lt this)]
        | cons y ys =>
          obtain ⟨_, h8, _⟩ := drop_cons h6
          simpa using h8
      rw [e2]
      have : (tl.head? == some '['.toNat) = false := by
        simpa using htl
      rw [this, Bool.and_false]
  simp only [c1, c2, if_true, Bool.false_eq_true, if_false]

/-- What `splitBracket` returns on a key before the quote and the closing bracket, when an
opening bracket and two more runes follow. -/
theorem splitBracket_key_index (isNumber : Nat → Bool) {l : List Nat} {quote i : Nat}
    {key tl : List Nat} (hk : ∀ x ∈ key, x ≠ quote)
    (h : l.drop i = key ++ quote :: 93 :: 91 :: tl) (htl : 2 ≤ tl.length) :
    splitBracket isNumber l i quote =
      (getArrayIndex isNumber l (i + key.length + 3)).map (fun index => key ++ index) := by
  unfold splitBracket
  have hl := drop_length_eq h
  have e : l.length - i + 1 = (tl.length + 3 + 1) + key.length := by
    rw [hl]; simp; omega
  rw [e, splitBracketLoop_run isNumber l quote key i _ [] _ hk h]
  have h2 : l.drop (i + key.length) = quote :: 93 :: 91 :: tl := by
    rw [← List.drop_drop, h]; simp
  rw [splitBracketLoop_close_index isNumber h2 htl]
  rfl

/-- What `splitBracket` returns on a key before the quote and the closing bracket, when no
opening bracket with two more runes follows. -/
theorem splitBracket_key_plain (isNumber : Nat → Bool) {l : List Nat} {quote i : Nat}
    {key tl : List Nat} (hk : ∀ x ∈ key, x ≠ quote)
    (h : l.drop i = key ++ quote :: 93 :: tl) (htl : tl.length ≤ 2 ∨ tl.head? ≠ some 91) :
    splitBracket isNumber l i quote = some key := by
  unfold splitBracket
  have hl := drop_length_eq h
  have e : l.length - i + 1 = (tl.length + 2 + 1) + key.length := by
    rw [hl]; simp; omega
  rw [e, splitBracketLoop_run isNumber l quote key i _ [] _ hk h]
  have h2 : l.drop (i + key.length) = quote :: 93 :: tl := by
    rw [← List.drop_drop, h]; simp
  rw [splitBracketLoop_close_plain isNumber h2 htl]
  rfl



/-! ## The function `split` -/

theorem splitLoop_succ (isNumber : Nat → Bool) (l : List Nat) (f i : Nat)
    (res : List (List Nat)) (part : List Nat) :
    splitLoop isNumber l (f + 1) i res part =
      if i < l.length then
        match l[i]? with
        | none => none
        | some r =>
          if r == '\\'.toNat then
            if i + 1 < l.length then
              match l[i + 1]? with
              | none => none
              | some x => splitLoop isNumber l f (i + 1 + 1) res (part ++ [x])
            else splitLoop isNumber l f (i + 1 + 1) res part
          else if r == '.'.toNat then
            if part != [] then splitLoop isNumber l f (i + 1) (res ++ [part]) []
            else splitLoop isNumber l f (i + 1) res part
          else if r == '['.toNat then
            if i + 1 < l.length then
              match l[i + 1]? with
              | none => none
              | some nr =>
                if nr == '"'.toNat || nr == '\''.toNat then
                  match splitBracket isNumber l (i + 2) nr with
                  | none => none
                  | some inbracket =>
                    if inbracket != [] then
                      splitLoop isNumber l f (i + (1 + stringLen inbracket + 2) + 1)
                        (appendPart res part ++ [inbracket]) []
                    else splitLoop isNumber l f (i + 1) res (part ++ [r])
                else splitLoop isNumber l f (i + 1) res (part ++ [r])
            else splitLoop isNumber l f (i + 1) res (part ++ [r])
          else splitLoop isNumber l f (i + 1) res (part ++ [r])
      else some (appendPart res part) := rfl

/-- The loop of `split` at the end of the runes. -/
theorem splitLoop_end (isNumber : Nat → Bool) {l : List Nat} {i : Nat} (h : l.drop i = [])
    (f : Nat) (res : List (List Nat)) (part : List Nat) :
    splitLoop isNumber l (f + 1) i res part = some (appendPart res part) := by
  rw [splitLoop_succ, if_neg (drop_nil_iff h)]

/-- The loop of `split` at a rune that is no backslash, dot or opening bracket. -/
theorem splitLoop_plain (isNumber : Nat → Bool) {l : List Nat} {i x : Nat} {tl : List Nat}
    (h : l.drop i = x :: tl) (h1 : x ≠ 92) (h2 : x ≠ 46) (h3 : x ≠ 91) (f : Nat)
    (res : List (List Nat)) (part : List Nat) :
    splitLoop isNumber l (f + 1) i res part = splitLoop isNumber l f (i + 1) res (part ++ [x]) := by
  obtain ⟨a1, a2, _⟩ := drop_cons h
  rw [splitLoop_succ, if_pos a1, a2]
  have c1 : (x == '\\'.toNat) = false := by simpa using h1
  have c2 : (x == '.'.toNat) = false := by simpa using h2
  have c3 : (x == '['.toNat) = false := by simpa using h3
  simp only [c1, c2, c3, Bool.false_eq_true, if_false]

/-- The loop of `split` at a dot. -/
theorem splitLoop_dot (isNumber : Nat → Bool) {l : List Nat} {i : Nat} {tl : List Nat}
    (h : l.drop i = 46 :: tl) (f : Nat) (res : List (List Nat)) (part : List Nat) :
    splitLoop isNumber l (f + 1) i res part =
      splitLoop isNumber l f (i + 1) (appendPart res part) [] := by
  obtain ⟨a1, a2, _⟩ := drop_cons h
  rw [splitLoop_succ, if_pos a1, a2]
  have c1 : ((46 : Nat) == '\\'.toNat) = false := by decide
  have c2 : ((46 : Nat) == '.'.toNat) = true := by decide
  simp only [c1, c2, Bool.false_eq_true, if_false, if_true]
  unfold appendPart
  by_cases hp : (part != []) = true
  · rw [if_pos hp, if_pos hp]
  · rw [if_neg hp, if_neg hp]
    have : part = [] := by simpa using hp
    rw [this]

/-- The loop of `split` at a backslash before another rune: the rune is appended as it
is and both are passed. -/
theorem splitLoop_escape (isNumber : Nat → Bool) {l : List Nat} {i x : Nat} {tl : List Nat}
    (h : l.drop i = 92 :: x :: tl) (f : Nat) (res : List (List Nat)) (part : List Nat) :
    splitLoop isNumber l (f + 1) i res part =
      splitLoop isNumber l f (i + 2) res (part ++ [x]) := by
  obtain ⟨a1, a2, a3⟩ := drop_cons h
  obtain ⟨b1, b2, _⟩ := drop_cons a3
  rw [splitLoop_succ, if_pos a1, a2]
  have c1 : ((92 : Nat) == '\\'.toNat) = true := by decide
  simp only [c1, if_true]
  rw [if_pos b1, b2]

/-- The loop of `split` at a backslash that ends the runes: it is dropped. -/
theorem splitLoop_escape_last (isNumber : Nat → Bool) {l : List Nat} {i : Nat}
    (h : l.drop i = [92]) (f : Nat) (res : List (List Nat)) (part : List Nat) :
    splitLoop isNumber l (f + 1) i res part = splitLoop isNumber l f (i + 2) res part := by
  obtain ⟨a1, a2, a3⟩ := drop_cons h
  rw [splitLoop_succ, if_pos a1, a2]
  have c1 : ((92 : Nat) == '\\'.toNat) = true := by decide
  simp only [c1, if_true]
  rw [if_neg (drop_nil_iff a3)]

/-- The loop of `split` at an opening bracket that no quote follows: the bracket is
appended as it is. -/
theorem splitLoop_open_plain (isNumber : Nat → Bool) {l : List Nat} {i nr : Nat}
    {tl : List Nat} (h : l.drop i = 91 :: nr :: tl) (h1 : nr ≠ 34) (h2 : nr ≠ 39) (f : Nat)
    (res : List (List Nat)) (part : List Nat) :
    splitLoop isNumber l (f + 1) i res part =
      splitLoop isNumber l f (i + 1) res (part ++ [91]) := by
  obtain ⟨a1, a2, a3⟩ := drop_cons h
  obtain ⟨b1, b2, _⟩ := drop_cons a3
  rw [splitLoop_succ, if_pos a1, a2]
  have c1 : ((91 : Nat) == '\\'.toNat) = false := by decide
  have c2 : ((91 : Nat) == '.'.toNat) = false := by decide
  have c3 : ((91 : Nat) == '['.toNat) = true := by decide
  simp only [c1, c2, c3, Bool.false_eq_true, if_false, if_true]
  rw [if_pos b1, b2]
  have c4 : (nr == '"'.toNat || nr == '\''.toNat) = false := by
    simp only [Bool.or_eq_false_iff]
    exact ⟨by simpa using h1, by simpa using h2⟩
  simp only [c4, Bool.false_eq_true, if_false]

/-- The loop of `split` at an opening bracket and a quote, where `splitBracket` finds a
key: the key is appended to the result and the index moves past the closing bracket. -/
theorem splitLoop_quote (isNumber : Nat → Bool) {l : List Nat} {i nr : Nat}
    {tl inb : List Nat} (h : l.drop i = 91 :: nr :: tl) (hq : nr = 34 ∨ nr = 39)
    (hb : splitBracket isNumber l (i + 2) nr = some inb) (hne : inb ≠ []) (f : Nat)
    (res : List (List Nat)) (part : List Nat) :
    splitLoop isNumber l (f + 1) i res part =
      splitLoop isNumber l f (i + (1 + stringLen inb + 2) + 1)
        (appendPart res part ++ [inb]) [] := by
  obtain ⟨a1, a2, a3⟩ := drop_cons h
  obtain ⟨b1, b2, _⟩ := drop_cons a3
  rw [splitLoop_succ, if_pos a1, a2]
  have c1 : ((91 : Nat) == '\\'.toNat) = false := by decide
  have c2 : ((91 : Nat) == '.'.toNat) = false := by decide
  have c3 : ((91 : Nat) == '['.toNat) = true := by decide
  simp only [c1, c2, c3, Bool.false_eq_true, if_false, if_true]
  rw [if_pos b1, b2]
  have c4 : (nr == '"'.toNat || nr == '\''.toNat) = true := by
    rcases hq with rfl | rfl <;> decide
  have c5 : (inb != []) = true := by simpa using hne
  simp only [c4, if_true, hb, c5]

/-- The loop of `split` over runes that are no backslash, dot or opening bracket. -/
theorem splitLoop_run (isNumber : Nat → Bool) (l : List Nat) :
    ∀ (w : List Nat) (i : Nat) (tl : List Nat) (res : List (List Nat)) (part : List Nat)
      (f : Nat), (∀ x ∈ w, x ≠ 92 ∧ x ≠ 46 ∧ x ≠ 91) → l.drop i = w ++ tl →
      splitLoop isNumber l (f + w.length) i res part =
        splitLoop isNumber l f (i + w.length) res (part ++ w) := by
  intro w
  induction w with
  | nil => intro i tl res part f _ _; simp
  | cons x xs ih =>
    intro i tl res part f hw h
    have h0 : l.drop i = x :: (xs ++ tl) := by simpa using h
    obtain ⟨_, _, h3⟩ := drop_cons h0
    obtain ⟨x1, x2, x3⟩ := hw x (List.mem_cons_self _ _)
    have e : f + (x :: xs).length = (f + xs.length) + 1 := by simp; omega
    rw [e, splitLoop_plain isNumber h0 x1 x2 x3,
      ih (i + 1) tl res (part ++ [x]) f (fun y hy => hw y (List.mem_cons_of_mem _ hy)) h3]
    congr 1
    · simp; omega
    · simp



/-! ## Paths made of segments -/

theorem isAlnum_iff (x : Nat) :
    isAlnum x = true ↔ (48 ≤ x ∧ x ≤ 57) ∨ (65 ≤ x ∧ x ≤ 90) ∨ (97 ≤ x ∧ x ≤ 122) := by
  simp [isAlnum, or_assoc]

theorem asciiNumber_iff (x : Nat) : asciiNumber x = true ↔ 48 ≤ x ∧ x ≤ 57 := by
  simp [asciiNumber]

/-- The number of bytes of a string of runes below 128 is its number of runes. -/
theorem stringLen_ascii : ∀ (s : List Nat), (∀ x ∈ s, x < 128) → stringLen s = s.length := by
  intro s
  induction s with
  | nil => intro _; rfl
  | cons x xs ih =>
    intro h
    have hx := h x (List.mem_cons_self _ _)
    have := ih (fun y hy => h y (List.mem_cons_of_mem _ hy))
    unfold stringLen at *
    simp only [List.map_cons, List.sum_cons, List.length_cons, this]
    have : runeLen x = 1 := by unfold runeLen; rw [if_pos (by omega)]
    omega

/-- What a well-formed segment is made of. -/
theorem segmentOK_iff (seg : Segment) :
    segmentOK seg = true ↔ seg.1 ≠ [] ∧ (∀ x ∈ seg.1, isAlnum x = true) ∧
      ∀ ds, seg.2 = some ds → ds ≠ [] ∧ ∀ x ∈ ds, asciiNumber x = true := by
  obtain ⟨key, idx⟩ := seg
  cases idx with
  | none => simp [segmentOK]
  | some ds => simp [segmentOK, and_assoc]

/-- The text of an index and a closing bracket are runes that `split` takes as they are. -/
theorem index_plain {ds : List Nat} (h : ∀ x ∈ ds, asciiNumber x = true) :
    ∀ x ∈ ds ++ [93], x ≠ 92 ∧ x ≠ 46 ∧ x ≠ 91 := by
  intro x hx
  rcases List.mem_append.mp hx with hx | hx
  · have := (asciiNumber_iff x).mp (h x hx); omega
  · have : x = 93 := by simpa using hx
    omega

theorem key_plain {key : List Nat} (h : ∀ x ∈ key, isAlnum x = true) :
    ∀ x ∈ key, x ≠ 92 ∧ x ≠ 46 ∧ x ≠ 91 := by
  intro x hx
  have := (isAlnum_iff x).mp (h x hx); omega

/-- The loop of `split` over the text of a segment of the dotted form: every rune of it is
appended to the part. -/
theorem splitLoop_segment (isNumber : Nat → Bool) {l : List Nat} {seg : Segment}
    (hok : segmentOK seg = true) {i : Nat} {tl : List Nat}
    (h : l.drop i = segmentText seg ++ tl) (f : Nat) (res : List (List Nat))
    (part : List Nat) :
    splitLoop isNumber l (f + (segmentText seg).length) i res part =
      splitLoop isNumber l f (i + (segmentText seg).length) res (part ++ segmentText seg) := by
  obtain ⟨key, idx⟩ := seg
  obtain ⟨_, hkey, hidx⟩ := (segmentOK_iff _).mp hok
  cases idx with
  | none =>
    have e : segmentText (key, none) = key := by simp [segmentText, indexText]
    rw [e] at h ⊢
    exact splitLoop_run isNumber l key i tl res part f (key_plain hkey) h
  | some ds =>
    obtain ⟨hne, hds⟩ := hidx ds rfl
    obtain ⟨x, xs, rfl⟩ := List.exists_cons_of_ne_nil hne
    have e : segmentText (key, some (x :: xs)) = key ++ 91 :: (x :: xs ++ [93]) := rfl
    rw [e] at h ⊢
    have hx := (asciiNumber_iff x).mp (hds x (List.mem_cons_self _ _))
    have h0 : l.drop i = key ++ (91 :: (x :: xs ++ [93]) ++ tl) := by
      rw [h]; simp
    have e1 : f + (key ++ 91 :: (x :: xs ++ [93])).length =
        ((f + (x :: xs ++ [93]).length) + 1) + key.length := by
      simp; omega
    rw [e1, splitLoop_run isNumber l key i _ res part _ (key_plain hkey) h0]
    have h1 : l.drop (i + key.length) = 91 :: x :: (xs ++ [93] ++ tl) := by
      rw [← List.drop_drop, h0]; simp
    rw [splitLoop_open_plain isNumber h1 (by omega) (by omega)]
    have h2 : l.drop (i + key.length + 1) = (x :: xs ++ [93]) ++ tl := by
      rw [← List.drop_drop, h1]; simp
    rw [splitLoop_run isNumber l (x :: xs ++ [93]) _ tl res _ f (index_plain hds) h2]
    congr 1
    · simp; omega
    · simp

theorem segmentText_ne_nil {seg : Segment} (hok : segmentOK seg = true) :
    segmentText seg ≠ [] := by
  obtain ⟨hne, _, _⟩ := (segmentOK_iff _).mp hok
  intro h
  unfold segmentText at h
  exact hne (List.append_eq_nil.mp h).1

/-- The loop of `split` on the dotted form of a path, from the start of a segment. -/
theorem splitLoop_dotted (isNumber : Nat → Bool) (l : List Nat) :
    ∀ (segs : List Segment), (∀ seg ∈ segs, segmentOK seg = true) →
      ∀ (i : Nat) (res : List (List Nat)) (f : Nat), l.drop i = dottedPath segs →
        (dottedPath segs).length + 1 ≤ f →
        splitLoop isNumber l f i res [] = some (res ++ segs.map segmentText) := by
  intro segs
  induction segs with
  | nil =>
    intro _ i res f h hf
    obtain ⟨g, rfl⟩ : ∃ g, f = g + 1 := ⟨f - 1, by omega⟩
    rw [splitLoop_end isNumber h]
    simp [appendPart]
  | cons seg ss ih =>
    intro hok i res f h hf
    have hseg := hok seg (List.mem_cons_self _ _)
    have hss : ∀ s ∈ ss, segmentOK s = true := fun s hs => hok s (List.mem_cons_of_mem _ hs)
    have hne := segmentText_ne_nil hseg
    cases ss with
    | nil =>
      have e : dottedPath [seg] = segmentText seg := rfl
      rw [e] at h hf
      obtain ⟨g, rfl⟩ : ∃ g, f = (g + 1) + (segmentText seg).length :=
        ⟨f - (segmentText seg).length - 1, by omega⟩
      rw [splitLoop_segment isNumber hseg (by simpa using h : l.drop i = segmentText seg ++ [])]
      have h1 : l.drop (i + (segmentText seg).length) = [] := by
        rw [← List.drop_drop, h]; simp
      rw [splitLoop_end isNumber h1]
      simp [appendPart, hne]
    | cons s2 ss2 =>
      have e : dottedPath (seg :: s2 :: ss2) =
          segmentText seg ++ 46 :: dottedPath (s2 :: ss2) := rfl
      rw [e] at h hf
      simp only [List.length_append, List.length_cons] at hf
      obtain ⟨g, rfl⟩ : ∃ g, f = (g + 1) + (segmentText seg).length :=
        ⟨f - (segmentText seg).length - 1, by omega⟩
      rw [splitLoop_segment isNumber hseg h]
      have h1 : l.drop (i + (segmentText seg).length) = 46 :: dottedPath (s2 :: ss2) := by
        rw [← List.drop_drop, h]; simp
      rw [splitLoop_dot isNumber h1]
      have h2 : l.drop (i + (segmentText seg).length + 1) = dottedPath (s2 :: ss2) := by
        rw [← List.drop_drop, h1]; simp
      rw [ih hss _ _ g h2 (by omega)]
      simp [appendPart, hne]



theorem segmentText_ascii {seg : Segment} (hok : segmentOK seg = true) :
    ∀ x ∈ segmentText seg, x < 128 := by
  obtain ⟨key, idx⟩ := seg
  obtain ⟨_, hkey, hidx⟩ := (segmentOK_iff _).mp hok
  intro x hx
  unfold segmentText at hx
  rcases List.mem_append.mp hx with hx | hx
  · have := (isAlnum_iff x).mp (hkey x hx); omega
  · cases idx with
    | none => simp [indexText] at hx
    | some ds =>
      obtain ⟨_, hds⟩ := hidx ds rfl
      simp only [indexText, List.mem_cons, List.mem_append, List.mem_singleton,
        List.not_mem_nil, or_false] at hx
      rcases hx with rfl | hx | rfl
      · decide
      · have := (asciiNumber_iff x).mp (hds x hx); omega
      · decide

/-- What `splitBracket` returns on a segment of the bracket-quoted form, from the first
rune of its key: the key with its index. -/
theorem splitBracket_segment {isNumber : Nat → Bool}
    (hnum : ∀ r, r < 128 → isNumber r = asciiNumber r) {quote : Nat}
    (hq : quote = 34 ∨ quote = 39) {l : List Nat} {seg : Segment}
    (hok : segmentOK seg = true) (ss : List Segment) {j : Nat}
    (h : l.drop j = seg.1 ++ quote :: 93 :: (indexText seg.2 ++ bracketPath quote ss)) :
    splitBracket isNumber l j quote = some (segmentText seg) := by
  obtain ⟨key, idx⟩ := seg
  obtain ⟨_, hkey, hidx⟩ := (segmentOK_iff _).mp hok
  have hk : ∀ x ∈ key, x ≠ quote := by
    intro x hx
    have := (isAlnum_iff x).mp (hkey x hx)
    rcases hq with rfl | rfl <;> omega
  have hq93 : quote ≠ 93 := by rcases hq with rfl | rfl <;> decide
  have hqn : isNumber quote = false := by
    rcases hq with rfl | rfl
    · rw [hnum 34 (by decide)]; rfl
    · rw [hnum 39 (by decide)]; rfl
  cases idx with
  | some ds =>
    obtain ⟨hne, hds⟩ := hidx ds rfl
    have h0 : l.drop j = key ++ quote :: 93 :: 91 :: ((ds ++ [93]) ++ bracketPath quote ss) := by
      rw [h]; simp [indexText]
    have hlen : 2 ≤ ((ds ++ [93]) ++ bracketPath quote ss).length := by
      have : 0 < ds.length := List.length_pos.mpr hne
      simp; omega
    rw [splitBracket_key_index isNumber hk h0 hlen]
    have h1 : l.drop (j + key.length + 3) = ds ++ 93 :: bracketPath quote ss := by
      rw [Nat.add_assoc, ← List.drop_drop, h0]; simp
    have hd : ∀ x ∈ ds, isNumber x = true ∧ x ≠ 93 := by
      intro x hx
      have hx2 := hds x hx
      have := (asciiNumber_iff x).mp hx2
      exact ⟨by rw [hnum x (by omega)]; exact hx2, by omega⟩
    rw [getArrayIndex_closed isNumber hd h1]
    obtain ⟨x, xs, rfl⟩ := List.exists_cons_of_ne_nil hne
    rfl
  | none =>
    cases ss with
    | nil =>
      have h0 : l.drop j = key ++ quote :: 93 :: [] := by
        rw [h]; simp [indexText, bracketPath]
      rw [splitBracket_key_plain isNumber hk h0 (Or.inl (by simp))]
      simp [segmentText, indexText]
    | cons s2 ss2 =>
      have h0 : l.drop j = key ++ quote :: 93 :: 91 ::
          (quote :: (s2.1 ++ quote :: 93 :: (indexText s2.2 ++ bracketPath quote ss2))) := by
        rw [h]; simp [indexText, bracketPath]
      have hlen : 2 ≤ (quote :: (s2.1 ++ quote :: 93 ::
          (indexText s2.2 ++ bracketPath quote ss2))).length := by
        simp; omega
      rw [splitBracket_key_index isNumber hk h0 hlen]
      have h1 : l.drop (j + key.length + 3) = [] ++ quote ::
          (s2.1 ++ quote :: 93 :: (indexText s2.2 ++ bracketPath quote ss2)) := by
        rw [Nat.add_assoc, ← List.drop_drop, h0]; simp
      rw [getArrayIndex_other isNumber (fun _ hx => absurd hx (List.not_mem_nil _)) hq93 hqn h1]
      simp [segmentText, indexText]

/-- The loop of `split` on the bracket-quoted form of a path, from the start of a
segment. -/
theorem splitLoop_bracket {isNumber : Nat → Bool}
    (hnum : ∀ r, r < 128 → isNumber r = asciiNumber r) {quote : Nat}
    (hq : quote = 34 ∨ quote = 39) (l : List Nat) :
    ∀ (segs : List Segment), (∀ seg ∈ segs, segmentOK seg = true) →
      ∀ (i : Nat) (res : List (List Nat)) (f : Nat), l.drop i = bracketPath quote segs →
        (bracketPath quote segs).length + 1 ≤ f →
        splitLoop isNumber l f i res [] = some (res ++ segs.map segmentText) := by
  intro segs
  induction segs with
  | nil =>
    intro _ i res f h hf
    obtain ⟨g, rfl⟩ : ∃ g, f = g + 1 := ⟨f - 1, by omega⟩
    rw [splitLoop_end isNumber h]
    simp [appendPart]
  | cons seg ss ih =>
    intro hok i res f h hf
    have hseg := hok seg (List.mem_cons_self _ _)
    have hss : ∀ s ∈ ss, segmentOK s = true := fun s hs => hok s (List.mem_cons_of_mem _ hs)
    have hne := segmentText_ne_nil hseg
    have e : bracketPath quote (seg :: ss) = 91 :: quote ::
        (seg.1 ++ quote :: 93 :: (indexText seg.2 ++ bracketPath quote ss)) := rfl
    rw [e] at h hf
    simp only [List.length_append, List.length_cons] at hf
    obtain ⟨g, rfl⟩ : ∃ g, f = g + 1 := ⟨f - 1, by omega⟩
    have h2 : l.drop (i + 2) =
        seg.1 ++ quote :: 93 :: (indexText seg.2 ++ bracketPath quote ss) := by
      rw [← List.drop_drop, h]; rfl
    have hb := splitBracket_segment hnum hq hseg ss h2
    rw [splitLoop_quote isNumber h hq hb hne, stringLen_ascii _ (segmentText_ascii hseg)]
    have h3 : l.drop (i + (1 + (segmentText seg).length + 2) + 1) = bracketPath quote ss := by
      have e2 : i + (1 + (segmentText seg).length + 2) + 1 =
          i + ((segmentText seg).length + 4) := by omega
      have e3 : (91 :: quote ::
          (seg.1 ++ quote :: 93 :: (indexText seg.2 ++ bracketPath quote ss))) =
          (91 :: quote :: (seg.1 ++ quote :: 93 :: indexText seg.2)) ++
            bracketPath quote ss := by simp
      rw [e2, ← List.drop_drop, h, e3]
      apply List.drop_left'
      simp [segmentText]; omega
    rw [ih hss _ _ g h3 (by omega)]
    simp [appendPart]



/-! ## `split` returns, and returns no empty component -/

theorem getElem?_of_lt {l : List Nat} {i : Nat} (h : i < l.length) : ∃ x, l[i]? = some x :=
  ⟨l[i], List.getElem?_eq_getElem h⟩

/-- The loop of `getArrayIndex` returns when its budget is above the runes left. -/
theorem getArrayIndexLoop_total (isNumber : Nat → Bool) (l : List Nat) :
    ∀ (f i : Nat) (acc : List Nat), l.length - i < f →
      ∃ v, getArrayIndexLoop isNumber l f i acc = some v := by
  intro f
  induction f with
  | zero => intro i acc h; omega
  | succ n ih =>
    intro i acc h
    rw [getArrayIndexLoop_succ]
    by_cases hi : i < l.length
    · obtain ⟨x, hx⟩ := getElem?_of_lt hi
      rw [if_pos hi, hx]
      simp only []
      split
      · exact ⟨_, rfl⟩
      · split
        · exact ih (i + 1) _ (by omega)
        · exact ⟨_, rfl⟩
    · rw [if_neg hi]; exact ⟨_, rfl⟩

/-- The function `getArrayIndex` returns on every input. -/
theorem getArrayIndex_total (isNumber : Nat → Bool) (l : List Nat) (i : Nat) :
    ∃ v, getArrayIndex isNumber l i = some v :=
  getArrayIndexLoop_total isNumber l _ i [] (by omega)

/-- The loop of `splitBracket` returns when its budget is above the runes left. -/
theorem splitBracketLoop_total (isNumber : Nat → Bool) (l : List Nat) (quote : Nat) :
    ∀ (f i : Nat) (acc : List Nat), l.length - i < f →
      ∃ v, splitBracketLoop isNumber l quote f i acc = some v := by
  intro f
  induction f with
  | zero => intro i acc h; omega
  | succ n ih =>
    intro i acc h
    rw [splitBracketLoop_succ]
    by_cases hi : i < l.length
    · obtain ⟨x, hx⟩ := getElem?_of_lt hi
      rw [if_pos hi, hx]
      simp only []
      split
      · split
        · obtain ⟨v, hv⟩ := getArrayIndex_total isNumber l (i + 3)
          rw [hv]; exact ⟨_, rfl⟩
        · exact ⟨_, rfl⟩
      · exact ih (i + 1) _ (by omega)
    · rw [if_neg hi]; exact ⟨_, rfl⟩

/-- The function `splitBracket` returns on every input. -/
theorem splitBracket_total (isNumber : Nat → Bool) (l : List Nat) (i quote : Nat) :
    ∃ v, splitBracket isNumber l i quote = some v :=
  splitBracketLoop_total isNumber l quote _ i [] (by omega)

theorem appendPart_nonempty {res : List (List Nat)} (part : List Nat)
    (h : ∀ c ∈ res, c ≠ []) : ∀ c ∈ appendPart res part, c ≠ [] := by
  unfold appendPart
  by_cases hp : (part != []) = true
  · rw [if_pos hp]
    intro c hc
    rcases List.mem_append.mp hc with hc | hc
    · exact h c hc
    · have : c = part := by simpa using hc
      rw [this]; simpa using hp
  · rw [if_neg hp]; exact h

/-- The loop of `split` returns when its budget is above the runes left, and what it
returns holds no empty component when the result so far holds none. -/
theorem splitLoop_total (isNumber : Nat → Bool) (l : List Nat) :
    ∀ (f i : Nat) (res : List (List Nat)) (part : List Nat), l.length - i < f →
      (∀ c ∈ res, c ≠ []) →
      ∃ ps, splitLoop isNumber l f i res part = some ps ∧ ∀ c ∈ ps, c ≠ [] := by
  intro f
  induction f with
  | zero => intro i res part h; omega
  | succ n ih =>
    intro i res part h hres
    rw [splitLoop_succ]
    by_cases hi : i < l.length
    · obtain ⟨x, hx⟩ := getElem?_of_lt hi
      rw [if_pos hi, hx]
      simp only []
      split
      · split
        · rename_i h1
          obtain ⟨y, hy⟩ := getElem?_of_lt h1
          rw [hy]
          exact ih _ _ _ (by omega) hres
        · exact ih _ _ _ (by omega) hres
      · split
        · split
          · rename_i hp
            refine ih _ _ _ (by omega) ?_
            intro c hc
            rcases List.mem_append.mp hc with hc | hc
            · exact hres c hc
            · have : c = part := by simpa using hc
              rw [this]; simpa using hp
          · exact ih _ _ _ (by omega) hres
        · split
          · split
            · rename_i h1
              obtain ⟨y, hy⟩ := getElem?_of_lt h1
              rw [hy]
              simp only []
              split
              · obtain ⟨v, hv⟩ := splitBracket_total isNumber l (i + 2) y
                rw [hv]
                simp only []
                split
                · rename_i hv2
                  refine ih _ _ _ (by omega) ?_
                  intro c hc
                  rcases List.mem_append.mp hc with hc | hc
                  · exact appendPart_nonempty part hres c hc
                  · have : c = v := by simpa using hc
                    rw [this]; simpa using hv2
                · exact ih _ _ _ (by omega) hres
              · exact ih _ _ _ (by omega) hres
            · exact ih _ _ _ (by omega) hres
          · exact ih _ _ _ (by omega) hres
    · rw [if_neg hi]
      exact ⟨_, rfl, appendPart_nonempty part hres⟩

/-- What the statement `if part != "" { result = append(result, part) }` and the pieces
between dots have in common: the pieces of the rest, the first one after `part`, without
the empty ones. -/
theorem splitLoop_dots (isNumber : Nat → Bool) (l : List Nat) :
    ∀ (rest : List Nat) (f i : Nat) (res : List (List Nat)) (part : List Nat),
      l.drop i = rest → (∀ x ∈ rest, x ≠ 92 ∧ x ≠ 91) → rest.length < f →
      splitLoop isNumber l f i res part =
        some (res ++ ((rest.splitOn 46).modifyHead (fun p => part ++ p)).filter
          (fun p => p != [])) := by
  intro rest
  induction rest with
  | nil =>
    intro f i res part h _ hf
    obtain ⟨g, rfl⟩ : ∃ g, f = g + 1 := ⟨f - 1, by omega⟩
    rw [splitLoop_end isNumber h]
    simp only [List.splitOn_nil, List.modifyHead, List.append_nil, appendPart]
    by_cases hp : (part != []) = true
    · simp [hp]
    · simp [hp]
  | cons x xs ih =>
    intro f i res part h hx hf
    obtain ⟨g, rfl⟩ : ∃ g, f = g + 1 := ⟨f - 1, by simp at hf; omega⟩
    obtain ⟨_, _, h3⟩ := drop_cons h
    have hxs : ∀ y ∈ xs, y ≠ 92 ∧ y ≠ 91 := fun y hy => hx y (List.mem_cons_of_mem _ hy)
    have hg : xs.length < g := by simp at hf; omega
    obtain ⟨x1, x2⟩ := hx x (List.mem_cons_self _ _)
    have hso : (x :: xs).splitOn 46 =
        if x = 46 then [] :: xs.splitOn 46
        else (xs.splitOn 46).modifyHead (List.cons x) := by
      unfold List.splitOn
      rw [List.splitOnP_cons]
      simp
    by_cases h46 : x = 46
    · subst h46
      rw [splitLoop_dot isNumber h, ih g (i + 1) _ [] h3 hxs hg, hso, if_pos rfl]
      have e1 : (xs.splitOn 46).modifyHead (fun p => [] ++ p) = xs.splitOn 46 := by
        cases xs.splitOn 46 <;> rfl
      rw [e1]
      simp only [List.modifyHead, List.append_nil, appendPart]
      by_cases hp : (part != []) = true
      · simp [hp]
      · simp [hp]
    · rw [splitLoop_plain isNumber h x1 h46 x2, ih g (i + 1) _ _ h3 hxs hg, hso, if_neg h46]
      congr 2
      cases xs.splitOn 46 with
      | nil => rfl
      | cons p ps => simp [List.modifyHead]

/-- What `split` returns on a text without backslash and `[`. -/
theorem split_dots (isNumber : Nat → Bool) (s : List Nat) (hs : ∀ x ∈ s, x ≠ 92 ∧ x ≠ 91) :
    split isNumber s = some ((s.splitOn 46).filter (fun p => p != [])) := by
  unfold split
  rw [splitLoop_dots isNumber s s _ 0 [] [] rfl hs (Nat.lt_succ_self _)]
  have e1 : (s.splitOn 46).modifyHead (fun p => [] ++ p) = s.splitOn 46 := by
    cases s.splitOn 46 <;> rfl
  rw [e1]
  rfl



/-! ## An expression without operators -/

/-- Rule `Expression` on a text that rule `minusExpr` matches and no operator follows: every
level from `orExpr` to `productExpr` records its three tokens around the tokens of
`minusExpr`. -/
theorem Eval_Expression_levels {d p : Nat} {r : List Nat} {t : List token32} {p1 : Nat}
    {r1 : List Nat} {t1 : List token32}
    (hm : Eval (.call .ruleminusExpr) (d + 17) p r t (.ok p1 r1 t1))
    (hnot : Eval (.opt (.seqs [.call .ruleNot, .call .rulesp])) (d + 7) p r t (.ok p r t))
    (ht : levelTails r1) :
    Eval (.call .ruleExpression) d p r t (.ok p1 r1 (levelTokens d p p1 ++ t1)) := by
  have h57 := Eval.token_ok grammar_productExpr grammar_Action57 (d := d + 15)
    (Eval.seq_ok hm (ht _ _ _).2.2.2.2.2.2.1)
  have h56 := Eval.token_ok grammar_termExpr grammar_Action56 (d := d + 13)
    (Eval.seq_ok h57 (ht _ _ _).2.2.2.2.2.1)
  have h55 := Eval.token_ok grammar_isExpr grammar_Action55 (d := d + 11)
    (Eval.seq_ok h56 (ht _ _ _).2.2.2.2.1)
  have h54 := Eval.token_ok grammar_otherOpExpr grammar_Action54 (d := d + 9)
    (Eval.seq_ok h55 (ht _ _ _).2.2.2.1)
  have h53 := Eval.token_ok grammar_comparisonExpr grammar_Action53 (d := d + 7)
    (Eval.seq_ok h54 (ht _ _ _).2.2.1)
  have h52 := Eval.token_ok grammar_notExpr grammar_Action52 (d := d + 5)
    (Eval.seq_ok hnot h53)
  have h51 := Eval.token_ok grammar_andExpr grammar_Action51 (d := d + 3)
    (Eval.seq_ok h52 (ht _ _ _).2.1)
  have h50 := Eval.token_ok grammar_orExpr grammar_Action50 (d := d + 1)
    (Eval.seq_ok h51 (ht _ _ _).1)
  exact Eval.call_ok grammar_Expression h50



theorem grammar_Or : grammar .ruleOr = .expr Body.ruleOr := rfl
theorem grammar_And : grammar .ruleAnd = .expr Body.ruleAnd := rfl
theorem grammar_OtherOp : grammar .ruleOtherOp = .expr Body.ruleOtherOp := rfl
theorem grammar_Concat : grammar .ruleConcat = .expr Body.ruleConcat := rfl
theorem grammar_PlusMinusOp : grammar .rulePlusMinusOp = .expr Body.rulePlusMinusOp := rfl
theorem grammar_MultDivOp : grammar .ruleMultDivOp = .expr Body.ruleMultDivOp := rfl
theorem grammar_Plus : grammar .rulePlus = .expr Body.rulePlus := rfl
theorem grammar_Minus : grammar .ruleMinus = .expr Body.ruleMinus := rfl
theorem grammar_Multiply : grammar .ruleMultiply = .expr Body.ruleMultiply := rfl
theorem grammar_Divide : grammar .ruleDivide = .expr Body.ruleDivide := rfl
theorem grammar_Modulo : grammar .ruleModulo = .expr Body.ruleModulo := rfl

theorem plainHead_iff (c : Nat) : plainHead c = true ↔
    c ≠ 32 ∧ c ≠ 9 ∧ c ≠ 10 ∧ c ≠ 13 ∧ c ≠ 45 ∧ c ≠ 61 ∧ c ≠ 60 ∧ c ≠ 62 ∧ c ≠ 33 ∧
      c ≠ 124 ∧ c ≠ 43 ∧ c ≠ 42 ∧ c ≠ 47 ∧ c ≠ 37 ∧ c ≠ 58 := by
  simp [plainHead, and_assoc]

/-- Rule `sp` fails on a rune that starts no whitespace. -/
theorem Eval_sp_plain (c : Nat) (r : List Nat) (hc : plainHead c = true) (d p : Nat)
    (t : List token32) : Eval (.call .rulesp) d p (c :: r) t .fail := by
  obtain ⟨h1, h2, h3, h4, h5, _⟩ := (plainHead_iff c).mp hc
  refine Eval.of_execF 12 ?_ (fun hc => ResF.noConfusion hc)
  simp [execF_call, execF_star, execF_alt, execF_seq, execF_chr, grammar_sp,
    grammar_spElem, grammar_comment, grammar_finalComment, Body.rulesp, Body.rulespElem,
    Body.rulecomment, Body.rulefinalComment, Peg.alts, Peg.seqs, Peg.plus, h1, h2, h3, h4, h5]

/-- Rule `spOpt` matches nothing on a rune that starts no whitespace. -/
theorem Eval_spOpt_plain (c : Nat) (r : List Nat) (hc : plainHead c = true) (d p : Nat)
    (t : List token32) :
    Eval (.call .rulespOpt) d p (c :: r) t (.ok p (c :: r) (⟨.rulespOpt, p, p, d⟩ :: t)) := by
  obtain ⟨h1, h2, h3, h4, h5, _⟩ := (plainHead_iff c).mp hc
  refine Eval.of_execF 12 ?_ (fun hc => ResF.noConfusion hc)
  simp [execF_call, execF_star, execF_alt, execF_seq, execF_chr, grammar_spOpt,
    grammar_spElem, grammar_comment, grammar_finalComment, Body.rulespOpt, Body.rulespElem,
    Body.rulecomment, Body.rulefinalComment, Peg.alts, Peg.seqs, h1, h2, h3, h4, h5]

/-- The operators fail on a rune that starts no operator. -/
theorem Eval_ops_plain (c : Nat) (r : List Nat) (hc : plainHead c = true) (d p : Nat)
    (t : List token32) :
    Eval (.call .ruleComparisonOp) d p (c :: r) t .fail ∧
    Eval (.call .ruleOtherOp) d p (c :: r) t .fail ∧
    Eval (.call .rulePlusMinusOp) d p (c :: r) t .fail ∧
    Eval (.call .ruleMultDivOp) d p (c :: r) t .fail ∧
    Eval (.seqs [.chr ':', .chr ':']) d p (c :: r) t .fail := by
  obtain ⟨_, _, _, _, h5, h6, h7, h8, h9, h10, h11, h12, h13, h14, h15⟩ :=
    (plainHead_iff c).mp hc
  refine ⟨Eval.of_execF 20 ?_ (fun hc => ResF.noConfusion hc),
    Eval.of_execF 20 ?_ (fun hc => ResF.noConfusion hc),
    Eval.of_execF 20 ?_ (fun hc => ResF.noConfusion hc),
    Eval.of_execF 20 ?_ (fun hc => ResF.noConfusion hc),
    Eval.of_execF 20 ?_ (fun hc => ResF.noConfusion hc)⟩
  · simp [execF_call, execF_alt, execF_seq, execF_chr, execF_text, grammar_ComparisonOp,
      grammar_Equal, grammar_NotEqual, grammar_LessOrEqual, grammar_Less,
      grammar_GreaterOrEqual, grammar_Greater, Body.ruleComparisonOp, Body.ruleEqual,
      Body.ruleNotEqual, Body.ruleLessOrEqual, Body.ruleLess, Body.ruleGreaterOrEqual,
      Body.ruleGreater, Peg.alts, Peg.seqs, h6, h7, h8, h9]
  · simp [execF_call, execF_alt, execF_seq, execF_chr, execF_text, grammar_OtherOp,
      grammar_Concat, Body.ruleOtherOp, Body.ruleConcat, Peg.alts, Peg.seqs, h10]
  · simp [execF_call, execF_alt, execF_seq, execF_chr, execF_text, grammar_PlusMinusOp,
      grammar_Plus, grammar_Minus, Body.rulePlusMinusOp, Body.rulePlus, Body.ruleMinus,
      Peg.alts, Peg.seqs, h5, h11]
  · simp [execF_call, execF_alt, execF_seq, execF_chr, execF_text, grammar_MultDivOp,
      grammar_Multiply, grammar_Divide, grammar_Modulo, Body.ruleMultDivOp,
      Body.ruleMultiply, Body.ruleDivide, Body.ruleModulo, Peg.alts, Peg.seqs, h12, h13, h14]
  · simp [execF_seq, execF_chr, Peg.seqs, h15]

/-- No expression level reads an operator at a rune that starts no whitespace and no
operator. -/
theorem levelTails_plain (c : Nat) (r : List Nat) (hc : plainHead c = true) :
    levelTails (c :: r) := by
  intro d p t
  have hsp := fun d p t => Eval_sp_plain c r hc d p t
  have hso := fun d p t => Eval_spOpt_plain c r hc d p t
  have hop := fun d p t => Eval_ops_plain c r hc d p t
  exact ⟨Eval.star_fail (Eval.seq_fail (hsp _ _ _)),
    Eval.star_fail (Eval.seq_fail (hsp _ _ _)),
    Eval.opt_fail (Eval.seq_ok (hso _ _ _) (Eval.seq_fail (hop _ _ _).1)),
    Eval.star_fail (Eval.seq_ok (hso _ _ _) (Eval.seq_fail (hop _ _ _).2.1)),
    Eval.opt_fail (Eval.seq_fail (hsp _ _ _)),
    Eval.star_fail (Eval.seq_ok (hso _ _ _) (Eval.seq_fail (hop _ _ _).2.2.1)),
    Eval.star_fail (Eval.seq_ok (hso _ _ _) (Eval.seq_fail (hop _ _ _).2.2.2.1)),
    Eval.opt_fail (Eval.seq_ok (hso _ _ _) (Eval.seq_fail (hop _ _ _).2.2.2.2))⟩

theorem plainHead_end : plainHead end_symbol = true := by decide

theorem plainHead_ident {c : Nat} (h : isIdentRune c = true) : plainHead c = true := by
  rw [plainHead_iff]
  simp only [isIdentRune, Bool.or_eq_true, beq_iff_eq] at h
  rcases h with h | h
  · have := (isAlnum_iff c).mp h
    omega
  · subst h; decide



/-! ## The statement `EVAL e` -/

theorem grammar_Statement : grammar .ruleStatement = .expr Body.ruleStatement := rfl
theorem grammar_EvalStmt : grammar .ruleEvalStmt = .expr Body.ruleEvalStmt := rfl
theorem grammar_Action24 : grammar .ruleAction24 = .action := rfl

/-- A parse error of `Parse`, from a run of rule `SingleStatement` that fails. -/
theorem Parse_error_of_eval {Buffer : String}
    (h : Eval (.call .ruleSingleStatement) 0 0 (Init (runes Buffer)) [] .fail) :
    (∃ tree, Parse Buffer = .parseError tree) ∧ parseExecute Buffer = .parseError := by
  have hne := parseFuel_enough (runes Buffer).length .ruleSingleStatement 0 0
    (Init (runes Buffer)) [] (Init_length_le _)
  have hx := h.at_fuel hne
  have hP := parseRule_of_execF (parseFuel (runes Buffer).length) (runes Buffer)
    .ruleSingleStatement
  rw [hx] at hP
  obtain ⟨tree, ht⟩ := hP
  refine ⟨⟨tree, ht⟩, ?_⟩
  unfold parseExecute Parse
  rw [ht]

/-- The statements other than `EVAL` fail on a text that starts with `E`. -/
theorem Eval_Statement_others (d p : Nat) (r : List Nat) (t : List token32) :
    Eval (.call .ruleSelectUnionStmt) d p (69 :: r) t .fail ∧
    Eval (.call .ruleSelectStmt) d p (69 :: r) t .fail ∧
    Eval (.call .ruleSourceStmt) d p (69 :: r) t .fail ∧
    Eval (.call .ruleSinkStmt) d p (69 :: r) t .fail ∧
    Eval (.call .ruleStateStmt) d p (69 :: r) t .fail ∧
    Eval (.call .ruleStreamStmt) d p (69 :: r) t .fail :=
  ⟨Eval.of_execF 20 rfl (fun hc => ResF.noConfusion hc),
   Eval.of_execF 20 rfl (fun hc => ResF.noConfusion hc),
   Eval.of_execF 20 rfl (fun hc => ResF.noConfusion hc),
   Eval.of_execF 20 rfl (fun hc => ResF.noConfusion hc),
   Eval.of_execF 20 rfl (fun hc => ResF.noConfusion hc),
   Eval.of_execF 20 rfl (fun hc => ResF.noConfusion hc)⟩

/-- Rule `sp` on one blank before a text that does not start with whitespace. -/
theorem Eval_sp_blank (d p : Nat) (t : List token32) {e : List Nat}
    (h : noSpHead e = true) (c : Nat) (r : List Nat) (hc : c ≠ 45) :
    Eval (.call .rulesp) d p (32 :: (e ++ c :: r)) t
      (.ok (p + 1) (e ++ c :: r)
        (⟨.rulesp, p, p + 1, d⟩ :: ⟨.rulespElem, p, p + 1, d + 1⟩ :: t)) := by
  have h1 : Eval (.call .rulespElem) (d + 1) p (32 :: (e ++ c :: r)) t
      (.ok (p + 1) (e ++ c :: r) (⟨.rulespElem, p, p + 1, d + 1⟩ :: t)) :=
    Eval.of_execF 4 rfl (fun hc => ResF.noConfusion hc)
  obtain ⟨t2, ht2, h2⟩ := (Eval_spOpt_zero d (p + 1) (⟨.rulespElem, p, p + 1, d + 1⟩ :: t)
    h c r hc).call_inv grammar_spOpt
  have ht : t2 = ⟨.rulespElem, p, p + 1, d + 1⟩ :: t := by
    simp only [List.cons.injEq, true_and] at ht2
    exact ht2.symm
  subst ht
  exact Eval.call_ok grammar_sp (Eval.seq_ok h1 h2)

/-- Rule `Statement` on `EVAL`, a blank and a text that rule `Expression` matches, before a
rune that starts no whitespace and no operator. -/
theorem Eval_Statement_EVAL {e : List Nat} (hns : noSpHead e = true) {c : Nat}
    (hc : plainHead c = true) (r : List Nat) (d p : Nat) (t tE : List token32)
    (he : Eval (.call .ruleExpression) (d + 2) (p + 5) (e ++ c :: r)
      (⟨.rulesp, p + 4, p + 5, d + 2⟩ :: ⟨.rulespElem, p + 4, p + 5, d + 3⟩ :: t)
      (.ok (p + 5 + e.length) (c :: r) tE)) :
    Eval (.call .ruleStatement) d p (69 :: 86 :: 65 :: 76 :: 32 :: (e ++ c :: r)) t
      (.ok (p + 5 + e.length) (c :: r)
        (⟨.ruleStatement, p, p + 5 + e.length, d⟩ ::
         ⟨.ruleEvalStmt, p, p + 5 + e.length, d + 1⟩ ::
         ⟨.ruleAction24, p + 5 + e.length, p + 5 + e.length, d + 2⟩ ::
         ⟨.rulePegText, p + 5 + e.length, p + 5 + e.length, d + 2⟩ :: tE)) := by
  have ho := Eval_Statement_others (d + 1) p (86 :: 65 :: 76 :: 32 :: (e ++ c :: r)) t
  have hc45 : c ≠ 45 := ((plainHead_iff c).mp hc).2.2.2.2.1
  have l1 : Eval (.ci 'e' 'E') (d + 2) p (69 :: 86 :: 65 :: 76 :: 32 :: (e ++ c :: r)) t
      (.ok (p + 1) (86 :: 65 :: 76 :: 32 :: (e ++ c :: r)) t) :=
    Eval.of_execF 3 rfl (fun hc => ResF.noConfusion hc)
  have l2 : Eval (.ci 'v' 'V') (d + 2) (p + 1) (86 :: 65 :: 76 :: 32 :: (e ++ c :: r)) t
      (.ok (p + 2) (65 :: 76 :: 32 :: (e ++ c :: r)) t) :=
    Eval.of_execF 3 rfl (fun hc => ResF.noConfusion hc)
  have l3 : Eval (.ci 'a' 'A') (d + 2) (p + 2) (65 :: 76 :: 32 :: (e ++ c :: r)) t
      (.ok (p + 3) (76 :: 32 :: (e ++ c :: r)) t) :=
    Eval.of_execF 3 rfl (fun hc => ResF.noConfusion hc)
  have l4 : Eval (.ci 'l' 'L') (d + 2) (p + 3) (76 :: 32 :: (e ++ c :: r)) t
      (.ok (p + 4) (32 :: (e ++ c :: r)) t) :=
    Eval.of_execF 3 rfl (fun hc => ResF.noConfusion hc)
  have l5 := Eval_sp_blank (d + 2) (p + 4) t hns c r hc45
  have l6 : Eval (.text (.opt (.seqs [.call .rulesp, .seqs [.ci 'o' 'O', .ci 'n' 'N'],
      .call .rulesp, .call .ruleMapExpr]))) (d + 2) (p + 5 + e.length) (c :: r) tE
      (.ok (p + 5 + e.length) (c :: r)
        (⟨.rulePegText, p + 5 + e.length, p + 5 + e.length, d + 2⟩ :: tE)) :=
    Eval.text_ok (Eval.opt_fail (Eval.seq_fail (Eval_sp_plain c r hc _ _ _)))
  have hE := Eval.call_ok grammar_EvalStmt (d := d + 1)
    (Eval.seq_ok l1 (Eval.seq_ok l2 (Eval.seq_ok l3 (Eval.seq_ok l4 (Eval.seq_ok l5
      (Eval.seq_ok he (Eval.seq_ok l6 (Eval.call_action grammar_Action24 _ _ _ _))))))))
  exact Eval.call_ok grammar_Statement
    (Eval.alt_fail ho.1 (Eval.alt_fail ho.2.1 (Eval.alt_fail ho.2.2.1
      (Eval.alt_fail ho.2.2.2.1 (Eval.alt_fail ho.2.2.2.2.1
        (Eval.alt_fail ho.2.2.2.2.2 hE))))))

/-- Rule `SingleStatement` on `EVAL`, a blank and a text that rule `Expression` matches up to
the end of the input: it returns true, with these tokens. -/
theorem Eval_SingleStatement_EVAL {e : List Nat} (hns : noSpHead e = true)
    (tE : List token32)
    (he : Eval (.call .ruleExpression) 5 5 (e ++ [end_symbol])
      [⟨.rulesp, 4, 5, 5⟩, ⟨.rulespElem, 4, 5, 6⟩, ⟨.rulespOpt, 0, 0, 1⟩]
      (.ok (5 + e.length) [end_symbol] tE)) :
    Eval (.call .ruleSingleStatement) 0 0
      (69 :: 86 :: 65 :: 76 :: 32 :: (e ++ [end_symbol])) []
      (.ok (5 + e.length) [end_symbol]
        (⟨.ruleSingleStatement, 0, 5 + e.length, 0⟩ ::
         ⟨.ruleStatementWithoutRest, 0, 5 + e.length, 1⟩ ::
         ⟨.ruleAction1, 5 + e.length, 5 + e.length, 2⟩ ::
         ⟨.rulePegText, 0, 5 + e.length, 2⟩ ::
         ⟨.rulespOpt, 5 + e.length, 5 + e.length, 3⟩ ::
         ⟨.ruleStatement, 0, 5 + e.length, 3⟩ ::
         ⟨.ruleEvalStmt, 0, 5 + e.length, 4⟩ ::
         ⟨.ruleAction24, 5 + e.length, 5 + e.length, 5⟩ ::
         ⟨.rulePegText, 5 + e.length, 5 + e.length, 5⟩ :: tE)) := by
  have hA := Eval_spOpt_plain 69 (86 :: 65 :: 76 :: 32 :: (e ++ [end_symbol])) (by decide)
    1 0 []
  have he2 : Eval (.call .ruleExpression) (3 + 2) (0 + 5) (e ++ end_symbol :: [])
      (⟨.rulesp, 0 + 4, 0 + 5, 3 + 2⟩ :: ⟨.rulespElem, 0 + 4, 0 + 5, 3 + 3⟩ ::
        [⟨.rulespOpt, 0, 0, 1⟩]) (.ok (0 + 5 + e.length) (end_symbol :: []) tE) := by
    simpa using he
  have hS := Eval_Statement_EVAL hns plainHead_end [] 3 0 [⟨.rulespOpt, 0, 0, 1⟩] tE he2
  simp only [Nat.zero_add] at hS
  have hB := Eval_spOpt_plain end_symbol [] plainHead_end 3 (5 + e.length)
    (⟨.ruleStatement, 0, 5 + e.length, 3⟩ :: ⟨.ruleEvalStmt, 0, 5 + e.length, 3 + 1⟩ ::
      ⟨.ruleAction24, 5 + e.length, 5 + e.length, 3 + 2⟩ ::
      ⟨.rulePegText, 5 + e.length, 5 + e.length, 3 + 2⟩ :: tE)
  have hC : Eval (.chr ';') 3 (5 + e.length) [end_symbol]
      (⟨.rulespOpt, 5 + e.length, 5 + e.length, 3⟩ ::
        ⟨.ruleStatement, 0, 5 + e.length, 3⟩ :: ⟨.ruleEvalStmt, 0, 5 + e.length, 3 + 1⟩ ::
        ⟨.ruleAction24, 5 + e.length, 5 + e.length, 3 + 2⟩ ::
        ⟨.rulePegText, 5 + e.length, 5 + e.length, 3 + 2⟩ :: tE) .fail :=
    Eval.of_execF 1 rfl (fun hc => ResF.noConfusion hc)
  have h1 : Eval (.call .ruleStatementWithRest) 1 0
      (69 :: 86 :: 65 :: 76 :: 32 :: (e ++ [end_symbol])) [⟨.rulespOpt, 0, 0, 1⟩] .fail :=
    Eval.call_fail grammar_StatementWithRest (Eval.seq_fail (Eval.text_fail
      (Eval.seq_ok hS (Eval.seq_ok hB (Eval.seq_fail hC)))))
  have h2 := Eval.call_ok grammar_StatementWithoutRest (d := 1)
    (Eval.seq_ok (Eval.text_ok (Eval.seq_ok hS hB))
      (Eval.call_action grammar_Action1 2 _ _ _))
  exact Eval.call_ok grammar_SingleStatement
    (Eval.seq_ok hA (Eval.seq_ok (Eval.alt_fail h1 h2) (Eval_dot_end _ _ _)))

/-- Rule `SingleStatement` on `EVAL`, a blank and a text that rule `Expression` matches
before a rune that starts no whitespace and no operator and is no `;`: it returns false. -/
theorem Eval_SingleStatement_EVAL_rest {e : List Nat} (hns : noSpHead e = true) {c : Nat}
    (hc : plainHead c = true) (hc59 : c ≠ 59) (hce : c ≠ end_symbol) (r : List Nat)
    (tE : List token32)
    (he : Eval (.call .ruleExpression) 5 5 (e ++ c :: r)
      [⟨.rulesp, 4, 5, 5⟩, ⟨.rulespElem, 4, 5, 6⟩, ⟨.rulespOpt, 0, 0, 1⟩]
      (.ok (5 + e.length) (c :: r) tE)) :
    Eval (.call .ruleSingleStatement) 0 0 (69 :: 86 :: 65 :: 76 :: 32 :: (e ++ c :: r)) []
      .fail := by
  have hA := Eval_spOpt_plain 69 (86 :: 65 :: 76 :: 32 :: (e ++ c :: r)) (by decide) 1 0 []
  have he2 : Eval (.call .ruleExpression) (3 + 2) (0 + 5) (e ++ c :: r)
      (⟨.rulesp, 0 + 4, 0 + 5, 3 + 2⟩ :: ⟨.rulespElem, 0 + 4, 0 + 5, 3 + 3⟩ ::
        [⟨.rulespOpt, 0, 0, 1⟩]) (.ok (0 + 5 + e.length) (c :: r) tE) := by
    simpa using he
  have hS := Eval_Statement_EVAL hns hc r 3 0 [⟨.rulespOpt, 0, 0, 1⟩] tE he2
  simp only [Nat.zero_add] at hS
  have hB := Eval_spOpt_plain c r hc 3 (5 + e.length)
    (⟨.ruleStatement, 0, 5 + e.length, 3⟩ :: ⟨.ruleEvalStmt, 0, 5 + e.length, 3 + 1⟩ ::
      ⟨.ruleAction24, 5 + e.length, 5 + e.length, 3 + 2⟩ ::
      ⟨.rulePegText, 5 + e.length, 5 + e.length, 3 + 2⟩ :: tE)
  have hC : Eval (.chr ';') 3 (5 + e.length) (c :: r)
      (⟨.rulespOpt, 5 + e.length, 5 + e.length, 3⟩ ::
        ⟨.ruleStatement, 0, 5 + e.length, 3⟩ :: ⟨.ruleEvalStmt, 0, 5 + e.length, 3 + 1⟩ ::
        ⟨.ruleAction24, 5 + e.length, 5 + e.length, 3 + 2⟩ ::
        ⟨.rulePegText, 5 + e.length, 5 + e.length, 3 + 2⟩ :: tE) .fail := by
    rw [Eval_chr]; simp [hc59]
  have h1 : Eval (.call .ruleStatementWithRest) 1 0
      (69 :: 86 :: 65 :: 76 :: 32 :: (e ++ c :: r)) [⟨.rulespOpt, 0, 0, 1⟩] .fail :=
    Eval.call_fail grammar_StatementWithRest (Eval.seq_fail (Eval.text_fail
      (Eval.seq_ok hS (Eval.seq_ok hB (Eval.seq_fail hC)))))
  have h2 := Eval.call_ok grammar_StatementWithoutRest (d := 1)
    (Eval.seq_ok (Eval.text_ok (Eval.seq_ok hS hB))
      (Eval.call_action grammar_Action1 2 _ _ _))
  have hN : Eval (.nt .dot) 1 (5 + e.length) (c :: r)
      (⟨.ruleStatementWithoutRest, 0, 5 + e.length, 1⟩ ::
        ⟨.ruleAction1, 5 + e.length, 5 + e.length, 2⟩ ::
        ⟨.rulePegText, 0, 5 + e.length, 2⟩ ::
        ⟨.rulespOpt, 5 + e.length, 5 + e.length, 3⟩ ::
        ⟨.ruleStatement, 0, 5 + e.length, 3⟩ :: ⟨.ruleEvalStmt, 0, 5 + e.length, 3 + 1⟩ ::
        ⟨.ruleAction24, 5 + e.length, 5 + e.length, 3 + 2⟩ ::
        ⟨.rulePegText, 5 + e.length, 5 + e.length, 3 + 2⟩ :: tE) .fail := by
    rw [Eval_nt]
    refine ⟨_, Eval.dot _ _ _ _, ?_⟩
    simp [hce]
  exact Eval.call_fail grammar_SingleStatement
    (Eval.seq_ok hA (Eval.seq_ok (Eval.alt_fail h1 h2) hN))



/-! ## A number with a minus sign in an expression -/

/-- Rule `castExpr` on a digit string that no fraction, no operator and no cast follows: the
literal is read by the last alternative of `baseExpr`. -/
theorem Eval_castExpr_digits (d p : Nat) (t : List token32) (ds : List Nat) (c : Nat)
    (r : List Nat) (hds : isDigits ds = true) (hc : isDigit c = false)
    (hf : c ≠ 46 ∨ ∃ c2 r2, r = c2 :: r2 ∧ isDigit c2 = false) (ht : levelTails (c :: r)) :
    Eval (.call .rulecastExpr) d p (ds ++ c :: r) t
      (.ok (p + ds.length) (c :: r)
        (⟨.rulecastExpr, p, p + ds.length, d⟩ ::
         ⟨.ruleAction59, p + ds.length, p + ds.length, d + 1⟩ ::
         ⟨.rulePegText, p, p + ds.length, d + 1⟩ ::
         ⟨.rulebaseExpr, p, p + ds.length, d + 2⟩ ::
         ⟨.ruleLiteral, p, p + ds.length, d + 3⟩ ::
         ⟨.ruleNumericLiteral, p, p + ds.length, d + 4⟩ ::
         ⟨.ruleAction73, p + ds.length, p + ds.length, d + 5⟩ ::
         ⟨.rulePegText, p, p + ds.length, d + 5⟩ :: t)) := by
  have hL := Eval_Literal_int (d + 3) p t false ds c r hds hc hf
  obtain ⟨x, xs, rfl, hx, _⟩ := isDigits_head hds
  have hu := unsigned_first x (Or.inl hx) (d + 3) p (xs ++ c :: r) t
  have hL2 : Eval (.call .ruleLiteral) (d + 3) p (x :: (xs ++ c :: r)) t
      (.ok (p + (x :: xs).length) (c :: r)
        (⟨.ruleLiteral, p, p + (x :: xs).length, d + 3⟩ ::
         ⟨.ruleNumericLiteral, p, p + (x :: xs).length, d + 4⟩ ::
         ⟨.ruleAction73, p + (x :: xs).length, p + (x :: xs).length, d + 5⟩ ::
         ⟨.rulePegText, p, p + (x :: xs).length, d + 5⟩ :: t)) := by
    simpa [signText] using hL
  have hb : Eval (.call .rulebaseExpr) (d + 2) p (x :: (xs ++ c :: r)) t
      (.ok (p + (x :: xs).length) (c :: r)
        (⟨.rulebaseExpr, p, p + (x :: xs).length, d + 2⟩ ::
         ⟨.ruleLiteral, p, p + (x :: xs).length, d + 3⟩ ::
         ⟨.ruleNumericLiteral, p, p + (x :: xs).length, d + 4⟩ ::
         ⟨.ruleAction73, p + (x :: xs).length, p + (x :: xs).length, d + 5⟩ ::
         ⟨.rulePegText, p, p + (x :: xs).length, d + 5⟩ :: t)) :=
    Eval.call_ok grammar_baseExpr
      (Eval.alt_fail hu.2.1 (Eval.alt_fail hu.2.2.1 (Eval.alt_fail hu.2.2.2.1
        (Eval.alt_fail hu.2.2.2.2.1 (Eval.alt_fail hu.2.2.2.2.2.1
          (Eval.alt_fail hu.2.2.2.2.2.2.1 (Eval.alt_fail hu.2.2.2.2.2.2.2.1
            (Eval.alt_fail hu.2.2.2.2.2.2.2.2.1 (Eval.alt_fail hu.2.2.2.2.2.2.2.2.2
              hL2)))))))))
  exact Eval.token_ok grammar_castExpr grammar_Action59 (Eval.seq_ok hb (ht _ _ _).2.2.2.2.2.2.2)

/-- Rule `minusExpr` on a `-` and a digit string: the `-` is read by `UnaryMinus`, and the
literal that `castExpr` reads after it is the digit string alone. -/
theorem Eval_minusExpr_neg (d p : Nat) (t : List token32) (ds : List Nat) (c : Nat)
    (r : List Nat) (hds : isDigits ds = true) (hc : isDigit c = false) (hc45 : c ≠ 45)
    (hf : c ≠ 46 ∨ ∃ c2 r2, r = c2 :: r2 ∧ isDigit c2 = false) (ht : levelTails (c :: r)) :
    Eval (.call .ruleminusExpr) d p (45 :: (ds ++ c :: r)) t
      (.ok (p + 1 + ds.length) (c :: r)
        (⟨.ruleminusExpr, p, p + 1 + ds.length, d⟩ ::
         ⟨.ruleAction58, p + 1 + ds.length, p + 1 + ds.length, d + 1⟩ ::
         ⟨.rulePegText, p, p + 1 + ds.length, d + 1⟩ ::
         ⟨.rulecastExpr, p + 1, p + 1 + ds.length, d + 2⟩ ::
         ⟨.ruleAction59, p + 1 + ds.length, p + 1 + ds.length, d + 3⟩ ::
         ⟨.rulePegText, p + 1, p + 1 + ds.length, d + 3⟩ ::
         ⟨.rulebaseExpr, p + 1, p + 1 + ds.length, d + 4⟩ ::
         ⟨.ruleLiteral, p + 1, p + 1 + ds.length, d + 5⟩ ::
         ⟨.ruleNumericLiteral, p + 1, p + 1 + ds.length, d + 6⟩ ::
         ⟨.ruleAction73, p + 1 + ds.length, p + 1 + ds.length, d + 7⟩ ::
         ⟨.rulePegText, p + 1, p + 1 + ds.length, d + 7⟩ ::
         ⟨.rulespOpt, p + 1, p + 1, d + 2⟩ ::
         ⟨.ruleUnaryMinus, p, p + 1, d + 2⟩ ::
         ⟨.ruleAction119, p + 1, p + 1, d + 3⟩ ::
         ⟨.rulePegText, p, p + 1, d + 3⟩ :: t)) := by
  have h1 : Eval (.call .ruleUnaryMinus) (d + 2) p (45 :: (ds ++ c :: r)) t
      (.ok (p + 1) (ds ++ c :: r) (⟨.ruleUnaryMinus, p, p + 1, d + 2⟩ ::
        ⟨.ruleAction119, p + 1, p + 1, d + 3⟩ ::
        ⟨.rulePegText, p, p + 1, d + 3⟩ :: t)) :=
    Eval.of_execF 5 rfl (fun hc => ResF.noConfusion hc)
  have hns : noSpHead ds = true := by
    obtain ⟨x, xs, rfl, hx, _⟩ := isDigits_head hds
    have := (isDigit_iff x).mp hx
    rcases xs with _ | ⟨y, tl⟩ <;>
      simp [noSpHead] <;> omega
  have h2 := Eval_spOpt_zero (d + 2) (p + 1) (⟨.ruleUnaryMinus, p, p + 1, d + 2⟩ ::
        ⟨.ruleAction119, p + 1, p + 1, d + 3⟩ ::
        ⟨.rulePegText, p, p + 1, d + 3⟩ :: t) hns c r hc45
  have h3 := Eval_castExpr_digits (d + 2) (p + 1) (⟨.rulespOpt, p + 1, p + 1, d + 2⟩ ::
        ⟨.ruleUnaryMinus, p, p + 1, d + 2⟩ ::
        ⟨.ruleAction119, p + 1, p + 1, d + 3⟩ ::
        ⟨.rulePegText, p, p + 1, d + 3⟩ :: t) ds c r hds hc hf ht
  exact Eval.token_ok grammar_minusExpr grammar_Action58
    (Eval.seq_ok (Eval.opt_ok (Eval.seq_ok h1 h2)) h3)

/-! ## Steps of `Execute` -/

/-- A `rulePegText` token whose slice is in range sets `begin` and `end`. -/
theorem executeLoop_text_ok (X B : List Nat) (b0 e0 d0 : Nat) (l : List token32) (b e : Nat)
    (h1 : b0 ≤ e0) (h2 : e0 ≤ B.length) :
    executeLoop X B (⟨.rulePegText, b0, e0, d0⟩ :: l) b e = executeLoop X B l b0 e0 := by
  rw [executeLoop_cons_text]
  unfold slice
  rw [if_pos ⟨h1, h2⟩]

/-- A token of another rule adds the calls of its `case`. -/
theorem executeLoop_step (X B : List Nat) (q : pegRule) (b1 e1 d1 : Nat) (l : List token32)
    (b e : Nat) (cs : List Call) (hq : q ≠ .rulePegText)
    (ha : executeAction X b e q = some cs) :
    executeLoop X B (⟨q, b1, e1, d1⟩ :: l) b e =
      (executeLoop X B l b e).map (fun ds => cs ++ ds) := by
  rw [executeLoop_cons_other X B _ l b e hq]
  simp only [ha]
  cases executeLoop X B l b e <;> rfl



/-! ## The literals `null`, `true` and `false` at the head of a name -/

theorem toLowerN_letter {x y : Nat} (h : toLowerN x = y) : x = y ∨ x + 32 = y := by
  unfold toLowerN at h
  split at h
  · exact Or.inr h
  · exact Or.inl h

/-- The texts that differ from `null` in letter case only. -/
theorem null_cases {kw : List Nat} (hk : kw.map toLowerN = [110, 117, 108, 108]) :
    ∃ a b c d, kw = [a, b, c, d] ∧ (a = 110 ∨ a = 78) ∧ (b = 117 ∨ b = 85) ∧
      (c = 108 ∨ c = 76) ∧ (d = 108 ∨ d = 76) := by
  rcases kw with _ | ⟨a, _ | ⟨b, _ | ⟨c, _ | ⟨d, _ | ⟨e, l⟩⟩⟩⟩⟩ <;>
    simp only [List.map_nil, List.map_cons, List.cons.injEq, and_true, and_false,
      reduceCtorEq] at hk
  obtain ⟨h1, h2, h3, h4⟩ := hk
  have := toLowerN_letter h1
  have := toLowerN_letter h2
  have := toLowerN_letter h3
  have := toLowerN_letter h4
  exact ⟨a, b, c, d, rfl, by omega, by omega, by omega, by omega⟩

/-- The texts that differ from `true` in letter case only. -/
theorem true_cases {kw : List Nat} (hk : kw.map toLowerN = [116, 114, 117, 101]) :
    ∃ a b c d, kw = [a, b, c, d] ∧ (a = 116 ∨ a = 84) ∧ (b = 114 ∨ b = 82) ∧
      (c = 117 ∨ c = 85) ∧ (d = 101 ∨ d = 69) := by
  rcases kw with _ | ⟨a, _ | ⟨b, _ | ⟨c, _ | ⟨d, _ | ⟨e, l⟩⟩⟩⟩⟩ <;>
    simp only [List.map_nil, List.map_cons, List.cons.injEq, and_true, and_false,
      reduceCtorEq] at hk
  obtain ⟨h1, h2, h3, h4⟩ := hk
  have := toLowerN_letter h1
  have := toLowerN_letter h2
  have := toLowerN_letter h3
  have := toLowerN_letter h4
  exact ⟨a, b, c, d, rfl, by omega, by omega, by omega, by omega⟩

/-- The texts that differ from `false` in letter case only. -/
theorem false_cases {kw : List Nat} (hk : kw.map toLowerN = [102, 97, 108, 115, 101]) :
    ∃ a b c d e, kw = [a, b, c, d, e] ∧ (a = 102 ∨ a = 70) ∧ (b = 97 ∨ b = 65) ∧
      (c = 108 ∨ c = 76) ∧ (d = 115 ∨ d = 83) ∧ (e = 101 ∨ e = 69) := by
  rcases kw with _ | ⟨a, _ | ⟨b, _ | ⟨c, _ | ⟨d, _ | ⟨e, _ | ⟨f, l⟩⟩⟩⟩⟩⟩ <;>
    simp only [List.map_nil, List.map_cons, List.cons.injEq, and_true, and_false,
      reduceCtorEq] at hk
  obtain ⟨h1, h2, h3, h4, h5⟩ := hk
  have := toLowerN_letter h1
  have := toLowerN_letter h2
  have := toLowerN_letter h3
  have := toLowerN_letter h4
  have := toLowerN_letter h5
  exact ⟨a, b, c, d, e, rfl, by omega, by omega, by omega, by omega, by omega⟩

/-- Rule `baseExpr` on `null` in any letter case, whatever follows: the alternative
`NullLiteral` matches it; and no `-` and no `NOT` stands before it. -/
theorem Eval_baseExpr_null {kw : List Nat} (hk : kw.map toLowerN = [110, 117, 108, 108])
    (d p : Nat) (r : List Nat) (t : List token32) :
    Eval (.call .rulebaseExpr) d p (kw ++ r) t (.ok (p + 4) r
      (⟨.rulebaseExpr, p, p + 4, d⟩ :: ⟨.ruleNullLiteral, p, p + 4, d + 1⟩ ::
        ⟨.ruleAction76, p + 4, p + 4, d + 2⟩ :: ⟨.rulePegText, p, p + 4, d + 2⟩ :: t)) ∧
    Eval (.opt (.seqs [.call .ruleUnaryMinus, .call .rulespOpt])) d p (kw ++ r) t
      (.ok p (kw ++ r) t) ∧
    Eval (.opt (.seqs [.call .ruleNot, .call .rulesp])) d p (kw ++ r) t
      (.ok p (kw ++ r) t) := by
  obtain ⟨a, b, c, e, rfl, ha, hb, hc, he⟩ := null_cases hk
  rcases ha with rfl | rfl <;> rcases hb with rfl | rfl <;> rcases hc with rfl | rfl <;>
    rcases he with rfl | rfl <;>
    exact ⟨Eval.of_execF 20 rfl (fun hc => ResF.noConfusion hc),
      Eval.of_execF 20 rfl (fun hc => ResF.noConfusion hc),
      Eval.of_execF 20 rfl (fun hc => ResF.noConfusion hc)⟩

/-- Rule `baseExpr` on `true` in any letter case, whatever follows: the alternative
`BooleanLiteral` matches it; and no `-` and no `NOT` stands before it. -/
theorem Eval_baseExpr_true {kw : List Nat} (hk : kw.map toLowerN = [116, 114, 117, 101])
    (d p : Nat) (r : List Nat) (t : List token32) :
    Eval (.call .rulebaseExpr) d p (kw ++ r) t (.ok (p + 4) r
      (⟨.rulebaseExpr, p, p + 4, d⟩ :: ⟨.ruleBooleanLiteral, p, p + 4, d + 1⟩ ::
        ⟨.ruleTRUE, p, p + 4, d + 2⟩ ::
        ⟨.ruleAction77, p + 4, p + 4, d + 3⟩ :: ⟨.rulePegText, p, p + 4, d + 3⟩ :: t)) ∧
    Eval (.opt (.seqs [.call .ruleUnaryMinus, .call .rulespOpt])) d p (kw ++ r) t
      (.ok p (kw ++ r) t) ∧
    Eval (.opt (.seqs [.call .ruleNot, .call .rulesp])) d p (kw ++ r) t
      (.ok p (kw ++ r) t) := by
  obtain ⟨a, b, c, e, rfl, ha, hb, hc, he⟩ := true_cases hk
  rcases ha with rfl | rfl <;> rcases hb with rfl | rfl <;> rcases hc with rfl | rfl <;>
    rcases he with rfl | rfl <;>
    exact ⟨Eval.of_execF 20 rfl (fun hc => ResF.noConfusion hc),
      Eval.of_execF 20 rfl (fun hc => ResF.noConfusion hc),
      Eval.of_execF 20 rfl (fun hc => ResF.noConfusion hc)⟩

/-- Rule `baseExpr` on `false` in any letter case, whatever follows: the alternative
`BooleanLiteral` matches it; and no `-` and no `NOT` stands before it. -/
theorem Eval_baseExpr_false {kw : List Nat}
    (hk : kw.map toLowerN = [102, 97, 108, 115, 101])
    (d p : Nat) (r : List Nat) (t : List token32) :
    Eval (.call .rulebaseExpr) d p (kw ++ r) t (.ok (p + 5) r
      (⟨.rulebaseExpr, p, p + 5, d⟩ :: ⟨.ruleBooleanLiteral, p, p + 5, d + 1⟩ ::
        ⟨.ruleFALSE, p, p + 5, d + 2⟩ ::
        ⟨.ruleAction78, p + 5, p + 5, d + 3⟩ :: ⟨.rulePegText, p, p + 5, d + 3⟩ :: t)) ∧
    Eval (.opt (.seqs [.call .ruleUnaryMinus, .call .rulespOpt])) d p (kw ++ r) t
      (.ok p (kw ++ r) t) ∧
    Eval (.opt (.seqs [.call .ruleNot, .call .rulesp])) d p (kw ++ r) t
      (.ok p (kw ++ r) t) := by
  obtain ⟨a, b, c, e, f, rfl, ha, hb, hc, he, hf⟩ := false_cases hk
  rcases ha with rfl | rfl <;> rcases hb with rfl | rfl <;> rcases hc with rfl | rfl <;>
    rcases he with rfl | rfl <;> rcases hf with rfl | rfl <;>
    exact ⟨Eval.of_execF 20 rfl (fun hc => ResF.noConfusion hc),
      Eval.of_execF 20 rfl (fun hc => ResF.noConfusion hc),
      Eval.of_execF 20 rfl (fun hc => ResF.noConfusion hc)⟩

/-- The statement `EVAL`, a blank and a text that `baseExpr` reads as a whole, followed by a
rune that starts no whitespace and no operator and is no `;`: the expression ends after the
text, and `SingleStatement` rejects the input because it does not end there. -/
theorem Parse_EVAL_base_rest {Buffer : String} {e : List Nat} {c : Nat} {rest : List Nat}
    (hB : runes Buffer = [69, 86, 65, 76, 32] ++ e ++ c :: rest)
    (hns : noSpHead e = true) (hc : plainHead c = true) (hc59 : c ≠ 59)
    (hce : c ≠ end_symbol) {tB : List token32}
    (hb : Eval (.call .rulebaseExpr) 26 5 (e ++ c :: (rest ++ [end_symbol]))
      [⟨.rulesp, 4, 5, 5⟩, ⟨.rulespElem, 4, 5, 6⟩, ⟨.rulespOpt, 0, 0, 1⟩]
      (.ok (5 + e.length) (c :: (rest ++ [end_symbol])) tB))
    (hpre : Eval (.opt (.seqs [.call .ruleUnaryMinus, .call .rulespOpt])) 24 5
      (e ++ c :: (rest ++ [end_symbol]))
      [⟨.rulesp, 4, 5, 5⟩, ⟨.rulespElem, 4, 5, 6⟩, ⟨.rulespOpt, 0, 0, 1⟩]
      (.ok 5 (e ++ c :: (rest ++ [end_symbol]))
        [⟨.rulesp, 4, 5, 5⟩, ⟨.rulespElem, 4, 5, 6⟩, ⟨.rulespOpt, 0, 0, 1⟩]))
    (hnot : Eval (.opt (.seqs [.call .ruleNot, .call .rulesp])) 12 5
      (e ++ c :: (rest ++ [end_symbol]))
      [⟨.rulesp, 4, 5, 5⟩, ⟨.rulespElem, 4, 5, 6⟩, ⟨.rulespOpt, 0, 0, 1⟩]
      (.ok 5 (e ++ c :: (rest ++ [end_symbol]))
        [⟨.rulesp, 4, 5, 5⟩, ⟨.rulespElem, 4, 5, 6⟩, ⟨.rulespOpt, 0, 0, 1⟩])) :
    (∃ tree, Parse Buffer = .parseError tree) ∧ parseExecute Buffer = .parseError := by
  have ht := levelTails_plain c (rest ++ [end_symbol]) hc
  have hcast := Eval.token_ok grammar_castExpr grammar_Action59 (d := 24)
    (Eval.seq_ok hb (ht _ _ _).2.2.2.2.2.2.2)
  have hm := Eval.token_ok grammar_minusExpr grammar_Action58 (d := 22)
    (Eval.seq_ok hpre hcast)
  have hx := Eval_Expression_levels (d := 5) hm hnot ht
  have hS := Eval_SingleStatement_EVAL_rest hns hc hc59 hce (rest ++ [end_symbol]) _ hx
  have hI : Init (runes Buffer) =
      69 :: 86 :: 65 :: 76 :: 32 :: (e ++ c :: (rest ++ [end_symbol])) := by
    rw [Init_runes, hB]; simp
  rw [← hI] at hS
  exact Parse_error_of_eval hS

theorem noSpHead_letter {x : Nat} (hx : 65 ≤ x) (l : List Nat) :
    noSpHead (x :: l) = true := by
  rcases l with _ | ⟨y, l⟩ <;> simp [noSpHead] <;> omega

/-- An unqualified name that begins with `true`, `false` or `null` in any letter case is no
expression of an `EVAL` statement: the literal is read, and the rest of the name is left. -/
theorem Parse_EVAL_keyword {Buffer : String} {kw : List Nat} {c : Nat} {rest : List Nat}
    (hB : runes Buffer = [69, 86, 65, 76, 32] ++ kw ++ c :: rest)
    (hk : kw.map toLowerN = [116, 114, 117, 101] ∨
      kw.map toLowerN = [102, 97, 108, 115, 101] ∨ kw.map toLowerN = [110, 117, 108, 108])
    (hc : isIdentRune c = true) :
    (∃ tree, Parse Buffer = .parseError tree) ∧ parseExecute Buffer = .parseError := by
  have hp := plainHead_ident hc
  have hc2 : c ≠ 59 ∧ c ≠ end_symbol := by
    simp only [isIdentRune, Bool.or_eq_true, beq_iff_eq] at hc
    rcases hc with h | h
    · have := (isAlnum_iff c).mp h
      exact ⟨by omega, by unfold end_symbol; omega⟩
    · subst h; decide
  rcases hk with hk | hk | hk
  · have h := fun d => Eval_baseExpr_true hk d 5 (c :: (rest ++ [end_symbol]))
      [⟨.rulesp, 4, 5, 5⟩, ⟨.rulespElem, 4, 5, 6⟩, ⟨.rulespOpt, 0, 0, 1⟩]
    obtain ⟨a, b, x, y, rfl, ha, _⟩ := true_cases hk
    exact Parse_EVAL_base_rest hB (noSpHead_letter (by omega) _) hp hc2.1 hc2.2
      (h 26).1 (h 24).2.1 (h 12).2.2
  · have h := fun d => Eval_baseExpr_false hk d 5 (c :: (rest ++ [end_symbol]))
      [⟨.rulesp, 4, 5, 5⟩, ⟨.rulespElem, 4, 5, 6⟩, ⟨.rulespOpt, 0, 0, 1⟩]
    obtain ⟨a, b, x, y, z, rfl, ha, _⟩ := false_cases hk
    exact Parse_EVAL_base_rest hB (noSpHead_letter (by omega) _) hp hc2.1 hc2.2
      (h 26).1 (h 24).2.1 (h 12).2.2
  · have h := fun d => Eval_baseExpr_null hk d 5 (c :: (rest ++ [end_symbol]))
      [⟨.rulesp, 4, 5, 5⟩, ⟨.rulespElem, 4, 5, 6⟩, ⟨.rulespOpt, 0, 0, 1⟩]
    obtain ⟨a, b, x, y, rfl, ha, _⟩ := null_cases hk
    exact Parse_EVAL_base_rest hB (noSpHead_letter (by omega) _) hp hc2.1 hc2.2
      (h 26).1 (h 24).2.1 (h 12).2.2



/-! ## Two numbers in an array, with a blank before the comma -/

theorem spansOf_append (q : pegRule) (a b : List token32) :
    spansOf q (a ++ b) = spansOf q a ++ spansOf q b := by
  simp [spansOf]

theorem noSpHead_digits {ds : List Nat} (hds : isDigits ds = true) : noSpHead ds = true := by
  obtain ⟨x, xs, rfl, hx, _⟩ := isDigits_head hds
  have := (isDigit_iff x).mp hx
  rcases xs with _ | ⟨y, tl⟩ <;>
    simp [noSpHead] <;> omega

/-- No operator follows where a blank and a `,` stand. -/
theorem levelTails_blank_comma (r : List Nat) : levelTails (32 :: 44 :: r) := by
  intro d p t
  exact ⟨Eval.of_execF 24 rfl (fun hc => ResF.noConfusion hc),
    Eval.of_execF 24 rfl (fun hc => ResF.noConfusion hc),
    Eval.of_execF 24 rfl (fun hc => ResF.noConfusion hc),
    Eval.of_execF 24 rfl (fun hc => ResF.noConfusion hc),
    Eval.of_execF 24 rfl (fun hc => ResF.noConfusion hc),
    Eval.of_execF 24 rfl (fun hc => ResF.noConfusion hc),
    Eval.of_execF 24 rfl (fun hc => ResF.noConfusion hc),
    Eval.of_execF 24 rfl (fun hc => ResF.noConfusion hc)⟩

/-- No operator follows where a `]` stands. -/
theorem levelTails_close (r : List Nat) : levelTails (93 :: r) :=
  fun d p t => level_tails 93 (Or.inr (Or.inl rfl)) d p r t

/-- Rule `ExpressionOrWildcard` on a digit string that no fraction and no operator follows:
it matches the digit string, as one numeric literal. -/
theorem Eval_ExpressionOrWildcard_digits (d p : Nat) (t : List token32) (ds : List Nat)
    (c : Nat) (r : List Nat) (hds : isDigits ds = true) (hc : isDigit c = false)
    (hf : c ≠ 46) (ht : levelTails (c :: r)) :
    ∃ new, Eval (.call .ruleExpressionOrWildcard) d p (ds ++ c :: r) t
        (.ok (p + ds.length) (c :: r) (new ++ t)) ∧
      spansOf .ruleNumericLiteral new = [(p, p + ds.length)] ∧
      spansOf .ruleExpressionOrWildcard new = [(p, p + ds.length)] := by
  have hcast := Eval_castExpr_digits (d + 1 + 17 + 1 + 1) p t ds c r hds hc (Or.inl hf) ht
  obtain ⟨x, xs, rfl, hx, _⟩ := isDigits_head hds
  have hpre := (unsigned_first x (Or.inl hx) (d + 1 + 17 + 1 + 1) p (xs ++ c :: r) t).1
  have hm := Eval.token_ok grammar_minusExpr grammar_Action58 (Eval.seq_ok hpre hcast)
  have hl := literal_first x (Or.inl hx) (d + 1 + 7) p (xs ++ c :: r) t
  have hE := Eval_Expression_levels hm hl.2.2 ht
  have hw := (literal_first x (Or.inl hx) (d + 1) p (xs ++ c :: r) t).1
  have hall := Eval.call_ok grammar_ExpressionOrWildcard (Eval.alt_fail hw hE)
  refine ⟨⟨.ruleExpressionOrWildcard, p, p + (x :: xs).length, d⟩ ::
    (levelTokens (d + 1) p (p + (x :: xs).length) ++
      [⟨.ruleminusExpr, p, p + (x :: xs).length, d + 1 + 17⟩,
       ⟨.ruleAction58, p + (x :: xs).length, p + (x :: xs).length, d + 1 + 17 + 1⟩,
       ⟨.rulePegText, p, p + (x :: xs).length, d + 1 + 17 + 1⟩,
       ⟨.rulecastExpr, p, p + (x :: xs).length, d + 1 + 17 + 1 + 1⟩,
       ⟨.ruleAction59, p + (x :: xs).length, p + (x :: xs).length, d + 1 + 17 + 1 + 1 + 1⟩,
       ⟨.rulePegText, p, p + (x :: xs).length, d + 1 + 17 + 1 + 1 + 1⟩,
       ⟨.rulebaseExpr, p, p + (x :: xs).length, d + 1 + 17 + 1 + 1 + 2⟩,
       ⟨.ruleLiteral, p, p + (x :: xs).length, d + 1 + 17 + 1 + 1 + 3⟩,
       ⟨.ruleNumericLiteral, p, p + (x :: xs).length, d + 1 + 17 + 1 + 1 + 4⟩,
       ⟨.ruleAction73, p + (x :: xs).length, p + (x :: xs).length, d + 1 + 17 + 1 + 1 + 5⟩,
       ⟨.rulePegText, p, p + (x :: xs).length, d + 1 + 17 + 1 + 1 + 5⟩]), ?_, ?_, ?_⟩
  · simpa using hall
  · simp [spansOf, levelTokens]
  · simp [spansOf, levelTokens]

/-- Rule `ParamLiteral` on a digit string that no fraction follows. -/
theorem Eval_ParamLiteral_digits (d p : Nat) (t : List token32) (ds : List Nat)
    (c : Nat) (r : List Nat) (hds : isDigits ds = true) (hc : isDigit c = false)
    (hf : c ≠ 46) :
    Eval (.call .ruleParamLiteral) d p (ds ++ c :: r) t
      (.ok (p + ds.length) (c :: r)
        (⟨.ruleParamLiteral, p, p + ds.length, d⟩ ::
         ⟨.ruleLiteral, p, p + ds.length, d + 1⟩ ::
         ⟨.ruleNumericLiteral, p, p + ds.length, d + 1 + 1⟩ ::
         ⟨.ruleAction73, p + ds.length, p + ds.length, d + 1 + 1 + 1⟩ ::
         ⟨.rulePegText, p, p + ds.length, d + 1 + 1 + 1⟩ :: t)) := by
  have hL := Eval_Literal_int (d + 1) p t false ds c r hds hc (Or.inl hf)
  obtain ⟨x, xs, rfl, hx, _⟩ := isDigits_head hds
  have hb := (literal_first x (Or.inl hx) (d + 1) p (xs ++ c :: r) t).2.1
  have hL2 : Eval (.call .ruleLiteral) (d + 1) p (x :: (xs ++ c :: r)) t
      (.ok (p + (x :: xs).length) (c :: r)
        (⟨.ruleLiteral, p, p + (x :: xs).length, d + 1⟩ ::
         ⟨.ruleNumericLiteral, p, p + (x :: xs).length, d + 1 + 1⟩ ::
         ⟨.ruleAction73, p + (x :: xs).length, p + (x :: xs).length, d + 1 + 1 + 1⟩ ::
         ⟨.rulePegText, p, p + (x :: xs).length, d + 1 + 1 + 1⟩ :: t)) := by
    simpa [signText] using hL
  exact Eval.call_ok grammar_ParamLiteral (Eval.alt_fail hb hL2)

/-- Rule `ParamArrayExpr` on `[a , b]` for two digit strings: after `a` no `,` stands, so the
loop over the elements ends; the blank, the `,` and the blank are read as what may stand
before the closing `]`, and no `]` follows: the rule returns false. -/
theorem Eval_ParamArrayExpr_blank_comma (d p : Nat) (t : List token32) (a b : List Nat)
    (r : List Nat) (ha : isDigits a = true) (hb : isDigits b = true) :
    Eval (.call .ruleParamArrayExpr) d p (91 :: (a ++ 32 :: 44 :: 32 :: (b ++ 93 :: r))) t
      .fail := by
  have h1 := chr_ok '[' (d + 1 + 1) p (a ++ 32 :: 44 :: 32 :: (b ++ 93 :: r)) t
  have h2 := Eval_spOpt_zero (d + 1 + 1) (p + 1) t (noSpHead_digits ha) 32
    (44 :: 32 :: (b ++ 93 :: r)) (by decide)
  have h3 := Eval_ParamLiteral_digits (d + 1 + 1) (p + 1)
    (⟨.rulespOpt, p + 1, p + 1, d + 1 + 1⟩ :: t) a 32 (44 :: 32 :: (b ++ 93 :: r)) ha
    (by decide) (by decide)
  have h4 : Eval (.star (.seqs [.chr ',', .call .rulespOpt, .call .ruleParamLiteral]))
      (d + 1 + 1) (p + 1 + a.length) (32 :: 44 :: 32 :: (b ++ 93 :: r))
      (⟨.ruleParamLiteral, p + 1, p + 1 + a.length, d + 1 + 1⟩ ::
         ⟨.ruleLiteral, p + 1, p + 1 + a.length, d + 1 + 1 + 1⟩ ::
         ⟨.ruleNumericLiteral, p + 1, p + 1 + a.length, d + 1 + 1 + 1 + 1⟩ ::
         ⟨.ruleAction73, p + 1 + a.length, p + 1 + a.length, d + 1 + 1 + 1 + 1 + 1⟩ ::
         ⟨.rulePegText, p + 1, p + 1 + a.length, d + 1 + 1 + 1 + 1 + 1⟩ ::
         ⟨.rulespOpt, p + 1, p + 1, d + 1 + 1⟩ :: t)
      (.ok (p + 1 + a.length) (32 :: 44 :: 32 :: (b ++ 93 :: r))
        (⟨.ruleParamLiteral, p + 1, p + 1 + a.length, d + 1 + 1⟩ ::
         ⟨.ruleLiteral, p + 1, p + 1 + a.length, d + 1 + 1 + 1⟩ ::
         ⟨.ruleNumericLiteral, p + 1, p + 1 + a.length, d + 1 + 1 + 1 + 1⟩ ::
         ⟨.ruleAction73, p + 1 + a.length, p + 1 + a.length, d + 1 + 1 + 1 + 1 + 1⟩ ::
         ⟨.rulePegText, p + 1, p + 1 + a.length, d + 1 + 1 + 1 + 1 + 1⟩ ::
         ⟨.rulespOpt, p + 1, p + 1, d + 1 + 1⟩ :: t)) :=
    Eval.star_fail (Eval.seq_fail (chr_fail (by decide) _ _ _ _))
  have h5 := Eval_spOpt_blank (d + 1 + 1) (p + 1 + a.length)
      (⟨.ruleParamLiteral, p + 1, p + 1 + a.length, d + 1 + 1⟩ ::
         ⟨.ruleLiteral, p + 1, p + 1 + a.length, d + 1 + 1 + 1⟩ ::
         ⟨.ruleNumericLiteral, p + 1, p + 1 + a.length, d + 1 + 1 + 1 + 1⟩ ::
         ⟨.ruleAction73, p + 1 + a.length, p + 1 + a.length, d + 1 + 1 + 1 + 1 + 1⟩ ::
         ⟨.rulePegText, p + 1, p + 1 + a.length, d + 1 + 1 + 1 + 1 + 1⟩ ::
         ⟨.rulespOpt, p + 1, p + 1, d + 1 + 1⟩ :: t)
      (show noSpHead [44] = true from rfl) 32 (b ++ 93 :: r) (by decide)
  have h6 := Eval.opt_ok (chr_ok ',' (d + 1 + 1) (p + 1 + a.length + 1)
      (32 :: (b ++ 93 :: r))
      (⟨.rulespOpt, p + 1 + a.length, p + 1 + a.length + 1, d + 1 + 1⟩ ::
        ⟨.rulespElem, p + 1 + a.length, p + 1 + a.length + 1, d + 1 + 1 + 1⟩ ::
        ⟨.ruleParamLiteral, p + 1, p + 1 + a.length, d + 1 + 1⟩ ::
         ⟨.ruleLiteral, p + 1, p + 1 + a.length, d + 1 + 1 + 1⟩ ::
         ⟨.ruleNumericLiteral, p + 1, p + 1 + a.length, d + 1 + 1 + 1 + 1⟩ ::
         ⟨.ruleAction73, p + 1 + a.length, p + 1 + a.length, d + 1 + 1 + 1 + 1 + 1⟩ ::
         ⟨.rulePegText, p + 1, p + 1 + a.length, d + 1 + 1 + 1 + 1 + 1⟩ ::
         ⟨.rulespOpt, p + 1, p + 1, d + 1 + 1⟩ :: t))
  have h7 := Eval_spOpt_blank (d + 1 + 1) (p + 1 + a.length + 1 + 1)
      (⟨.rulespOpt, p + 1 + a.length, p + 1 + a.length + 1, d + 1 + 1⟩ ::
        ⟨.rulespElem, p + 1 + a.length, p + 1 + a.length + 1, d + 1 + 1 + 1⟩ ::
        ⟨.ruleParamLiteral, p + 1, p + 1 + a.length, d + 1 + 1⟩ ::
         ⟨.ruleLiteral, p + 1, p + 1 + a.length, d + 1 + 1 + 1⟩ ::
         ⟨.ruleNumericLiteral, p + 1, p + 1 + a.length, d + 1 + 1 + 1 + 1⟩ ::
         ⟨.ruleAction73, p + 1 + a.length, p + 1 + a.length, d + 1 + 1 + 1 + 1 + 1⟩ ::
         ⟨.rulePegText, p + 1, p + 1 + a.length, d + 1 + 1 + 1 + 1 + 1⟩ ::
         ⟨.rulespOpt, p + 1, p + 1, d + 1 + 1⟩ :: t)
      (noSpHead_digits hb) 93 r (by decide)
  obtain ⟨y, ys, rfl, hy, _⟩ := isDigits_head hb
  have hy2 : y ≠ ']'.toNat := by
    have := (isDigit_iff y).mp hy
    intro h; subst h; exact absurd this (by decide)
  refine Eval.token_fail grammar_ParamArrayExpr ?_
  exact Eval.seq_ok h1 (Eval.seq_ok h2 (Eval.seq_ok (Eval.opt_ok (Eval.seq_ok h3 h4))
    (Eval.seq_ok h5 (Eval.seq_ok h6 (Eval.seq_ok h7 (chr_fail hy2 _ _ _ _))))))

/-- Rule `ArrayExpr` on `[a , b]` for two digit strings: the loop over the elements reads the
blank, the `,`, the blank and `b`, and the rule matches the whole text, with two elements. -/
theorem Eval_ArrayExpr_blank_comma (d p : Nat) (t : List token32) (a b : List Nat)
    (r : List Nat) (ha : isDigits a = true) (hb : isDigits b = true) :
    ∃ new, Eval (.call .ruleArrayExpr) d p (91 :: (a ++ 32 :: 44 :: 32 :: (b ++ 93 :: r))) t
        (.ok (p + 1 + a.length + 1 + 1 + 1 + b.length + 1) r (new ++ t)) ∧
      spansOf .ruleNumericLiteral new =
        [(p + 1 + a.length + 1 + 1 + 1, p + 1 + a.length + 1 + 1 + 1 + b.length),
         (p + 1, p + 1 + a.length)] ∧
      spansOf .ruleExpressionOrWildcard new =
        [(p + 1 + a.length + 1 + 1 + 1, p + 1 + a.length + 1 + 1 + 1 + b.length),
         (p + 1, p + 1 + a.length)] := by
  have h1 := chr_ok '[' (d + 1 + 1) p (a ++ 32 :: 44 :: 32 :: (b ++ 93 :: r)) t
  have h2 := Eval_spOpt_zero (d + 1 + 1) (p + 1) t (noSpHead_digits ha) 32
    (44 :: 32 :: (b ++ 93 :: r)) (by decide)
  obtain ⟨n1, h3, hn1, hw1⟩ := Eval_ExpressionOrWildcard_digits (d + 1 + 1) (p + 1)
    (⟨.rulespOpt, p + 1, p + 1, d + 1 + 1⟩ :: t) a 32 (44 :: 32 :: (b ++ 93 :: r)) ha
    (by decide) (by decide) (levelTails_blank_comma _)
  have s1 := Eval_spOpt_blank (d + 1 + 1) (p + 1 + a.length)
    (n1 ++ ⟨.rulespOpt, p + 1, p + 1, d + 1 + 1⟩ :: t)
    (show noSpHead [44] = true from rfl) 32 (b ++ 93 :: r) (by decide)
  have s2 := chr_ok ',' (d + 1 + 1) (p + 1 + a.length + 1) (32 :: (b ++ 93 :: r))
    (⟨.rulespOpt, p + 1 + a.length, p + 1 + a.length + 1, d + 1 + 1⟩ ::
      ⟨.rulespElem, p + 1 + a.length, p + 1 + a.length + 1, d + 1 + 1 + 1⟩ ::
      (n1 ++ ⟨.rulespOpt, p + 1, p + 1, d + 1 + 1⟩ :: t))
  have s3 := Eval_spOpt_blank (d + 1 + 1) (p + 1 + a.length + 1 + 1)
    (⟨.rulespOpt, p + 1 + a.length, p + 1 + a.length + 1, d + 1 + 1⟩ ::
      ⟨.rulespElem, p + 1 + a.length, p + 1 + a.length + 1, d + 1 + 1 + 1⟩ ::
      (n1 ++ ⟨.rulespOpt, p + 1, p + 1, d + 1 + 1⟩ :: t))
    (noSpHead_digits hb) 93 r (by decide)
  obtain ⟨n2, s4, hn2, hw2⟩ := Eval_ExpressionOrWildcard_digits (d + 1 + 1)
    (p + 1 + a.length + 1 + 1 + 1)
    (⟨.rulespOpt, p + 1 + a.length + 1 + 1, p + 1 + a.length + 1 + 1 + 1, d + 1 + 1⟩ ::
      ⟨.rulespElem, p + 1 + a.length + 1 + 1, p + 1 + a.length + 1 + 1 + 1,
        d + 1 + 1 + 1⟩ ::
      ⟨.rulespOpt, p + 1 + a.length, p + 1 + a.length + 1, d + 1 + 1⟩ ::
      ⟨.rulespElem, p + 1 + a.length, p + 1 + a.length + 1, d + 1 + 1 + 1⟩ ::
      (n1 ++ ⟨.rulespOpt, p + 1, p + 1, d + 1 + 1⟩ :: t)) b 93 r hb
    (by decide) (by decide) (levelTails_close r)
  have hd := fun (q : Nat) (u : List token32) =>
    Eval_spOpt_delim (d + 1 + 1) q u 93 r (Or.inr (Or.inl rfl))
  have hcf := fun (q : Nat) (u : List token32) =>
    chr_fail (c := ',') (x := 93) (by decide) (d + 1 + 1) q r u
  have s5 : ∀ (q : Nat) (u : List token32),
      Eval (.star (.seqs [.call .rulespOpt, .chr ',', .call .rulespOpt,
        .call .ruleExpressionOrWildcard])) (d + 1 + 1) q (93 :: r) u (.ok q (93 :: r) u) :=
    fun q u => Eval.star_fail (Eval.seq_ok (hd q u) (Eval.seq_fail (hcf q _)))
  have hstar := Eval.star_ok (Eval.seq_ok s1 (Eval.seq_ok s2 (Eval.seq_ok s3 s4))) (s5 _ _)
  have hall := Eval.token_ok grammar_ArrayExpr grammar_Action67 (d := d)
    (Eval.seq_ok h1 (Eval.seq_ok h2 (Eval.seq_ok (Eval.opt_ok (Eval.seq_ok h3 hstar))
      (Eval.seq_ok (hd _ _) (Eval.seq_ok (Eval.opt_fail (hcf _ _))
        (Eval.seq_ok (hd _ _) (chr_ok ']' _ _ _ _)))))))
  refine ⟨[⟨.ruleArrayExpr, p, p + 1 + a.length + 1 + 1 + 1 + b.length + 1, d⟩,
    ⟨.ruleAction67, p + 1 + a.length + 1 + 1 + 1 + b.length + 1,
      p + 1 + a.length + 1 + 1 + 1 + b.length + 1, d + 1⟩,
    ⟨.rulePegText, p, p + 1 + a.length + 1 + 1 + 1 + b.length + 1, d + 1⟩,
    ⟨.rulespOpt, p + 1 + a.length + 1 + 1 + 1 + b.length,
      p + 1 + a.length + 1 + 1 + 1 + b.length, d + 1 + 1⟩,
    ⟨.rulespOpt, p + 1 + a.length + 1 + 1 + 1 + b.length,
      p + 1 + a.length + 1 + 1 + 1 + b.length, d + 1 + 1⟩] ++
    (n2 ++
    ([⟨.rulespOpt, p + 1 + a.length + 1 + 1, p + 1 + a.length + 1 + 1 + 1, d + 1 + 1⟩,
      ⟨.rulespElem, p + 1 + a.length + 1 + 1, p + 1 + a.length + 1 + 1 + 1,
        d + 1 + 1 + 1⟩,
      ⟨.rulespOpt, p + 1 + a.length, p + 1 + a.length + 1, d + 1 + 1⟩,
      ⟨.rulespElem, p + 1 + a.length, p + 1 + a.length + 1, d + 1 + 1 + 1⟩] ++
      (n1 ++ [⟨.rulespOpt, p + 1, p + 1, d + 1 + 1⟩]))), ?_, ?_, ?_⟩
  · simpa using hall
  · rw [spansOf_append, spansOf_append, spansOf_append, spansOf_append, hn1, hn2]
    rfl
  · rw [spansOf_append, spansOf_append, spansOf_append, spansOf_append, hw1, hw2]
    rfl

/-- Rule `ParamArrayExpr` on `[a, b]` for two digit strings: with the blank after the `,`
the loop over the elements reads `b`, and the rule matches the whole text. -/
theorem Eval_ParamArrayExpr_comma_blank (d p : Nat) (t : List token32) (a b : List Nat)
    (r : List Nat) (ha : isDigits a = true) (hb : isDigits b = true) :
    ∃ new, Eval (.call .ruleParamArrayExpr) d p (91 :: (a ++ 44 :: 32 :: (b ++ 93 :: r))) t
        (.ok (p + 1 + a.length + 1 + 1 + b.length + 1) r (new ++ t)) ∧
      spansOf .ruleNumericLiteral new =
        [(p + 1 + a.length + 1 + 1, p + 1 + a.length + 1 + 1 + b.length),
         (p + 1, p + 1 + a.length)] := by
  have h1 := chr_ok '[' (d + 1 + 1) p (a ++ 44 :: 32 :: (b ++ 93 :: r)) t
  have h2 := Eval_spOpt_zero (d + 1 + 1) (p + 1) t (noSpHead_digits ha) 44
    (32 :: (b ++ 93 :: r)) (by decide)
  have h3 := Eval_ParamLiteral_digits (d + 1 + 1) (p + 1)
    (⟨.rulespOpt, p + 1, p + 1, d + 1 + 1⟩ :: t) a 44 (32 :: (b ++ 93 :: r)) ha
    (by decide) (by decide)
  have s2 := chr_ok ',' (d + 1 + 1) (p + 1 + a.length) (32 :: (b ++ 93 :: r))
    (⟨.ruleParamLiteral, p + 1, p + 1 + a.length, d + 1 + 1⟩ ::
      ⟨.ruleLiteral, p + 1, p + 1 + a.length, d + 1 + 1 + 1⟩ ::
      ⟨.ruleNumericLiteral, p + 1, p + 1 + a.length, d + 1 + 1 + 1 + 1⟩ ::
      ⟨.ruleAction73, p + 1 + a.length, p + 1 + a.length, d + 1 + 1 + 1 + 1 + 1⟩ ::
      ⟨.rulePegText, p + 1, p + 1 + a.length, d + 1 + 1 + 1 + 1 + 1⟩ ::
      ⟨.rulespOpt, p + 1, p + 1, d + 1 + 1⟩ :: t)
  have s3 := Eval_spOpt_blank (d + 1 + 1) (p + 1 + a.length + 1)
    (⟨.ruleParamLiteral, p + 1, p + 1 + a.length, d + 1 + 1⟩ ::
      ⟨.ruleLiteral, p + 1, p + 1 + a.length, d + 1 + 1 + 1⟩ ::
      ⟨.ruleNumericLiteral, p + 1, p + 1 + a.length, d + 1 + 1 + 1 + 1⟩ ::
      ⟨.ruleAction73, p + 1 + a.length, p + 1 + a.length, d + 1 + 1 + 1 + 1 + 1⟩ ::
      ⟨.rulePegText, p + 1, p + 1 + a.length, d + 1 + 1 + 1 + 1 + 1⟩ ::
      ⟨.rulespOpt, p + 1, p + 1, d + 1 + 1⟩ :: t)
    (noSpHead_digits hb) 93 r (by decide)
  have s4 := Eval_ParamLiteral_digits (d + 1 + 1) (p + 1 + a.length + 1 + 1)
    (⟨.rulespOpt, p + 1 + a.length + 1, p + 1 + a.length + 1 + 1, d + 1 + 1⟩ ::
      ⟨.rulespElem, p + 1 + a.length + 1, p + 1 + a.length + 1 + 1, d + 1 + 1 + 1⟩ ::
      ⟨.ruleParamLiteral, p + 1, p + 1 + a.length, d + 1 + 1⟩ ::
      ⟨.ruleLiteral, p + 1, p + 1 + a.length, d + 1 + 1 + 1⟩ ::
      ⟨.ruleNumericLiteral, p + 1, p + 1 + a.length, d + 1 + 1 + 1 + 1⟩ ::
      ⟨.ruleAction73, p + 1 + a.length, p + 1 + a.length, d + 1 + 1 + 1 + 1 + 1⟩ ::
      ⟨.rulePegText, p + 1, p + 1 + a.length, d + 1 + 1 + 1 + 1 + 1⟩ ::
      ⟨.rulespOpt, p + 1, p + 1, d + 1 + 1⟩ :: t) b 93 r hb (by decide) (by decide)
  have hd := fun (q : Nat) (u : List token32) =>
    Eval_spOpt_delim (d + 1 + 1) q u 93 r (Or.inr (Or.inl rfl))
  have hcf := fun (q : Nat) (u : List token32) =>
    chr_fail (c := ',') (x := 93) (by decide) (d + 1 + 1) q r u
  have s5 : ∀ (q : Nat) (u : List token32),
      Eval (.star (.seqs [.chr ',', .call .rulespOpt, .call .ruleParamLiteral]))
        (d + 1 + 1) q (93 :: r) u (.ok q (93 :: r) u) :=
    fun q u => Eval.star_fail (Eval.seq_fail (hcf q u))
  have hstar := Eval.star_ok (Eval.seq_ok s2 (Eval.seq_ok s3 s4)) (s5 _ _)
  have hall := Eval.token_ok grammar_ParamArrayExpr grammar_Action48 (d := d)
    (Eval.seq_ok h1 (Eval.seq_ok h2 (Eval.seq_ok (Eval.opt_ok (Eval.seq_ok h3 hstar))
      (Eval.seq_ok (hd _ _) (Eval.seq_ok (Eval.opt_fail (hcf _ _))
        (Eval.seq_ok (hd _ _) (chr_ok ']' _ _ _ _)))))))
  exact ⟨[⟨.ruleParamArrayExpr, p, p + 1 + a.length + 1 + 1 + b.length + 1, d⟩,
    ⟨.ruleAction48, p + 1 + a.length + 1 + 1 + b.length + 1,
      p + 1 + a.length + 1 + 1 + b.length + 1, d + 1⟩,
    ⟨.rulePegText, p, p + 1 + a.length + 1 + 1 + b.length + 1, d + 1⟩,
    ⟨.rulespOpt, p + 1 + a.length + 1 + 1 + b.length, p + 1 + a.length + 1 + 1 + b.length,
      d + 1 + 1⟩,
    ⟨.rulespOpt, p + 1 + a.length + 1 + 1 + b.length, p + 1 + a.length + 1 + 1 + b.length,
      d + 1 + 1⟩,
    ⟨.ruleParamLiteral, p + 1 + a.length + 1 + 1, p + 1 + a.length + 1 + 1 + b.length,
      d + 1 + 1⟩,
    ⟨.ruleLiteral, p + 1 + a.length + 1 + 1, p + 1 + a.length + 1 + 1 + b.length,
      d + 1 + 1 + 1⟩,
    ⟨.ruleNumericLiteral, p + 1 + a.length + 1 + 1, p + 1 + a.length + 1 + 1 + b.length,
      d + 1 + 1 + 1 + 1⟩,
    ⟨.ruleAction73, p + 1 + a.length + 1 + 1 + b.length,
      p + 1 + a.length + 1 + 1 + b.length, d + 1 + 1 + 1 + 1 + 1⟩,
    ⟨.rulePegText, p + 1 + a.length + 1 + 1, p + 1 + a.length + 1 + 1 + b.length,
      d + 1 + 1 + 1 + 1 + 1⟩,
    ⟨.rulespOpt, p + 1 + a.length + 1, p + 1 + a.length + 1 + 1, d + 1 + 1⟩,
    ⟨.rulespElem, p + 1 + a.length + 1, p + 1 + a.length + 1 + 1, d + 1 + 1 + 1⟩,
    ⟨.ruleParamLiteral, p + 1, p + 1 + a.length, d + 1 + 1⟩,
    ⟨.ruleLiteral, p + 1, p + 1 + a.length, d + 1 + 1 + 1⟩,
    ⟨.ruleNumericLiteral, p + 1, p + 1 + a.length, d + 1 + 1 + 1 + 1⟩,
    ⟨.ruleAction73, p + 1 + a.length, p + 1 + a.length, d + 1 + 1 + 1 + 1 + 1⟩,
    ⟨.rulePegText, p + 1, p + 1 + a.length, d + 1 + 1 + 1 + 1 + 1⟩,
    ⟨.rulespOpt, p + 1, p + 1, d + 1 + 1⟩], hall, rfl⟩



/-! ## The tokens of a successful run are in post-order -/

theorem Forest.le {d lo hi : Nat} {l : List token32} (h : Forest d lo hi l) : lo ≤ hi := by
  induction h with
  | nil h => exact h
  | node _ _ he _ ih1 ih2 => omega

theorem Forest.mono_hi {d lo hi hi' : Nat} {l : List token32} (h : Forest d lo hi l)
    (hh : hi ≤ hi') : Forest d lo hi' l := by
  cases h with
  | nil h => exact .nil (by omega)
  | node h1 h2 he ha => exact .node h1 h2 (by omega) ha

/-- The record of the matches up to `mid` followed by the record of the matches from `mid`
on. -/
theorem Forest.append {d lo mid hi : Nat} {older newer : List token32}
    (h1 : Forest d lo mid older) (h2 : Forest d mid hi newer) :
    Forest d lo hi (newer ++ older) := by
  induction h2 with
  | nil h => exact h1.mono_hi h
  | node _ hk he ha ih1 _ =>
    rw [List.cons_append, List.append_assoc]
    exact .node (ih1 h1) hk he ha

/-- A successful run records, on top of the tokens it found, the post-order record of what
it matched, at its depth, between its entry position and the position it stops at. -/
theorem execF_forest (f : Nat) : ∀ (e : Peg) (d p : Nat) (r : List Nat) (t : List token32)
    (p1 : Nat) (r1 : List Nat) (t1 : List token32),
    execF f e d p r t = .ok p1 r1 t1 → ∃ new, t1 = new ++ t ∧ Forest d p p1 new := by
  induction f with
  | zero => intro e d p r t p1 r1 t1 h; simp [execF] at h
  | succ n ih =>
    intro e d p r t p1 r1 t1 h
    cases e with
    | chr c =>
      rw [execF_chr] at h
      cases r with
      | nil => simp at h
      | cons x xs =>
        simp only [] at h
        split at h
        · simp at h
        · simp only [ResF.ok.injEq] at h
          obtain ⟨rfl, _, rfl⟩ := h
          exact ⟨[], rfl, .nil (by omega)⟩
    | rng lo hi =>
      rw [execF_rng] at h
      cases r with
      | nil => simp at h
      | cons x xs =>
        simp only [] at h
        split at h
        · simp at h
        · simp only [ResF.ok.injEq] at h
          obtain ⟨rfl, _, rfl⟩ := h
          exact ⟨[], rfl, .nil (by omega)⟩
    | dot =>
      rw [execF_dot] at h
      cases r with
      | nil => simp at h
      | cons x xs =>
        simp only [] at h
        split at h
        · simp only [ResF.ok.injEq] at h
          obtain ⟨rfl, _, rfl⟩ := h
          exact ⟨[], rfl, .nil (by omega)⟩
        · simp at h
    | call q =>
      rw [execF_call] at h
      cases hq : grammar q with
      | nil => rw [hq] at h; simp at h
      | action =>
        rw [hq] at h
        simp only [ResF.ok.injEq] at h
        obtain ⟨rfl, _, rfl⟩ := h
        exact ⟨[⟨q, p, p, d⟩], rfl,
          @Forest.node d p p q p p [] [] (.nil (Nat.le_refl _)) (.nil (Nat.le_refl _))
            (Nat.le_refl _) (fun _ => ⟨rfl, rfl⟩)⟩
      | expr body =>
        rw [hq] at h
        simp only [] at h
        cases hx : execF n body (d + 1) p r t with
        | oof => rw [hx] at h; simp at h
        | panic => rw [hx] at h; simp at h
        | fail => rw [hx] at h; simp at h
        | ok p2 r2 t2 =>
          rw [hx] at h
          simp only [ResF.ok.injEq] at h
          obtain ⟨rfl, _, rfl⟩ := h
          obtain ⟨new, rfl, hn⟩ := ih body (d + 1) p r t p2 r2 t2 hx
          refine ⟨⟨q, p, p2, d⟩ :: (new ++ []), by simp, ?_⟩
          exact .node (.nil (Nat.le_refl _)) hn (Nat.le_refl _)
            (fun ha => by rw [hq] at ha; cases ha)
    | seq a b =>
      rw [execF_seq] at h
      cases hx : execF n a d p r t with
      | oof => rw [hx] at h; simp at h
      | panic => rw [hx] at h; simp at h
      | fail => rw [hx] at h; simp at h
      | ok p2 r2 t2 =>
        rw [hx] at h
        simp only [] at h
        obtain ⟨na, rfl, ha⟩ := ih a d p r t p2 r2 t2 hx
        obtain ⟨nb, rfl, hb⟩ := ih b d p2 r2 _ p1 r1 t1 h
        exact ⟨nb ++ na, by simp, ha.append hb⟩
    | alt a b =>
      rw [execF_alt] at h
      cases hx : execF n a d p r t with
      | oof => rw [hx] at h; simp at h
      | panic => rw [hx] at h; simp at h
      | fail =>
        rw [hx] at h
        exact ih b d p r t p1 r1 t1 h
      | ok p2 r2 t2 =>
        rw [hx] at h
        simp only [ResF.ok.injEq] at h
        obtain ⟨rfl, rfl, rfl⟩ := h
        exact ih a d p r t _ _ _ hx
    | opt a =>
      rw [execF_opt] at h
      cases hx : execF n a d p r t with
      | oof => rw [hx] at h; simp at h
      | panic => rw [hx] at h; simp at h
      | fail =>
        rw [hx] at h
        simp only [ResF.ok.injEq] at h
        obtain ⟨rfl, _, rfl⟩ := h
        exact ⟨[], rfl, .nil (Nat.le_refl _)⟩
      | ok p2 r2 t2 =>
        rw [hx] at h
        simp only [ResF.ok.injEq] at h
        obtain ⟨rfl, rfl, rfl⟩ := h
        exact ih a d p r t _ _ _ hx
    | star a =>
      rw [execF_star] at h
      cases hx : execF n a d p r t with
      | oof => rw [hx] at h; simp at h
      | panic => rw [hx] at h; simp at h
      | fail =>
        rw [hx] at h
        simp only [ResF.ok.injEq] at h
        obtain ⟨rfl, _, rfl⟩ := h
        exact ⟨[], rfl, .nil (Nat.le_refl _)⟩
      | ok p2 r2 t2 =>
        rw [hx] at h
        simp only [] at h
        obtain ⟨na, rfl, ha⟩ := ih a d p r t p2 r2 t2 hx
        obtain ⟨nb, rfl, hb⟩ := ih (.star a) d p2 r2 _ p1 r1 t1 h
        exact ⟨nb ++ na, by simp, ha.append hb⟩
    | nt a =>
      rw [execF_nt] at h
      cases hx : execF n a d p r t with
      | oof => rw [hx] at h; simp at h
      | panic => rw [hx] at h; simp at h
      | fail =>
        rw [hx] at h
        simp only [ResF.ok.injEq] at h
        obtain ⟨rfl, _, rfl⟩ := h
        exact ⟨[], rfl, .nil (Nat.le_refl _)⟩
      | ok p2 r2 t2 => rw [hx] at h; simp at h
    | text a =>
      rw [execF_text] at h
      cases hx : execF n a (d + 1) p r t with
      | oof => rw [hx] at h; simp at h
      | panic => rw [hx] at h; simp at h
      | fail => rw [hx] at h; simp at h
      | ok p2 r2 t2 =>
        rw [hx] at h
        simp only [ResF.ok.injEq] at h
        obtain ⟨rfl, _, rfl⟩ := h
        obtain ⟨new, rfl, hn⟩ := ih a (d + 1) p r t p2 r2 t2 hx
        refine ⟨⟨.rulePegText, p, p2, d⟩ :: (new ++ []), by simp, ?_⟩
        exact .node (.nil (Nat.le_refl _)) hn (Nat.le_refl _) (fun ha => by cases ha)

/-- Every token of such a record lies between the bounds, at the depth of the record or
deeper. -/
theorem Forest.bounds {d lo hi : Nat} {l : List token32} (h : Forest d lo hi l) :
    ∀ tok ∈ l, lo ≤ tok.begin_ ∧ tok.begin_ ≤ tok.end_ ∧ tok.end_ ≤ hi ∧ d ≤ tok.next := by
  induction h with
  | nil _ => intro tok ht; cases ht
  | @node d lo hi q b e kids older h1 h2 he _ ih1 ih2 =>
    intro tok ht
    have hle1 := h1.le
    have hle2 := h2.le
    rcases List.mem_cons.mp ht with rfl | ht
    · exact ⟨hle1, hle2, he, Nat.le_refl _⟩
    · rcases List.mem_append.mp ht with ht | ht
      · have := ih2 tok ht
        exact ⟨by omega, this.2.1, by omega, by omega⟩
      · have := ih1 tok ht
        exact ⟨this.1, this.2.1, by omega, this.2.2.2⟩

/-- The token of an action spans the empty text. -/
theorem Forest.action {d lo hi : Nat} {l : List token32} (h : Forest d lo hi l) :
    ∀ tok ∈ l, grammar tok.rule = .action → tok.begin_ = tok.end_ := by
  induction h with
  | nil _ => intro tok ht; cases ht
  | node h1 h2 he ha ih1 ih2 =>
    intro tok ht hact
    rcases List.mem_cons.mp ht with rfl | ht
    · exact (ha hact).1
    · rcases List.mem_append.mp ht with ht | ht
      · exact ih2 tok ht hact
      · exact ih1 tok ht hact

/-- The head of such a record has the depth of the record. -/
theorem Forest.head_depth {d lo hi : Nat} {l : List token32} (h : Forest d lo hi l) :
    ∀ x, l.head? = some x → x.next = d := by
  cases h with
  | nil _ => intro x hx; cases hx
  | node _ _ _ _ =>
    intro x hx
    simp only [List.head?_cons, Option.some.injEq] at hx
    rw [← hx]

/-- Every token of such a record stands directly after the record of its children (before
it in the tree), and what stands before that is not deeper than the token. -/
theorem Forest.subtree {d lo hi : Nat} {l : List token32} (h : Forest d lo hi l) :
    ∀ (newer : List token32) (tok : token32) (rest : List token32),
      l = newer ++ tok :: rest →
      ∃ kids older, rest = kids ++ older ∧ Forest (tok.next + 1) tok.begin_ tok.end_ kids ∧
        ∀ x, older.head? = some x → x.next ≤ tok.next := by
  induction h with
  | nil _ =>
    intro newer tok rest hl
    cases newer <;> cases hl
  | @node d lo hi q b e kids older h1 h2 he _ ih1 ih2 =>
    intro newer tok rest hl
    cases newer with
    | nil =>
      simp only [List.nil_append, List.cons.injEq] at hl
      obtain ⟨rfl, rfl⟩ := hl
      exact ⟨kids, older, rfl, h2, fun x hx => Nat.le_of_eq (h1.head_depth x hx)⟩
    | cons y newer' =>
      simp only [List.cons_append, List.cons.injEq] at hl
      obtain ⟨_, hl⟩ := hl
      rcases List.append_eq_append_iff.mp hl with ⟨a', ha1, ha2⟩ | ⟨c', hc1, hc2⟩
      · -- `newer' = kids ++ a'`, `older = a' ++ tok :: rest`
        exact ih1 a' tok rest ha2
      · -- `kids = newer' ++ c'`, `tok :: rest = c' ++ older`
        cases c' with
        | nil =>
          simp only [List.nil_append] at hc2
          exact ih1 [] tok rest (by rw [List.nil_append]; exact hc2.symm)
        | cons z c'' =>
          simp only [List.cons_append, List.cons.injEq] at hc2
          obtain ⟨rfl, rfl⟩ := hc2
          obtain ⟨k2, o2, hk, hf, ho⟩ := ih2 newer' tok c'' hc1
          refine ⟨k2, o2 ++ older, by rw [hk, List.append_assoc], hf, ?_⟩
          intro x hx
          cases o2 with
          | nil =>
            simp only [List.nil_append] at hx
            have h3 := h1.head_depth x hx
            have h4 := (h2.bounds tok (by rw [hc1]; simp)).2.2.2
            omega
          | cons w o2' =>
            exact ho x (by simpa using hx)



/-! ## `Execute` on a well-formed tree -/

set_option maxHeartbeats 4000000 in
/-- The `case` of a token issues its calls when the slice `buffer[begin:end]` is in range. -/
theorem executeAction_in_range (X : List Nat) (b e : Nat) (q : pegRule) (s : List Nat)
    (hs : slice X b e = some s) : ∃ cs, executeAction X b e q = some cs := by
  cases q <;> first
    | exact ⟨_, rfl⟩
    | exact ⟨_, by show (slice X b e).map _ = _; rw [hs]; rfl⟩

/-- The loop of `Execute` runs to its end on tokens whose spans are in range. -/
theorem executeLoop_in_range (X B : List Nat) (hB : X.length ≤ B.length) :
    ∀ (l : List token32) (b e : Nat), b ≤ e → e ≤ X.length →
      (∀ tok ∈ l, tok.begin_ ≤ tok.end_ ∧ tok.end_ ≤ X.length) →
      ∃ cs, executeLoop X B l b e = some cs := by
  intro l
  induction l with
  | nil => intro b e _ _ _; exact ⟨[], rfl⟩
  | cons tok rest ih =>
    intro b e hbe he hl
    have hrest : ∀ x ∈ rest, x.begin_ ≤ x.end_ ∧ x.end_ ≤ X.length :=
      fun x hx => hl x (List.mem_cons_of_mem _ hx)
    have htok := hl tok (List.mem_cons_self _ _)
    by_cases hp : tok.rule = .rulePegText
    · obtain ⟨q, b0, e0, d0⟩ := tok
      simp only at hp htok
      subst hp
      rw [executeLoop_text_ok X B b0 e0 d0 rest b e htok.1 (by omega)]
      exact ih b0 e0 htok.1 htok.2 hrest
    · obtain ⟨q, b0, e0, d0⟩ := tok
      simp only at hp
      have hsl : slice X b e = some ((X.drop b).take (e - b)) := by
        unfold slice
        rw [if_pos ⟨hbe, he⟩]
      obtain ⟨cs, hcs⟩ := executeAction_in_range X b e q _ hsl
      obtain ⟨ds, hds⟩ := ih b e hbe he hrest
      rw [executeLoop_step X B q b0 e0 d0 rest b e cs hp hcs, hds]
      exact ⟨cs ++ ds, rfl⟩

/-- The functional state that a parser state stands for. -/
theorem Rel.of_state (buffer : List Nat) (s : State) (hs : s.tokenIndex ≤ s.tree.length) :
    Rel buffer s s.depth s.position (buffer.drop s.position)
      (s.tree.take s.tokenIndex).reverse := by
  refine ⟨rfl, rfl, rfl, ?_, ?_⟩
  · simp [Nat.min_eq_left hs]
  · simp [Nat.min_eq_left hs]



/-! ## `translatePositions` on positions that are not negative -/

theorem skipEqual_eq (i : Int) : ∀ (l : List Int) (j : Nat),
    skipEqual i l j = j + (l.takeWhile (fun x => x == i)).length := by
  intro l
  induction l with
  | nil => intro j; rfl
  | cons pj rest ih =>
    intro j
    unfold skipEqual
    by_cases h : i = pj
    · subst h
      simp only [ne_eq, not_true_eq_false, if_false, ih, List.takeWhile_cons, beq_self_eq_true,
        if_true, List.length_cons]
      omega
    · have h2 : (pj == i) = false := by
        simp only [beq_eq_false_iff_ne, ne_eq]
        exact fun hc => h hc.symm
      simp only [ne_eq, h, not_false_eq_true, if_true, List.takeWhile_cons, h2,
        Bool.false_eq_true, if_false, List.length_nil, Nat.add_zero]

theorem lineSpec_prefix (pre : List Nat) (c : Nat) (rest : List Nat) :
    lineSpec (pre ++ c :: rest) pre.length =
      if c = '\n'.toNat then 1 + (pre.filter (fun c => c == '\n'.toNat)).length + 1
      else 1 + (pre.filter (fun c => c == '\n'.toNat)).length := by
  unfold lineSpec
  have : (pre ++ c :: rest).take (pre.length + 1) = pre ++ [c] := by
    rw [List.take_append_eq_append_take]
    simp
  rw [this, List.filter_append]
  simp only [show '\n'.toNat = 10 from rfl]
  by_cases h : c = 10
  · simp [h]; omega
  · simp [h]

theorem symbolSpec_prefix (pre : List Nat) (c : Nat) (rest : List Nat) :
    symbolSpec (pre ++ c :: rest) pre.length =
      if c = '\n'.toNat then 0
      else (pre.reverse.takeWhile (fun c => c != '\n'.toNat)).length + 1 := by
  unfold symbolSpec
  have : (pre ++ c :: rest).take (pre.length + 1) = pre ++ [c] := by
    rw [List.take_append_eq_append_take]
    simp
  rw [this, List.reverse_append]
  simp only [show '\n'.toNat = 10 from rfl]
  by_cases h : c = 10
  · simp [h]
  · simp [h]

/-- The loop of `translatePositions`, entered at rune `|pre|` with the positions `done`
below it entered in the map and the positions `q` from it on still to come: it returns,
and the map holds the line and symbol of exactly the positions inside the buffer. -/
theorem translateLoop_spec (ps : List Int) (hs : ps.Pairwise (fun a b => a ≤ b))
    (buffer : List Nat) :
    ∀ (rest pre : List Nat) (done q : List Int) (tr : textPositionMap),
      buffer = pre ++ rest → ps = done ++ q → q ≠ [] →
      (∀ x ∈ done, x < (pre.length : Int)) → (∀ x ∈ q, (pre.length : Int) ≤ x) →
      (∀ p : Int, tr.lookup p =
        if p ∈ done then some ⟨lineSpec buffer p.toNat, symbolSpec buffer p.toNat⟩
        else none) →
      ∃ m, translateLoop ps rest pre.length done.length
          (1 + (pre.filter (fun c => c == '\n'.toNat)).length)
          (pre.reverse.takeWhile (fun c => c != '\n'.toNat)).length tr = some m ∧
        ∀ p : Int, m.lookup p =
          if p ∈ ps ∧ p < (buffer.length : Int) then
            some ⟨lineSpec buffer p.toNat, symbolSpec buffer p.toNat⟩
          else none := by
  intro rest
  induction rest with
  | nil =>
    intro pre done q tr hb hp hq hd hge htr
    refine ⟨tr, rfl, ?_⟩
    intro p
    rw [htr p]
    have hbl : buffer.length = pre.length := by rw [hb]; simp
    by_cases hpd : p ∈ done
    · have h1 : p ∈ ps := by rw [hp]; exact List.mem_append_left _ hpd
      have h2 := hd p hpd
      rw [if_pos hpd, if_pos ⟨h1, by rw [hbl]; exact h2⟩]
    · rw [if_neg hpd, if_neg]
      rintro ⟨h1, h2⟩
      rw [hp] at h1
      rcases List.mem_append.mp h1 with h | h
      · exact hpd h
      · have := hge p h
        rw [hbl] at h2
        omega
  | cons c rest' ih =>
    intro pre done q tr hb hp hq hd hge htr
    obtain ⟨pj, q', rfl⟩ := List.exists_cons_of_ne_nil hq
    have hget : ps[done.length]? = some pj := by
      rw [hp, List.getElem?_append_right (Nat.le_refl _)]
      simp
    have hsq : (pj :: q').Pairwise (fun a b => a ≤ b) := by
      rw [hp] at hs
      exact (List.pairwise_append.mp hs).2.1
    have hpjle : ∀ x ∈ q', pj ≤ x := (List.pairwise_cons.mp hsq).1
    have hb' : buffer = (pre ++ [c]) ++ rest' := by rw [hb]; simp
    have hL := lineSpec_prefix pre c rest'
    have hS := symbolSpec_prefix pre c rest'
    rw [← hb] at hL hS
    have hlen' : (pre ++ [c]).length = pre.length + 1 := by simp
    have hfil : (1 + ((pre ++ [c]).filter (fun c => c == '\n'.toNat)).length) =
        lineSpec buffer pre.length := by
      rw [hL, List.filter_append]
      simp only [show '\n'.toNat = 10 from rfl]
      by_cases h : c = 10
      · simp [h]; omega
      · simp [h]
    have hsym : ((pre ++ [c]).reverse.takeWhile (fun c => c != '\n'.toNat)).length =
        symbolSpec buffer pre.length := by
      rw [hS, List.reverse_append]
      simp only [show '\n'.toNat = 10 from rfl]
      by_cases h : c = 10
      · simp [h]
      · simp [h]
    have hline1 : (if c = '\n'.toNat then
          1 + (pre.filter (fun c => c == '\n'.toNat)).length + 1
        else 1 + (pre.filter (fun c => c == '\n'.toNat)).length) =
        1 + ((pre ++ [c]).filter (fun c => c == '\n'.toNat)).length := by
      rw [hfil, hL]
    have hsym1 : (if c = '\n'.toNat then 0
        else (pre.reverse.takeWhile (fun c => c != '\n'.toNat)).length + 1) =
        ((pre ++ [c]).reverse.takeWhile (fun c => c != '\n'.toNat)).length := by
      rw [hsym, hS]
    unfold translateLoop
    simp only [hget, hline1, hsym1]
    by_cases hi : (pre.length : Int) = pj
    · rw [if_pos hi]
      have hdrop : ps.drop (done.length + 1) = q' := by
        rw [hp, List.drop_append_eq_append_drop]
        simp
      rw [hdrop, skipEqual_eq]
      have hsplit : q' = q'.takeWhile (fun x => x == (pre.length : Int)) ++
          q'.dropWhile (fun x => x == (pre.length : Int)) :=
        (List.takeWhile_append_dropWhile _ _).symm
      have heqs : ∀ x ∈ q'.takeWhile (fun x => x == (pre.length : Int)),
          x = (pre.length : Int) := by
        intro x hx
        have := List.mem_takeWhile_imp hx
        simpa using this
      have hpsl : ps.length = done.length + 1 +
          (q'.takeWhile (fun x => x == (pre.length : Int))).length +
          (q'.dropWhile (fun x => x == (pre.length : Int))).length := by
        rw [hp]
        simp only [List.length_append, List.length_cons]
        have := congrArg List.length hsplit
        rw [List.length_append] at this
        omega
      have hps' : ps = (done ++ pj :: q'.takeWhile (fun x => x == (pre.length : Int))) ++
          q'.dropWhile (fun x => x == (pre.length : Int)) := by
        rw [hp]
        simp only [List.append_assoc, List.cons_append]
        rw [← hsplit]
      have hdone' : ∀ x ∈ done ++ pj :: q'.takeWhile (fun x => x == (pre.length : Int)),
          x < ((pre ++ [c]).length : Int) := by
        intro x hx
        rw [hlen']
        rcases List.mem_append.mp hx with h | h
        · have := hd x h; omega
        · rcases List.mem_cons.mp h with h | h
          · omega
          · have := heqs x h; omega
      have htr' : ∀ p : Int,
          List.lookup p ((pj, (⟨1 + ((pre ++ [c]).filter (fun c => c == '\n'.toNat)).length,
            ((pre ++ [c]).reverse.takeWhile (fun c => c != '\n'.toNat)).length⟩ :
              textPosition)) :: tr) =
          if p ∈ done ++ pj :: q'.takeWhile (fun x => x == (pre.length : Int)) then
            some ⟨lineSpec buffer p.toNat, symbolSpec buffer p.toNat⟩
          else none := by
        intro p
        rw [List.lookup_cons]
        by_cases hpp : p = pj
        · subst hpp
          have hmem : p ∈ done ++ p :: q'.takeWhile (fun x => x == (pre.length : Int)) :=
            List.mem_append_right _ (List.mem_cons_self _ _)
          rw [if_pos hmem]
          have htn : p.toNat = pre.length := by omega
          simp only [beq_self_eq_true, htn, hfil, hsym]
        · have hb2 : (p == pj) = false := by simpa using hpp
          simp only [hb2]
          rw [htr p]
          by_cases hpd : p ∈ done
          · rw [if_pos hpd, if_pos (List.mem_append_left _ hpd)]
          · rw [if_neg hpd, if_neg]
            intro hx
            rcases List.mem_append.mp hx with h | h
            · exact hpd h
            · rcases List.mem_cons.mp h with h | h
              · exact hpp h
              · have := heqs p h
                exact hpp (by omega)
      by_cases hq'' : q'.dropWhile (fun x => x == (pre.length : Int)) = []
      · have hj1 : ¬ (done.length + 1 +
            (q'.takeWhile (fun x => x == (pre.length : Int))).length < ps.length) := by
          rw [hpsl, hq'']; simp
        rw [if_neg hj1]
        refine ⟨_, rfl, ?_⟩
        intro p
        rw [htr' p]
        rw [hq'', List.append_nil] at hps'
        have hbl : buffer.length = pre.length + 1 + rest'.length := by
          rw [hb']; simp; omega
        by_cases hpd : p ∈ done ++ pj :: q'.takeWhile (fun x => x == (pre.length : Int))
        · have := hdone' p hpd
          rw [hlen'] at this
          rw [if_pos hpd, if_pos ⟨by rw [hps']; exact hpd, by rw [hbl]; push_cast; omega⟩]
        · rw [if_neg hpd, if_neg]
          rintro ⟨h1, _⟩
          rw [hps'] at h1
          exact hpd h1
      · have hj1 : done.length + 1 +
            (q'.takeWhile (fun x => x == (pre.length : Int))).length < ps.length := by
          rw [hpsl]
          have := List.length_pos.mpr hq''
          omega
        rw [if_pos hj1]
        have hdl : (done ++ pj :: q'.takeWhile (fun x => x == (pre.length : Int))).length =
            done.length + 1 + (q'.takeWhile (fun x => x == (pre.length : Int))).length := by
          simp only [List.length_append, List.length_cons]; omega
        have hq2 : ∀ x ∈ q'.dropWhile (fun x => x == (pre.length : Int)),
            ((pre ++ [c]).length : Int) ≤ x := by
          obtain ⟨h0, t0, hht⟩ := List.exists_cons_of_ne_nil hq''
          have hh0 : h0 ≠ (pre.length : Int) := by
            have := List.head_dropWhile_not (fun x => x == (pre.length : Int)) q' hq''
            simp only [hht, List.head_cons] at this
            simpa using this
          have hsub : (q'.dropWhile (fun x => x == (pre.length : Int))).Sublist q' :=
            List.dropWhile_sublist _
          have hsq2 : (h0 :: t0).Pairwise (fun a b => a ≤ b) := by
            rw [← hht]
            exact (List.pairwise_cons.mp hsq).2.sublist hsub
          have hh0q : h0 ∈ q' := hsub.subset (by rw [hht]; exact List.mem_cons_self _ _)
          have hh0ge := hpjle h0 hh0q
          intro x hx
          rw [hlen']
          rw [hht] at hx
          rcases List.mem_cons.mp hx with h | h
          · subst h; push_cast; omega
          · have := (List.pairwise_cons.mp hsq2).1 x h
            push_cast; omega
        have := ih (pre ++ [c]) (done ++ pj :: q'.takeWhile (fun x => x == (pre.length : Int)))
          (q'.dropWhile (fun x => x == (pre.length : Int)))
          ((pj, ⟨1 + ((pre ++ [c]).filter (fun c => c == '\n'.toNat)).length,
            ((pre ++ [c]).reverse.takeWhile (fun c => c != '\n'.toNat)).length⟩) :: tr)
          hb' hps' hq'' hdone' hq2 htr'
        rw [hlen', hdl] at this
        exact this
    · rw [if_neg hi]
      have hge' : ∀ x ∈ pj :: q', ((pre ++ [c]).length : Int) ≤ x := by
        intro x hx
        rw [hlen']
        have h0 := hge pj (List.mem_cons_self _ _)
        rcases List.mem_cons.mp hx with h | h
        · subst h; push_cast; omega
        · have := hpjle x h
          push_cast; omega
      have hd' : ∀ x ∈ done, x < ((pre ++ [c]).length : Int) := by
        intro x hx
        rw [hlen']
        have := hd x hx
        push_cast; omega
      have := ih (pre ++ [c]) done (pj :: q') tr hb' hp hq hd' hge' htr
      rw [hlen'] at this
      exact this

/-- The function `translatePositions` on positions none of which is negative: it returns
(unless there is no position at all and the buffer is not empty), and the map holds the line
and the symbol of exactly the requested positions inside the buffer. -/
theorem translatePositions_spec (buffer : List Nat) (positions : List Int)
    (hne : positions ≠ [] ∨ buffer = []) (hpos : ∀ p ∈ positions, 0 ≤ p) :
    ∃ m, translatePositions buffer positions = some m ∧
      ∀ p : Int, m.lookup p =
        if p ∈ positions ∧ p < (buffer.length : Int) then
          some ⟨lineSpec buffer p.toNat, symbolSpec buffer p.toNat⟩
        else none := by
  have hperm := List.perm_insertionSort (fun a b : Int => a ≤ b) positions
  have hsorted : (positions.insertionSort (fun a b => a ≤ b)).Pairwise (fun a b => a ≤ b) :=
    List.sorted_insertionSort (fun a b : Int => a ≤ b) positions
  have hmem : ∀ p, p ∈ positions.insertionSort (fun a b => a ≤ b) ↔ p ∈ positions :=
    fun p => hperm.mem_iff
  by_cases hp : positions = []
  · subst hp
    rcases hne with h | h
    · exact absurd rfl h
    · subst h
      exact ⟨[], rfl, fun p => by simp⟩
  · have hq : positions.insertionSort (fun a b => a ≤ b) ≠ [] := by
      intro hc
      have := hperm.length_eq
      rw [hc] at this
      exact hp (List.length_eq_zero.mp this.symm)
    obtain ⟨m, hm, hl⟩ := translateLoop_spec _ hsorted buffer buffer [] []
      (positions.insertionSort (fun a b => a ≤ b)) [] rfl rfl hq
      (fun x hx => absurd hx (List.not_mem_nil _))
      (fun x hx => by simpa using hpos x ((hmem x).mp hx))
      (fun p => by simp)
    refine ⟨m, hm, ?_⟩
    intro p
    rw [hl p]
    simp only [hmem]



/-! ## Claims C1 to C4: the concrete scenarios -/

/-- C1: parsing `SELECT ISTREAM a, b FROM s [RANGE 5 SECONDS] WHERE a > 3;` from SingleStatement
succeeds and Execute issues exactly these calls: emitter Istream with the empty options span
14..14 (no limit, no sampling); the projections RowValue `a` and RowValue `b`; one stream window
over Stream `s` with numeric literal `5` and unit Seconds; AssembleFilter over the non-empty
span 44..56 after RowValue `a`, Greater, numeric literal `3`; AssembleGrouping and
AssembleHaving over the empty span 56..56; AssembleSelect; and last IncludeTrailingWhitespace
over 0..57, which ends after the `;` (rune 56). -/
theorem C1_select_istream_scenario :
    parseExecute "SELECT ISTREAM a, b FROM s [RANGE 5 SECONDS] WHERE a > 3;" = .calls
    [.PushComponent 7 14 (.const .Istream),
     .span .AssembleEmitterOptions 14 14,
     .simple .AssembleEmitter,
     .PushComponent 15 16 (.text .NewRowValue (runes "a")),
     .span .AssembleTypeCast 15 16,
     .span .AssembleUnaryPrefixOperation 15 16,
     .span .AssembleBinaryOperation 15 16,
     .span .AssembleBinaryOperation 15 16,
     .span .AssembleBinaryOperation 15 16,
     .span .AssembleBinaryOperation 15 16,
     .span .AssembleBinaryOperation 15 16,
     .span .AssembleUnaryPrefixOperation 15 16,
     .span .AssembleBinaryOperation 15 16,
     .span .AssembleBinaryOperation 15 16,
     .PushComponent 18 19 (.text .NewRowValue (runes "b")),
     .span .AssembleTypeCast 18 19,
     .span .AssembleUnaryPrefixOperation 18 19,
     .span .AssembleBinaryOperation 18 19,
     .span .AssembleBinaryOperation 18 19,
     .span .AssembleBinaryOperation 18 19,
     .span .AssembleBinaryOperation 18 19,
     .span .AssembleBinaryOperation 18 19,
     .span .AssembleUnaryPrefixOperation 18 19,
     .span .AssembleBinaryOperation 18 19,
     .span .AssembleBinaryOperation 18 19,
     .span .AssembleProjections 14 19,
     .PushComponent 25 26 (.text .NewStream (runes "s")),
     .PushComponent 34 35 (.text .NewNumericLiteral (runes "5")),
     .PushComponent 36 43 (.const .Seconds),
     .simple .AssembleInterval,
     .simple .AssembleStreamWindow,
     .simple .EnsureAliasedStreamWindow,
     .span .AssembleWindowedFrom 19 44,
     .PushComponent 51 52 (.text .NewRowValue (runes "a")),
     .span .AssembleTypeCast 51 52,
     .span .AssembleUnaryPrefixOperation 51 52,
     .span .AssembleBinaryOperation 51 52,
     .span .AssembleBinaryOperation 51 52,
     .span .AssembleBinaryOperation 51 52,
     .span .AssembleBinaryOperation 51 52,
     .PushComponent 53 54 (.const .Greater),
     .PushComponent 55 56 (.text .NewNumericLiteral (runes "3")),
     .span .AssembleTypeCast 55 56,
     .span .AssembleUnaryPrefixOperation 55 56,
     .span .AssembleBinaryOperation 55 56,
     .span .AssembleBinaryOperation 55 56,
     .span .AssembleBinaryOperation 55 56,
     .span .AssembleBinaryOperation 55 56,
     .span .AssembleBinaryOperation 51 56,
     .span .AssembleUnaryPrefixOperation 51 56,
     .span .AssembleBinaryOperation 51 56,
     .span .AssembleBinaryOperation 51 56,
     .span .AssembleFilter 44 56,
     .span .AssembleGrouping 56 56,
     .span .AssembleHaving 56 56,
     .simple .AssembleSelect,
     .span .IncludeTrailingWhitespace 0 57] :=
  parseExecute_calls 104 (by decide) (by decide!)

/-- C2, counterexample: the input of the claim, with blanks around `=` in the WITH parameters, is a
parse error: rule SourceSinkParam is `SourceSinkParamKey '=' SourceSinkParamVal` and admits no
whitespace around `=`. -/
theorem C2_create_source_with_blanks_rejected :
    parseExecute "CREATE PAUSED SOURCE src TYPE http WITH url = 'http://x', retry = 3;" = .parseError :=
  parseExecute_parseError 53 (by decide) (by decide!)

/-- C2, amended: parsing `CREATE PAUSED SOURCE src TYPE http WITH url='http://x', retry=3;` (no
blanks around `=`) from SingleStatement succeeds and Execute issues exactly: PushComponent(Yes)
for PAUSED, StreamIdentifier `src`, SourceSinkType `http`, two AssembleSourceSinkParam calls
(key `url` with string literal `'http://x'`, key `retry` with numeric literal `3`),
AssembleSourceSinkSpecs over the non-empty span 34..63, AssembleCreateSource, and
IncludeTrailingWhitespace. -/
theorem C2_create_source_scenario :
    parseExecute "CREATE PAUSED SOURCE src TYPE http WITH url='http://x', retry=3;" = .calls
    [.PushComponent 7 13 (.const .Yes),
     .span .EnsureKeywordPresent 6 13,
     .PushComponent 21 24 (.text .StreamIdentifier (runes "src")),
     .PushComponent 30 34 (.text .SourceSinkType (runes "http")),
     .PushComponent 40 43 (.text .SourceSinkParamKey (runes "url")),
     .PushComponent 44 54 (.text .NewStringLiteral (runes "'http://x'")),
     .simple .AssembleSourceSinkParam,
     .PushComponent 56 61 (.text .SourceSinkParamKey (runes "retry")),
     .PushComponent 62 63 (.text .NewNumericLiteral (runes "3")),
     .simple .AssembleSourceSinkParam,
     .span .AssembleSourceSinkSpecs 34 63,
     .simple .AssembleCreateSource,
     .span .IncludeTrailingWhitespace 0 64] :=
  parseExecute_calls 68 (by decide) (by decide!)

/-- C3: parsing `EVAL a + b ON {'a':1,'b':2};` from SingleStatement succeeds and Execute pushes
RowValue `a`, Plus and RowValue `b`, assembles a map from exactly two key/value pairs (string
literal `'a'` with numeric literal `1`, string literal `'b'` with numeric literal `2`) and calls
AssembleEval with the non-empty span 10..27 of the ` ON {...}` clause. -/
theorem C3_eval_on_map_scenario :
    parseExecute "EVAL a + b ON \x7b'a':1,'b':2\x7d;" = .calls
    [.PushComponent 5 6 (.text .NewRowValue (runes "a")),
     .span .AssembleTypeCast 5 6,
     .span .AssembleUnaryPrefixOperation 5 6,
     .span .AssembleBinaryOperation 5 6,
     .PushComponent 7 8 (.const .Plus),
     .PushComponent 9 10 (.text .NewRowValue (runes "b")),
     .span .AssembleTypeCast 9 10,
     .span .AssembleUnaryPrefixOperation 9 10,
     .span .AssembleBinaryOperation 9 10,
     .span .AssembleBinaryOperation 5 10,
     .span .AssembleBinaryOperation 5 10,
     .span .AssembleBinaryOperation 5 10,
     .span .AssembleBinaryOperation 5 10,
     .span .AssembleUnaryPrefixOperation 5 10,
     .span .AssembleBinaryOperation 5 10,
     .span .AssembleBinaryOperation 5 10,
     .PushComponent 15 18 (.text .NewStringLiteral (runes "'a'")),
     .PushComponent 19 20 (.text .NewNumericLiteral (runes "1")),
     .span .AssembleTypeCast 19 20,
     .span .AssembleUnaryPrefixOperation 19 20,
     .span .AssembleBinaryOperation 19 20,
     .span .AssembleBinaryOperation 19 20,
     .span .AssembleBinaryOperation 19 20,
     .span .AssembleBinaryOperation 19 20,
     .span .AssembleBinaryOperation 19 20,
     .span .AssembleUnaryPrefixOperation 19 20,
     .span .AssembleBinaryOperation 19 20,
     .span .AssembleBinaryOperation 19 20,
     .simple .AssembleKeyValuePair,
     .PushComponent 21 24 (.text .NewStringLiteral (runes "'b'")),
     .PushComponent 25 26 (.text .NewNumericLiteral (runes "2")),
     .span .AssembleTypeCast 25 26,
     .span .AssembleUnaryPrefixOperation 25 26,
     .span .AssembleBinaryOperation 25 26,
     .span .AssembleBinaryOperation 25 26,
     .span .AssembleBinaryOperation 25 26,
     .span .AssembleBinaryOperation 25 26,
     .span .AssembleBinaryOperation 25 26,
     .span .AssembleUnaryPrefixOperation 25 26,
     .span .AssembleBinaryOperation 25 26,
     .span .AssembleBinaryOperation 25 26,
     .simple .AssembleKeyValuePair,
     .span .AssembleMap 14 27,
     .span .AssembleEval 10 27,
     .span .IncludeTrailingWhitespace 0 28] :=
  parseExecute_calls 112 (by decide) (by decide!)

/-- C4: parsing `SELECT RSTREAM count(*) AS c FROM s [RANGE 100 TUPLES] GROUP BY a HAVING c > 10;`
from SingleStatement succeeds and Execute issues: emitter Rstream; one projection, AssembleAlias
with target Identifier `c` of the function application `count` without ORDER BY
(AssembleExpressions, AssembleFuncApp) whose single argument is the wildcard `*`; one stream
window over Stream `s` with numeric literal `100` and unit Tuples; AssembleFilter over the empty
span 54..54; AssembleGrouping over the non-empty span 54..65 with the single key RowValue `a`;
AssembleHaving over the non-empty span 65..79 with RowValue `c`, Greater and numeric literal
`10`; then AssembleSelect. -/
theorem C4_select_rstream_group_having_scenario :
    parseExecute "SELECT RSTREAM count(*) AS c FROM s [RANGE 100 TUPLES] GROUP BY a HAVING c > 10;" = .calls
    [.PushComponent 7 14 (.const .Rstream),
     .span .AssembleEmitterOptions 14 14,
     .simple .AssembleEmitter,
     .PushComponent 15 20 (.text .FuncName (runes "count")),
     .PushComponent 21 22 (.text .NewWildcard (runes "*")),
     .span .AssembleExpressions 21 22,
     .span .AssembleExpressions 22 22,
     .simple .AssembleFuncApp,
     .span .AssembleTypeCast 15 23,
     .span .AssembleUnaryPrefixOperation 15 23,
     .span .AssembleBinaryOperation 15 23,
     .span .AssembleBinaryOperation 15 23,
     .span .AssembleBinaryOperation 15 23,
     .span .AssembleBinaryOperation 15 23,
     .span .AssembleBinaryOperation 15 23,
     .span .AssembleUnaryPrefixOperation 15 23,
     .span .AssembleBinaryOperation 15 23,
     .span .AssembleBinaryOperation 15 23,
     .PushComponent 27 28 (.text .Identifier (runes "c")),
     .simple .AssembleAlias,
     .span .AssembleProjections 14 28,
     .PushComponent 34 35 (.text .NewStream (runes "s")),
     .PushComponent 43 46 (.text .NewNumericLiteral (runes "100")),
     .PushComponent 47 53 (.const .Tuples),
     .simple .AssembleInterval,
     .simple .AssembleStreamWindow,
     .simple .EnsureAliasedStreamWindow,
     .span .AssembleWindowedFrom 28 54,
     .span .AssembleFilter 54 54,
     .PushComponent 64 65 (.text .NewRowValue (runes "a")),
     .span .AssembleTypeCast 64 65,
     .span .AssembleUnaryPrefixOperation 64 65,
     .span .AssembleBinaryOperation 64 65,
     .span .AssembleBinaryOperation 64 65,
     .span .AssembleBinaryOperation 64 65,
     .span .AssembleBinaryOperation 64 65,
     .span .AssembleBinaryOperation 64 65,
     .span .AssembleUnaryPrefixOperation 64 65,
     .span .AssembleBinaryOperation 64 65,
     .span .AssembleBinaryOperation 64 65,
     .span .AssembleGrouping 54 65,
     .PushComponent 73 74 (.text .NewRowValue (runes "c")),
     .span .AssembleTypeCast 73 74,
     .span .AssembleUnaryPrefixOperation 73 74,
     .span .AssembleBinaryOperation 73 74,
     .span .AssembleBinaryOperation 73 74,
     .span .AssembleBinaryOperation 73 74,
     .span .AssembleBinaryOperation 73 74,
     .PushComponent 75 76 (.const .Greater),
     .PushComponent 77 79 (.text .NewNumericLiteral (runes "10")),
     .span .AssembleTypeCast 77 79,
     .span .AssembleUnaryPrefixOperation 77 79,
     .span .AssembleBinaryOperation 77 79,
     .span .AssembleBinaryOperation 77 79,
     .span .AssembleBinaryOperation 77 79,
     .span .AssembleBinaryOperation 77 79,
     .span .AssembleBinaryOperation 73 79,
     .span .AssembleUnaryPrefixOperation 73 79,
     .span .AssembleBinaryOperation 73 79,
     .span .AssembleBinaryOperation 73 79,
     .span .AssembleHaving 65 79,
     .simple .AssembleSelect,
     .span .IncludeTrailingWhitespace 0 80] :=
  parseExecute_calls 109 (by decide) (by decide!)
/-! ## C5: the statement terminator -/

/-- C5: for every input, the rule function of `SingleStatement` called at position 0 returns
true (with the position at the end of the input) when, after the leading whitespace, rule
`Statement` matches a prefix that is followed by optional whitespace and then a `;` or the
end of the input, and returns false otherwise; the text after the `;` plays no part.
`EVAL 1 EVAL 2` is rejected, `EVAL 1; EVAL 2` and `EVAL 1; garbage(` are accepted. -/
theorem C5_single_statement_terminator (Buffer : String) :
    ruleAt Buffer .ruleSingleStatement 0 =
      (if singleStatementSpec Buffer then .matched (runes Buffer).length else .failed) ∧
    ruleAt "EVAL 1 EVAL 2" .ruleSingleStatement 0 = .failed ∧
    ruleAt "EVAL 1; EVAL 2" .ruleSingleStatement 0 = .matched 14 ∧
    ruleAt "EVAL 1; garbage(" .ruleSingleStatement 0 = .matched 16 := by
  refine ⟨?_, ruleAt_of_execF 85 (by decide!) (by decide),
    ruleAt_of_execF 85 (by decide!) (by decide), ruleAt_of_execF 85 (by decide!) (by decide)⟩
  have htext := runes_lt_end Buffer
  have hp0 := spLen_le (runes Buffer) htext
  obtain ⟨res0, h0⟩ : ∃ res0, Eval (.call .ruleStatement) 0 (spLen (runes Buffer))
      ((runes Buffer).drop (spLen (runes Buffer)) ++ [end_symbol]) [] res0 := by
    rcases Eval.total .ruleStatement 0 (spLen (runes Buffer))
      ((runes Buffer).drop (spLen (runes Buffer)) ++ [end_symbol]) [] (Good_text _) rfl with
      h | ⟨p1, r1, t1, h, _⟩
    · exact ⟨_, h⟩
    · exact ⟨_, h⟩
  have hS := Eval_SingleStatement (runes Buffer) htext res0 h0
  have hR : ruleAt Buffer .ruleStatement (spLen (runes Buffer)) = res0.outcome := by
    apply ruleAt_of_eval (d := 0) (t := [])
    rw [Init_runes_drop Buffer hp0]
    exact h0
  have hI : (Init (runes Buffer)).drop 0 = runes Buffer ++ [end_symbol] := by
    rw [List.drop_zero, Init_runes]
  unfold singleStatementSpec
  rw [hR]
  cases res0 with
  | oof => exact absurd hS id
  | panic => exact absurd hS id
  | fail =>
    have hS2 : Eval (.call .ruleSingleStatement) 0 0 ((Init (runes Buffer)).drop 0) []
        .fail := by
      rw [hI]; exact hS
    rw [ruleAt_of_eval hS2]
    simp [ResF.outcome]
  | ok q r1 toks0 =>
    obtain ⟨_, _, hS⟩ := hS
    rw [List.drop_drop] at hS
    simp only [ResF.outcome]
    have key : ∀ l : List Nat,
        (match l with
          | [] => ∃ toks, Eval (.call .ruleSingleStatement) 0 0 (runes Buffer ++ [end_symbol]) []
              (.ok (runes Buffer).length [end_symbol]
                (⟨.ruleSingleStatement, 0, (runes Buffer).length, 0⟩ :: toks))
          | c :: _ =>
            if c = ';'.toNat then
              ∃ toks, Eval (.call .ruleSingleStatement) 0 0 (runes Buffer ++ [end_symbol]) []
                (.ok (runes Buffer).length [end_symbol]
                  (⟨.ruleSingleStatement, 0, (runes Buffer).length, 0⟩ :: toks))
            else Eval (.call .ruleSingleStatement) 0 0 (runes Buffer ++ [end_symbol]) [] .fail) →
        ruleAt Buffer .ruleSingleStatement 0 =
          if (l.head? == some ';'.toNat || l.isEmpty) = true then
            .matched (runes Buffer).length
          else .failed := by
      intro l hS
      cases l with
      | nil =>
        obtain ⟨toks, hS⟩ := hS
        rw [← hI] at hS
        rw [ruleAt_of_eval hS]
        simp [ResF.outcome]
      | cons c rest =>
        by_cases hc : c = ';'.toNat
        · simp only [hc, if_true] at hS
          obtain ⟨toks, hS⟩ := hS
          rw [← hI] at hS
          rw [ruleAt_of_eval hS]
          simp [ResF.outcome, hc]
        · simp only [hc, if_false] at hS
          rw [← hI] at hS
          rw [ruleAt_of_eval hS]
          simp [ResF.outcome, show ¬ c = 59 from hc]
    exact key _ hS

/-! ## C6: what `Parse` returns -/

/-- C6: `Parse()` returns nil or a parse error on every input (it neither panics nor runs
on); it returns nil exactly when the rule function of `SingleStatement` returns true at
position 0, which it does with the position at the end of the input, and a parse error
exactly when that function returns false.  When it returns nil, the tree is the list of the
tokens of the successful match, oldest first, as the run without the array records them (a
failed alternative hands back no token there), and the last token is
`(SingleStatement, 0, n, 0)` with `n` the number of runes of the input. -/
theorem C6_parse_nil_iff_single_statement (Buffer : String) :
    match Parse Buffer with
    | .nil tree =>
      ruleAt Buffer .ruleSingleStatement 0 = .matched (runes Buffer).length ∧
      (∃ toks, Eval (.call .ruleSingleStatement) 0 0 (Init (runes Buffer)) []
          (.ok (runes Buffer).length [end_symbol] toks) ∧ tree = toks.reverse) ∧
      tree.getLast? = some ⟨.ruleSingleStatement, 0, (runes Buffer).length, 0⟩
    | .parseError _ => ruleAt Buffer .ruleSingleStatement 0 = .failed
    | _ => False := by
  have hP := parseRule_of_execF (parseFuel (runes Buffer).length) (runes Buffer)
    .ruleSingleStatement
  have hne := parseFuel_enough (runes Buffer).length .ruleSingleStatement 0 0
    (Init (runes Buffer)) [] (Init_length_le _)
  have hE : Eval (.call .ruleSingleStatement) 0 0 (Init (runes Buffer)) []
      (execF (parseFuel (runes Buffer).length) (.call .ruleSingleStatement) 0 0
        (Init (runes Buffer)) []) := ⟨_, rfl, hne⟩
  have hD : (Init (runes Buffer)).drop 0 = Init (runes Buffer) := rfl
  unfold Parse
  rcases Eval_SingleStatement_cases (runes Buffer) (runes_lt_end Buffer) with h | ⟨toks, h⟩
  · rw [← Init_runes] at h
    rw [hE.det h] at hP
    obtain ⟨tree, hP⟩ := hP
    rw [hP]
    rw [← hD] at h
    exact ruleAt_of_eval h
  · rw [← Init_runes] at h
    rw [hE.det h] at hP
    simp only [] at hP
    rw [hP]
    refine ⟨?_, ⟨_, h, rfl⟩, by simp⟩
    rw [← hD] at h
    exact ruleAt_of_eval h

/-! ## C7: the optional clauses of a SELECT -/

/-- C7: on the input `Buffer` left at a position `p` (at any depth `d`, after any tokens `t`),
each of the optional-clause rules `WindowedFrom`, `Filter`, `Grouping` and `Having` returns
true; it records the tokens of its clause, none of them an action token of a clause slot, then
`rulePegText`, its action token (`Action34`, `Action37`, `Action38`, `Action39`) and its own
token; the `rulePegText` token has `begin = end` exactly when the optional group of the rule
does not match at `p`.  Rule `SelectStmt` returns false, or returns true with new tokens among
which the action tokens of the clause slots and of the SELECT are `Action34`, `Action37`,
`Action38`, `Action39`, `Action2`, in this order, so that `Execute` on these tokens issues
`AssembleWindowedFrom`, `AssembleFilter`, `AssembleGrouping`, `AssembleHaving` and
`AssembleSelect` once each, in this order. -/
theorem C7_optional_clauses (Buffer : String) (d p : Nat) (t : List token32) :
    (∀ RA ∈ [(pegRule.ruleWindowedFrom, pegRule.ruleAction34),
        (pegRule.ruleFilter, pegRule.ruleAction37), (pegRule.ruleGrouping, pegRule.ruleAction38),
        (pegRule.ruleHaving, pegRule.ruleAction39)],
      ∃ p1 r1 inner,
        Eval (.call RA.1) d p (runes Buffer ++ [end_symbol]) t (.ok p1 r1
          (⟨RA.1, p, p1, d⟩ :: ⟨RA.2, p1, p1, d + 1⟩ :: ⟨.rulePegText, p, p1, d + 1⟩ ::
            (inner ++ t))) ∧
        (∀ tok ∈ inner, selectAction tok.rule = false) ∧
        (p1 = p ↔ Eval (clauseGroup RA.1) (d + 2) p (runes Buffer ++ [end_symbol]) t .fail)) ∧
    (Eval (.call .ruleSelectStmt) d p (runes Buffer ++ [end_symbol]) t .fail ∨
      ∃ p1 r1 new,
        Eval (.call .ruleSelectStmt) d p (runes Buffer ++ [end_symbol]) t (.ok p1 r1 (new ++ t)) ∧
        (new.reverse.map (fun tok => tok.rule)).filter selectAction =
          [.ruleAction34, .ruleAction37, .ruleAction38, .ruleAction39, .ruleAction2] ∧
        ∀ (X _buffer : List Nat) (b e : Nat) (cs : List Call),
          executeLoop X _buffer new.reverse b e = some cs →
          ∃ b1 e1 b2 e2 b3 e3 b4 e4, cs.filter selectAssembly =
            [.span .AssembleWindowedFrom b1 e1, .span .AssembleFilter b2 e2,
              .span .AssembleGrouping b3 e3, .span .AssembleHaving b4 e4,
              .simple .AssembleSelect]) := by
  have hg := Good_text (runes Buffer)
  constructor
  · intro RA hRA
    simp only [List.mem_cons, List.mem_singleton, List.not_mem_nil, or_false] at hRA
    rcases hRA with rfl | rfl | rfl | rfl
    · exact Eval_optClause_slot (R := .ruleWindowedFrom) rfl rfl rfl rfl rfl rfl d p _ t hg
    · exact Eval_optClause_slot (R := .ruleFilter) rfl rfl rfl rfl rfl rfl d p _ t hg
    · exact Eval_optClause_slot (R := .ruleGrouping) rfl rfl rfl rfl rfl rfl d p _ t hg
    · exact Eval_optClause_slot (R := .ruleHaving) rfl rfl rfl rfl rfl rfl d p _ t hg
  · rcases Eval.total .ruleSelectStmt d p (runes Buffer ++ [end_symbol]) t hg rfl with
      h | ⟨p1, r1, t1, h, _⟩
    · exact Or.inl h
    · obtain ⟨new, rfl, hnew⟩ := Eval_SelectStmt_tokens hg h
      refine Or.inr ⟨p1, r1, new, h, hnew, ?_⟩
      intro X _buffer b e cs hcs
      have := executeLoop_selectAssembly X _buffer _ b e cs hcs
      rw [hnew] at this
      exact selectAssembly_order X _ this

/-! ## C8: keywords in any letter case -/

/-- C8: when `Buffer` is accepted and `Buffer'` is `Buffer` with the letter case changed of
some runes that were matched as part of a keyword (by a case-insensitive letter `('x' / 'X')`
of the grammar), `Parse` returns nil on both with the same token list (rules, offsets and
depths), and `Parse` followed by `Execute` issues the same calls on both. -/
theorem C8_keyword_case_insensitive (Buffer Buffer' : String)
    (h : keywordCaseVariant Buffer Buffer' = true) :
    (∃ tree, Parse Buffer = .nil tree ∧ Parse Buffer' = .nil tree) ∧
      parseExecute Buffer' = parseExecute Buffer := by
  unfold keywordCaseVariant at h
  cases hk : keywordTags Buffer with
  | none => rw [hk] at h; simp at h
  | some tags =>
    rw [hk] at h
    simp only [] at h
    obtain ⟨toks, hE, hn, hclean⟩ := keywordTags_some hk
    have hs := simL_of_variant _ _ _ h hn
    rw [← Init_runes, ← Init_runes] at hs
    obtain ⟨f, hf, hne⟩ := hE
    have hne2 : execF f (.call .ruleSingleStatement) 0 0 (Init (runes Buffer)) [] ≠ .oof := by
      rw [hf]; exact hne
    obtain ⟨res', he', hsim⟩ := execF_sim f (.call .ruleSingleStatement) 0 0 _ _ [] rfl
      (Init_good _) hs hne2
    rw [hf] at hsim
    cases res' <;> simp only [ResF.sim] at hsim
    obtain ⟨rfl, rfl, _⟩ := hsim
    have hP : Parse Buffer = .nil toks.reverse := Parse_of_eval ⟨f, hf, hne⟩
    have hP' := Parse_of_eval he'
    refine ⟨⟨toks.reverse, hP, hP'⟩, ?_⟩
    have hB : (Init (runes Buffer)).length = (Init (runes Buffer')).length := by
      rw [Init_runes, Init_runes, List.length_append, List.length_append, variantL_length h]
    have hx := executeLoop_variant h hB toks hclean
    simp only [parseExecute, hP, hP', Execute, hx]

/-- C8 at `SELECT ISTREAM ts() FROM s [RANGE 1 TUPLES]` written with other letter cases in
its keywords. -/
theorem C8_keyword_case_insensitive_witness :
    keywordCaseVariant "SELECT ISTREAM ts() FROM s [RANGE 1 TUPLES]"
        "select iStream ts() from s [range 1 Tuples]" = true ∧
    ((∃ tree, Parse "SELECT ISTREAM ts() FROM s [RANGE 1 TUPLES]" = .nil tree ∧
        Parse "select iStream ts() from s [range 1 Tuples]" = .nil tree) ∧
      parseExecute "select iStream ts() from s [range 1 Tuples]" =
        parseExecute "SELECT ISTREAM ts() FROM s [RANGE 1 TUPLES]") :=
  ⟨by decide!, C8_keyword_case_insensitive _ _ (by decide!)⟩


/-- C10: at every position `p` of the input, rule `spElem` matches exactly the whitespace
element of the spec (a single space, tab, LF or CR; or `--` with the runes other than CR and
LF after it, up to and including the first CR or LF, or up to the end of the input) and fails
when none starts at `p`; rule `sp` matches the whole run of one or more such elements and
fails when there is none; rule `spOpt` matches the whole run of zero or more and never fails. -/
theorem C10_whitespace_rules (Buffer : String) (p : Nat) (hp : p ≤ (runes Buffer).length) :
    ruleAt Buffer .rulespElem p =
      (match spElemSpec ((runes Buffer).drop p) with
       | some k => .matched (p + k)
       | none => .failed) ∧
    ruleAt Buffer .rulesp p =
      (match spElemSpec ((runes Buffer).drop p) with
       | some _ => .matched (p + spLen ((runes Buffer).drop p))
       | none => .failed) ∧
    ruleAt Buffer .rulespOpt p = .matched (p + spLen ((runes Buffer).drop p)) := by
  have htext : ∀ x ∈ (runes Buffer).drop p, x < end_symbol :=
    fun x hx => runes_lt_end Buffer x (List.mem_of_mem_drop hx)
  have hE := Eval_spElem _ htext 0 p []
  have hS := Eval_sp _ htext 0 p []
  obtain ⟨t3, hO⟩ := Eval_spOpt _ htext 0 p []
  rw [← Init_runes_drop Buffer hp] at hE hS hO
  refine ⟨?_, ?_, ?_⟩
  · cases hs : spElemSpec ((runes Buffer).drop p) with
    | none => exact ruleAt_of_eval (hE.2 hs)
    | some k =>
      obtain ⟨t1, h1⟩ := hE.1 k hs
      exact ruleAt_of_eval h1
  · cases hs : spElemSpec ((runes Buffer).drop p) with
    | none => exact ruleAt_of_eval (hS.2 hs)
    | some k =>
      obtain ⟨t1, h1⟩ := hS.1 k hs
      exact ruleAt_of_eval h1
  · exact ruleAt_of_eval hO

/-- C10 at `a --x` LF ` b`, position 1: the blank is one element; the run is the blank, the
comment with its line feed, and the blank after it. -/
theorem C10_whitespace_rules_witness :
    1 ≤ (runes "a --x\n b").length ∧
    ruleAt "a --x\n b" .rulespElem 1 = .matched 2 ∧
    ruleAt "a --x\n b" .rulesp 1 = .matched 7 ∧
    ruleAt "a --x\n b" .rulespOpt 1 = .matched 7 :=
  ⟨by decide, C10_whitespace_rules "a --x\n b" 1 (by decide)⟩


/-- C11: rule StringLiteral succeeds at a position if and only if the input there is a `'`
(rune 39), then a sequence of items, each the pair `''` or one rune other than `'`, then a
closing `'`, where a quote directly followed by a quote is always an item and never the
closing quote; the literal is then the quote, the items and the closing quote
(`stringLiteralSpec` computes its length).  So `'it''s'` is one literal of 7 runes, a
backslash is an ordinary rune (`'a\'` is a complete literal of 4 runes), in `'a''` the last
two quotes are an escaped quote and the literal is unterminated, and on an unterminated
literal the rule function returns false with position, token index and depth as they were at
the call. -/
theorem C11_string_literal (Buffer : String) (p : Nat) (hp : p ≤ (runes Buffer).length) :
    ruleAt Buffer .ruleStringLiteral p =
      (match stringLiteralSpec ((runes Buffer).drop p) with
       | some k => .matched (p + k)
       | none => .failed) ∧
    (∀ k, ruleAt Buffer .ruleStringLiteral p = .matched (p + k) ↔
      ∃ (items : List (List Nat)) (tail : List Nat),
        (∀ i ∈ items, isStringItem i = true) ∧
        (runes Buffer).drop p = 39 :: (items.flatten ++ 39 :: tail) ∧
        tail.head? ≠ some 39 ∧ k = items.flatten.length + 2) ∧
    (∀ s : State, s.position = p → s.tokenIndex ≤ s.tree.length →
      stringLiteralSpec ((runes Buffer).drop p) = none →
      ∃ s', ruleCall Buffer .ruleStringLiteral s = .fail s' ∧
        s'.position = p ∧ s'.tokenIndex = s.tokenIndex ∧ s'.depth = s.depth) ∧
    ruleAt "'it''s'" .ruleStringLiteral 0 = .matched 7 ∧
    ruleAt "'a\\'" .ruleStringLiteral 0 = .matched 4 ∧
    ruleAt "'a''" .ruleStringLiteral 0 = .failed ∧
    ruleAt "'abc" .ruleStringLiteral 0 = .failed := by
  have htext : ∀ x ∈ (runes Buffer).drop p, x ≠ end_symbol := fun x hx =>
    Nat.ne_of_lt (runes_lt_end Buffer x (List.mem_of_mem_drop hx))
  have hE := fun d t => Eval_StringLiteral ((runes Buffer).drop p) htext d p t
  have hR := @ruleAt_of_eval Buffer .ruleStringLiteral p 0 [] _
    (by rw [Init_runes_drop Buffer hp]; exact hE 0 [])
  have h1 : ruleAt Buffer .ruleStringLiteral p =
      (match stringLiteralSpec ((runes Buffer).drop p) with
       | some k => .matched (p + k)
       | none => .failed) := by
    rw [hR]
    cases stringLiteralSpec ((runes Buffer).drop p) <;> rfl
  refine ⟨h1, ?_, ?_, ruleAt_of_execF 20 (by decide!) (by decide),
    ruleAt_of_execF 20 (by decide!) (by decide), ruleAt_of_execF 20 (by decide!) (by decide),
    ruleAt_of_execF 20 (by decide!) (by decide)⟩
  · intro k
    rw [← stringLiteralSpec_iff, h1]
    cases stringLiteralSpec ((runes Buffer).drop p) with
    | none => simp
    | some k' => simp
  · intro s hs hti hnone
    subst hs
    have h := hE s.depth (s.tree.take s.tokenIndex).reverse
    rw [hnone, ← Init_runes_drop Buffer hp] at h
    exact ruleCall_fail_of_eval hti h

/-- C11, witness: the text `x = 'it''s' y` at position 4, where the literal `'it''s'` of 7
runes starts. -/
theorem C11_string_literal_witness :
    4 ≤ (runes "x = 'it''s' y").length ∧
    ruleAt "x = 'it''s' y" .ruleStringLiteral 4 = .matched 11 := by
  have h := (C11_string_literal "x = 'it''s' y" 4 (by decide)).1
  have hs : stringLiteralSpec ((runes "x = 'it''s' y").drop 4) = some 7 := by decide
  rw [hs] at h
  exact ⟨by decide, h⟩



/-- The calls of `Execute` for the four tokens of a numeric or float literal. -/
theorem executeLoop_literal {Buffer : String} {p n : Nat} (hn : p + n ≤ (runes Buffer).length)
    (d b e : Nat) :
    executeLoop (runes Buffer) (Init (runes Buffer))
        [⟨.rulePegText, p, p + n, d + 1 + 1⟩, ⟨.ruleAction74, p + n, p + n, d + 1 + 1⟩,
         ⟨.ruleFloatLiteral, p, p + n, d + 1⟩, ⟨.ruleLiteral, p, p + n, d⟩] b e =
      some [.PushComponent p (p + n) (.text .NewFloatLiteral
        (((runes Buffer).drop p).take n))] ∧
    executeLoop (runes Buffer) (Init (runes Buffer))
        [⟨.rulePegText, p, p + n, d + 1 + 1⟩, ⟨.ruleAction73, p + n, p + n, d + 1 + 1⟩,
         ⟨.ruleNumericLiteral, p, p + n, d + 1⟩, ⟨.ruleLiteral, p, p + n, d⟩] b e =
      some [.PushComponent p (p + n) (.text .NewNumericLiteral
        (((runes Buffer).drop p).take n))] := by
  have hlen : p + n ≤ (Init (runes Buffer)).length := by
    rw [Init_runes, List.length_append]; simp only [List.length_singleton]; omega
  have hsl : slice (Init (runes Buffer)) p (p + n) =
      some (((Init (runes Buffer)).drop p).take (p + n - p)) := by
    unfold slice
    rw [if_pos ⟨Nat.le_add_right p n, hlen⟩]
  have hsl2 : slice (runes Buffer) p (p + n) = some (((runes Buffer).drop p).take n) := by
    unfold slice
    rw [if_pos ⟨Nat.le_add_right p n, hn⟩, Nat.add_sub_cancel_left]
  have a74 : executeAction (runes Buffer) p (p + n) .ruleAction74 =
      (slice (runes Buffer) p (p + n)).map
        fun substr => [.PushComponent p (p + n) (.text .NewFloatLiteral substr)] := rfl
  have a73 : executeAction (runes Buffer) p (p + n) .ruleAction73 =
      (slice (runes Buffer) p (p + n)).map
        fun substr => [.PushComponent p (p + n) (.text .NewNumericLiteral substr)] := rfl
  have o1 : executeAction (runes Buffer) p (p + n) .ruleFloatLiteral = some [] := rfl
  have o2 : executeAction (runes Buffer) p (p + n) .ruleNumericLiteral = some [] := rfl
  have o3 : executeAction (runes Buffer) p (p + n) .ruleLiteral = some [] := rfl
  constructor
  · simp only [executeLoop, hsl, a74, hsl2, o1, o3, Option.map_some', List.append_nil]
  · simp only [executeLoop, hsl, a73, hsl2, o2, o3, Option.map_some', List.append_nil]

/-- C12: numeric literals are an optional `-` and digits, and a `.` with further digits makes
a float.  For non-empty digit strings `d1`, `d2` and a sign `neg`: where the text at `pf` in
`Bf` is the sign, `d1`, `.`, `d2` and a rest that starts with no digit, rule Literal matches
exactly sign, `d1`, `.` and `d2`, records the tokens Literal, FloatLiteral, Action74 and the
text span, and Execute pushes NewFloatLiteral of that text; where the text at `pn` in `Bn` is
the sign, `d1` and a rest that starts neither with a digit nor with `.` and a digit, rule
Literal matches exactly the sign and `d1`, records Literal, NumericLiteral, Action73 and the
text span, and Execute pushes NewNumericLiteral of that text.  So on `5.` it consumes only
`5`, and it rejects `.5` and `+5`. -/
theorem C12_numeric_literals (Bf Bn : String) (pf pn : Nat) (neg : Bool)
    (d1 d2 restf restn : List Nat)
    (h1 : isDigits d1 = true) (h2 : isDigits d2 = true)
    (hBf : (runes Bf).drop pf = signText neg ++ d1 ++ 46 :: (d2 ++ restf))
    (hrf : startsDigit restf = false)
    (hBn : (runes Bn).drop pn = signText neg ++ d1 ++ restn)
    (hrn : startsDigit restn = false ∧ startsFraction restn = false) :
    (ruleAt Bf .ruleLiteral pf = .matched (pf + (signText neg).length + d1.length + 1 + d2.length) ∧
     (∀ d t, Eval (.call .ruleLiteral) d pf ((Init (runes Bf)).drop pf) t
        (.ok (pf + (signText neg).length + d1.length + 1 + d2.length)
          (restf ++ [end_symbol])
          (⟨.ruleLiteral, pf, pf + (signText neg).length + d1.length + 1 + d2.length, d⟩ ::
           ⟨.ruleFloatLiteral, pf, pf + (signText neg).length + d1.length + 1 + d2.length,
             d + 1⟩ ::
           ⟨.ruleAction74, pf + (signText neg).length + d1.length + 1 + d2.length,
             pf + (signText neg).length + d1.length + 1 + d2.length, d + 1 + 1⟩ ::
           ⟨.rulePegText, pf, pf + (signText neg).length + d1.length + 1 + d2.length,
             d + 1 + 1⟩ :: t))) ∧
     (∀ d b e, executeLoop (runes Bf) (Init (runes Bf))
        [⟨.rulePegText, pf, pf + (signText neg).length + d1.length + 1 + d2.length,
           d + 1 + 1⟩,
         ⟨.ruleAction74, pf + (signText neg).length + d1.length + 1 + d2.length,
           pf + (signText neg).length + d1.length + 1 + d2.length, d + 1 + 1⟩,
         ⟨.ruleFloatLiteral, pf, pf + (signText neg).length + d1.length + 1 + d2.length,
           d + 1⟩,
         ⟨.ruleLiteral, pf, pf + (signText neg).length + d1.length + 1 + d2.length, d⟩]
        b e =
        some [.PushComponent pf (pf + (signText neg).length + d1.length + 1 + d2.length)
          (.text .NewFloatLiteral (signText neg ++ d1 ++ 46 :: d2))])) ∧
    (ruleAt Bn .ruleLiteral pn = .matched (pn + (signText neg).length + d1.length) ∧
     (∀ d t, Eval (.call .ruleLiteral) d pn ((Init (runes Bn)).drop pn) t
        (.ok (pn + (signText neg).length + d1.length) (restn ++ [end_symbol])
          (⟨.ruleLiteral, pn, pn + (signText neg).length + d1.length, d⟩ ::
           ⟨.ruleNumericLiteral, pn, pn + (signText neg).length + d1.length, d + 1⟩ ::
           ⟨.ruleAction73, pn + (signText neg).length + d1.length,
             pn + (signText neg).length + d1.length, d + 1 + 1⟩ ::
           ⟨.rulePegText, pn, pn + (signText neg).length + d1.length, d + 1 + 1⟩ :: t))) ∧
     (∀ d b e, executeLoop (runes Bn) (Init (runes Bn))
        [⟨.rulePegText, pn, pn + (signText neg).length + d1.length, d + 1 + 1⟩,
         ⟨.ruleAction73, pn + (signText neg).length + d1.length,
           pn + (signText neg).length + d1.length, d + 1 + 1⟩,
         ⟨.ruleNumericLiteral, pn, pn + (signText neg).length + d1.length, d + 1⟩,
         ⟨.ruleLiteral, pn, pn + (signText neg).length + d1.length, d⟩] b e =
        some [.PushComponent pn (pn + (signText neg).length + d1.length)
          (.text .NewNumericLiteral (signText neg ++ d1))])) ∧
    ruleAt "5." .ruleLiteral 0 = .matched 1 ∧
    ruleAt ".5" .ruleLiteral 0 = .failed ∧
    ruleAt "+5" .ruleLiteral 0 = .failed := by
  have hne : ∀ (B : String) (p : Nat) (x : Nat) (xs : List Nat),
      (runes B).drop p = x :: xs → p ≤ (runes B).length := by
    intro B p x xs h
    by_contra hc
    rw [List.drop_eq_nil_of_le (by omega)] at h
    cases h
  obtain ⟨x, xs, hx, _, _⟩ := isDigits_head h1
  have hpf : pf ≤ (runes Bf).length := by
    cases neg
    · refine hne _ _ x (xs ++ 46 :: (d2 ++ restf)) ?_
      rw [hBf, hx]; simp [signText]
    · refine hne _ _ 45 (d1 ++ 46 :: (d2 ++ restf)) ?_
      rw [hBf]; simp [signText]
  have hpn : pn ≤ (runes Bn).length := by
    cases neg
    · refine hne _ _ x (xs ++ restn) ?_
      rw [hBn, hx]; simp [signText]
    · refine hne _ _ 45 (d1 ++ restn) ?_
      rw [hBn]; simp [signText]
  refine ⟨?_, ?_, ruleAt_of_execF 20 (by decide!) (by decide),
    ruleAt_of_execF 20 (by decide!) (by decide), ruleAt_of_execF 20 (by decide!) (by decide)⟩
  · -- the float
    obtain ⟨c, r, hcr, hc⟩ : ∃ c r, restf ++ [end_symbol] = c :: r ∧ isDigit c = false := by
      rcases restf with _ | ⟨c, r⟩
      · exact ⟨end_symbol, [], rfl, by decide⟩
      · exact ⟨c, r ++ [end_symbol], rfl, by simpa [startsDigit] using hrf⟩
    have hI : (Init (runes Bf)).drop pf =
        signText neg ++ d1 ++ 46 :: (d2 ++ c :: r) := by
      rw [Init_runes_drop Bf hpf, hBf, ← hcr]; simp
    have hE : ∀ d t, Eval (.call .ruleLiteral) d pf ((Init (runes Bf)).drop pf) t
        (.ok (pf + (signText neg).length + d1.length + 1 + d2.length)
          (restf ++ [end_symbol])
          (⟨.ruleLiteral, pf, pf + (signText neg).length + d1.length + 1 + d2.length, d⟩ ::
           ⟨.ruleFloatLiteral, pf, pf + (signText neg).length + d1.length + 1 + d2.length,
             d + 1⟩ ::
           ⟨.ruleAction74, pf + (signText neg).length + d1.length + 1 + d2.length,
             pf + (signText neg).length + d1.length + 1 + d2.length, d + 1 + 1⟩ ::
           ⟨.rulePegText, pf, pf + (signText neg).length + d1.length + 1 + d2.length,
             d + 1 + 1⟩ :: t)) := by
      intro d t
      rw [hI, hcr]
      exact Eval_Literal_float d pf t neg d1 d2 c r h1 h2 hc
    have hlen : pf + ((signText neg).length + d1.length + 1 + d2.length) ≤
        (runes Bf).length := by
      have := congrArg List.length hBf
      simp only [List.length_drop, List.length_append, List.length_cons] at this
      omega
    have htake : ((runes Bf).drop pf).take
        ((signText neg).length + d1.length + 1 + d2.length) =
        signText neg ++ d1 ++ 46 :: d2 := by
      rw [hBf, show signText neg ++ d1 ++ 46 :: (d2 ++ restf) =
        (signText neg ++ d1 ++ 46 :: d2) ++ restf by simp]
      rw [List.take_left']
      simp; omega
    refine ⟨?_, hE, ?_⟩
    · rw [ruleAt_of_eval (hE 0 [])]; rfl
    · intro d b e
      have := (executeLoop_literal hlen d b e).1
      rw [htake] at this
      simpa only [Nat.add_assoc] using this
  · -- the integer
    obtain ⟨c, r, hcr, hc, hf⟩ := number_follow restn hrn.1 hrn.2
    have hI : (Init (runes Bn)).drop pn = signText neg ++ d1 ++ c :: r := by
      rw [Init_runes_drop Bn hpn, hBn, ← hcr]; simp
    have hE : ∀ d t, Eval (.call .ruleLiteral) d pn ((Init (runes Bn)).drop pn) t
        (.ok (pn + (signText neg).length + d1.length) (restn ++ [end_symbol])
          (⟨.ruleLiteral, pn, pn + (signText neg).length + d1.length, d⟩ ::
           ⟨.ruleNumericLiteral, pn, pn + (signText neg).length + d1.length, d + 1⟩ ::
           ⟨.ruleAction73, pn + (signText neg).length + d1.length,
             pn + (signText neg).length + d1.length, d + 1 + 1⟩ ::
           ⟨.rulePegText, pn, pn + (signText neg).length + d1.length, d + 1 + 1⟩ :: t)) := by
      intro d t
      rw [hI, hcr]
      exact Eval_Literal_int d pn t neg d1 c r h1 hc hf
    have hlen : pn + ((signText neg).length + d1.length) ≤ (runes Bn).length := by
      have := congrArg List.length hBn
      simp only [List.length_drop, List.length_append] at this
      omega
    have htake : ((runes Bn).drop pn).take ((signText neg).length + d1.length) =
        signText neg ++ d1 := by
      rw [hBn, List.take_left']
      simp
    refine ⟨?_, hE, ?_⟩
    · rw [ruleAt_of_eval (hE 0 [])]; rfl
    · intro d b e
      have := (executeLoop_literal hlen d b e).2
      rw [htake] at this
      simpa only [Nat.add_assoc] using this

/-- C12, witness: `-12.5` before `,` in the text `x = -12.5, y` is a float of 5 runes, and
`-12` before `. ` in the text `-12. ` is an integer of 3 runes. -/
theorem C12_numeric_literals_witness :
    ruleAt "x = -12.5, y" .ruleLiteral 4 = .matched 9 ∧
    ruleAt "-12. " .ruleLiteral 0 = .matched 3 := by
  have h := C12_numeric_literals "x = -12.5, y" "-12. " 4 0 true [49, 50] [53] (runes ", y")
    (runes ". ") (by decide) (by decide) (by decide) (by decide) (by decide)
    ⟨by decide, by decide⟩
  exact ⟨h.1.1, h.2.1.1⟩



/-- C14: the cast operator binds tighter than unary minus.  Parsing `EVAL -a::int` succeeds;
the RowValue token and its text span 6..7, the single rune `a`, so the first `:` of `::` is not
read as a stream-prefix separator; the castExpr token spans `a::int` (6..12) and the minusExpr
token spans `-a::int` (5..12); Execute pushes UnaryMinus first, then RowValue `a`, then the
type Int, and calls AssembleTypeCast on 6..12 before AssembleUnaryPrefixOperation on 5..12. -/
theorem C14_cast_binds_tighter_than_minus :
    (∃ tree, Parse "EVAL -a::int" = .nil tree ∧
      (spansOf .ruleRowValue tree = [(6, 7)] ∧ spansOf .rulecastExpr tree = [(6, 12)] ∧
       spansOf .ruleminusExpr tree = [(5, 12)] ∧ spansOf .ruleUnaryMinus tree = [(5, 6)] ∧
       spansOf .ruleInt tree = [(9, 12)] ∧ spansOf .ruleStream tree = [])) ∧
    parseExecute "EVAL -a::int" = .calls
    [.PushComponent 5 6 (.const .UnaryMinus),
     .PushComponent 6 7 (.text .NewRowValue (runes "a")),
     .PushComponent 9 12 (.const .Int),
     .span .AssembleTypeCast 6 12,
     .span .AssembleUnaryPrefixOperation 5 12,
     .span .AssembleBinaryOperation 5 12,
     .span .AssembleBinaryOperation 5 12,
     .span .AssembleBinaryOperation 5 12,
     .span .AssembleBinaryOperation 5 12,
     .span .AssembleBinaryOperation 5 12,
     .span .AssembleUnaryPrefixOperation 5 12,
     .span .AssembleBinaryOperation 5 12,
     .span .AssembleBinaryOperation 5 12,
     .span .AssembleEval 12 12,
     .span .IncludeTrailingWhitespace 0 12] := by
  refine ⟨?_, parseExecute_calls 88 (by decide) (by decide!)⟩
  obtain ⟨tree, h, hP⟩ := Parse_tree_check 88 "EVAL -a::int"
    (fun tree => decide (spansOf .ruleRowValue tree = [(6, 7)] ∧
      spansOf .rulecastExpr tree = [(6, 12)] ∧ spansOf .ruleminusExpr tree = [(5, 12)] ∧
      spansOf .ruleUnaryMinus tree = [(5, 6)] ∧ spansOf .ruleInt tree = [(9, 12)] ∧
      spansOf .ruleStream tree = [])) (by decide!)
  exact ⟨tree, h, of_decide_eq_true hP⟩



/-- C15: each of the seven comparison spellings is recognised as one operator and pushes the
matching component.  At any position of any text, rule ComparisonOp matches exactly the
spelling found there (`=`; `!=` and `<>`; `<=`; `>=`; a `<` or `>` that starts none of these)
and fails on anything else; the tokens it records are its own, the token of the operator rule,
that rule's action and the text span of the spelling; and Execute answers them with the single
call PushComponent(begin, end, c) for the component c of the spelling: Equal, NotEqual,
LessOrEqual, Less, GreaterOrEqual, Greater.  Between the operands `a` and `b` of an EVAL
statement each spelling is pushed once, between the two row values, so `a <= b` is never
Less followed by `=` and `a <> b` is never Less followed by Greater. -/
theorem C15_comparison_operators (Buffer : String) (p : Nat)
    (hp : p ≤ (runes Buffer).length) :
    (match comparisonOpSpec ((runes Buffer).drop p) with
     | some (k, c) =>
       ruleAt Buffer .ruleComparisonOp p = .matched (p + k) ∧
       (∀ d t, Eval (.call .ruleComparisonOp) d p ((runes Buffer).drop p ++ [end_symbol]) t
         (.ok (p + k) (((runes Buffer).drop p).drop k ++ [end_symbol])
           (⟨.ruleComparisonOp, p, p + k, d⟩ :: ⟨(comparisonRule c).1, p, p + k, d + 1⟩ ::
            ⟨(comparisonRule c).2, p + k, p + k, d + 2⟩ ::
            ⟨.rulePegText, p, p + k, d + 2⟩ :: t))) ∧
       (∀ d b e, executeLoop (runes Buffer) (Init (runes Buffer))
          [⟨.rulePegText, p, p + k, d + 2⟩, ⟨(comparisonRule c).2, p + k, p + k, d + 2⟩,
           ⟨(comparisonRule c).1, p, p + k, d + 1⟩, ⟨.ruleComparisonOp, p, p + k, d⟩] b e =
          some [.PushComponent p (p + k) (.const c)]) ∧
       (c = .Equal ∨ c = .NotEqual ∨ c = .LessOrEqual ∨ c = .Less ∨ c = .GreaterOrEqual ∨
        c = .Greater)
     | none => ruleAt Buffer .ruleComparisonOp p = .failed) ∧
    (∃ cs, parseExecute "EVAL a = b" = .calls cs ∧ pushes cs =
      [.PushComponent 5 6 (.text .NewRowValue (runes "a")),
       .PushComponent 7 8 (.const .Equal),
       .PushComponent 9 10 (.text .NewRowValue (runes "b"))]) ∧
    (∃ cs, parseExecute "EVAL a != b" = .calls cs ∧ pushes cs =
      [.PushComponent 5 6 (.text .NewRowValue (runes "a")),
       .PushComponent 7 9 (.const .NotEqual),
       .PushComponent 10 11 (.text .NewRowValue (runes "b"))]) ∧
    (∃ cs, parseExecute "EVAL a <> b" = .calls cs ∧ pushes cs =
      [.PushComponent 5 6 (.text .NewRowValue (runes "a")),
       .PushComponent 7 9 (.const .NotEqual),
       .PushComponent 10 11 (.text .NewRowValue (runes "b"))]) ∧
    (∃ cs, parseExecute "EVAL a < b" = .calls cs ∧ pushes cs =
      [.PushComponent 5 6 (.text .NewRowValue (runes "a")),
       .PushComponent 7 8 (.const .Less),
       .PushComponent 9 10 (.text .NewRowValue (runes "b"))]) ∧
    (∃ cs, parseExecute "EVAL a <= b" = .calls cs ∧ pushes cs =
      [.PushComponent 5 6 (.text .NewRowValue (runes "a")),
       .PushComponent 7 9 (.const .LessOrEqual),
       .PushComponent 10 11 (.text .NewRowValue (runes "b"))]) ∧
    (∃ cs, parseExecute "EVAL a > b" = .calls cs ∧ pushes cs =
      [.PushComponent 5 6 (.text .NewRowValue (runes "a")),
       .PushComponent 7 8 (.const .Greater),
       .PushComponent 9 10 (.text .NewRowValue (runes "b"))]) ∧
    (∃ cs, parseExecute "EVAL a >= b" = .calls cs ∧ pushes cs =
      [.PushComponent 5 6 (.text .NewRowValue (runes "a")),
       .PushComponent 7 9 (.const .GreaterOrEqual),
       .PushComponent 10 11 (.text .NewRowValue (runes "b"))]) := by
  refine ⟨?_, ?_, ?_, ?_, ?_, ?_, ?_, ?_⟩
  · have hE := fun d t => Eval_ComparisonOp ((runes Buffer).drop p) d p t
    have hR := @ruleAt_of_eval Buffer .ruleComparisonOp p 0 [] _
      (by rw [Init_runes_drop Buffer hp]; exact hE 0 [])
    cases hs : comparisonOpSpec ((runes Buffer).drop p) with
    | none =>
      rw [hs] at hR
      exact hR
    | some kc =>
      obtain ⟨k, c⟩ := kc
      rw [hs] at hR
      simp only [hs] at hE
      have hk := (comparisonOpSpec_le hs).1
      rw [List.length_drop] at hk
      have hlen : p + k ≤ (Init (runes Buffer)).length := by
        rw [Init_runes, List.length_append]; simp only [List.length_singleton]; omega
      have hc : c = .Equal ∨ c = .NotEqual ∨ c = .LessOrEqual ∨ c = .Less ∨
          c = .GreaterOrEqual ∨ c = .Greater := by
        revert hs
        rcases (runes Buffer).drop p with _ | ⟨c1, tl⟩
        · simp [comparisonOpSpec]
        · simp only [comparisonOpSpec]
          intro hs
          split_ifs at hs <;> simp_all
      refine ⟨hR, hE, ?_, hc⟩
      intro d b e
      have hsl : slice (Init (runes Buffer)) p (p + k) =
          some (((Init (runes Buffer)).drop p).take (p + k - p)) := by
        unfold slice
        rw [if_pos ⟨Nat.le_add_right p k, hlen⟩]
      rcases hc with rfl | rfl | rfl | rfl | rfl | rfl <;>
        simp only [executeLoop, comparisonRule, hsl] <;> rfl
  · obtain ⟨cs, h, hP⟩ := parseExecute_check 92 "EVAL a = b"
      (fun cs => decide (pushes cs =
        [.PushComponent 5 6 (.text .NewRowValue (runes "a")),
         .PushComponent 7 8 (.const .Equal),
         .PushComponent 9 10 (.text .NewRowValue (runes "b"))])) (by decide) (by decide!)
    exact ⟨cs, h, of_decide_eq_true hP⟩
  · obtain ⟨cs, h, hP⟩ := parseExecute_check 92 "EVAL a != b"
      (fun cs => decide (pushes cs =
        [.PushComponent 5 6 (.text .NewRowValue (runes "a")),
         .PushComponent 7 9 (.const .NotEqual),
         .PushComponent 10 11 (.text .NewRowValue (runes "b"))])) (by decide) (by decide!)
    exact ⟨cs, h, of_decide_eq_true hP⟩
  · obtain ⟨cs, h, hP⟩ := parseExecute_check 92 "EVAL a <> b"
      (fun cs => decide (pushes cs =
        [.PushComponent 5 6 (.text .NewRowValue (runes "a")),
         .PushComponent 7 9 (.const .NotEqual),
         .PushComponent 10 11 (.text .NewRowValue (runes "b"))])) (by decide) (by decide!)
    exact ⟨cs, h, of_decide_eq_true hP⟩
  · obtain ⟨cs, h, hP⟩ := parseExecute_check 92 "EVAL a < b"
      (fun cs => decide (pushes cs =
        [.PushComponent 5 6 (.text .NewRowValue (runes "a")),
         .PushComponent 7 8 (.const .Less),
         .PushComponent 9 10 (.text .NewRowValue (runes "b"))])) (by decide) (by decide!)
    exact ⟨cs, h, of_decide_eq_true hP⟩
  · obtain ⟨cs, h, hP⟩ := parseExecute_check 92 "EVAL a <= b"
      (fun cs => decide (pushes cs =
        [.PushComponent 5 6 (.text .NewRowValue (runes "a")),
         .PushComponent 7 9 (.const .LessOrEqual),
         .PushComponent 10 11 (.text .NewRowValue (runes "b"))])) (by decide) (by decide!)
    exact ⟨cs, h, of_decide_eq_true hP⟩
  · obtain ⟨cs, h, hP⟩ := parseExecute_check 92 "EVAL a > b"
      (fun cs => decide (pushes cs =
        [.PushComponent 5 6 (.text .NewRowValue (runes "a")),
         .PushComponent 7 8 (.const .Greater),
         .PushComponent 9 10 (.text .NewRowValue (runes "b"))])) (by decide) (by decide!)
    exact ⟨cs, h, of_decide_eq_true hP⟩
  · obtain ⟨cs, h, hP⟩ := parseExecute_check 92 "EVAL a >= b"
      (fun cs => decide (pushes cs =
        [.PushComponent 5 6 (.text .NewRowValue (runes "a")),
         .PushComponent 7 9 (.const .GreaterOrEqual),
         .PushComponent 10 11 (.text .NewRowValue (runes "b"))])) (by decide) (by decide!)
    exact ⟨cs, h, of_decide_eq_true hP⟩

/-- C15, witness: the text `a <= b` at position 2, where the spec reads LessOrEqual. -/
theorem C15_comparison_operators_witness :
    2 ≤ (runes "a <= b").length ∧
    comparisonOpSpec ((runes "a <= b").drop 2) = some (2, .LessOrEqual) ∧
    ruleAt "a <= b" .ruleComparisonOp 2 = .matched 4 := by
  have h := (C15_comparison_operators "a <= b" 2 (by decide)).1
  have hs : comparisonOpSpec ((runes "a <= b").drop 2) = some (2, .LessOrEqual) := by decide
  rw [hs] at h
  exact ⟨by decide, hs, h.1⟩



/-- The outcome of a rule function on a buffer that holds `text` at `q`, from a run on `text`
followed by the rest of the buffer. -/
theorem ruleAt_of_text {Buffer : String} {rule : pegRule} {q : Nat} {text rest : List Nat}
    {n : Nat} {toks : List token32} (hne : text ≠ [])
    (hB : (runes Buffer).drop q = text ++ rest)
    (h : Eval (.call rule) 0 q (text ++ (rest ++ [end_symbol])) []
      (.ok n (rest ++ [end_symbol]) toks)) :
    ruleAt Buffer rule q = .matched n := by
  have hq : q ≤ (runes Buffer).length := by
    by_contra hc
    rw [List.drop_eq_nil_of_le (by omega)] at hB
    exact hne (List.append_eq_nil.mp hB.symm).1
  have hI : (Init (runes Buffer)).drop q = text ++ (rest ++ [end_symbol]) := by
    rw [Init_runes_drop Buffer hq, hB, List.append_assoc]
  rw [← hI] at h
  rw [ruleAt_of_eval h]
  rfl

/-- C17: array literals and parameter-array literals accept one trailing comma.  For every
non-empty list of literals `e1, ..., en` (integers, floats, strings) rule ArrayExpr matches
the whole of `[e1, ..., en,]` and the whole of `[e1, ..., en]`, and so does rule
ParamArrayExpr; in both runs the tokens recorded up to the end of `en` (`elems`: the element
rules, their actions and text spans, in order) are the same, and the runs differ only in the
end position of the array, of its action and of its text span.  For `[1, 'a', -2.5,]` and
`[1, 'a', -2.5]` Execute pushes the same components in the same order. -/
theorem C17_array_trailing_comma (es : List LiteralForm) (hne : es ≠ [])
    (hwf : ∀ e ∈ es, e.wf = true) (d p : Nat) (t : List token32) (r : List Nat) :
    (∃ elems : List token32,
      Eval (.call .ruleArrayExpr) d p
        (91 :: (commaList (es.map LiteralForm.text) ++ 44 :: 93 :: r)) t
        (.ok (p + 1 + (commaList (es.map LiteralForm.text)).length + 1 + 1) r
          (⟨.ruleArrayExpr, p, p + 1 + (commaList (es.map LiteralForm.text)).length + 1 + 1,
             d⟩ ::
           ⟨.ruleAction67, p + 1 + (commaList (es.map LiteralForm.text)).length + 1 + 1,
             p + 1 + (commaList (es.map LiteralForm.text)).length + 1 + 1, d + 1⟩ ::
           ⟨.rulePegText, p, p + 1 + (commaList (es.map LiteralForm.text)).length + 1 + 1,
             d + 1⟩ ::
           ⟨.rulespOpt, p + 1 + (commaList (es.map LiteralForm.text)).length + 1,
             p + 1 + (commaList (es.map LiteralForm.text)).length + 1, d + 1 + 1⟩ ::
           ⟨.rulespOpt, p + 1 + (commaList (es.map LiteralForm.text)).length,
             p + 1 + (commaList (es.map LiteralForm.text)).length, d + 1 + 1⟩ ::
           (elems ++ t))) ∧
      Eval (.call .ruleArrayExpr) d p
        (91 :: (commaList (es.map LiteralForm.text) ++ 93 :: r)) t
        (.ok (p + 1 + (commaList (es.map LiteralForm.text)).length + 1) r
          (⟨.ruleArrayExpr, p, p + 1 + (commaList (es.map LiteralForm.text)).length + 1, d⟩ ::
           ⟨.ruleAction67, p + 1 + (commaList (es.map LiteralForm.text)).length + 1,
             p + 1 + (commaList (es.map LiteralForm.text)).length + 1, d + 1⟩ ::
           ⟨.rulePegText, p, p + 1 + (commaList (es.map LiteralForm.text)).length + 1,
             d + 1⟩ ::
           ⟨.rulespOpt, p + 1 + (commaList (es.map LiteralForm.text)).length,
             p + 1 + (commaList (es.map LiteralForm.text)).length, d + 1 + 1⟩ ::
           ⟨.rulespOpt, p + 1 + (commaList (es.map LiteralForm.text)).length,
             p + 1 + (commaList (es.map LiteralForm.text)).length, d + 1 + 1⟩ ::
           (elems ++ t)))) ∧
    (∃ elems : List token32,
      Eval (.call .ruleParamArrayExpr) d p
        (91 :: (commaList (es.map LiteralForm.text) ++ 44 :: 93 :: r)) t
        (.ok (p + 1 + (commaList (es.map LiteralForm.text)).length + 1 + 1) r
          (⟨.ruleParamArrayExpr, p,
             p + 1 + (commaList (es.map LiteralForm.text)).length + 1 + 1, d⟩ ::
           ⟨.ruleAction48, p + 1 + (commaList (es.map LiteralForm.text)).length + 1 + 1,
             p + 1 + (commaList (es.map LiteralForm.text)).length + 1 + 1, d + 1⟩ ::
           ⟨.rulePegText, p, p + 1 + (commaList (es.map LiteralForm.text)).length + 1 + 1,
             d + 1⟩ ::
           ⟨.rulespOpt, p + 1 + (commaList (es.map LiteralForm.text)).length + 1,
             p + 1 + (commaList (es.map LiteralForm.text)).length + 1, d + 1 + 1⟩ ::
           ⟨.rulespOpt, p + 1 + (commaList (es.map LiteralForm.text)).length,
             p + 1 + (commaList (es.map LiteralForm.text)).length, d + 1 + 1⟩ ::
           (elems ++ t))) ∧
      Eval (.call .ruleParamArrayExpr) d p
        (91 :: (commaList (es.map LiteralForm.text) ++ 93 :: r)) t
        (.ok (p + 1 + (commaList (es.map LiteralForm.text)).length + 1) r
          (⟨.ruleParamArrayExpr, p, p + 1 + (commaList (es.map LiteralForm.text)).length + 1,
             d⟩ ::
           ⟨.ruleAction48, p + 1 + (commaList (es.map LiteralForm.text)).length + 1,
             p + 1 + (commaList (es.map LiteralForm.text)).length + 1, d + 1⟩ ::
           ⟨.rulePegText, p, p + 1 + (commaList (es.map LiteralForm.text)).length + 1,
             d + 1⟩ ::
           ⟨.rulespOpt, p + 1 + (commaList (es.map LiteralForm.text)).length,
             p + 1 + (commaList (es.map LiteralForm.text)).length, d + 1 + 1⟩ ::
           ⟨.rulespOpt, p + 1 + (commaList (es.map LiteralForm.text)).length,
             p + 1 + (commaList (es.map LiteralForm.text)).length, d + 1 + 1⟩ ::
           (elems ++ t)))) ∧
    (∀ (Buffer : String) (q : Nat) (rest : List Nat),
      ((runes Buffer).drop q =
          91 :: (commaList (es.map LiteralForm.text) ++ [44, 93]) ++ rest →
        ruleAt Buffer .ruleArrayExpr q =
            .matched (q + 1 + (commaList (es.map LiteralForm.text)).length + 1 + 1) ∧
          ruleAt Buffer .ruleParamArrayExpr q =
            .matched (q + 1 + (commaList (es.map LiteralForm.text)).length + 1 + 1)) ∧
      ((runes Buffer).drop q =
          91 :: (commaList (es.map LiteralForm.text) ++ [93]) ++ rest →
        ruleAt Buffer .ruleArrayExpr q =
            .matched (q + 1 + (commaList (es.map LiteralForm.text)).length + 1) ∧
          ruleAt Buffer .ruleParamArrayExpr q =
            .matched (q + 1 + (commaList (es.map LiteralForm.text)).length + 1))) ∧
    (∃ cs1 cs2, parseExecute "EVAL [1, 'a', -2.5,]" = .calls cs1 ∧
      parseExecute "EVAL [1, 'a', -2.5]" = .calls cs2 ∧
      pushes cs1 = pushes cs2 ∧
      pushes cs1 =
        [.PushComponent 6 7 (.text .NewNumericLiteral (runes "1")),
         .PushComponent 9 12 (.text .NewStringLiteral (runes "'a'")),
         .PushComponent 14 15 (.const .UnaryMinus),
         .PushComponent 15 18 (.text .NewFloatLiteral (runes "2.5"))]) := by
  obtain ⟨e, es', rfl⟩ : ∃ e es', es = e :: es' := by
    cases es with
    | nil => exact absurd rfl hne
    | cons e es' => exact ⟨e, es', rfl⟩
  have hA : ∀ x ∈ (e :: es').map LiteralForm.text,
      Delimited .ruleExpressionOrWildcard 93 x ∧ noSpHead x = true := by
    intro x hx
    obtain ⟨l, hl, rfl⟩ := List.mem_map.mp hx
    exact ⟨Delimited_ExpressionOrWildcard l (hwf l hl) (Or.inl rfl), (l.head (hwf l hl)).2⟩
  have hP : ∀ x ∈ (e :: es').map LiteralForm.text,
      Delimited .ruleParamLiteral 93 x ∧ noSpHead x = true := by
    intro x hx
    obtain ⟨l, hl, rfl⟩ := List.mem_map.mp hx
    exact ⟨Delimited_ParamLiteral l (hwf l hl), (l.head (hwf l hl)).2⟩
  rw [List.map_cons] at hA hP ⊢
  refine ⟨?_, ?_, ?_, ?_⟩
  · obtain ⟨elems, h⟩ := Eval_ArrayExpr_list e.text (es'.map LiteralForm.text) hA d p t
    exact ⟨elems, (h r).1, (h r).2⟩
  · obtain ⟨elems, h⟩ := Eval_ParamArrayExpr_list e.text (es'.map LiteralForm.text) hP d p t
    exact ⟨elems, (h r).1, (h r).2⟩
  · intro Buffer q rest
    obtain ⟨ea, ha⟩ := Eval_ArrayExpr_list e.text (es'.map LiteralForm.text) hA 0 q []
    obtain ⟨ep, hp⟩ := Eval_ParamArrayExpr_list e.text (es'.map LiteralForm.text) hP 0 q []
    constructor
    · intro hB
      have e1 : 91 :: (commaList (e.text :: es'.map LiteralForm.text) ++ [44, 93]) ++
          (rest ++ [end_symbol]) =
          91 :: (commaList (e.text :: es'.map LiteralForm.text) ++
            44 :: 93 :: (rest ++ [end_symbol])) := by simp
      exact ⟨ruleAt_of_text (by simp) hB (by rw [e1]; exact (ha _).1),
        ruleAt_of_text (by simp) hB (by rw [e1]; exact (hp _).1)⟩
    · intro hB
      have e1 : 91 :: (commaList (e.text :: es'.map LiteralForm.text) ++ [93]) ++
          (rest ++ [end_symbol]) =
          91 :: (commaList (e.text :: es'.map LiteralForm.text) ++
            93 :: (rest ++ [end_symbol])) := by simp
      exact ⟨ruleAt_of_text (by simp) hB (by rw [e1]; exact (ha _).2),
        ruleAt_of_text (by simp) hB (by rw [e1]; exact (hp _).2)⟩
  · obtain ⟨cs1, h1, hP1⟩ := parseExecute_check 152 "EVAL [1, 'a', -2.5,]"
      (fun cs => decide (pushes cs =
        [.PushComponent 6 7 (.text .NewNumericLiteral (runes "1")),
         .PushComponent 9 12 (.text .NewStringLiteral (runes "'a'")),
         .PushComponent 14 15 (.const .UnaryMinus),
         .PushComponent 15 18 (.text .NewFloatLiteral (runes "2.5"))])) (by decide) (by decide!)
    obtain ⟨cs2, h2, hP2⟩ := parseExecute_check 152 "EVAL [1, 'a', -2.5]"
      (fun cs => decide (pushes cs =
        [.PushComponent 6 7 (.text .NewNumericLiteral (runes "1")),
         .PushComponent 9 12 (.text .NewStringLiteral (runes "'a'")),
         .PushComponent 14 15 (.const .UnaryMinus),
         .PushComponent 15 18 (.text .NewFloatLiteral (runes "2.5"))])) (by decide) (by decide!)
    have hP1' := of_decide_eq_true hP1
    have hP2' := of_decide_eq_true hP2
    exact ⟨cs1, cs2, h1, h2, hP1'.trans hP2'.symm, hP1'⟩

/-- C17, witness: the literals `1`, `'a'` and `-2.5`: rule ArrayExpr matches the 15 runes of
`[1, 'a', -2.5,]` and rule ParamArrayExpr the 14 runes of `[1, 'a', -2.5]`. -/
theorem C17_array_trailing_comma_witness :
    ruleAt "[1, 'a', -2.5,]" .ruleArrayExpr 0 = .matched 15 ∧
    ruleAt "x=[1, 'a', -2.5] " .ruleParamArrayExpr 2 = .matched 16 := by
  have h := (C17_array_trailing_comma [.int false [49], .str [[97]], .float true [50] [53]]
    (by decide) (by decide) 0 0 [] []).2.2.1
  exact ⟨((h "[1, 'a', -2.5,]" 0 []).1 (by decide)).1,
    ((h "x=[1, 'a', -2.5] " 2 [32]).2 (by decide)).2⟩



theorem mem_sepText {es : List (List Nat)} {e : List Nat} {x : Nat} (he : e ∈ es)
    (hx : x ∈ e) : x ∈ sepText es := by
  induction es with
  | nil => cases he
  | cons e' es ih =>
    rw [sepText_cons]
    rcases List.mem_cons.mp he with rfl | h
    · simp [hx]
    · have := ih h
      simp [this]

theorem mem_commaList {es : List (List Nat)} {e : List Nat} {x : Nat} (he : e ∈ es)
    (hx : x ∈ e) : x ∈ commaList es := by
  cases es with
  | nil => cases he
  | cons e' es =>
    rw [commaList_cons]
    rcases List.mem_cons.mp he with rfl | h
    · exact List.mem_append_left _ hx
    · exact List.mem_append_right _ (mem_sepText h hx)

/-- The pairs of a map text in a buffer are elements of rule `KeyValuePair`. -/
theorem pairs_delimited {Buffer : String} {q : Nat} {pairs : List (List (List Nat) × List Nat)}
    {tail rest : List Nat}
    (hk : ∀ kv ∈ pairs, kv.1.all isStringItem = true)
    (hv : ∀ kv ∈ pairs, (∃ l : LiteralForm, l.wf = true ∧ kv.2 = l.text) ∨
      (Delimited .ruleExpressionOrWildcard 125 kv.2 ∧ noSpHead kv.2 = true))
    (hB : (runes Buffer).drop q = 123 :: (commaList (pairs.map pairText) ++ tail) ++ rest) :
    ∀ x ∈ pairs.map pairText, Delimited .ruleKeyValuePair 125 x ∧ noSpHead x = true := by
  intro x hx
  obtain ⟨kv, hkv, rfl⟩ := List.mem_map.mp hx
  have hend : ∀ y ∈ pairText kv, y ≠ end_symbol := by
    intro y hy
    have h1 : y ∈ commaList (pairs.map pairText) := mem_commaList hx hy
    have h2 : y ∈ (runes Buffer).drop q := by
      rw [hB]; simp [h1]
    exact Nat.ne_of_lt (runes_lt_end Buffer y (List.mem_of_mem_drop h2))
  have hitems : kv.1.all (fun i => isStringItem i && i.all (fun x => x != end_symbol)) =
      true := by
    rw [List.all_eq_true]
    intro i hi
    have h1 := List.all_eq_true.mp (hk kv hkv) i hi
    simp only [Bool.and_eq_true, h1, true_and, List.all_eq_true, bne_iff_ne, ne_eq]
    intro y hy
    apply hend
    simp only [pairText, List.cons_append, List.mem_cons, List.mem_append, List.mem_flatten]
    exact Or.inr (Or.inl (Or.inl ⟨i, hi, hy⟩))
  have hval : Delimited .ruleExpressionOrWildcard 125 kv.2 ∧ noSpHead kv.2 = true := by
    rcases hv kv hkv with ⟨l, hl, he⟩ | h
    · rw [he]
      exact ⟨Delimited_ExpressionOrWildcard l hl (Or.inr rfl), (l.head hl).2⟩
    · exact h
  exact Delimited_KeyValuePair kv.1 kv.2 hitems hval.1 hval.2

/-- C18: map literals reject a trailing comma.  For every non-empty list of key/value pairs
`'k':v`, with `k` a sequence of string items and `v` a literal, or any text that rule
ExpressionOrWildcard matches exactly before a `,` and before a `}`: called where
`{k1:v1, ..., kn:vn,}` stands, the rule function of MapExpr returns false with position,
token index and depth as they were at the call; called where `{k1:v1, ..., kn:vn}` stands,
it returns true at the end of this text.  `EVAL 1 ON {'a':1, 'b':'x',}` is a parse error. -/
theorem C18_map_trailing_comma (Bt Bn : String) (st sn : State)
    (pairs : List (List (List Nat) × List Nat)) (restt restn : List Nat)
    (hne : pairs ≠ [])
    (hk : ∀ kv ∈ pairs, kv.1.all isStringItem = true)
    (hv : ∀ kv ∈ pairs, (∃ l : LiteralForm, l.wf = true ∧ kv.2 = l.text) ∨
      (Delimited .ruleExpressionOrWildcard 125 kv.2 ∧ noSpHead kv.2 = true))
    (hst : st.tokenIndex ≤ st.tree.length) (hsn : sn.tokenIndex ≤ sn.tree.length)
    (hBt : (runes Bt).drop st.position =
      123 :: (commaList (pairs.map pairText) ++ [44, 125]) ++ restt)
    (hBn : (runes Bn).drop sn.position =
      123 :: (commaList (pairs.map pairText) ++ [125]) ++ restn) :
    (∃ s', ruleCall Bt .ruleMapExpr st = .fail s' ∧
      s'.position = st.position ∧ s'.tokenIndex = st.tokenIndex ∧ s'.depth = st.depth) ∧
    (∃ s', ruleCall Bn .ruleMapExpr sn = .ok s' ∧
      s'.position = sn.position + 1 + (commaList (pairs.map pairText)).length + 1 ∧
      s'.depth = sn.depth) ∧
    parseExecute "EVAL 1 ON \x7b'a':1, 'b':'x',\x7d" = .parseError ∧
    (∃ cs, parseExecute "EVAL 1 ON \x7b'a':1, 'b':'x'\x7d" = .calls cs ∧
      pushes cs =
        [.PushComponent 5 6 (.text .NewNumericLiteral (runes "1")),
         .PushComponent 11 14 (.text .NewStringLiteral (runes "'a'")),
         .PushComponent 15 16 (.text .NewNumericLiteral (runes "1")),
         .PushComponent 18 21 (.text .NewStringLiteral (runes "'b'")),
         .PushComponent 22 25 (.text .NewStringLiteral (runes "'x'"))]) := by
  have hpos : ∀ {B : String} {q : Nat} {x : Nat} {xs : List Nat},
      (runes B).drop q = x :: xs → q ≤ (runes B).length := by
    intro B q x xs h
    by_contra hc
    rw [List.drop_eq_nil_of_le (by omega)] at h
    cases h
  have hdt := pairs_delimited hk hv hBt
  have hdn := pairs_delimited hk hv hBn
  obtain ⟨kv, pairs', rfl⟩ : ∃ kv pairs', pairs = kv :: pairs' := by
    cases pairs with
    | nil => exact absurd rfl hne
    | cons kv pairs' => exact ⟨kv, pairs', rfl⟩
  rw [List.map_cons] at hdt hdn hBt hBn ⊢
  refine ⟨?_, ?_, parseExecute_parseError 114 (by decide) (by decide!), ?_⟩
  · have h := (Eval_MapExpr_list (pairText kv) (pairs'.map pairText) hdt st.depth st.position
      (st.tree.take st.tokenIndex).reverse).1 (restt ++ [end_symbol])
    have hI : (Init (runes Bt)).drop st.position =
        123 :: (commaList (pairText kv :: pairs'.map pairText) ++
          44 :: 125 :: (restt ++ [end_symbol])) := by
      rw [Init_runes_drop Bt (hpos hBt), hBt]; simp
    rw [← hI] at h
    exact ruleCall_fail_of_eval hst h
  · obtain ⟨elems, h⟩ := (Eval_MapExpr_list (pairText kv) (pairs'.map pairText) hdn sn.depth
      sn.position (sn.tree.take sn.tokenIndex).reverse).2
    have h := h (restn ++ [end_symbol])
    have hI : (Init (runes Bn)).drop sn.position =
        123 :: (commaList (pairText kv :: pairs'.map pairText) ++
          125 :: (restn ++ [end_symbol])) := by
      rw [Init_runes_drop Bn (hpos hBn), hBn]; simp
    rw [← hI] at h
    obtain ⟨s', h1, h2, h3, _⟩ := ruleCall_ok_of_eval hsn h
    exact ⟨s', h1, h2, h3⟩
  · obtain ⟨cs, h, hP⟩ := parseExecute_check 114 "EVAL 1 ON \x7b'a':1, 'b':'x'\x7d"
      (fun cs => decide (pushes cs =
        [.PushComponent 5 6 (.text .NewNumericLiteral (runes "1")),
         .PushComponent 11 14 (.text .NewStringLiteral (runes "'a'")),
         .PushComponent 15 16 (.text .NewNumericLiteral (runes "1")),
         .PushComponent 18 21 (.text .NewStringLiteral (runes "'b'")),
         .PushComponent 22 25 (.text .NewStringLiteral (runes "'x'"))])) (by decide)
      (by decide!)
    exact ⟨cs, h, of_decide_eq_true hP⟩

/-- C18, witness: the pairs `'a':1` and `'b':'x'`, in the state after `EVAL 1 ON ` (position
10, three tokens recorded, depth 5): on `EVAL 1 ON {'a':1, 'b':'x',}` the rule function
returns false and leaves position 10, token index 3 and depth 5. -/
theorem C18_map_trailing_comma_witness :
    ∃ s', ruleCall "EVAL 1 ON \x7b'a':1, 'b':'x',\x7d" .ruleMapExpr
        ⟨10, 3, 5, [⟨.rulespOpt, 0, 0, 1⟩, ⟨.rulesp, 4, 5, 5⟩, ⟨.rulesp, 6, 7, 5⟩]⟩ =
        .fail s' ∧
      s'.position = 10 ∧ s'.tokenIndex = 3 ∧ s'.depth = 5 :=
  (C18_map_trailing_comma "EVAL 1 ON \x7b'a':1, 'b':'x',\x7d" "\x7b'a':1, 'b':'x'\x7d"
    ⟨10, 3, 5, [⟨.rulespOpt, 0, 0, 1⟩, ⟨.rulesp, 4, 5, 5⟩, ⟨.rulesp, 6, 7, 5⟩]⟩ ⟨0, 0, 0, []⟩
    [([[97]], [49]), ([[98]], [39, 120, 39])] [] []
    (by decide) (by decide)
    (fun kv hkv => by
      simp only [List.mem_cons, List.mem_singleton, List.not_mem_nil, or_false] at hkv
      rcases hkv with rfl | rfl
      · exact Or.inl ⟨.int false [49], by decide, rfl⟩
      · exact Or.inl ⟨.str [[120]], by decide, rfl⟩)
    (by decide) (by decide) (by decide) (by decide)).1



/-- A text that rule `LoadStateStmt` matches starts with `l` or `L`. -/
theorem Eval_LoadStateStmt_head {d p : Nat} {r : List Nat} {t : List token32} {p1 : Nat}
    {r1 : List Nat} {t1 : List token32}
    (h : Eval (.call .ruleLoadStateStmt) d p r t (.ok p1 r1 t1)) :
    ∃ c r2, r = c :: r2 ∧ (c = 'l'.toNat ∨ c = 'L'.toNat) := by
  obtain ⟨t2, _, hb⟩ := h.call_inv grammar_LoadStateStmt
  obtain ⟨pa, ra, ta, ha, _⟩ := hb.seq_inv
  cases r with
  | nil =>
    have hp : Eval (.alt (.chr 'l') (.chr 'L')) (d + 1) p [] t .panic :=
      Eval.of_execF 2 rfl (fun hc => ResF.noConfusion hc)
    have := ha.det hp
    simp at this
  | cons c r2 =>
    by_cases h1 : c = 'l'.toNat
    · exact ⟨c, r2, rfl, Or.inl h1⟩
    · by_cases h2 : c = 'L'.toNat
      · exact ⟨c, r2, rfl, Or.inr h2⟩
      · have := ha.det (Eval.alt_fail (chr_fail h1 _ _ _ _) (chr_fail h2 _ _ _ _))
        simp at this

/-- On a text that starts with `l` or `L` the alternatives of rule `StateStmt` before the
two LOAD STATE statements fail. -/
theorem Eval_StateStmt_before_load (c : Nat) (hc : c = 'l'.toNat ∨ c = 'L'.toNat) (d p : Nat)
    (r : List Nat) (t : List token32) :
    Eval (.call .ruleCreateStateStmt) d p (c :: r) t .fail ∧
    Eval (.call .ruleUpdateStateStmt) d p (c :: r) t .fail ∧
    Eval (.call .ruleDropStateStmt) d p (c :: r) t .fail := by
  rcases hc with rfl | rfl
  · exact ⟨Eval.of_execF 6 rfl (fun hc => ResF.noConfusion hc),
      Eval.of_execF 6 rfl (fun hc => ResF.noConfusion hc),
      Eval.of_execF 6 rfl (fun hc => ResF.noConfusion hc)⟩
  · exact ⟨Eval.of_execF 6 rfl (fun hc => ResF.noConfusion hc),
      Eval.of_execF 6 rfl (fun hc => ResF.noConfusion hc),
      Eval.of_execF 6 rfl (fun hc => ResF.noConfusion hc)⟩

/-- Rule `StateStmt` on a LOAD STATE statement: the form with the trailing clause is tried
first, the form without it next. -/
theorem Eval_StateStmt_load {d p : Nat} {r : List Nat} {t : List token32} :
    (∀ p2 r2 t2, Eval (.call .ruleLoadStateOrCreateStmt) (d + 1) p r t (.ok p2 r2 t2) →
      Eval (.call .ruleStateStmt) d p r t (.ok p2 r2 (⟨.ruleStateStmt, p, p2, d⟩ :: t2))) ∧
    (Eval (.call .ruleLoadStateOrCreateStmt) (d + 1) p r t .fail →
      ∀ p1 r1 t1, Eval (.call .ruleLoadStateStmt) (d + 1) p r t (.ok p1 r1 t1) →
        Eval (.call .ruleStateStmt) d p r t (.ok p1 r1 (⟨.ruleStateStmt, p, p1, d⟩ :: t1))) := by
  constructor
  · intro p2 r2 t2 h
    obtain ⟨pl, rl, q1, q2, inner1, mid, inner2, hl, _⟩ := Eval_LoadStateOrCreateStmt_tokens h
    obtain ⟨c, r3, rfl, hc⟩ := Eval_LoadStateStmt_head hl
    obtain ⟨f1, f2, f3⟩ := Eval_StateStmt_before_load c hc (d + 1) p r3 t
    exact Eval.call_ok grammar_StateStmt
      (Eval.alt_fail f1 (Eval.alt_fail f2 (Eval.alt_fail f3 (Eval.alt_ok h))))
  · intro hf p1 r1 t1 h
    obtain ⟨c, r3, rfl, hc⟩ := Eval_LoadStateStmt_head h
    obtain ⟨f1, f2, f3⟩ := Eval_StateStmt_before_load c hc (d + 1) p r3 t
    exact Eval.call_ok grammar_StateStmt
      (Eval.alt_fail f1 (Eval.alt_fail f2 (Eval.alt_fail f3 (Eval.alt_fail hf (Eval.alt_ok h)))))

/-- C19: both LOAD STATE forms are accepted and told apart by the trailing clause.  On the
input `Buffer` left at a position `p` (at any depth `d`, after any tokens `t`): each of the
block rules `SetOptSpecs` (the SET block) and `SourceSinkSpecs` (the WITH block) returns true
with a text span that is empty exactly when its optional group does not match, and `Execute`
issues `AssembleSourceSinkSpecs` with that span on its tokens.  Rule `LoadStateStmt` returns
false, or returns true and then `Execute` issues, of the calls `AssembleSourceSinkSpecs`,
`AssembleLoadState` and `AssembleLoadStateOrCreate`, exactly `AssembleSourceSinkSpecs` with
the span of the SET block and `AssembleLoadState`, never `AssembleLoadStateOrCreate`.  Rule
`LoadStateOrCreateStmt` returns false, or returns true on a text that starts with a match of
rule `LoadStateStmt`, and then `Execute` issues `AssembleSourceSinkSpecs` for the SET block,
`AssembleLoadState`, `AssembleSourceSinkSpecs` with the span of the WITH block and
`AssembleLoadStateOrCreate`, in this order.  Rule `StateStmt` takes the form with the
trailing clause when it matches and the form without it otherwise.  From `SingleStatement`,
`LOAD STATE s TYPE t` with and without `SET a=1`, followed or not by
`OR CREATE IF NOT EXISTS` with and without `WITH b=2`, is accepted with the calls listed,
the span of an absent WITH block being the empty span `43 43`. -/
theorem C19_load_state_forms (Buffer : String) (d p : Nat) (t : List token32) :
    (∀ RA ∈ [(pegRule.ruleSetOptSpecs, pegRule.ruleAction46),
        (pegRule.ruleSourceSinkSpecs, pegRule.ruleAction44)],
      ∃ p1 r1 inner,
        Eval (.call RA.1) d p (runes Buffer ++ [end_symbol]) t (.ok p1 r1
          (⟨RA.1, p, p1, d⟩ :: ⟨RA.2, p1, p1, d + 1⟩ :: ⟨.rulePegText, p, p1, d + 1⟩ ::
            (inner ++ t))) ∧
        (∀ tok ∈ inner, loadAction tok.rule = false) ∧
        (p1 = p ↔ Eval (clauseGroup RA.1) (d + 2) p (runes Buffer ++ [end_symbol]) t .fail) ∧
        ∀ (X _buffer : List Nat) (b e : Nat) (cs : List Call),
          executeLoop X _buffer (⟨RA.1, p, p1, d⟩ :: ⟨RA.2, p1, p1, d + 1⟩ ::
            ⟨.rulePegText, p, p1, d + 1⟩ :: inner).reverse b e = some cs →
          cs.filter loadAssembly = [.span .AssembleSourceSinkSpecs p p1]) ∧
    (Eval (.call .ruleLoadStateStmt) d p (runes Buffer ++ [end_symbol]) t .fail ∨
      ∃ p1 r1 new q,
        Eval (.call .ruleLoadStateStmt) d p (runes Buffer ++ [end_symbol]) t
          (.ok p1 r1 (new ++ t)) ∧
        ⟨.ruleSetOptSpecs, q, p1, d + 1⟩ ∈ new ∧
        ∀ (X _buffer : List Nat) (b e : Nat) (cs : List Call),
          executeLoop X _buffer new.reverse b e = some cs →
          cs.filter loadAssembly =
            [.span .AssembleSourceSinkSpecs q p1, .simple .AssembleLoadState]) ∧
    (Eval (.call .ruleLoadStateOrCreateStmt) d p (runes Buffer ++ [end_symbol]) t .fail ∨
      ∃ p2 r2 new pl rl tl q1 q2,
        Eval (.call .ruleLoadStateOrCreateStmt) d p (runes Buffer ++ [end_symbol]) t
          (.ok p2 r2 (new ++ t)) ∧
        Eval (.call .ruleLoadStateStmt) (d + 1) p (runes Buffer ++ [end_symbol]) t
          (.ok pl rl tl) ∧
        ⟨.ruleSetOptSpecs, q1, pl, d + 2⟩ ∈ new ∧ ⟨.ruleSourceSinkSpecs, q2, p2, d + 1⟩ ∈ new ∧
        pl ≤ q2 ∧
        ∀ (X _buffer : List Nat) (b e : Nat) (cs : List Call),
          executeLoop X _buffer new.reverse b e = some cs →
          cs.filter loadAssembly =
            [.span .AssembleSourceSinkSpecs q1 pl, .simple .AssembleLoadState,
              .span .AssembleSourceSinkSpecs q2 p2, .simple .AssembleLoadStateOrCreate]) ∧
    ((∀ p2 r2 t2, Eval (.call .ruleLoadStateOrCreateStmt) (d + 1) p
        (runes Buffer ++ [end_symbol]) t (.ok p2 r2 t2) →
      Eval (.call .ruleStateStmt) d p (runes Buffer ++ [end_symbol]) t
        (.ok p2 r2 (⟨.ruleStateStmt, p, p2, d⟩ :: t2))) ∧
     (Eval (.call .ruleLoadStateOrCreateStmt) (d + 1) p (runes Buffer ++ [end_symbol]) t .fail →
      ∀ p1 r1 t1, Eval (.call .ruleLoadStateStmt) (d + 1) p (runes Buffer ++ [end_symbol]) t
          (.ok p1 r1 t1) →
        Eval (.call .ruleStateStmt) d p (runes Buffer ++ [end_symbol]) t
          (.ok p1 r1 (⟨.ruleStateStmt, p, p1, d⟩ :: t1)))) ∧
    parseExecute "LOAD STATE s TYPE t" = .calls
      [.PushComponent 11 12 (.text .StreamIdentifier (runes "s")),
       .PushComponent 18 19 (.text .SourceSinkType (runes "t")),
       .span .AssembleSourceSinkSpecs 19 19,
       .simple .AssembleLoadState,
       .span .IncludeTrailingWhitespace 0 19] ∧
    parseExecute "LOAD STATE s TYPE t SET a=1" = .calls
      [.PushComponent 11 12 (.text .StreamIdentifier (runes "s")),
       .PushComponent 18 19 (.text .SourceSinkType (runes "t")),
       .PushComponent 24 25 (.text .SourceSinkParamKey (runes "a")),
       .PushComponent 26 27 (.text .NewNumericLiteral (runes "1")),
       .simple .AssembleSourceSinkParam,
       .span .AssembleSourceSinkSpecs 19 27,
       .simple .AssembleLoadState,
       .span .IncludeTrailingWhitespace 0 27] ∧
    parseExecute "LOAD STATE s TYPE t OR CREATE IF NOT EXISTS" = .calls
      [.PushComponent 11 12 (.text .StreamIdentifier (runes "s")),
       .PushComponent 18 19 (.text .SourceSinkType (runes "t")),
       .span .AssembleSourceSinkSpecs 19 19,
       .simple .AssembleLoadState,
       .span .AssembleSourceSinkSpecs 43 43,
       .simple .AssembleLoadStateOrCreate,
       .span .IncludeTrailingWhitespace 0 43] ∧
    parseExecute "LOAD STATE s TYPE t OR CREATE IF NOT EXISTS WITH b=2" = .calls
      [.PushComponent 11 12 (.text .StreamIdentifier (runes "s")),
       .PushComponent 18 19 (.text .SourceSinkType (runes "t")),
       .span .AssembleSourceSinkSpecs 19 19,
       .simple .AssembleLoadState,
       .PushComponent 49 50 (.text .SourceSinkParamKey (runes "b")),
       .PushComponent 51 52 (.text .NewNumericLiteral (runes "2")),
       .simple .AssembleSourceSinkParam,
       .span .AssembleSourceSinkSpecs 43 52,
       .simple .AssembleLoadStateOrCreate,
       .span .IncludeTrailingWhitespace 0 52] ∧
    parseExecute "LOAD STATE s TYPE t SET a=1 OR CREATE IF NOT EXISTS WITH b=2" = .calls
      [.PushComponent 11 12 (.text .StreamIdentifier (runes "s")),
       .PushComponent 18 19 (.text .SourceSinkType (runes "t")),
       .PushComponent 24 25 (.text .SourceSinkParamKey (runes "a")),
       .PushComponent 26 27 (.text .NewNumericLiteral (runes "1")),
       .simple .AssembleSourceSinkParam,
       .span .AssembleSourceSinkSpecs 19 27,
       .simple .AssembleLoadState,
       .PushComponent 57 58 (.text .SourceSinkParamKey (runes "b")),
       .PushComponent 59 60 (.text .NewNumericLiteral (runes "2")),
       .simple .AssembleSourceSinkParam,
       .span .AssembleSourceSinkSpecs 51 60,
       .simple .AssembleLoadStateOrCreate,
       .span .IncludeTrailingWhitespace 0 60] := by
  have hg := Good_text (runes Buffer)
  refine ⟨?_, ?_, ?_, Eval_StateStmt_load, parseExecute_calls 51 (by decide) (by decide!),
    parseExecute_calls 61 (by decide) (by decide!),
    parseExecute_calls 52 (by decide) (by decide!),
    parseExecute_calls 58 (by decide) (by decide!),
    parseExecute_calls 61 (by decide) (by decide!)⟩
  · intro RA hRA
    simp only [List.mem_cons, List.mem_singleton, List.not_mem_nil, or_false] at hRA
    have key : ∀ (R A : pegRule) (g : Peg),
        grammar R = .expr (.seq (.text (.opt g)) (.call A)) → grammar A = .action →
        starOK g = true → callsOK g = true → callsIn paramRule g = true →
        mayEmpty g = false → R ≠ .rulePegText → A ≠ .rulePegText →
        (∀ X b e, executeAction X b e A = some [.span .AssembleSourceSinkSpecs b e]) →
        (∀ X b e, executeAction X b e R = some []) →
        ∃ p1 r1 inner,
          Eval (.call R) d p (runes Buffer ++ [end_symbol]) t (.ok p1 r1
            (⟨R, p, p1, d⟩ :: ⟨A, p1, p1, d + 1⟩ :: ⟨.rulePegText, p, p1, d + 1⟩ ::
              (inner ++ t))) ∧
          (∀ tok ∈ inner, loadAction tok.rule = false) ∧
          (p1 = p ↔ Eval g (d + 2) p (runes Buffer ++ [end_symbol]) t .fail) ∧
          ∀ (X _buffer : List Nat) (b e : Nat) (cs : List Call),
            executeLoop X _buffer (⟨R, p, p1, d⟩ :: ⟨A, p1, p1, d + 1⟩ ::
              ⟨.rulePegText, p, p1, d + 1⟩ :: inner).reverse b e = some cs →
            cs.filter loadAssembly = [.span .AssembleSourceSinkSpecs p p1] := by
      intro R A g hR hA hs hc hin hne hRt hAt hxA hxR
      obtain ⟨p1, r1, inner, h1, hi, hiff⟩ := Eval_specs_slot hR hA hs hc hin hne d p _ t hg
      refine ⟨p1, r1, inner, h1, hi, hiff, ?_⟩
      intro X B b e cs hcs
      have e1 : (⟨R, p, p1, d⟩ :: ⟨A, p1, p1, d + 1⟩ :: ⟨.rulePegText, p, p1, d + 1⟩ :: inner :
          List token32).reverse =
          inner.reverse ++ [⟨.rulePegText, p, p1, d + 1⟩, ⟨A, p1, p1, d + 1⟩, ⟨R, p, p1, d⟩] := by
        simp
      rw [e1] at hcs
      obtain ⟨cs0, ds, b1, e2, rfl, hcs0, h2⟩ := executeLoop_load_skip X B _ _ b e cs
        (fun tok htok => hi tok (List.mem_reverse.mp htok)) hcs
      rw [executeLoop_cons_text] at h2
      cases hsl : slice B p p1 with
      | none => rw [hsl] at h2; simp at h2
      | some x =>
        rw [hsl] at h2
        simp only [] at h2
        rw [executeLoop_cons_other X B _ _ p p1 hAt, hxA,
          executeLoop_cons_other X B _ _ p p1 hRt, hxR] at h2
        simp only [executeLoop, Option.some.injEq] at h2
        subst h2
        rw [List.filter_append, hcs0]
        rfl
    rcases hRA with rfl | rfl
    · exact key .ruleSetOptSpecs .ruleAction46 _ rfl rfl rfl rfl rfl rfl (by decide) (by decide)
        (fun _ _ _ => rfl) (fun _ _ _ => rfl)
    · exact key .ruleSourceSinkSpecs .ruleAction44 _ rfl rfl rfl rfl rfl rfl (by decide)
        (by decide) (fun _ _ _ => rfl) (fun _ _ _ => rfl)
  · rcases Eval.total .ruleLoadStateStmt d p (runes Buffer ++ [end_symbol]) t hg rfl with
      h | ⟨p1, r1, t1, h, _⟩
    · exact Or.inl h
    · obtain ⟨q, inner, rfl, hi⟩ := Eval_LoadStateStmt_tokens h
      refine Or.inr ⟨p1, r1, ⟨.ruleLoadStateStmt, p, p1, d⟩ :: ⟨.ruleAction21, p1, p1, d + 1⟩ ::
        ⟨.ruleSetOptSpecs, q, p1, d + 1⟩ :: ⟨.ruleAction46, p1, p1, d + 1 + 1⟩ ::
        ⟨.rulePegText, q, p1, d + 1 + 1⟩ :: inner, q, h, by simp, ?_⟩
      intro X B b e cs hcs
      have hcs2 : executeLoop X B ((⟨.ruleLoadStateStmt, p, p1, d⟩ ::
          ⟨.ruleAction21, p1, p1, d + 1⟩ ::
          ⟨.ruleSetOptSpecs, q, p1, d + 1⟩ :: ⟨.ruleAction46, p1, p1, d + 1 + 1⟩ ::
          ⟨.rulePegText, q, p1, d + 1 + 1⟩ :: inner : List token32).reverse ++ []) b e =
          some cs := by
        rw [List.append_nil]; exact hcs
      obtain ⟨cs0, ds, rfl, hcs0, h3⟩ := executeLoop_LoadStateStmt X B p p1 q d inner hi [] b e
        cs hcs2
      simp only [executeLoop, Option.some.injEq] at h3
      subst h3
      rw [List.append_nil]
      exact hcs0
  · rcases Eval.total .ruleLoadStateOrCreateStmt d p (runes Buffer ++ [end_symbol]) t hg rfl with
      h | ⟨p2, r2, t2, h, _⟩
    · exact Or.inl h
    · obtain ⟨pl, rl, q1, q2, inner1, mid, inner2, hl, rfl, hi1, hm, hi2, hle⟩ :=
        Eval_LoadStateOrCreateStmt_tokens h
      refine Or.inr ⟨p2, r2, ⟨.ruleLoadStateOrCreateStmt, p, p2, d⟩ ::
        ⟨.ruleAction22, p2, p2, d + 1⟩ ::
        ⟨.ruleSourceSinkSpecs, q2, p2, d + 1⟩ :: ⟨.ruleAction44, p2, p2, d + 1 + 1⟩ ::
        ⟨.rulePegText, q2, p2, d + 1 + 1⟩ :: (inner2 ++ (mid ++
        (⟨.ruleLoadStateStmt, p, pl, d + 1⟩ :: ⟨.ruleAction21, pl, pl, d + 1 + 1⟩ ::
        ⟨.ruleSetOptSpecs, q1, pl, d + 1 + 1⟩ :: ⟨.ruleAction46, pl, pl, d + 1 + 1 + 1⟩ ::
        ⟨.rulePegText, q1, pl, d + 1 + 1 + 1⟩ :: inner1))), pl, rl, _, q1, q2, ?_, hl,
        by simp, by simp, hle, ?_⟩
      · simpa only [List.cons_append, List.append_assoc] using h
      · intro X B b e cs hcs
        exact executeLoop_LoadStateOrCreateStmt X B p pl p2 q1 q2 d inner1 mid inner2 hi1 hm hi2
          b e cs hcs



/-- C20: a function application used as a stream-like in FROM cannot carry an ORDER BY
suffix.  `SELECT ISTREAM a FROM f(x ORDER BY y) [RANGE 1 TUPLES]` is a parse error, whereas
`SELECT ISTREAM a FROM f(x) [RANGE 1 TUPLES]` parses from SingleStatement and Execute issues
AssembleFuncApp directly followed by AssembleUDSFFuncApp for `f(x)`. -/
theorem C20_udsf_without_order_by :
    parseExecute "SELECT ISTREAM a FROM f(x ORDER BY y) [RANGE 1 TUPLES]" = .parseError ∧
    parseExecute "SELECT ISTREAM a FROM f(x) [RANGE 1 TUPLES]" = .calls
    [.PushComponent 7 14 (.const .Istream),
     .span .AssembleEmitterOptions 14 14,
     .simple .AssembleEmitter,
     .PushComponent 15 16 (.text .NewRowValue (runes "a")),
     .span .AssembleTypeCast 15 16,
     .span .AssembleUnaryPrefixOperation 15 16,
     .span .AssembleBinaryOperation 15 16,
     .span .AssembleBinaryOperation 15 16,
     .span .AssembleBinaryOperation 15 16,
     .span .AssembleBinaryOperation 15 16,
     .span .AssembleBinaryOperation 15 16,
     .span .AssembleUnaryPrefixOperation 15 16,
     .span .AssembleBinaryOperation 15 16,
     .span .AssembleBinaryOperation 15 16,
     .span .AssembleProjections 14 16,
     .PushComponent 22 23 (.text .FuncName (runes "f")),
     .PushComponent 24 25 (.text .NewRowValue (runes "x")),
     .span .AssembleTypeCast 24 25,
     .span .AssembleUnaryPrefixOperation 24 25,
     .span .AssembleBinaryOperation 24 25,
     .span .AssembleBinaryOperation 24 25,
     .span .AssembleBinaryOperation 24 25,
     .span .AssembleBinaryOperation 24 25,
     .span .AssembleBinaryOperation 24 25,
     .span .AssembleUnaryPrefixOperation 24 25,
     .span .AssembleBinaryOperation 24 25,
     .span .AssembleBinaryOperation 24 25,
     .span .AssembleExpressions 24 25,
     .span .AssembleExpressions 25 25,
     .simple .AssembleFuncApp,
     .simple .AssembleUDSFFuncApp,
     .PushComponent 34 35 (.text .NewNumericLiteral (runes "1")),
     .PushComponent 36 42 (.const .Tuples),
     .simple .AssembleInterval,
     .simple .AssembleStreamWindow,
     .simple .EnsureAliasedStreamWindow,
     .span .AssembleWindowedFrom 16 43,
     .span .AssembleFilter 43 43,
     .span .AssembleGrouping 43 43,
     .span .AssembleHaving 43 43,
     .simple .AssembleSelect,
     .span .IncludeTrailingWhitespace 0 43] :=
  ⟨parseExecute_parseError 122 (by decide) (by decide!),
   parseExecute_calls 122 (by decide) (by decide!)⟩



theorem grammar_RelationLike : grammar .ruleRelationLike = .expr Body.ruleRelationLike := rfl
theorem grammar_AliasedStreamWindow :
    grammar .ruleAliasedStreamWindow = .expr Body.ruleAliasedStreamWindow := rfl
theorem grammar_StreamWindow : grammar .ruleStreamWindow = .expr Body.ruleStreamWindow := rfl
theorem grammar_Interval : grammar .ruleInterval = .expr Body.ruleInterval := rfl
theorem grammar_TimeInterval : grammar .ruleTimeInterval = .expr Body.ruleTimeInterval := rfl
theorem grammar_TuplesInterval : grammar .ruleTuplesInterval = .expr Body.ruleTuplesInterval := rfl
theorem grammar_Action42 : grammar .ruleAction42 = .action := rfl

/-- A literal that matches reads its rune. -/
theorem Eval.chr_inv {c : Char} {d p : Nat} {r : List Nat} {t : List token32} {p1 : Nat}
    {r1 : List Nat} {t1 : List token32} (h : Eval (.chr c) d p r t (.ok p1 r1 t1)) :
    r = c.toNat :: r1 ∧ p1 = p + 1 ∧ t1 = t := by
  rw [Eval_chr] at h
  cases r with
  | nil => simp at h
  | cons x xs =>
    simp only [] at h
    split at h
    · simp at h
    · rename_i hx
      simp only [ResF.ok.injEq] at h
      obtain ⟨rfl, rfl, rfl⟩ := h
      have : x = c.toNat := by simpa using hx
      exact ⟨by rw [this], rfl, rfl⟩

/-- Every match of rule `RelationLike` starts with a match of rule `StreamWindow`. -/
theorem Eval_RelationLike_window {d p : Nat} {r : List Nat} {t : List token32} {p1 : Nat}
    {r1 : List Nat} {t1 : List token32}
    (h : Eval (.call .ruleRelationLike) d p r t (.ok p1 r1 t1)) :
    ∃ d2 p2 r2 t2, (d2 = d + 1 ∨ d2 = d + 2) ∧ p2 ≤ p1 ∧
      Eval (.call .ruleStreamWindow) d2 p r t (.ok p2 r2 t2) := by
  have hmono : ∀ {e : Peg} {d p : Nat} {r : List Nat} {t : List token32} {p1 : Nat}
      {r1 : List Nat} {t1 : List token32}, Eval e d p r t (.ok p1 r1 t1) → p ≤ p1 := by
    intro e d p r t p1 r1 t1 he
    obtain ⟨f, hf, _⟩ := he
    obtain ⟨w, _, hp, _, _, _⟩ := execF_consumed f e d p r t p1 r1 t1 hf
    omega
  obtain ⟨t2, _, hb⟩ := h.call_inv grammar_RelationLike
  rcases hb.alt_inv with h1 | ⟨_, h2⟩
  · obtain ⟨t3, _, hb3⟩ := h1.call_inv grammar_AliasedStreamWindow
    obtain ⟨p2, r2, t4, hw, hrest⟩ := hb3.seq_inv
    exact ⟨d + 2, p2, r2, t4, Or.inr rfl, hmono hrest, hw⟩
  · obtain ⟨p2, r2, t4, hw, hrest⟩ := h2.seq_inv
    exact ⟨d + 1, p2, r2, t4, Or.inl rfl, hmono hrest, hw⟩

/-- Every match of rule `StreamWindow` holds a match of rule `Interval`, and ends with `]`. -/
theorem Eval_StreamWindow_interval {d p : Nat} {r : List Nat} {t : List token32} {p1 : Nat}
    {r1 : List Nat} {t1 : List token32}
    (h : Eval (.call .ruleStreamWindow) d p r t (.ok p1 r1 t1)) :
    ∃ pi ri ti pj rj tj w, Eval (.call .ruleInterval) (d + 1) pi ri ti (.ok pj rj tj) ∧
      p ≤ pi ∧ pj ≤ p1 ∧ rj = w ++ ']'.toNat :: r1 := by
  have hcons : ∀ {e : Peg} {d p : Nat} {r : List Nat} {t : List token32} {p1 : Nat}
      {r1 : List Nat} {t1 : List token32}, Eval e d p r t (.ok p1 r1 t1) →
      p ≤ p1 ∧ ∃ w, r = w ++ r1 := by
    intro e d p r t p1 r1 t1 he
    obtain ⟨f, hf, _⟩ := he
    obtain ⟨w, hw, hp, _, _, _⟩ := execF_consumed f e d p r t p1 r1 t1 hf
    exact ⟨by omega, w, hw⟩
  obtain ⟨t2, _, hb⟩ := h.call_inv grammar_StreamWindow
  obtain ⟨a1, b1, c1, h1, hb⟩ := hb.seq_inv
  obtain ⟨a2, b2, c2, h2, hb⟩ := hb.seq_inv
  obtain ⟨a3, b3, c3, h3, hb⟩ := hb.seq_inv
  obtain ⟨a4, b4, c4, h4, hb⟩ := hb.seq_inv
  obtain ⟨a5, b5, c5, h5, hb⟩ := hb.seq_inv
  obtain ⟨a6, b6, c6, h6, hb⟩ := hb.seq_inv
  obtain ⟨a7, b7, c7, h7, hb⟩ := hb.seq_inv
  obtain ⟨a8, b8, c8, h8, hb⟩ := hb.seq_inv
  obtain ⟨a9, b9, c9, h9, hb⟩ := hb.seq_inv
  obtain ⟨rfl, rfl, _⟩ := hb.action_inv grammar_Action42
  obtain ⟨hr9, hp9, _⟩ := h9.chr_inv
  obtain ⟨hm8, w, hw8⟩ := hcons h8
  refine ⟨a6, b6, c6, a7, b7, c7, w, h7, ?_, ?_, ?_⟩
  · have := (hcons h1).1; have := (hcons h2).1; have := (hcons h3).1
    have := (hcons h4).1; have := (hcons h5).1; have := (hcons h6).1
    omega
  · omega
  · rw [hw8, hr9]

/-- What rule `Interval` matches: a time interval, whose count is a float or an integer
literal, or a tuples interval, whose count is an integer literal followed by whitespace. -/
theorem Eval_Interval_count {d p : Nat} {r : List Nat} {t : List token32} {p1 : Nat}
    {r1 : List Nat} {t1 : List token32}
    (h : Eval (.call .ruleInterval) d p r t (.ok p1 r1 t1)) :
    (∃ t2, Eval (.call .ruleTimeInterval) (d + 1) p r t (.ok p1 r1 t2) ∧
      ∃ p2 r2 t3, Eval (.call .ruleFloatLiteral) (d + 2) p r t (.ok p2 r2 t3) ∨
        Eval (.call .ruleNumericLiteral) (d + 2) p r t (.ok p2 r2 t3)) ∨
    (∃ t2, Eval (.call .ruleTimeInterval) (d + 1) p r t .fail ∧
      Eval (.call .ruleTuplesInterval) (d + 1) p r t (.ok p1 r1 t2) ∧
      ∃ p2 r2 t3 p3 r3 t4, Eval (.call .ruleNumericLiteral) (d + 2) p r t (.ok p2 r2 t3) ∧
        Eval (.call .rulesp) (d + 2) p2 r2 t3 (.ok p3 r3 t4)) := by
  obtain ⟨t2, _, hb⟩ := h.call_inv grammar_Interval
  rcases hb.alt_inv with h1 | ⟨h1, h2⟩
  · refine Or.inl ⟨t2, h1, ?_⟩
    obtain ⟨t3, _, hb3⟩ := h1.call_inv grammar_TimeInterval
    obtain ⟨p2, r2, t4, hlit, _⟩ := hb3.seq_inv
    rcases hlit.alt_inv with h3 | ⟨_, h3⟩
    · exact ⟨p2, r2, t4, Or.inl h3⟩
    · exact ⟨p2, r2, t4, Or.inr h3⟩
  · refine Or.inr ⟨t2, h1, h2, ?_⟩
    obtain ⟨t3, _, hb3⟩ := h2.call_inv grammar_TuplesInterval
    obtain ⟨p2, r2, t4, hlit, hrest⟩ := hb3.seq_inv
    obtain ⟨p3, r3, t5, hsp, _⟩ := hrest.seq_inv
    exact ⟨p2, r2, t4, p3, r3, t5, hlit, hsp⟩

/-- Rule `sp` fails before a `.`. -/
theorem Eval_sp_dot_fail (d p : Nat) (r : List Nat) (t : List token32) :
    Eval (.call .rulesp) d p (46 :: r) t .fail :=
  Eval.of_execF 12 rfl (fun hc => ResF.noConfusion hc)

/-- Rule `TuplesInterval` fails on every float text: the integer part is read as the
count and no whitespace follows it. -/
theorem Eval_TuplesInterval_float_fail (d p : Nat) (t : List token32) (neg : Bool)
    (ds r : List Nat) (hds : isDigits ds = true) :
    Eval (.call .ruleTuplesInterval) d p (signText neg ++ ds ++ 46 :: r) t .fail :=
  Eval.call_fail grammar_TuplesInterval
    (Eval.seq_ok (Eval_NumericLiteral (d + 1) p t neg ds 46 r hds (by decide))
      (Eval.seq_fail (Eval_sp_dot_fail _ _ _ _)))

/-- Claim C22: every relation of a FROM clause carries a window `[RANGE n UNIT]`:
every match of `RelationLike` starts with a match of `StreamWindow`, which holds a match
of `Interval` and ends with `]`; the count of a `TuplesInterval` is an integer literal
followed by whitespace, so the rule fails on every float text, while the count of a
`TimeInterval` is a float or an integer literal.  `SELECT ISTREAM a FROM s;` and
`SELECT ISTREAM a FROM s [RANGE 1.5 TUPLES]` are rejected, and the windows
`[RANGE 1 TUPLES]`, `[RANGE 1 SECONDS]`, `[RANGE 1.5 SECONDS]`, `[RANGE 1 MILLISECONDS]`
and `[RANGE 1.5 MILLISECONDS]` are accepted with the count pushed as written. -/
theorem C22_window_required (d p : Nat) (r : List Nat) (t : List token32) :
    (∀ p1 r1 t1, Eval (.call .ruleRelationLike) d p r t (.ok p1 r1 t1) →
      ∃ d2 p2 r2 t2, (d2 = d + 1 ∨ d2 = d + 2) ∧ p2 ≤ p1 ∧
        Eval (.call .ruleStreamWindow) d2 p r t (.ok p2 r2 t2)) ∧
    (∀ p1 r1 t1, Eval (.call .ruleStreamWindow) d p r t (.ok p1 r1 t1) →
      ∃ pi ri ti pj rj tj w, Eval (.call .ruleInterval) (d + 1) pi ri ti (.ok pj rj tj) ∧
        p ≤ pi ∧ pj ≤ p1 ∧ rj = w ++ ']'.toNat :: r1) ∧
    (∀ p1 r1 t1, Eval (.call .ruleInterval) d p r t (.ok p1 r1 t1) →
      (∃ t2, Eval (.call .ruleTimeInterval) (d + 1) p r t (.ok p1 r1 t2) ∧
        ∃ p2 r2 t3, Eval (.call .ruleFloatLiteral) (d + 2) p r t (.ok p2 r2 t3) ∨
          Eval (.call .ruleNumericLiteral) (d + 2) p r t (.ok p2 r2 t3)) ∨
      (∃ t2, Eval (.call .ruleTimeInterval) (d + 1) p r t .fail ∧
        Eval (.call .ruleTuplesInterval) (d + 1) p r t (.ok p1 r1 t2) ∧
        ∃ p2 r2 t3 p3 r3 t4,
          Eval (.call .ruleNumericLiteral) (d + 2) p r t (.ok p2 r2 t3) ∧
          Eval (.call .rulesp) (d + 2) p2 r2 t3 (.ok p3 r3 t4))) ∧
    (∀ (neg : Bool) (ds : List Nat), isDigits ds = true →
      Eval (.call .ruleTuplesInterval) d p (signText neg ++ ds ++ 46 :: r) t .fail) ∧
    parseExecute "SELECT ISTREAM a FROM s;" = .parseError ∧
    parseExecute "SELECT ISTREAM a FROM s" = .parseError ∧
    parseExecute "SELECT ISTREAM a FROM s [RANGE 1.5 TUPLES]" = .parseError ∧
    (∃ tree cs, Parse "SELECT ISTREAM a FROM s [RANGE 1 TUPLES]" = .nil tree ∧
      parseExecute "SELECT ISTREAM a FROM s [RANGE 1 TUPLES]" = .calls cs ∧
      intervalCalls cs = [.PushComponent 31 32 (.text .NewNumericLiteral [49]),
        .PushComponent 33 39 (.const .Tuples), .simple .AssembleInterval]) ∧
    (∃ tree cs, Parse "SELECT ISTREAM a FROM s [RANGE 1 SECONDS]" = .nil tree ∧
      parseExecute "SELECT ISTREAM a FROM s [RANGE 1 SECONDS]" = .calls cs ∧
      intervalCalls cs = [.PushComponent 31 32 (.text .NewNumericLiteral [49]),
        .PushComponent 33 40 (.const .Seconds), .simple .AssembleInterval]) ∧
    (∃ tree cs, Parse "SELECT ISTREAM a FROM s [RANGE 1.5 SECONDS]" = .nil tree ∧
      parseExecute "SELECT ISTREAM a FROM s [RANGE 1.5 SECONDS]" = .calls cs ∧
      intervalCalls cs = [.PushComponent 31 34 (.text .NewFloatLiteral [49, 46, 53]),
        .PushComponent 35 42 (.const .Seconds), .simple .AssembleInterval]) ∧
    (∃ tree cs, Parse "SELECT ISTREAM a FROM s [RANGE 1 MILLISECONDS]" = .nil tree ∧
      parseExecute "SELECT ISTREAM a FROM s [RANGE 1 MILLISECONDS]" = .calls cs ∧
      intervalCalls cs = [.PushComponent 31 32 (.text .NewNumericLiteral [49]),
        .PushComponent 33 45 (.const .Milliseconds), .simple .AssembleInterval]) ∧
    (∃ tree cs, Parse "SELECT ISTREAM a FROM s [RANGE 1.5 MILLISECONDS]" = .nil tree ∧
      parseExecute "SELECT ISTREAM a FROM s [RANGE 1.5 MILLISECONDS]" = .calls cs ∧
      intervalCalls cs = [.PushComponent 31 34 (.text .NewFloatLiteral [49, 46, 53]),
        .PushComponent 35 47 (.const .Milliseconds), .simple .AssembleInterval]) := by
  refine ⟨fun _ _ _ h => Eval_RelationLike_window h,
    fun _ _ _ h => Eval_StreamWindow_interval h,
    fun _ _ _ h => Eval_Interval_count h,
    fun neg ds hds => Eval_TuplesInterval_float_fail d p t neg ds r hds,
    parseExecute_parseError 100 (by decide) (by decide!),
    parseExecute_parseError 100 (by decide) (by decide!),
    parseExecute_parseError 100 (by decide) (by decide!), ?_, ?_, ?_, ?_, ?_⟩
  · exact run_prop 110 "SELECT ISTREAM a FROM s [RANGE 1 TUPLES]" _ (by decide!)
  · exact run_prop 110 "SELECT ISTREAM a FROM s [RANGE 1 SECONDS]" _ (by decide!)
  · exact run_prop 110 "SELECT ISTREAM a FROM s [RANGE 1.5 SECONDS]" _ (by decide!)
  · exact run_prop 110 "SELECT ISTREAM a FROM s [RANGE 1 MILLISECONDS]" _ (by decide!)
  · exact run_prop 110 "SELECT ISTREAM a FROM s [RANGE 1.5 MILLISECONDS]" _ (by decide!)



theorem grammar_jsonSetPathNonHead :
    grammar .rulejsonSetPathNonHead = .expr Body.rulejsonSetPathNonHead := rfl
theorem grammar_jsonNonNegativeArrayAccess :
    grammar .rulejsonNonNegativeArrayAccess = .expr Body.rulejsonNonNegativeArrayAccess := rfl

/-- A segment of a path that is written to does not start with `[-`: no negative index. -/
theorem Eval_jsonSetPathNonHead_negative (d p : Nat) (r : List Nat) (t : List token32) :
    Eval (.call .rulejsonSetPathNonHead) d p (91 :: 45 :: r) t .fail :=
  Eval.of_execF 12 rfl (fun hc => ResF.noConfusion hc)

/-- A segment of a path that is written to does not start with `[:`: no slice without a
lower bound. -/
theorem Eval_jsonSetPathNonHead_colon (d p : Nat) (r : List Nat) (t : List token32) :
    Eval (.call .rulejsonSetPathNonHead) d p (91 :: 58 :: r) t .fail :=
  Eval.of_execF 12 rfl (fun hc => ResF.noConfusion hc)

/-- A segment of a path that is written to does not start with `..`: no recursive
descent. -/
theorem Eval_jsonSetPathNonHead_descent (d p : Nat) (r : List Nat) (t : List token32) :
    Eval (.call .rulejsonSetPathNonHead) d p (46 :: 46 :: r) t .fail :=
  Eval.of_execF 12 rfl (fun hc => ResF.noConfusion hc)

/-- Rule `jsonMapSingleLevel` fails on a `[` before a digit. -/
theorem Eval_jsonMapSingleLevel_digit (d p x : Nat) (r : List Nat) (t : List token32)
    (hx : isDigit x = true) :
    Eval (.call .rulejsonMapSingleLevel) d p (91 :: x :: r) t .fail := by
  have h := (isDigit_iff x).mp hx
  obtain ⟨h1, h2⟩ := h
  interval_cases x <;> exact Eval.of_execF 12 rfl (fun hc => ResF.noConfusion hc)

/-- A segment of a path that is written to is no slice `[lo:`: after the digits of an
index only `]` is read. -/
theorem Eval_jsonSetPathNonHead_slice (d p : Nat) (ds r : List Nat) (t : List token32)
    (hds : isDigits ds = true) :
    Eval (.call .rulejsonSetPathNonHead) d p (91 :: (ds ++ 58 :: r)) t .fail := by
  obtain ⟨x, xs, rfl, hx, _⟩ := isDigits_head hds
  refine Eval.call_fail grammar_jsonSetPathNonHead
    (Eval.alt_fail (Eval_jsonMapSingleLevel_digit _ _ x _ _ hx) ?_)
  have e1 : Eval (.chr '[') (d + 1 + 1) p (91 :: (x :: xs ++ 58 :: r)) t
      (.ok (p + 1) (x :: xs ++ 58 :: r) t) :=
    Eval.of_execF 1 rfl (fun hc => ResF.noConfusion hc)
  have e2 := Eval_digitPlus (d + 1 + 1 + 1) t 58 r (by decide) (x :: xs) (p + 1) hds
  have e3 : Eval (.chr ']') (d + 1 + 1) (p + 1 + (x :: xs).length) (58 :: r)
      (⟨.rulePegText, p + 1, p + 1 + (x :: xs).length, d + 1 + 1⟩ :: t) .fail :=
    Eval.of_execF 1 rfl (fun hc => ResF.noConfusion hc)
  exact Eval.call_fail grammar_jsonNonNegativeArrayAccess
    (Eval.seq_ok e1 (Eval.seq_ok (Eval.text_ok e2) e3))

/-- Claim C23: a path that is written to admits only map keys and non-negative array
indices: a segment of it never starts with `[-`, `[:` or `..` and is never a slice
`[lo:`.  `SELECT ISTREAM a AS b[0] FROM s [RANGE 1 TUPLES]` is accepted with the target
`b[0]`; with the target `b[-1]`, `b[1:2]` or `b..c` the statement is rejected; and
`EVAL b[-1]`, `EVAL b[1:2]`, `EVAL b[:]` and `EVAL b..c` are each accepted as one
`RowValue` that spans the whole path. -/
theorem C23_write_path_read_path (d p : Nat) (r : List Nat) (t : List token32) :
    Eval (.call .rulejsonSetPathNonHead) d p (91 :: 45 :: r) t .fail ∧
    Eval (.call .rulejsonSetPathNonHead) d p (91 :: 58 :: r) t .fail ∧
    Eval (.call .rulejsonSetPathNonHead) d p (46 :: 46 :: r) t .fail ∧
    (∀ ds, isDigits ds = true →
      Eval (.call .rulejsonSetPathNonHead) d p (91 :: (ds ++ 58 :: r)) t .fail) ∧
    (∃ tree cs, Parse "SELECT ISTREAM a AS b[0] FROM s [RANGE 1 TUPLES]" = .nil tree ∧
      parseExecute "SELECT ISTREAM a AS b[0] FROM s [RANGE 1 TUPLES]" = .calls cs ∧
      spansOf .ruleTargetIdentifier tree = [(20, 24)] ∧
      spansOf .rulejsonSetPath tree = [(20, 24)] ∧
      spansOf .rulejsonNonNegativeArrayAccess tree = [(21, 24)] ∧
      pushes cs = [.PushComponent 7 14 (.const .Istream),
        .PushComponent 15 16 (.text .NewRowValue [97]),
        .PushComponent 20 24 (.text .Identifier [98, 91, 48, 93]),
        .PushComponent 30 31 (.text .NewStream [115]),
        .PushComponent 39 40 (.text .NewNumericLiteral [49]),
        .PushComponent 41 47 (.const .Tuples)]) ∧
    parseExecute "SELECT ISTREAM a AS b[-1] FROM s [RANGE 1 TUPLES]" = .parseError ∧
    parseExecute "SELECT ISTREAM a AS b[1:2] FROM s [RANGE 1 TUPLES]" = .parseError ∧
    parseExecute "SELECT ISTREAM a AS b..c FROM s [RANGE 1 TUPLES]" = .parseError ∧
    (∃ tree cs, Parse "EVAL b[-1]" = .nil tree ∧ parseExecute "EVAL b[-1]" = .calls cs ∧
      spansOf .ruleRowValue tree = [(5, 10)] ∧
      spansOf .rulejsonArrayAccess tree = [(6, 10)] ∧
      pushes cs = [.PushComponent 5 10 (.text .NewRowValue [98, 91, 45, 49, 93])]) ∧
    (∃ tree cs, Parse "EVAL b[1:2]" = .nil tree ∧ parseExecute "EVAL b[1:2]" = .calls cs ∧
      spansOf .ruleRowValue tree = [(5, 11)] ∧
      spansOf .rulejsonArraySlice tree = [(6, 11)] ∧
      pushes cs = [.PushComponent 5 11 (.text .NewRowValue [98, 91, 49, 58, 50, 93])]) ∧
    (∃ tree cs, Parse "EVAL b[:]" = .nil tree ∧ parseExecute "EVAL b[:]" = .calls cs ∧
      spansOf .ruleRowValue tree = [(5, 9)] ∧
      spansOf .rulejsonArrayFullSlice tree = [(6, 9)] ∧
      pushes cs = [.PushComponent 5 9 (.text .NewRowValue [98, 91, 58, 93])]) ∧
    (∃ tree cs, Parse "EVAL b..c" = .nil tree ∧ parseExecute "EVAL b..c" = .calls cs ∧
      spansOf .ruleRowValue tree = [(5, 9)] ∧
      spansOf .rulejsonMapMultipleLevel tree = [(6, 9)] ∧
      pushes cs = [.PushComponent 5 9 (.text .NewRowValue [98, 46, 46, 99])]) := by
  refine ⟨Eval_jsonSetPathNonHead_negative d p r t, Eval_jsonSetPathNonHead_colon d p r t,
    Eval_jsonSetPathNonHead_descent d p r t,
    fun ds hds => Eval_jsonSetPathNonHead_slice d p ds r t hds, ?_,
    parseExecute_parseError 100 (by decide) (by decide!),
    parseExecute_parseError 100 (by decide) (by decide!),
    parseExecute_parseError 100 (by decide) (by decide!), ?_, ?_, ?_, ?_⟩
  · exact run_prop 110 "SELECT ISTREAM a AS b[0] FROM s [RANGE 1 TUPLES]" _ (by decide!)
  · exact run_prop 100 "EVAL b[-1]" _ (by decide!)
  · exact run_prop 100 "EVAL b[1:2]" _ (by decide!)
  · exact run_prop 100 "EVAL b[:]" _ (by decide!)
  · exact run_prop 100 "EVAL b..c" _ (by decide!)



set_option maxHeartbeats 4000000 in
theorem samplingCalls_action (X : List Nat) (b e : Nat) (q : pegRule) (cs : List Call)
    (h : executeAction X b e q = some cs) (hs : samplingCalls cs ≠ []) :
    q = .ruleAction28 ∨ q = .ruleAction29 ∨ q = .ruleAction30 ∨ q = .ruleAction31 := by
  cases q <;> first
    | exact Or.inl rfl
    | exact Or.inr (Or.inl rfl)
    | exact Or.inr (Or.inr (Or.inl rfl))
    | exact Or.inr (Or.inr (Or.inr rfl))
    | (cases h; exact absurd rfl hs)
    | (exfalso
       cases hsl : slice X b e with
       | none =>
         have h2 : Option.map _ (slice X b e) = some cs := h
         rw [hsl] at h2; cases h2
       | some x =>
         have h2 : Option.map _ (slice X b e) = some cs := h
         rw [hsl] at h2
         simp only [Option.map_some', Option.some.injEq] at h2
         subst h2
         exact hs rfl)

/-- C24: `Execute` passes the unit-conversion factor with the sampling kind.  For the four
emitter sampling rules: the `case` of `Execute` for the action that ends the rule issues
`AssembleEmitterSampling(CountBasedSampling, 1)` (`Action28`, `EVERY n-th TUPLE`),
`AssembleEmitterSampling(RandomizedSampling, 1)` (`Action29`, `SAMPLE p%`),
`AssembleEmitterSampling(TimeBasedSampling, 1)` (`Action30`, `EVERY t SECONDS`) and
`AssembleEmitterSampling(TimeBasedSampling, 1/1000)` (`Action31`, `EVERY t MILLISECONDS`);
the rule, when it returns true, records the token of that action and then its own; and no
other `case` issues `AssembleEmitterSampling`.  The four statements listed are accepted
with that one sampling call. -/
theorem C24_sampling_factor (Buffer : String) (d p : Nat) (t : List token32) :
    (∀ row ∈ samplingTable,
      (∀ (X : List Nat) (b e : Nat), executeAction X b e row.2.1 =
        some [.AssembleEmitterSampling row.2.2.1 row.2.2.2.1 row.2.2.2.2]) ∧
      ∀ p1 r1 t1, Eval (.call row.1) d p (runes Buffer ++ [end_symbol]) t (.ok p1 r1 t1) →
        ∃ t0, t1 = ⟨row.1, p, p1, d⟩ :: ⟨row.2.1, p1, p1, d + 1⟩ :: t0) ∧
    (∀ (X : List Nat) (b e : Nat) (q : pegRule) (cs : List Call),
      executeAction X b e q = some cs → samplingCalls cs ≠ [] →
      q = .ruleAction28 ∨ q = .ruleAction29 ∨ q = .ruleAction30 ∨ q = .ruleAction31) ∧
    (∃ cs, parseExecute "SELECT ISTREAM [EVERY 2 SECONDS] a FROM s [RANGE 1 TUPLES]" = .calls cs ∧
      samplingCalls cs = [.AssembleEmitterSampling .TimeBasedSampling 1 1]) ∧
    (∃ cs, parseExecute "SELECT ISTREAM [EVERY 2 MILLISECONDS] a FROM s [RANGE 1 TUPLES]" =
        .calls cs ∧
      samplingCalls cs = [.AssembleEmitterSampling .TimeBasedSampling 1 1000]) ∧
    (∃ cs, parseExecute "SELECT ISTREAM [EVERY 2-nd TUPLE] a FROM s [RANGE 1 TUPLES]" = .calls cs ∧
      samplingCalls cs = [.AssembleEmitterSampling .CountBasedSampling 1 1]) ∧
    (∃ cs, parseExecute "SELECT ISTREAM [SAMPLE 50%] a FROM s [RANGE 1 TUPLES]" = .calls cs ∧
      samplingCalls cs = [.AssembleEmitterSampling .RandomizedSampling 1 1]) := by
  refine ⟨?_, samplingCalls_action, ?_, ?_, ?_, ?_⟩
  · intro row hrow
    simp only [samplingTable, List.mem_cons, List.mem_singleton, List.not_mem_nil,
      or_false] at hrow
    rcases hrow with rfl | rfl | rfl | rfl
    · exact ⟨fun _ _ _ => rfl, fun p1 r1 t1 h => @Eval.rule_last_action .ruleCountBasedSampling .ruleAction28
        Body.ruleCountBasedSampling rfl rfl rfl _ _ _ _ _ _ _ h⟩
    · exact ⟨fun _ _ _ => rfl, fun p1 r1 t1 h => @Eval.rule_last_action .ruleRandomizedSampling .ruleAction29
        Body.ruleRandomizedSampling rfl rfl rfl _ _ _ _ _ _ _ h⟩
    · exact ⟨fun _ _ _ => rfl, fun p1 r1 t1 h => @Eval.rule_last_action .ruleTimeBasedSamplingSeconds .ruleAction30
        Body.ruleTimeBasedSamplingSeconds rfl rfl rfl _ _ _ _ _ _ _ h⟩
    · exact ⟨fun _ _ _ => rfl, fun p1 r1 t1 h => @Eval.rule_last_action .ruleTimeBasedSamplingMilliseconds .ruleAction31
        Body.ruleTimeBasedSamplingMilliseconds rfl rfl rfl _ _ _ _ _ _ _ h⟩
  · obtain ⟨cs, h, hP⟩ := parseExecute_check 100
      "SELECT ISTREAM [EVERY 2 SECONDS] a FROM s [RANGE 1 TUPLES]"
      (fun cs => decide (samplingCalls cs = [.AssembleEmitterSampling .TimeBasedSampling 1 1]))
      (by decide) (by decide!)
    exact ⟨cs, h, of_decide_eq_true hP⟩
  · obtain ⟨cs, h, hP⟩ := parseExecute_check 100
      "SELECT ISTREAM [EVERY 2 MILLISECONDS] a FROM s [RANGE 1 TUPLES]"
      (fun cs => decide (samplingCalls cs = [.AssembleEmitterSampling .TimeBasedSampling 1 1000]))
      (by decide) (by decide!)
    exact ⟨cs, h, of_decide_eq_true hP⟩
  · obtain ⟨cs, h, hP⟩ := parseExecute_check 100
      "SELECT ISTREAM [EVERY 2-nd TUPLE] a FROM s [RANGE 1 TUPLES]"
      (fun cs => decide (samplingCalls cs = [.AssembleEmitterSampling .CountBasedSampling 1 1]))
      (by decide) (by decide!)
    exact ⟨cs, h, of_decide_eq_true hP⟩
  · obtain ⟨cs, h, hP⟩ := parseExecute_check 100
      "SELECT ISTREAM [SAMPLE 50%] a FROM s [RANGE 1 TUPLES]"
      (fun cs => decide (samplingCalls cs = [.AssembleEmitterSampling .RandomizedSampling 1 1]))
      (by decide) (by decide!)
    exact ⟨cs, h, of_decide_eq_true hP⟩



/-- Claim C26: for every list of segments, each a non-empty key of ASCII letters and digits
with at most one array index `[digits]`, `split` returns exactly the segments, each index
with its key, for the dotted form `k1.k2...kn` and for the bracket-quoted form
`["k1"]["k2"]...["kn"]` (with either quote), so the two forms give equal results.  Here
`isNumber` is `unicode.IsNumber`, which below 128 holds of the digits only. -/
theorem C26_split_segments (isNumber : Nat → Bool)
    (hnum : ∀ r, r < 128 → isNumber r = asciiNumber r) (segs : List Segment)
    (hok : ∀ seg ∈ segs, segmentOK seg = true) :
    split isNumber (dottedPath segs) = some (segs.map segmentText) ∧
    split isNumber (bracketPath '"'.toNat segs) = some (segs.map segmentText) ∧
    split isNumber (bracketPath '\''.toNat segs) = some (segs.map segmentText) ∧
    split isNumber (dottedPath segs) = split isNumber (bracketPath '"'.toNat segs) := by
  have h1 : split isNumber (dottedPath segs) = some (segs.map segmentText) := by
    unfold split
    rw [splitLoop_dotted isNumber _ segs hok 0 [] _ rfl (Nat.le_refl _)]
    rfl
  have h2 : ∀ quote, quote = 34 ∨ quote = 39 →
      split isNumber (bracketPath quote segs) = some (segs.map segmentText) := by
    intro quote hq
    unfold split
    rw [splitLoop_bracket hnum hq _ segs hok 0 [] _ rfl (Nat.le_refl _)]
    rfl
  exact ⟨h1, h2 34 (Or.inl rfl), h2 39 (Or.inr rfl), by rw [h1]; exact (h2 34 (Or.inl rfl)).symm⟩

/-- Witness of `C26_split_segments`: `split` of `["store"]["book"][0]["title"]` and of
`store.book[0].title` are both `["store", "book[0]", "title"]`. -/
theorem C26_split_segments_witness :
    split asciiNumber (runes "store.book[0].title") =
      some [runes "store", runes "book[0]", runes "title"] ∧
    split asciiNumber (runes "[\"store\"][\"book\"][0][\"title\"]") =
      some [runes "store", runes "book[0]", runes "title"] ∧
    split asciiNumber (runes "['store']['book'][0]['title']") =
      some [runes "store", runes "book[0]", runes "title"] ∧
    split asciiNumber (runes "store.book[0].title") =
      split asciiNumber (runes "[\"store\"][\"book\"][0][\"title\"]") :=
  C26_split_segments asciiNumber (fun _ _ => rfl)
    [(runes "store", none), (runes "book", some (runes "0")), (runes "title", none)]
    (by decide)



/-- A letter is no backslash, dot or opening bracket. -/
theorem isLetter_plain {w : List Nat} (h : w.all isLetter = true) :
    ∀ x ∈ w, x ≠ 92 ∧ x ≠ 46 ∧ x ≠ 91 := by
  intro x hx
  have := List.all_eq_true.mp h x hx
  simp only [isLetter, Bool.or_eq_true, decide_eq_true_eq] at this
  omega

/-- What `split` returns on plain runes, an escaped rune and plain runes: one component,
the escaped rune in it as it is. -/
theorem split_escape (isNumber : Nat → Bool) (a b : List Nat) (x : Nat)
    (ha : ∀ y ∈ a, y ≠ 92 ∧ y ≠ 46 ∧ y ≠ 91) (hb : ∀ y ∈ b, y ≠ 92 ∧ y ≠ 46 ∧ y ≠ 91) :
    split isNumber (a ++ 92 :: x :: b) = some [a ++ x :: b] := by
  unfold split
  have e : (a ++ 92 :: x :: b).length + 1 = (((1 + 1) + b.length) + 1) + a.length := by
    simp; omega
  have h0 : (a ++ 92 :: x :: b).drop 0 = a ++ 92 :: x :: b := rfl
  rw [e, splitLoop_run isNumber _ a 0 _ [] [] _ ha h0]
  have h1 : (a ++ 92 :: x :: b).drop (0 + a.length) = 92 :: x :: b := by simp
  rw [splitLoop_escape isNumber h1]
  have h2 : (a ++ 92 :: x :: b).drop (0 + a.length + 2) = b ++ [] := by
    rw [← List.drop_drop, h1]; simp
  rw [splitLoop_run isNumber _ b _ _ [] _ _ hb h2]
  have h3 : (a ++ 92 :: x :: b).drop (0 + a.length + 2 + b.length) = [] := by
    rw [← List.drop_drop, h2]; simp
  rw [splitLoop_end isNumber h3]
  simp [appendPart]

/-- What `split` returns on plain runes and a last backslash: the backslash is dropped. -/
theorem split_escape_last (isNumber : Nat → Bool) (a : List Nat)
    (ha : ∀ y ∈ a, y ≠ 92 ∧ y ≠ 46 ∧ y ≠ 91) :
    split isNumber (a ++ [92]) = some (appendPart [] a) := by
  unfold split
  have e : (a ++ [92]).length + 1 = ((0 + 1) + 1) + a.length := by simp; omega
  have h0 : (a ++ [92]).drop 0 = a ++ [92] := rfl
  rw [e, splitLoop_run isNumber _ a 0 _ [] [] _ ha h0]
  have h1 : (a ++ [92]).drop (0 + a.length) = [92] := by simp
  rw [splitLoop_escape_last isNumber h1]
  have h2 : (a ++ [92]).drop (0 + a.length + 2) = [] := by
    rw [← List.drop_drop, h1]; simp
  rw [splitLoop_end isNumber h2]
  simp

/-- Claim C27: in `split` a backslash outside brackets makes the rune after it part of the
current component as it is, whatever the rune (a dot, a bracket, a backslash), and a
backslash that ends the input is dropped: for all `a` and `b` of ASCII letters and every
rune `x`, `split(a + "\\" + x + b) = [a + x + b]`, so `split(a + "\\." + b) = [a + "." + b]`;
and `split(a + "\\")` is `[a]` when `a` is not empty and `[]` when it is. -/
theorem C27_split_backslash (isNumber : Nat → Bool) (a b : List Nat)
    (ha : a.all isLetter = true) (hb : b.all isLetter = true) :
    (∀ x, split isNumber (a ++ '\\'.toNat :: x :: b) = some [a ++ x :: b]) ∧
    split isNumber (a ++ '\\'.toNat :: '.'.toNat :: b) = some [a ++ '.'.toNat :: b] ∧
    (a ≠ [] → split isNumber (a ++ ['\\'.toNat]) = some [a]) ∧
    (a = [] → split isNumber (a ++ ['\\'.toNat]) = some []) := by
  refine ⟨fun x => split_escape isNumber a b x (isLetter_plain ha) (isLetter_plain hb),
    split_escape isNumber a b _ (isLetter_plain ha) (isLetter_plain hb), ?_, ?_⟩
  · intro hne
    show split isNumber (a ++ [92]) = some [a]
    rw [split_escape_last isNumber a (isLetter_plain ha)]
    simp [appendPart, hne]
  · intro he
    subst he
    exact split_escape_last isNumber [] (fun _ h => absurd h (List.not_mem_nil _))

/-- Witness of `C27_split_backslash`: `split("ab\\.c") = ["ab.c"]`, `split("ab\\[c")`
is `["ab[c"]`, and `split("ab\\") = ["ab"]`. -/
theorem C27_split_backslash_witness :
    split asciiNumber (runes "ab\\.c") = some [runes "ab.c"] ∧
    split asciiNumber (runes "ab\\[c") = some [runes "ab[c"] ∧
    split asciiNumber (runes "ab\\") = some [runes "ab"] ∧
    split asciiNumber (runes "\\") = some [] :=
  ⟨(C27_split_backslash asciiNumber (runes "ab") (runes "c") (by decide) (by decide)).2.1,
   (C27_split_backslash asciiNumber (runes "ab") (runes "c") (by decide) (by decide)).1 91,
   (C27_split_backslash asciiNumber (runes "ab") (runes "c") (by decide) (by decide)).2.2.1
     (by decide),
   (C27_split_backslash asciiNumber [] [] (by decide) (by decide)).2.2.2 rfl⟩



/-- A digit is a number and no closing bracket, when `isNumber` is `unicode.IsNumber`
below 128. -/
theorem digits_number {isNumber : Nat → Bool}
    (hnum : ∀ r, r < 128 → isNumber r = asciiNumber r) {ds : List Nat}
    (hds : isDigits ds = true) : ∀ x ∈ ds, isNumber x = true ∧ x ≠ 93 := by
  intro x hx
  simp only [isDigits, Bool.and_eq_true, List.all_eq_true] at hds
  have h := (isDigit_iff x).mp (hds.2 x hx)
  refine ⟨?_, by omega⟩
  rw [hnum x (by omega)]
  simp [asciiNumber, h.1, h.2]

theorem getArrayIndexEnd_digits {ds : List Nat} (hds : isDigits ds = true) :
    getArrayIndexEnd ds = 91 :: (ds ++ [93]) := by
  obtain ⟨x, xs, rfl, _, _⟩ := isDigits_head hds
  rfl

/-- Claim C28, as the code has it: `getArrayIndex(runes, i)` returns `[` + d + `]` when the
runes from `i` are a non-empty run of digits d before a closing bracket, and the empty
string when no digit stands before the closing bracket, when a rune that is no number and
no closing bracket stands before it, and when `i` is the end of the runes.  But when a
non-empty run of digits reaches the end of the runes without a closing bracket, it returns
`[` + d + `]` too, not the empty string. -/
theorem C28_getArrayIndex_result (isNumber : Nat → Bool)
    (hnum : ∀ r, r < 128 → isNumber r = asciiNumber r) (l : List Nat) (i : Nat)
    (ds tl : List Nat) (hds : isDigits ds = true) :
    (l.drop i = ds ++ 93 :: tl → getArrayIndex isNumber l i = some (91 :: (ds ++ [93]))) ∧
    (l.drop i = 93 :: tl → getArrayIndex isNumber l i = some []) ∧
    (l.drop i = [] → getArrayIndex isNumber l i = some []) ∧
    (∀ x, x ≠ 93 → isNumber x = false → l.drop i = x :: tl →
      getArrayIndex isNumber l i = some []) ∧
    (∀ x, x ≠ 93 → isNumber x = false → l.drop i = ds ++ x :: tl →
      getArrayIndex isNumber l i = some []) ∧
    (l.drop i = ds → getArrayIndex isNumber l i = some (91 :: (ds ++ [93]))) := by
  have hd := digits_number hnum hds
  have hnil : ∀ y ∈ ([] : List Nat), isNumber y = true ∧ y ≠ 93 :=
    fun _ h => absurd h (List.not_mem_nil _)
  refine ⟨fun h => ?_, fun h => ?_, fun h => ?_, fun x hx hn h => ?_, fun x hx hn h => ?_,
    fun h => ?_⟩
  · rw [getArrayIndex_closed isNumber hd h, getArrayIndexEnd_digits hds]
  · rw [getArrayIndex_closed isNumber hnil (by simpa using h)]; rfl
  · rw [getArrayIndex_open isNumber hnil h]; rfl
  · exact getArrayIndex_other isNumber hnil hx hn (by simpa using h)
  · exact getArrayIndex_other isNumber hd hx hn h
  · rw [getArrayIndex_open isNumber hd h, getArrayIndexEnd_digits hds]

/-- Witness of `C28_getArrayIndex_result`: `getArrayIndex` of `hoge[123]` at 5 is `[123]`,
and of `hoge[123`, which has no closing bracket, at 5 is `[123]` as well; through
`splitBracket`, `split` of `["a"][12` is the one component `a[12]`. -/
theorem C28_getArrayIndex_result_witness :
    getArrayIndex asciiNumber (runes "hoge[123]") 5 = some (runes "[123]") ∧
    getArrayIndex asciiNumber (runes "hoge[123") 5 = some (runes "[123]") ∧
    getArrayIndex asciiNumber (runes "hoge[]") 5 = some [] ∧
    getArrayIndex asciiNumber (runes "hoge[1a]") 5 = some [] ∧
    splitBracket asciiNumber (runes "[\"a\"][12") 2 34 = some (runes "a[12]") ∧
    split asciiNumber (runes "[\"a\"][12") = some [runes "a[12]"] :=
  ⟨(C28_getArrayIndex_result asciiNumber (fun _ _ => rfl) (runes "hoge[123]") 5
      (runes "123") [] (by decide)).1 (by decide),
   (C28_getArrayIndex_result asciiNumber (fun _ _ => rfl) (runes "hoge[123") 5
      (runes "123") [] (by decide)).2.2.2.2.2 (by decide),
   (C28_getArrayIndex_result asciiNumber (fun _ _ => rfl) (runes "hoge[]") 5
      (runes "1") [] (by decide)).2.1 (by decide),
   (C28_getArrayIndex_result asciiNumber (fun _ _ => rfl) (runes "hoge[1a]") 5
      (runes "1") (runes "]") (by decide)).2.2.2.2.1 97 (by decide) (by decide) (by decide),
   by decide, by decide⟩



/-- Claim C29: `distance_us` of two timestamps `t1`, `t2` is the `Int` of the microseconds
from `t1` to `t2`: 0 for equal instants, 60000000 when `t2` is one minute after `t1` and
-60000000 with the arguments swapped, and swapping the arguments negates the result; when
either argument is NULL the result is NULL with no error, whatever the other argument; and
every pair of arguments that are neither NULL nor timestamps fails with an error.  The rows
of the test `TestBinaryDateFuncs` are among the cases. -/
theorem C29_distance_us (t1 t2 : Int) (v a b : Value) :
    diffUsFunc (.timestamp t1) (.timestamp t2) = .value (.int ((t2 - t1).tdiv 1000)) ∧
    diffUsFunc (.timestamp t1) (.timestamp t1) = .value (.int 0) ∧
    diffUsFunc (.timestamp t1) (.timestamp (t1 + 60 * 1000000000)) =
      .value (.int 60000000) ∧
    diffUsFunc (.timestamp (t1 + 60 * 1000000000)) (.timestamp t1) =
      .value (.int (-60000000)) ∧
    (∀ n, diffUsFunc (.timestamp t1) (.timestamp t2) = .value (.int n) →
      diffUsFunc (.timestamp t2) (.timestamp t1) = .value (.int (-n))) ∧
    diffUsFunc .null v = .value .null ∧
    diffUsFunc v .null = .value .null ∧
    (a.isNull = false → a.isTimestamp = false → b.isNull = false → b.isTimestamp = false →
      diffUsFunc a b = .error) ∧
    diffUsFunc (.timestamp (dateUTC 2015 5 1 14 27 0 0))
      (.timestamp (dateUTC 2015 5 1 14 27 0 0)) = .value (.int 0) ∧
    diffUsFunc (.timestamp (dateUTC 2015 5 1 14 27 0 0))
      (.timestamp (dateUTC 2015 5 1 14 28 0 0)) = .value (.int (60 * 1000 * 1000)) ∧
    diffUsFunc (.timestamp (dateUTC 2015 5 1 14 28 0 0))
      (.timestamp (dateUTC 2015 5 1 14 27 0 0)) = .value (.int (-60 * 1000 * 1000)) ∧
    diffUsFunc .null (.int 1) = .value .null ∧
    diffUsFunc (.float 0x3FF0000000000000) .null = .value .null ∧
    diffUsFunc (.array []) (.array []) = .error ∧
    diffUsFunc (.blob []) (.blob []) = .error ∧
    diffUsFunc (.bool true) (.bool true) = .error ∧
    diffUsFunc (.float 0x4002666666666666) (.float 0x4002666666666666) = .error ∧
    diffUsFunc (.int 3) (.int 3) = .error ∧
    diffUsFunc (.map []) (.map []) = .error ∧
    diffUsFunc (.string (runes "hoge")) (.string (runes "hoge")) = .error := by
  refine ⟨rfl, ?_, ?_, ?_, ?_, by cases v <;> rfl, ?_, ?_, rfl, rfl, rfl, rfl, rfl, rfl, rfl, rfl, rfl, rfl,
    rfl, rfl⟩
  · show CallResult.value (.int ((t1 - t1).tdiv 1000)) = _
    rw [Int.sub_self]; rfl
  · show CallResult.value (.int ((t1 + 60 * 1000000000 - t1).tdiv 1000)) = _
    rw [show t1 + 60 * 1000000000 - t1 = 60000000000 by omega]; rfl
  · show CallResult.value (.int ((t1 - (t1 + 60 * 1000000000)).tdiv 1000)) = _
    rw [show t1 - (t1 + 60 * 1000000000) = -60000000000 by omega]; rfl
  · intro n h
    have h1 : (t2 - t1).tdiv 1000 = n := by
      have : CallResult.value (.int ((t2 - t1).tdiv 1000)) = .value (.int n) := h
      injection this with h2
      injection h2
    show CallResult.value (.int ((t1 - t2).tdiv 1000)) = _
    rw [← h1, show t1 - t2 = -(t2 - t1) by omega, Int.neg_tdiv]
  · cases v <;> rfl
  · intro ha1 ha2 hb1 hb2
    cases a <;> cases b <;>
      first
      | rfl
      | exact Bool.noConfusion (show true = false from ha1)
      | exact Bool.noConfusion (show true = false from ha2)
      | exact Bool.noConfusion (show true = false from hb1)



/-- The rest of a buffer that ends with the sentinel, from a position inside it, ends with
the sentinel. -/
theorem Good.drop_lt {l : List Nat} (h : Good l) {p : Nat} (hp : p < l.length) :
    Good (l.drop p) := by
  unfold Good at *
  rw [List.getLast?_drop, if_neg (by omega)]
  exact h

/-- A rule with a body is a function, not a nil entry of `_rules`. -/
theorem callsOK_of_expr {q : pegRule} {body : Peg} (hq : grammar q = .expr body) :
    callsOK (.call q) = true := by
  simp only [callsOK, hq]

/-- Claim C30: a rule function (a rule with a body: rules 0..171) that returns false leaves
`position`, `tokenIndex` and `depth` as they were on entry; one that returns true leaves
the depth as on entry, `position` not below and `tokenIndex` above its entry value.  This
holds in every parser state, on every buffer and with every evaluation budget; and in a
state whose position is inside the buffer `Init` built and whose `tokenIndex` is inside the
tree, the rule function does return, true or false. -/
theorem C30_rule_frame (q : pegRule) (body : Peg) (hq : grammar q = .expr body)
    (s : State) :
    (∀ (buffer : List Nat) (f : Nat) (s1 : State), exec buffer f (.call q) s = .fail s1 →
      s1.position = s.position ∧ s1.tokenIndex = s.tokenIndex ∧ s1.depth = s.depth) ∧
    (∀ (buffer : List Nat) (f : Nat) (s1 : State), exec buffer f (.call q) s = .ok s1 →
      s1.depth = s.depth ∧ s.position ≤ s1.position ∧ s.tokenIndex < s1.tokenIndex) ∧
    (∀ Buffer : String, s.tokenIndex ≤ s.tree.length →
      s.position < (Init (runes Buffer)).length →
      (∃ s1, ruleCall Buffer q s = .fail s1 ∧
        s1.position = s.position ∧ s1.tokenIndex = s.tokenIndex ∧ s1.depth = s.depth) ∨
      (∃ s1, ruleCall Buffer q s = .ok s1 ∧
        s1.depth = s.depth ∧ s.position ≤ s1.position ∧
        s.tokenIndex < s1.tokenIndex)) := by
  refine ⟨fun buffer f s1 h => exec_call_fail_frame buffer f q s s1 h,
    fun buffer f s1 h => exec_call_ok_frame buffer f q s s1 h, ?_⟩
  intro Buffer hti hp
  have hg : Good ((Init (runes Buffer)).drop s.position) :=
    (Init_good (runes Buffer)).drop_lt hp
  rcases Eval.total q s.depth s.position _ (s.tree.take s.tokenIndex).reverse hg
    (callsOK_of_expr hq) with h | ⟨p1, r1, t1, h, _, _⟩
  · exact Or.inl (ruleCall_fail_of_eval hti h)
  · obtain ⟨s1, h1, _⟩ := ruleCall_ok_of_eval hti h
    exact Or.inr ⟨s1, h1, exec_call_ok_frame _ _ q s s1 h1⟩

/-- Witness of `C30_rule_frame`: rule 0, `SingleStatement`, in the state `Init` leaves. -/
theorem C30_rule_frame_witness :
    grammar .ruleSingleStatement = .expr Body.ruleSingleStatement ∧
    ((∀ (buffer : List Nat) (f : Nat) (s1 : State),
      exec buffer f (.call .ruleSingleStatement) initState = .fail s1 →
      s1.position = initState.position ∧ s1.tokenIndex = initState.tokenIndex ∧
        s1.depth = initState.depth) ∧
    (∀ (buffer : List Nat) (f : Nat) (s1 : State),
      exec buffer f (.call .ruleSingleStatement) initState = .ok s1 →
      s1.depth = initState.depth ∧ initState.position ≤ s1.position ∧
        initState.tokenIndex < s1.tokenIndex) ∧
    (∀ Buffer : String, initState.tokenIndex ≤ initState.tree.length →
      initState.position < (Init (runes Buffer)).length →
      (∃ s1, ruleCall Buffer .ruleSingleStatement initState = .fail s1 ∧
        s1.position = initState.position ∧ s1.tokenIndex = initState.tokenIndex ∧
        s1.depth = initState.depth) ∨
      (∃ s1, ruleCall Buffer .ruleSingleStatement initState = .ok s1 ∧
        s1.depth = initState.depth ∧ initState.position ≤ s1.position ∧
        initState.tokenIndex < s1.tokenIndex))) :=
  ⟨rfl, C30_rule_frame .ruleSingleStatement Body.ruleSingleStatement rfl initState⟩



/-- Claim C31: after `Init` the rune buffer is the input followed by the sentinel
`end_symbol`, which no rune of the input equals; and every read `buffer[position]` is within
bounds.  A rule function entered at a position not beyond the sentinel (with `tokenIndex`
inside the tree) never reads out of range, with whatever evaluation budget it is run, and
when it returns true the position is still not beyond the sentinel, the runes it advanced
over being runes of the input.  So the run from `SingleStatement` in the state `Init`
leaves never reads out of range, and `Parse` does not panic. -/
theorem C31_reads_in_bounds (Buffer : String) :
    Init (runes Buffer) = runes Buffer ++ [end_symbol] ∧
    (Init (runes Buffer))[(runes Buffer).length]? = some end_symbol ∧
    (∀ x ∈ runes Buffer, x ≠ end_symbol) ∧
    (∀ (q : pegRule) (body : Peg) (s : State) (fuel : Nat), grammar q = .expr body →
      s.position ≤ (runes Buffer).length → s.tokenIndex ≤ s.tree.length →
      exec (Init (runes Buffer)) fuel (.call q) s ≠ .panic ∧
      ∀ s1, exec (Init (runes Buffer)) fuel (.call q) s = .ok s1 →
        s1.position ≤ (runes Buffer).length ∧
        ∀ i, s.position ≤ i → i < s1.position →
          ∃ x, (Init (runes Buffer))[i]? = some x ∧ x ≠ end_symbol) ∧
    (∀ fuel, exec (Init (runes Buffer)) fuel (.call .ruleSingleStatement) initState ≠
      .panic) ∧
    Parse Buffer ≠ .panic := by
  have hI := Init_runes Buffer
  have hne : ∀ x ∈ runes Buffer, x ≠ end_symbol :=
    fun x hx => Nat.ne_of_lt (runes_lt_end Buffer x hx)
  have hlen : (Init (runes Buffer)).length = (runes Buffer).length + 1 := by
    rw [hI]; simp
  have main : ∀ (q : pegRule) (body : Peg) (s : State) (fuel : Nat), grammar q = .expr body →
      s.position ≤ (runes Buffer).length → s.tokenIndex ≤ s.tree.length →
      exec (Init (runes Buffer)) fuel (.call q) s ≠ .panic ∧
      ∀ s1, exec (Init (runes Buffer)) fuel (.call q) s = .ok s1 →
        s1.position ≤ (runes Buffer).length ∧
        ∀ i, s.position ≤ i → i < s1.position →
          ∃ x, (Init (runes Buffer))[i]? = some x ∧ x ≠ end_symbol := by
    intro q body s fuel hq hp hti
    have hg : Good ((Init (runes Buffer)).drop s.position) :=
      (Init_good (runes Buffer)).drop_lt (by omega)
    have hnp := execF_no_panic fuel (.call q) s.depth s.position _
      (s.tree.take s.tokenIndex).reverse hg (callsOK_of_expr hq)
    have hr := exec_execF (Init (runes Buffer)) fuel (.call q) s s.depth s.position _ _
      (Rel.of_state _ s hti)
    cases hx : execF fuel (.call q) s.depth s.position
      ((Init (runes Buffer)).drop s.position) (s.tree.take s.tokenIndex).reverse with
    | oof =>
      rw [hx] at hr
      simp only [Refines] at hr
      rw [hr]
      exact ⟨fun h => Res.noConfusion h, fun s1 h => Res.noConfusion h⟩
    | panic => exact absurd hx hnp
    | fail =>
      rw [hx] at hr
      obtain ⟨s', hs', _⟩ := hr
      rw [hs']
      exact ⟨fun h => Res.noConfusion h, fun s1 h => Res.noConfusion h⟩
    | ok p1 r1 t1 =>
      rw [hx] at hr
      obtain ⟨s', hs', hrel, _⟩ := hr
      rw [hs']
      refine ⟨fun h => Res.noConfusion h, ?_⟩
      intro s1 h1
      simp only [Res.ok.injEq] at h1
      subst h1
      have hc := execF_consumed _ _ _ _ _ _ _ _ _ hx
      have hg1 := hc.good hg
      obtain ⟨hpos, _, hr1, _, _⟩ := hrel
      have hlt : s'.position < (Init (runes Buffer)).length := by
        by_contra hcon
        rw [hpos] at hcon
        rw [hr1, List.drop_eq_nil_of_le (by omega)] at hg1
        exact hg1.ne_nil rfl
      refine ⟨by omega, ?_⟩
      intro i _ hi
      have hin : i < (runes Buffer).length := by omega
      refine ⟨(runes Buffer)[i], ?_, hne _ (List.getElem_mem _)⟩
      rw [hI, List.getElem?_append_left hin, List.getElem?_eq_getElem hin]
  refine ⟨hI, ?_, hne, main, ?_, ?_⟩
  · rw [hI, List.getElem?_append_right (Nat.le_refl _)]
    simp
  · intro fuel
    exact (main .ruleSingleStatement _ initState fuel rfl (Nat.zero_le _) (Nat.le_refl _)).1
  · unfold Parse parseRule
    have := (main .ruleSingleStatement _ initState (parseFuel (runes Buffer).length) rfl
      (Nat.zero_le _) (Nat.le_refl _)).1
    cases hx : exec (Init (runes Buffer)) (parseFuel (runes Buffer).length)
      (.call .ruleSingleStatement) initState with
    | panic => exact absurd hx this
    | oof => simp
    | fail s => simp
    | ok s => simp



/-- Claim C32: parsing terminates for every input.  No rule can re-enter itself at the
position it was entered at (every rule that the body of a rule `q` can call before a rune is
consumed has a rank below the rank of `q`), and the body of every repetition matches no empty
text, so that a successful iteration advances the position.  Hence a rule function entered
at a position inside the buffer of `Init` (with `tokenIndex` inside the tree) returns, true
or false; what it returns and where it stops is a function of the buffer and the position
alone (`ruleAt`), whatever the depth, the tokens recorded before and the evaluation budget,
if that is enough; the position it stops at is not before the entry position and not beyond
the sentinel; and `Parse` returns nil or a parse error on every input. -/
theorem C32_parsing_terminates (Buffer : String) :
    (∀ (q : pegRule) (body : Peg), grammar q = .expr body →
      headOK (rank q) body = true ∧ starOK body = true) ∧
    (∀ (e : Peg) (f d p : Nat) (r : List Nat) (t : List token32) (p1 : Nat) (r1 : List Nat)
      (t1 : List token32), mayEmpty e = false → execF f e d p r t = .ok p1 r1 t1 → p < p1) ∧
    (∀ (q : pegRule) (body : Peg) (s : State), grammar q = .expr body →
      s.position ≤ (runes Buffer).length → s.tokenIndex ≤ s.tree.length →
      (ruleCall Buffer q s).outcome = ruleAt Buffer q s.position ∧
      (ruleAt Buffer q s.position = .failed ∨
        ∃ p1, ruleAt Buffer q s.position = .matched p1 ∧ s.position ≤ p1 ∧
          p1 ≤ (runes Buffer).length) ∧
      ∀ f, exec (Init (runes Buffer)) f (.call q) s = .oof ∨
        (exec (Init (runes Buffer)) f (.call q) s).outcome = ruleAt Buffer q s.position) ∧
    (∃ tree, Parse Buffer = .nil tree ∨ Parse Buffer = .parseError tree) := by
  have hlen : (Init (runes Buffer)).length = (runes Buffer).length + 1 := by
    rw [Init_runes]; simp
  refine ⟨fun q body hq => ⟨(ruleOK_expr hq).1, (ruleOK_expr hq).2.1⟩, ?_, ?_, ?_⟩
  · intro e f d p r t p1 r1 t1 he hx
    obtain ⟨w, _, hp1, _, hw, _⟩ := execF_consumed f e d p r t p1 r1 t1 hx
    have := List.length_pos.mpr (hw he)
    omega
  · intro q body s hq hp hti
    have hg : Good ((Init (runes Buffer)).drop s.position) :=
      (Init_good (runes Buffer)).drop_lt (by omega)
    have key : ∀ res, Eval (.call q) s.depth s.position
        ((Init (runes Buffer)).drop s.position) (s.tree.take s.tokenIndex).reverse res →
        ∀ f, exec (Init (runes Buffer)) f (.call q) s = .oof ∨
          (exec (Init (runes Buffer)) f (.call q) s).outcome = res.outcome := by
      intro res hres f
      have hr := exec_execF (Init (runes Buffer)) f (.call q) s s.depth s.position _ _
        (Rel.of_state _ s hti)
      by_cases ho : execF f (.call q) s.depth s.position
        ((Init (runes Buffer)).drop s.position) (s.tree.take s.tokenIndex).reverse = .oof
      · rw [ho] at hr
        exact Or.inl hr
      · right
        rw [hres.at_fuel ho] at hr
        cases res with
        | oof => exact absurd rfl hres.ne_oof
        | panic => simp only [Refines] at hr; rw [hr]; rfl
        | fail => obtain ⟨s', hs', _⟩ := hr; rw [hs']; rfl
        | ok p1 r1 t1 =>
          obtain ⟨s', hs', hrel, _⟩ := hr
          rw [hs']
          simp only [Res.outcome, ResF.outcome, hrel.1]
    rcases Eval.total q s.depth s.position _ (s.tree.take s.tokenIndex).reverse hg
      (callsOK_of_expr hq) with h | ⟨p1, r1, t1, h, hc, hg1⟩
    · have hA := ruleAt_of_eval h
      obtain ⟨s', h', _⟩ := ruleCall_fail_of_eval hti h
      refine ⟨by rw [h', hA]; rfl, Or.inl hA, ?_⟩
      intro f
      rw [hA]
      exact key _ h f
    · have hA := ruleAt_of_eval h
      obtain ⟨s', h', hp1, _⟩ := ruleCall_ok_of_eval hti h
      obtain ⟨w, hw, hpw, _⟩ := hc
      have hr1 : r1.length + w.length = (runes Buffer).length + 1 - s.position := by
        have := congrArg List.length hw
        rw [List.length_drop, List.length_append, hlen] at this
        omega
      have hne := List.length_pos.mpr hg1.ne_nil
      refine ⟨by rw [h', hA]; simp only [Res.outcome, ResF.outcome, hp1],
        Or.inr ⟨p1, hA, by omega, by omega⟩, ?_⟩
      intro f
      rw [hA]
      exact key _ h f
  · have hP := parseRule_of_execF (parseFuel (runes Buffer).length) (runes Buffer)
      .ruleSingleStatement
    have hne := parseFuel_enough (runes Buffer).length .ruleSingleStatement 0 0
      (Init (runes Buffer)) [] (Init_length_le _)
    have hnp := execF_no_panic (parseFuel (runes Buffer).length) (.call .ruleSingleStatement)
      0 0 (Init (runes Buffer)) [] (Init_good _) rfl
    unfold Parse
    cases hx : execF (parseFuel (runes Buffer).length) (.call .ruleSingleStatement) 0 0
      (Init (runes Buffer)) [] with
    | oof => exact absurd hx hne
    | panic => exact absurd hx hnp
    | fail =>
      rw [hx] at hP
      obtain ⟨tree, hP⟩ := hP
      exact ⟨tree, Or.inr hP⟩
    | ok p1 r1 t1 =>
      rw [hx] at hP
      exact ⟨_, Or.inl hP⟩



/-- Claim C33, counterexample: with a negative number among the requested positions no
position gets an entry (the sorted list starts with the negative number, which no rune index
equals, so `j` never advances): for the buffer `a` and the positions `-1, 0` the map is
empty, although position 0 is smaller than the number of runes and is mapped to line 1,
symbol 1 when it is requested alone.  The first rune of an input that starts with an LF is
reported as line 2, symbol 0; and with no position at all on a buffer that is not empty the
function panics at `positions[j]`. -/
theorem C33_negative_position_no_entry :
    translatePositions (runes "a") [-1, 0] = some [] ∧
    (0 : Int) < ((runes "a").length : Int) ∧
    (lineSpec (runes "a") 0 = 1 ∧ symbolSpec (runes "a") 0 = 1) ∧
    translatePositions (runes "a") [0] = some [(0, ⟨1, 1⟩)] ∧
    translatePositions (runes "\n") [0] = some [(0, ⟨2, 0⟩)] ∧
    translatePositions (runes "a") [] = none := by
  refine ⟨by decide, by decide, ⟨by decide, by decide⟩, by decide, by decide, by decide⟩

/-- Claim C33, amended: when the list of positions holds no negative number (and is not
empty, unless the buffer is), `translatePositions(buffer, positions)` returns a map in which
every requested position `p` smaller than the number of runes of the buffer has the entry
(line, symbol), line being 1 plus the number of LF runes among the runes `0..p` inclusive and
symbol the number of runes after the last such LF up to and including `p`; a position equal
to or beyond the number of runes has no entry, and neither has a position that was not
requested.  So an LF is reported with symbol 0 on the following line, and the first rune of
the input, when it is no LF, is line 1, symbol 1. -/
theorem C33_translatePositions_nonnegative (buffer : List Nat) (positions : List Int)
    (hne : positions ≠ [] ∨ buffer = []) (hpos : ∀ p ∈ positions, 0 ≤ p) :
    (∃ m, translatePositions buffer positions = some m ∧
      (∀ p ∈ positions, p < (buffer.length : Int) →
        m.lookup p = some ⟨lineSpec buffer p.toNat, symbolSpec buffer p.toNat⟩) ∧
      (∀ p : Int, (buffer.length : Int) ≤ p → m.lookup p = none) ∧
      (∀ p : Int, p ∉ positions → m.lookup p = none)) ∧
    (∀ (pre rest : List Nat), buffer = pre ++ '\n'.toNat :: rest →
      lineSpec buffer pre.length = 1 + (pre.filter (fun c => c == '\n'.toNat)).length + 1 ∧
      symbolSpec buffer pre.length = 0) ∧
    (∀ (c : Nat) (rest : List Nat), buffer = c :: rest → c ≠ '\n'.toNat →
      lineSpec buffer 0 = 1 ∧ symbolSpec buffer 0 = 1) := by
  obtain ⟨m, hm, hl⟩ := translatePositions_spec buffer positions hne hpos
  refine ⟨⟨m, hm, ?_, ?_, ?_⟩, ?_, ?_⟩
  · intro p hp hlt
    rw [hl p, if_pos ⟨hp, hlt⟩]
  · intro p hge
    rw [hl p, if_neg]
    rintro ⟨_, h⟩
    omega
  · intro p hp
    rw [hl p, if_neg]
    rintro ⟨h, _⟩
    exact hp h
  · intro pre rest hb
    subst hb
    have h1 := lineSpec_prefix pre '\n'.toNat rest
    have h2 := symbolSpec_prefix pre '\n'.toNat rest
    rw [if_pos rfl] at h1 h2
    exact ⟨h1, h2⟩
  · intro c rest hb hc
    subst hb
    have h1 := lineSpec_prefix [] c rest
    have h2 := symbolSpec_prefix [] c rest
    rw [if_neg hc] at h1 h2
    exact ⟨h1, h2⟩

/-- Witness of `C33_translatePositions_nonnegative`: the positions 2, 0, 2 in `a`, LF, `b`. -/
theorem C33_translatePositions_nonnegative_witness :
    (([2, 0, 2] : List Int) ≠ [] ∨ runes "a\nb" = []) ∧
    (∀ p ∈ ([2, 0, 2] : List Int), 0 ≤ p) ∧
    ∃ m, translatePositions (runes "a\nb") [2, 0, 2] = some m ∧
      m.lookup 0 = some ⟨1, 1⟩ ∧ m.lookup 2 = some ⟨2, 1⟩ ∧ m.lookup 1 = none := by
  have hne : ([2, 0, 2] : List Int) ≠ [] ∨ runes "a\nb" = [] := Or.inl (by decide)
  have hpos : ∀ p ∈ ([2, 0, 2] : List Int), 0 ≤ p := by decide
  obtain ⟨⟨m, hm, h1, _, h3⟩, _⟩ :=
    C33_translatePositions_nonnegative (runes "a\nb") [2, 0, 2] hne hpos
  refine ⟨hne, hpos, m, hm, ?_, ?_, ?_⟩
  · exact h1 0 (by decide) (by decide)
  · exact h1 2 (by decide) (by decide)
  · exact h3 1 (by decide)



/-- Claim C34: `split` never returns an empty component: for every input (and whatever
`unicode.IsNumber` holds of) it returns, and no element of what it returns is the empty string;
and for every input without backslash and `[` it returns the non-empty pieces of the input
between dots, so that leading, trailing and repeated dots are ignored and `split` of the
empty string is the empty list. -/
theorem C34_split_no_empty_component (isNumber : Nat → Bool) (s : List Nat) :
    (∃ ps, split isNumber s = some ps ∧ ∀ c ∈ ps, c ≠ []) ∧
    ((∀ x ∈ s, x ≠ '\\'.toNat ∧ x ≠ '['.toNat) →
      split isNumber s = some ((s.splitOn '.'.toNat).filter (fun p => p != []))) ∧
    split isNumber [] = some [] ∧
    split isNumber (runes ".a..b.") = some [runes "a", runes "b"] ∧
    split isNumber (runes "...") = some [] := by
  have hd := split_dots isNumber
  refine ⟨?_, hd s, rfl, ?_, ?_⟩
  · unfold split
    exact splitLoop_total isNumber s _ 0 [] [] (by omega)
      (fun _ h => absurd h (List.not_mem_nil _))
  · rw [hd _ (by decide)]; decide
  · rw [hd _ (by decide)]; decide



/-- Claim C35: `baseExpr` tries the literals TRUE, FALSE and NULL before row values and
function applications and does not reconsider that choice.  For every text `kw` that is
`true`, `false` or `null` in any letter case: rule `baseExpr` on `kw`, whatever follows it,
matches exactly `kw` as a `BooleanLiteral` or `NullLiteral` and records no `RowValue` and no
`FuncApp`; so for every input `EVAL kw` continued by a rune of a name (a letter, a digit or
`_`) and anything after it, `Parse` returns a parse error.  In particular `EVAL nullable`,
`EVAL trueValue` and `EVAL nullif(a)` are rejected, while the qualified `EVAL s:nullable`
is accepted as the row value `s:nullable`. -/
theorem C35_keyword_prefix_not_row_value (Buffer : String) (kw : List Nat) (c : Nat)
    (rest : List Nat) (hB : runes Buffer = runes "EVAL " ++ kw ++ c :: rest)
    (hk : kw.map toLowerN = runes "true" ∨ kw.map toLowerN = runes "false" ∨
      kw.map toLowerN = runes "null")
    (hc : isIdentRune c = true) :
    (∀ (d p : Nat) (r : List Nat) (t : List token32),
      ∃ new, Eval (.call .rulebaseExpr) d p (kw ++ r) t (.ok (p + kw.length) r (new ++ t)) ∧
        spansOf .ruleRowValue new = [] ∧ spansOf .ruleFuncApp new = [] ∧
        spansOf .ruleBooleanLiteral new ++ spansOf .ruleNullLiteral new =
          [(p, p + kw.length)]) ∧
    ((∃ tree, Parse Buffer = .parseError tree) ∧ parseExecute Buffer = .parseError) ∧
    ((∃ tree, Parse "EVAL nullable" = .parseError tree) ∧
      parseExecute "EVAL nullable" = .parseError) ∧
    ((∃ tree, Parse "EVAL trueValue" = .parseError tree) ∧
      parseExecute "EVAL trueValue" = .parseError) ∧
    ((∃ tree, Parse "EVAL nullif(a)" = .parseError tree) ∧
      parseExecute "EVAL nullif(a)" = .parseError) ∧
    (∃ tree cs, Parse "EVAL s:nullable" = .nil tree ∧
      parseExecute "EVAL s:nullable" = .calls cs ∧
      (spansOf .ruleRowValue tree = [(5, 15)] ∧ spansOf .ruleNullLiteral tree = [] ∧
        pushes cs = [.PushComponent 5 15 (.text .NewRowValue (runes "s:nullable"))])) := by
  have hk2 : kw.map toLowerN = [116, 114, 117, 101] ∨
      kw.map toLowerN = [102, 97, 108, 115, 101] ∨ kw.map toLowerN = [110, 117, 108, 108] :=
    hk
  refine ⟨?_, Parse_EVAL_keyword hB hk2 hc,
    @Parse_EVAL_keyword "EVAL nullable" (runes "null") 97 (runes "ble") rfl
      (Or.inr (Or.inr rfl)) rfl,
    @Parse_EVAL_keyword "EVAL trueValue" (runes "true") 86 (runes "alue") rfl
      (Or.inl rfl) rfl,
    @Parse_EVAL_keyword "EVAL nullif(a)" (runes "null") 105 (runes "f(a)") rfl
      (Or.inr (Or.inr rfl)) rfl,
    run_prop 95 "EVAL s:nullable" _ (by decide!)⟩
  intro d p r t
  rcases hk2 with h | h | h
  · have hb := (Eval_baseExpr_true h d p r t).1
    obtain ⟨a, b, x, y, rfl, _⟩ := true_cases h
    exact ⟨[⟨.rulebaseExpr, p, p + 4, d⟩, ⟨.ruleBooleanLiteral, p, p + 4, d + 1⟩,
      ⟨.ruleTRUE, p, p + 4, d + 2⟩, ⟨.ruleAction77, p + 4, p + 4, d + 3⟩,
      ⟨.rulePegText, p, p + 4, d + 3⟩], hb, by simp [spansOf], by simp [spansOf],
      by simp [spansOf]⟩
  · have hb := (Eval_baseExpr_false h d p r t).1
    obtain ⟨a, b, x, y, z, rfl, _⟩ := false_cases h
    exact ⟨[⟨.rulebaseExpr, p, p + 5, d⟩, ⟨.ruleBooleanLiteral, p, p + 5, d + 1⟩,
      ⟨.ruleFALSE, p, p + 5, d + 2⟩, ⟨.ruleAction78, p + 5, p + 5, d + 3⟩,
      ⟨.rulePegText, p, p + 5, d + 3⟩], hb, by simp [spansOf], by simp [spansOf],
      by simp [spansOf]⟩
  · have hb := (Eval_baseExpr_null h d p r t).1
    obtain ⟨a, b, x, y, rfl, _⟩ := null_cases h
    exact ⟨[⟨.rulebaseExpr, p, p + 4, d⟩, ⟨.ruleNullLiteral, p, p + 4, d + 1⟩,
      ⟨.ruleAction76, p + 4, p + 4, d + 2⟩, ⟨.rulePegText, p, p + 4, d + 2⟩], hb,
      by simp [spansOf], by simp [spansOf], by simp [spansOf]⟩

theorem C35_keyword_prefix_not_row_value_witness :
    (runes "EVAL FALSE_x" = runes "EVAL " ++ runes "FALSE" ++ '_'.toNat :: runes "x" ∧
      isIdentRune '_'.toNat = true) ∧
    ((∃ tree, Parse "EVAL FALSE_x" = .parseError tree) ∧
      parseExecute "EVAL FALSE_x" = .parseError) :=
  ⟨⟨rfl, rfl⟩, (C35_keyword_prefix_not_row_value "EVAL FALSE_x" (runes "FALSE") '_'.toNat
    (runes "x") rfl (Or.inr (Or.inl rfl)) rfl).2.1⟩



/-- What `Execute` issues on the tokens of `EVAL -ds`. -/
theorem Execute_EVAL_neg (X : List Nat) (ds : List Nat)
    (hX : X = [69, 86, 65, 76, 32, 45] ++ ds) :
    Execute X (⟨.ruleSingleStatement, 0, 5 + (45 :: ds).length, 0⟩ ::
         ⟨.ruleStatementWithoutRest, 0, 5 + (45 :: ds).length, 1⟩ ::
         ⟨.ruleAction1, 5 + (45 :: ds).length, 5 + (45 :: ds).length, 2⟩ ::
         ⟨.rulePegText, 0, 5 + (45 :: ds).length, 2⟩ ::
         ⟨.rulespOpt, 5 + (45 :: ds).length, 5 + (45 :: ds).length, 3⟩ ::
         ⟨.ruleStatement, 0, 5 + (45 :: ds).length, 3⟩ ::
         ⟨.ruleEvalStmt, 0, 5 + (45 :: ds).length, 4⟩ ::
         ⟨.ruleAction24, 5 + (45 :: ds).length, 5 + (45 :: ds).length, 5⟩ ::
         ⟨.rulePegText, 5 + (45 :: ds).length, 5 + (45 :: ds).length, 5⟩ ::
         (levelTokens 5 5 (5 + 1 + ds.length) ++
        (⟨.ruleminusExpr, 5, 5 + 1 + ds.length, 5 + 17⟩ ::
         ⟨.ruleAction58, 5 + 1 + ds.length, 5 + 1 + ds.length, 5 + 17 + 1⟩ ::
         ⟨.rulePegText, 5, 5 + 1 + ds.length, 5 + 17 + 1⟩ ::
         ⟨.rulecastExpr, 5 + 1, 5 + 1 + ds.length, 5 + 17 + 2⟩ ::
         ⟨.ruleAction59, 5 + 1 + ds.length, 5 + 1 + ds.length, 5 + 17 + 3⟩ ::
         ⟨.rulePegText, 5 + 1, 5 + 1 + ds.length, 5 + 17 + 3⟩ ::
         ⟨.rulebaseExpr, 5 + 1, 5 + 1 + ds.length, 5 + 17 + 4⟩ ::
         ⟨.ruleLiteral, 5 + 1, 5 + 1 + ds.length, 5 + 17 + 5⟩ ::
         ⟨.ruleNumericLiteral, 5 + 1, 5 + 1 + ds.length, 5 + 17 + 6⟩ ::
         ⟨.ruleAction73, 5 + 1 + ds.length, 5 + 1 + ds.length, 5 + 17 + 7⟩ ::
         ⟨.rulePegText, 5 + 1, 5 + 1 + ds.length, 5 + 17 + 7⟩ ::
         ⟨.rulespOpt, 5 + 1, 5 + 1, 5 + 17 + 2⟩ ::
         ⟨.ruleUnaryMinus, 5, 5 + 1, 5 + 17 + 2⟩ ::
         ⟨.ruleAction119, 5 + 1, 5 + 1, 5 + 17 + 3⟩ ::
         ⟨.rulePegText, 5, 5 + 1, 5 + 17 + 3⟩ ::
         [⟨.rulesp, 4, 5, 5⟩, ⟨.rulespElem, 4, 5, 6⟩, ⟨.rulespOpt, 0, 0, 1⟩]))).reverse =
      some [.PushComponent 5 6 (.const .UnaryMinus),
        .PushComponent 6 (6 + ds.length) (.text .NewNumericLiteral ds),
        .span .AssembleTypeCast 6 (6 + ds.length),
        .span .AssembleUnaryPrefixOperation 5 (6 + ds.length),
        .span .AssembleBinaryOperation 5 (6 + ds.length),
        .span .AssembleBinaryOperation 5 (6 + ds.length),
        .span .AssembleBinaryOperation 5 (6 + ds.length),
        .span .AssembleBinaryOperation 5 (6 + ds.length),
        .span .AssembleBinaryOperation 5 (6 + ds.length),
        .span .AssembleUnaryPrefixOperation 5 (6 + ds.length),
        .span .AssembleBinaryOperation 5 (6 + ds.length),
        .span .AssembleBinaryOperation 5 (6 + ds.length),
        .span .AssembleEval (6 + ds.length) (6 + ds.length),
        .span .IncludeTrailingWhitespace 0 (6 + ds.length)] := by
  have hlen : (Init X).length = 6 + ds.length + 1 ∨ (Init X).length = 6 + ds.length := by
    unfold Init
    split
    · left; rw [hX]; simp; omega
    · right; rw [hX]; simp; omega
  have hsl : slice X 6 (6 + ds.length) = some ds := by
    unfold slice
    rw [if_pos ⟨by omega, by rw [hX]; simp; omega⟩, hX]
    simp
  have n1 : (5 : Nat) + 1 = 6 := rfl
  have n2 : 5 + (45 :: ds).length = 6 + ds.length := by simp; omega
  simp only [levelTokens, List.reverse_cons, List.reverse_append, List.reverse_nil,
    List.nil_append, List.cons_append, List.append_assoc, List.singleton_append, n1, n2,
    Execute]
  rw [executeLoop_step X _ .rulespOpt _ _ _ _ _ _ _ (by decide) rfl,
    executeLoop_step X _ .rulespElem _ _ _ _ _ _ _ (by decide) rfl,
    executeLoop_step X _ .rulesp _ _ _ _ _ _ _ (by decide) rfl,
    executeLoop_text_ok X _ _ _ _ _ _ _ (by omega) (by omega),
    executeLoop_step X _ .ruleAction119 _ _ _ _ _ _ _ (by decide) rfl,
    executeLoop_step X _ .ruleUnaryMinus _ _ _ _ _ _ _ (by decide) rfl,
    executeLoop_step X _ .rulespOpt _ _ _ _ _ _ _ (by decide) rfl,
    executeLoop_text_ok X _ _ _ _ _ _ _ (by omega) (by omega),
    executeLoop_step X _ .ruleAction73 _ _ _ _ _ _
      [.PushComponent 6 (6 + ds.length) (.text .NewNumericLiteral ds)] (by decide)
      (by show (slice X 6 (6 + ds.length)).map _ = _; rw [hsl]; rfl),
    executeLoop_step X _ .ruleNumericLiteral _ _ _ _ _ _ _ (by decide) rfl,
    executeLoop_step X _ .ruleLiteral _ _ _ _ _ _ _ (by decide) rfl,
    executeLoop_step X _ .rulebaseExpr _ _ _ _ _ _ _ (by decide) rfl,
    executeLoop_text_ok X _ _ _ _ _ _ _ (by omega) (by omega),
    executeLoop_step X _ .ruleAction59 _ _ _ _ _ _ _ (by decide) rfl,
    executeLoop_step X _ .rulecastExpr _ _ _ _ _ _ _ (by decide) rfl,
    executeLoop_text_ok X _ _ _ _ _ _ _ (by omega) (by omega),
    executeLoop_step X _ .ruleAction58 _ _ _ _ _ _ _ (by decide) rfl,
    executeLoop_step X _ .ruleminusExpr _ _ _ _ _ _ _ (by decide) rfl,
    executeLoop_text_ok X _ _ _ _ _ _ _ (by omega) (by omega),
    executeLoop_step X _ .ruleAction57 _ _ _ _ _ _ _ (by decide) rfl,
    executeLoop_step X _ .ruleproductExpr _ _ _ _ _ _ _ (by decide) rfl,
    executeLoop_text_ok X _ _ _ _ _ _ _ (by omega) (by omega),
    executeLoop_step X _ .ruleAction56 _ _ _ _ _ _ _ (by decide) rfl,
    executeLoop_step X _ .ruletermExpr _ _ _ _ _ _ _ (by decide) rfl,
    executeLoop_text_ok X _ _ _ _ _ _ _ (by omega) (by omega),
    executeLoop_step X _ .ruleAction55 _ _ _ _ _ _ _ (by decide) rfl,
    executeLoop_step X _ .ruleisExpr _ _ _ _ _ _ _ (by decide) rfl,
    executeLoop_text_ok X _ _ _ _ _ _ _ (by omega) (by omega),
    executeLoop_step X _ .ruleAction54 _ _ _ _ _ _ _ (by decide) rfl,
    executeLoop_step X _ .ruleotherOpExpr _ _ _ _ _ _ _ (by decide) rfl,
    executeLoop_text_ok X _ _ _ _ _ _ _ (by omega) (by omega),
    executeLoop_step X _ .ruleAction53 _ _ _ _ _ _ _ (by decide) rfl,
    executeLoop_step X _ .rulecomparisonExpr _ _ _ _ _ _ _ (by decide) rfl,
    executeLoop_text_ok X _ _ _ _ _ _ _ (by omega) (by omega),
    executeLoop_step X _ .ruleAction52 _ _ _ _ _ _ _ (by decide) rfl,
    executeLoop_step X _ .rulenotExpr _ _ _ _ _ _ _ (by decide) rfl,
    executeLoop_text_ok X _ _ _ _ _ _ _ (by omega) (by omega),
    executeLoop_step X _ .ruleAction51 _ _ _ _ _ _ _ (by decide) rfl,
    executeLoop_step X _ .ruleandExpr _ _ _ _ _ _ _ (by decide) rfl,
    executeLoop_text_ok X _ _ _ _ _ _ _ (by omega) (by omega),
    executeLoop_step X _ .ruleAction50 _ _ _ _ _ _ _ (by decide) rfl,
    executeLoop_step X _ .ruleorExpr _ _ _ _ _ _ _ (by decide) rfl,
    executeLoop_step X _ .ruleExpression _ _ _ _ _ _ _ (by decide) rfl,
    executeLoop_text_ok X _ _ _ _ _ _ _ (by omega) (by omega),
    executeLoop_step X _ .ruleAction24 _ _ _ _ _ _ _ (by decide) rfl,
    executeLoop_step X _ .ruleEvalStmt _ _ _ _ _ _ _ (by decide) rfl,
    executeLoop_step X _ .ruleStatement _ _ _ _ _ _ _ (by decide) rfl,
    executeLoop_step X _ .rulespOpt _ _ _ _ _ _ _ (by decide) rfl,
    executeLoop_text_ok X _ _ _ _ _ _ _ (by omega) (by omega),
    executeLoop_step X _ .ruleAction1 _ _ _ _ _ _ _ (by decide) rfl,
    executeLoop_step X _ .ruleStatementWithoutRest _ _ _ _ _ _ _ (by decide) rfl,
    executeLoop_step X _ .ruleSingleStatement _ _ _ _ _ _ _ (by decide) rfl]
  rfl

/-- Claim C36: inside an expression a leading minus sign is taken by the unary-minus operator,
not by the numeric literal.  For every non-empty digit string `ds`: rule `minusExpr` on `-ds`
(before a rune that is no digit, no `.`, and starts no whitespace or operator) records
`UnaryMinus` over the `-` and `NumericLiteral` over `ds` alone; `Parse` of `EVAL -ds` returns
nil with the one `UnaryMinus` token at 5..6 (its `Action119` follows) and the one
`NumericLiteral` token at `6..6+|ds|`, and `Execute` pushes `UnaryMinus` and then the literal
`ds` without its sign.  The sign belongs to the literal where the literal is not reached
through `minusExpr`: in `LIMIT`, `RANGE` and sampling options and in `WITH` and `SET`
parameter values no `UnaryMinus` is recorded, and in `EVAL - -1` the first `-` is the unary
minus and the second belongs to the literal `-1`. -/
theorem C36_leading_minus_is_unary (Buffer : String) (ds : List Nat)
    (hB : runes Buffer = runes "EVAL -" ++ ds) (hds : isDigits ds = true) :
    (∀ (d p : Nat) (t : List token32) (c : Nat) (r : List Nat), plainHead c = true →
      isDigit c = false → c ≠ '.'.toNat →
      ∃ new, Eval (.call .ruleminusExpr) d p ('-'.toNat :: (ds ++ c :: r)) t
          (.ok (p + 1 + ds.length) (c :: r) (new ++ t)) ∧
        spansOf .ruleUnaryMinus new = [(p, p + 1)] ∧
        spansOf .ruleNumericLiteral new = [(p + 1, p + 1 + ds.length)]) ∧
    (∃ tree, Parse Buffer = .nil tree ∧
      spansOf .ruleUnaryMinus tree = [(5, 6)] ∧
      spansOf .ruleAction119 tree = [(6, 6)] ∧
      spansOf .ruleNumericLiteral tree = [(6, 6 + ds.length)] ∧
      spansOf .ruleFloatLiteral tree = []) ∧
    parseExecute Buffer = .calls
      [.PushComponent 5 6 (.const .UnaryMinus),
        .PushComponent 6 (6 + ds.length) (.text .NewNumericLiteral ds),
        .span .AssembleTypeCast 6 (6 + ds.length),
        .span .AssembleUnaryPrefixOperation 5 (6 + ds.length),
        .span .AssembleBinaryOperation 5 (6 + ds.length),
        .span .AssembleBinaryOperation 5 (6 + ds.length),
        .span .AssembleBinaryOperation 5 (6 + ds.length),
        .span .AssembleBinaryOperation 5 (6 + ds.length),
        .span .AssembleBinaryOperation 5 (6 + ds.length),
        .span .AssembleUnaryPrefixOperation 5 (6 + ds.length),
        .span .AssembleBinaryOperation 5 (6 + ds.length),
        .span .AssembleBinaryOperation 5 (6 + ds.length),
        .span .AssembleEval (6 + ds.length) (6 + ds.length),
        .span .IncludeTrailingWhitespace 0 (6 + ds.length)] ∧
    (∃ tree cs, Parse "EVAL - -1" = .nil tree ∧ parseExecute "EVAL - -1" = .calls cs ∧
      (spansOf .ruleUnaryMinus tree = [(5, 6)] ∧ spansOf .ruleNumericLiteral tree = [(7, 9)] ∧
        pushes cs = [.PushComponent 5 6 (.const .UnaryMinus),
          .PushComponent 7 9 (.text .NewNumericLiteral (runes "-1"))])) ∧
    (∃ tree cs,
      Parse "SELECT ISTREAM [SAMPLE -5% LIMIT -1] a FROM s [RANGE -1 TUPLES]" = .nil tree ∧
      parseExecute "SELECT ISTREAM [SAMPLE -5% LIMIT -1] a FROM s [RANGE -1 TUPLES]" =
        .calls cs ∧
      (spansOf .ruleUnaryMinus tree = [] ∧
        spansOf .ruleNumericLiteral tree = [(23, 25), (33, 35), (53, 55)] ∧
        .PushComponent 23 25 (.text .NewNumericLiteral (runes "-5")) ∈ cs ∧
        .PushComponent 33 35 (.text .NewNumericLiteral (runes "-1")) ∈ cs ∧
        .PushComponent 53 55 (.text .NewNumericLiteral (runes "-1")) ∈ cs)) ∧
    (∃ tree cs, Parse "CREATE SOURCE s TYPE t WITH k=-1" = .nil tree ∧
      parseExecute "CREATE SOURCE s TYPE t WITH k=-1" = .calls cs ∧
      (spansOf .ruleUnaryMinus tree = [] ∧ spansOf .ruleNumericLiteral tree = [(30, 32)] ∧
        .PushComponent 30 32 (.text .NewNumericLiteral (runes "-1")) ∈ cs)) ∧
    (∃ tree cs, Parse "UPDATE SOURCE s SET k=-1.5" = .nil tree ∧
      parseExecute "UPDATE SOURCE s SET k=-1.5" = .calls cs ∧
      (spansOf .ruleUnaryMinus tree = [] ∧ spansOf .ruleFloatLiteral tree = [(22, 26)] ∧
        .PushComponent 22 26 (.text .NewFloatLiteral (runes "-1.5")) ∈ cs)) := by
  have hE : runes "EVAL -" = [69, 86, 65, 76, 32, 45] := rfl
  rw [hE] at hB
  have hend : levelTails [end_symbol] := levelTails_plain end_symbol [] plainHead_end
  have hm := Eval_minusExpr_neg (5 + 17) 5
    [⟨.rulesp, 4, 5, 5⟩, ⟨.rulespElem, 4, 5, 6⟩, ⟨.rulespOpt, 0, 0, 1⟩] ds end_symbol []
    hds (by decide) (by decide) (Or.inl (by decide)) hend
  have hnot := (literal_first 45 (Or.inr (Or.inr rfl)) (5 + 7) 5 (ds ++ [end_symbol])
    [⟨.rulesp, 4, 5, 5⟩, ⟨.rulespElem, 4, 5, 6⟩, ⟨.rulespOpt, 0, 0, 1⟩]).2.2
  have hx := Eval_Expression_levels hm hnot hend
  have hns : noSpHead (45 :: ds) = true := by
    obtain ⟨x, xs, rfl, hx, _⟩ := isDigits_head hds
    have := (isDigit_iff x).mp hx
    simp [noSpHead]; omega
  have hS := Eval_SingleStatement_EVAL hns _
    (by rw [show 5 + (45 :: ds).length = 5 + 1 + ds.length from by simp; omega]; exact hx)
  have hI : Init (runes Buffer) = 69 :: 86 :: 65 :: 76 :: 32 :: (45 :: ds ++ [end_symbol]) := by
    rw [Init_runes, hB]; rfl
  rw [← hI] at hS
  have hP := Parse_of_eval hS
  have hX := Execute_EVAL_neg (runes Buffer) ds hB
  refine ⟨?_, ⟨_, hP, ?_, ?_, ?_, ?_⟩, ?_, ?_, ?_, ?_, ?_⟩
  · intro d p t c r hc hcd hc46
    have h45 : c ≠ 45 := by
      intro h; subst h; exact absurd hc (by decide)
    refine ⟨[⟨.ruleminusExpr, p, p + 1 + ds.length, d⟩,
         ⟨.ruleAction58, p + 1 + ds.length, p + 1 + ds.length, d + 1⟩,
         ⟨.rulePegText, p, p + 1 + ds.length, d + 1⟩,
         ⟨.rulecastExpr, p + 1, p + 1 + ds.length, d + 2⟩,
         ⟨.ruleAction59, p + 1 + ds.length, p + 1 + ds.length, d + 3⟩,
         ⟨.rulePegText, p + 1, p + 1 + ds.length, d + 3⟩,
         ⟨.rulebaseExpr, p + 1, p + 1 + ds.length, d + 4⟩,
         ⟨.ruleLiteral, p + 1, p + 1 + ds.length, d + 5⟩,
         ⟨.ruleNumericLiteral, p + 1, p + 1 + ds.length, d + 6⟩,
         ⟨.ruleAction73, p + 1 + ds.length, p + 1 + ds.length, d + 7⟩,
         ⟨.rulePegText, p + 1, p + 1 + ds.length, d + 7⟩,
         ⟨.rulespOpt, p + 1, p + 1, d + 2⟩,
         ⟨.ruleUnaryMinus, p, p + 1, d + 2⟩,
         ⟨.ruleAction119, p + 1, p + 1, d + 3⟩,
         ⟨.rulePegText, p, p + 1, d + 3⟩],
      Eval_minusExpr_neg d p t ds c r hds hcd h45 (Or.inl hc46) (levelTails_plain c r hc),
      by simp [spansOf], by simp [spansOf]⟩
  · simp [spansOf, levelTokens]
  · simp [spansOf, levelTokens]
  · simp [spansOf, levelTokens]
  · simp [spansOf, levelTokens]
  · unfold parseExecute
    rw [hP]
    simp only []
    rw [hX]
  · exact run_prop 85 "EVAL - -1" _ (by decide!)
  · exact run_prop 100 "SELECT ISTREAM [SAMPLE -5% LIMIT -1] a FROM s [RANGE -1 TUPLES]" _
      (by decide!)
  · exact run_prop 57 "CREATE SOURCE s TYPE t WITH k=-1" _ (by decide!)
  · exact run_prop 53 "UPDATE SOURCE s SET k=-1.5" _ (by decide!)

theorem C36_leading_minus_is_unary_witness :
    (runes "EVAL -12" = runes "EVAL -" ++ runes "12" ∧ isDigits (runes "12") = true) ∧
    ∃ tree, Parse "EVAL -12" = .nil tree ∧
      spansOf .ruleUnaryMinus tree = [(5, 6)] ∧
      spansOf .ruleAction119 tree = [(6, 6)] ∧
      spansOf .ruleNumericLiteral tree = [(6, 8)] ∧
      spansOf .ruleFloatLiteral tree = [] :=
  ⟨⟨rfl, rfl⟩, (C36_leading_minus_is_unary "EVAL -12" (runes "12") rfl rfl).2.1⟩



/-- The number of bytes of a string is at least its number of runes. -/
theorem length_le_stringLen : ∀ (s : List Nat), s.length ≤ stringLen s := by
  intro s
  induction s with
  | nil => exact Nat.le_refl _
  | cons x xs ih =>
    unfold stringLen at *
    simp only [List.map_cons, List.sum_cons, List.length_cons]
    have : 1 ≤ runeLen x := by
      unfold runeLen
      split
      · exact Nat.le_refl _
      · split
        · omega
        · split <;> omega
    omega

/-- What `split` returns on a bracket-quoted key, a dot and a rest without backslash and
`[`: the key, and the non-empty pieces between dots of what stands at the index `split`
resumes at, which lies beyond the dot by as many runes as the key has bytes more than
runes. -/
theorem split_quoted_key (isNumber : Nat → Bool) (k r : List Nat) (hne : k ≠ [])
    (hk : ∀ x ∈ k, x ≠ 34) (hr : ∀ x ∈ r, x ≠ 92 ∧ x ≠ 91) :
    split isNumber (91 :: 34 :: (k ++ 34 :: 93 :: 46 :: r)) =
      some (k :: (((46 :: r).drop (stringLen k - k.length)).splitOn 46).filter
        (fun p => p != [])) := by
  unfold split
  have h0 : (91 :: 34 :: (k ++ 34 :: 93 :: 46 :: r)).drop 0 =
      91 :: 34 :: (k ++ 34 :: 93 :: 46 :: r) := rfl
  have hb : splitBracket isNumber (91 :: 34 :: (k ++ 34 :: 93 :: 46 :: r)) (0 + 2) 34 =
      some k :=
    @splitBracket_key_plain isNumber _ 34 (0 + 2) k (46 :: r) hk rfl (Or.inr (by simp))
  rw [splitLoop_quote isNumber h0 (Or.inl rfl) hb hne]
  have hle := length_le_stringLen k
  have hd : (91 :: 34 :: (k ++ 34 :: 93 :: 46 :: r)).drop (0 + (1 + stringLen k + 2) + 1) =
      (46 :: r).drop (stringLen k - k.length) := by
    have e1 : 0 + (1 + stringLen k + 2) + 1 =
        (91 :: 34 :: (k ++ [34, 93])).length + (stringLen k - k.length) := by
      simp; omega
    have e2 : 91 :: 34 :: (k ++ 34 :: 93 :: 46 :: r) =
        (91 :: 34 :: (k ++ [34, 93])) ++ 46 :: r := by simp
    rw [e1, e2, List.drop_append]
  have hr2 : ∀ x ∈ (46 :: r).drop (stringLen k - k.length), x ≠ 92 ∧ x ≠ 91 := by
    intro x hx
    have := List.mem_of_mem_drop hx
    rcases List.mem_cons.mp this with rfl | h
    · decide
    · exact hr x h
  have hf : ((46 :: r).drop (stringLen k - k.length)).length <
      (91 :: 34 :: (k ++ 34 :: 93 :: 46 :: r)).length := by
    simp; omega
  rw [splitLoop_dots isNumber _ _ _ _ _ [] hd hr2 hf]
  have e3 : (((46 :: r).drop (stringLen k - k.length)).splitOn 46).modifyHead
      (fun p => [] ++ p) = ((46 :: r).drop (stringLen k - k.length)).splitOn 46 := by
    cases ((46 :: r).drop (stringLen k - k.length)).splitOn 46 <;> rfl
  rw [e3]
  simp [appendPart]

/-- Claim C37, as the code has it: for every non-empty key `k` without the quote and every
`r` of ASCII letters, `split` of `["` + k + `"].` + r is `[k]` followed by `split` of what
stands at the index it resumes at.  That index is `1 + len(k) + 2 + 1` after the `[`, with
`len(k)` the number of bytes of `k`: when `k` has as many bytes as runes, as every ASCII
key has, it is the rune after the closing `]` and the result is `[k]` followed by
`split(r)`; when `k` has non-ASCII runes it lies beyond, and runes of `r` are lost. -/
theorem C37_split_resume_after_key (isNumber : Nat → Bool) (k r : List Nat) (hne : k ≠ [])
    (hk : ∀ x ∈ k, x ≠ '"'.toNat) (hr : r.all isLetter = true) :
    split isNumber ('['.toNat :: '"'.toNat :: (k ++ '"'.toNat :: ']'.toNat :: '.'.toNat :: r)) =
      some (k :: (((46 :: r).drop (stringLen k - k.length)).splitOn 46).filter
        (fun p => p != [])) ∧
    (stringLen k = k.length →
      ∃ ps, split isNumber r = some ps ∧
        split isNumber
          ('['.toNat :: '"'.toNat :: (k ++ '"'.toNat :: ']'.toNat :: '.'.toNat :: r)) =
          some (k :: ps)) ∧
    ((∀ x ∈ k, x < 128) → stringLen k = k.length) := by
  have hr2 : ∀ x ∈ r, x ≠ 92 ∧ x ≠ 91 := by
    intro x hx
    have := List.all_eq_true.mp hr x hx
    simp only [isLetter, Bool.or_eq_true, decide_eq_true_eq] at this
    omega
  have h1 := split_quoted_key isNumber k r hne hk hr2
  refine ⟨h1, fun he => ?_, fun ha => stringLen_ascii k ha⟩
  refine ⟨_, split_dots isNumber r hr2, ?_⟩
  show split isNumber (91 :: 34 :: (k ++ 34 :: 93 :: 46 :: r)) = _
  rw [h1, he, Nat.sub_self]
  have hso : (46 :: r).splitOn 46 = [] :: r.splitOn 46 := by
    unfold List.splitOn
    rw [List.splitOnP_cons]
    simp
  simp [hso]

/-- Witness of `C37_split_resume_after_key`: `split` of `["ab"].cd` is `ab`, `cd`; but
`split` of `["éé"].ab`, whose key has two runes and four bytes, is `éé`, `b`: it resumes
two runes too far and loses the `a`. -/
theorem C37_split_resume_after_key_witness :
    split asciiNumber (runes "[\"ab\"].cd") = some [runes "ab", runes "cd"] ∧
    split asciiNumber (runes "[\"éé\"].ab") = some [runes "éé", runes "b"] ∧
    split asciiNumber (runes "[\"éé\"].ab") ≠ some [runes "éé", runes "ab"] ∧
    split asciiNumber (runes "ab") = some [runes "ab"] :=
  ⟨(C37_split_resume_after_key asciiNumber (runes "ab") (runes "cd") (by decide) (by decide)
      (by decide)).1,
   (C37_split_resume_after_key asciiNumber (runes "éé") (runes "ab") (by decide) (by decide)
      (by decide)).1,
   by decide, by decide⟩



/-- Claim C38: parameter arrays and expression arrays differ in where whitespace may stand
around the separating comma.  For every two non-empty digit strings `a` and `b`, wherever the
text stands: rule `ArrayExpr` matches the whole of `[a , b]`, with the two elements `a` and
`b`; rule `ParamArrayExpr` returns false on `[a , b]` and matches the whole of `[a, b]` with
the two literals.  So `EVAL [1 , 2]` is accepted with two elements,
`CREATE SOURCE s TYPE t WITH k=[1 , 2]` is a parse error and
`CREATE SOURCE s TYPE t WITH k=[1, 2]` is accepted. -/
theorem C38_array_separator_whitespace (a b : List Nat) (ha : isDigits a = true)
    (hb : isDigits b = true) (d p : Nat) (t : List token32) (r : List Nat) :
    (∃ new, Eval (.call .ruleArrayExpr) d p
        ('['.toNat :: (a ++ ' '.toNat :: ','.toNat :: ' '.toNat :: (b ++ ']'.toNat :: r))) t
        (.ok (p + 1 + a.length + 1 + 1 + 1 + b.length + 1) r (new ++ t)) ∧
      spansOf .ruleNumericLiteral new =
        [(p + 1 + a.length + 1 + 1 + 1, p + 1 + a.length + 1 + 1 + 1 + b.length),
         (p + 1, p + 1 + a.length)] ∧
      spansOf .ruleExpressionOrWildcard new =
        [(p + 1 + a.length + 1 + 1 + 1, p + 1 + a.length + 1 + 1 + 1 + b.length),
         (p + 1, p + 1 + a.length)]) ∧
    Eval (.call .ruleParamArrayExpr) d p
      ('['.toNat :: (a ++ ' '.toNat :: ','.toNat :: ' '.toNat :: (b ++ ']'.toNat :: r))) t
      .fail ∧
    (∃ new, Eval (.call .ruleParamArrayExpr) d p
        ('['.toNat :: (a ++ ','.toNat :: ' '.toNat :: (b ++ ']'.toNat :: r))) t
        (.ok (p + 1 + a.length + 1 + 1 + b.length + 1) r (new ++ t)) ∧
      spansOf .ruleNumericLiteral new =
        [(p + 1 + a.length + 1 + 1, p + 1 + a.length + 1 + 1 + b.length),
         (p + 1, p + 1 + a.length)]) ∧
    (∃ tree cs, Parse "EVAL [1 , 2]" = .nil tree ∧ parseExecute "EVAL [1 , 2]" = .calls cs ∧
      (spansOf .ruleArrayExpr tree = [(5, 12)] ∧
        spansOf .ruleExpressionOrWildcard tree = [(6, 7), (10, 11)] ∧
        pushes cs = [.PushComponent 6 7 (.text .NewNumericLiteral (runes "1")),
          .PushComponent 10 11 (.text .NewNumericLiteral (runes "2"))])) ∧
    parseExecute "CREATE SOURCE s TYPE t WITH k=[1 , 2]" = .parseError ∧
    (∃ tree cs, Parse "CREATE SOURCE s TYPE t WITH k=[1, 2]" = .nil tree ∧
      parseExecute "CREATE SOURCE s TYPE t WITH k=[1, 2]" = .calls cs ∧
      (spansOf .ruleParamArrayExpr tree = [(30, 36)] ∧
        .PushComponent 31 32 (.text .NewNumericLiteral (runes "1")) ∈ cs ∧
        .PushComponent 34 35 (.text .NewNumericLiteral (runes "2")) ∈ cs)) :=
  ⟨Eval_ArrayExpr_blank_comma d p t a b r ha hb,
    Eval_ParamArrayExpr_blank_comma d p t a b r ha hb,
    Eval_ParamArrayExpr_comma_blank d p t a b r ha hb,
    run_prop 150 "EVAL [1 , 2]" _ (by decide!),
    parseExecute_parseError 66 (by decide) (by decide!),
    run_prop 68 "CREATE SOURCE s TYPE t WITH k=[1, 2]" _ (by decide!)⟩

theorem C38_array_separator_whitespace_witness :
    (isDigits (runes "1") = true ∧ isDigits (runes "2") = true) ∧
    Eval (.call .ruleParamArrayExpr) 0 0 (runes "[1 , 2]" ++ [end_symbol]) [] .fail :=
  ⟨⟨rfl, rfl⟩, (C38_array_separator_whitespace (runes "1") (runes "2") rfl rfl 0 0 []
    [end_symbol]).2.1⟩



/-- Claim C39: `scanMap` writes to its output value only on success: when compiling the path
fails, or evaluating it on the map fails, it returns that error and leaves `*v` as it was;
when both succeed it returns nil and `*v` is the evaluated value.  `setInMap` returns the
compile error without calling `Set` when the path does not compile: the map is as it was,
whatever `Set` would do; and when the path compiles it returns what `Set` returns. -/
theorem C39_scanMap_writes_on_success {Path Map Val Err : Type}
    (CompilePath : List Nat → Except Err Path) (Evaluate : Path → Map → Except Err Val)
    (Set : Path → Map → Val → Option Err × Map) (m : Map) (p : List Nat) (v : Val) :
    (∀ err, CompilePath p = .error err →
      scanMap CompilePath Evaluate m p v = (some err, v)) ∧
    (∀ path err, CompilePath p = .ok path → Evaluate path m = .error err →
      scanMap CompilePath Evaluate m p v = (some err, v)) ∧
    (∀ path val, CompilePath p = .ok path → Evaluate path m = .ok val →
      scanMap CompilePath Evaluate m p v = (none, val)) ∧
    ((scanMap CompilePath Evaluate m p v).1 ≠ none →
      (scanMap CompilePath Evaluate m p v).2 = v) ∧
    (∀ err, CompilePath p = .error err →
      setInMap CompilePath Set m p v = (some err, m) ∧
      ∀ Set2 : Path → Map → Val → Option Err × Map,
        setInMap CompilePath Set2 m p v = setInMap CompilePath Set m p v) ∧
    (∀ path, CompilePath p = .ok path →
      setInMap CompilePath Set m p v = Set path m v) := by
  refine ⟨fun err h => ?_, fun path err h1 h2 => ?_, fun path val h1 h2 => ?_, ?_,
    fun err h => ⟨?_, fun Set2 => ?_⟩, fun path h => ?_⟩
  · simp only [scanMap, h]
  · simp only [scanMap, h1, h2]
  · simp only [scanMap, h1, h2]
  · cases h1 : CompilePath p with
    | error err => intro _; simp only [scanMap, h1]
    | ok path =>
      cases h2 : Evaluate path m with
      | error err => intro _; simp only [scanMap, h1, h2]
      | ok val => intro h; simp only [scanMap, h1, h2] at h; exact absurd rfl h
  · simp only [setInMap, h]
  · simp only [setInMap, h]
  · simp only [setInMap, h]



/-- Claim C40: every token of a successful parse is well-formed.  When `Parse` returns nil
with the tree `tree` on an input of `n` runes: the tree, read from its last token back, is the
post-order record of one sequence of matches at depth 0 between the positions 0 and `n`
(`Forest`); every token has `begin ≤ end ≤ n`, so that the slice `_buffer[begin:end]` is in
range and `Execute` runs to its end; every action token has `begin = end`; and every token
stands directly after the tokens of its children and their descendants (`kids`), which lie
within its span, are deeper than it, and form such a record one level below it, the token
before them being not deeper than the token itself. -/
theorem C40_tokens_well_formed (Buffer : String) (tree : List token32)
    (h : Parse Buffer = .nil tree) :
    Forest 0 0 (runes Buffer).length tree.reverse ∧
    (∀ tok ∈ tree, tok.begin_ ≤ tok.end_ ∧ tok.end_ ≤ (runes Buffer).length) ∧
    (∀ tok ∈ tree, grammar tok.rule = .action → tok.begin_ = tok.end_) ∧
    (∀ tok ∈ tree, ∃ s, slice (Init (runes Buffer)) tok.begin_ tok.end_ = some s) ∧
    (∃ cs, Execute (runes Buffer) tree = some cs) ∧
    (∀ (before : List token32) (tok : token32) (after : List token32),
      tree = before ++ tok :: after →
      ∃ older kids, before = older ++ kids ∧
        Forest (tok.next + 1) tok.begin_ tok.end_ kids.reverse ∧
        (∀ k ∈ kids, tok.next < k.next ∧ tok.begin_ ≤ k.begin_ ∧ k.end_ ≤ tok.end_) ∧
        (∀ x, kids.getLast? = some x → x.next = tok.next + 1) ∧
        ∀ x, older.getLast? = some x → x.next ≤ tok.next) := by
  obtain ⟨p1, r1, toks, hE, rfl⟩ := Parse_nil_eval h
  obtain ⟨f, hf, _⟩ := hE
  obtain ⟨new, hnew, hF⟩ := execF_forest f _ _ _ _ _ _ _ _ hf
  rw [List.append_nil] at hnew
  subst hnew
  have hc := execF_consumed f _ _ _ _ _ _ _ _ hf
  have hg1 : Good r1 := hc.good (Good_text _)
  obtain ⟨w, hw, hp1, _, _, _⟩ := hc
  have hp1n : p1 ≤ (runes Buffer).length := by
    have := congrArg List.length hw
    simp only [List.length_append, List.length_singleton] at this
    have := List.length_pos.mpr hg1.ne_nil
    omega
  have hF' : Forest 0 0 (runes Buffer).length toks := hF.mono_hi hp1n
  have hb := hF'.bounds
  have hlenI : (Init (runes Buffer)).length = (runes Buffer).length + 1 := by
    rw [Init_runes]; simp
  refine ⟨by rw [List.reverse_reverse]; exact hF', ?_, ?_, ?_, ?_, ?_⟩
  · intro tok ht
    have := hb tok (List.mem_reverse.mp ht)
    exact ⟨this.2.1, this.2.2.1⟩
  · intro tok ht
    exact hF'.action tok (List.mem_reverse.mp ht)
  · intro tok ht
    have := hb tok (List.mem_reverse.mp ht)
    refine ⟨((Init (runes Buffer)).drop tok.begin_).take (tok.end_ - tok.begin_), ?_⟩
    unfold slice
    rw [if_pos ⟨this.2.1, by omega⟩]
  · unfold Execute
    exact executeLoop_in_range _ _ (by omega) _ 0 0 (Nat.le_refl _) (Nat.zero_le _)
      (fun tok ht => by
        have := hb tok (List.mem_reverse.mp ht)
        exact ⟨this.2.1, this.2.2.1⟩)
  · intro before tok after ht
    have ht2 : toks = after.reverse ++ tok :: before.reverse := by
      have := congrArg List.reverse ht
      rw [List.reverse_reverse] at this
      rw [this]; simp
    obtain ⟨kids, older, hk, hfk, ho⟩ := hF'.subtree _ _ _ ht2
    refine ⟨older.reverse, kids.reverse, ?_, by rw [List.reverse_reverse]; exact hfk, ?_, ?_,
      ?_⟩
    · have := congrArg List.reverse hk
      rw [List.reverse_reverse] at this
      rw [this]; simp
    · intro k hkm
      have := hfk.bounds k (List.mem_reverse.mp hkm)
      exact ⟨by omega, this.1, this.2.2.1⟩
    · intro x hx
      rw [List.getLast?_reverse] at hx
      exact hfk.head_depth x hx
    · intro x hx
      rw [List.getLast?_reverse] at hx
      exact ho x hx

/-- Witness of `C40_tokens_well_formed`: the tree of `EVAL 1`. -/
theorem C40_tokens_well_formed_witness :
    ∃ tree, Parse "EVAL 1" = .nil tree ∧
      Forest 0 0 (runes "EVAL 1").length tree.reverse ∧
      (∀ tok ∈ tree, tok.begin_ ≤ tok.end_ ∧ tok.end_ ≤ (runes "EVAL 1").length) ∧
      ∃ cs, Execute (runes "EVAL 1") tree = some cs := by
  obtain ⟨tree, _, hP, _, _⟩ := run_prop 85 "EVAL 1" (fun _ _ => True) (by decide!)
  have h := C40_tokens_well_formed "EVAL 1" tree hP
  exact ⟨tree, hP, h.1, h.2.1, h.2.2.2.2.1⟩



end Bql
